import Mathlib

/-!
# Beta reduction of lambda terms over a bit-vector expression DAG

A shallow embedding of `src/btorbeta.c` (Boolector): the parameter binding
stacks, the cross-call cache of beta-reduction results, the iterative
full / bounded / lambda-chain reducer `btor_beta_reduce` and the partial
reducer `btor_beta_reduce_partial_aux`. A separate section embeds the loop
that reads the puzzle in `src/examples/sudoku/sudoku.c`.

Conventions of the embedding.

* A node is a value of the inductive type `BtorNode`; two nodes are the same
  node exactly when they are equal. A reference `Ref` is a node together with
  the inversion bit that the C code folds into the pointer.
* The fields of a node that the reducer reads (kind, width, flags) are stored
  in `NodeInfo`, as they are stored in the C struct.
* The expression library (simplifier, rewriting constructors) is outside
  `src/`; it is taken as a parameter `Ext`.
* `assert` is modelled as an abort: every function that can fail an assertion
  returns `Option`, and `none` is the abort.
* Stacks are lists whose head is the top of the stack.
* Reference counts are not part of the loop state: `btor_copy_exp` is the
  identity on references. The copies and releases of `btor_beta_reduce` are
  followed on a separate table of counts, in the section on reference counts.
-/

namespace Beta

/-! ## Data model -/

/-- Node kinds of the expression graph. -/
inductive BtorNodeKind where
  | bv_const | bv_var | array_var | param | slice | and | beq | aeq | add | mul
  | ult | sll | srl | udiv | urem | concat | args | apply | lambda | bcond | acond
  deriving DecidableEq, Repr

/-- The stored fields of a node: identity, kind, width, slice bounds, flags. -/
structure NodeInfo where
  id : Nat
  kind : BtorNodeKind
  len : Nat := 1
  upper : Nat := 0
  lower : Nat := 0
  parameterized : Bool := false
  lambda_below : Bool := false
  chain : Bool := false
  constraint : Bool := false
  /-- `BTOR_IS_NESTED_LAMBDA_NODE`: the lambda belongs to a chain of nested lambdas. -/
  is_nested : Bool := false
  /-- `BTOR_IS_FIRST_NESTED_LAMBDA`: the lambda is the head of its chain. -/
  is_first_nested : Bool := false
  /-- The flag `tseitin`: the node has been encoded. -/
  tseitin : Bool := false
  deriving DecidableEq, Repr

/-- A node with its children `e[0..arity)`; `v0 v1 v2` are the inversion bits
of the child references. -/
inductive BtorNode where
  | n0 (i : NodeInfo)
  | n1 (i : NodeInfo) (c0 : BtorNode) (v0 : Bool)
  | n2 (i : NodeInfo) (c0 : BtorNode) (v0 : Bool) (c1 : BtorNode) (v1 : Bool)
  | n3 (i : NodeInfo) (c0 : BtorNode) (v0 : Bool) (c1 : BtorNode) (v1 : Bool)
      (c2 : BtorNode) (v2 : Bool)
  deriving DecidableEq, Repr

/-- A node reference: the real address and the inversion bit. -/
structure Ref where
  node : BtorNode
  inv : Bool := false
  deriving DecidableEq, Repr

namespace BtorNode

def info : BtorNode → NodeInfo
  | n0 i => i
  | n1 i _ _ => i
  | n2 i _ _ _ _ => i
  | n3 i _ _ _ _ _ _ => i

def kind (n : BtorNode) : BtorNodeKind := n.info.kind
def len (n : BtorNode) : Nat := n.info.len
def parameterized (n : BtorNode) : Bool := n.info.parameterized
def lambda_below (n : BtorNode) : Bool := n.info.lambda_below

/-- The children `e[0], ..., e[arity-1]` in positional order. -/
def e : BtorNode → List Ref
  | n0 _ => []
  | n1 _ c0 v0 => [⟨c0, v0⟩]
  | n2 _ c0 v0 c1 v1 => [⟨c0, v0⟩, ⟨c1, v1⟩]
  | n3 _ c0 v0 c1 v1 c2 v2 => [⟨c0, v0⟩, ⟨c1, v1⟩, ⟨c2, v2⟩]

def arity (n : BtorNode) : Nat := n.e.length

def BTOR_IS_LAMBDA_NODE (n : BtorNode) : Bool := n.kind == .lambda
def BTOR_IS_PARAM_NODE (n : BtorNode) : Bool := n.kind == .param
def BTOR_IS_APPLY_NODE (n : BtorNode) : Bool := n.kind == .apply
def BTOR_IS_ARGS_NODE (n : BtorNode) : Bool := n.kind == .args
def BTOR_IS_BV_CONST_NODE (n : BtorNode) : Bool := n.kind == .bv_const
def BTOR_IS_BV_VAR_NODE (n : BtorNode) : Bool := n.kind == .bv_var
def BTOR_IS_ARRAY_VAR_NODE (n : BtorNode) : Bool := n.kind == .array_var

/-- Modelled from the spec: the macro `BTOR_IS_FUN_NODE` is not under `src/`;
the spec calls the function child of an apply a lambda, so a function node is
a lambda node. -/
def BTOR_IS_FUN_NODE (n : BtorNode) : Bool := n.kind == .lambda

/-- Modelled from the spec: `BTOR_IS_ARRAY_NODE` is not under `src/`; the
array kinds of the data model are the array variable and the array
conditional. -/
def BTOR_IS_ARRAY_NODE (n : BtorNode) : Bool := n.kind == .array_var || n.kind == .acond

def BTOR_IS_NESTED_LAMBDA_NODE (n : BtorNode) : Bool := n.info.is_nested
def BTOR_IS_FIRST_NESTED_LAMBDA (n : BtorNode) : Bool := n.info.is_first_nested

end BtorNode

namespace Ref

/-- `BTOR_INVERT_NODE`: toggle the inversion bit. -/
def invert (r : Ref) : Ref := ⟨r.node, !r.inv⟩

/-- `BTOR_IS_REGULAR_NODE`. -/
def regular (r : Ref) : Bool := !r.inv

/-- Re-apply the inversion bit of a reference `cur` to a result:
`if (BTOR_IS_INVERTED_NODE (cur)) result = BTOR_INVERT_NODE (result)`. -/
def cond_invert (cur : Ref) (result : Ref) : Ref :=
  if cur.inv then result.invert else result

end Ref

/-- A regular reference to a node. -/
def BtorNode.ref (n : BtorNode) : Ref := ⟨n, false⟩

/-- The expression library consumed by the reducer (not under `src/`). -/
structure Ext where
  simplify : Ref → Ref
  /-- `btor_pointer_chase_simplified_exp` -/
  chase : Ref → Ref
  slice_exp : Ref → Nat → Nat → Ref
  and_exp : Ref → Ref → Ref
  eq_exp : Ref → Ref → Ref
  add_exp : Ref → Ref → Ref
  mul_exp : Ref → Ref → Ref
  ult_exp : Ref → Ref → Ref
  sll_exp : Ref → Ref → Ref
  srl_exp : Ref → Ref → Ref
  udiv_exp : Ref → Ref → Ref
  urem_exp : Ref → Ref → Ref
  concat_exp : Ref → Ref → Ref
  /-- `btor_args_exp (btor, argc, e)` -/
  args_exp : List Ref → Ref
  apply_exp_node : Ref → Ref → Ref
  cond_exp : Ref → Ref → Ref → Ref
  lambda_exp : Ref → Ref → Ref
  param_exp : Nat → Ref
  /-- `btor_eval_exp`: the value of a bit-vector term under the current
  bindings as a string of bits, or null. -/
  eval_exp : (BtorNode → List Ref) → Ref → Option (List Char)

/-! ## Hash tables

`btor_find_in_ptr_hash_table` and `btor_insert_in_ptr_hash_table` are generic
containers outside `src/`; a table is the list of its buckets, newest first. -/

abbrev PtrHashTable (κ ν : Type) := List (κ × ν)

namespace PtrHashTable

variable {κ ν : Type} [DecidableEq κ]

/-- Modelled from the spec: `btor_find_in_ptr_hash_table`, the data of the
bucket with the given key, if there is one. -/
def find : PtrHashTable κ ν → κ → Option ν
  | [], _ => none
  | (k, v) :: t, x => if k = x then some v else find t x

/-- Modelled from the spec: write the data of the bucket of `x`, inserting the
bucket if it is absent (`btor_insert_in_ptr_hash_table (t, x)->data = v`, or
`bucket->data = v` on a bucket that was found). -/
def set : PtrHashTable κ ν → κ → ν → PtrHashTable κ ν
  | [], x, v => [(x, v)]
  | (k, w) :: t, x, v => if k = x then (k, v) :: t else (k, w) :: set t x v

end PtrHashTable

/-- Events recorded for the frame properties (ghost state, not in the C
code): a node popped from the work stack, a call of a rewriting constructor,
a binding pushed on a parameter, a constructor call of the partial reducer. -/
inductive Event where
  | visit (n : BtorNode)
  | construct (k : BtorNodeKind)
  | assign (param : BtorNode) (arg : Ref)
  /-- A call of a rewriting constructor by the partial reducer, with the
  rewrite level in force at the call. -/
  | rewrite (k : BtorNodeKind) (level : Int)
  deriving DecidableEq, Repr

/-- The part of the solver state `Btor` that the reducer reads or writes. -/
structure Btor where
  /-- `btor->cache`: keys are pairs (lambda, args), values results; `none` is
  the null pointer. -/
  cache : Option (PtrHashTable (Ref × Ref) Ref)
  /-- `assigned_exp` of every parameter node, top of the stack first. -/
  assigned_exp : BtorNode → List Ref
  /-- The field `beta_mark` of every node. -/
  beta_mark : BtorNode → Nat
  /-- `btor->rewrite_level`. -/
  rewrite_level : Int
  /-- Ghost: the events so far, newest first. -/
  log : List Event


/-! ## Cross-call cache -/

/-- `cache_beta_result`: store `result` under the key `(lambda, exp)`; a key
that is present must already map to `result`. -/
def cache_beta_result (btor : Btor) (lambda exp result : Ref) : Option Btor :=
  if !(lambda.regular && lambda.node.BTOR_IS_LAMBDA_NODE) then none
  else
    match btor.cache with
    | none => none
    | some cache =>
      match PtrHashTable.find cache (lambda, exp) with
      | some data => if data = result then some btor else none
      | none => some { btor with cache := some (PtrHashTable.set cache (lambda, exp) result) }

/-- `cached_beta_result`: the result stored under `(lambda, exp)`, or null.
The outer `Option` is the abort of a failed assertion. -/
def cached_beta_result (btor : Btor) (lambda exp : Ref) : Option (Option Ref) :=
  if !(lambda.regular && lambda.node.BTOR_IS_LAMBDA_NODE) then none
  else
    match btor.cache with
    | none => none
    | some cache => some (PtrHashTable.find cache (lambda, exp))

/-! ## Parameter binding stacks -/

/-- `btor_param_cur_assignment`: the top of the binding stack of `param`, or
null. The outer `Option` is the abort of a failed assertion. -/
def btor_param_cur_assignment (btor : Btor) (param : Ref) : Option (Option Ref) :=
  if !(param.regular && param.node.BTOR_IS_PARAM_NODE) then none
  else some (btor.assigned_exp param.node).head?

/-- `btor_assign_param`: push `arg` on the binding stack of the parameter of
`lambda`. -/
def btor_assign_param (btor : Btor) (lambda arg : Ref) : Option Btor :=
  if !(lambda.regular && lambda.node.BTOR_IS_LAMBDA_NODE) then none
  else
    match lambda.node.e.head? with
    | none => none
    | some param =>
      if !param.regular then none
      else if arg.node.len ≠ param.node.len then none
      else some { btor with
        assigned_exp :=
          Function.update btor.assigned_exp param.node (arg :: btor.assigned_exp param.node)
        log := Event.assign param.node arg :: btor.log }

/-- The loop of `btor_assign_args`: `cur` is the position of the lambda
iterator, the list holds the arguments that the args iterator still has.
Modelled from the spec: the iterators of `btoriter.h` are not under `src/`;
the lambda iterator walks from a lambda to its body while the body is a
lambda. -/
def btor_assign_args_loop (btor : Btor) (cur : BtorNode) : List Ref → Option Btor
  | [] => some btor
  | cur_arg :: rest =>
    if !cur.BTOR_IS_LAMBDA_NODE then none
    else
      match btor_assign_param btor cur.ref cur_arg, cur.e.get? 1 with
      | some btor1, some body => btor_assign_args_loop btor1 body.node rest
      | some _, none => none
      | none, _ => none

/-- `btor_assign_args`: bind the arguments of the args node `args` to the
lambdas of the chain that starts at `fun`, in positional order.
Modelled from the spec: the args iterator yields the 1 to 3 children of the
args node in forward positional order. -/
def btor_assign_args (btor : Btor) (func args : Ref) : Option Btor :=
  if !(func.regular && args.regular && func.node.BTOR_IS_LAMBDA_NODE
        && args.node.BTOR_IS_ARGS_NODE) then none
  else btor_assign_args_loop btor func.node args.node.e

/-- The do-while loop of `btor_unassign_params`, on the binding stacks. -/
def btor_unassign_params_loop (assigned : BtorNode → List Ref) :
    BtorNode → Option (BtorNode → List Ref)
  | .n2 _ c0 _ c1 _ =>
    if (assigned c0).isEmpty then some assigned
    else
      let assigned1 := Function.update assigned c0 (assigned c0).tail
      if c1.BTOR_IS_LAMBDA_NODE then btor_unassign_params_loop assigned1 c1
      else some assigned1
  | .n3 _ c0 _ c1 _ _ _ =>
    if (assigned c0).isEmpty then some assigned
    else
      let assigned1 := Function.update assigned c0 (assigned c0).tail
      if c1.BTOR_IS_LAMBDA_NODE then btor_unassign_params_loop assigned1 c1
      else some assigned1
  | _ => none

/-- `btor_unassign_params`: pop one binding per level of the chain that starts
at `lambda`, stopping at the first level whose parameter has no binding. -/
def btor_unassign_params (btor : Btor) (lambda : Ref) : Option Btor :=
  if !(lambda.regular && lambda.node.BTOR_IS_LAMBDA_NODE) then none
  else
    match lambda.node.e.head? with
    | none => none
    | some p =>
      if !p.node.BTOR_IS_PARAM_NODE then none
      else
        match btor_unassign_params_loop btor.assigned_exp lambda.node with
        | none => none
        | some assigned => some { btor with assigned_exp := assigned }

/-! ## The full / bounded / lambda-chain reducer -/

def BETA_RED_LAMBDA_CHAINS : Int := -2
def BETA_RED_FULL : Int := 0
def BETA_RED_BOUNDED : Int := 1

/-- The local variables of `btor_beta_reduce` that live across iterations of
the worklist loop, together with the solver state. An entry of the work stack
is the pair `(cur, cur_parent)` that the C code pushes as two pointers. -/
structure LoopState where
  btor : Btor
  work_stack : List (Ref × Option BtorNode)
  arg_stack : List Ref
  cur_scope : PtrHashTable BtorNode Nat
  cur_scope_results : PtrHashTable BtorNode Ref
  cur_scope_lambda : Option BtorNode
  scopes : List (PtrHashTable BtorNode Nat)
  scope_results : List (PtrHashTable BtorNode Ref)
  scope_lambdas : List (Option BtorNode)
  unassign_stack : List BtorNode

/-- Ghost: record an event. -/
def LoopState.record (s : LoopState) (ev : Event) : LoopState :=
  { s with btor := { s.btor with log := ev :: s.btor.log } }

/-- The macro `BETA_REDUCE_OPEN_NEW_SCOPE`. -/
def BETA_REDUCE_OPEN_NEW_SCOPE (lambda : BtorNode) (s : LoopState) : LoopState :=
  { s with
    scopes := s.cur_scope :: s.scopes
    scope_results := s.cur_scope_results :: s.scope_results
    scope_lambdas := s.cur_scope_lambda :: s.scope_lambdas
    cur_scope := []
    cur_scope_results := []
    cur_scope_lambda := some lambda }

/-- The macro `BETA_REDUCE_CLOSE_SCOPE`. -/
def BETA_REDUCE_CLOSE_SCOPE (s : LoopState) : Option LoopState :=
  match s.cur_scope_lambda, s.scopes, s.scope_results, s.scope_lambdas with
  | some _, sc :: scs, sr :: srs, sl :: sls =>
    some { s with
      cur_scope := sc
      cur_scope_results := sr
      cur_scope_lambda := sl
      scopes := scs
      scope_results := srs
      scope_lambdas := sls }
  | _, _, _, _ => none

/-- The simplification of the popped node at the head of the loop body. -/
def simplify_cur (env : Ext) (cur : Ref) : Ref :=
  if cur.node.info.constraint && cur.node.BTOR_IS_APPLY_NODE then env.chase cur
  else env.simplify cur

/-- The label `BETA_REDUCE_PUSH_ARG_STACK_WITHOUT_CLOSE_SCOPE`. -/
def push_arg_stack_without_close_scope (cur result : Ref) (s : LoopState) : LoopState :=
  { s with arg_stack := cur.cond_invert result :: s.arg_stack }

/-- The label `BETA_REDUCE_UNASSIGN_PARAMS`. -/
def unassign_params_label (real_cur : BtorNode) (s : LoopState) : Option LoopState :=
  let s1 :=
    if s.unassign_stack.head? = some real_cur then
      { s with unassign_stack := s.unassign_stack.tail }
    else s
  match real_cur.e.head? with
  | none => none
  | some p =>
    match btor_param_cur_assignment s1.btor p with
    | none => none
    | some none => some s1
    | some (some _) =>
      match btor_unassign_params s1.btor real_cur.ref with
      | none => none
      | some btor1 => some { s1 with btor := btor1 }

/-- The label `BETA_REDUCE_PUSH_ARG_STACK`: mark `real_cur` done, memoize the
result of a parameterized node in the current scope, close the scope of its
head lambda, unassign, and push the result with the inversion bit of `cur`. -/
def push_arg_stack (cur : Ref) (real_cur : BtorNode) (result : Ref) (s : LoopState) :
    Option LoopState :=
  if PtrHashTable.find s.cur_scope real_cur = some 2 then none
  else
    let s1 := { s with cur_scope := PtrHashTable.set s.cur_scope real_cur 2 }
    let stored : Option LoopState :=
      if real_cur.parameterized then
        if (PtrHashTable.find s1.cur_scope_results real_cur).isSome then none
        else some { s1 with
          cur_scope_results := PtrHashTable.set s1.cur_scope_results real_cur result }
      else some s1
    match stored with
    | none => none
    | some s2 =>
      let unassigned : Option LoopState :=
        if s2.cur_scope_lambda = some real_cur then
          match BETA_REDUCE_CLOSE_SCOPE s2 with
          | none => none
          | some s3 => unassign_params_label real_cur s3
        else if real_cur.BTOR_IS_LAMBDA_NODE && !real_cur.BTOR_IS_NESTED_LAMBDA_NODE
            && real_cur.parameterized then
          unassign_params_label real_cur s2
        else some s2
      match unassigned with
      | none => none
      | some s4 => some (push_arg_stack_without_close_scope cur result s4)

/-- The rebuild of a binary node: `result = btor_op_exp (btor, e[1], e[0])`,
where `e` holds the popped results, deepest first. -/
def rebuild_binary (op : Ref → Ref → Ref) (k : BtorNodeKind) (e : List Ref) (s : LoopState) :
    Option (Ref × LoopState) :=
  match e with
  | e0 :: e1 :: _ => some (op e1 e0, s.record (.construct k))
  | _ => none

/-- The case `BTOR_APPLY_NODE` of the rebuild switch. -/
def rebuild_apply (env : Ext) (mode : Int) (real_cur : BtorNode) (e : List Ref)
    (s : LoopState) : Option (Ref × LoopState) :=
  match e, real_cur.e.head? with
  | e0 :: e1 :: _, some fn =>
    let built : Option (Ref × LoopState) :=
      if !e1.node.BTOR_IS_FUN_NODE then
        if e1.node.BTOR_IS_ARRAY_NODE then none else some (e1, s)
      else if !e0.node.BTOR_IS_ARGS_NODE then none
      else some (env.apply_exp_node e1 e0, s.record (.construct .apply))
    match built with
    | none => none
    | some (result, s1) =>
      if s1.btor.cache.isSome && mode == BETA_RED_FULL && fn.node.BTOR_IS_LAMBDA_NODE
          && !fn.node.parameterized then
        match cache_beta_result s1.btor (env.simplify fn) (env.simplify e0) result with
        | none => none
        | some btor1 => some (result, { s1 with btor := btor1 })
      else some (result, s1)
  | _, _ => none

/-- The case `BTOR_LAMBDA_NODE` of the rebuild switch; the branch behind
`assert (0)` aborts. -/
def rebuild_lambda (real_cur : BtorNode) (e : List Ref) (s : LoopState) :
    Option (Ref × LoopState) :=
  match e, real_cur.e with
  | e0 :: e1 :: _, re0 :: re1 :: _ =>
    if re0 = e1 && re1 = e0 && e0.node.parameterized then
      if s.btor.beta_mark real_cur ≠ 0 then none else some (real_cur.ref, s)
    else if s.btor.beta_mark real_cur == 1 || (re0 = e1 && e0.node.parameterized) then none
    else if s.btor.beta_mark real_cur ≠ 0 then none
    else some (e0, s)
  | _, _ => none

/-- The rebuild switch of the post-order visit: pops `arity` results from the
argument stack and calls the constructor of the kind of `real_cur`. -/
def rebuild (env : Ext) (mode : Int) (real_cur : BtorNode) (s : LoopState) :
    Option (Ref × LoopState) :=
  if s.arg_stack.length < real_cur.arity then none
  else
    let e := (s.arg_stack.take real_cur.arity).reverse
    let s1 := { s with arg_stack := s.arg_stack.drop real_cur.arity }
    match real_cur.kind with
    | .slice =>
      match e with
      | e0 :: _ =>
        some (env.slice_exp e0 real_cur.info.upper real_cur.info.lower,
          s1.record (.construct .slice))
      | _ => none
    | .and => rebuild_binary env.and_exp .and e s1
    | .beq => rebuild_binary env.eq_exp .beq e s1
    | .aeq => rebuild_binary env.eq_exp .aeq e s1
    | .add => rebuild_binary env.add_exp .add e s1
    | .mul => rebuild_binary env.mul_exp .mul e s1
    | .ult => rebuild_binary env.ult_exp .ult e s1
    | .sll => rebuild_binary env.sll_exp .sll e s1
    | .srl => rebuild_binary env.srl_exp .srl e s1
    | .udiv => rebuild_binary env.udiv_exp .udiv e s1
    | .urem => rebuild_binary env.urem_exp .urem e s1
    | .concat => rebuild_binary env.concat_exp .concat e s1
    | .args =>
      match e with
      | [e0] => some (env.args_exp [e0], s1.record (.construct .args))
      | [e0, e1] => some (env.args_exp [e1, e0], s1.record (.construct .args))
      | [e0, e1, e2] => some (env.args_exp [e2, e1, e0], s1.record (.construct .args))
      | _ => none
    | .apply => rebuild_apply env mode real_cur e s1
    | .lambda => rebuild_lambda real_cur e s1
    | .bcond =>
      match e with
      | e0 :: e1 :: e2 :: _ => some (env.cond_exp e2 e1 e0, s1.record (.construct .bcond))
      | _ => none
    | _ => none

/-- The block "assign params of lambda expression" of the first visit. The
result is `none` on a failed assertion, `some (.inl cached)` when the cache
holds a result for `(real_cur, args)`, and `some (.inr s)` otherwise, with the
arguments bound when the condition of the block holds. -/
def assign_lambda (real_cur : BtorNode) (cur_parent : Option BtorNode) (se : List Ref)
    (s : LoopState) : Option (Ref ⊕ LoopState) :=
  if real_cur.BTOR_IS_LAMBDA_NODE && !s.arg_stack.isEmpty then
    match se.head?, s.arg_stack.head? with
    | some se0, some args =>
      match btor_param_cur_assignment s.btor se0 with
      | none => none
      | some (some _) => some (.inr s)
      | some none =>
        if (cur_parent.map BtorNode.BTOR_IS_APPLY_NODE).getD false then
          if (PtrHashTable.find s.cur_scope se0.node).isSome then none
          else if !args.node.BTOR_IS_ARGS_NODE then none
          else
            let cached : Option (Option Ref) :=
              if s.btor.cache.isSome then cached_beta_result s.btor real_cur.ref args
              else some none
            match cached with
            | none => none
            | some (some result) => some (.inl result)
            | some none =>
              match btor_assign_args s.btor real_cur.ref args with
              | none => none
              | some btor1 =>
                some (.inr { s with btor := btor1, unassign_stack := real_cur :: s.unassign_stack })
        else some (.inr s)
    | _, _ => none
  else some (.inr s)

/-- The first visit of a node (mark 0): cut, emit, or push the children. -/
def expand (env : Ext) (mode bound : Int) (cur : Ref) (cur_parent : Option BtorNode)
    (s : LoopState) : Option LoopState :=
  let real_cur := cur.node
  if !(s.btor.beta_mark real_cur == 0 || real_cur.BTOR_IS_LAMBDA_NODE) then none
  else
    let s1 := { s with cur_scope := PtrHashTable.set s.cur_scope real_cur 1 }
    let se := real_cur.e.map env.simplify
    if bound > 0 && real_cur.BTOR_IS_LAMBDA_NODE && (s1.scopes.length : Int) ≥ bound then
      if s1.cur_scope_lambda ≠ some real_cur then none
      else push_arg_stack cur real_cur real_cur.ref s1
    else if mode == BETA_RED_LAMBDA_CHAINS
        && ((real_cur.BTOR_IS_LAMBDA_NODE && !real_cur.info.chain)
            || (!real_cur.BTOR_IS_LAMBDA_NODE && !real_cur.parameterized)) then
      push_arg_stack cur real_cur real_cur.ref s1
    else if !real_cur.lambda_below && !real_cur.parameterized then
      push_arg_stack cur real_cur real_cur.ref s1
    else if real_cur.BTOR_IS_PARAM_NODE then
      match btor_param_cur_assignment s1.btor real_cur.ref with
      | none => none
      | some next => push_arg_stack cur real_cur (next.getD real_cur.ref) s1
    else
      match assign_lambda real_cur cur_parent se s1 with
      | none => none
      | some (.inl result) => push_arg_stack cur real_cur result s1
      | some (.inr s2) =>
        some { s2 with
          work_stack :=
            (se.reverse.map fun c => (c, some real_cur)) ++ (cur, cur_parent) :: s2.work_stack }

/-- The post-order visit of a node (mark 1). -/
def collect (env : Ext) (mode bound : Int) (cur : Ref) (s : LoopState) : Option LoopState :=
  let real_cur := cur.node
  if real_cur.BTOR_IS_BV_CONST_NODE || real_cur.BTOR_IS_BV_VAR_NODE
      || real_cur.BTOR_IS_ARRAY_VAR_NODE || real_cur.BTOR_IS_PARAM_NODE
      || (bound > 0 && real_cur.BTOR_IS_LAMBDA_NODE && (s.scopes.length : Int) ≥ bound) then
    push_arg_stack cur real_cur real_cur.ref s
  else
    match rebuild env mode real_cur s with
    | none => none
    | some (result, s1) => push_arg_stack cur real_cur result s1

/-- The revisit of a done node (mark 2). -/
def revisit (cur : Ref) (s : LoopState) : Option LoopState :=
  let real_cur := cur.node
  let found : Option Ref :=
    if real_cur.parameterized then PtrHashTable.find s.cur_scope_results real_cur
    else some real_cur.ref
  match found with
  | none => none
  | some result =>
    if result.node.BTOR_IS_LAMBDA_NODE then none
    else some (push_arg_stack_without_close_scope cur result s)

/-- One iteration of the worklist loop of `btor_beta_reduce`. -/
def beta_reduce_step (env : Ext) (mode bound : Int) (s : LoopState) : Option LoopState :=
  match s.work_stack with
  | [] => some s
  | (cur0, cur_parent) :: work =>
    let cur := simplify_cur env cur0
    let real_cur := cur.node
    let s0 := ({ s with work_stack := work }).record (.visit real_cur)
    let s1 :=
      match PtrHashTable.find s0.cur_scope real_cur with
      | some _ => s0
      | none =>
        let s2 :=
          if real_cur.BTOR_IS_LAMBDA_NODE && !real_cur.parameterized
              && (!real_cur.BTOR_IS_NESTED_LAMBDA_NODE || real_cur.BTOR_IS_FIRST_NESTED_LAMBDA)
          then BETA_REDUCE_OPEN_NEW_SCOPE real_cur s0
          else s0
        { s2 with cur_scope := PtrHashTable.set s2.cur_scope real_cur 0 }
    match PtrHashTable.find s1.cur_scope real_cur with
    | some 0 => expand env mode bound cur cur_parent s1
    | some 1 => collect env mode bound cur s1
    | some 2 => revisit cur s1
    | _ => none

/-- The outcome of a run with fuel: a value, an abort (failed assertion), or
the fuel ran out before the loop ended. -/
inductive Outcome (α : Type) where
  | done (a : α)
  | abort
  | out_of_fuel
  deriving DecidableEq, Repr

/-- The worklist loop `while (!BTOR_EMPTY_STACK (work_stack))`. -/
def beta_reduce_loop (env : Ext) (mode bound : Int) : Nat → LoopState → Outcome LoopState
  | 0, s => if s.work_stack.isEmpty then .done s else .out_of_fuel
  | fuel + 1, s =>
    if s.work_stack.isEmpty then .done s
    else
      match beta_reduce_step env mode bound s with
      | none => .abort
      | some s1 => beta_reduce_loop env mode bound fuel s1

/-- The state at the head of the loop of `btor_beta_reduce`. -/
def beta_reduce_init (btor : Btor) (exp : Ref) : LoopState :=
  { btor := btor
    work_stack := [(exp, none)]
    arg_stack := []
    cur_scope := []
    cur_scope_results := []
    cur_scope_lambda := none
    scopes := []
    scope_results := []
    scope_lambdas := []
    unassign_stack := [] }

/-- The function `btor_beta_reduce`: the result and the solver state on return. -/
def btor_beta_reduce (fuel : Nat) (env : Ext) (btor : Btor) (exp : Ref) (mode bound : Int) :
    Outcome (Ref × Btor) :=
  if !(mode == BETA_RED_FULL || mode == BETA_RED_LAMBDA_CHAINS || mode == BETA_RED_BOUNDED) then
    .abort
  else if !(bound ≥ 0) then .abort
  else if !(bound == 0 || mode == BETA_RED_BOUNDED) then .abort
  else
    match beta_reduce_loop env mode bound fuel (beta_reduce_init btor exp) with
    | .abort => .abort
    | .out_of_fuel => .out_of_fuel
    | .done s =>
      if s.cur_scope_lambda.isSome || !s.scopes.isEmpty || !s.scope_results.isEmpty
          || !s.scope_lambdas.isEmpty || !s.unassign_stack.isEmpty then .abort
      else
        match s.arg_stack with
        | [result] => .done (result, s.btor)
        | _ => .abort

def btor_beta_reduce_full (fuel : Nat) (env : Ext) (btor : Btor) (exp : Ref) :
    Outcome (Ref × Btor) :=
  btor_beta_reduce fuel env btor exp BETA_RED_FULL 0

def btor_beta_reduce_chains (fuel : Nat) (env : Ext) (btor : Btor) (exp : Ref) :
    Outcome (Ref × Btor) :=
  btor_beta_reduce fuel env btor exp BETA_RED_LAMBDA_CHAINS 0

def btor_beta_reduce_bounded (fuel : Nat) (env : Ext) (btor : Btor) (exp : Ref) (bound : Int) :
    Outcome (Ref × Btor) :=
  btor_beta_reduce fuel env btor exp BETA_RED_BOUNDED bound

/-! ## Binding explicit arguments to a chain -/

/-- The first loop of `btor_apply_and_reduce`: bind `args[i]` to the `i`-th
lambda of the chain and push that lambda on the stack `unassign`. -/
def apply_and_reduce_assign (btor : Btor) (cur : Ref) (unassign : List BtorNode) :
    List Ref → Option (Btor × List BtorNode)
  | [] => some (btor, unassign)
  | arg :: rest =>
    if !(cur.regular && cur.node.BTOR_IS_LAMBDA_NODE) then none
    else
      match btor_assign_param btor cur arg, cur.node.e.get? 1 with
      | some btor1, some body =>
        apply_and_reduce_assign btor1 body.node.ref (cur.node :: unassign) rest
      | _, _ => none

/-- The last loop of `btor_apply_and_reduce`: pop the stack `unassign` and
call `btor_unassign_params` on every lambda popped. -/
def apply_and_reduce_unassign (btor : Btor) : List BtorNode → Option Btor
  | [] => some btor
  | cur :: rest =>
    match btor_unassign_params btor cur.ref with
    | none => none
    | some btor1 => apply_and_reduce_unassign btor1 rest

/-- The function `btor_apply_and_reduce`. -/
def btor_apply_and_reduce (fuel : Nat) (env : Ext) (btor : Btor) (args : List Ref)
    (lambda : Ref) : Outcome (Ref × Btor) :=
  match apply_and_reduce_assign btor lambda [] args with
  | none => .abort
  | some (btor1, unassign) =>
    match btor_beta_reduce_full fuel env btor1 lambda with
    | .abort => .abort
    | .out_of_fuel => .out_of_fuel
    | .done (result, btor2) =>
      match apply_and_reduce_unassign btor2 unassign with
      | none => .abort
      | some btor3 => .done (result, btor3)


/-! ## The partial reducer

`btor_beta_reduce_partial_aux`: a single-path reducer that evaluates
bit-vector conditionals with `btor_eval_exp` and rebuilds only the chosen
branch. Its marks are the fields `beta_mark` of the nodes; its memo is keyed
by parameter-cache tuples. -/

/-- Modelled from the spec: the macro `BTOR_LAMBDA_GET_BODY` is not under
`src/`; the comment at its use says that it skips all nested lambdas, so it is
the reference to the body of the innermost lambda of the chain. -/
def BTOR_LAMBDA_GET_BODY : BtorNode → Ref
  | .n2 _ _ _ c1 v1 => if c1.BTOR_IS_LAMBDA_NODE then BTOR_LAMBDA_GET_BODY c1 else ⟨c1, v1⟩
  | n => n.ref

def BtorNode.BTOR_IS_BV_COND_NODE (n : BtorNode) : Bool := n.kind == .bcond

/-- Modelled from the spec: the free parameters of a node (the parameters
that occur in it and are not bound by a lambda of the node), in positional
order. -/
def free_params : BtorNode → List BtorNode
  | .n0 i => if i.kind = .param then [.n0 i] else []
  | .n1 _ c0 _ => free_params c0
  | .n2 i c0 _ c1 _ =>
    if i.kind = .lambda then (free_params c1).filter fun p => decide (p ≠ c0)
    else free_params c0 ++ free_params c1
  | .n3 _ c0 _ c1 _ c2 _ => free_params c0 ++ free_params c1 ++ free_params c2

/-- A parameter-cache tuple: a node with the current binding of each of its
free parameters. -/
abbrev BtorParamCacheTuple := BtorNode × List (Option Ref)

/-- Modelled from the spec: `btor_new_param_cache_tuple` (`btorparamcache.h`
is not under `src/`): a hashable key combining a node identity with the
current binding of each free parameter of that node. -/
def btor_new_param_cache_tuple (btor : Btor) (exp : BtorNode) : BtorParamCacheTuple :=
  (exp, (free_params exp).map fun p => (btor.assigned_exp p).head?)

/-- The local variables of `btor_beta_reduce_partial_aux` that live across
iterations of its loop, the solver state and the two collection tables.
`cache` is the local memo: tuple to (result, parameterized origin). -/
structure PartialState where
  btor : Btor
  stack : List (Ref × Option BtorNode)
  arg_stack : List Ref
  param_stack : List BtorNode
  cache : PtrHashTable BtorParamCacheTuple (Ref × BtorNode)
  cond_sel1 : Option (PtrHashTable BtorParamCacheTuple Ref)
  cond_sel2 : Option (PtrHashTable BtorParamCacheTuple Ref)

/-- Ghost: record an event. -/
def PartialState.record (s : PartialState) (ev : Event) : PartialState :=
  { s with btor := { s.btor with log := ev :: s.btor.log } }

/-- The block that records a selector: insert `e[0]` under the tuple of its
node unless the tuple is present; a null table is left null. -/
def collect_selector (btor : Btor) (e0 : Ref)
    (sel : Option (PtrHashTable BtorParamCacheTuple Ref)) :
    Option (PtrHashTable BtorParamCacheTuple Ref) :=
  match sel with
  | none => none
  | some t =>
    let t0 := btor_new_param_cache_tuple btor e0.node
    if (PtrHashTable.find t t0).isSome then some t
    else some (PtrHashTable.set t t0 e0)

/-- The label `BETA_REDUCE_PARTIAL_PUSH_RESULT`. -/
def partial_push_result (cur result : Ref) (parameterized_result : BtorNode)
    (s : PartialState) : PartialState :=
  { s with
    arg_stack := cur.cond_invert result :: s.arg_stack
    param_stack := parameterized_result :: s.param_stack }

/-- The branch `BTOR_IS_BV_COND_NODE` of the first visit. The result is `none`
on a failed assertion, `some none` when the evaluation returns null (the code
falls through to the generic path), and `some (some s)` when a branch was
chosen and pushed. -/
def partial_cond (env : Ext) (cur : Ref) (s : PartialState) : Option (Option PartialState) :=
  let real_cur := cur.node
  match real_cur.e with
  | e0 :: e1 :: e2 :: _ =>
    if !(e0.node.info.tseitin || e0.node.parameterized || e0.node.BTOR_IS_BV_CONST_NODE) then none
    else
      match env.eval_exp s.btor.assigned_exp e0 with
      | none => some none
      | some eval_res =>
        if eval_res.head? = some '1' then
          some (some { s with
            cond_sel1 := collect_selector s.btor e0 s.cond_sel1
            stack := (cur.cond_invert e1, some real_cur) :: s.stack })
        else if eval_res.head? = some '0' then
          some (some { s with
            cond_sel2 := collect_selector s.btor e0 s.cond_sel2
            stack := (cur.cond_invert e2, some real_cur) :: s.stack })
        else none
  | _ => none

/-- The block "assign params of lambda expression" of the partial reducer:
the arguments on top of the argument stack are bound when the node is a
lambda under an apply whose parameter has no binding. -/
def partial_assign (real_cur : BtorNode) (cur_parent : Option BtorNode) (s : PartialState) :
    Option PartialState :=
  if real_cur.BTOR_IS_LAMBDA_NODE && (cur_parent.map BtorNode.BTOR_IS_APPLY_NODE).getD false
      && !s.arg_stack.isEmpty then
    match real_cur.e.head?, s.arg_stack.head? with
    | some e0, some args =>
      match btor_param_cur_assignment s.btor e0 with
      | none => none
      | some (some _) => some s
      | some none =>
        if !args.node.BTOR_IS_ARGS_NODE then none
        else
          match btor_assign_args s.btor real_cur.ref args with
          | none => none
          | some btor1 => some { s with btor := btor1 }
    | _, _ => none
  else some s

/-- The end of the first visit: set the mark to 1, push the node again and
then its children, `e[0]` first. -/
def partial_expand (cur : Ref) (cur_parent : Option BtorNode) (s : PartialState) :
    PartialState :=
  { s with
    btor := { s.btor with beta_mark := Function.update s.btor.beta_mark cur.node 1 }
    stack := (cur.node.e.reverse.map fun c => (c, some cur.node)) ++ (cur, cur_parent) :: s.stack }

/-- The label `BETA_REDUCE_PARTIAL_START`: the visit of a node whose mark is
0. -/
def partial_start (env : Ext) (cur : Ref) (cur_parent : Option BtorNode) (s : PartialState) :
    Option PartialState :=
  let real_cur := cur.node
  if !real_cur.parameterized then
    if !(real_cur.BTOR_IS_FUN_NODE || real_cur.BTOR_IS_ARGS_NODE || real_cur.info.tseitin) then
      none
    else
      some { s with arg_stack := cur :: s.arg_stack, param_stack := real_cur :: s.param_stack }
  else if real_cur.BTOR_IS_PARAM_NODE then
    match btor_param_cur_assignment s.btor real_cur.ref with
    | some (some next) =>
      some { s with
        arg_stack := cur.cond_invert next :: s.arg_stack
        param_stack := real_cur :: s.param_stack }
    | _ => none
  else if real_cur.BTOR_IS_BV_COND_NODE then
    match partial_cond env cur s with
    | none => none
    | some (some s1) => some s1
    | some none => some (partial_expand cur cur_parent s)
  else
    match partial_assign real_cur cur_parent s with
    | none => none
    | some s1 => some (partial_expand cur cur_parent s1)

/-- A call of a rewriting constructor from the switch of the partial reducer:
the result, and the event with the rewrite level in force. -/
def partial_call (k : BtorNodeKind) (result : Ref) (origin : BtorNode) (s : PartialState) :
    Option (Ref × BtorNode × PartialState) :=
  some (result, origin, s.record (.rewrite k s.btor.rewrite_level))

/-- The switch of the post-order visit of the partial reducer. `e` holds the
popped results and `ps` the popped origins, deepest first. The value is the
result and its parameterized origin. -/
def partial_switch (env : Ext) (real_cur : BtorNode) (e : List Ref) (ps : List BtorNode)
    (s : PartialState) : Option (Ref × BtorNode × PartialState) :=
  match real_cur.kind, e with
  | .slice, e0 :: _ =>
    partial_call .slice (env.slice_exp e0 real_cur.info.upper real_cur.info.lower) real_cur s
  | .and, e0 :: e1 :: _ => partial_call .and (env.and_exp e1 e0) real_cur s
  | .beq, e0 :: e1 :: _ => partial_call .beq (env.eq_exp e1 e0) real_cur s
  | .aeq, e0 :: e1 :: _ => partial_call .aeq (env.eq_exp e1 e0) real_cur s
  | .add, e0 :: e1 :: _ => partial_call .add (env.add_exp e1 e0) real_cur s
  | .mul, e0 :: e1 :: _ => partial_call .mul (env.mul_exp e1 e0) real_cur s
  | .ult, e0 :: e1 :: _ => partial_call .ult (env.ult_exp e1 e0) real_cur s
  | .sll, e0 :: e1 :: _ => partial_call .sll (env.sll_exp e1 e0) real_cur s
  | .srl, e0 :: e1 :: _ => partial_call .srl (env.srl_exp e1 e0) real_cur s
  | .udiv, e0 :: e1 :: _ => partial_call .udiv (env.udiv_exp e1 e0) real_cur s
  | .urem, e0 :: e1 :: _ => partial_call .urem (env.urem_exp e1 e0) real_cur s
  | .concat, e0 :: e1 :: _ => partial_call .concat (env.concat_exp e1 e0) real_cur s
  | .args, [e0] => partial_call .args (env.args_exp [e0]) real_cur s
  | .args, [e0, e1] => partial_call .args (env.args_exp [e1, e0]) real_cur s
  | .args, [e0, e1, e2] => partial_call .args (env.args_exp [e2, e1, e0]) real_cur s
  | .apply, e0 :: e1 :: _ =>
    if e1.node.BTOR_IS_FUN_NODE then partial_call .apply (env.apply_exp_node e1 e0) real_cur s
    else
      match ps.get? 1 with
      | some origin => some (e1, origin, s)
      | none => none
  | .lambda, e0 :: _ :: _ =>
    if e0.node.parameterized then none
    else
      match ps.head? with
      | some origin => some (e0, origin, s)
      | none => none
  | .bcond, e0 :: e1 :: e2 :: _ => partial_call .bcond (env.cond_exp e2 e1 e0) real_cur s
  | _, _ => none

/-- The post-order visit of a node (mark 1): rebuild, memoize under the tuple
of the node, unassign the parameters of a lambda, push the result. -/
def partial_rebuild (env : Ext) (cur : Ref) (s : PartialState) : Option PartialState :=
  let real_cur := cur.node
  if !real_cur.parameterized then none
  else if real_cur.arity < 1 then none
  else if s.arg_stack.length < real_cur.arity then none
  else
    let e := (s.arg_stack.take real_cur.arity).reverse
    let ps := (s.param_stack.take real_cur.arity).reverse
    let s1 := { s with
      btor := { s.btor with beta_mark := Function.update s.btor.beta_mark real_cur 2 }
      arg_stack := s.arg_stack.drop real_cur.arity
      param_stack := s.param_stack.drop real_cur.arity }
    match partial_switch env real_cur e ps s1 with
    | none => none
    | some (result, parameterized_result, s2) =>
      let t0 := btor_new_param_cache_tuple s2.btor real_cur
      if (PtrHashTable.find s2.cache t0).isSome then none
      else
        let s3 := { s2 with cache := PtrHashTable.set s2.cache t0 (result, parameterized_result) }
        let unassigned : Option PartialState :=
          if real_cur.BTOR_IS_LAMBDA_NODE then
            match btor_unassign_params s3.btor real_cur.ref with
            | none => none
            | some btor1 => some { s3 with btor := btor1 }
          else some s3
        match unassigned with
        | none => none
        | some s4 => some (partial_push_result cur result parameterized_result s4)

/-- The tuple of a node at its revisit: for a lambda the arguments on top of
the argument stack are bound, the tuple is taken, and the parameters are
unassigned again. -/
def partial_revisit_tuple (real_cur : BtorNode) (s : PartialState) :
    Option (BtorParamCacheTuple × PartialState) :=
  if real_cur.BTOR_IS_LAMBDA_NODE then
    match s.arg_stack.head? with
    | none => none
    | some cur_args =>
      if !cur_args.node.BTOR_IS_ARGS_NODE then none
      else
        match btor_assign_args s.btor real_cur.ref cur_args with
        | none => none
        | some btor1 =>
          match btor_unassign_params btor1 real_cur.ref with
          | none => none
          | some btor2 =>
            some (btor_new_param_cache_tuple btor1 real_cur, { s with btor := btor2 })
  else some (btor_new_param_cache_tuple s.btor real_cur, s)

/-- The revisit of a node (mark 2): push the memoized result of the tuple of
the node, or reset the mark and start the node again when the memo has no
entry for the current bindings. -/
def partial_revisit (env : Ext) (cur : Ref) (cur_parent : Option BtorNode) (s : PartialState) :
    Option PartialState :=
  let real_cur := cur.node
  if !real_cur.parameterized then none
  else
    match partial_revisit_tuple real_cur s with
    | none => none
    | some (t0, s1) =>
      match PtrHashTable.find s1.cache t0 with
      | none =>
        partial_start env cur cur_parent
          { s1 with
            btor := { s1.btor with beta_mark := Function.update s1.btor.beta_mark real_cur 0 } }
      | some (result, parameterized_result) =>
        if result.node.BTOR_IS_LAMBDA_NODE then none
        else some (partial_push_result cur result parameterized_result s1)

/-- One iteration of the loop of `btor_beta_reduce_partial_aux`. -/
def partial_step (env : Ext) (s : PartialState) : Option PartialState :=
  match s.stack with
  | [] => some s
  | (cur, cur_parent) :: rest =>
    let s0 := ({ s with stack := rest }).record (.visit cur.node)
    if s0.arg_stack.length ≠ s0.param_stack.length then none
    else if s0.btor.beta_mark cur.node = 0 then partial_start env cur cur_parent s0
    else if s0.btor.beta_mark cur.node = 1 then partial_rebuild env cur s0
    else if s0.btor.beta_mark cur.node = 2 then partial_revisit env cur cur_parent s0
    else none

/-- The loop `while (!BTOR_EMPTY_STACK (stack))` of the partial reducer. -/
def partial_loop (env : Ext) : Nat → PartialState → Outcome PartialState
  | 0, s => if s.stack.isEmpty then .done s else .out_of_fuel
  | fuel + 1, s =>
    if s.stack.isEmpty then .done s
    else
      match partial_step env s with
      | none => .abort
      | some s1 => partial_loop env fuel s1

/-- What `btor_beta_reduce_partial_aux` leaves behind: the returned
reference, the solver state, the content of the cell `*parameterized` (`none`
when the pointer passed is null) and the two collection tables. -/
structure PartialReturn where
  result : Ref
  btor : Btor
  parameterized : Option (Option BtorNode)
  cond_sel1 : Option (PtrHashTable BtorParamCacheTuple Ref)
  cond_sel2 : Option (PtrHashTable BtorParamCacheTuple Ref)

/-- The cleanup loop over the memo: reset the mark of the node of every key. -/
def reset_marks (cache : PtrHashTable BtorParamCacheTuple (Ref × BtorNode))
    (beta_mark : BtorNode → Nat) : BtorNode → Nat :=
  cache.foldl (fun m b => Function.update m b.1.1 0) beta_mark

/-- The state at the head of the loop of the partial reducer. -/
def partial_init (btor : Btor) (exp : Ref)
    (cond_sel1 cond_sel2 : Option (PtrHashTable BtorParamCacheTuple Ref)) : PartialState :=
  { btor := btor
    stack := [(exp, none)]
    arg_stack := []
    param_stack := []
    cache := []
    cond_sel1 := cond_sel1
    cond_sel2 := cond_sel2 }

/-- The function `btor_beta_reduce_partial_aux`. The argument `parameterized`
is the out-parameter: `none` is the null pointer, `some v` a cell that holds
`v` at entry. -/
def btor_beta_reduce_partial_aux (fuel : Nat) (env : Ext) (btor : Btor) (exp : Ref)
    (parameterized : Option (Option BtorNode))
    (cond_sel1 cond_sel2 : Option (PtrHashTable BtorParamCacheTuple Ref)) :
    Outcome PartialReturn :=
  if cond_sel1.isSome && !cond_sel2.isSome then .abort
  else if cond_sel2.isSome && !cond_sel1.isSome then .abort
  else if !exp.node.parameterized && !exp.node.BTOR_IS_LAMBDA_NODE then
    .done { result := exp, btor := btor, parameterized := parameterized,
            cond_sel1 := cond_sel1, cond_sel2 := cond_sel2 }
  else
    let rwl := btor.rewrite_level
    let btor1 := if btor.rewrite_level > 0 then { btor with rewrite_level := 1 } else btor
    let exp1 := if exp.node.BTOR_IS_LAMBDA_NODE then BTOR_LAMBDA_GET_BODY exp.node else exp
    match partial_loop env fuel (partial_init btor1 exp1 cond_sel1 cond_sel2) with
    | .abort => .abort
    | .out_of_fuel => .out_of_fuel
    | .done s =>
      match s.arg_stack, s.param_stack with
      | [result], [real_cur] =>
        .done
          { result := result
            btor := { s.btor with
              beta_mark := reset_marks s.cache s.btor.beta_mark
              rewrite_level := rwl }
            parameterized :=
              parameterized.map fun _ => if real_cur.parameterized then some real_cur else none
            cond_sel1 := s.cond_sel1
            cond_sel2 := s.cond_sel2 }
      | _, _ => .abort

/-- The function `btor_beta_reduce_partial`. -/
def btor_beta_reduce_partial (fuel : Nat) (env : Ext) (btor : Btor) (exp : Ref)
    (parameterized : Option (Option BtorNode)) : Outcome PartialReturn :=
  btor_beta_reduce_partial_aux fuel env btor exp parameterized none none

/-- The function `btor_beta_reduce_partial_collect`. -/
def btor_beta_reduce_partial_collect (fuel : Nat) (env : Ext) (btor : Btor) (exp : Ref)
    (cond_sel1 cond_sel2 : Option (PtrHashTable BtorParamCacheTuple Ref)) :
    Outcome PartialReturn :=
  btor_beta_reduce_partial_aux fuel env btor exp none cond_sel1 cond_sel2

/-! ## Reference counts

The reference count of a node belongs to the node store, outside `src/`. The
functions of this section follow the calls of `btor_copy_exp` and
`btor_release_exp` in `btor_beta_reduce` and the references that the
constructors return, on a table of counts that is kept beside the loop
state. A count is relative: it is the difference to the count at the entry of
the call. The references that a constructor takes for the children of a node
that it creates are internal to the node store and are not counted. -/

/-- The reference counts of the nodes, relative to the entry of a call. -/
abbrev RefCount := BtorNode → Int

/-- Modelled from the spec: `btor_copy_exp` adds one reference to the node of
the reference `r`. -/
def RefCount.copy (rc : RefCount) (r : Ref) : RefCount :=
  fun n => if n = r.node then rc n + 1 else rc n

/-- Modelled from the spec: `btor_release_exp` takes one reference from the
node of `r`; what the node store does with a node whose count reaches zero is
not modelled. -/
def RefCount.release (rc : RefCount) (r : Ref) : RefCount :=
  fun n => if n = r.node then rc n - 1 else rc n

/-- Release every reference of a list. -/
def RefCount.release_all (rc : RefCount) : List Ref → RefCount
  | [] => rc
  | r :: l => RefCount.release_all (rc.release r) l

/-- The references of `cached_beta_result`. Modelled from the spec:
`new_exp_pair` takes a reference to each node of the pair and
`delete_exp_pair` gives both back. -/
def cached_beta_result_refs (lambda exp : Ref) (rc : RefCount) : RefCount :=
  (((rc.copy lambda).copy exp).release lambda).release exp

/-- The references of `cache_beta_result`: the pair is deleted when its key is
present, and kept as the key of the new entry, with a copy of `result` as its
value, when it is not. -/
def cache_beta_result_refs (btor : Btor) (lambda exp result : Ref) (rc : RefCount) :
    RefCount :=
  let rc1 := (rc.copy lambda).copy exp
  match btor.cache with
  | none => rc1
  | some cache =>
    match PtrHashTable.find cache (lambda, exp) with
    | some _ => (rc1.release lambda).release exp
    | none => rc1.copy result

/-- The references of the label `BETA_REDUCE_PUSH_ARG_STACK`, entered in the
state `s` with the reference `result` in hand: the result stored in the scope
is a copy, and `BETA_REDUCE_CLOSE_SCOPE` releases every result stored in the
scope that it deletes. -/
def push_arg_stack_refs (real_cur : BtorNode) (result : Ref) (s : LoopState) (rc : RefCount) :
    RefCount :=
  let stored : PtrHashTable BtorNode Ref × RefCount :=
    if real_cur.parameterized then
      (PtrHashTable.set s.cur_scope_results real_cur result, rc.copy result)
    else (s.cur_scope_results, rc)
  if s.cur_scope_lambda = some real_cur then
    stored.2.release_all (stored.1.map Prod.snd)
  else stored.2

/-- The references of the rebuild switch: the constructor of the kind returns
a new reference to `result` (in the cases without constructor call `result`
is a copy), an apply over a lambda that is not parameterized is stored in the
cross-call cache in full mode, and the popped results `e[i]` are released. -/
def rebuild_refs (env : Ext) (mode : Int) (real_cur : BtorNode) (s : LoopState)
    (rc : RefCount) : RefCount :=
  let e := (s.arg_stack.take real_cur.arity).reverse
  match rebuild env mode real_cur s with
  | none => rc
  | some (result, _) =>
    let rc1 := rc.copy result
    match real_cur.kind, e with
    | .slice, e0 :: _ => rc1.release e0
    | .and, e0 :: e1 :: _ | .beq, e0 :: e1 :: _ | .aeq, e0 :: e1 :: _ | .add, e0 :: e1 :: _
    | .mul, e0 :: e1 :: _ | .ult, e0 :: e1 :: _ | .sll, e0 :: e1 :: _ | .srl, e0 :: e1 :: _
    | .udiv, e0 :: e1 :: _ | .urem, e0 :: e1 :: _ | .concat, e0 :: e1 :: _ =>
      (rc1.release e0).release e1
    | .args, _ => rc1.release_all e
    | .apply, e0 :: e1 :: _ =>
      let rc2 :=
        match real_cur.e.head? with
        | some fn =>
          if s.btor.cache.isSome && mode == BETA_RED_FULL && fn.node.BTOR_IS_LAMBDA_NODE
              && !fn.node.parameterized then
            cache_beta_result_refs s.btor (env.simplify fn) (env.simplify e0) result rc1
          else rc1
        | none => rc1
      (rc2.release e0).release e1
    | .lambda, e0 :: e1 :: _ => (rc1.release e0).release e1
    | .bcond, e0 :: e1 :: e2 :: _ => ((rc1.release e0).release e1).release e2
    | _, _ => rc1

/-- The references of the block "assign params of lambda expression": the
lookup in the cross-call cache creates and deletes a pair. -/
def assign_lambda_refs (real_cur : BtorNode) (cur_parent : Option BtorNode) (se : List Ref)
    (s : LoopState) (rc : RefCount) : RefCount :=
  if real_cur.BTOR_IS_LAMBDA_NODE && !s.arg_stack.isEmpty then
    match se.head?, s.arg_stack.head? with
    | some se0, some args =>
      match btor_param_cur_assignment s.btor se0 with
      | some none =>
        if (cur_parent.map BtorNode.BTOR_IS_APPLY_NODE).getD false && s.btor.cache.isSome then
          cached_beta_result_refs real_cur.ref args rc
        else rc
      | _ => rc
    | _, _ => rc
  else rc

/-- The references of the first visit: a node that is emitted is copied
(`result = btor_copy_exp (real_cur)`, `btor_copy_exp (next)`,
`btor_copy_exp (cached)`). -/
def expand_refs (env : Ext) (mode bound : Int) (cur : Ref) (cur_parent : Option BtorNode)
    (s : LoopState) (rc : RefCount) : RefCount :=
  let real_cur := cur.node
  let s1 := { s with cur_scope := PtrHashTable.set s.cur_scope real_cur 1 }
  let se := real_cur.e.map env.simplify
  if bound > 0 && real_cur.BTOR_IS_LAMBDA_NODE && (s1.scopes.length : Int) ≥ bound then
    push_arg_stack_refs real_cur real_cur.ref s1 (rc.copy real_cur.ref)
  else if mode == BETA_RED_LAMBDA_CHAINS
      && ((real_cur.BTOR_IS_LAMBDA_NODE && !real_cur.info.chain)
          || (!real_cur.BTOR_IS_LAMBDA_NODE && !real_cur.parameterized)) then
    push_arg_stack_refs real_cur real_cur.ref s1 (rc.copy real_cur.ref)
  else if !real_cur.lambda_below && !real_cur.parameterized then
    push_arg_stack_refs real_cur real_cur.ref s1 (rc.copy real_cur.ref)
  else if real_cur.BTOR_IS_PARAM_NODE then
    match btor_param_cur_assignment s1.btor real_cur.ref with
    | none => rc
    | some next =>
      push_arg_stack_refs real_cur (next.getD real_cur.ref) s1
        (rc.copy (next.getD real_cur.ref))
  else
    match assign_lambda real_cur cur_parent se s1 with
    | some (.inl result) =>
      push_arg_stack_refs real_cur result s1
        ((assign_lambda_refs real_cur cur_parent se s1 rc).copy result)
    | _ => assign_lambda_refs real_cur cur_parent se s1 rc

/-- The references of the post-order visit. -/
def collect_refs (env : Ext) (mode bound : Int) (cur : Ref) (s : LoopState) (rc : RefCount) :
    RefCount :=
  let real_cur := cur.node
  if real_cur.BTOR_IS_BV_CONST_NODE || real_cur.BTOR_IS_BV_VAR_NODE
      || real_cur.BTOR_IS_ARRAY_VAR_NODE || real_cur.BTOR_IS_PARAM_NODE
      || (bound > 0 && real_cur.BTOR_IS_LAMBDA_NODE && (s.scopes.length : Int) ≥ bound) then
    push_arg_stack_refs real_cur real_cur.ref s (rc.copy real_cur.ref)
  else
    match rebuild env mode real_cur s with
    | none => rc
    | some (result, s1) =>
      push_arg_stack_refs real_cur result s1 (rebuild_refs env mode real_cur s rc)

/-- The references of the revisit of a done node: the stored result, or the
node, is copied. -/
def revisit_refs (cur : Ref) (s : LoopState) (rc : RefCount) : RefCount :=
  let real_cur := cur.node
  let found : Option Ref :=
    if real_cur.parameterized then PtrHashTable.find s.cur_scope_results real_cur
    else some real_cur.ref
  match found with
  | none => rc
  | some result => rc.copy result

/-- The references of one iteration of the worklist loop. -/
def beta_reduce_step_refs (env : Ext) (mode bound : Int) (s : LoopState) (rc : RefCount) :
    RefCount :=
  match s.work_stack with
  | [] => rc
  | (cur0, cur_parent) :: work =>
    let cur := simplify_cur env cur0
    let real_cur := cur.node
    let s0 := ({ s with work_stack := work }).record (.visit real_cur)
    let s1 :=
      match PtrHashTable.find s0.cur_scope real_cur with
      | some _ => s0
      | none =>
        let s2 :=
          if real_cur.BTOR_IS_LAMBDA_NODE && !real_cur.parameterized
              && (!real_cur.BTOR_IS_NESTED_LAMBDA_NODE || real_cur.BTOR_IS_FIRST_NESTED_LAMBDA)
          then BETA_REDUCE_OPEN_NEW_SCOPE real_cur s0
          else s0
        { s2 with cur_scope := PtrHashTable.set s2.cur_scope real_cur 0 }
    match PtrHashTable.find s1.cur_scope real_cur with
    | some 0 => expand_refs env mode bound cur cur_parent s1 rc
    | some 1 => collect_refs env mode bound cur s1 rc
    | some 2 => revisit_refs cur s1 rc
    | _ => rc

/-- The references of the worklist loop. -/
def beta_reduce_loop_refs (env : Ext) (mode bound : Int) :
    Nat → LoopState → RefCount → RefCount
  | 0, _, rc => rc
  | fuel + 1, s, rc =>
    if s.work_stack.isEmpty then rc
    else
      match beta_reduce_step env mode bound s with
      | none => rc
      | some s1 =>
        beta_reduce_loop_refs env mode bound fuel s1 (beta_reduce_step_refs env mode bound s rc)

/-- The reference counts after a call of `btor_beta_reduce` that starts with
the counts `rc`: the counts after the loop, with the results stored in the
outermost scope released by the cleanup. The reference popped from the
argument stack goes to the caller. -/
def btor_beta_reduce_refs (fuel : Nat) (env : Ext) (btor : Btor) (exp : Ref) (mode bound : Int)
    (rc : RefCount) : RefCount :=
  match beta_reduce_loop env mode bound fuel (beta_reduce_init btor exp) with
  | .done s =>
    (beta_reduce_loop_refs env mode bound fuel (beta_reduce_init btor exp) rc).release_all
      (s.cur_scope_results.map Prod.snd)
  | _ => beta_reduce_loop_refs env mode bound fuel (beta_reduce_init btor exp) rc

/-- The reference counts after a call of `btor_apply_and_reduce`: the
bindings that the function pushes and pops hold no reference, so the counts
are those of the full reduction of the lambda. -/
def btor_apply_and_reduce_refs (fuel : Nat) (env : Ext) (btor : Btor) (args : List Ref)
    (lambda : Ref) (rc : RefCount) : RefCount :=
  match apply_and_reduce_assign btor lambda [] args with
  | none => rc
  | some (btor1, _) => btor_beta_reduce_refs fuel env btor1 lambda BETA_RED_FULL 0 rc
/-! ## Reference counts of the partial reducer

The functions of this section follow the calls of `btor_copy_exp` and
`btor_release_exp` in `btor_beta_reduce_partial_aux`, the references that the
constructors return and the references of the tuples of the memo, on the table
of counts of the section Reference counts. -/

/-- Copy every reference of a list. -/
def RefCount.copy_all (rc : RefCount) : List Ref → RefCount
  | [] => rc
  | r :: l => RefCount.copy_all (rc.copy r) l

/-- Modelled from the spec: `btor_new_param_cache_tuple` and
`btor_delete_param_cache_tuple` are not under `src/`. The references that a
parameter-cache tuple holds are given by a function of the tuple, which is a
parameter of the functions of this section: the constructor of the tuple takes
them and the destructor gives them back. -/
abbrev TupleRefs := BtorParamCacheTuple → List Ref

/-- The references of `new_node_tuple`: a copy of each of the two nodes. -/
def new_node_tuple_refs (e0 : Ref) (e1 : BtorNode) (rc : RefCount) : RefCount :=
  (rc.copy e0).copy e1.ref

/-- The references of `delete_node_tuple`: both nodes are released. -/
def delete_node_tuple_refs (e0 : Ref) (e1 : BtorNode) (rc : RefCount) : RefCount :=
  (rc.release e0).release e1.ref

/-- The references of the block that records a selector: the tuple is created,
and deleted again when its key is present; the selector `e[0]` is stored as a
plain pointer. -/
def collect_selector_refs (tr : TupleRefs) (btor : Btor) (e0 : Ref)
    (sel : Option (PtrHashTable BtorParamCacheTuple Ref)) (rc : RefCount) : RefCount :=
  match sel with
  | none => rc
  | some t =>
    let t0 := btor_new_param_cache_tuple btor e0.node
    let rc1 := rc.copy_all (tr t0)
    if (PtrHashTable.find t t0).isSome then rc1.release_all (tr t0) else rc1

/-- The references of the branch `BTOR_IS_BV_COND_NODE` of the first visit:
the chosen branch is pushed on the work stack as a plain pointer. -/
def partial_cond_refs (tr : TupleRefs) (env : Ext) (cur : Ref) (s : PartialState)
    (rc : RefCount) : RefCount :=
  match cur.node.e with
  | e0 :: _ :: _ :: _ =>
    if !(e0.node.info.tseitin || e0.node.parameterized || e0.node.BTOR_IS_BV_CONST_NODE) then rc
    else
      match env.eval_exp s.btor.assigned_exp e0 with
      | none => rc
      | some eval_res =>
        if eval_res.head? = some '1' then collect_selector_refs tr s.btor e0 s.cond_sel1 rc
        else if eval_res.head? = some '0' then collect_selector_refs tr s.btor e0 s.cond_sel2 rc
        else rc
  | _ => rc

/-- The references of the label `BETA_REDUCE_PARTIAL_START`: a node that is
not parameterized and the binding of a parameter are pushed as copies. -/
def partial_start_refs (tr : TupleRefs) (env : Ext) (cur : Ref) (s : PartialState)
    (rc : RefCount) : RefCount :=
  let real_cur := cur.node
  if !real_cur.parameterized then
    if !(real_cur.BTOR_IS_FUN_NODE || real_cur.BTOR_IS_ARGS_NODE || real_cur.info.tseitin) then
      rc
    else rc.copy cur
  else if real_cur.BTOR_IS_PARAM_NODE then
    match btor_param_cur_assignment s.btor real_cur.ref with
    | some (some next) => rc.copy (cur.cond_invert next)
    | _ => rc
  else if real_cur.BTOR_IS_BV_COND_NODE then partial_cond_refs tr env cur s rc
  else rc

/-- The references of the switch of the post-order visit: a constructor
returns a new reference to `result` and the popped results are released; an
apply whose function result is no function node and a lambda hand one of the
popped references on as the result and release the other. -/
def partial_switch_refs (env : Ext) (real_cur : BtorNode) (e : List Ref) (ps : List BtorNode)
    (s : PartialState) (rc : RefCount) : RefCount :=
  match partial_switch env real_cur e ps s with
  | none => rc
  | some (result, _, _) =>
    match real_cur.kind, e with
    | .slice, e0 :: _ => (rc.copy result).release e0
    | .and, e0 :: e1 :: _ | .beq, e0 :: e1 :: _ | .aeq, e0 :: e1 :: _ | .add, e0 :: e1 :: _
    | .mul, e0 :: e1 :: _ | .ult, e0 :: e1 :: _ | .sll, e0 :: e1 :: _ | .srl, e0 :: e1 :: _
    | .udiv, e0 :: e1 :: _ | .urem, e0 :: e1 :: _ | .concat, e0 :: e1 :: _ =>
      ((rc.copy result).release e0).release e1
    | .args, _ => (rc.copy result).release_all e
    | .apply, e0 :: e1 :: _ =>
      if e1.node.BTOR_IS_FUN_NODE then ((rc.copy result).release e1).release e0
      else rc.release e0
    | .lambda, _ :: e1 :: _ => rc.release e1
    | .bcond, e0 :: e1 :: e2 :: _ => (((rc.copy result).release e0).release e1).release e2
    | _, _ => rc

/-- The references of the post-order visit: the switch, then the tuple of the
node and the node tuple of the result and its origin, which the memo keeps. -/
def partial_rebuild_refs (tr : TupleRefs) (env : Ext) (cur : Ref) (s : PartialState)
    (rc : RefCount) : RefCount :=
  let real_cur := cur.node
  if !real_cur.parameterized then rc
  else if real_cur.arity < 1 then rc
  else if s.arg_stack.length < real_cur.arity then rc
  else
    let e := (s.arg_stack.take real_cur.arity).reverse
    let ps := (s.param_stack.take real_cur.arity).reverse
    let s1 := { s with
      btor := { s.btor with beta_mark := Function.update s.btor.beta_mark real_cur 2 }
      arg_stack := s.arg_stack.drop real_cur.arity
      param_stack := s.param_stack.drop real_cur.arity }
    match partial_switch env real_cur e ps s1 with
    | none => rc
    | some (result, parameterized_result, s2) =>
      let rc1 := partial_switch_refs env real_cur e ps s1 rc
      let t0 := btor_new_param_cache_tuple s2.btor real_cur
      new_node_tuple_refs result parameterized_result (rc1.copy_all (tr t0))

/-- The references of the revisit: the tuple of the node is created and
deleted; the result found in the memo is pushed as a copy, and a node without
entry is started again. -/
def partial_revisit_refs (tr : TupleRefs) (env : Ext) (cur : Ref) (s : PartialState)
    (rc : RefCount) : RefCount :=
  let real_cur := cur.node
  if !real_cur.parameterized then rc
  else
    match partial_revisit_tuple real_cur s with
    | none => rc
    | some (t0, s1) =>
      let rc1 := (rc.copy_all (tr t0)).release_all (tr t0)
      match PtrHashTable.find s1.cache t0 with
      | none =>
        partial_start_refs tr env cur
          { s1 with
            btor := { s1.btor with beta_mark := Function.update s1.btor.beta_mark real_cur 0 } }
          rc1
      | some (result, _) => rc1.copy result

/-- The references of one iteration of the loop of the partial reducer. -/
def partial_step_refs (tr : TupleRefs) (env : Ext) (s : PartialState) (rc : RefCount) :
    RefCount :=
  match s.stack with
  | [] => rc
  | (cur, _) :: rest =>
    let s0 := ({ s with stack := rest }).record (.visit cur.node)
    if s0.arg_stack.length ≠ s0.param_stack.length then rc
    else if s0.btor.beta_mark cur.node = 0 then partial_start_refs tr env cur s0 rc
    else if s0.btor.beta_mark cur.node = 1 then partial_rebuild_refs tr env cur s0 rc
    else if s0.btor.beta_mark cur.node = 2 then partial_revisit_refs tr env cur s0 rc
    else rc

/-- The references of the loop of the partial reducer. -/
def partial_loop_refs (tr : TupleRefs) (env : Ext) :
    Nat → PartialState → RefCount → RefCount
  | 0, _, rc => rc
  | fuel + 1, s, rc =>
    if s.stack.isEmpty then rc
    else
      match partial_step env s with
      | none => rc
      | some s1 => partial_loop_refs tr env fuel s1 (partial_step_refs tr env s rc)

/-- The references of the cleanup loop over the memo: the tuple of every key
and the node tuple of every value are deleted. -/
def partial_cleanup_refs (tr : TupleRefs) :
    PtrHashTable BtorParamCacheTuple (Ref × BtorNode) → RefCount → RefCount
  | [], rc => rc
  | (t0, (e0, e1)) :: rest, rc =>
    partial_cleanup_refs tr rest (delete_node_tuple_refs e0 e1 (rc.release_all (tr t0)))

/-- The reference counts after a call of `btor_beta_reduce_partial_aux` that
starts with the counts `rc`: the early return is a copy of `exp`; otherwise
the counts after the loop and the cleanup of the memo. The reference popped
from the argument stack goes to the caller. -/
def btor_beta_reduce_partial_aux_refs (tr : TupleRefs) (fuel : Nat) (env : Ext) (btor : Btor)
    (exp : Ref) (cond_sel1 cond_sel2 : Option (PtrHashTable BtorParamCacheTuple Ref))
    (rc : RefCount) : RefCount :=
  if cond_sel1.isSome && !cond_sel2.isSome then rc
  else if cond_sel2.isSome && !cond_sel1.isSome then rc
  else if !exp.node.parameterized && !exp.node.BTOR_IS_LAMBDA_NODE then rc.copy exp
  else
    let btor1 := if btor.rewrite_level > 0 then { btor with rewrite_level := 1 } else btor
    let exp1 := if exp.node.BTOR_IS_LAMBDA_NODE then BTOR_LAMBDA_GET_BODY exp.node else exp
    match partial_loop env fuel (partial_init btor1 exp1 cond_sel1 cond_sel2) with
    | .done s =>
      partial_cleanup_refs tr s.cache
        (partial_loop_refs tr env fuel (partial_init btor1 exp1 cond_sel1 cond_sel2) rc)
    | _ => partial_loop_refs tr env fuel (partial_init btor1 exp1 cond_sel1 cond_sel2) rc

/-- The reference counts after a call of `btor_beta_reduce_partial`, which
passes null for both collection tables. -/
def btor_beta_reduce_partial_refs (tr : TupleRefs) (fuel : Nat) (env : Ext) (btor : Btor)
    (exp : Ref) (rc : RefCount) : RefCount :=
  btor_beta_reduce_partial_aux_refs tr fuel env btor exp none none rc

/-- The reference counts after a call of `btor_beta_reduce_partial_collect`. -/
def btor_beta_reduce_partial_collect_refs (tr : TupleRefs) (fuel : Nat) (env : Ext)
    (btor : Btor) (exp : Ref)
    (cond_sel1 cond_sel2 : Option (PtrHashTable BtorParamCacheTuple Ref)) (rc : RefCount) :
    RefCount :=
  btor_beta_reduce_partial_aux_refs tr fuel env btor exp cond_sel1 cond_sel2 rc

/-! ## The reading loop of the Sudoku example

An embedding of the loop "read sudoku file" of `main` in
`src/examples/sudoku/sudoku.c`. The standard input is the list of the
character codes that are still to be read; `getchar` returns the next code,
or `EOF` when the list is empty. -/

/-- The value of `getchar ()` and the rest of the input: `none` is `EOF`. -/
def getchar : List Nat → Option Nat × List Nat
  | [] => (none, [])
  | c :: rest => (some c, rest)

/-- The function `isspace` of the C library (`ctype.h`), as the C standard
defines it for the C locale: space, and the characters from horizontal tab to
carriage return. -/
def isspace (c : Nat) : Bool := c == 32 || (9 ≤ c && c ≤ 13)

/-- The do-while loop "skip whitespace" for one cell: the character `cur`
that ends the loop and the rest of the input, or `none` when the loop jumps to
`BTOR_SUDOKU_CLEANUP` after printing "Input error". The test of the loop body
is the one of the source, `cur == EOF || (cur != 'x' && cur <= '0' && cur >
'9')`, with `'x' = 120`, `'0' = 48`, `'9' = 57`. -/
def skip_whitespace : List Nat → Option (Nat × List Nat)
  | [] => none
  | cur :: rest =>
    if cur ≠ 120 && cur ≤ 48 && cur > 57 then none
    else if isspace cur then skip_whitespace rest
    else some (cur, rest)

/-- The outcome of the reading loop: "Input error" was printed and the program
finishes with `EXIT_FAILURE`; the assertion after the inner loop failed; or
all cells were read, with the index into `values` that was used for each cell
(`none` for the cell `x`, for which no value is written). -/
inductive SudokuRead where
  | input_error
  | assertion_failed
  | cells (indices : List (Option Nat))
  deriving DecidableEq, Repr

/-- The loop `for (i = 0; i < SUDOKU_NUM_FIELDS; i++)` with `fields` iterations
left: skip whitespace, check the assertion
`cur == 'x' || (cur > '0' && cur <= '9')`, and for a cell other than `x` use
`values[cur - 48]`. -/
def read_fields : Nat → List Nat → SudokuRead
  | 0, _ => .cells []
  | fields + 1, input =>
    match skip_whitespace input with
    | none => .input_error
    | some (cur, rest) =>
      if !(cur == 120 || (cur > 48 && cur ≤ 57)) then .assertion_failed
      else
        match read_fields fields rest with
        | .cells indices => .cells ((if cur ≠ 120 then some (cur - 48) else none) :: indices)
        | .input_error => .input_error
        | .assertion_failed => .assertion_failed

def SUDOKU_NUM_FIELDS : Nat := 81

/-- The loop "read sudoku file" of `main`. -/
def read_sudoku (input : List Nat) : SudokuRead := read_fields SUDOKU_NUM_FIELDS input
/-! ## Auxiliary definitions for the statements -/

/-- A lambda chain is well formed when every lambda of it has two children,
the first of which is a regular reference to a parameter node. -/
def chain_wf : BtorNode → Bool
  | .n2 i c0 v0 c1 _ =>
    i.kind == .lambda && !v0 && c0.BTOR_IS_PARAM_NODE
      && (if c1.BTOR_IS_LAMBDA_NODE then chain_wf c1 else true)
  | _ => false

/-- A node at which the first visit opens a new scope. -/
def opens_scope (n : BtorNode) : Bool :=
  n.BTOR_IS_LAMBDA_NODE && !n.parameterized
    && (!n.BTOR_IS_NESTED_LAMBDA_NODE || n.BTOR_IS_FIRST_NESTED_LAMBDA)

/-- The binding stacks after `btor_unassign_params` on a well-formed chain. -/
def unassigned (assigned : BtorNode → List Ref) (lambda : BtorNode) : BtorNode → List Ref :=
  (btor_unassign_params_loop assigned lambda).getD assigned

/-- The shapes at which the chain reducer emits a node on its first visit:
a lambda without the chain flag, a non-lambda that is not parameterized, or
a node that is not parameterized and has no lambda below. -/
def chain_preserved (n : BtorNode) : Bool :=
  (n.BTOR_IS_LAMBDA_NODE && !n.info.chain) || (!n.BTOR_IS_LAMBDA_NODE && !n.parameterized)
    || (!n.lambda_below && !n.parameterized)


/-! ### Substitution of parameters, as the specification describes it -/

/-- The subtree of the node mentions a parameter node. -/
def has_param : BtorNode → Bool
  | .n0 i => i.kind == .param
  | .n1 _ c0 _ => has_param c0
  | .n2 _ c0 _ c1 _ => has_param c0 || has_param c1
  | .n3 _ c0 _ c1 _ c2 _ => has_param c0 || has_param c1 || has_param c2

/-- The rebuild table of the specification: the constructor of the kind of
`n`, applied to the results `rs` of the children in their original positional
order (child 0 first). -/
def construct (env : Ext) (n : BtorNode) (rs : List Ref) : Ref :=
  match n.kind, rs with
  | .slice, [r0] => env.slice_exp r0 n.info.upper n.info.lower
  | .and, [r0, r1] => env.and_exp r0 r1
  | .beq, [r0, r1] => env.eq_exp r0 r1
  | .aeq, [r0, r1] => env.eq_exp r0 r1
  | .add, [r0, r1] => env.add_exp r0 r1
  | .mul, [r0, r1] => env.mul_exp r0 r1
  | .ult, [r0, r1] => env.ult_exp r0 r1
  | .sll, [r0, r1] => env.sll_exp r0 r1
  | .srl, [r0, r1] => env.srl_exp r0 r1
  | .udiv, [r0, r1] => env.udiv_exp r0 r1
  | .urem, [r0, r1] => env.urem_exp r0 r1
  | .concat, [r0, r1] => env.concat_exp r0 r1
  | .args, [r0] => env.args_exp [r0]
  | .args, [r0, r1] => env.args_exp [r0, r1]
  | .args, [r0, r1, r2] => env.args_exp [r0, r1, r2]
  | .bcond, [r0, r1, r2] => env.cond_exp r0 r1 r2
  | _, _ => n.ref

/-- Substitution, following the words of the specification: a node that
mentions no parameter is kept as it is; a parameter is replaced by its current
binding in `assigned` (by itself when it has none); every other node is
rebuilt bottom-up through the constructor of its kind from the results of its
children, each result carrying the inversion bit of the child reference. -/
def substitute (env : Ext) (assigned : BtorNode → List Ref) : BtorNode → Ref
  | .n0 i =>
    if i.kind = .param then (assigned (.n0 i)).head?.getD (BtorNode.n0 i).ref
    else (BtorNode.n0 i).ref
  | .n1 i c0 v0 =>
    if has_param c0 then
      construct env (.n1 i c0 v0) [Ref.cond_invert ⟨c0, v0⟩ (substitute env assigned c0)]
    else (BtorNode.n1 i c0 v0).ref
  | .n2 i c0 v0 c1 v1 =>
    if has_param c0 || has_param c1 then
      construct env (.n2 i c0 v0 c1 v1)
        [Ref.cond_invert ⟨c0, v0⟩ (substitute env assigned c0),
         Ref.cond_invert ⟨c1, v1⟩ (substitute env assigned c1)]
    else (BtorNode.n2 i c0 v0 c1 v1).ref
  | .n3 i c0 v0 c1 v1 c2 v2 =>
    if has_param c0 || has_param c1 || has_param c2 then
      construct env (.n3 i c0 v0 c1 v1 c2 v2)
        [Ref.cond_invert ⟨c0, v0⟩ (substitute env assigned c0),
         Ref.cond_invert ⟨c1, v1⟩ (substitute env assigned c1),
         Ref.cond_invert ⟨c2, v2⟩ (substitute env assigned c2)]
    else (BtorNode.n3 i c0 v0 c1 v1 c2 v2).ref

/-- No simplification is pending on the reference `c`. -/
def stable (env : Ext) (c : Ref) : Bool :=
  decide (env.simplify c = c) && decide (simplify_cur env c = c)

def binary_kind (k : BtorNodeKind) : Bool :=
  k == .and || k == .beq || k == .aeq || k == .add || k == .mul || k == .ult || k == .sll
    || k == .srl || k == .udiv || k == .urem || k == .concat

/-- The flags and the kind of a node of a term without lambda and apply: no
lambda below, not a lambda, not an apply, and parameterized exactly when the
term mentions a parameter (`hp`). -/
def simple_flags (i : NodeInfo) (hp : Bool) : Bool :=
  !i.lambda_below && i.kind != .lambda && i.kind != .apply && (i.parameterized == hp)

/-- A term without lambda and without apply, with the flags that the data
model defines: no node has a lambda below, a node is parameterized exactly
when it mentions a parameter, a node that mentions a parameter is a parameter
leaf, a slice, a binary operation, an args node or a bit-vector conditional
with the arity of its kind, and no simplification is pending on its
children. -/
def simple (env : Ext) : BtorNode → Bool
  | .n0 i => simple_flags i (i.kind == .param)
  | .n1 i c0 v0 => simple_flags i (has_param c0)
      && (!has_param c0
          || ((i.kind == .slice || i.kind == .args) && stable env ⟨c0, v0⟩ && simple env c0))
  | .n2 i c0 v0 c1 v1 => simple_flags i (has_param c0 || has_param c1)
      && (!(has_param c0 || has_param c1)
          || ((binary_kind i.kind || i.kind == .args) && stable env ⟨c0, v0⟩
              && stable env ⟨c1, v1⟩ && simple env c0 && simple env c1))
  | .n3 i c0 v0 c1 v1 c2 v2 => simple_flags i (has_param c0 || has_param c1 || has_param c2)
      && (!(has_param c0 || has_param c1 || has_param c2)
          || ((i.kind == .bcond || i.kind == .args) && stable env ⟨c0, v0⟩
              && stable env ⟨c1, v1⟩ && stable env ⟨c2, v2⟩
              && simple env c0 && simple env c1 && simple env c2))

/-- The node and the nodes below it. -/
def subterms : BtorNode → List BtorNode
  | .n0 i => [.n0 i]
  | .n1 i c0 v0 => .n1 i c0 v0 :: subterms c0
  | .n2 i c0 v0 c1 v1 => .n2 i c0 v0 c1 v1 :: (subterms c0 ++ subterms c1)
  | .n3 i c0 v0 c1 v1 c2 v2 =>
    .n3 i c0 v0 c1 v1 c2 v2 :: (subterms c0 ++ subterms c1 ++ subterms c2)

/-- No substitution result of a node that mentions a parameter is a function
node (the constructors of bit-vector terms return no lambda, and no binding
is a lambda). -/
def results_not_fun (env : Ext) (assigned : BtorNode → List Ref) (n : BtorNode) : Bool :=
  (subterms n).all fun m =>
    !has_param m || !(substitute env assigned m).node.BTOR_IS_FUN_NODE

/-- The number of nodes of the term. -/
def BtorNode.size : BtorNode → Nat
  | .n0 _ => 1
  | .n1 _ c0 _ => 1 + c0.size
  | .n2 _ c0 _ c1 _ => 1 + c0.size + c1.size
  | .n3 _ c0 _ c1 _ c2 _ => 1 + c0.size + c1.size + c2.size

/-- Run `k` iterations of the loop body. -/
def run_steps (env : Ext) (mode bound : Int) : Nat → LoopState → Option LoopState
  | 0, s => some s
  | k + 1, s =>
    match beta_reduce_step env mode bound s with
    | none => none
    | some s1 => run_steps env mode bound k s1

/-- The memo of the current scope for the node `m`: either `m` has no mark and
no result, or `m` is done and, when it is parameterized, its stored result is
its substitution under the bindings `assigned`. -/
def Memo (env : Ext) (assigned : BtorNode → List Ref) (s : LoopState) (m : BtorNode) : Prop :=
  (PtrHashTable.find s.cur_scope m = none ∧ PtrHashTable.find s.cur_scope_results m = none) ∨
  (PtrHashTable.find s.cur_scope m = some 2 ∧
    (m.parameterized = true →
      PtrHashTable.find s.cur_scope_results m = some (substitute env assigned m)))

/-- The part of the state that the reduction of a term without lambda leaves
as it is: bindings, cache, marks of the partial reducer, and the scope
stacks. -/
def Frame (s s1 : LoopState) : Prop :=
  s1.btor.assigned_exp = s.btor.assigned_exp ∧ s1.btor.cache = s.btor.cache ∧
  s1.btor.beta_mark = s.btor.beta_mark ∧ s1.scopes = s.scopes ∧
  s1.scope_results = s.scope_results ∧ s1.scope_lambdas = s.scope_lambdas ∧
  s1.cur_scope_lambda = s.cur_scope_lambda ∧ s1.unassign_stack = s.unassign_stack

/-- The state `s1` after the visit of the reference `⟨n, v⟩` that was on top
of the work stack of `s`: the entry is popped, the substitution of `n` is
pushed with the inversion bit of the reference, and the memo of the scope is
extended on the nodes of `n` only. -/
def Visited (env : Ext) (s s1 : LoopState) (n : BtorNode) (v : Bool)
    (w : List (Ref × Option BtorNode)) : Prop :=
  s1.work_stack = w ∧
  s1.arg_stack = Ref.cond_invert ⟨n, v⟩ (substitute env s.btor.assigned_exp n) :: s.arg_stack ∧
  Frame s s1 ∧
  (∀ m, m ∉ subterms n →
    PtrHashTable.find s1.cur_scope m = PtrHashTable.find s.cur_scope m ∧
    PtrHashTable.find s1.cur_scope_results m = PtrHashTable.find s.cur_scope_results m) ∧
  (∀ m, m ∈ subterms n → Memo env s.btor.assigned_exp s1 m) ∧
  PtrHashTable.find s1.cur_scope n = some 2 ∧
  (n.parameterized = true →
    PtrHashTable.find s1.cur_scope_results n = some (substitute env s.btor.assigned_exp n))

/-- The reducer, in any mode, visits the term `n` as `Visited` describes, from
every state in which the memo of the current scope is consistent on `n`. -/
def Reduces (env : Ext) (mode bound : Int) (n : BtorNode) : Prop :=
  ∀ (s : LoopState) (v : Bool) (par : Option BtorNode) (w : List (Ref × Option BtorNode)),
    s.work_stack = (⟨n, v⟩, par) :: w →
    simplify_cur env ⟨n, v⟩ = ⟨n, v⟩ →
    (∀ m, s.btor.beta_mark m = 0) →
    results_not_fun env s.btor.assigned_exp n = true →
    (∀ m, m ∈ subterms n → Memo env s.btor.assigned_exp s m) →
    (∀ l, s.cur_scope_lambda = some l → l.BTOR_IS_LAMBDA_NODE = true) →
    ∃ k s1, run_steps env mode bound k s = some s1 ∧ Visited env s s1 n v w

/-- The node is an operation that the rebuild switch handles through a
constructor of the expression library, with the arity of its kind. -/
def op_shape : BtorNode → Bool
  | .n0 _ => false
  | .n1 i _ _ => i.kind == .slice || i.kind == .args
  | .n2 i _ _ _ _ => binary_kind i.kind || i.kind == .args
  | .n3 i _ _ _ _ _ _ => i.kind == .bcond || i.kind == .args

/-! ### Lambda chains -/

/-- The lambdas of the chain that starts at the node, outermost first. -/
def chain_lambdas : BtorNode → List BtorNode
  | .n2 i p v0 next v1 =>
    .n2 i p v0 next v1 :: (if next.BTOR_IS_LAMBDA_NODE then chain_lambdas next else [])
  | _ => []

/-- The parameters of the chain that starts at the node, outermost first. -/
def chain_params : BtorNode → List BtorNode
  | .n2 _ p _ next _ => p :: (if next.BTOR_IS_LAMBDA_NODE then chain_params next else [])
  | _ => []

/-- The reference to the innermost body of the chain. -/
def chain_body : BtorNode → Ref
  | .n2 _ _ _ next v1 => if next.BTOR_IS_LAMBDA_NODE then chain_body next else ⟨next, v1⟩
  | n => n.ref

/-- A chain `λp1. ... λpk. body` as the data model defines it: every level is
a lambda with the lambda_below flag whose first child is a regular reference
to a parameter leaf; every level below the first is a nested lambda that is
not the head of the chain, referenced without inversion; the innermost body is
a term without lambda and apply; no simplification is pending. -/
def chain_ok (env : Ext) : BtorNode → Bool
  | .n2 i (.n0 ip) v0 next v1 =>
    i.kind == .lambda && i.lambda_below && !v0 && ip.kind == .param
      && simple env (.n0 ip) && stable env (BtorNode.n0 ip).ref && stable env ⟨next, v1⟩
      && (if next.BTOR_IS_LAMBDA_NODE then
            !v1 && next.info.is_nested && !next.info.is_first_nested && chain_ok env next
          else simple env next)
  | _ => false

/-- The bindings in which the `i`-th parameter of the list is bound to the
`i`-th argument and no other parameter is bound. -/
def bind_args : List BtorNode → List Ref → BtorNode → List Ref
  | p :: ps, a :: as, q => if q = p then [a] else bind_args ps as q
  | _, _, _ => []

/-- The result of reducing the chain under the bindings `assigned`: the
substitution of the innermost body, with the inversion bit of the reference to
the body. -/
def chain_result (env : Ext) (assigned : BtorNode → List Ref) (lambda : BtorNode) : Ref :=
  (chain_body lambda).cond_invert (substitute env assigned (chain_body lambda).node)

/-- Every parameter of the list has a current binding that is neither the
parameter itself nor a function node. -/
def params_bound (assigned : BtorNode → List Ref) (ps : List BtorNode) : Prop :=
  ∀ p, p ∈ ps → ∃ b rest, assigned p = b :: rest ∧ b ≠ p.ref ∧ b.node.BTOR_IS_FUN_NODE = false

/-- The reducer, in full mode, visits the lambda `L` of a chain whose
parameters are bound, from a state in which no node of `L` is marked in the
current scope and no node of `L` is the lambda of the current scope: the
result pushed is the reduced innermost body. -/
def ChainReduces (env : Ext) (L : BtorNode) : Prop :=
  ∀ (s : LoopState) (par : Option BtorNode) (w : List (Ref × Option BtorNode)),
    s.work_stack = (L.ref, par) :: w →
    (∀ m, s.btor.beta_mark m = 0) →
    results_not_fun env s.btor.assigned_exp (chain_body L).node = true →
    params_bound s.btor.assigned_exp (chain_params L) →
    (∀ m, m ∈ subterms L →
      PtrHashTable.find s.cur_scope m = none ∧ PtrHashTable.find s.cur_scope_results m = none) →
    (∀ l, s.cur_scope_lambda = some l → l.BTOR_IS_LAMBDA_NODE = true ∧ l ∉ subterms L) →
    ∃ k s1, run_steps env BETA_RED_FULL 0 k s = some s1 ∧ s1.work_stack = w ∧
      s1.arg_stack = chain_result env s.btor.assigned_exp L :: s.arg_stack ∧
      Frame s s1 ∧
      (∀ m, m ∉ subterms L →
        PtrHashTable.find s1.cur_scope m = PtrHashTable.find s.cur_scope m ∧
        PtrHashTable.find s1.cur_scope_results m = PtrHashTable.find s.cur_scope_results m) ∧
      (∀ m, m ∈ subterms L → m ∉ chain_lambdas L → Memo env s.btor.assigned_exp s1 m)

/-! ### Statement-side definitions for the partial reducer -/

/-- The binding operations leave everything but the binding stacks as it is:
marks, rewrite level and cache are unchanged and the log grows by events that
are not constructor calls. -/
def Keeps (b b1 : Btor) : Prop :=
  b1.beta_mark = b.beta_mark ∧ b1.rewrite_level = b.rewrite_level ∧ b1.cache = b.cache ∧
  ∃ evs, b1.log = evs ++ b.log ∧ ∀ k lv, Event.rewrite k lv ∉ evs

/-- The log of `b1` is the log of `b` with new events in front, and every new
constructor call of the partial reducer is recorded with the rewrite level
`lv`. -/
def CallsAt (lv : Int) (b b1 : Btor) : Prop :=
  ∃ evs, b1.log = evs ++ b.log ∧ ∀ k l, Event.rewrite k l ∈ evs → l = lv

/-- No entry of the collection table `t` is removed or overwritten in `t1`,
and a null table stays null. -/
def TableKept (t t1 : Option (PtrHashTable BtorParamCacheTuple Ref)) : Prop :=
  match t, t1 with
  | none, none => True
  | some tb, some tb1 =>
    ∀ key v, PtrHashTable.find tb key = some v → PtrHashTable.find tb1 key = some v
  | _, _ => False

/-- The frame of a step of the partial reducer: the rewrite level is
unchanged, the constructor calls of the step run with it, and the collection
tables only grow. -/
def PartialFrame (s s1 : PartialState) : Prop :=
  s1.btor.rewrite_level = s.btor.rewrite_level ∧
  CallsAt s.btor.rewrite_level s.btor s1.btor ∧
  TableKept s.cond_sel1 s1.cond_sel1 ∧ TableKept s.cond_sel2 s1.cond_sel2

/-- The invariant of the marks of the partial reducer: every mark is 0, 1 or
2; a node with mark 2 is the node of a key of the memo; a node with mark 1 has
an entry on the stack. -/
def MarksInv (s : PartialState) : Prop :=
  ∀ n, (s.btor.beta_mark n = 0) ∨
    (s.btor.beta_mark n = 1 ∧ ∃ en, en ∈ s.stack ∧ en.1.node = n) ∨
    (s.btor.beta_mark n = 2 ∧ ∃ b, b ∈ s.cache ∧ b.1.1 = n)

/-- Run `k` iterations of the loop body of the partial reducer. -/
def partial_steps (env : Ext) : Nat → PartialState → Option PartialState
  | 0, s => some s
  | k + 1, s =>
    match partial_step env s with
    | none => none
    | some s1 => partial_steps env k s1

/-- The effect of the visit of the node `m` on marks, stack and memo: the
entries of the stack and the keys of the memo are kept, the marks of the
other nodes are unchanged, and the mark of `m` is 0, or 1 with `m` on the
stack, or 2 with `m` a key of the memo, or unchanged and not 1. -/
def VisitEffect (m : BtorNode) (s0 s1 : PartialState) : Prop :=
  (∀ en, en ∈ s0.stack → en ∈ s1.stack) ∧
  (∀ b, b ∈ s0.cache → ∃ b1, b1 ∈ s1.cache ∧ b1.1.1 = b.1.1) ∧
  (∀ n, n ≠ m → s1.btor.beta_mark n = s0.btor.beta_mark n) ∧
  (s1.btor.beta_mark m = 0 ∨
    (s1.btor.beta_mark m = 1 ∧ ∃ en, en ∈ s1.stack ∧ en.1.node = m) ∨
    (s1.btor.beta_mark m = 2 ∧ ∃ b, b ∈ s1.cache ∧ b.1.1 = m) ∨
    (s1.btor.beta_mark m = s0.btor.beta_mark m ∧ s0.btor.beta_mark m ≠ 1))

/-! ### Runs of the partial reducer that differ in the parents of entries -/

/-- Two stacks hold the same references, and the same parents except at
entries whose node is not a lambda (the parent is read only at a lambda). -/
def StackRel (a b : List (Ref × Option BtorNode)) : Prop :=
  List.Forall₂ (fun x y => x.1 = y.1 ∧ (x.2 = y.2 ∨ x.1.node.BTOR_IS_LAMBDA_NODE = false)) a b

/-- Two states of the partial reducer that differ only in their stacks, which
are related by `StackRel`. -/
def ParentSim (s s1 : PartialState) : Prop :=
  s1 = { s with stack := s1.stack } ∧ StackRel s.stack s1.stack

/-- Two optional results are both absent, or both present and related. -/
def OptRel {α : Type} (R : α → α → Prop) : Option α → Option α → Prop
  | none, none => True
  | some a, some b => R a b
  | _, _ => False

/-- The result `t1` of a visit in the state `s` with the rest of the stack
replaced by `st1`, in terms of the result `t` of the visit in `s`: the
entries pushed are related, everything else is equal. -/
def Pushed (s : PartialState) (st1 : List (Ref × Option BtorNode)) (t t1 : PartialState) :
    Prop :=
  ∃ pre pre1, t.stack = pre ++ s.stack ∧ StackRel pre pre1 ∧
    t1 = { t with stack := pre1 ++ st1 }

/-! ### Runs of the partial reducer on a reference and on its inversion -/

/-- Two states whose stacks differ in the inversion bit of the bottom entry
(and in parents that are not read). -/
def InvSim (s s1 : PartialState) : Prop :=
  ∃ pre pre1 r p, s.stack = pre ++ [(r, p)] ∧ StackRel pre pre1 ∧
    s1 = { s with stack := pre1 ++ [(Ref.invert r, p)] }

/-- Invert the result on top of the argument stack. -/
def invert_top (s : PartialState) : PartialState :=
  { s with
    arg_stack :=
      match s.arg_stack with
      | a :: rest => a.invert :: rest
      | [] => [] }

/-- Two states with empty stacks that differ in the inversion bit of the
result on top of the argument stack. -/
def InvDone (s s1 : PartialState) : Prop :=
  s.stack = [] ∧ s.arg_stack ≠ [] ∧ s1 = invert_top s

/-- Apply a function to the value of an outcome. -/
def Outcome.map {α β : Type} (f : α → β) : Outcome α → Outcome β
  | .done a => .done (f a)
  | .abort => .abort
  | .out_of_fuel => .out_of_fuel

/-! ### Statement-side definitions for the bounded cut -/

/-- The scope depth at which the entry on top of the work stack is visited:
the number of open scopes, plus one when the visit opens a scope (the node
has no mark in the current scope and is a lambda that opens a scope). -/
def visit_depth (env : Ext) (s : LoopState) : Nat :=
  match s.work_stack with
  | [] => s.scopes.length
  | (cur0, _) :: _ =>
    if (PtrHashTable.find s.cur_scope (simplify_cur env cur0).node).isNone
        && opens_scope (simplify_cur env cur0).node then s.scopes.length + 1
    else s.scopes.length

/-- The lambdas that a result retains: the lambda nodes among the node and the
nodes below it. -/
def retained_lambdas (n : BtorNode) : List BtorNode :=
  (subterms n).filter fun m => m.BTOR_IS_LAMBDA_NODE

/-- Bounded monotonicity at an expression and two bounds: when both bounded
reductions return, every lambda that the result under `b2` retains is retained
by the result under `b1`. -/
def bounded_monotone_at (fuel : Nat) (env : Ext) (btor : Btor) (e : Ref) (b1 b2 : Int) : Prop :=
  ∀ r1 bt1 r2 bt2,
    btor_beta_reduce_bounded fuel env btor e b1 = .done (r1, bt1) →
    btor_beta_reduce_bounded fuel env btor e b2 = .done (r2, bt2) →
    ∀ l, l ∈ retained_lambdas r2.node → l ∈ retained_lambdas r1.node

/-! ### Statement-side definitions for the binding operations -/

/-- The leading levels of a chain whose parameter has a binding: the longest
prefix of the parameters of the chain, outermost first, in which every
parameter has a non-empty binding stack. -/
def bound_levels (assigned : BtorNode → List Ref) (L : BtorNode) : List BtorNode :=
  (chain_params L).takeWhile fun p => !(assigned p).isEmpty

/-- The binding stacks with the top binding of every parameter of the list
removed. -/
def pop_bindings (assigned : BtorNode → List Ref) (ps : List BtorNode) :
    BtorNode → List Ref :=
  fun q => if q ∈ ps then (assigned q).tail else assigned q

/-! Spec-side definitions for the scope tables of marks of the
full/bounded/chain reducer. -/

/-- The scope tables of marks, the stack of saved tables, the scope lambdas
and the work stack are the same in `s` and `s1`. -/
def SameScopes (s s1 : LoopState) : Prop :=
  s1.cur_scope = s.cur_scope ∧ s1.scopes = s.scopes ∧ s1.scope_lambdas = s.scope_lambdas ∧
  s1.cur_scope_lambda = s.cur_scope_lambda ∧ s1.work_stack = s.work_stack

/-- Every mark of the table `t` is present in `t1` with a value that is not
smaller. -/
def MarksForward (t t1 : PtrHashTable BtorNode Nat) : Prop :=
  ∀ n k, PtrHashTable.find t n = some k → ∃ k1, PtrHashTable.find t1 n = some k1 ∧ k ≤ k1

/-- Every mark of the table is 1 (expanded) or 2 (done). -/
def MarksSettled (t : PtrHashTable BtorNode Nat) : Prop :=
  ∀ n k, PtrHashTable.find t n = some k → k = 1 ∨ k = 2

/-- The label `BETA_REDUCE_PUSH_ARG_STACK` without its first statement, the
assertion `assert (mbucket->data.asInt != 2)`. -/
def push_arg_stack_unchecked (cur : Ref) (real_cur : BtorNode) (result : Ref) (s : LoopState) :
    Option LoopState :=
  let s1 := { s with cur_scope := PtrHashTable.set s.cur_scope real_cur 2 }
  let stored : Option LoopState :=
    if real_cur.parameterized then
      if (PtrHashTable.find s1.cur_scope_results real_cur).isSome then none
      else some { s1 with
        cur_scope_results := PtrHashTable.set s1.cur_scope_results real_cur result }
    else some s1
  match stored with
  | none => none
  | some s2 =>
    let unassigned : Option LoopState :=
      if s2.cur_scope_lambda = some real_cur then
        match BETA_REDUCE_CLOSE_SCOPE s2 with
        | none => none
        | some s3 => unassign_params_label real_cur s3
      else if real_cur.BTOR_IS_LAMBDA_NODE && !real_cur.BTOR_IS_NESTED_LAMBDA_NODE
          && real_cur.parameterized then
        unassign_params_label real_cur s2
      else some s2
    match unassigned with
    | none => none
    | some s4 => some (push_arg_stack_without_close_scope cur result s4)

/-- The first visit of a node, with the emit label without its assertion. -/
def expand_unchecked (env : Ext) (mode bound : Int) (cur : Ref) (cur_parent : Option BtorNode)
    (s : LoopState) : Option LoopState :=
  let real_cur := cur.node
  if !(s.btor.beta_mark real_cur == 0 || real_cur.BTOR_IS_LAMBDA_NODE) then none
  else
    let s1 := { s with cur_scope := PtrHashTable.set s.cur_scope real_cur 1 }
    let se := real_cur.e.map env.simplify
    if bound > 0 && real_cur.BTOR_IS_LAMBDA_NODE && (s1.scopes.length : Int) ≥ bound then
      if s1.cur_scope_lambda ≠ some real_cur then none
      else push_arg_stack_unchecked cur real_cur real_cur.ref s1
    else if mode == BETA_RED_LAMBDA_CHAINS
        && ((real_cur.BTOR_IS_LAMBDA_NODE && !real_cur.info.chain)
            || (!real_cur.BTOR_IS_LAMBDA_NODE && !real_cur.parameterized)) then
      push_arg_stack_unchecked cur real_cur real_cur.ref s1
    else if !real_cur.lambda_below && !real_cur.parameterized then
      push_arg_stack_unchecked cur real_cur real_cur.ref s1
    else if real_cur.BTOR_IS_PARAM_NODE then
      match btor_param_cur_assignment s1.btor real_cur.ref with
      | none => none
      | some next => push_arg_stack_unchecked cur real_cur (next.getD real_cur.ref) s1
    else
      match assign_lambda real_cur cur_parent se s1 with
      | none => none
      | some (.inl result) => push_arg_stack_unchecked cur real_cur result s1
      | some (.inr s2) =>
        some { s2 with
          work_stack :=
            (se.reverse.map fun c => (c, some real_cur)) ++ (cur, cur_parent) :: s2.work_stack }

/-- The post-order visit of a node, with the emit label without its
assertion. -/
def collect_unchecked (env : Ext) (mode bound : Int) (cur : Ref) (s : LoopState) :
    Option LoopState :=
  let real_cur := cur.node
  if real_cur.BTOR_IS_BV_CONST_NODE || real_cur.BTOR_IS_BV_VAR_NODE
      || real_cur.BTOR_IS_ARRAY_VAR_NODE || real_cur.BTOR_IS_PARAM_NODE
      || (bound > 0 && real_cur.BTOR_IS_LAMBDA_NODE && (s.scopes.length : Int) ≥ bound) then
    push_arg_stack_unchecked cur real_cur real_cur.ref s
  else
    match rebuild env mode real_cur s with
    | none => none
    | some (result, s1) => push_arg_stack_unchecked cur real_cur result s1

/-- One iteration of the worklist loop, with the emit label without its
assertion. -/
def beta_reduce_step_unchecked (env : Ext) (mode bound : Int) (s : LoopState) :
    Option LoopState :=
  match s.work_stack with
  | [] => some s
  | (cur0, cur_parent) :: work =>
    let cur := simplify_cur env cur0
    let real_cur := cur.node
    let s0 := ({ s with work_stack := work }).record (.visit real_cur)
    let s1 :=
      match PtrHashTable.find s0.cur_scope real_cur with
      | some _ => s0
      | none =>
        let s2 :=
          if real_cur.BTOR_IS_LAMBDA_NODE && !real_cur.parameterized
              && (!real_cur.BTOR_IS_NESTED_LAMBDA_NODE || real_cur.BTOR_IS_FIRST_NESTED_LAMBDA)
          then BETA_REDUCE_OPEN_NEW_SCOPE real_cur s0
          else s0
        { s2 with cur_scope := PtrHashTable.set s2.cur_scope real_cur 0 }
    match PtrHashTable.find s1.cur_scope real_cur with
    | some 0 => expand_unchecked env mode bound cur cur_parent s1
    | some 1 => collect_unchecked env mode bound cur s1
    | some 2 => revisit cur s1
    | _ => none

/-- No simplification is pending in the graph below `n`: every child
reference of every node of the graph is its own simplification. -/
def settled (env : Ext) (n : BtorNode) : Bool :=
  (subterms n).all fun m => m.e.all fun c => stable env c

/-- The run of `k` iterations from `s` is over at the work stack `w`: an
assertion has failed on the way, or the work stack is `w`, the stack of saved
scopes and the scope lambda are those of `s`, and the marks of the current
table differ from those of `s` on the nodes in `ms` only. -/
def RunEnds (env : Ext) (mode bound : Int) (s : LoopState) (ms : BtorNode → Prop)
    (w : List (Ref × Option BtorNode)) (k : Nat) : Prop :=
  run_steps env mode bound k s = none ∨
  ∃ s1, run_steps env mode bound k s = some s1 ∧ s1.work_stack = w ∧ s1.scopes = s.scopes ∧
    s1.scope_lambdas = s.scope_lambdas ∧ s1.cur_scope_lambda = s.cur_scope_lambda ∧
    ∀ m, ¬ ms m → PtrHashTable.find s1.cur_scope m = PtrHashTable.find s.cur_scope m

/-! Spec-side definitions for the reference counts: the references that the
data structures of the reducer hold. -/

/-- The number of references to the node `n` in the list `l`. -/
def refs_in (l : List Ref) (n : BtorNode) : Int :=
  (l.map fun r => if n = r.node then (1 : Int) else 0).sum

/-- The references of the entries of the cross-call cache: the lambda and the
args node of the key and the result. -/
def table_entries : PtrHashTable (Ref × Ref) Ref → List Ref
  | [] => []
  | ((l, a), r) :: t => l :: a :: r :: table_entries t

/-- The number of references to `n` that the cross-call cache holds. -/
def cache_held (c : Option (PtrHashTable (Ref × Ref) Ref)) (n : BtorNode) : Int :=
  match c with
  | none => 0
  | some t => refs_in (table_entries t) n

/-- The number of references to `n` that the loop state holds: on the argument
stack, in the result tables of the current and the saved scopes, and in the
cross-call cache. -/
def held (s : LoopState) (n : BtorNode) : Int :=
  refs_in s.arg_stack n + refs_in (s.cur_scope_results.map Prod.snd) n
    + (s.scope_results.map fun t => refs_in (t.map Prod.snd) n).sum
    + cache_held s.btor.cache n

/-- The arity of the node is the arity of its kind: 1 for a slice, 2 for a
binary operation, an apply and a lambda, 3 for a conditional. -/
def kind_arity_ok (n : BtorNode) : Bool :=
  match n.kind with
  | .slice => n.arity == 1
  | .and | .beq | .aeq | .add | .mul | .ult | .sll | .srl | .udiv | .urem | .concat
  | .apply | .lambda => n.arity == 2
  | .bcond => n.arity == 3
  | _ => true

/-- Every node of the graph below `n` has the arity of its kind. -/
def kinds_ok (n : BtorNode) : Bool := (subterms n).all kind_arity_ok

/-- The references that the memo of the partial reducer holds: for every
entry the references of the tuple of the key, the result and its origin. -/
def memo_entries (tr : TupleRefs) :
    PtrHashTable BtorParamCacheTuple (Ref × BtorNode) → List Ref
  | [] => []
  | (t0, (e0, e1)) :: rest => tr t0 ++ e0 :: e1.ref :: memo_entries tr rest

/-- The references that the keys of a collection table hold. -/
def sel_entries (tr : TupleRefs) : PtrHashTable BtorParamCacheTuple Ref → List Ref
  | [] => []
  | (t0, _) :: rest => tr t0 ++ sel_entries tr rest

/-- The number of references to `n` that a collection table holds; a null
table holds none. -/
def sel_held (tr : TupleRefs) (sel : Option (PtrHashTable BtorParamCacheTuple Ref))
    (n : BtorNode) : Int :=
  match sel with
  | none => 0
  | some t => refs_in (sel_entries tr t) n

/-- The number of references to `n` that the state of the partial reducer
holds: on the argument stack, in the memo and in the two collection tables. -/
def partial_held (tr : TupleRefs) (s : PartialState) (n : BtorNode) : Int :=
  refs_in s.arg_stack n + refs_in (memo_entries tr s.cache) n
    + sel_held tr s.cond_sel1 n + sel_held tr s.cond_sel2 n

/-! ## Keys of the cross-call cache -/

/-- The keys of the cross-call cache; a null cache has none. -/
def cache_keys (c : Option (PtrHashTable (Ref × Ref) Ref)) : List (Ref × Ref) :=
  match c with
  | none => []
  | some t => t.map Prod.fst

/-- The lambda part of the key is a lambda node that is not inverted and is
the simplification of a lambda that is not parameterized. -/
def LambdaClosed (env : Ext) (key : Ref × Ref) : Prop :=
  key.1.regular = true ∧ key.1.node.BTOR_IS_LAMBDA_NODE = true ∧
  ∃ fn : Ref, fn.node.BTOR_IS_LAMBDA_NODE = true ∧ fn.node.parameterized = false ∧
    key.1 = env.simplify fn

/-- Every key of `c1` is a key of `c0` or has a closed lambda part. -/
def KeysFrom (env : Ext) (c0 c1 : Option (PtrHashTable (Ref × Ref) Ref)) : Prop :=
  ∀ key ∈ cache_keys c1, key ∈ cache_keys c0 ∨ LambdaClosed env key

/-! ## Visits of the worklist loop -/

/-- A node of a leaf kind (constant, variable, parameter) has no children. -/
def leaf_arity_ok (n : BtorNode) : Bool :=
  if n.BTOR_IS_BV_CONST_NODE || n.BTOR_IS_BV_VAR_NODE || n.BTOR_IS_ARRAY_VAR_NODE
      || n.BTOR_IS_PARAM_NODE then n.e.isEmpty
  else true

/-- Every node of a leaf kind below `n` has no children. -/
def leaves_ok (n : BtorNode) : Bool := (subterms n).all leaf_arity_ok

/-- A property of loop states that is kept by every iteration whose node is
one of the nodes `ms`. -/
def StepInv (env : Ext) (mode bound : Int) (ms : BtorNode → Prop) (I : LoopState → Prop) :
    Prop :=
  ∀ (s s1 : LoopState) (cur : Ref) (par : Option BtorNode) (w : List (Ref × Option BtorNode)),
    s.work_stack = (cur, par) :: w → ms (simplify_cur env cur).node →
    beta_reduce_step env mode bound s = some s1 → I s → I s1

/-- The run of `k` iterations from `s` is the visit of entries with nodes in
`ms` and ends at the work stack `w` with `m` results pushed: an assertion has
failed on the way, or the work stack is `w`, the saved scopes and the scope
lambda are those of `s`, the argument stack of `s` has `m` more results on
top, the marks of the current table differ from those of `s` on the nodes in
`ms` only, no node has got the mark 1, and every property kept by the
iterations on nodes of `ms` is kept. -/
def VisitEnds (env : Ext) (mode bound : Int) (s : LoopState) (ms : BtorNode → Prop)
    (w : List (Ref × Option BtorNode)) (k m : Nat) : Prop :=
  run_steps env mode bound k s = none ∨
  ∃ s1, run_steps env mode bound k s = some s1 ∧ s1.work_stack = w ∧ s1.scopes = s.scopes ∧
    s1.scope_lambdas = s.scope_lambdas ∧ s1.cur_scope_lambda = s.cur_scope_lambda ∧
    (∃ rs : List Ref, rs.length = m ∧ s1.arg_stack = rs ++ s.arg_stack) ∧
    (∀ x, ¬ ms x → PtrHashTable.find s1.cur_scope x = PtrHashTable.find s.cur_scope x) ∧
    (∀ x, PtrHashTable.find s1.cur_scope x = some 1 → PtrHashTable.find s.cur_scope x = some 1) ∧
    ∀ I : LoopState → Prop, StepInv env mode bound ms I → I s → I s1

/-- No lambda at or below `n` has `x` as its parameter: the first child of
every lambda node of the graph of `n` is a node other than `x`. -/
def not_bound_below (x n : BtorNode) : Prop :=
  ∀ M, M ∈ subterms n → M.BTOR_IS_LAMBDA_NODE = true → ∀ c, M.e.head? = some c → c.node ≠ x

/-- The parameter `x` of the lambda `L` carries at most one binding, and while
it carries one `L` is on the stack of the lambdas to unassign; the cross-call
cache exists. -/
def BindInv (L x : BtorNode) (s : LoopState) : Prop :=
  s.btor.cache.isSome = true ∧ (s.btor.assigned_exp x).length ≤ 1 ∧
  (s.btor.assigned_exp x ≠ [] → L ∈ s.unassign_stack)

/-- The test of `not_bound_below` as a computation on the list of the nodes at
or below `n`. -/
def not_bound_below_test (x n : BtorNode) : Bool :=
  (subterms n).all fun M =>
    !M.BTOR_IS_LAMBDA_NODE ||
      match M.e.head? with
      | some c => decide (c.node ≠ x)
      | none => true

/-! ## A constructor library without rewriting, for concrete runs -/

/-- Flags of a freshly built interior node: it is parameterized when a child
is, and has a lambda below when a child is a lambda or has one below. -/
def fresh_info (k : BtorNodeKind) (len : Nat) (children : List Ref) : NodeInfo :=
  { id := 0, kind := k, len := len
    parameterized := children.any fun c => c.node.parameterized
    lambda_below := children.any fun c => c.node.lambda_below || c.node.BTOR_IS_LAMBDA_NODE }

def fresh1 (k : BtorNodeKind) (len : Nat) (a : Ref) : Ref :=
  (BtorNode.n1 (fresh_info k len [a]) a.node a.inv).ref

def fresh2 (k : BtorNodeKind) (len : Nat) (a b : Ref) : Ref :=
  (BtorNode.n2 (fresh_info k len [a, b]) a.node a.inv b.node b.inv).ref

def fresh3 (k : BtorNodeKind) (len : Nat) (a b c : Ref) : Ref :=
  (BtorNode.n3 (fresh_info k len [a, b, c]) a.node a.inv b.node b.inv c.node c.inv).ref

/-- Constructors that build the node they are asked for and never rewrite;
no node has a pending simplification. -/
def freeExt : Ext :=
  { simplify := id
    chase := id
    slice_exp := fun a u l =>
      (BtorNode.n1 { fresh_info .slice (u - l + 1) [a] with upper := u, lower := l }
        a.node a.inv).ref
    and_exp := fun a b => fresh2 .and a.node.len a b
    eq_exp := fun a b => fresh2 .beq 1 a b
    add_exp := fun a b => fresh2 .add a.node.len a b
    mul_exp := fun a b => fresh2 .mul a.node.len a b
    ult_exp := fun a b => fresh2 .ult 1 a b
    sll_exp := fun a b => fresh2 .sll a.node.len a b
    srl_exp := fun a b => fresh2 .srl a.node.len a b
    udiv_exp := fun a b => fresh2 .udiv a.node.len a b
    urem_exp := fun a b => fresh2 .urem a.node.len a b
    concat_exp := fun a b => fresh2 .concat (a.node.len + b.node.len) a b
    args_exp := fun l =>
      match l with
      | [a] => fresh1 .args 1 a
      | [a, b] => fresh2 .args 1 a b
      | [a, b, c] => fresh3 .args 1 a b c
      | _ => (BtorNode.n0 { id := 0, kind := .args }).ref
    apply_exp_node := fun f a => fresh2 .apply f.node.len f a
    cond_exp := fun c a b => fresh3 .bcond a.node.len c a b
    lambda_exp := fun p b =>
      (BtorNode.n2 { id := 0, kind := .lambda, len := b.node.len, lambda_below := true }
        p.node p.inv b.node b.inv).ref
    param_exp := fun len =>
      (BtorNode.n0 { id := 0, kind := .param, len := len, parameterized := true }).ref
    eval_exp := fun _ _ => none }

/-- A solver state with an empty cache, no binding and no mark. -/
def btor0 : Btor :=
  { cache := some [], assigned_exp := fun _ => [], beta_mark := fun _ => 0, rewrite_level := 3,
    log := [] }

def ex_const (id len : Nat) : BtorNode := .n0 { id := id, kind := .bv_const, len := len }
def ex_param (id len : Nat) : BtorNode :=
  .n0 { id := id, kind := .param, len := len, parameterized := true }
def ex_args1 (id : Nat) (a : Ref) : BtorNode :=
  .n1 { fresh_info .args 1 [a] with id := id } a.node a.inv
/-- A lambda that is not parameterized and not nested. -/
def ex_lambda (id : Nat) (p : BtorNode) (body : Ref) : BtorNode :=
  .n2 { id := id, kind := .lambda, len := body.node.len, lambda_below := true }
    p false body.node body.inv
def ex_apply (id : Nat) (f a : BtorNode) : BtorNode :=
  .n2 { fresh_info .apply f.len [f.ref, a.ref] with id := id } f false a false


def ex_array_var (id len : Nat) : BtorNode := .n0 { id := id, kind := .array_var, len := len }

/-- An apply of an array variable that is marked as a top-level constraint. -/
def ex_constraint_apply : BtorNode :=
  .n2 { id := 23, kind := .apply, len := 1, constraint := true }
    (ex_array_var 20 1) false (ex_args1 22 (ex_const 21 8).ref) false

/-- A simplifier that rewrites a node marked constraint to the constant true,
as the simplification of top-level constraints does; `chase` only follows
forwarding pointers, of which there are none. -/
def rewritingExt : Ext :=
  { freeExt with
    simplify := fun r => if r.node.info.constraint then ⟨ex_const 0 1, r.inv⟩ else r }

/-! Scenario 1 of the specification: the identity lambda applied to a constant. -/

def ex_p8 : BtorNode := ex_param 1 8
def ex_c5 : BtorNode := ex_const 2 8
def ex_id_lambda : BtorNode := ex_lambda 3 ex_p8 ex_p8.ref
def ex_args_c5 : BtorNode := ex_args1 4 ex_c5.ref
def ex_id_apply : BtorNode := ex_apply 5 ex_id_lambda ex_args_c5

/-! Scenario 3 of the specification: the chain of two lambdas over an addition. -/

def ex_p3 : BtorNode := ex_param 31 3
def ex_q3 : BtorNode := ex_param 32 3
def ex_add_pq : BtorNode :=
  .n2 { fresh_info .add 3 [ex_p3.ref, ex_q3.ref] with id := 33 } ex_p3 false ex_q3 false
/-- The inner lambda of the chain: nested, not the head, parameterized by `p`. -/
def ex_inner_lambda : BtorNode :=
  .n2 { id := 34, kind := .lambda, len := 3, parameterized := true, lambda_below := true,
        is_nested := true }
    ex_q3 false ex_add_pq false
/-- The head of the chain. -/
def ex_chain_head : BtorNode :=
  .n2 { id := 35, kind := .lambda, len := 3, lambda_below := true, is_nested := true,
        is_first_nested := true }
    ex_p3 false ex_inner_lambda false
def ex_c1 : BtorNode := ex_const 36 3
def ex_c2 : BtorNode := ex_const 37 3
def ex_args_c1 : BtorNode := ex_args1 38 ex_c1.ref
def ex_chain_apply : BtorNode := ex_apply 39 ex_chain_head ex_args_c1

/-! A lambda whose body applies a second lambda: `λp. (λq. q) (p)`. -/

def ex_q8 : BtorNode := ex_param 41 8
def ex_inner_id : BtorNode := ex_lambda 42 ex_q8 ex_q8.ref
def ex_args_p : BtorNode := ex_args1 43 ex_p8.ref
def ex_inner_apply : BtorNode := ex_apply 44 ex_inner_id ex_args_p
def ex_outer_lambda : BtorNode := ex_lambda 45 ex_p8 ex_inner_apply.ref
def ex_outer_apply : BtorNode := ex_apply 46 ex_outer_lambda ex_args_c5

/-! An apply whose argument is itself an apply of a lambda:
`(λq. q) ((λp. p) (5))`. -/

def ex_args_app : BtorNode := ex_args1 51 ex_id_apply.ref
def ex_nested_arg_apply : BtorNode := ex_apply 52 ex_inner_id ex_args_app

/-! Fixtures of the partial reducer: scenario 5 of the specification, a
conditional over the parameter `p` with the binding `p = 5`. -/

/-- Constants that have been encoded (flag `tseitin`). -/
def ex_t5 : BtorNode := .n0 { id := 61, kind := .bv_const, len := 8, tseitin := true }
def ex_t7 : BtorNode := .n0 { id := 62, kind := .bv_const, len := 8, tseitin := true }
/-- The parameterized branches `add (p, 5)` and `mul (p, 7)`. -/
def ex_add_p5 : BtorNode :=
  .n2 { fresh_info .add 8 [ex_p8.ref, ex_t5.ref] with id := 63 } ex_p8 false ex_t5 false
def ex_mul_p7 : BtorNode :=
  .n2 { fresh_info .mul 8 [ex_p8.ref, ex_t7.ref] with id := 64 } ex_p8 false ex_t7 false
/-- The parameterized predicate `ult (p, 7)`. -/
def ex_cond : BtorNode :=
  .n2 { fresh_info .ult 1 [ex_p8.ref, ex_t7.ref] with id := 65 } ex_p8 false ex_t7 false
/-- The conditional `ite (ult (p, 7), add (p, 5), mul (p, 7))`. -/
def ex_ite : BtorNode :=
  .n3 { fresh_info .bcond 8 [ex_cond.ref, ex_add_p5.ref, ex_mul_p7.ref] with id := 66 }
    ex_cond false ex_add_p5 false ex_mul_p7 false

/-- The constant lambda `λp. 5` over the encoded constant. -/
def ex_const_lambda : BtorNode := ex_lambda 67 ex_p8 ex_t5.ref

/-- The solver state of the scenario: `p` is bound to the constant 5. -/
def btor_p5 : Btor :=
  { btor0 with assigned_exp := fun n => if n = ex_p8 then [ex_c5.ref] else [] }

/-- An evaluator that knows the value of one condition and returns null for
every other term. -/
def evalExt (cond : BtorNode) (bits : List Char) : Ext :=
  { freeExt with eval_exp := fun _ r => if r.node = cond then some bits else none }

/-- The conditional `ite (ult (p, 7), 5, mul (p, 7))` whose then-branch is the
constant 5 that has not been encoded. -/
def ex_ite_plain : BtorNode :=
  .n3 { fresh_info .bcond 8 [ex_cond.ref, ex_c5.ref, ex_mul_p7.ref] with id := 68 }
    ex_cond false ex_c5 false ex_mul_p7 false

/-- The conditional `ite (ult (p, 7), 5, mul (p, 7))` whose then-branch is the
encoded constant 5. -/
def ex_ite_enc : BtorNode :=
  .n3 { fresh_info .bcond 8 [ex_cond.ref, ex_t5.ref, ex_mul_p7.ref] with id := 69 }
    ex_cond false ex_t5 false ex_mul_p7 false

/-! Fixtures with a parameter that is bound when the reducer is entered. -/

/-- The closed redex `(λq. q) (5)`. -/
def ex_redex : BtorNode := ex_apply 53 ex_inner_id ex_args_c5

/-- A solver state in which `p` is bound to the redex `(λq. q) (5)`. -/
def btor_p_redex : Btor :=
  { btor0 with assigned_exp := fun n => if n = ex_p8 then [ex_redex.ref] else [] }

/-- The loop state of `bounded (ex_outer_apply, 2)` after seven iterations:
the inner lambda `λq. q` is on top of the work stack, inside the scope of the
outer lambda. -/
def ex_state_at_inner : LoopState :=
  (run_steps freeExt BETA_RED_BOUNDED 2 7 (beta_reduce_init btor0 ex_outer_apply.ref)).getD
    (beta_reduce_init btor0 ex_outer_apply.ref)

/-- The args nodes `args (c1, c2)` and `args (c1, c2, c1)` on 3 bits. -/
def ex_args_c1c2 : BtorNode :=
  .n2 { fresh_info .args 1 [ex_c1.ref, ex_c2.ref] with id := 54 } ex_c1 false ex_c2 false
def ex_args_c1c2c1 : BtorNode :=
  .n3 { fresh_info .args 1 [ex_c1.ref, ex_c2.ref, ex_c1.ref] with id := 55 }
    ex_c1 false ex_c2 false ex_c1 false

/-- Solver states in which parameters of the chain `λp. λq. add (p, q)` are
bound: `p` twice and `q` once; and `q` only. -/
def btor_pq : Btor :=
  { btor0 with
    assigned_exp := fun n =>
      if n = ex_p3 then [ex_c1.ref, ex_c2.ref] else if n = ex_q3 then [ex_c2.ref] else [] }
def btor_q : Btor :=
  { btor0 with assigned_exp := fun n => if n = ex_q3 then [ex_c2.ref] else [] }

/-! A parameterized lambda that is applied twice inside one scope:
`(λp. and ((λq. add (p, q)) (5), (λq. add (p, q)) (9))) (3)`. -/

def ex_c3v : BtorNode := ex_const 80 8
def ex_c9 : BtorNode := ex_const 73 8
def ex_add_pq8 : BtorNode :=
  .n2 { fresh_info .add 8 [ex_p8.ref, ex_q8.ref] with id := 71 } ex_p8 false ex_q8 false
/-- The lambda `λq. add (p, q)`: parameterized by `p`, not nested. -/
def ex_shared_lambda : BtorNode :=
  .n2 { id := 72, kind := .lambda, len := 8, parameterized := true, lambda_below := true }
    ex_q8 false ex_add_pq8 false
def ex_args_c9 : BtorNode := ex_args1 75 ex_c9.ref
def ex_apply_first : BtorNode := ex_apply 74 ex_shared_lambda ex_args_c5
def ex_apply_second : BtorNode := ex_apply 76 ex_shared_lambda ex_args_c9
def ex_and_applies : BtorNode :=
  .n2 { fresh_info .and 8 [ex_apply_first.ref, ex_apply_second.ref] with id := 77 }
    ex_apply_first false ex_apply_second false
def ex_twice_lambda : BtorNode := ex_lambda 78 ex_p8 ex_and_applies.ref
def ex_args_c3v : BtorNode := ex_args1 81 ex_c3v.ref
def ex_twice_apply : BtorNode := ex_apply 79 ex_twice_lambda ex_args_c3v

/-! A node with a shared child, `add (p, p)`, and a term that reaches the
head lambda `λp. p` twice, `and ((λp. p) (5), (λp. p) (9))`. -/

def ex_add_pp : BtorNode :=
  .n2 { fresh_info .add 8 [ex_p8.ref, ex_p8.ref] with id := 90 } ex_p8 false ex_p8 false
def ex_id_apply9 : BtorNode := ex_apply 91 ex_id_lambda ex_args_c9
def ex_and_ids : BtorNode :=
  .n2 { fresh_info .and 8 [ex_id_apply.ref, ex_id_apply9.ref] with id := 92 }
    ex_id_apply false ex_id_apply9 false
/-- The loop state of the full reduction of `add (p, p)` with `p` bound to 5
after two iterations: the second occurrence of `p` is on top of the work
stack. -/
def ex_revisit_state : LoopState :=
  (run_steps freeExt BETA_RED_FULL 0 2 (beta_reduce_init btor_p5 ex_add_pp.ref)).getD
    (beta_reduce_init btor_p5 ex_add_pp.ref)

/-! Terms with a shared closed redex: `add ((λp. p) (5), (λp. p) (5))`, and
two applies of `λq. q` whose args nodes `args ((λp. p) (5))` and
`args (¬ (λp. p) (5))` are distinct and share the redex. -/

def ex_add_apps : BtorNode :=
  .n2 { fresh_info .add 8 [ex_id_apply.ref, ex_id_apply.ref] with id := 120 }
    ex_id_apply false ex_id_apply false
def ex_args_napp : BtorNode := ex_args1 131 ⟨ex_id_apply, true⟩
def ex_apply_A : BtorNode := ex_apply 132 ex_inner_id ex_args_app
def ex_apply_B : BtorNode := ex_apply 133 ex_inner_id ex_args_napp
def ex_and_AB : BtorNode :=
  .n2 { fresh_info .and 8 [ex_apply_A.ref, ex_apply_B.ref] with id := 134 }
    ex_apply_A false ex_apply_B false

/-! A chain `λs. λr. r` whose inner lambda is closed, and an apply of that
inner lambda: `(λr. r) (5)`. The inner lambda is nested, not the first of its
chain and not parameterized. -/

def ex_s8 : BtorNode := ex_param 100 8
def ex_r8 : BtorNode := ex_param 101 8
def ex_closed_inner : BtorNode :=
  .n2 { id := 102, kind := .lambda, len := 8, lambda_below := true, is_nested := true }
    ex_r8 false ex_r8 false
def ex_closed_head : BtorNode :=
  .n2 { id := 103, kind := .lambda, len := 8, lambda_below := true, is_nested := true,
        is_first_nested := true }
    ex_s8 false ex_closed_inner false
def ex_apply_closed_inner : BtorNode := ex_apply 104 ex_closed_inner ex_args_c5

/-! A lambda whose body applies a constant function to its own parameter:
`λp. (λq. 5) (p)`. -/

def ex_five_lambda : BtorNode := ex_lambda 110 ex_q8 ex_c5.ref
def ex_apply_five : BtorNode := ex_apply 111 ex_five_lambda ex_args_p
def ex_five_outer : BtorNode := ex_lambda 112 ex_p8 ex_apply_five.ref

/-! A lambda with the chain flag whose body applies a parameterized lambda
without the chain flag twice:
`λp. and ((λq. add (p, q)) (5), (λq. add (p, q)) (9))`. -/

def ex_chain_twice : BtorNode :=
  .n2 { id := 140, kind := .lambda, len := 8, lambda_below := true, chain := true }
    ex_p8 false ex_and_applies false

/-! A conjunction of a closed redex and its negation, with hash-consed nodes
and a constructor of `and` that rewrites a contradiction:
`and (a, ¬a)` with `a = (λp. (λq. q) (p)) (5)`. -/

/-- The constant false on 8 bits. -/
def ex_false8 : BtorNode := ex_const 0 8

/-- Modelled from the spec: the constructors are outside `src/`; the spec
says that they rewrite and that rebuilt nodes are hash-consed and simplified.
This library is `freeExt` with one rewriting rule in the constructor of `and`:
the conjunction of a node and its negation is the constant false. -/
def contradictionExt : Ext :=
  { freeExt with
    and_exp := fun a b =>
      if a.node = b.node ∧ a.inv ≠ b.inv then ex_false8.ref else freeExt.and_exp a b }

/-- The apply node `(λp. (λq. q) (p)) (5)` as the constructor of apply returns
it, so that rebuilding the apply from the same children gives this node, as
hash-consing does. -/
def ex_hc_apply : BtorNode := (freeExt.apply_exp_node ex_outer_lambda.ref ex_args_c5.ref).node

/-- The conjunction `and (a, ¬a)`: one apply node is both children. -/
def ex_and_not : BtorNode :=
  .n2 { fresh_info .and 8 [ex_hc_apply.ref, ⟨ex_hc_apply, true⟩] with id := 150 }
    ex_hc_apply false ex_hc_apply true

/-- The apply `(λq. q) (5)` that bounded reduction with bound 2 builds from
`(λp. (λq. q) (p)) (5)`. -/
def ex_cut_inner : BtorNode :=
  (freeExt.apply_exp_node ex_inner_id.ref (freeExt.args_exp [ex_c5.ref])).node
/-! ## Projections of nodes and references -/

@[simp] theorem ref_node (n : BtorNode) : n.ref.node = n := rfl
@[simp] theorem ref_inv (n : BtorNode) : n.ref.inv = false := rfl
@[simp] theorem ref_regular (n : BtorNode) : n.ref.regular = true := rfl
@[simp] theorem info_n0 (i : NodeInfo) : (BtorNode.n0 i).info = i := rfl
@[simp] theorem info_n1 (i : NodeInfo) (c0 : BtorNode) (v0 : Bool) :
    (BtorNode.n1 i c0 v0).info = i := rfl
@[simp] theorem info_n2 (i : NodeInfo) (c0 : BtorNode) (v0 : Bool) (c1 : BtorNode) (v1 : Bool) :
    (BtorNode.n2 i c0 v0 c1 v1).info = i := rfl
@[simp] theorem info_n3 (i : NodeInfo) (c0 : BtorNode) (v0 : Bool) (c1 : BtorNode) (v1 : Bool)
    (c2 : BtorNode) (v2 : Bool) : (BtorNode.n3 i c0 v0 c1 v1 c2 v2).info = i := rfl
@[simp] theorem kind_n0 (i : NodeInfo) : (BtorNode.n0 i).kind = i.kind := rfl
@[simp] theorem kind_n1 (i : NodeInfo) (c0 : BtorNode) (v0 : Bool) :
    (BtorNode.n1 i c0 v0).kind = i.kind := rfl
@[simp] theorem kind_n2 (i : NodeInfo) (c0 : BtorNode) (v0 : Bool) (c1 : BtorNode) (v1 : Bool) :
    (BtorNode.n2 i c0 v0 c1 v1).kind = i.kind := rfl
@[simp] theorem kind_n3 (i : NodeInfo) (c0 : BtorNode) (v0 : Bool) (c1 : BtorNode) (v1 : Bool)
    (c2 : BtorNode) (v2 : Bool) : (BtorNode.n3 i c0 v0 c1 v1 c2 v2).kind = i.kind := rfl

theorem cond_invert_ref (cur : Ref) : cur.cond_invert cur.node.ref = cur := by
  cases cur with
  | mk node inv => cases inv <;> simp [Ref.cond_invert, BtorNode.ref, Ref.invert]

theorem ref_eta (n : BtorNode) : (⟨n, false⟩ : Ref) = n.ref := rfl

theorem ne_of_kind {a b : BtorNode} (h : a.kind ≠ b.kind) : a ≠ b := by
  intro hab
  exact h (by rw [hab])

/-! ## Hash table lemmas -/

namespace PtrHashTable
variable {κ ν : Type} [DecidableEq κ]

theorem find_set_self (t : PtrHashTable κ ν) (k : κ) (v : ν) : find (set t k v) k = some v := by
  induction t with
  | nil => simp [set, find]
  | cons hd tl ih =>
    obtain ⟨k1, w⟩ := hd
    by_cases h : k1 = k
    · simp [set, find, h]
    · simp [set, find, h, ih]

theorem find_set_other (t : PtrHashTable κ ν) (k x : κ) (v : ν) (h : k ≠ x) :
    find (set t k v) x = find t x := by
  induction t with
  | nil => simp [set, find, h]
  | cons hd tl ih =>
    obtain ⟨k1, w⟩ := hd
    by_cases h1 : k1 = k
    · subst h1; simp [set, find, h]
    · by_cases h2 : k1 = x
      · subst h2; simp [set, find, h1]
      · simp [set, find, h1, h2, ih]

theorem find_set (t : PtrHashTable κ ν) (k x : κ) (v : ν) :
    find (set t k v) x = if k = x then some v else find t x := by
  by_cases h : k = x
  · subst h; simp [find_set_self]
  · simp [h, find_set_other t k x v h]

theorem set_set (t : PtrHashTable κ ν) (k : κ) (v w : ν) : set (set t k v) k w = set t k w := by
  induction t with
  | nil => simp [set]
  | cons hd tl ih =>
    obtain ⟨k1, u⟩ := hd
    by_cases h : k1 = k
    · simp [set, h]
    · simp [set, h, ih]

end PtrHashTable


/-! ## Lemmas on the worklist loop -/

theorem unassign_loop_total (L : BtorNode) (h : chain_wf L = true) :
    ∀ assigned, ∃ a, btor_unassign_params_loop assigned L = some a := by
  induction L with
  | n0 i => simp [chain_wf] at h
  | n1 i c0 v0 _ => simp [chain_wf] at h
  | n3 i c0 v0 c1 v1 c2 v2 _ _ _ => simp [chain_wf] at h
  | n2 i c0 v0 c1 v1 ih0 ih1 =>
    intro assigned
    simp only [chain_wf, Bool.and_eq_true] at h
    unfold btor_unassign_params_loop
    by_cases he : (assigned c0).isEmpty = true
    · simp [he]
    · by_cases hl : c1.BTOR_IS_LAMBDA_NODE = true
      · simp only [he, hl, if_true]
        simp only [hl, if_true] at h
        exact ih1 h.2 _
      · simp [he, hl]

theorem loop_done (env : Ext) (mode bound : Int) (fuel : Nat) (s : LoopState)
    (h : s.work_stack = []) : beta_reduce_loop env mode bound fuel s = .done s := by
  cases fuel <;> simp [beta_reduce_loop, h]

theorem loop_step (env : Ext) (mode bound : Int) (fuel : Nat) (s s1 : LoopState)
    (hw : s.work_stack ≠ []) (h : beta_reduce_step env mode bound s = some s1) :
    beta_reduce_loop env mode bound (fuel + 1) s = beta_reduce_loop env mode bound fuel s1 := by
  cases hs : s.work_stack with
  | nil => exact absurd hs hw
  | cons a t => simp [beta_reduce_loop, hs, h]

theorem push_arg_stack_plain (cur : Ref) (n : BtorNode) (result : Ref) (s : LoopState)
    (hm : PtrHashTable.find s.cur_scope n ≠ some 2)
    (hl : s.cur_scope_lambda ≠ some n)
    (hu : (n.BTOR_IS_LAMBDA_NODE && !n.BTOR_IS_NESTED_LAMBDA_NODE && n.parameterized) = false)
    (hr : n.parameterized = true → PtrHashTable.find s.cur_scope_results n = none) :
    push_arg_stack cur n result s =
      some { s with
        cur_scope := PtrHashTable.set s.cur_scope n 2
        cur_scope_results :=
          if n.parameterized then PtrHashTable.set s.cur_scope_results n result
          else s.cur_scope_results
        arg_stack := cur.cond_invert result :: s.arg_stack } := by
  unfold push_arg_stack
  by_cases hp : n.parameterized = true
  · have hu2 : ¬(n.BTOR_IS_LAMBDA_NODE = true ∧ n.BTOR_IS_NESTED_LAMBDA_NODE = false) := by
      simpa [hp] using hu
    simp [hm, hl, hu2, hr hp, hp, push_arg_stack_without_close_scope]
  · simp [hm, hl, hu, hp, push_arg_stack_without_close_scope]

theorem step_unmarked (env : Ext) (mode bound : Int) (s : LoopState) (cur0 cur : Ref)
    (par : Option BtorNode) (w : List (Ref × Option BtorNode))
    (h : s.work_stack = (cur0, par) :: w) (hc : simplify_cur env cur0 = cur)
    (hf : PtrHashTable.find s.cur_scope cur.node = none)
    (ho : opens_scope cur.node = false) :
    beta_reduce_step env mode bound s =
      expand env mode bound cur par
        (({ s with work_stack := w, cur_scope := PtrHashTable.set s.cur_scope cur.node 0 }
          : LoopState).record (.visit cur.node)) := by
  unfold opens_scope at ho
  simp only [beta_reduce_step, h, hc, LoopState.record, hf, ho]
  simp [PtrHashTable.find_set_self]

theorem step_unmarked_open (env : Ext) (mode bound : Int) (s : LoopState) (cur0 cur : Ref)
    (par : Option BtorNode) (w : List (Ref × Option BtorNode))
    (h : s.work_stack = (cur0, par) :: w) (hc : simplify_cur env cur0 = cur)
    (hf : PtrHashTable.find s.cur_scope cur.node = none)
    (ho : opens_scope cur.node = true) :
    beta_reduce_step env mode bound s =
      expand env mode bound cur par
        (({ s with
            work_stack := w
            scopes := s.cur_scope :: s.scopes
            scope_results := s.cur_scope_results :: s.scope_results
            scope_lambdas := s.cur_scope_lambda :: s.scope_lambdas
            cur_scope := [(cur.node, 0)]
            cur_scope_results := []
            cur_scope_lambda := some cur.node } : LoopState).record (.visit cur.node)) := by
  unfold opens_scope at ho
  simp only [beta_reduce_step, h, hc, LoopState.record, hf, ho]
  simp [BETA_REDUCE_OPEN_NEW_SCOPE, PtrHashTable.set, PtrHashTable.find]

theorem step_expanded (env : Ext) (mode bound : Int) (s : LoopState) (cur0 cur : Ref)
    (par : Option BtorNode) (w : List (Ref × Option BtorNode))
    (h : s.work_stack = (cur0, par) :: w) (hc : simplify_cur env cur0 = cur)
    (hf : PtrHashTable.find s.cur_scope cur.node = some 1) :
    beta_reduce_step env mode bound s =
      collect env mode bound cur
        (({ s with work_stack := w } : LoopState).record (.visit cur.node)) := by
  simp [beta_reduce_step, h, hc, LoopState.record, hf]

theorem step_done (env : Ext) (mode bound : Int) (s : LoopState) (cur0 cur : Ref)
    (par : Option BtorNode) (w : List (Ref × Option BtorNode))
    (h : s.work_stack = (cur0, par) :: w) (hc : simplify_cur env cur0 = cur)
    (hf : PtrHashTable.find s.cur_scope cur.node = some 2) :
    beta_reduce_step env mode bound s =
      revisit cur (({ s with work_stack := w } : LoopState).record (.visit cur.node)) := by
  simp [beta_reduce_step, h, hc, LoopState.record, hf]

theorem chain_wf_shape (L : BtorNode) (h : chain_wf L = true) :
    ∃ i p body v1, L = .n2 i p false body v1 ∧ i.kind = .lambda ∧ p.BTOR_IS_PARAM_NODE = true := by
  cases L with
  | n0 i => simp [chain_wf] at h
  | n1 i c0 v0 => simp [chain_wf] at h
  | n3 i c0 v0 c1 v1 c2 v2 => simp [chain_wf] at h
  | n2 i c0 v0 c1 v1 =>
    simp only [chain_wf, Bool.and_eq_true, beq_iff_eq, Bool.not_eq_true'] at h
    obtain ⟨⟨⟨hk, hv⟩, hp⟩, _⟩ := h
    subst hv
    exact ⟨i, c0, c1, v1, rfl, hk, hp⟩

theorem unassign_loop_empty (assigned : BtorNode → List Ref) (i : NodeInfo) (p body : BtorNode)
    (v0 v1 : Bool) (h : assigned p = []) :
    btor_unassign_params_loop assigned (.n2 i p v0 body v1) = some assigned := by
  simp [btor_unassign_params_loop, h]

theorem unassign_params_label_eq (L : BtorNode) (s : LoopState) (h : chain_wf L = true) :
    unassign_params_label L s =
      some { s with
        unassign_stack :=
          if s.unassign_stack.head? = some L then s.unassign_stack.tail else s.unassign_stack
        btor := { s.btor with assigned_exp := unassigned s.btor.assigned_exp L } } := by
  obtain ⟨a, ha⟩ := unassign_loop_total L h s.btor.assigned_exp
  obtain ⟨i, p, body, v1, rfl, hk, hp⟩ := chain_wf_shape L h
  have hlam : (BtorNode.n2 i p false body v1).BTOR_IS_LAMBDA_NODE = true := by
    simp [BtorNode.BTOR_IS_LAMBDA_NODE, BtorNode.kind, BtorNode.info, hk]
  unfold unassign_params_label
  by_cases hu : s.unassign_stack.head? = some (BtorNode.n2 i p false body v1)
  · cases hb : s.btor.assigned_exp p with
    | nil =>
      have := unassign_loop_empty s.btor.assigned_exp i p body false v1 hb
      simp [hu, BtorNode.e, btor_param_cur_assignment, Ref.regular, hp, hb, unassigned, this]
    | cons b bs =>
      simp [hu, BtorNode.e, btor_param_cur_assignment, Ref.regular, hp, hb, unassigned,
        btor_unassign_params, BtorNode.ref, hlam, ha]
  · cases hb : s.btor.assigned_exp p with
    | nil =>
      have := unassign_loop_empty s.btor.assigned_exp i p body false v1 hb
      simp [hu, BtorNode.e, btor_param_cur_assignment, Ref.regular, hp, hb, unassigned, this]
    | cons b bs =>
      simp [hu, BtorNode.e, btor_param_cur_assignment, Ref.regular, hp, hb, unassigned,
        btor_unassign_params, BtorNode.ref, hlam, ha]
theorem expand_unchanged (env : Ext) (mode bound : Int) (cur : Ref) (par : Option BtorNode)
    (s : LoopState)
    (hlb : cur.node.lambda_below = false) (hp : cur.node.parameterized = false)
    (hbm : s.btor.beta_mark cur.node = 0 ∨ cur.node.BTOR_IS_LAMBDA_NODE = true)
    (hsc : (s.scopes.length : Int) ≥ bound → 0 < bound → cur.node.BTOR_IS_LAMBDA_NODE = true →
      s.cur_scope_lambda = some cur.node) :
    expand env mode bound cur par s =
      push_arg_stack cur cur.node cur.node.ref
        { s with cur_scope := PtrHashTable.set s.cur_scope cur.node 1 } := by
  unfold expand
  have h1 : (s.btor.beta_mark cur.node == 0 || cur.node.BTOR_IS_LAMBDA_NODE) = true := by
    rcases hbm with h | h <;> simp [h]
  simp only [h1, Bool.not_true, Bool.false_eq_true, if_false]
  by_cases hb : (decide (bound > 0) && cur.node.BTOR_IS_LAMBDA_NODE
      && decide ((s.scopes.length : Int) ≥ bound)) = true
  · simp only [hb, if_true]
    simp only [Bool.and_eq_true, decide_eq_true_eq] at hb
    have := hsc hb.2 hb.1.1 hb.1.2
    simp [this]
  · simp only [hb]
    simp [hlb, hp]


theorem unchanged_root_state (env : Ext) (mode bound : Int) (btor : Btor) (e : Ref)
    (hlb : (simplify_cur env e).node.lambda_below = false)
    (hp : (simplify_cur env e).node.parameterized = false)
    (hbm : btor.beta_mark (simplify_cur env e).node = 0)
    (hwf : (simplify_cur env e).node.BTOR_IS_LAMBDA_NODE = true →
      chain_wf (simplify_cur env e).node = true) :
    ∃ s1, beta_reduce_step env mode bound (beta_reduce_init btor e) = some s1 ∧
      s1.work_stack = [] ∧ s1.arg_stack = [simplify_cur env e] ∧
      s1.cur_scope_lambda = none ∧ s1.scopes = [] ∧ s1.scope_results = [] ∧
      s1.scope_lambdas = [] ∧ s1.unassign_stack = [] ∧
      s1.btor.cache = btor.cache ∧ s1.btor.beta_mark = btor.beta_mark ∧
      s1.btor.log = Event.visit (simplify_cur env e).node :: btor.log ∧
      ((simplify_cur env e).node.BTOR_IS_LAMBDA_NODE = false →
        s1.btor.assigned_exp = btor.assigned_exp) := by
  generalize hcur : simplify_cur env e = cur at *
  by_cases ho : opens_scope cur.node = true
  · have hlam : cur.node.BTOR_IS_LAMBDA_NODE = true := by
      unfold opens_scope at ho
      simp only [Bool.and_eq_true] at ho
      exact ho.1.1
    rw [step_unmarked_open env mode bound _ e cur none [] rfl hcur (by simp [beta_reduce_init, PtrHashTable.find]) ho]
    rw [expand_unchanged env mode bound cur none _ hlb hp (Or.inr hlam) (by intros; rfl)]
    unfold push_arg_stack
    simp only [beta_reduce_init, LoopState.record, PtrHashTable.set, PtrHashTable.find, if_true, hp,
      BETA_REDUCE_CLOSE_SCOPE]
    simp only [unassign_params_label_eq cur.node _ (hwf hlam)]
    simp [push_arg_stack_without_close_scope, Ref.cond_invert, BtorNode.ref, Ref.invert, hlam]
    cases cur with
    | mk node inv => cases inv <;> simp
  · have ho2 : opens_scope cur.node = false := by simpa using ho
    rw [step_unmarked env mode bound _ e cur none [] rfl hcur (by simp [beta_reduce_init, PtrHashTable.find]) ho2]
    rw [expand_unchanged env mode bound cur none _ hlb hp (Or.inl (by simpa [LoopState.record] using hbm))
      (by
        intro h1 h2
        simp [LoopState.record, beta_reduce_init] at h1
        omega)]
    rw [push_arg_stack_plain _ _ _ _ (by simp [LoopState.record, PtrHashTable.set, PtrHashTable.find])
      (by simp [LoopState.record, beta_reduce_init]) (by simp [hp]) (by simp [hp])]
    simp [LoopState.record, beta_reduce_init, hp, Ref.cond_invert, BtorNode.ref, Ref.invert]
    cases cur with
    | mk node inv => cases inv <;> simp


theorem push_arg_stack_frame (cur : Ref) (n : BtorNode) (result : Ref) (s : LoopState)
    (hm : PtrHashTable.find s.cur_scope n ≠ some 2)
    (hr : n.parameterized = true → PtrHashTable.find s.cur_scope_results n = none)
    (hwf : n.BTOR_IS_LAMBDA_NODE = true → chain_wf n = true)
    (hl : s.cur_scope_lambda = some n → n.BTOR_IS_LAMBDA_NODE = true)
    (hsc : s.cur_scope_lambda = some n →
      s.scopes ≠ [] ∧ s.scope_results ≠ [] ∧ s.scope_lambdas ≠ []) :
    ∃ s1, push_arg_stack cur n result s = some s1 ∧ s1.work_stack = s.work_stack ∧
      s1.arg_stack = cur.cond_invert result :: s.arg_stack ∧
      s1.btor.log = s.btor.log ∧ s1.btor.cache = s.btor.cache ∧
      s1.btor.beta_mark = s.btor.beta_mark ∧
      (s.unassign_stack = [] → s1.unassign_stack = []) ∧
      (s.cur_scope_lambda = some n →
        s1.scopes = s.scopes.tail ∧ s1.scope_results = s.scope_results.tail ∧
        s1.scope_lambdas = s.scope_lambdas.tail ∧
        s.scope_lambdas.head? = some s1.cur_scope_lambda) ∧
      (s.cur_scope_lambda ≠ some n →
        s1.scopes = s.scopes ∧ s1.scope_results = s.scope_results ∧
        s1.scope_lambdas = s.scope_lambdas ∧ s1.cur_scope_lambda = s.cur_scope_lambda) := by
  unfold push_arg_stack
  simp only [hm, if_false]
  by_cases hp : n.parameterized = true
  · simp only [hp, hr hp, Option.isSome_none, Bool.false_eq_true, if_false, if_true]
    by_cases hcl : s.cur_scope_lambda = some n
    · have hlam := hl hcl
      obtain ⟨h1, h2, h3⟩ := hsc hcl
      obtain ⟨sc, scs, hsc1⟩ := List.exists_cons_of_ne_nil h1
      obtain ⟨sr, srs, hsr1⟩ := List.exists_cons_of_ne_nil h2
      obtain ⟨sl, sls, hsl1⟩ := List.exists_cons_of_ne_nil h3
      simp [hcl, BETA_REDUCE_CLOSE_SCOPE, hsc1, hsr1, hsl1, unassign_params_label_eq n _ (hwf hlam),
        push_arg_stack_without_close_scope]
      intro h; simp [h]
    · by_cases hlam : n.BTOR_IS_LAMBDA_NODE = true
      · by_cases hn : n.BTOR_IS_NESTED_LAMBDA_NODE = true
        · simp [hcl, hlam, hn, push_arg_stack_without_close_scope]
        · simp [hcl, hlam, hn, unassign_params_label_eq n _ (hwf hlam),
            push_arg_stack_without_close_scope]
          intro h; simp [h]
      · simp [hcl, hlam, push_arg_stack_without_close_scope]
  · simp only [hp, Bool.false_eq_true, if_false]
    by_cases hcl : s.cur_scope_lambda = some n
    · have hlam := hl hcl
      obtain ⟨h1, h2, h3⟩ := hsc hcl
      obtain ⟨sc, scs, hsc1⟩ := List.exists_cons_of_ne_nil h1
      obtain ⟨sr, srs, hsr1⟩ := List.exists_cons_of_ne_nil h2
      obtain ⟨sl, sls, hsl1⟩ := List.exists_cons_of_ne_nil h3
      simp [hcl, BETA_REDUCE_CLOSE_SCOPE, hsc1, hsr1, hsl1, unassign_params_label_eq n _ (hwf hlam),
        push_arg_stack_without_close_scope]
      intro h; simp [h]
    · simp [hcl, push_arg_stack_without_close_scope]

theorem expand_chain_cut (env : Ext) (cur : Ref) (par : Option BtorNode) (s : LoopState)
    (hshape : chain_preserved cur.node = true)
    (hbm : s.btor.beta_mark cur.node = 0 ∨ cur.node.BTOR_IS_LAMBDA_NODE = true) :
    expand env BETA_RED_LAMBDA_CHAINS 0 cur par s =
      push_arg_stack cur cur.node cur.node.ref
        { s with cur_scope := PtrHashTable.set s.cur_scope cur.node 1 } := by
  unfold expand
  have h1 : (s.btor.beta_mark cur.node == 0 || cur.node.BTOR_IS_LAMBDA_NODE) = true := by
    rcases hbm with h | h <;> simp [h]
  simp only [h1, Bool.not_true, Bool.false_eq_true, if_false]
  unfold chain_preserved at hshape
  simp only [Bool.or_eq_true] at hshape
  rcases hshape with h | h
  · have h2 : ((cur.node.BTOR_IS_LAMBDA_NODE && !cur.node.info.chain)
        || (!cur.node.BTOR_IS_LAMBDA_NODE && !cur.node.parameterized)) = true := by
      simpa using h
    simp [h2]
  · have h2 : (!cur.node.lambda_below && !cur.node.parameterized) = true := h
    by_cases h3 : ((cur.node.BTOR_IS_LAMBDA_NODE && !cur.node.info.chain)
        || (!cur.node.BTOR_IS_LAMBDA_NODE && !cur.node.parameterized)) = true
    · simp [h3]
    · simp only [h3, h2]
      simp

theorem chain_step (env : Ext) (s : LoopState) (cur0 : Ref) (par : Option BtorNode)
    (w : List (Ref × Option BtorNode))
    (hw : s.work_stack = (cur0, par) :: w)
    (hfirst : PtrHashTable.find s.cur_scope (simplify_cur env cur0).node = none)
    (hres : PtrHashTable.find s.cur_scope_results (simplify_cur env cur0).node = none)
    (hshape : chain_preserved (simplify_cur env cur0).node = true)
    (hbm : s.btor.beta_mark (simplify_cur env cur0).node = 0
      ∨ (simplify_cur env cur0).node.BTOR_IS_LAMBDA_NODE = true)
    (hwf : (simplify_cur env cur0).node.BTOR_IS_LAMBDA_NODE = true →
      chain_wf (simplify_cur env cur0).node = true)
    (hl : s.cur_scope_lambda ≠ some (simplify_cur env cur0).node) :
    ∃ s1, beta_reduce_step env BETA_RED_LAMBDA_CHAINS 0 s = some s1 ∧ s1.work_stack = w ∧
      s1.arg_stack = simplify_cur env cur0 :: s.arg_stack ∧
      s1.btor.log = Event.visit (simplify_cur env cur0).node :: s.btor.log ∧
      s1.btor.cache = s.btor.cache ∧ s1.btor.beta_mark = s.btor.beta_mark ∧
      (s.unassign_stack = [] → s1.unassign_stack = []) ∧
      s1.scopes = s.scopes ∧ s1.scope_results = s.scope_results ∧
      s1.scope_lambdas = s.scope_lambdas ∧ s1.cur_scope_lambda = s.cur_scope_lambda := by
  generalize hcur : simplify_cur env cur0 = cur at *
  have hci : cur.cond_invert cur.node.ref = cur := by
    cases cur with
    | mk node inv => cases inv <;> simp [Ref.cond_invert, BtorNode.ref, Ref.invert]
  by_cases ho : opens_scope cur.node = true
  · have hlam : cur.node.BTOR_IS_LAMBDA_NODE = true := by
      unfold opens_scope at ho
      simp only [Bool.and_eq_true] at ho
      exact ho.1.1
    rw [step_unmarked_open env _ _ s cur0 cur par w hw hcur hfirst ho]
    rw [expand_chain_cut env cur par _ hshape (Or.inr hlam)]
    obtain ⟨s1, h1, h2, h3, h4, h5, h6, h7, h8, -⟩ := push_arg_stack_frame cur cur.node cur.node.ref
      { (({ s with
            work_stack := w
            scopes := s.cur_scope :: s.scopes
            scope_results := s.cur_scope_results :: s.scope_results
            scope_lambdas := s.cur_scope_lambda :: s.scope_lambdas
            cur_scope := [(cur.node, 0)]
            cur_scope_results := []
            cur_scope_lambda := some cur.node } : LoopState).record (.visit cur.node)) with
        cur_scope := PtrHashTable.set [(cur.node, 0)] cur.node 1 }
      (by simp [PtrHashTable.set, PtrHashTable.find])
      (by simp [LoopState.record, PtrHashTable.find])
      hwf (fun _ => hlam) (by simp [LoopState.record])
    obtain ⟨g1, g2, g3, g4⟩ := h8 (by simp [LoopState.record])
    refine ⟨s1, h1, ?_, ?_, ?_, ?_, ?_, ?_, ?_, ?_, ?_, ?_⟩
    · simpa [LoopState.record] using h2
    · simpa [LoopState.record, hci] using h3
    · simpa [LoopState.record] using h4
    · simpa [LoopState.record] using h5
    · simpa [LoopState.record] using h6
    · simpa [LoopState.record] using h7
    · simpa [LoopState.record] using g1
    · simpa [LoopState.record] using g2
    · simpa [LoopState.record] using g3
    · simpa [LoopState.record] using g4.symm
  · have ho2 : opens_scope cur.node = false := by simpa using ho
    rw [step_unmarked env _ _ s cur0 cur par w hw hcur hfirst ho2]
    rw [expand_chain_cut env cur par _ hshape (by simpa [LoopState.record] using hbm)]
    have hcl := hl
    · obtain ⟨s1, h1, h2, h3, h4, h5, h6, h7, -, h9⟩ := push_arg_stack_frame cur cur.node
        cur.node.ref
        { (({ s with work_stack := w, cur_scope := PtrHashTable.set s.cur_scope cur.node 0 }
            : LoopState).record (.visit cur.node)) with
          cur_scope := PtrHashTable.set (PtrHashTable.set s.cur_scope cur.node 0) cur.node 1 }
        (by simp [PtrHashTable.find_set_self])
        (by simp [LoopState.record, hres])
        hwf (by simp [LoopState.record, hl]) (by simp [LoopState.record, hl])
      obtain ⟨g1, g2, g3, g4⟩ := h9 (by simpa [LoopState.record] using hcl)
      refine ⟨s1, h1, ?_, ?_, ?_, ?_, ?_, ?_, ?_, ?_, ?_, ?_⟩
      · simpa [LoopState.record] using h2
      · simpa [LoopState.record, hci] using h3
      · simpa [LoopState.record] using h4
      · simpa [LoopState.record] using h5
      · simpa [LoopState.record] using h6
      · simpa [LoopState.record] using h7
      · simpa [LoopState.record] using g1
      · simpa [LoopState.record] using g2
      · simpa [LoopState.record] using g3
      · simpa [LoopState.record] using g4
theorem expand_push (env : Ext) (mode bound : Int) (cur : Ref) (par : Option BtorNode)
    (s : LoopState)
    (hbm : s.btor.beta_mark cur.node = 0)
    (hlam : cur.node.BTOR_IS_LAMBDA_NODE = false)
    (hpar : cur.node.BTOR_IS_PARAM_NODE = false)
    (hflag : cur.node.parameterized = true
      ∨ (cur.node.lambda_below = true ∧ mode ≠ BETA_RED_LAMBDA_CHAINS)) :
    expand env mode bound cur par s =
      some { s with
        cur_scope := PtrHashTable.set s.cur_scope cur.node 1
        work_stack :=
          ((cur.node.e.map env.simplify).reverse.map fun c => (c, some cur.node))
            ++ (cur, par) :: s.work_stack } := by
  unfold expand
  simp only [hbm, hlam, hpar, assign_lambda]
  rcases hflag with h | ⟨h1, h2⟩
  · simp [h]
  · simp [h1, h2]


theorem expand_bounded_cut (env : Ext) (mode bound : Int) (cur : Ref) (par : Option BtorNode)
    (s : LoopState) (hb : 0 < bound) (hlam : cur.node.BTOR_IS_LAMBDA_NODE = true)
    (hlen : bound ≤ (s.scopes.length : Int)) (hcl : s.cur_scope_lambda = some cur.node) :
    expand env mode bound cur par s =
      push_arg_stack cur cur.node cur.node.ref
        { s with cur_scope := PtrHashTable.set s.cur_scope cur.node 1 } := by
  unfold expand
  simp [hlam, hb, hlen, hcl]

theorem push_arg_stack_close (cur : Ref) (n : BtorNode) (result : Ref) (s : LoopState)
    (sc : PtrHashTable BtorNode Nat) (scs : List (PtrHashTable BtorNode Nat))
    (sr : PtrHashTable BtorNode Ref) (srs : List (PtrHashTable BtorNode Ref))
    (sl : Option BtorNode) (sls : List (Option BtorNode))
    (hm : PtrHashTable.find s.cur_scope n ≠ some 2)
    (hp : n.parameterized = false) (hwf : chain_wf n = true)
    (hcl : s.cur_scope_lambda = some n)
    (h1 : s.scopes = sc :: scs) (h2 : s.scope_results = sr :: srs)
    (h3 : s.scope_lambdas = sl :: sls) :
    push_arg_stack cur n result s =
      some { s with
        btor := { s.btor with assigned_exp := unassigned s.btor.assigned_exp n }
        arg_stack := cur.cond_invert result :: s.arg_stack
        cur_scope := sc
        cur_scope_results := sr
        cur_scope_lambda := sl
        scopes := scs
        scope_results := srs
        scope_lambdas := sls
        unassign_stack :=
          if s.unassign_stack.head? = some n then s.unassign_stack.tail else s.unassign_stack } := by
  unfold push_arg_stack
  simp [hm, hp, hcl, BETA_REDUCE_CLOSE_SCOPE, h1, h2, h3, unassign_params_label_eq n _ hwf,
    push_arg_stack_without_close_scope]

theorem simplify_cur_of_not_apply (env : Ext) (r : Ref) (h : r.node.BTOR_IS_APPLY_NODE = false) :
    simplify_cur env r = env.simplify r := by
  simp [simplify_cur, h]

theorem bounded_cut_run (env : Ext) (btor : Btor) (info : NodeInfo) (L A : BtorNode)
    (hk : info.kind = .apply) (hlb : info.lambda_below = true)
    (hL : opens_scope L = true) (hLwf : chain_wf L = true)
    (hA : A.BTOR_IS_ARGS_NODE = true) (hAlb : A.lambda_below = false)
    (hAp : A.parameterized = false)
    (hs1 : simplify_cur env (BtorNode.n2 info L false A false).ref
      = (BtorNode.n2 info L false A false).ref)
    (hs2 : env.simplify L.ref = L.ref) (hs3 : env.simplify A.ref = A.ref)
    (hbm1 : btor.beta_mark (BtorNode.n2 info L false A false) = 0)
    (hbm2 : btor.beta_mark A = 0) :
    ∃ s4, beta_reduce_loop env BETA_RED_BOUNDED 1 4
        (beta_reduce_init btor (BtorNode.n2 info L false A false).ref) = .done s4 ∧
      s4.arg_stack = [env.apply_exp_node L.ref A.ref] ∧
      s4.cur_scope_lambda = none ∧ s4.scopes = [] ∧ s4.scope_results = [] ∧
      s4.scope_lambdas = [] ∧ s4.unassign_stack = [] ∧
      s4.btor.cache = btor.cache ∧ s4.btor.beta_mark = btor.beta_mark ∧
      s4.btor.assigned_exp = unassigned btor.assigned_exp L ∧
      s4.btor.log = [Event.construct .apply, Event.visit (BtorNode.n2 info L false A false),
        Event.visit L, Event.visit A, Event.visit (BtorNode.n2 info L false A false)]
        ++ btor.log := by
  have hLlam : L.BTOR_IS_LAMBDA_NODE = true := by
    unfold opens_scope at hL; simp only [Bool.and_eq_true] at hL; exact hL.1.1
  have hLp : L.parameterized = false := by
    unfold opens_scope at hL; simp only [Bool.and_eq_true] at hL; simpa using hL.1.2
  have happ_lam : (BtorNode.n2 info L false A false).BTOR_IS_LAMBDA_NODE = false := by
    simp [BtorNode.BTOR_IS_LAMBDA_NODE, BtorNode.kind, BtorNode.info, hk]
  have happ_par : (BtorNode.n2 info L false A false).BTOR_IS_PARAM_NODE = false := by
    simp [BtorNode.BTOR_IS_PARAM_NODE, BtorNode.kind, BtorNode.info, hk]
  have hLk : L.kind = .lambda := by simpa [BtorNode.BTOR_IS_LAMBDA_NODE] using hLlam
  have hAk : A.kind = .args := by simpa [BtorNode.BTOR_IS_ARGS_NODE] using hA
  have happk : (BtorNode.n2 info L false A false).kind = .apply := by
    simp [BtorNode.kind, BtorNode.info, hk]
  have hLA : L ≠ A := ne_of_kind (by rw [hLk, hAk]; decide)
  have hAapp : A ≠ BtorNode.n2 info L false A false := ne_of_kind (by rw [hAk, happk]; decide)
  have hLapp : L ≠ BtorNode.n2 info L false A false := ne_of_kind (by rw [hLk, happk]; decide)
  have happ_os : opens_scope (BtorNode.n2 info L false A false) = false := by
    simp [opens_scope, happ_lam]
  have hA_os : opens_scope A = false := by
    simp [opens_scope, BtorNode.BTOR_IS_LAMBDA_NODE, hAk]
  have hA_lam : A.BTOR_IS_LAMBDA_NODE = false := by simp [BtorNode.BTOR_IS_LAMBDA_NODE, hAk]
  have hA_app : A.BTOR_IS_APPLY_NODE = false := by simp [BtorNode.BTOR_IS_APPLY_NODE, hAk]
  have hL_app : L.BTOR_IS_APPLY_NODE = false := by simp [BtorNode.BTOR_IS_APPLY_NODE, hLk]
  have hL_fun : L.BTOR_IS_FUN_NODE = true := by simp [BtorNode.BTOR_IS_FUN_NODE, hLk]
  have hcA : simplify_cur env A.ref = A.ref := by
    rw [simplify_cur_of_not_apply env A.ref hA_app, hs3]
  have hcL : simplify_cur env L.ref = L.ref := by
    rw [simplify_cur_of_not_apply env L.ref hL_app, hs2]
  -- first visit of the apply: its children are pushed
  have step1 : beta_reduce_step env BETA_RED_BOUNDED 1
      (beta_reduce_init btor (BtorNode.n2 info L false A false).ref) =
      some { beta_reduce_init btor (BtorNode.n2 info L false A false).ref with
        btor := { btor with log := Event.visit (BtorNode.n2 info L false A false) :: btor.log }
        work_stack := [(A.ref, some (BtorNode.n2 info L false A false)),
          (L.ref, some (BtorNode.n2 info L false A false)),
          ((BtorNode.n2 info L false A false).ref, none)]
        cur_scope := [(BtorNode.n2 info L false A false, 1)] } := by
    rw [step_unmarked env BETA_RED_BOUNDED 1 _ _ _ none [] rfl hs1
      (by simp [beta_reduce_init, PtrHashTable.find]) happ_os]
    rw [expand_push env _ _ _ _ _ (by simpa [LoopState.record, beta_reduce_init] using hbm1)
      happ_lam happ_par (Or.inr ⟨by simp [BtorNode.lambda_below, hlb], by decide⟩)]
    simp [BtorNode.e, LoopState.record, beta_reduce_init, PtrHashTable.set, ref_eta, hs2, hs3]
  -- the args node is emitted as it is
  have step2 : beta_reduce_step env BETA_RED_BOUNDED 1
      { beta_reduce_init btor (BtorNode.n2 info L false A false).ref with
        btor := { btor with log := Event.visit (BtorNode.n2 info L false A false) :: btor.log }
        work_stack := [(A.ref, some (BtorNode.n2 info L false A false)),
          (L.ref, some (BtorNode.n2 info L false A false)),
          ((BtorNode.n2 info L false A false).ref, none)]
        cur_scope := [(BtorNode.n2 info L false A false, 1)] } =
      some { beta_reduce_init btor (BtorNode.n2 info L false A false).ref with
        btor := { btor with
          log := Event.visit A :: Event.visit (BtorNode.n2 info L false A false) :: btor.log }
        work_stack := [(L.ref, some (BtorNode.n2 info L false A false)),
          ((BtorNode.n2 info L false A false).ref, none)]
        arg_stack := [A.ref]
        cur_scope := [(BtorNode.n2 info L false A false, 1), (A, 2)] } := by
    rw [step_unmarked env BETA_RED_BOUNDED 1 _ _ _ _ _ rfl hcA
      (by simp [beta_reduce_init, PtrHashTable.find, Ne.symm hAapp]) (by simpa using hA_os)]
    rw [expand_unchanged env _ _ _ _ _ (by simpa using hAlb) (by simpa using hAp)
      (Or.inl (by simpa [LoopState.record] using hbm2))
      (by simp [LoopState.record, beta_reduce_init])]
    rw [push_arg_stack_plain _ _ _ _ (by simp [LoopState.record, PtrHashTable.find_set_self])
      (by simp [LoopState.record, beta_reduce_init]) (by simp [hAp]) (by simp [hAp])]
    simp [LoopState.record, beta_reduce_init, PtrHashTable.set, Ne.symm hAapp, hAp,
      cond_invert_ref]
    exact cond_invert_ref A.ref
  -- the lambda opens a scope at depth 1 and is cut at the bound
  have step3 : beta_reduce_step env BETA_RED_BOUNDED 1
      { beta_reduce_init btor (BtorNode.n2 info L false A false).ref with
        btor := { btor with
          log := Event.visit A :: Event.visit (BtorNode.n2 info L false A false) :: btor.log }
        work_stack := [(L.ref, some (BtorNode.n2 info L false A false)),
          ((BtorNode.n2 info L false A false).ref, none)]
        arg_stack := [A.ref]
        cur_scope := [(BtorNode.n2 info L false A false, 1), (A, 2)] } =
      some { beta_reduce_init btor (BtorNode.n2 info L false A false).ref with
        btor := { btor with
          log := Event.visit L :: Event.visit A
            :: Event.visit (BtorNode.n2 info L false A false) :: btor.log
          assigned_exp := unassigned btor.assigned_exp L }
        work_stack := [((BtorNode.n2 info L false A false).ref, none)]
        arg_stack := [L.ref, A.ref]
        cur_scope := [(BtorNode.n2 info L false A false, 1), (A, 2)] } := by
    rw [step_unmarked_open env BETA_RED_BOUNDED 1 _ _ _ _ _ rfl hcL
      (by simp [beta_reduce_init, PtrHashTable.find, Ne.symm hLapp, Ne.symm hLA])
      (by simpa using hL)]
    rw [expand_bounded_cut env _ _ _ _ _ (by decide) (by simpa using hLlam)
      (by simp [LoopState.record]) (by simp [LoopState.record])]
    rw [push_arg_stack_close _ _ _ _ [(BtorNode.n2 info L false A false, 1), (A, 2)] [] [] []
      none [] (by simp [LoopState.record, PtrHashTable.set, PtrHashTable.find])
      (by simpa using hLp) (by simpa using hLwf) (by simp [LoopState.record])
      (by simp [LoopState.record, beta_reduce_init]) (by simp [LoopState.record, beta_reduce_init])
      (by simp [LoopState.record, beta_reduce_init])]
    simp [LoopState.record, beta_reduce_init, cond_invert_ref]
    exact cond_invert_ref L.ref
  -- the apply is rebuilt from the lambda and the args node
  have step4 : beta_reduce_step env BETA_RED_BOUNDED 1
      { beta_reduce_init btor (BtorNode.n2 info L false A false).ref with
        btor := { btor with
          log := Event.visit L :: Event.visit A
            :: Event.visit (BtorNode.n2 info L false A false) :: btor.log
          assigned_exp := unassigned btor.assigned_exp L }
        work_stack := [((BtorNode.n2 info L false A false).ref, none)]
        arg_stack := [L.ref, A.ref]
        cur_scope := [(BtorNode.n2 info L false A false, 1), (A, 2)] } =
      some { beta_reduce_init btor (BtorNode.n2 info L false A false).ref with
        btor := { btor with
          log := Event.construct .apply :: Event.visit (BtorNode.n2 info L false A false)
            :: Event.visit L :: Event.visit A
            :: Event.visit (BtorNode.n2 info L false A false) :: btor.log
          assigned_exp := unassigned btor.assigned_exp L }
        work_stack := []
        arg_stack := [env.apply_exp_node L.ref A.ref]
        cur_scope := [(BtorNode.n2 info L false A false, 2), (A, 2)]
        cur_scope_results :=
          if info.parameterized then
            [(BtorNode.n2 info L false A false, env.apply_exp_node L.ref A.ref)]
          else [] } := by
    rw [step_expanded env BETA_RED_BOUNDED 1 _ _ _ _ _ rfl hs1
      (by simp [beta_reduce_init, PtrHashTable.find])]
    unfold collect
    simp only [ref_node, BtorNode.BTOR_IS_BV_CONST_NODE, BtorNode.BTOR_IS_BV_VAR_NODE,
      BtorNode.BTOR_IS_ARRAY_VAR_NODE, BtorNode.BTOR_IS_PARAM_NODE, happk, happ_lam]
    simp only [rebuild, rebuild_apply, BtorNode.arity, BtorNode.e, LoopState.record, happk,
      BETA_RED_BOUNDED, BETA_RED_FULL]
    simp [hL_fun, hA]
    rw [push_arg_stack_plain _ _ _ _ (by simp [PtrHashTable.find])
      (by simp [beta_reduce_init]) (by simp [happ_lam]) (by simp [beta_reduce_init, PtrHashTable.find])]
    simp [beta_reduce_init, PtrHashTable.set, Ref.cond_invert, BtorNode.parameterized]
  have hloop :=
    (loop_step env _ _ 3 _ _ (by simp [beta_reduce_init]) step1).trans
      ((loop_step env _ _ 2 _ _ (by simp) step2).trans
        ((loop_step env _ _ 1 _ _ (by simp) step3).trans
          ((loop_step env _ _ 0 _ _ (by simp) step4).trans (loop_done _ _ _ _ _ rfl))))
  exact ⟨_, hloop, rfl, rfl, rfl, rfl, rfl, rfl, rfl, rfl, rfl, rfl⟩
theorem loop_mono (env : Ext) (mode bound : Int) (fuel : Nat) :
    ∀ (s s1 : LoopState), beta_reduce_loop env mode bound fuel s = .done s1 →
      ∀ fuel1, fuel ≤ fuel1 → beta_reduce_loop env mode bound fuel1 s = .done s1 := by
  induction fuel with
  | zero =>
    intro s s1 h fuel1 _
    by_cases hw : s.work_stack.isEmpty = true
    · have hw2 : s.work_stack = [] := by simpa using hw
      rw [loop_done env mode bound fuel1 s hw2]
      rw [loop_done env mode bound 0 s hw2] at h
      exact h
    · simp [beta_reduce_loop, hw] at h
  | succ f ih =>
    intro s s1 h fuel1 hle
    by_cases hw : s.work_stack.isEmpty = true
    · have hw2 : s.work_stack = [] := by simpa using hw
      rw [loop_done env mode bound fuel1 s hw2]
      rw [loop_done env mode bound (f + 1) s hw2] at h
      exact h
    · obtain ⟨g, rfl⟩ : ∃ g, fuel1 = g + 1 := ⟨fuel1 - 1, by omega⟩
      have hw2 : s.work_stack ≠ [] := by simpa using hw
      cases hstep : beta_reduce_step env mode bound s with
      | none => simp [beta_reduce_loop, hw, hstep] at h
      | some s2 =>
        rw [loop_step env mode bound f s s2 hw2 hstep] at h
        rw [loop_step env mode bound g s s2 hw2 hstep]
        exact ih s2 s1 h g (by omega)

theorem expand_param (env : Ext) (mode bound : Int) (cur : Ref) (par : Option BtorNode)
    (s : LoopState)
    (hbm : s.btor.beta_mark cur.node = 0)
    (hk : cur.node.kind = .param) (hp : cur.node.parameterized = true) :
    expand env mode bound cur par s =
      push_arg_stack cur cur.node ((s.btor.assigned_exp cur.node).head?.getD cur.node.ref)
        { s with cur_scope := PtrHashTable.set s.cur_scope cur.node 1 } := by
  unfold expand
  simp [hbm, BtorNode.BTOR_IS_LAMBDA_NODE, BtorNode.BTOR_IS_PARAM_NODE, hk, hp,
    btor_param_cur_assignment]

theorem step_param_first (env : Ext) (mode bound : Int) (s : LoopState) (cur0 cur : Ref)
    (par : Option BtorNode) (w : List (Ref × Option BtorNode))
    (hw : s.work_stack = (cur0, par) :: w) (hc : simplify_cur env cur0 = cur)
    (hk : cur.node.kind = .param) (hp : cur.node.parameterized = true)
    (hbm : s.btor.beta_mark cur.node = 0)
    (hfirst : PtrHashTable.find s.cur_scope cur.node = none)
    (hres : PtrHashTable.find s.cur_scope_results cur.node = none)
    (hl : s.cur_scope_lambda ≠ some cur.node) :
    beta_reduce_step env mode bound s =
      some { s with
        btor := { s.btor with log := Event.visit cur.node :: s.btor.log }
        work_stack := w
        arg_stack :=
          cur.cond_invert ((s.btor.assigned_exp cur.node).head?.getD cur.node.ref) :: s.arg_stack
        cur_scope := PtrHashTable.set s.cur_scope cur.node 2
        cur_scope_results :=
          PtrHashTable.set s.cur_scope_results cur.node
            ((s.btor.assigned_exp cur.node).head?.getD cur.node.ref) } := by
  have hlam : cur.node.BTOR_IS_LAMBDA_NODE = false := by
    simp [BtorNode.BTOR_IS_LAMBDA_NODE, hk]
  rw [step_unmarked env mode bound s cur0 cur par w hw hc hfirst (by simp [opens_scope, hlam])]
  rw [expand_param env mode bound cur par _ (by simpa [LoopState.record] using hbm) hk hp]
  rw [push_arg_stack_plain _ _ _ _ (by simp [LoopState.record, PtrHashTable.find_set_self])
    (by simpa [LoopState.record] using hl) (by simp [hlam])
    (by intro _; simpa [LoopState.record] using hres)]
  simp [LoopState.record, hp, PtrHashTable.set_set]

theorem step_revisit (env : Ext) (mode bound : Int) (s : LoopState) (cur0 cur : Ref)
    (par : Option BtorNode) (w : List (Ref × Option BtorNode)) (result : Ref)
    (hw : s.work_stack = (cur0, par) :: w) (hc : simplify_cur env cur0 = cur)
    (hdone : PtrHashTable.find s.cur_scope cur.node = some 2)
    (hres : (if cur.node.parameterized then PtrHashTable.find s.cur_scope_results cur.node
      else some cur.node.ref) = some result)
    (hnl : result.node.BTOR_IS_LAMBDA_NODE = false) :
    beta_reduce_step env mode bound s =
      some { s with
        btor := { s.btor with log := Event.visit cur.node :: s.btor.log }
        work_stack := w
        arg_stack := cur.cond_invert result :: s.arg_stack } := by
  rw [step_done env mode bound s cur0 cur par w hw hc hdone]
  unfold revisit
  simp only [LoopState.record]
  rw [hres]
  simp [hnl, push_arg_stack_without_close_scope]

theorem cond_invert_xor (v : Bool) (n : BtorNode) (b : Ref) :
    Ref.cond_invert ⟨n, v⟩ b = ⟨b.node, xor v b.inv⟩ := by
  cases v <;> cases b <;> simp [Ref.cond_invert, Ref.invert]
theorem assign_param_cache (btor btor1 : Btor) (lambda arg : Ref)
    (h : btor_assign_param btor lambda arg = some btor1) : btor1.cache = btor.cache := by
  unfold btor_assign_param at h
  split at h
  · cases h
  · split at h
    · cases h
    · split at h
      · cases h
      · split at h
        · cases h
        · cases h; rfl

theorem assign_args_loop_cache (args : List Ref) :
    ∀ (btor btor1 : Btor) (cur : BtorNode),
      btor_assign_args_loop btor cur args = some btor1 → btor1.cache = btor.cache := by
  induction args with
  | nil =>
    intro btor btor1 cur h
    simp [btor_assign_args_loop] at h
    rw [h]
  | cons a rest ih =>
    intro btor btor1 cur h
    unfold btor_assign_args_loop at h
    split at h
    · cases h
    · split at h
      · rename_i b1 body h1 h2
        rw [ih _ _ _ h, assign_param_cache _ _ _ _ h1]
      · cases h
      · cases h

theorem assign_args_cache (btor btor1 : Btor) (func args : Ref)
    (h : btor_assign_args btor func args = some btor1) : btor1.cache = btor.cache := by
  unfold btor_assign_args at h
  split at h
  · cases h
  · exact assign_args_loop_cache _ _ _ _ h

theorem unassign_params_cache (btor btor1 : Btor) (lambda : Ref)
    (h : btor_unassign_params btor lambda = some btor1) : btor1.cache = btor.cache := by
  unfold btor_unassign_params at h
  split at h
  · cases h
  · split at h
    · cases h
    · split at h
      · cases h
      · split at h
        · cases h
        · cases h; rfl

theorem unassign_label_cache (n : BtorNode) (s s1 : LoopState)
    (h : unassign_params_label n s = some s1) : s1.btor.cache = s.btor.cache := by
  unfold unassign_params_label at h
  simp only at h
  generalize hs2 : (if s.unassign_stack.head? = some n then
    ({ s with unassign_stack := s.unassign_stack.tail } : LoopState) else s) = s2 at h
  have e2 : s2.btor = s.btor := by
    rw [← hs2]; split <;> rfl
  cases hp : n.e.head? with
  | none => simp [hp] at h
  | some p =>
    simp only [hp] at h
    cases ha : btor_param_cur_assignment s2.btor p with
    | none => simp [ha] at h
    | some o =>
      cases o with
      | none =>
        simp only [ha] at h
        cases h
        rw [e2]
      | some val =>
        simp only [ha] at h
        cases hu : btor_unassign_params s2.btor n.ref with
        | none => simp [hu] at h
        | some b1 =>
          simp only [hu] at h
          cases h
          simp only
          rw [unassign_params_cache _ _ _ hu, e2]

theorem close_scope_btor (s s1 : LoopState) (h : BETA_REDUCE_CLOSE_SCOPE s = some s1) :
    s1.btor = s.btor := by
  unfold BETA_REDUCE_CLOSE_SCOPE at h
  split at h
  · cases h; rfl
  · cases h

theorem push_arg_stack_cache (cur : Ref) (n : BtorNode) (result : Ref) (s s1 : LoopState)
    (h : push_arg_stack cur n result s = some s1) : s1.btor.cache = s.btor.cache := by
  unfold push_arg_stack at h
  split at h
  · cases h
  · simp only at h
    split at h
    · cases h
    · rename_i s2 hs2
      have e2 : s2.btor = s.btor := by
        split at hs2
        · split at hs2
          · cases hs2
          · cases hs2; rfl
        · cases hs2; rfl
      split at h
      · cases h
      · rename_i s4 hs4
        cases h
        simp only [push_arg_stack_without_close_scope]
        split at hs4
        · split at hs4
          · cases hs4
          · rename_i s3 hs3
            rw [unassign_label_cache _ _ _ hs4, close_scope_btor _ _ hs3, e2]
        · split at hs4
          · rw [unassign_label_cache _ _ _ hs4, e2]
          · cases hs4; rw [e2]

theorem record_cache (s : LoopState) (ev : Event) : (s.record ev).btor.cache = s.btor.cache := rfl

theorem rebuild_binary_cache (op : Ref → Ref → Ref) (k : BtorNodeKind) (e : List Ref)
    (s s1 : LoopState) (r : Ref) (h : rebuild_binary op k e s = some (r, s1)) :
    s1.btor.cache = s.btor.cache := by
  unfold rebuild_binary at h
  split at h
  · cases h; rfl
  · cases h

theorem rebuild_lambda_cache (n : BtorNode) (e : List Ref) (s s1 : LoopState) (r : Ref)
    (h : rebuild_lambda n e s = some (r, s1)) : s1.btor.cache = s.btor.cache := by
  unfold rebuild_lambda at h
  split at h
  · split at h
    · split at h
      · cases h
      · cases h; rfl
    · split at h
      · cases h
      · split at h
        · cases h
        · cases h; rfl
  · cases h

theorem rebuild_apply_cache (env : Ext) (mode : Int) (n : BtorNode) (e : List Ref)
    (s s1 : LoopState) (r : Ref) (hmode : mode ≠ BETA_RED_FULL)
    (h : rebuild_apply env mode n e s = some (r, s1)) : s1.btor.cache = s.btor.cache := by
  unfold rebuild_apply at h
  split at h
  · simp only at h
    split at h
    · cases h
    · rename_i result s2 hb
      have e2 : s2.btor.cache = s.btor.cache := by
        split at hb
        · split at hb
          · cases hb
          · cases hb; rfl
        · split at hb
          · cases hb
          · cases hb; rfl
      have hm : (mode == BETA_RED_FULL) = false := by simpa using hmode
      simp only [hm, Bool.and_false, Bool.false_and, Bool.false_eq_true, if_false] at h
      cases h
      exact e2
  · cases h

theorem rebuild_cache (env : Ext) (mode : Int) (n : BtorNode) (s s1 : LoopState) (r : Ref)
    (hmode : mode ≠ BETA_RED_FULL) (h : rebuild env mode n s = some (r, s1)) :
    s1.btor.cache = s.btor.cache := by
  unfold rebuild at h
  split at h
  · cases h
  · simp only at h
    split at h
    any_goals (first
      | exact (rebuild_binary_cache _ _ _ _ _ _ h :)
      | exact (rebuild_apply_cache _ _ _ _ _ _ _ hmode h :)
      | exact (rebuild_lambda_cache _ _ _ _ _ h :)
      | (split at h <;> first | (cases h; rfl) | cases h)
      | cases h)

theorem assign_lambda_cache (n : BtorNode) (par : Option BtorNode) (se : List Ref)
    (s s1 : LoopState) (h : assign_lambda n par se s = some (.inr s1)) :
    s1.btor.cache = s.btor.cache := by
  unfold assign_lambda at h
  split at h
  · split at h
    · split at h
      · cases h
      · cases h; rfl
      · split at h
        · split at h
          · cases h
          · split at h
            · cases h
            · simp only at h
              split at h
              · cases h
              · cases h
              · split at h
                · cases h
                · rename_i b1 hb
                  cases h
                  exact assign_args_cache _ _ _ _ hb
        · cases h; rfl
    · cases h
  · cases h; rfl

theorem expand_cache (env : Ext) (mode bound : Int) (cur : Ref) (par : Option BtorNode)
    (s s1 : LoopState) (h : expand env mode bound cur par s = some s1) :
    s1.btor.cache = s.btor.cache := by
  unfold expand at h
  simp only at h
  split at h
  · cases h
  · split at h
    · split at h
      · cases h
      · exact (push_arg_stack_cache _ _ _ _ _ h :)
    · split at h
      · exact (push_arg_stack_cache _ _ _ _ _ h :)
      · split at h
        · exact (push_arg_stack_cache _ _ _ _ _ h :)
        · split at h
          · split at h
            · cases h
            · exact (push_arg_stack_cache _ _ _ _ _ h :)
          · split at h
            · cases h
            · exact (push_arg_stack_cache _ _ _ _ _ h :)
            · rename_i s2 hs2
              cases h
              exact (assign_lambda_cache _ _ _ _ _ hs2 :)

theorem collect_cache (env : Ext) (mode bound : Int) (cur : Ref) (s s1 : LoopState)
    (hmode : mode ≠ BETA_RED_FULL) (h : collect env mode bound cur s = some s1) :
    s1.btor.cache = s.btor.cache := by
  unfold collect at h
  simp only at h
  split at h
  · exact push_arg_stack_cache _ _ _ _ _ h
  · split at h
    · cases h
    · rename_i result s2 hr
      rw [push_arg_stack_cache _ _ _ _ _ h, rebuild_cache _ _ _ _ _ _ hmode hr]

theorem revisit_cache (cur : Ref) (s s1 : LoopState) (h : revisit cur s = some s1) :
    s1.btor.cache = s.btor.cache := by
  unfold revisit at h
  simp only at h
  split at h
  · cases h
  · split at h
    · cases h
    · cases h; rfl

theorem step_cache (env : Ext) (mode bound : Int) (s s1 : LoopState)
    (hmode : mode ≠ BETA_RED_FULL) (h : beta_reduce_step env mode bound s = some s1) :
    s1.btor.cache = s.btor.cache := by
  unfold beta_reduce_step at h
  split at h
  · cases h; rfl
  · rename_i cur0 par work hw
    simp only at h
    generalize hs1 : (match PtrHashTable.find (({ s with work_stack := work } : LoopState).record
        (Event.visit (simplify_cur env cur0).node)).cur_scope (simplify_cur env cur0).node with
      | some _ => (({ s with work_stack := work } : LoopState).record
          (Event.visit (simplify_cur env cur0).node))
      | none => _) = s2 at h
    have e2 : s2.btor.cache = s.btor.cache := by
      rw [← hs1]
      split
      · rfl
      · simp only [BETA_REDUCE_OPEN_NEW_SCOPE]
        split <;> rfl
    split at h
    · rw [expand_cache _ _ _ _ _ _ _ h, e2]
    · rw [collect_cache _ _ _ _ _ _ hmode h, e2]
    · rw [revisit_cache _ _ _ h, e2]
    · cases h

theorem loop_cache (env : Ext) (mode bound : Int) (hmode : mode ≠ BETA_RED_FULL) (fuel : Nat) :
    ∀ (s s1 : LoopState), beta_reduce_loop env mode bound fuel s = .done s1 →
      s1.btor.cache = s.btor.cache := by
  induction fuel with
  | zero =>
    intro s s1 h
    unfold beta_reduce_loop at h
    split at h
    · cases h; rfl
    · cases h
  | succ f ih =>
    intro s s1 h
    unfold beta_reduce_loop at h
    split at h
    · cases h; rfl
    · split at h
      · cases h
      · rename_i s2 hs2
        rw [ih _ _ h, step_cache _ _ _ _ _ hmode hs2]
/-! ## Reduction of terms without lambda -/

theorem run_steps_one (env : Ext) (mode bound : Int) (s s1 : LoopState)
    (h : beta_reduce_step env mode bound s = some s1) : run_steps env mode bound 1 s = some s1 := by
  simp [run_steps, h]

theorem run_steps_add (env : Ext) (mode bound : Int) (a b : Nat) :
    ∀ (s s1 s2 : LoopState), run_steps env mode bound a s = some s1 →
      run_steps env mode bound b s1 = some s2 → run_steps env mode bound (a + b) s = some s2 := by
  induction a with
  | zero =>
    intro s s1 s2 h1 h2
    simp [run_steps] at h1
    subst h1
    simpa using h2
  | succ a ih =>
    intro s s1 s2 h1 h2
    rw [Nat.add_right_comm]
    unfold run_steps at h1 ⊢
    cases hs : beta_reduce_step env mode bound s with
    | none => simp [hs] at h1
    | some s3 =>
      simp only [hs] at h1 ⊢
      exact ih s3 s1 s2 h1 h2

theorem step_of_empty (env : Ext) (mode bound : Int) (s : LoopState) (h : s.work_stack = []) :
    beta_reduce_step env mode bound s = some s := by
  simp [beta_reduce_step, h]

theorem loop_of_run_steps (env : Ext) (mode bound : Int) (k : Nat) :
    ∀ (s s1 : LoopState), run_steps env mode bound k s = some s1 → s1.work_stack = [] →
      beta_reduce_loop env mode bound k s = .done s1 := by
  induction k with
  | zero =>
    intro s s1 h hw
    simp [run_steps] at h
    subst h
    exact loop_done env mode bound 0 s hw
  | succ k ih =>
    intro s s1 h hw
    unfold run_steps at h
    cases hs : beta_reduce_step env mode bound s with
    | none => simp [hs] at h
    | some s2 =>
      simp only [hs] at h
      by_cases he : s.work_stack = []
      · rw [step_of_empty env mode bound s he] at hs
        cases hs
        have := ih s s1 h hw
        exact loop_mono env mode bound k s s1 this (k + 1) (by omega)
      · rw [loop_step env mode bound k s s2 he hs]
        exact ih s2 s1 h hw

theorem self_mem_subterms (n : BtorNode) : n ∈ subterms n := by
  cases n <;> simp [subterms]

theorem simple_flags_facts (i : NodeInfo) (hp : Bool) (h : simple_flags i hp = true) :
    i.lambda_below = false ∧ i.kind ≠ .lambda ∧ i.kind ≠ .apply ∧ i.parameterized = hp := by
  simp only [simple_flags, Bool.and_eq_true, Bool.not_eq_true', bne_iff_ne, ne_eq,
    beq_iff_eq] at h
  exact ⟨h.1.1.1, h.1.1.2, h.1.2, h.2⟩

theorem simple_flags_of_simple (env : Ext) (n : BtorNode) (h : simple env n = true) :
    simple_flags n.info (has_param n) = true := by
  cases n with
  | n0 i => simpa [simple, has_param] using h
  | n1 i c0 v0 =>
    simp only [simple, Bool.and_eq_true] at h
    simpa [has_param] using h.1
  | n2 i c0 v0 c1 v1 =>
    simp only [simple, Bool.and_eq_true] at h
    simpa [has_param] using h.1
  | n3 i c0 v0 c1 v1 c2 v2 =>
    simp only [simple, Bool.and_eq_true] at h
    simpa [has_param] using h.1

theorem simple_facts (env : Ext) (n : BtorNode) (h : simple env n = true) :
    n.lambda_below = false ∧ n.kind ≠ .lambda ∧ n.kind ≠ .apply ∧
      n.parameterized = has_param n :=
  simple_flags_facts n.info (has_param n) (simple_flags_of_simple env n h)

theorem substitute_of_no_param (env : Ext) (assigned : BtorNode → List Ref) (n : BtorNode)
    (h : has_param n = false) : substitute env assigned n = n.ref := by
  cases n with
  | n0 i =>
    have : i.kind ≠ .param := by simpa [has_param] using h
    simp [substitute, this]
  | n1 i c0 v0 =>
    have : has_param c0 = false := by simpa [has_param] using h
    simp [substitute, this]
  | n2 i c0 v0 c1 v1 =>
    simp only [has_param] at h
    simp [substitute, h]
  | n3 i c0 v0 c1 v1 c2 v2 =>
    simp only [has_param] at h
    simp [substitute, h]

theorem fun_eq_lambda (n : BtorNode) : n.BTOR_IS_FUN_NODE = n.BTOR_IS_LAMBDA_NODE := rfl

theorem results_not_fun_mem (env : Ext) (assigned : BtorNode → List Ref) (n m : BtorNode)
    (h : results_not_fun env assigned n = true) (hm : m ∈ subterms n) (hp : has_param m = true) :
    (substitute env assigned m).node.BTOR_IS_LAMBDA_NODE = false := by
  unfold results_not_fun at h
  rw [List.all_eq_true] at h
  have := h m hm
  simpa [hp, fun_eq_lambda] using this

theorem Memo_congr (env : Ext) (assigned : BtorNode → List Ref) (s s1 : LoopState)
    (m : BtorNode)
    (h1 : PtrHashTable.find s1.cur_scope m = PtrHashTable.find s.cur_scope m)
    (h2 : PtrHashTable.find s1.cur_scope_results m = PtrHashTable.find s.cur_scope_results m)
    (h : Memo env assigned s m) : Memo env assigned s1 m := by
  unfold Memo at h ⊢
  rw [h1, h2]
  exact h

theorem reduces_done (env : Ext) (mode bound : Int) (n : BtorNode) (hs : simple env n = true)
    (s : LoopState) (v : Bool) (par : Option BtorNode) (w : List (Ref × Option BtorNode))
    (hw : s.work_stack = (⟨n, v⟩, par) :: w)
    (hc : simplify_cur env ⟨n, v⟩ = ⟨n, v⟩)
    (hnf : results_not_fun env s.btor.assigned_exp n = true)
    (hmemo : ∀ m, m ∈ subterms n → Memo env s.btor.assigned_exp s m)
    (hdone : PtrHashTable.find s.cur_scope n = some 2) :
    ∃ k s1, run_steps env mode bound k s = some s1 ∧ Visited env s s1 n v w := by
  obtain ⟨hlb, hkl, hka, hpar⟩ := simple_facts env n hs
  have hm := hmemo n (self_mem_subterms n)
  have hres : (if n.parameterized then PtrHashTable.find s.cur_scope_results n
      else some n.ref) = some (substitute env s.btor.assigned_exp n) := by
    by_cases hp : n.parameterized = true
    · rcases hm with ⟨h1, _⟩ | ⟨_, h2⟩
      · rw [hdone] at h1; cases h1
      · simp [hp, h2 hp]
    · have hp2 : has_param n = false := by rw [← hpar]; simpa using hp
      simp [hp, substitute_of_no_param env _ n hp2]
  have hnl : (substitute env s.btor.assigned_exp n).node.BTOR_IS_LAMBDA_NODE = false := by
    by_cases hp : has_param n = true
    · exact results_not_fun_mem env _ n n hnf (self_mem_subterms n) hp
    · have hp2 : has_param n = false := by simpa using hp
      rw [substitute_of_no_param env _ n hp2]
      simp [BtorNode.BTOR_IS_LAMBDA_NODE, hkl]
  have hstep := step_revisit env mode bound s ⟨n, v⟩ ⟨n, v⟩ par w _ hw hc hdone hres hnl
  refine ⟨1, _, run_steps_one env mode bound s _ hstep, rfl, rfl, ?_, ?_, ?_, ?_, ?_⟩
  · exact ⟨rfl, rfl, rfl, rfl, rfl, rfl, rfl, rfl⟩
  · intro m _; exact ⟨rfl, rfl⟩
  · intro m hm2
    exact Memo_congr env _ s _ m rfl rfl (hmemo m hm2)
  · exact hdone
  · intro hp
    rcases hm with ⟨h1, _⟩ | ⟨_, h2⟩
    · rw [hdone] at h1; cases h1
    · exact h2 hp

theorem reduces_unchanged (env : Ext) (mode bound : Int) (n : BtorNode)
    (hs : simple env n = true) (hnp : has_param n = false)
    (s : LoopState) (v : Bool) (par : Option BtorNode) (w : List (Ref × Option BtorNode))
    (hw : s.work_stack = (⟨n, v⟩, par) :: w)
    (hc : simplify_cur env ⟨n, v⟩ = ⟨n, v⟩)
    (hbm : ∀ m, s.btor.beta_mark m = 0)
    (hmemo : ∀ m, m ∈ subterms n → Memo env s.btor.assigned_exp s m)
    (hsl : ∀ l, s.cur_scope_lambda = some l → l.BTOR_IS_LAMBDA_NODE = true)
    (hfirst : PtrHashTable.find s.cur_scope n = none) :
    ∃ k s1, run_steps env mode bound k s = some s1 ∧ Visited env s s1 n v w := by
  obtain ⟨hlb, hkl, hka, hpar⟩ := simple_facts env n hs
  have hp : n.parameterized = false := by rw [hpar, hnp]
  have hlam : n.BTOR_IS_LAMBDA_NODE = false := by simp [BtorNode.BTOR_IS_LAMBDA_NODE, hkl]
  have hcl : s.cur_scope_lambda ≠ some n := by
    intro h
    have := hsl n h
    rw [hlam] at this
    cases this
  have hstep : beta_reduce_step env mode bound s =
      some { s with
        btor := { s.btor with log := Event.visit n :: s.btor.log }
        work_stack := w
        arg_stack := Ref.cond_invert ⟨n, v⟩ n.ref :: s.arg_stack
        cur_scope := PtrHashTable.set s.cur_scope n 2 } := by
    rw [step_unmarked env mode bound s ⟨n, v⟩ ⟨n, v⟩ par w hw hc hfirst
      (by simp [opens_scope, hlam])]
    rw [expand_unchanged env mode bound _ par _ hlb hp (Or.inl (hbm n))
      (by intro _ _ h; simp [hlam] at h)]
    rw [push_arg_stack_plain _ _ _ _ (by simp [LoopState.record, PtrHashTable.find_set_self])
      (by simpa [LoopState.record] using hcl) (by simp [hlam]) (by simp [hp])]
    simp [LoopState.record, hp, PtrHashTable.set_set]
  refine ⟨1, _, run_steps_one env mode bound s _ hstep, rfl, ?_, ?_, ?_, ?_, ?_, ?_⟩
  · simp [substitute_of_no_param env _ n hnp]
  · exact ⟨rfl, rfl, rfl, rfl, rfl, rfl, rfl, rfl⟩
  · intro m hm
    have hne : n ≠ m := fun h => hm (h ▸ self_mem_subterms n)
    exact ⟨by simp [PtrHashTable.find_set_other _ _ _ _ hne], rfl⟩
  · intro m hm
    by_cases hmn : n = m
    · subst hmn
      right
      exact ⟨by simp [PtrHashTable.find_set_self], by intro h; rw [hp] at h; cases h⟩
    · exact Memo_congr env _ s _ m (by simp [PtrHashTable.find_set_other _ _ _ _ hmn]) rfl
        (hmemo m hm)
  · simp [PtrHashTable.find_set_self]
  · intro h; rw [hp] at h; cases h

theorem memo_unmarked (env : Ext) (assigned : BtorNode → List Ref) (s : LoopState)
    (m : BtorNode) (h : Memo env assigned s m) (hf : PtrHashTable.find s.cur_scope m = none) :
    PtrHashTable.find s.cur_scope_results m = none := by
  rcases h with ⟨_, h2⟩ | ⟨h1, _⟩
  · exact h2
  · rw [hf] at h1; cases h1

theorem reduces_param (env : Ext) (mode bound : Int) (i : NodeInfo)
    (hs : simple env (.n0 i) = true) (hk : i.kind = .param)
    (s : LoopState) (v : Bool) (par : Option BtorNode) (w : List (Ref × Option BtorNode))
    (hw : s.work_stack = (⟨.n0 i, v⟩, par) :: w)
    (hc : simplify_cur env ⟨.n0 i, v⟩ = ⟨.n0 i, v⟩)
    (hbm : ∀ m, s.btor.beta_mark m = 0)
    (hmemo : ∀ m, m ∈ subterms (.n0 i) → Memo env s.btor.assigned_exp s m)
    (hsl : ∀ l, s.cur_scope_lambda = some l → l.BTOR_IS_LAMBDA_NODE = true)
    (hfirst : PtrHashTable.find s.cur_scope (.n0 i) = none) :
    ∃ k s1, run_steps env mode bound k s = some s1 ∧ Visited env s s1 (.n0 i) v w := by
  obtain ⟨hlb, hkl, hka, hpar⟩ := simple_facts env _ hs
  have hp : (BtorNode.n0 i).parameterized = true := by rw [hpar]; simp [has_param, hk]
  have hlam : (BtorNode.n0 i).BTOR_IS_LAMBDA_NODE = false := by
    simp [BtorNode.BTOR_IS_LAMBDA_NODE, hk]
  have hcl : s.cur_scope_lambda ≠ some (.n0 i) := by
    intro h
    have := hsl _ h
    rw [hlam] at this
    cases this
  have hres := memo_unmarked env _ s _ (hmemo _ (self_mem_subterms _)) hfirst
  have hstep := step_param_first env mode bound s ⟨.n0 i, v⟩ ⟨.n0 i, v⟩ par w hw hc
    (by simp [hk]) hp (hbm _) hfirst hres hcl
  have hsub : substitute env s.btor.assigned_exp (.n0 i)
      = (s.btor.assigned_exp (.n0 i)).head?.getD (BtorNode.n0 i).ref := by
    simp [substitute, hk]
  refine ⟨1, _, run_steps_one env mode bound s _ hstep, rfl, ?_, ?_, ?_, ?_, ?_, ?_⟩
  · simp [hsub]
  · exact ⟨rfl, rfl, rfl, rfl, rfl, rfl, rfl, rfl⟩
  · intro m hm
    have hne : BtorNode.n0 i ≠ m := fun h => hm (h ▸ self_mem_subterms _)
    exact ⟨by simp [PtrHashTable.find_set_other _ _ _ _ hne],
      by simp [PtrHashTable.find_set_other _ _ _ _ hne]⟩
  · intro m hm
    have hmn : m = .n0 i := by simpa [subterms] using hm
    subst hmn
    right
    exact ⟨by simp [PtrHashTable.find_set_self], by intro _; simp [PtrHashTable.find_set_self, hsub]⟩
  · simp [PtrHashTable.find_set_self]
  · intro _; simp [PtrHashTable.find_set_self, hsub]

theorem Frame.refl (s : LoopState) : Frame s s := ⟨rfl, rfl, rfl, rfl, rfl, rfl, rfl, rfl⟩

theorem Frame.trans {s s1 s2 : LoopState} (h1 : Frame s s1) (h2 : Frame s1 s2) : Frame s s2 := by
  obtain ⟨a1, a2, a3, a4, a5, a6, a7, a8⟩ := h1
  obtain ⟨b1, b2, b3, b4, b5, b6, b7, b8⟩ := h2
  exact ⟨b1.trans a1, b2.trans a2, b3.trans a3, b4.trans a4, b5.trans a5, b6.trans a6,
    b7.trans a7, b8.trans a8⟩

theorem children_run (env : Ext) (mode bound : Int) (parent : BtorNode) :
    ∀ (rs : List Ref),
      (∀ c, c ∈ rs → Reduces env mode bound c.node ∧ simplify_cur env c = c) →
      ∀ (s : LoopState) (w : List (Ref × Option BtorNode)),
        s.work_stack = rs.map (fun c => (c, some parent)) ++ w →
        (∀ m, s.btor.beta_mark m = 0) →
        (∀ c, c ∈ rs → results_not_fun env s.btor.assigned_exp c.node = true) →
        (∀ c, c ∈ rs → ∀ m, m ∈ subterms c.node → Memo env s.btor.assigned_exp s m) →
        (∀ l, s.cur_scope_lambda = some l → l.BTOR_IS_LAMBDA_NODE = true) →
        ∃ k s1, run_steps env mode bound k s = some s1 ∧ s1.work_stack = w ∧
          s1.arg_stack =
            (rs.reverse.map fun c => c.cond_invert (substitute env s.btor.assigned_exp c.node))
              ++ s.arg_stack ∧
          Frame s s1 ∧
          (∀ m, (∀ c, c ∈ rs → m ∉ subterms c.node) →
            PtrHashTable.find s1.cur_scope m = PtrHashTable.find s.cur_scope m ∧
            PtrHashTable.find s1.cur_scope_results m
              = PtrHashTable.find s.cur_scope_results m) ∧
          (∀ c, c ∈ rs → ∀ m, m ∈ subterms c.node → Memo env s.btor.assigned_exp s1 m) := by
  intro rs
  induction rs with
  | nil =>
    intro _ s w hw _ _ _ _
    refine ⟨0, s, rfl, by simpa using hw, by simp, Frame.refl s, ?_, ?_⟩
    · intro m _; exact ⟨rfl, rfl⟩
    · intro c hc; simp at hc
  | cons r rs ih =>
    intro hred s w hw hbm hnf hmemo hsl
    obtain ⟨hr, hrc⟩ := hred r (by simp)
    obtain ⟨k1, s1, hrun1, hw1, ha1, hf1, hun1, hm1, -, -⟩ :=
      hr s r.inv (some parent) (rs.map (fun c => (c, some parent)) ++ w)
        (by simpa using hw) hrc hbm (hnf r (by simp)) (hmemo r (by simp)) hsl
    have hasg : s1.btor.assigned_exp = s.btor.assigned_exp := hf1.1
    obtain ⟨k2, s2, hrun2, hw2, ha2, hf2, hun2, hm2⟩ :=
      ih (fun c hc => hred c (by simp [hc])) s1 w hw1
        (by intro m; rw [hf1.2.2.1]; exact hbm m)
        (by intro c hc; rw [hasg]; exact hnf c (by simp [hc]))
        (by
          intro c hc m hm
          rw [hasg]
          by_cases hmr : m ∈ subterms r.node
          · exact hm1 m hmr
          · obtain ⟨e1, e2⟩ := hun1 m hmr
            exact Memo_congr env _ s s1 m e1 e2 (hmemo c (by simp [hc]) m hm))
        (by intro l hl; rw [hf1.2.2.2.2.2.2.1] at hl; exact hsl l hl)
    refine ⟨k1 + k2, s2, run_steps_add env mode bound k1 k2 s s1 s2 hrun1 hrun2, hw2, ?_,
      hf1.trans hf2, ?_, ?_⟩
    · rw [ha2, ha1, hasg]
      simp [List.reverse_cons, List.map_append]
    · intro m hm
      obtain ⟨e1, e2⟩ := hun1 m (hm r (by simp))
      obtain ⟨e3, e4⟩ := hun2 m (fun c hc => hm c (by simp [hc]))
      exact ⟨e3.trans e1, e4.trans e2⟩
    · intro c hc m hm
      by_cases hin : ∃ c2, c2 ∈ rs ∧ m ∈ subterms c2.node
      · obtain ⟨c2, hc2, hm2c⟩ := hin
        have := hm2 c2 hc2 m hm2c
        rw [hasg] at this
        exact this
      · have hnot : ∀ c2, c2 ∈ rs → m ∉ subterms c2.node := by
          intro c2 hc2 hcontra
          exact hin ⟨c2, hc2, hcontra⟩
        obtain ⟨e3, e4⟩ := hun2 m hnot
        have hcr : c = r := by
          rcases List.mem_cons.mp hc with h | h
          · exact h
          · exact absurd hm (hnot c h)
        subst hcr
        exact Memo_congr env _ s1 s2 m e3 e4 (hm1 m hm)

theorem rebuild_construct (env : Ext) (mode : Int) (n : BtorNode) (s : LoopState)
    (rs rest : List Ref) (hshape : op_shape n = true) (hlen : rs.length = n.arity)
    (hst : s.arg_stack = rs ++ rest) :
    rebuild env mode n s =
      some (construct env n rs,
        { s with
          arg_stack := rest
          btor := { s.btor with log := Event.construct n.kind :: s.btor.log } }) := by
  cases n with
  | n0 i => simp [op_shape] at hshape
  | n1 i c0 v0 =>
    obtain ⟨r0, rfl⟩ : ∃ r0, rs = [r0] := by
      match rs, hlen with
      | [r0], _ => exact ⟨r0, rfl⟩
    simp only [op_shape, Bool.or_eq_true, beq_iff_eq] at hshape
    rcases hshape with h | h <;>
      simp [rebuild, construct, hst, BtorNode.arity, BtorNode.e, h, LoopState.record]
  | n2 i c0 v0 c1 v1 =>
    obtain ⟨r0, r1, rfl⟩ : ∃ r0 r1, rs = [r0, r1] := by
      match rs, hlen with
      | [r0, r1], _ => exact ⟨r0, r1, rfl⟩
    simp only [op_shape, binary_kind, Bool.or_eq_true, beq_iff_eq] at hshape
    rcases hshape with ((((((((((h | h) | h) | h) | h) | h) | h) | h) | h) | h) | h) | h <;>
      simp [rebuild, construct, hst, BtorNode.arity, BtorNode.e, h, LoopState.record,
        rebuild_binary]
  | n3 i c0 v0 c1 v1 c2 v2 =>
    obtain ⟨r0, r1, r2, rfl⟩ : ∃ r0 r1 r2, rs = [r0, r1, r2] := by
      match rs, hlen with
      | [r0, r1, r2], _ => exact ⟨r0, r1, r2, rfl⟩
    simp only [op_shape, Bool.or_eq_true, beq_iff_eq] at hshape
    rcases hshape with h | h <;>
      simp [rebuild, construct, hst, BtorNode.arity, BtorNode.e, h, LoopState.record]

theorem size_pos (n : BtorNode) : 0 < n.size := by
  cases n <;> simp only [BtorNode.size] <;> omega

theorem subterms_size (n : BtorNode) : ∀ m, m ∈ subterms n → m.size ≤ n.size := by
  induction n with
  | n0 i => intro m hm; simp [subterms] at hm; subst hm; exact Nat.le_refl _
  | n1 i c0 v0 ih0 =>
    intro m hm
    simp only [subterms, List.mem_cons] at hm
    rcases hm with h | h
    · subst h; exact Nat.le_refl _
    · have := ih0 m h; simp [BtorNode.size]; omega
  | n2 i c0 v0 c1 v1 ih0 ih1 =>
    intro m hm
    simp only [subterms, List.mem_cons, List.mem_append] at hm
    rcases hm with h | h | h
    · subst h; exact Nat.le_refl _
    · have := ih0 m h; simp [BtorNode.size]; omega
    · have := ih1 m h; simp [BtorNode.size]; omega
  | n3 i c0 v0 c1 v1 c2 v2 ih0 ih1 ih2 =>
    intro m hm
    simp only [subterms, List.mem_cons, List.mem_append] at hm
    rcases hm with h | (h | h) | h
    · subst h; exact Nat.le_refl _
    · have := ih0 m h; simp [BtorNode.size]; omega
    · have := ih1 m h; simp [BtorNode.size]; omega
    · have := ih2 m h; simp [BtorNode.size]; omega

theorem child_size (n : BtorNode) : ∀ c, c ∈ n.e → c.node.size < n.size := by
  intro c hc
  cases n with
  | n0 i => simp [BtorNode.e] at hc
  | n1 i c0 v0 =>
    simp only [BtorNode.e, List.mem_singleton] at hc
    subst hc; simp [BtorNode.size]
  | n2 i c0 v0 c1 v1 =>
    simp only [BtorNode.e, List.mem_cons, List.mem_singleton, List.not_mem_nil, or_false] at hc
    rcases hc with h | h <;> subst h <;> simp only [BtorNode.size] <;> omega
  | n3 i c0 v0 c1 v1 c2 v2 =>
    simp only [BtorNode.e, List.mem_cons, List.mem_singleton, List.not_mem_nil, or_false] at hc
    rcases hc with h | h | h <;> subst h <;> simp only [BtorNode.size] <;> omega

theorem not_mem_subterms_child (n : BtorNode) (c : Ref) (hc : c ∈ n.e) :
    n ∉ subterms c.node := by
  intro h
  have h1 := subterms_size c.node n h
  have h2 := child_size n c hc
  omega

theorem mem_subterms_iff (n m : BtorNode) :
    m ∈ subterms n ↔ m = n ∨ ∃ c, c ∈ n.e ∧ m ∈ subterms c.node := by
  cases n with
  | n0 i => simp [subterms, BtorNode.e]
  | n1 i c0 v0 => simp [subterms, BtorNode.e]
  | n2 i c0 v0 c1 v1 => simp [subterms, BtorNode.e]
  | n3 i c0 v0 c1 v1 c2 v2 => simp [subterms, BtorNode.e, or_assoc]

theorem simple_children (env : Ext) (n : BtorNode) (hs : simple env n = true)
    (hp : has_param n = true) (hn0 : ∀ i, n ≠ .n0 i) :
    op_shape n = true ∧ ∀ c, c ∈ n.e → stable env c = true ∧ simple env c.node = true := by
  cases n with
  | n0 i => exact absurd rfl (hn0 i)
  | n1 i c0 v0 =>
    simp only [has_param] at hp
    simp only [simple, hp, Bool.not_true, Bool.false_or, Bool.and_eq_true] at hs
    refine ⟨by simpa [op_shape] using hs.2.1.1, ?_⟩
    intro c hc
    simp only [BtorNode.e, List.mem_singleton] at hc
    subst hc
    exact ⟨hs.2.1.2, hs.2.2⟩
  | n2 i c0 v0 c1 v1 =>
    simp only [has_param] at hp
    simp only [simple, hp, Bool.not_true, Bool.false_or, Bool.and_eq_true] at hs
    refine ⟨by simpa [op_shape] using hs.2.1.1.1.1, ?_⟩
    intro c hc
    simp only [BtorNode.e, List.mem_cons, List.mem_singleton, List.not_mem_nil, or_false] at hc
    rcases hc with h | h <;> subst h
    · exact ⟨hs.2.1.1.1.2, hs.2.1.2⟩
    · exact ⟨hs.2.1.1.2, hs.2.2⟩
  | n3 i c0 v0 c1 v1 c2 v2 =>
    simp only [has_param] at hp
    simp only [simple, hp, Bool.not_true, Bool.false_or, Bool.and_eq_true] at hs
    refine ⟨by simpa [op_shape] using hs.2.1.1.1.1.1.1, ?_⟩
    intro c hc
    simp only [BtorNode.e, List.mem_cons, List.mem_singleton, List.not_mem_nil, or_false] at hc
    rcases hc with h | h | h <;> subst h
    · exact ⟨hs.2.1.1.1.1.1.2, hs.2.1.1.2⟩
    · exact ⟨hs.2.1.1.1.1.2, hs.2.1.2⟩
    · exact ⟨hs.2.1.1.1.2, hs.2.2⟩

theorem substitute_op (env : Ext) (assigned : BtorNode → List Ref) (n : BtorNode)
    (hp : has_param n = true) (hshape : op_shape n = true) :
    substitute env assigned n =
      construct env n (n.e.map fun c => c.cond_invert (substitute env assigned c.node)) := by
  cases n with
  | n0 i => simp [op_shape] at hshape
  | n1 i c0 v0 =>
    simp only [has_param] at hp
    simp [substitute, hp, BtorNode.e]
  | n2 i c0 v0 c1 v1 =>
    simp only [has_param] at hp
    simp [substitute, hp, BtorNode.e]
  | n3 i c0 v0 c1 v1 c2 v2 =>
    simp only [has_param] at hp
    simp [substitute, hp, BtorNode.e]

theorem op_shape_kind (n : BtorNode) (h : op_shape n = true) :
    n.BTOR_IS_BV_CONST_NODE = false ∧ n.BTOR_IS_BV_VAR_NODE = false ∧
      n.BTOR_IS_ARRAY_VAR_NODE = false ∧ n.BTOR_IS_PARAM_NODE = false ∧
      n.BTOR_IS_LAMBDA_NODE = false := by
  cases n with
  | n0 i => simp [op_shape] at h
  | n1 i c0 v0 =>
    simp only [op_shape, Bool.or_eq_true, beq_iff_eq] at h
    rcases h with h | h <;>
      simp [BtorNode.BTOR_IS_BV_CONST_NODE, BtorNode.BTOR_IS_BV_VAR_NODE,
        BtorNode.BTOR_IS_ARRAY_VAR_NODE, BtorNode.BTOR_IS_PARAM_NODE,
        BtorNode.BTOR_IS_LAMBDA_NODE, h]
  | n2 i c0 v0 c1 v1 =>
    simp only [op_shape, binary_kind, Bool.or_eq_true, beq_iff_eq] at h
    rcases h with ((((((((((h | h) | h) | h) | h) | h) | h) | h) | h) | h) | h) | h <;>
      simp [BtorNode.BTOR_IS_BV_CONST_NODE, BtorNode.BTOR_IS_BV_VAR_NODE,
        BtorNode.BTOR_IS_ARRAY_VAR_NODE, BtorNode.BTOR_IS_PARAM_NODE,
        BtorNode.BTOR_IS_LAMBDA_NODE, h]
  | n3 i c0 v0 c1 v1 c2 v2 =>
    simp only [op_shape, Bool.or_eq_true, beq_iff_eq] at h
    rcases h with h | h <;>
      simp [BtorNode.BTOR_IS_BV_CONST_NODE, BtorNode.BTOR_IS_BV_VAR_NODE,
        BtorNode.BTOR_IS_ARRAY_VAR_NODE, BtorNode.BTOR_IS_PARAM_NODE,
        BtorNode.BTOR_IS_LAMBDA_NODE, h]

theorem results_not_fun_child (env : Ext) (assigned : BtorNode → List Ref) (n : BtorNode)
    (c : Ref) (hc : c ∈ n.e) (h : results_not_fun env assigned n = true) :
    results_not_fun env assigned c.node = true := by
  unfold results_not_fun at h ⊢
  rw [List.all_eq_true] at h ⊢
  intro m hm
  exact h m ((mem_subterms_iff n m).mpr (Or.inr ⟨c, hc, hm⟩))

theorem collect_op (env : Ext) (mode bound : Int) (n : BtorNode) (v : Bool) (s : LoopState)
    (rs rest : List Ref) (hshape : op_shape n = true) (hpar : n.parameterized = true)
    (hlen : rs.length = n.arity) (hst : s.arg_stack = rs ++ rest)
    (hm : PtrHashTable.find s.cur_scope n = some 1)
    (hr : PtrHashTable.find s.cur_scope_results n = none)
    (hcl : s.cur_scope_lambda ≠ some n) :
    collect env mode bound ⟨n, v⟩ s =
      some { s with
        btor := { s.btor with log := Event.construct n.kind :: s.btor.log }
        arg_stack := Ref.cond_invert ⟨n, v⟩ (construct env n rs) :: rest
        cur_scope := PtrHashTable.set s.cur_scope n 2
        cur_scope_results := PtrHashTable.set s.cur_scope_results n (construct env n rs) } := by
  obtain ⟨k1, k2, k3, k4, k5⟩ := op_shape_kind n hshape
  unfold collect
  simp only [k1, k2, k3, k4, k5, Bool.or_false, Bool.and_false, Bool.false_and,
    Bool.false_eq_true, if_false]
  rw [rebuild_construct env mode n s rs rest hshape hlen hst]
  simp only
  rw [push_arg_stack_plain _ _ _ _ (by simp [hm]) (by simpa using hcl) (by simp [k5])
    (by intro _; simpa using hr)]
  simp [hpar]

theorem reduces_op (env : Ext) (mode bound : Int) (n : BtorNode) (hs : simple env n = true)
    (hp : has_param n = true) (hn0 : ∀ i, n ≠ .n0 i)
    (ih : ∀ c, c ∈ n.e → Reduces env mode bound c.node)
    (s : LoopState) (v : Bool) (par : Option BtorNode) (w : List (Ref × Option BtorNode))
    (hw : s.work_stack = (⟨n, v⟩, par) :: w)
    (hc : simplify_cur env ⟨n, v⟩ = ⟨n, v⟩)
    (hbm : ∀ m, s.btor.beta_mark m = 0)
    (hnf : results_not_fun env s.btor.assigned_exp n = true)
    (hmemo : ∀ m, m ∈ subterms n → Memo env s.btor.assigned_exp s m)
    (hsl : ∀ l, s.cur_scope_lambda = some l → l.BTOR_IS_LAMBDA_NODE = true)
    (hfirst : PtrHashTable.find s.cur_scope n = none) :
    ∃ k s1, run_steps env mode bound k s = some s1 ∧ Visited env s s1 n v w := by
  obtain ⟨hlb, hkl, hka, hpar⟩ := simple_facts env n hs
  rw [hp] at hpar
  obtain ⟨hshape, hch⟩ := simple_children env n hs hp hn0
  obtain ⟨k1, k2, k3, k4, k5⟩ := op_shape_kind n hshape
  have hcl : s.cur_scope_lambda ≠ some n := by
    intro h
    have := hsl n h
    rw [k5] at this
    cases this
  have hres := memo_unmarked env _ s _ (hmemo _ (self_mem_subterms _)) hfirst
  have hse : n.e.map env.simplify = n.e := by
    have h1 : n.e.map env.simplify = n.e.map id := by
      apply List.map_congr_left
      intro c hc2
      have := (hch c hc2).1
      simp only [stable, Bool.and_eq_true, decide_eq_true_eq] at this
      exact this.1
    simpa using h1
  -- first visit: the children are pushed
  have hstepA : beta_reduce_step env mode bound s =
      some { s with
        btor := { s.btor with log := Event.visit n :: s.btor.log }
        work_stack := (n.e.reverse.map fun c => (c, some n)) ++ (⟨n, v⟩, par) :: w
        cur_scope := PtrHashTable.set s.cur_scope n 1 } := by
    rw [step_unmarked env mode bound s ⟨n, v⟩ ⟨n, v⟩ par w hw hc hfirst
      (by simp [opens_scope, k5])]
    rw [expand_push env mode bound _ par _ (hbm n) k5 k4 (Or.inl hpar)]
    simp [LoopState.record, PtrHashTable.set_set, hse]
  -- the children are reduced, last child first
  obtain ⟨kB, sB, hrunB, hwB, haB, hfB, hunB, hmB⟩ :=
    children_run env mode bound n n.e.reverse
      (fun c hc2 => by
        have hc3 : c ∈ n.e := by simpa using hc2
        have := (hch c hc3).1
        simp only [stable, Bool.and_eq_true, decide_eq_true_eq] at this
        exact ⟨ih c hc3, this.2⟩)
      { s with
        btor := { s.btor with log := Event.visit n :: s.btor.log }
        work_stack := (n.e.reverse.map fun c => (c, some n)) ++ (⟨n, v⟩, par) :: w
        cur_scope := PtrHashTable.set s.cur_scope n 1 }
      ((⟨n, v⟩, par) :: w) rfl hbm
      (fun c hc2 => results_not_fun_child env _ n c (by simpa using hc2) hnf)
      (fun c hc2 m hm => by
        have hc3 : c ∈ n.e := by simpa using hc2
        have hne : n ≠ m := fun h => not_mem_subterms_child n c hc3 (h ▸ hm)
        exact Memo_congr env _ s _ m (by simp [PtrHashTable.find_set_other _ _ _ _ hne]) rfl
          (hmemo m ((mem_subterms_iff n m).mpr (Or.inr ⟨c, hc3, hm⟩))))
      hsl
  simp only [List.reverse_reverse] at haB
  have hnB : ∀ c, c ∈ n.e.reverse → n ∉ subterms c.node :=
    fun c hc2 => not_mem_subterms_child n c (by simpa using hc2)
  obtain ⟨hmarkB, hresB⟩ := hunB n hnB
  simp only [PtrHashTable.find_set_self] at hmarkB
  -- post-order visit: the node is rebuilt from the results of its children
  have hstepC := step_expanded env mode bound sB ⟨n, v⟩ ⟨n, v⟩ par w hwB hc hmarkB
  rw [collect_op env mode bound n v _
    (n.e.map fun c => c.cond_invert (substitute env s.btor.assigned_exp c.node)) s.arg_stack
    hshape hpar (by simp [BtorNode.arity]) (by simpa [LoopState.record] using haB)
    (by simpa [LoopState.record] using hmarkB)
    (by simp only [LoopState.record]; rw [hresB]; exact hres)
    (by
      simp only [LoopState.record]
      rw [hfB.2.2.2.2.2.2.1]
      exact hcl)] at hstepC
  rw [← substitute_op env _ n hp hshape] at hstepC
  refine ⟨1 + (kB + 1), _, run_steps_add env mode bound 1 (kB + 1) s _ _
    (run_steps_one env mode bound s _ hstepA)
    (run_steps_add env mode bound kB 1 _ sB _ hrunB (run_steps_one env mode bound sB _ hstepC)),
    rfl, rfl, ?_, ?_, ?_, ?_, ?_⟩
  · obtain ⟨a1, a2, a3, a4, a5, a6, a7, a8⟩ := hfB
    exact ⟨a1, a2, a3, a4, a5, a6, a7, a8⟩
  · intro m hm
    have hne : n ≠ m := fun h => hm (h ▸ self_mem_subterms n)
    have hnot : ∀ c, c ∈ n.e.reverse → m ∉ subterms c.node := by
      intro c hc2 hcontra
      exact hm ((mem_subterms_iff n m).mpr (Or.inr ⟨c, by simpa using hc2, hcontra⟩))
    obtain ⟨e1, e2⟩ := hunB m hnot
    simp only [LoopState.record]
    rw [PtrHashTable.find_set_other _ _ _ _ hne, PtrHashTable.find_set_other _ _ _ _ hne, e1, e2]
    simp [PtrHashTable.find_set_other _ _ _ _ hne]
  · intro m hm
    rcases (mem_subterms_iff n m).mp hm with h | ⟨c, hc2, hmc⟩
    · subst h
      right
      simp [LoopState.record, PtrHashTable.find_set_self]
    · have hne : n ≠ m := fun h => not_mem_subterms_child n c hc2 (h ▸ hmc)
      have := hmB c (by simpa using hc2) m hmc
      exact Memo_congr env _ sB _ m
        (by simp [LoopState.record, PtrHashTable.find_set_other _ _ _ _ hne])
        (by simp [LoopState.record, PtrHashTable.find_set_other _ _ _ _ hne]) this
  · simp [LoopState.record, PtrHashTable.find_set_self]
  · intro _
    simp [LoopState.record, PtrHashTable.find_set_self]

/-- The reducer substitutes the current bindings in every term without lambda
and without apply, in every mode. -/
theorem reduces_simple (env : Ext) (mode bound : Int) (n : BtorNode) :
    simple env n = true → Reduces env mode bound n := by
  induction n with
  | n0 i =>
    intro hs s v par w hw hc hbm hnf hmemo hsl
    by_cases hdone : PtrHashTable.find s.cur_scope (.n0 i) = some 2
    · exact reduces_done env mode bound _ hs s v par w hw hc hnf hmemo hdone
    · have hfirst : PtrHashTable.find s.cur_scope (.n0 i) = none := by
        rcases hmemo _ (self_mem_subterms _) with ⟨h, _⟩ | ⟨h, _⟩
        · exact h
        · exact absurd h hdone
      by_cases hk : i.kind = .param
      · exact reduces_param env mode bound i hs hk s v par w hw hc hbm hmemo hsl hfirst
      · exact reduces_unchanged env mode bound _ hs (by simp [has_param, hk]) s v par w hw hc
          hbm hmemo hsl hfirst
  | n1 i c0 v0 ih0 =>
    intro hs s v par w hw hc hbm hnf hmemo hsl
    by_cases hdone : PtrHashTable.find s.cur_scope (.n1 i c0 v0) = some 2
    · exact reduces_done env mode bound _ hs s v par w hw hc hnf hmemo hdone
    · have hfirst : PtrHashTable.find s.cur_scope (.n1 i c0 v0) = none := by
        rcases hmemo _ (self_mem_subterms _) with ⟨h, _⟩ | ⟨h, _⟩
        · exact h
        · exact absurd h hdone
      by_cases hp : has_param (.n1 i c0 v0) = true
      · have hn0 : ∀ j, BtorNode.n1 i c0 v0 ≠ .n0 j := by intro j h; cases h
        obtain ⟨_, hch⟩ := simple_children env _ hs hp hn0
        refine reduces_op env mode bound _ hs hp hn0 ?_ s v par w hw hc hbm hnf hmemo hsl hfirst
        intro c hc2
        have hsc := (hch c hc2).2
        simp only [BtorNode.e, List.mem_singleton] at hc2
        subst hc2
        exact ih0 hsc
      · exact reduces_unchanged env mode bound _ hs (by simpa using hp) s v par w hw hc
          hbm hmemo hsl hfirst
  | n2 i c0 v0 c1 v1 ih0 ih1 =>
    intro hs s v par w hw hc hbm hnf hmemo hsl
    by_cases hdone : PtrHashTable.find s.cur_scope (.n2 i c0 v0 c1 v1) = some 2
    · exact reduces_done env mode bound _ hs s v par w hw hc hnf hmemo hdone
    · have hfirst : PtrHashTable.find s.cur_scope (.n2 i c0 v0 c1 v1) = none := by
        rcases hmemo _ (self_mem_subterms _) with ⟨h, _⟩ | ⟨h, _⟩
        · exact h
        · exact absurd h hdone
      by_cases hp : has_param (.n2 i c0 v0 c1 v1) = true
      · have hn0 : ∀ j, BtorNode.n2 i c0 v0 c1 v1 ≠ .n0 j := by intro j h; cases h
        obtain ⟨_, hch⟩ := simple_children env _ hs hp hn0
        refine reduces_op env mode bound _ hs hp hn0 ?_ s v par w hw hc hbm hnf hmemo hsl hfirst
        intro c hc2
        have hsc := (hch c hc2).2
        simp only [BtorNode.e, List.mem_cons, List.mem_singleton, List.not_mem_nil,
          or_false] at hc2
        rcases hc2 with h | h <;> subst h
        · exact ih0 hsc
        · exact ih1 hsc
      · exact reduces_unchanged env mode bound _ hs (by simpa using hp) s v par w hw hc
          hbm hmemo hsl hfirst
  | n3 i c0 v0 c1 v1 c2 v2 ih0 ih1 ih2 =>
    intro hs s v par w hw hc hbm hnf hmemo hsl
    by_cases hdone : PtrHashTable.find s.cur_scope (.n3 i c0 v0 c1 v1 c2 v2) = some 2
    · exact reduces_done env mode bound _ hs s v par w hw hc hnf hmemo hdone
    · have hfirst : PtrHashTable.find s.cur_scope (.n3 i c0 v0 c1 v1 c2 v2) = none := by
        rcases hmemo _ (self_mem_subterms _) with ⟨h, _⟩ | ⟨h, _⟩
        · exact h
        · exact absurd h hdone
      by_cases hp : has_param (.n3 i c0 v0 c1 v1 c2 v2) = true
      · have hn0 : ∀ j, BtorNode.n3 i c0 v0 c1 v1 c2 v2 ≠ .n0 j := by intro j h; cases h
        obtain ⟨_, hch⟩ := simple_children env _ hs hp hn0
        refine reduces_op env mode bound _ hs hp hn0 ?_ s v par w hw hc hbm hnf hmemo hsl hfirst
        intro c hc2
        have hsc := (hch c hc2).2
        simp only [BtorNode.e, List.mem_cons, List.mem_singleton, List.not_mem_nil,
          or_false] at hc2
        rcases hc2 with h | h | h <;> subst h
        · exact ih0 hsc
        · exact ih1 hsc
        · exact ih2 hsc
      · exact reduces_unchanged env mode bound _ hs (by simpa using hp) s v par w hw hc
          hbm hmemo hsl hfirst
/-! ## Full reduction of an applied lambda -/

/-- The first two iterations on an apply whose args child is emitted as it
is: the children of the apply are pushed, then the args node is visited. -/
theorem run_apply_prefix (env : Ext) (mode bound : Int) (btor : Btor) (info : NodeInfo)
    (F A : BtorNode)
    (hk : info.kind = .apply) (hlb : info.lambda_below = true)
    (hmode : mode ≠ BETA_RED_LAMBDA_CHAINS)
    (hFA : A ≠ BtorNode.n2 info F false A false)
    (hAl : A.BTOR_IS_LAMBDA_NODE = false) (hAa : A.BTOR_IS_APPLY_NODE = false)
    (hAlb : A.lambda_below = false) (hAp : A.parameterized = false)
    (hs1 : simplify_cur env (BtorNode.n2 info F false A false).ref
      = (BtorNode.n2 info F false A false).ref)
    (hs2 : env.simplify F.ref = F.ref) (hs3 : env.simplify A.ref = A.ref)
    (hbm : ∀ m, btor.beta_mark m = 0) :
    run_steps env mode bound 2 (beta_reduce_init btor (BtorNode.n2 info F false A false).ref) =
      some { beta_reduce_init btor (BtorNode.n2 info F false A false).ref with
        btor := { btor with
          log := Event.visit A :: Event.visit (BtorNode.n2 info F false A false) :: btor.log }
        work_stack := [(F.ref, some (BtorNode.n2 info F false A false)),
          ((BtorNode.n2 info F false A false).ref, none)]
        arg_stack := [A.ref]
        cur_scope := [(BtorNode.n2 info F false A false, 1), (A, 2)] } := by
  have happ_lam : (BtorNode.n2 info F false A false).BTOR_IS_LAMBDA_NODE = false := by
    simp [BtorNode.BTOR_IS_LAMBDA_NODE, hk]
  have happ_par : (BtorNode.n2 info F false A false).BTOR_IS_PARAM_NODE = false := by
    simp [BtorNode.BTOR_IS_PARAM_NODE, hk]
  have hcA : simplify_cur env A.ref = A.ref := by
    rw [simplify_cur_of_not_apply env A.ref hAa, hs3]
  have step1 : beta_reduce_step env mode bound
      (beta_reduce_init btor (BtorNode.n2 info F false A false).ref) =
      some { beta_reduce_init btor (BtorNode.n2 info F false A false).ref with
        btor := { btor with log := Event.visit (BtorNode.n2 info F false A false) :: btor.log }
        work_stack := [(A.ref, some (BtorNode.n2 info F false A false)),
          (F.ref, some (BtorNode.n2 info F false A false)),
          ((BtorNode.n2 info F false A false).ref, none)]
        cur_scope := [(BtorNode.n2 info F false A false, 1)] } := by
    rw [step_unmarked env mode bound _ _ _ none [] rfl hs1
      (by simp [beta_reduce_init, PtrHashTable.find]) (by simp [opens_scope, happ_lam])]
    rw [expand_push env _ _ _ _ _ (by simpa [LoopState.record, beta_reduce_init] using hbm _)
      happ_lam happ_par (Or.inr ⟨by simp [BtorNode.lambda_below, hlb], hmode⟩)]
    simp [BtorNode.e, LoopState.record, beta_reduce_init, PtrHashTable.set, ref_eta, hs2, hs3]
  have step2 : beta_reduce_step env mode bound
      { beta_reduce_init btor (BtorNode.n2 info F false A false).ref with
        btor := { btor with log := Event.visit (BtorNode.n2 info F false A false) :: btor.log }
        work_stack := [(A.ref, some (BtorNode.n2 info F false A false)),
          (F.ref, some (BtorNode.n2 info F false A false)),
          ((BtorNode.n2 info F false A false).ref, none)]
        cur_scope := [(BtorNode.n2 info F false A false, 1)] } =
      some { beta_reduce_init btor (BtorNode.n2 info F false A false).ref with
        btor := { btor with
          log := Event.visit A :: Event.visit (BtorNode.n2 info F false A false) :: btor.log }
        work_stack := [(F.ref, some (BtorNode.n2 info F false A false)),
          ((BtorNode.n2 info F false A false).ref, none)]
        arg_stack := [A.ref]
        cur_scope := [(BtorNode.n2 info F false A false, 1), (A, 2)] } := by
    rw [step_unmarked env mode bound _ _ _ _ _ rfl hcA
      (by simp [beta_reduce_init, PtrHashTable.find, Ne.symm hFA])
      (by simp [opens_scope, hAl])]
    rw [expand_unchanged env _ _ _ _ _ (by simpa using hAlb) (by simpa using hAp)
      (Or.inl (by simpa [LoopState.record] using hbm A))
      (by simp [hAl])]
    rw [push_arg_stack_plain _ _ _ _ (by simp [LoopState.record, PtrHashTable.find_set_self])
      (by simp [LoopState.record, beta_reduce_init]) (by simp [hAp]) (by simp [hAp])]
    simp [LoopState.record, beta_reduce_init, PtrHashTable.set, Ne.symm hFA, hAp,
      cond_invert_ref]
    exact cond_invert_ref A.ref
  exact run_steps_add env mode bound 1 1 _ _ _ (run_steps_one _ _ _ _ _ step1)
    (run_steps_one _ _ _ _ _ step2)

theorem assign_args_loop_one (btor : Btor) (iL ip : NodeInfo) (body : BtorNode) (vb : Bool)
    (x : Ref) (hkL : iL.kind = .lambda) (hlen : x.node.len = ip.len) :
    btor_assign_args_loop btor (BtorNode.n2 iL (.n0 ip) false body vb) [x] =
      some { btor with
        assigned_exp :=
          Function.update btor.assigned_exp (.n0 ip) (x :: btor.assigned_exp (.n0 ip))
        log := Event.assign (.n0 ip) x :: btor.log } := by
  have hlen2 : x.node.info.len = ip.len := hlen
  simp [btor_assign_args_loop, btor_assign_param, BtorNode.BTOR_IS_LAMBDA_NODE, hkL,
    BtorNode.e, Ref.regular, hlen2, BtorNode.len]

/-- The first visit, in full mode, of a non-nested closed lambda `λp. body`
that is the function child of an apply, with the args node `args (a)` on top
of the argument stack, the parameter unbound and no entry in the cache: a new
scope is opened, `a` is bound to `p` and the children are pushed. -/
theorem step_lambda_bind (env : Ext) (s : LoopState) (iL ip iA : NodeInfo)
    (body a : BtorNode) (vb av : Bool) (par : BtorNode) (w : List (Ref × Option BtorNode))
    (rest : List Ref) (cache : PtrHashTable (Ref × Ref) Ref)
    (hw : s.work_stack = ((BtorNode.n2 iL (.n0 ip) false body vb).ref, some par) :: w)
    (hsL : env.simplify (BtorNode.n2 iL (.n0 ip) false body vb).ref
      = (BtorNode.n2 iL (.n0 ip) false body vb).ref)
    (hsp : env.simplify (BtorNode.n0 ip).ref = (BtorNode.n0 ip).ref)
    (hsb : env.simplify ⟨body, vb⟩ = ⟨body, vb⟩)
    (hkL : iL.kind = .lambda) (hLp : iL.parameterized = false) (hLn : iL.is_nested = false)
    (hLlb : iL.lambda_below = true) (hkp : ip.kind = .param)
    (hpar : par.BTOR_IS_APPLY_NODE = true)
    (hfirst : PtrHashTable.find s.cur_scope (BtorNode.n2 iL (.n0 ip) false body vb) = none)
    (harg : s.arg_stack = (BtorNode.n1 iA a av).ref :: rest)
    (hkA : iA.kind = .args)
    (hunb : s.btor.assigned_exp (.n0 ip) = [])
    (hcache : s.btor.cache = some cache)
    (hmiss : PtrHashTable.find cache
      ((BtorNode.n2 iL (.n0 ip) false body vb).ref, (BtorNode.n1 iA a av).ref) = none)
    (hlen : a.len = ip.len) :
    beta_reduce_step env BETA_RED_FULL 0 s =
      some { s with
        btor := { s.btor with
          assigned_exp := Function.update s.btor.assigned_exp (.n0 ip) [⟨a, av⟩]
          log := Event.assign (.n0 ip) ⟨a, av⟩
            :: Event.visit (BtorNode.n2 iL (.n0 ip) false body vb) :: s.btor.log }
        work_stack := (⟨body, vb⟩, some (BtorNode.n2 iL (.n0 ip) false body vb))
          :: ((BtorNode.n0 ip).ref, some (BtorNode.n2 iL (.n0 ip) false body vb))
          :: ((BtorNode.n2 iL (.n0 ip) false body vb).ref, some par) :: w
        cur_scope := [(BtorNode.n2 iL (.n0 ip) false body vb, 1)]
        cur_scope_results := []
        cur_scope_lambda := some (BtorNode.n2 iL (.n0 ip) false body vb)
        scopes := s.cur_scope :: s.scopes
        scope_results := s.cur_scope_results :: s.scope_results
        scope_lambdas := s.cur_scope_lambda :: s.scope_lambdas
        unassign_stack := BtorNode.n2 iL (.n0 ip) false body vb :: s.unassign_stack } := by
  have hlam : (BtorNode.n2 iL (.n0 ip) false body vb).BTOR_IS_LAMBDA_NODE = true := by
    simp [BtorNode.BTOR_IS_LAMBDA_NODE, hkL]
  have hnapp : (BtorNode.n2 iL (.n0 ip) false body vb).BTOR_IS_APPLY_NODE = false := by
    simp [BtorNode.BTOR_IS_APPLY_NODE, hkL]
  have hnpar : (BtorNode.n2 iL (.n0 ip) false body vb).BTOR_IS_PARAM_NODE = false := by
    simp [BtorNode.BTOR_IS_PARAM_NODE, hkL]
  have hpL : BtorNode.n0 ip ≠ BtorNode.n2 iL (.n0 ip) false body vb := by
    intro h; cases h
  have hcL : simplify_cur env (BtorNode.n2 iL (.n0 ip) false body vb).ref
      = (BtorNode.n2 iL (.n0 ip) false body vb).ref := by
    rw [simplify_cur_of_not_apply env _ (by simpa using hnapp)]; exact hsL
  rw [step_unmarked_open env BETA_RED_FULL 0 s (BtorNode.n2 iL (.n0 ip) false body vb).ref
    (BtorNode.n2 iL (.n0 ip) false body vb).ref (some par) w hw hcL hfirst
    (by simp [opens_scope, hlam, BtorNode.parameterized, hLp,
      BtorNode.BTOR_IS_NESTED_LAMBDA_NODE, hLn])]
  unfold expand
  simp only [ref_node, hlam, Bool.or_true, Bool.not_true, Bool.false_eq_true, if_false,
    BETA_RED_FULL, BETA_RED_LAMBDA_CHAINS, BtorNode.lambda_below, info_n2, hLlb,
    BtorNode.parameterized, hLp, hnpar, Bool.false_and, Bool.and_false,
    gt_iff_lt, lt_self_iff_false, decide_False]
  simp only [assign_lambda, hlam, LoopState.record, harg, BtorNode.e, List.map, hsp, hsb,
    btor_param_cur_assignment, hunb, hpar, hcache, cached_beta_result, hmiss,
    btor_assign_args, btor_assign_args_loop, btor_assign_param, BtorNode.BTOR_IS_ARGS_NODE,
    BtorNode.BTOR_IS_PARAM_NODE, kind_n1, kind_n0, hkA, hkp, hlen, BtorNode.len, info_n0,
    ref_node, ref_regular, ref_inv, Ref.regular, PtrHashTable.set, PtrHashTable.find]
  have hsp2 : env.simplify ⟨BtorNode.n0 ip, false⟩ = ⟨BtorNode.n0 ip, false⟩ := hsp
  have hmiss2 : PtrHashTable.find cache
      ((⟨BtorNode.n2 iL (.n0 ip) false body vb, false⟩ : Ref), (⟨BtorNode.n1 iA a av, false⟩ : Ref))
      = none := hmiss
  have hone := assign_args_loop_one
    { cache := some cache, assigned_exp := s.btor.assigned_exp, beta_mark := s.btor.beta_mark,
      rewrite_level := s.btor.rewrite_level,
      log := Event.visit (BtorNode.n2 iL (BtorNode.n0 ip) false body vb) :: s.btor.log }
    iL ip body vb ⟨a, av⟩ hkL hlen
  simp [hlen, hpL, BtorNode.ref, Ref.regular, BtorNode.BTOR_IS_LAMBDA_NODE, hkL, hsp2, hsb, hkp,
    hunb, hpar, hcache, hmiss2, hkA, BtorNode.len, Ne.symm hpL, hone]

/-- The post-order visit of the head lambda of the current scope, when the
result of its parameter is not the parameter itself: the result is the
reduced body, the scope is closed and the bindings of the chain are popped. -/
theorem step_lambda_collect (env : Ext) (mode : Int) (s : LoopState) (L : BtorNode)
    (par : Option BtorNode) (w : List (Ref × Option BtorNode)) (e0 e1 : Ref) (rest : List Ref)
    (sc : PtrHashTable BtorNode Nat) (scs : List (PtrHashTable BtorNode Nat))
    (sr : PtrHashTable BtorNode Ref) (srs : List (PtrHashTable BtorNode Ref))
    (sl : Option BtorNode) (sls : List (Option BtorNode))
    (hw : s.work_stack = (L.ref, par) :: w)
    (hsL : simplify_cur env L.ref = L.ref)
    (hwf : chain_wf L = true) (hLp : L.parameterized = false)
    (hmark : PtrHashTable.find s.cur_scope L = some 1)
    (harg : s.arg_stack = e1 :: e0 :: rest)
    (hne : L.e.head? ≠ some e1)
    (hbm : s.btor.beta_mark L = 0)
    (hcl : s.cur_scope_lambda = some L)
    (h1 : s.scopes = sc :: scs) (h2 : s.scope_results = sr :: srs)
    (h3 : s.scope_lambdas = sl :: sls) :
    beta_reduce_step env mode 0 s =
      some { s with
        btor := { s.btor with
          assigned_exp := unassigned s.btor.assigned_exp L
          log := Event.visit L :: s.btor.log }
        work_stack := w
        arg_stack := e0 :: rest
        cur_scope := sc
        cur_scope_results := sr
        cur_scope_lambda := sl
        scopes := scs
        scope_results := srs
        scope_lambdas := sls
        unassign_stack :=
          if s.unassign_stack.head? = some L then s.unassign_stack.tail else s.unassign_stack } := by
  obtain ⟨i, p, body, v1, rfl, hk, hp⟩ := chain_wf_shape L hwf
  have hne2 : (⟨p, false⟩ : Ref) ≠ e1 := by
    intro h
    apply hne
    simp [BtorNode.e, h]
  rw [step_expanded env mode 0 s _ _ par w hw hsL (by simpa using hmark)]
  unfold collect
  simp only [ref_node, BtorNode.BTOR_IS_BV_CONST_NODE, BtorNode.BTOR_IS_BV_VAR_NODE,
    BtorNode.BTOR_IS_ARRAY_VAR_NODE, BtorNode.BTOR_IS_PARAM_NODE, kind_n2, hk]
  simp only [rebuild, rebuild_lambda, BtorNode.arity, BtorNode.e, LoopState.record, harg,
    kind_n2, hk]
  have hlen : ¬ (rest.length + 1 + 1 < 2) := by omega
  have hne3 : p.ref ≠ e1 := hne2
  simp [hne2, hne3, hbm, hlen]
  rw [push_arg_stack_close _ _ _ _ sc scs sr srs sl sls (by simp [hmark]) hLp hwf
    (by simp [hcl]) (by simp [h1]) (by simp [h2]) (by simp [h3])]
  simp [Ref.cond_invert]

/-- The post-order visit, in full mode, of an apply whose function child is a
closed lambda `L` and whose function result `r` is a value: the result of the
apply is `r`, and it is stored in the cache under the key `(L, A)`. -/
theorem step_apply_collect (env : Ext) (s : LoopState) (info : NodeInfo) (L A0 : BtorNode)
    (w : List (Ref × Option BtorNode)) (r A : Ref) (rest : List Ref)
    (cache : PtrHashTable (Ref × Ref) Ref)
    (hw : s.work_stack = ((BtorNode.n2 info L false A0 false).ref, none) :: w)
    (hs1 : simplify_cur env (BtorNode.n2 info L false A0 false).ref
      = (BtorNode.n2 info L false A0 false).ref)
    (hsL : env.simplify L.ref = L.ref) (hsA : env.simplify A = A)
    (hk : info.kind = .apply)
    (hLl : L.BTOR_IS_LAMBDA_NODE = true) (hLp : L.parameterized = false)
    (hmark : PtrHashTable.find s.cur_scope (BtorNode.n2 info L false A0 false) = some 1)
    (hres : PtrHashTable.find s.cur_scope_results (BtorNode.n2 info L false A0 false) = none)
    (hcl : s.cur_scope_lambda ≠ some (BtorNode.n2 info L false A0 false))
    (harg : s.arg_stack = r :: A :: rest)
    (hrf : r.node.BTOR_IS_FUN_NODE = false) (hra : r.node.BTOR_IS_ARRAY_NODE = false)
    (hcache : s.btor.cache = some cache)
    (hmiss : PtrHashTable.find cache (L.ref, A) = none
      ∨ PtrHashTable.find cache (L.ref, A) = some r) :
    beta_reduce_step env BETA_RED_FULL 0 s =
      some { s with
        btor := { s.btor with
          cache := some (if PtrHashTable.find cache (L.ref, A) = none
            then PtrHashTable.set cache (L.ref, A) r else cache)
          log := Event.visit (BtorNode.n2 info L false A0 false) :: s.btor.log }
        work_stack := w
        arg_stack := r :: rest
        cur_scope := PtrHashTable.set s.cur_scope (BtorNode.n2 info L false A0 false) 2
        cur_scope_results :=
          if info.parameterized then
            PtrHashTable.set s.cur_scope_results (BtorNode.n2 info L false A0 false) r
          else s.cur_scope_results } := by
  have happ_lam : (BtorNode.n2 info L false A0 false).BTOR_IS_LAMBDA_NODE = false := by
    simp [BtorNode.BTOR_IS_LAMBDA_NODE, hk]
  rw [step_expanded env BETA_RED_FULL 0 s _ _ none w hw hs1 (by simpa using hmark)]
  unfold collect
  simp only [ref_node, BtorNode.BTOR_IS_BV_CONST_NODE, BtorNode.BTOR_IS_BV_VAR_NODE,
    BtorNode.BTOR_IS_ARRAY_VAR_NODE, BtorNode.BTOR_IS_PARAM_NODE, kind_n2, hk, happ_lam]
  simp only [rebuild, rebuild_apply, BtorNode.arity, BtorNode.e, LoopState.record, harg,
    kind_n2, hk]
  have hsL2 : env.simplify ⟨L, false⟩ = L.ref := hsL
  have hlen : ¬ (rest.length + 1 + 1 < 2) := by omega
  rcases hmiss with hm | hm
  · simp [hrf, hra, hcache, BETA_RED_FULL, hLl, hLp, cache_beta_result, hsL2, hsA, hm,
      Ref.regular, hlen]
    rw [push_arg_stack_plain _ _ _ _ (by simp [hmark]) (by simpa using hcl)
      (by simp [happ_lam]) (by intro _; simpa using hres)]
    simp [Ref.cond_invert, BtorNode.parameterized]
  · simp [hrf, hra, hcache, BETA_RED_FULL, hLl, hLp, cache_beta_result, hsL2, hsA, hm,
      Ref.regular, hlen]
    rw [push_arg_stack_plain _ _ _ _ (by simp [hmark]) (by simpa using hcl)
      (by simp [happ_lam]) (by intro _; simpa using hres)]
    simp [Ref.cond_invert, BtorNode.parameterized, hcache]

theorem unassigned_update (assigned : BtorNode → List Ref) (iL : NodeInfo) (p body : BtorNode)
    (vb : Bool) (x : Ref) (hunb : assigned p = []) (hbl : body.BTOR_IS_LAMBDA_NODE = false) :
    unassigned (Function.update assigned p [x]) (BtorNode.n2 iL p false body vb) = assigned := by
  unfold unassigned
  simp only [btor_unassign_params_loop, Function.update_same, List.isEmpty_cons,
    Bool.false_eq_true, if_false, hbl, List.tail_cons, Option.getD_some]
  funext q
  by_cases hq : q = p
  · subst hq; simp [hunb]
  · simp [Function.update, hq]

theorem cond_invert_node (cur r : Ref) : (cur.cond_invert r).node = r.node := by
  unfold Ref.cond_invert
  split <;> simp [Ref.invert]

theorem size_ne_of_child (n : BtorNode) (c : Ref) (hc : c ∈ n.e) (m : BtorNode)
    (hm : m ∈ subterms c.node) : n ≠ m := by
  intro h
  exact not_mem_subterms_child n c hc (h ▸ hm)

/-- The run of full reduction on `(λp. body) (a)` for a body without lambda
and apply: the state when the work stack becomes empty. -/
theorem full_apply_run (env : Ext) (btor : Btor) (iapp iL ip iA : NodeInfo)
    (body a : BtorNode) (vb av : Bool) (cache : PtrHashTable (Ref × Ref) Ref)
    (hkapp : iapp.kind = .apply) (hlbapp : iapp.lambda_below = true)
    (hkL : iL.kind = .lambda) (hLp : iL.parameterized = false) (hLn : iL.is_nested = false)
    (hLlb : iL.lambda_below = true)
    (hp : simple env (.n0 ip) = true) (hkp : ip.kind = .param)
    (hbody : simple env body = true)
    (hkA : iA.kind = .args) (hAp : iA.parameterized = false) (hAlb : iA.lambda_below = false)
    (hapar : a.parameterized = false) (hafun : a.BTOR_IS_FUN_NODE = false)
    (halen : a.len = ip.len)
    (hs1 : simplify_cur env
      (BtorNode.n2 iapp (.n2 iL (.n0 ip) false body vb) false (.n1 iA a av) false).ref
      = (BtorNode.n2 iapp (.n2 iL (.n0 ip) false body vb) false (.n1 iA a av) false).ref)
    (hs2 : env.simplify (BtorNode.n2 iL (.n0 ip) false body vb).ref
      = (BtorNode.n2 iL (.n0 ip) false body vb).ref)
    (hs3 : env.simplify (BtorNode.n1 iA a av).ref = (BtorNode.n1 iA a av).ref)
    (hs4 : stable env (BtorNode.n0 ip).ref = true)
    (hs5 : stable env ⟨body, vb⟩ = true)
    (hbm : ∀ m, btor.beta_mark m = 0)
    (hunb : btor.assigned_exp (.n0 ip) = [])
    (hcache : btor.cache = some cache)
    (hmiss : PtrHashTable.find cache
      ((BtorNode.n2 iL (.n0 ip) false body vb).ref, (BtorNode.n1 iA a av).ref) = none)
    (hnf : results_not_fun env (Function.update btor.assigned_exp (.n0 ip) [⟨a, av⟩]) body
      = true)
    (hval : (substitute env (Function.update btor.assigned_exp (.n0 ip) [⟨a, av⟩])
      body).node.BTOR_IS_ARRAY_NODE = false) :
    ∃ k s, run_steps env BETA_RED_FULL 0 k (beta_reduce_init btor
        (BtorNode.n2 iapp (.n2 iL (.n0 ip) false body vb) false (.n1 iA a av) false).ref)
        = some s ∧
      s.work_stack = [] ∧
      s.arg_stack = [Ref.cond_invert ⟨body, vb⟩
        (substitute env (Function.update btor.assigned_exp (.n0 ip) [⟨a, av⟩]) body)] ∧
      s.cur_scope_lambda = none ∧ s.scopes = [] ∧ s.scope_results = [] ∧
      s.scope_lambdas = [] ∧ s.unassign_stack = [] ∧
      s.btor.cache = some (PtrHashTable.set cache
        ((BtorNode.n2 iL (.n0 ip) false body vb).ref, (BtorNode.n1 iA a av).ref)
        (Ref.cond_invert ⟨body, vb⟩
          (substitute env (Function.update btor.assigned_exp (.n0 ip) [⟨a, av⟩]) body))) ∧
      s.btor.assigned_exp = btor.assigned_exp ∧ s.btor.beta_mark = btor.beta_mark := by
  -- abbreviations
  generalize hLdef : BtorNode.n2 iL (.n0 ip) false body vb = L at *
  generalize hAdef : BtorNode.n1 iA a av = A at *
  generalize happdef : BtorNode.n2 iapp L false A false = app at *
  generalize hσ : Function.update btor.assigned_exp (.n0 ip) [⟨a, av⟩] = σ at *
  have hLk : L.kind = .lambda := by rw [← hLdef]; simpa using hkL
  have hAk : A.kind = .args := by rw [← hAdef]; simpa using hkA
  have happk : app.kind = .apply := by rw [← happdef]; simpa using hkapp
  have hLlam : L.BTOR_IS_LAMBDA_NODE = true := by simp [BtorNode.BTOR_IS_LAMBDA_NODE, hLk]
  have hLpar : L.parameterized = false := by rw [← hLdef]; simpa [BtorNode.parameterized] using hLp
  have hLA : L ≠ A := ne_of_kind (by rw [hLk, hAk]; decide)
  have hAapp : A ≠ app := ne_of_kind (by rw [hAk, happk]; decide)
  have hLapp : L ≠ app := ne_of_kind (by rw [hLk, happk]; decide)
  obtain ⟨hblb, hbkl, hbka, hbpar⟩ := simple_facts env body hbody
  obtain ⟨hplb, hpkl, hpka, hppar⟩ := simple_facts env _ hp
  have hpp : (BtorNode.n0 ip).parameterized = true := by rw [hppar]; simp [has_param, hkp]
  have hbl : body.BTOR_IS_LAMBDA_NODE = false := by simp [BtorNode.BTOR_IS_LAMBDA_NODE, hbkl]
  have hwf : chain_wf L = true := by
    rw [← hLdef]
    simp [chain_wf, hkL, BtorNode.BTOR_IS_PARAM_NODE, hkp, hbl]
  have hap : a ≠ BtorNode.n0 ip := by
    intro h
    rw [h, hpp] at hapar
    cases hapar
  simp only [stable, Bool.and_eq_true, decide_eq_true_eq] at hs4 hs5
  -- the apply and its args node
  have hrun2 := run_apply_prefix env BETA_RED_FULL 0 btor iapp L A hkapp hlbapp (by decide)
    (by rw [happdef]; exact hAapp) (by simp [BtorNode.BTOR_IS_LAMBDA_NODE, hAk])
    (by simp [BtorNode.BTOR_IS_APPLY_NODE, hAk])
    (by rw [← hAdef]; simpa [BtorNode.lambda_below] using hAlb)
    (by rw [← hAdef]; simpa [BtorNode.parameterized] using hAp)
    (by rw [happdef]; exact hs1) hs2 hs3 hbm
  rw [happdef] at hrun2
  -- the lambda opens its scope and binds the argument
  have hstep3 := step_lambda_bind env
    { beta_reduce_init btor app.ref with
      btor := { btor with log := Event.visit A :: Event.visit app :: btor.log }
      work_stack := [(L.ref, some app), (app.ref, none)]
      arg_stack := [A.ref]
      cur_scope := [(app, 1), (A, 2)] }
    iL ip iA body a vb av app [(app.ref, none)] [] cache
    (by rw [hLdef]) (by rw [hLdef]; exact hs2) hs4.1 hs5.1 hkL hLp hLn hLlb hkp
    (by simp [BtorNode.BTOR_IS_APPLY_NODE, happk])
    (by rw [hLdef]; simp [PtrHashTable.find, Ne.symm hLapp, Ne.symm hLA])
    (by rw [hAdef]) hkA hunb hcache (by rw [hLdef, hAdef]; exact hmiss) halen
  rw [hLdef, hσ] at hstep3
  simp only [beta_reduce_init] at hstep3
  -- the body is reduced in the new scope
  obtain ⟨k4, s4, hrun4, hw4, ha4, hf4, hun4, hm4, -, -⟩ :=
    reduces_simple env BETA_RED_FULL 0 body hbody
      { btor := { btor with
          assigned_exp := σ
          log := Event.assign (.n0 ip) ⟨a, av⟩ :: Event.visit L :: Event.visit A
            :: Event.visit app :: btor.log }
        work_stack := [(⟨body, vb⟩, some L), ((BtorNode.n0 ip).ref, some L),
          (L.ref, some app), (app.ref, none)]
        arg_stack := [A.ref]
        cur_scope := [(L, 1)]
        cur_scope_results := []
        cur_scope_lambda := some L
        scopes := [[(app, 1), (A, 2)]]
        scope_results := [[]]
        scope_lambdas := [none]
        unassign_stack := [L] }
      vb (some L)
      [((BtorNode.n0 ip).ref, some L), (L.ref, some app), (app.ref, none)]
      rfl hs5.2 hbm hnf
      (by
        intro m hm
        left
        have hne : L ≠ m := by
          rw [← hLdef]
          exact size_ne_of_child _ ⟨body, vb⟩ (by simp [BtorNode.e]) m hm
        simp [PtrHashTable.find, hne])
      (by intro l hl; simp at hl; rw [← hl]; exact hLlam)
  obtain ⟨g1, g2, g3, g4, g5, g6, g7, g8⟩ := hf4
  simp only at g1 g2 g3 g4 g5 g6 g7 g8 ha4 hun4 hm4
  have hLnotp : L ≠ BtorNode.n0 ip := by rw [← hLdef]; intro h; cases h
  -- the parameter is visited as child 0 of the lambda
  obtain ⟨k5, s5, hrun5, hw5, ha5, hf5, hun5, -, -, -⟩ :=
    reduces_simple env BETA_RED_FULL 0 (.n0 ip) hp s4 false (some L)
      [(L.ref, some app), (app.ref, none)] hw4 hs4.2
      (by intro m; rw [g3]; exact hbm m)
      (by
        rw [g1]
        simp [results_not_fun, subterms, has_param, hkp, substitute, ← hσ, hafun])
      (by
        intro m hm
        have hmp : m = .n0 ip := by simpa [subterms] using hm
        subst hmp
        rw [g1]
        by_cases hin : BtorNode.n0 ip ∈ subterms body
        · exact hm4 _ hin
        · obtain ⟨e1, e2⟩ := hun4 _ hin
          left
          rw [e1, e2]
          simp [PtrHashTable.find, hLnotp])
      (by intro l hl; rw [g7] at hl; simp at hl; rw [← hl]; exact hLlam)
  obtain ⟨f1, f2, f3, f4, f5, f6, f7, f8⟩ := hf5
  have hsubp : substitute env s4.btor.assigned_exp (.n0 ip) = ⟨a, av⟩ := by
    rw [g1, ← hσ]
    simp [substitute, hkp]
  rw [hsubp, ha4] at ha5
  simp only [Ref.cond_invert, Bool.false_eq_true, if_false] at ha5
  -- the lambda is rebuilt: its result is the reduced body, and the scope is closed
  have hLbody : L ∉ subterms body := by
    rw [← hLdef]
    exact not_mem_subterms_child _ ⟨body, vb⟩ (by simp [BtorNode.e])
  have hLp0 : L ∉ subterms (.n0 ip) := by simp [subterms, hLnotp]
  have hmark5 : PtrHashTable.find s5.cur_scope L = some 1 := by
    rw [(hun5 L hLp0).1, (hun4 L hLbody).1]
    simp [PtrHashTable.find]
  have hstep6 := step_lambda_collect env BETA_RED_FULL s5 L (some app) [(app.ref, none)]
    (Ref.cond_invert ⟨body, vb⟩ (substitute env σ body)) ⟨a, av⟩ [A.ref]
    [(app, 1), (A, 2)] [] [] [] none []
    hw5 (by rw [simplify_cur_of_not_apply env _ (by simp [BtorNode.BTOR_IS_APPLY_NODE, hLk])]
            exact hs2)
    hwf hLpar hmark5 (by simpa [Ref.cond_invert] using ha5)
    (by
      rw [← hLdef]
      simp only [BtorNode.e, List.head?_cons, ne_eq, Option.some.injEq]
      intro h
      apply hap
      have := congrArg Ref.node h
      simpa using this.symm)
    (by rw [f3, g3]; exact hbm L)
    (by rw [f7, g7])
    (by rw [f4, g4]) (by rw [f5, g5]) (by rw [f6, g6])
  have hunas : unassigned s5.btor.assigned_exp L = btor.assigned_exp := by
    rw [f1, g1, ← hσ, ← hLdef]
    exact unassigned_update _ iL _ body vb _ hunb hbl
  rw [hunas, f8, g8] at hstep6
  simp only [List.head?_cons, if_true, List.tail_cons] at hstep6
  -- the apply is rebuilt: its result is the result of the lambda, stored in the cache
  have hRfun : (Ref.cond_invert ⟨body, vb⟩ (substitute env σ body)).node.BTOR_IS_FUN_NODE
      = false := by
    rw [cond_invert_node, fun_eq_lambda]
    by_cases hpb : has_param body = true
    · exact results_not_fun_mem env σ body body hnf (self_mem_subterms body) hpb
    · rw [substitute_of_no_param env σ body (by simpa using hpb)]
      simpa using hbl
  have hstep7 := step_apply_collect env
    { s5 with
      btor := { s5.btor with
        assigned_exp := btor.assigned_exp
        log := Event.visit L :: s5.btor.log }
      work_stack := [(app.ref, none)]
      arg_stack := [Ref.cond_invert ⟨body, vb⟩ (substitute env σ body), A.ref]
      cur_scope := [(app, 1), (A, 2)]
      cur_scope_results := []
      cur_scope_lambda := none
      scopes := []
      scope_results := []
      scope_lambdas := []
      unassign_stack := [] }
    iapp L A [] (Ref.cond_invert ⟨body, vb⟩ (substitute env σ body)) A.ref [] cache
    (by rw [happdef]) (by rw [happdef]; exact hs1) hs2 hs3 hkapp hLlam hLpar
    (by rw [happdef]; simp [PtrHashTable.find])
    (by simp [PtrHashTable.find]) (by simp) rfl hRfun
    (by rw [cond_invert_node]; exact hval)
    (by simp only; rw [f2, g2]; exact hcache)
    (Or.inl hmiss)
  rw [happdef] at hstep7
  simp only [hmiss, if_true] at hstep7
  refine ⟨2 + (1 + (k4 + (k5 + (1 + 1)))), _,
    run_steps_add _ _ _ 2 _ _ _ _ hrun2
      (run_steps_add _ _ _ 1 _ _ _ _ (run_steps_one _ _ _ _ _ hstep3)
        (run_steps_add _ _ _ k4 _ _ _ _ hrun4
          (run_steps_add _ _ _ k5 _ _ _ _ hrun5
            (run_steps_add _ _ _ 1 1 _ _ _ (run_steps_one _ _ _ _ _ hstep6)
              (run_steps_one _ _ _ _ _ hstep7))))),
    rfl, rfl, rfl, rfl, rfl, rfl, rfl, rfl, rfl, ?_⟩
  simp only
  rw [f3, g3]

/-- The simplification at the head of the loop is not `btor_simplify_exp` on
an apply marked constraint: with a simplifier that rewrites constraints to
true, full reduction of such an apply returns the apply itself (the pointer
chase), as the comment at the head of the loop asks for. -/
theorem constraint_apply_root_is_chased :
    (∃ b, btor_beta_reduce_full 1 rewritingExt btor0 ex_constraint_apply.ref
      = .done (ex_constraint_apply.ref, b)) ∧
    simplify_cur rewritingExt ex_constraint_apply.ref = ex_constraint_apply.ref ∧
    ex_constraint_apply.ref ≠ rewritingExt.simplify ex_constraint_apply.ref := by
  refine ⟨⟨_, rfl⟩, by decide, by decide⟩
/-! ## Reduction of lambda chains with bound parameters -/

theorem expand_lambda_noassign (env : Ext) (par : Option BtorNode) (s : LoopState)
    (i : NodeInfo) (p next : BtorNode) (v1 : Bool)
    (hk : i.kind = .lambda) (hlb : i.lambda_below = true)
    (hpk : p.BTOR_IS_PARAM_NODE = true)
    (hsp : env.simplify p.ref = p.ref) (hsn : env.simplify ⟨next, v1⟩ = ⟨next, v1⟩)
    (hbound : s.arg_stack = [] ∨ s.btor.assigned_exp p ≠ []) :
    expand env BETA_RED_FULL 0 (BtorNode.n2 i p false next v1).ref par s =
      some { s with
        cur_scope := PtrHashTable.set s.cur_scope (BtorNode.n2 i p false next v1) 1
        work_stack := (⟨next, v1⟩, some (BtorNode.n2 i p false next v1))
          :: (p.ref, some (BtorNode.n2 i p false next v1))
          :: ((BtorNode.n2 i p false next v1).ref, par) :: s.work_stack } := by
  have hlam : (BtorNode.n2 i p false next v1).BTOR_IS_LAMBDA_NODE = true := by
    simp [BtorNode.BTOR_IS_LAMBDA_NODE, hk]
  have hnpar : (BtorNode.n2 i p false next v1).BTOR_IS_PARAM_NODE = false := by
    simp [BtorNode.BTOR_IS_PARAM_NODE, hk]
  have hsp2 : env.simplify ⟨p, false⟩ = ⟨p, false⟩ := hsp
  unfold expand
  simp only [ref_node, hlam, Bool.or_true, Bool.not_true, Bool.false_eq_true, if_false,
    BETA_RED_FULL, BETA_RED_LAMBDA_CHAINS, BtorNode.lambda_below, info_n2, hlb, hnpar,
    Bool.false_and, Bool.and_false, gt_iff_lt, lt_self_iff_false, decide_False]
  rcases hbound with h | h
  · simp [assign_lambda, h, BtorNode.e, hsp2, hsn, BtorNode.ref]
  · cases harg : s.arg_stack with
    | nil => simp [assign_lambda, harg, BtorNode.e, hsp2, hsn, BtorNode.ref]
    | cons x xs =>
      cases hb : s.btor.assigned_exp p with
      | nil => exact absurd hb h
      | cons b bs =>
        simp [assign_lambda, harg, BtorNode.e, hsp2, hsn, BtorNode.ref, hlam,
          btor_param_cur_assignment, Ref.regular, hpk, hb]

/-- The post-order visit of a nested lambda that is not the head of its
chain, when the result of its parameter is not the parameter itself: the
result is the reduced body; nothing is unassigned. -/
theorem step_lambda_collect_inner (env : Ext) (mode : Int) (s : LoopState) (i : NodeInfo)
    (p next : BtorNode) (v1 : Bool) (par : Option BtorNode)
    (w : List (Ref × Option BtorNode)) (e0 e1 : Ref) (rest : List Ref)
    (hw : s.work_stack = ((BtorNode.n2 i p false next v1).ref, par) :: w)
    (hsL : simplify_cur env (BtorNode.n2 i p false next v1).ref
      = (BtorNode.n2 i p false next v1).ref)
    (hk : i.kind = .lambda) (hnest : i.is_nested = true)
    (hmark : PtrHashTable.find s.cur_scope (BtorNode.n2 i p false next v1) = some 1)
    (hres : PtrHashTable.find s.cur_scope_results (BtorNode.n2 i p false next v1) = none)
    (harg : s.arg_stack = e1 :: e0 :: rest)
    (hne : p.ref ≠ e1)
    (hbm : s.btor.beta_mark (BtorNode.n2 i p false next v1) = 0)
    (hcl : s.cur_scope_lambda ≠ some (BtorNode.n2 i p false next v1)) :
    beta_reduce_step env mode 0 s =
      some { s with
        btor := { s.btor with log := Event.visit (BtorNode.n2 i p false next v1) :: s.btor.log }
        work_stack := w
        arg_stack := e0 :: rest
        cur_scope := PtrHashTable.set s.cur_scope (BtorNode.n2 i p false next v1) 2
        cur_scope_results :=
          if i.parameterized then
            PtrHashTable.set s.cur_scope_results (BtorNode.n2 i p false next v1) e0
          else s.cur_scope_results } := by
  have hne2 : (⟨p, false⟩ : Ref) ≠ e1 := hne
  rw [step_expanded env mode 0 s _ _ par w hw hsL (by simpa using hmark)]
  unfold collect
  simp only [ref_node, BtorNode.BTOR_IS_BV_CONST_NODE, BtorNode.BTOR_IS_BV_VAR_NODE,
    BtorNode.BTOR_IS_ARRAY_VAR_NODE, BtorNode.BTOR_IS_PARAM_NODE, kind_n2, hk]
  simp only [rebuild, rebuild_lambda, BtorNode.arity, BtorNode.e, LoopState.record, harg,
    kind_n2, hk]
  have hlen : ¬ (rest.length + 1 + 1 < 2) := by omega
  simp [hne2, hne, hbm, hlen]
  rw [push_arg_stack_plain _ _ _ _ (by simp [hmark]) (by simpa using hcl)
    (by simp [BtorNode.BTOR_IS_NESTED_LAMBDA_NODE, hnest]) (by intro _; simpa using hres)]
  simp [Ref.cond_invert, BtorNode.parameterized]

theorem chain_ok_facts (env : Ext) (i ip : NodeInfo) (v0 : Bool) (next : BtorNode) (v1 : Bool)
    (h : chain_ok env (.n2 i (.n0 ip) v0 next v1) = true) :
    i.kind = .lambda ∧ i.lambda_below = true ∧ v0 = false ∧ ip.kind = .param ∧
      simple env (.n0 ip) = true ∧ stable env (BtorNode.n0 ip).ref = true ∧
      stable env ⟨next, v1⟩ = true ∧
      (next.BTOR_IS_LAMBDA_NODE = true →
        v1 = false ∧ next.info.is_nested = true ∧ next.info.is_first_nested = false ∧
          chain_ok env next = true) ∧
      (next.BTOR_IS_LAMBDA_NODE = false → simple env next = true) := by
  simp only [chain_ok, Bool.and_eq_true, beq_iff_eq, Bool.not_eq_true'] at h
  obtain ⟨⟨⟨⟨⟨⟨⟨h1, h2⟩, h3⟩, h4⟩, h5⟩, h6⟩, h7⟩, h8⟩ := h
  refine ⟨h1, h2, h3, h4, h5, h6, h7, ?_, ?_⟩
  · intro hl
    simp only [hl, if_true, Bool.and_eq_true, Bool.not_eq_true'] at h8
    exact ⟨h8.1.1.1, h8.1.1.2, h8.1.2, h8.2⟩
  · intro hl
    simpa [hl] using h8

theorem chain_ok_shape (env : Ext) (L : BtorNode) (h : chain_ok env L = true) :
    ∃ i ip next v1, L = .n2 i (.n0 ip) false next v1 := by
  cases L with
  | n0 i => simp [chain_ok] at h
  | n1 i c0 v0 => simp [chain_ok] at h
  | n3 i c0 v0 c1 v1 c2 v2 => simp [chain_ok] at h
  | n2 i c0 v0 c1 v1 =>
    cases c0 with
    | n0 ip =>
      obtain ⟨-, -, hv, -⟩ := chain_ok_facts env i ip v0 c1 v1 h
      subst hv
      exact ⟨i, ip, c1, v1, rfl⟩
    | n1 _ _ _ => simp [chain_ok] at h
    | n2 _ _ _ _ _ => simp [chain_ok] at h
    | n3 _ _ _ _ _ _ _ => simp [chain_ok] at h

theorem chain_result_cons (env : Ext) (assigned : BtorNode → List Ref) (i : NodeInfo)
    (p next : BtorNode) (v0 v1 : Bool) :
    chain_result env assigned (.n2 i p v0 next v1) =
      if next.BTOR_IS_LAMBDA_NODE then chain_result env assigned next
      else Ref.cond_invert ⟨next, v1⟩ (substitute env assigned next) := by
  unfold chain_result
  simp only [chain_body]
  split <;> rfl

theorem chain_lambdas_not_leaf (L : BtorNode) (ip : NodeInfo) : BtorNode.n0 ip ∉ chain_lambdas L := by
  induction L with
  | n0 i => simp [chain_lambdas]
  | n1 i c0 v0 _ => simp [chain_lambdas]
  | n3 i c0 v0 c1 v1 c2 v2 _ _ _ => simp [chain_lambdas]
  | n2 i c0 v0 c1 v1 _ ih1 =>
    simp only [chain_lambdas, List.mem_cons]
    intro h
    rcases h with h | h
    · cases h
    · split at h
      · exact ih1 h
      · simp at h

theorem lambda_children_run (env : Ext) (i ip : NodeInfo) (next : BtorNode) (v1 : Bool)
    (hok : chain_ok env (.n2 i (.n0 ip) false next v1) = true)
    (ih : next.BTOR_IS_LAMBDA_NODE = true → ChainReduces env next)
    (s : LoopState) (w : List (Ref × Option BtorNode))
    (hw : s.work_stack = (⟨next, v1⟩, some (.n2 i (.n0 ip) false next v1))
      :: ((BtorNode.n0 ip).ref, some (.n2 i (.n0 ip) false next v1)) :: w)
    (hbm : ∀ m, s.btor.beta_mark m = 0)
    (hnf : results_not_fun env s.btor.assigned_exp
      (chain_body (.n2 i (.n0 ip) false next v1)).node = true)
    (hpb : params_bound s.btor.assigned_exp (chain_params (.n2 i (.n0 ip) false next v1)))
    (hun : ∀ m, (m ∈ subterms next ∨ m = .n0 ip) →
      PtrHashTable.find s.cur_scope m = none ∧ PtrHashTable.find s.cur_scope_results m = none)
    (hsl : ∀ l, s.cur_scope_lambda = some l → l.BTOR_IS_LAMBDA_NODE = true ∧ l ∉ subterms next) :
    ∃ k s1 b rest, s.btor.assigned_exp (.n0 ip) = b :: rest ∧
      b ≠ (BtorNode.n0 ip).ref ∧
      run_steps env BETA_RED_FULL 0 k s = some s1 ∧ s1.work_stack = w ∧
      s1.arg_stack = b :: chain_result env s.btor.assigned_exp (.n2 i (.n0 ip) false next v1)
        :: s.arg_stack ∧
      Frame s s1 ∧
      (∀ m, m ∉ subterms next → m ≠ .n0 ip →
        PtrHashTable.find s1.cur_scope m = PtrHashTable.find s.cur_scope m ∧
        PtrHashTable.find s1.cur_scope_results m = PtrHashTable.find s.cur_scope_results m) ∧
      (∀ m, (m ∈ subterms next ∨ m = .n0 ip) →
        m ∉ (if next.BTOR_IS_LAMBDA_NODE then chain_lambdas next else []) →
        Memo env s.btor.assigned_exp s1 m) := by
  obtain ⟨hk, hlb, -, hkp, hsp, hstp, hstn, hnl, hns⟩ := chain_ok_facts env i ip false next v1 hok
  simp only [stable, Bool.and_eq_true, decide_eq_true_eq] at hstp hstn
  obtain ⟨b, rest, hb, hbne, hbf⟩ := hpb (.n0 ip) (by simp [chain_params])
  -- the body of the lambda: the next lambda of the chain, or the innermost body
  have hnext : ∃ k1 s1, run_steps env BETA_RED_FULL 0 k1 s = some s1 ∧
      s1.work_stack = ((BtorNode.n0 ip).ref, some (.n2 i (.n0 ip) false next v1)) :: w ∧
      s1.arg_stack = chain_result env s.btor.assigned_exp (.n2 i (.n0 ip) false next v1)
        :: s.arg_stack ∧
      Frame s s1 ∧
      (∀ m, m ∉ subterms next →
        PtrHashTable.find s1.cur_scope m = PtrHashTable.find s.cur_scope m ∧
        PtrHashTable.find s1.cur_scope_results m = PtrHashTable.find s.cur_scope_results m) ∧
      (∀ m, m ∈ subterms next →
        m ∉ (if next.BTOR_IS_LAMBDA_NODE then chain_lambdas next else []) →
        Memo env s.btor.assigned_exp s1 m) := by
    by_cases hl : next.BTOR_IS_LAMBDA_NODE = true
    · obtain ⟨hv1, -, -, -⟩ := hnl hl
      subst hv1
      obtain ⟨k1, s1, hrun, hw1, ha1, hf1, hun1, hm1⟩ := ih hl s _ _ hw hbm
        (by simpa [chain_body, hl] using hnf)
        (by
          intro q hq
          exact hpb q (by simp [chain_params, hl, hq]))
        (fun m hm => hun m (Or.inl hm))
        hsl
      refine ⟨k1, s1, hrun, hw1, ?_, hf1, hun1, ?_⟩
      · rw [ha1, chain_result_cons]; simp [hl]
      · intro m hm hnot
        exact hm1 m hm (by simpa [hl] using hnot)
    · have hl2 : next.BTOR_IS_LAMBDA_NODE = false := by simpa using hl
      obtain ⟨k1, s1, hrun, hw1, ha1, hf1, hun1, hm1, -, -⟩ :=
        reduces_simple env BETA_RED_FULL 0 next (hns hl2) s v1 _ _ hw hstn.2 hbm
          (by simpa [chain_body, hl2] using hnf)
          (fun m hm => Or.inl (hun m (Or.inl hm)))
          (fun l hl3 => (hsl l hl3).1)
      refine ⟨k1, s1, hrun, hw1, ?_, hf1, hun1, fun m hm _ => hm1 m hm⟩
      rw [ha1, chain_result_cons]; simp [hl2]
  obtain ⟨k1, s1, hrun1, hw1, ha1, hf1, hun1, hm1⟩ := hnext
  obtain ⟨g1, g2, g3, g4, g5, g6, g7, g8⟩ := hf1
  -- the parameter
  obtain ⟨k2, s2, hrun2, hw2, ha2, hf2, hun2, hm2, -, -⟩ :=
    reduces_simple env BETA_RED_FULL 0 (.n0 ip) hsp s1 false _ w hw1 hstp.2
      (by intro m; rw [g3]; exact hbm m)
      (by
        rw [g1]
        simp [results_not_fun, subterms, has_param, hkp, substitute, hb, hbf])
      (by
        intro m hm
        have hmp : m = .n0 ip := by simpa [subterms] using hm
        subst hmp
        rw [g1]
        by_cases hin : BtorNode.n0 ip ∈ subterms next
        · exact hm1 _ hin (by
            split
            · exact chain_lambdas_not_leaf next ip
            · simp)
        · obtain ⟨e1, e2⟩ := hun1 _ hin
          left
          rw [e1, e2]
          exact hun _ (Or.inr rfl))
      (by intro l hl; rw [g7] at hl; exact (hsl l hl).1)
  have hsubp : substitute env s1.btor.assigned_exp (.n0 ip) = b := by
    rw [g1]
    simp [substitute, hkp, hb]
  rw [hsubp, ha1] at ha2
  simp only [Ref.cond_invert, Bool.false_eq_true, if_false] at ha2
  refine ⟨k1 + k2, s2, b, rest, hb, hbne, run_steps_add _ _ _ k1 k2 _ _ _ hrun1 hrun2, hw2,
    ha2, Frame.trans ⟨g1, g2, g3, g4, g5, g6, g7, g8⟩ hf2, ?_, ?_⟩
  · intro m hm1' hm2'
    obtain ⟨e1, e2⟩ := hun1 m hm1'
    obtain ⟨e3, e4⟩ := hun2 m (by simpa [subterms] using hm2')
    exact ⟨e3.trans e1, e4.trans e2⟩
  · intro m hm hnot
    by_cases hmp : m = .n0 ip
    · subst hmp
      have := hm2 _ (self_mem_subterms _)
      rw [g1] at this
      exact this
    · rcases hm with hm | hm
      · obtain ⟨e3, e4⟩ := hun2 m (by simpa [subterms] using hmp)
        exact Memo_congr env _ s1 s2 m e3 e4 (hm1 m hm hnot)
      · exact absurd hm hmp

theorem chain_reduces_inner (env : Ext) (L : BtorNode) :
    chain_ok env L = true → stable env L.ref = true → L.info.is_nested = true →
    L.info.is_first_nested = false → ChainReduces env L := by
  induction L with
  | n0 i => intro h; simp [chain_ok] at h
  | n1 i c0 v0 _ => intro h; simp [chain_ok] at h
  | n3 i c0 v0 c1 v1 c2 v2 _ _ _ => intro h; simp [chain_ok] at h
  | n2 i c0 v0 next v1 _ ih1 =>
    intro hok hst hnest hnfirst
    obtain ⟨i2, ip, next2, v12, hshape⟩ := chain_ok_shape env _ hok
    cases hshape
    obtain ⟨hk, hlb, -, hkp, hsp, hstp, hstn, hnl, hns⟩ := chain_ok_facts env i ip false next v1 hok
    simp only [info_n2] at hnest hnfirst
    simp only [stable, Bool.and_eq_true, decide_eq_true_eq] at hstp hstn hst
    intro s par w hw hbm hnf hpb hun hsl
    have hLne : ∀ m, (m ∈ subterms next ∨ m = .n0 ip) → BtorNode.n2 i (.n0 ip) false next v1 ≠ m := by
      intro m hm
      rcases hm with hm | hm
      · exact size_ne_of_child _ ⟨next, v1⟩ (by simp [BtorNode.e]) m hm
      · subst hm; intro h; cases h
    obtain ⟨hunL1, hunL2⟩ := hun _ (self_mem_subterms _)
    obtain ⟨b0, rest0, hb0, -, -⟩ := hpb (.n0 ip) (by simp [chain_params])
    have ihn : next.BTOR_IS_LAMBDA_NODE = true → ChainReduces env next := by
      intro hl
      obtain ⟨hv, a, b, c⟩ := hnl hl
      refine ih1 c ?_ a b
      rw [hv] at hstn
      simp only [stable, Bool.and_eq_true, decide_eq_true_eq]
      exact hstn
    -- first visit: mark, push the children
    have hstep1 := step_unmarked env BETA_RED_FULL 0 s _ _ par w hw hst.2 hunL1
      (by simp [opens_scope, BtorNode.BTOR_IS_NESTED_LAMBDA_NODE,
            BtorNode.BTOR_IS_FIRST_NESTED_LAMBDA, hnest, hnfirst])
    rw [expand_lambda_noassign env par _ i (.n0 ip) next v1 hk hlb
      (by simp [BtorNode.BTOR_IS_PARAM_NODE, hkp]) hstp.1 hstn.1
      (Or.inr (by simp [LoopState.record, hb0]))] at hstep1
    -- the children
    obtain ⟨k2, s2, b, rest, hb, hbne, hrun2, hw2, ha2, hf2, hun2, hm2⟩ :=
      lambda_children_run env i ip next v1 hok
        ihn
        { s with
          btor := { s.btor with log := Event.visit (BtorNode.n2 i (.n0 ip) false next v1) :: s.btor.log }
          work_stack := (⟨next, v1⟩, some (BtorNode.n2 i (.n0 ip) false next v1))
            :: ((BtorNode.n0 ip).ref, some (BtorNode.n2 i (.n0 ip) false next v1))
            :: ((BtorNode.n2 i (.n0 ip) false next v1).ref, par) :: w
          cur_scope := PtrHashTable.set
            (PtrHashTable.set s.cur_scope (BtorNode.n2 i (.n0 ip) false next v1) 0)
            (BtorNode.n2 i (.n0 ip) false next v1) 1 }
        (((BtorNode.n2 i (.n0 ip) false next v1).ref, par) :: w) rfl
        (by simpa [LoopState.record] using hbm)
        (by simpa [LoopState.record] using hnf)
        (by simpa [LoopState.record] using hpb)
        (by
          intro m hm
          have hne := hLne m hm
          have hmL : m ∈ subterms (BtorNode.n2 i (.n0 ip) false next v1) := by
            rcases hm with hm | hm
            · simp [subterms, hm]
            · simp [subterms, hm]
          obtain ⟨e1, e2⟩ := hun m hmL
          simp only [LoopState.record]
          rw [PtrHashTable.find_set_other _ _ _ _ hne, PtrHashTable.find_set_other _ _ _ _ hne]
          exact ⟨e1, e2⟩)
        (by
          intro l hl
          have := hsl l (by simpa [LoopState.record] using hl)
          refine ⟨this.1, fun hmem => this.2 ?_⟩
          simp only [subterms, List.mem_cons, List.mem_append]
          exact Or.inr (Or.inr hmem))
    obtain ⟨g1, g2, g3, g4, g5, g6, g7, g8⟩ := hf2
    simp only [LoopState.record] at g1 g2 g3 g4 g5 g6 g7 g8 ha2 hb
    have hLnot : BtorNode.n2 i (.n0 ip) false next v1 ∉ subterms next :=
      fun h => hLne _ (Or.inl h) rfl
    have hLp : BtorNode.n2 i (.n0 ip) false next v1 ≠ .n0 ip := fun h => by cases h
    obtain ⟨eL1, eL2⟩ := hun2 _ hLnot hLp
    simp only [LoopState.record, PtrHashTable.find_set_self] at eL1 eL2
    -- post-order visit
    have hstep3 := step_lambda_collect_inner env BETA_RED_FULL s2 i (.n0 ip) next v1 par w
      _ b s.arg_stack hw2 hst.2 hk hnest eL1 (eL2.trans hunL2) ha2 (Ne.symm hbne)
      (by rw [g3]; exact hbm _)
      (by
        rw [g7]
        intro h
        exact (hsl _ h).2 (self_mem_subterms _))
    refine ⟨1 + (k2 + 1), _, run_steps_add _ _ _ 1 (k2 + 1) _ _ _ (run_steps_one _ _ _ _ _ hstep1)
      (run_steps_add _ _ _ k2 1 _ _ _ hrun2 (run_steps_one _ _ _ _ _ hstep3)), rfl, rfl,
      ⟨g1, g2, g3, g4, g5, g6, g7, g8⟩, ?_, ?_⟩
    · intro m hm
      have hmL : BtorNode.n2 i (.n0 ip) false next v1 ≠ m := by
        intro h; subst h; exact hm (self_mem_subterms _)
      have hmn : m ∉ subterms next := by
        intro h; apply hm
        simp only [subterms, List.mem_cons, List.mem_append]
        exact Or.inr (Or.inr h)
      have hmp : m ≠ .n0 ip := by
        intro h; apply hm
        simp [subterms, h]
      obtain ⟨e1, e2⟩ := hun2 m hmn hmp
      simp only [LoopState.record] at e1 e2
      rw [PtrHashTable.find_set_other _ _ _ _ hmL, PtrHashTable.find_set_other _ _ _ _ hmL] at e1
      constructor
      · simp only []
        rw [PtrHashTable.find_set_other _ _ _ _ hmL]
        exact e1
      · simp only []
        split
        · rw [PtrHashTable.find_set_other _ _ _ _ hmL]; exact e2
        · exact e2
    · intro m hm hnot
      simp only [chain_lambdas, List.mem_cons, not_or] at hnot
      have hmL : BtorNode.n2 i (.n0 ip) false next v1 ≠ m := Ne.symm hnot.1
      have hm3 : m ∈ subterms next ∨ m = .n0 ip := by
        simp only [subterms, List.mem_cons, List.mem_append, List.not_mem_nil, or_false] at hm
        rcases hm with h | h | h
        · exact absurd h hnot.1
        · exact Or.inr h
        · exact Or.inl h
      have := hm2 m hm3 hnot.2
      simp only [LoopState.record] at this
      refine Memo_congr env _ s2 _ m ?_ ?_ this
      · simp only []
        rw [PtrHashTable.find_set_other _ _ _ _ hmL]
      · simp only []
        split
        · rw [PtrHashTable.find_set_other _ _ _ _ hmL]
        · rfl

theorem chain_ok_wf (env : Ext) (L : BtorNode) : chain_ok env L = true → chain_wf L = true := by
  induction L with
  | n0 i => intro h; simp [chain_ok] at h
  | n1 i c0 v0 _ => intro h; simp [chain_ok] at h
  | n3 i c0 v0 c1 v1 c2 v2 _ _ _ => intro h; simp [chain_ok] at h
  | n2 i c0 v0 next v1 _ ih1 =>
    intro hok
    obtain ⟨i2, ip, next2, v12, hshape⟩ := chain_ok_shape env _ hok
    cases hshape
    obtain ⟨hk, -, -, hkp, -, -, -, hnl, -⟩ := chain_ok_facts env i ip false next v1 hok
    simp only [chain_wf, hk, BtorNode.BTOR_IS_PARAM_NODE, kind_n0, hkp, beq_self_eq_true,
      Bool.not_false, Bool.and_self, Bool.true_and, Bool.and_eq_true]
    by_cases hl : next.BTOR_IS_LAMBDA_NODE = true
    · simp [hl, ih1 (hnl hl).2.2.2]
    · simp [hl]

/-- The run of the full reducer on the head of a chain whose parameters are
bound: the reduced innermost body is the only result, the scope of the head is
closed and the bindings of the chain are popped. -/
theorem chain_head_run (env : Ext) (btor : Btor) (L : BtorNode)
    (hok : chain_ok env L = true) (hst : stable env L.ref = true)
    (hopen : opens_scope L = true) (hLp : L.parameterized = false)
    (hbm : ∀ m, btor.beta_mark m = 0)
    (hnf : results_not_fun env btor.assigned_exp (chain_body L).node = true)
    (hpb : params_bound btor.assigned_exp (chain_params L)) :
    ∃ k s, run_steps env BETA_RED_FULL 0 k (beta_reduce_init btor L.ref) = some s ∧
      s.work_stack = [] ∧
      s.arg_stack = [chain_result env btor.assigned_exp L] ∧
      s.cur_scope_lambda = none ∧ s.scopes = [] ∧ s.scope_results = [] ∧
      s.scope_lambdas = [] ∧ s.unassign_stack = [] ∧
      s.btor.cache = btor.cache ∧
      s.btor.assigned_exp = unassigned btor.assigned_exp L ∧
      s.btor.beta_mark = btor.beta_mark := by
  have hwf := chain_ok_wf env L hok
  obtain ⟨i, ip, next, v1, hshape⟩ := chain_ok_shape env _ hok
  subst hshape
  obtain ⟨hk, hlb, -, hkp, hsp, hstp, hstn, hnl, hns⟩ := chain_ok_facts env i ip false next v1 hok
  simp only [stable, Bool.and_eq_true, decide_eq_true_eq] at hstp hstn hst
  have hLne : ∀ m, (m ∈ subterms next ∨ m = .n0 ip) → BtorNode.n2 i (.n0 ip) false next v1 ≠ m := by
    intro m hm
    rcases hm with hm | hm
    · exact size_ne_of_child _ ⟨next, v1⟩ (by simp [BtorNode.e]) m hm
    · subst hm; intro h; cases h
  have ihn : next.BTOR_IS_LAMBDA_NODE = true → ChainReduces env next := by
    intro hl
    obtain ⟨hv, a, b, c⟩ := hnl hl
    refine chain_reduces_inner env next c ?_ a b
    rw [hv] at hstn
    simp only [stable, Bool.and_eq_true, decide_eq_true_eq]
    exact hstn
  -- first visit: open the scope, mark, push the children
  have hstep1 := step_unmarked_open env BETA_RED_FULL 0 (beta_reduce_init btor
    (BtorNode.n2 i (.n0 ip) false next v1).ref) _ _ none [] rfl hst.2 rfl hopen
  rw [expand_lambda_noassign env none _ i (.n0 ip) next v1 hk hlb
    (by simp [BtorNode.BTOR_IS_PARAM_NODE, hkp]) hstp.1 hstn.1
    (Or.inl (by simp [LoopState.record, beta_reduce_init]))] at hstep1
  -- the children
  obtain ⟨k2, s2, b, rest, hb, hbne, hrun2, hw2, ha2, hf2, hun2, hm2⟩ :=
    lambda_children_run env i ip next v1 hok ihn
      { btor := { btor with log := Event.visit (BtorNode.n2 i (.n0 ip) false next v1) :: btor.log }
        work_stack := (⟨next, v1⟩, some (BtorNode.n2 i (.n0 ip) false next v1))
          :: ((BtorNode.n0 ip).ref, some (BtorNode.n2 i (.n0 ip) false next v1))
          :: [((BtorNode.n2 i (.n0 ip) false next v1).ref, none)]
        arg_stack := []
        cur_scope := PtrHashTable.set [(BtorNode.n2 i (.n0 ip) false next v1, 0)]
          (BtorNode.n2 i (.n0 ip) false next v1) 1
        cur_scope_results := []
        cur_scope_lambda := some (BtorNode.n2 i (.n0 ip) false next v1)
        scopes := [[]]
        scope_results := [[]]
        scope_lambdas := [none]
        unassign_stack := [] }
      [((BtorNode.n2 i (.n0 ip) false next v1).ref, none)] rfl
      hbm hnf hpb
      (by
        intro m hm
        have hne := hLne m hm
        simp only []
        rw [PtrHashTable.find_set_other _ _ _ _ hne]
        simp [PtrHashTable.find, hne])
      (by
        intro l hl
        simp only [Option.some.injEq] at hl
        subst hl
        exact ⟨by simp [BtorNode.BTOR_IS_LAMBDA_NODE, hk], fun h => hLne _ (Or.inl h) rfl⟩)
  obtain ⟨g1, g2, g3, g4, g5, g6, g7, g8⟩ := hf2
  simp only [] at g1 g2 g3 g4 g5 g6 g7 g8 ha2 hb
  have hLnot : BtorNode.n2 i (.n0 ip) false next v1 ∉ subterms next :=
    fun h => hLne _ (Or.inl h) rfl
  have hLp2 : BtorNode.n2 i (.n0 ip) false next v1 ≠ .n0 ip := fun h => by cases h
  obtain ⟨eL1, -⟩ := hun2 _ hLnot hLp2
  simp only [PtrHashTable.find_set_self] at eL1
  -- post-order visit: close the scope
  have hstep3 := step_lambda_collect env BETA_RED_FULL s2 (BtorNode.n2 i (.n0 ip) false next v1)
    none [] _ b [] [] [] [] [] none [] hw2 hst.2 hwf hLp eL1 ha2
    (by
      simp only [BtorNode.e, List.head?_cons, ne_eq, Option.some.injEq]
      exact Ne.symm hbne)
    (by rw [g3]; exact hbm _)
    g7 g4 g5 g6
  refine ⟨1 + (k2 + 1), _, run_steps_add _ _ _ 1 (k2 + 1) _ _ _ (run_steps_one _ _ _ _ _ hstep1)
    (run_steps_add _ _ _ k2 1 _ _ _ hrun2 (run_steps_one _ _ _ _ _ hstep3)), rfl, rfl,
    rfl, rfl, rfl, rfl, ?_, ?_, ?_, ?_⟩
  · simp [g8]
  · simpa using g2
  · simp only []; rw [g1]
  · simpa using g3

/-! ## Binding and unbinding the arguments of a chain -/

theorem bind_args_not_mem (ps : List BtorNode) :
    ∀ (as : List Ref) (q : BtorNode), q ∉ ps → bind_args ps as q = [] := by
  induction ps with
  | nil => intro as q _; cases as <;> rfl
  | cons p ps ih =>
    intro as q hq
    cases as with
    | nil => rfl
    | cons a as =>
      simp only [List.mem_cons, not_or] at hq
      simp only [bind_args, hq.1, if_false]
      exact ih as q hq.2

theorem bind_args_mem (ps : List BtorNode) :
    ∀ (as : List Ref) (q : BtorNode), ps.length = as.length → q ∈ ps →
      ∃ a, a ∈ as ∧ bind_args ps as q = [a] := by
  induction ps with
  | nil => intro as q _ hq; simp at hq
  | cons p ps ih =>
    intro as q hlen hq
    cases as with
    | nil => simp at hlen
    | cons a as =>
      by_cases hqp : q = p
      · exact ⟨a, by simp, by simp [bind_args, hqp]⟩
      · simp only [List.mem_cons, hqp, false_or] at hq
        obtain ⟨a2, h1, h2⟩ := ih as q (by simpa using hlen) hq
        exact ⟨a2, by simp [h1], by simp [bind_args, hqp, h2]⟩

theorem chain_lambdas_shape (env : Ext) (L : BtorNode) :
    chain_ok env L = true → ∀ l, l ∈ chain_lambdas L →
      ∃ i ip next v1, l = .n2 i (.n0 ip) false next v1 ∧ i.kind = .lambda ∧ ip.kind = .param ∧
        BtorNode.n0 ip ∈ chain_params L := by
  induction L with
  | n0 i => intro h; simp [chain_ok] at h
  | n1 i c0 v0 _ => intro h; simp [chain_ok] at h
  | n3 i c0 v0 c1 v1 c2 v2 _ _ _ => intro h; simp [chain_ok] at h
  | n2 i c0 v0 next v1 _ ih1 =>
    intro hok l hl
    obtain ⟨i2, ip, next2, v12, hshape⟩ := chain_ok_shape env _ hok
    cases hshape
    obtain ⟨hk, -, -, hkp, -, -, -, hnl, -⟩ := chain_ok_facts env i ip false next v1 hok
    simp only [chain_lambdas, List.mem_cons] at hl
    rcases hl with hl | hl
    · exact ⟨i, ip, next, v1, hl, hk, hkp, by simp [chain_params]⟩
    · by_cases hlam : next.BTOR_IS_LAMBDA_NODE = true
      · simp only [hlam, if_true] at hl
        obtain ⟨i3, ip3, n3, v3, e1, e2, e3, e4⟩ := ih1 (hnl hlam).2.2.2 l hl
        exact ⟨i3, ip3, n3, v3, e1, e2, e3, by simp [chain_params, hlam, e4]⟩
      · simp [hlam] at hl

theorem assign_chain (env : Ext) (L : BtorNode) :
    ∀ (args : List Ref) (btor : Btor) (un : List BtorNode),
      chain_ok env L = true →
      List.Forall₂ (fun a p => a.node.len = p.len) args (chain_params L) →
      (chain_params L).Nodup →
      (∀ p, p ∈ chain_params L → btor.assigned_exp p = []) →
      ∃ btor1 un1, apply_and_reduce_assign btor L.ref un args = some (btor1, un1) ∧
        btor1.cache = btor.cache ∧ btor1.beta_mark = btor.beta_mark ∧
        (∀ q, btor1.assigned_exp q =
          if q ∈ chain_params L then bind_args (chain_params L) args q
          else btor.assigned_exp q) ∧
        (∀ l, l ∈ un1 → l ∈ un ∨ l ∈ chain_lambdas L) := by
  induction L with
  | n0 i => intro _ _ _ h; simp [chain_ok] at h
  | n1 i c0 v0 _ => intro _ _ _ h; simp [chain_ok] at h
  | n3 i c0 v0 c1 v1 c2 v2 _ _ _ => intro _ _ _ h; simp [chain_ok] at h
  | n2 i c0 v0 next v1 _ ih1 =>
    intro args btor un hok hall hnd hunb
    obtain ⟨i2, ip, next2, v12, hshape⟩ := chain_ok_shape env _ hok
    cases hshape
    obtain ⟨hk, -, -, hkp, -, -, -, hnl, -⟩ := chain_ok_facts env i ip false next v1 hok
    have hlam : (BtorNode.n2 i (.n0 ip) false next v1).BTOR_IS_LAMBDA_NODE = true := by
      simp [BtorNode.BTOR_IS_LAMBDA_NODE, hk]
    cases args with
    | nil => simp [chain_params] at hall
    | cons a rest =>
      simp only [chain_params, List.forall₂_cons] at hall
      obtain ⟨hlen, hall2⟩ := hall
      have hp0 := hunb (.n0 ip) (by simp [chain_params])
      have hassign : btor_assign_param btor (BtorNode.n2 i (.n0 ip) false next v1).ref a =
          some { btor with
            assigned_exp := Function.update btor.assigned_exp (.n0 ip) [a]
            log := Event.assign (.n0 ip) a :: btor.log } := by
        simp [btor_assign_param, Ref.regular, hlam, BtorNode.e, BtorNode.ref, hlen, hp0]
      unfold apply_and_reduce_assign
      simp only [ref_regular, ref_node, hlam, Bool.and_self, Bool.not_true, Bool.false_eq_true,
        if_false, hassign]
      simp only [BtorNode.e, List.get?]
      by_cases hl : next.BTOR_IS_LAMBDA_NODE = true
      · simp only [chain_params, hl, if_true, List.nodup_cons] at hnd hall2
        obtain ⟨btor1, un1, h1, h2, h3, h4, h5⟩ := ih1 rest
          { btor with
            assigned_exp := Function.update btor.assigned_exp (.n0 ip) [a]
            log := Event.assign (.n0 ip) a :: btor.log }
          (BtorNode.n2 i (.n0 ip) false next v1 :: un) (hnl hl).2.2.2 hall2 hnd.2
          (by
            intro p hp
            have hne : p ≠ .n0 ip := by
              intro h; subst h; exact hnd.1 hp
            simp only [Function.update_noteq hne]
            exact hunb p (by simp [chain_params, hl, hp]))
        refine ⟨btor1, un1, h1, h2, h3, ?_, ?_⟩
        · intro q
          rw [h4 q]
          simp only [chain_params, hl, if_true, List.mem_cons]
          by_cases hq : q = .n0 ip
          · subst hq
            simp [hnd.1, bind_args]
          · simp [hq, bind_args, Function.update_noteq hq]
        · intro l hl2
          rcases h5 l hl2 with h | h
          · simp only [List.mem_cons] at h
            rcases h with h | h
            · exact Or.inr (by simp [chain_lambdas, h])
            · exact Or.inl h
          · exact Or.inr (by simp [chain_lambdas, hl, h])
      · simp only [chain_params, hl, if_false] at hall2
        cases hall2
        refine ⟨_, _, rfl, rfl, rfl, ?_, ?_⟩
        · intro q
          simp only [chain_params, hl, if_false, List.mem_singleton]
          by_cases hq : q = .n0 ip
          · subst hq; simp [bind_args]
          · simp [hq, Function.update_noteq hq]
        · intro l hl2
          simp only [List.mem_cons] at hl2
          rcases hl2 with h | h
          · exact Or.inr (by simp [chain_lambdas, h])
          · exact Or.inl h

theorem unassign_chain (env : Ext) (L : BtorNode) :
    ∀ (σ : BtorNode → List Ref), chain_ok env L = true → (chain_params L).Nodup →
      (∀ p, p ∈ chain_params L → ∃ a, σ p = [a]) →
      ∀ q, unassigned σ L q = if q ∈ chain_params L then [] else σ q := by
  induction L with
  | n0 i => intro _ h; simp [chain_ok] at h
  | n1 i c0 v0 _ => intro _ h; simp [chain_ok] at h
  | n3 i c0 v0 c1 v1 c2 v2 _ _ _ => intro _ h; simp [chain_ok] at h
  | n2 i c0 v0 next v1 _ ih1 =>
    intro σ hok hnd hb q
    obtain ⟨i2, ip, next2, v12, hshape⟩ := chain_ok_shape env _ hok
    cases hshape
    obtain ⟨hk, -, -, hkp, -, -, -, hnl, -⟩ := chain_ok_facts env i ip false next v1 hok
    obtain ⟨a, ha⟩ := hb (.n0 ip) (by simp [chain_params])
    unfold unassigned btor_unassign_params_loop
    simp only [ha, List.isEmpty_cons, Bool.false_eq_true, if_false, List.tail_cons]
    by_cases hl : next.BTOR_IS_LAMBDA_NODE = true
    · simp only [hl, if_true, chain_params, List.mem_cons, List.nodup_cons] at hnd ⊢
      obtain ⟨σ2, hσ2⟩ := unassign_loop_total next (chain_ok_wf env next (hnl hl).2.2.2)
        (Function.update σ (.n0 ip) [])
      have ih := ih1 (Function.update σ (.n0 ip) []) (hnl hl).2.2.2 hnd.2
        (by
          intro p hp
          have hne : p ≠ .n0 ip := by
            intro h; subst h; exact hnd.1 hp
          rw [Function.update_noteq hne]
          exact hb p (by simp [chain_params, hl, hp]))
        q
      unfold unassigned at ih
      rw [hσ2] at ih ⊢
      simp only [Option.getD_some] at ih ⊢
      rw [ih]
      by_cases hq : q = .n0 ip
      · subst hq; simp [hnd.1]
      · simp [hq, Function.update_noteq hq]
    · simp only [hl, Bool.false_eq_true, if_false, Option.getD_some, chain_params,
        List.mem_singleton]
      by_cases hq : q = .n0 ip
      · subst hq; simp
      · simp [hq, Function.update_noteq hq]

theorem unassign_noop (env : Ext) (L : BtorNode) (hok : chain_ok env L = true) :
    ∀ (un : List BtorNode) (btor : Btor), (∀ l, l ∈ un → l ∈ chain_lambdas L) →
      (∀ p, p ∈ chain_params L → btor.assigned_exp p = []) →
      apply_and_reduce_unassign btor un = some btor := by
  intro un
  induction un with
  | nil => intro btor _ _; rfl
  | cons l un ih =>
    intro btor hun hunb
    obtain ⟨i, ip, next, v1, e1, e2, e3, e4⟩ :=
      chain_lambdas_shape env L hok l (hun l (by simp))
    subst e1
    have h1 : btor_unassign_params btor (BtorNode.n2 i (.n0 ip) false next v1).ref = some btor := by
      simp [btor_unassign_params, Ref.regular, BtorNode.BTOR_IS_LAMBDA_NODE, e2, BtorNode.e,
        BtorNode.ref, BtorNode.BTOR_IS_PARAM_NODE, e3, btor_unassign_params_loop, hunb _ e4]
    unfold apply_and_reduce_unassign
    rw [h1]
    exact ih btor (fun l2 hl2 => hun l2 (by simp [hl2])) hunb

/-! ## The second run: the result comes from the cache -/

/-- The first visit of a lambda under an apply when the cache holds a result
for the lambda and the args node on top of the argument stack: the scope of
the lambda is opened and closed again, the cached result is pushed, nothing
is bound and no child is pushed. -/
theorem step_lambda_cached (env : Ext) (s : LoopState) (iL ip : NodeInfo)
    (body : BtorNode) (vb : Bool) (par : BtorNode) (w : List (Ref × Option BtorNode))
    (A r : Ref) (rest : List Ref) (cache : PtrHashTable (Ref × Ref) Ref)
    (hw : s.work_stack = ((BtorNode.n2 iL (.n0 ip) false body vb).ref, some par) :: w)
    (hsL : env.simplify (BtorNode.n2 iL (.n0 ip) false body vb).ref
      = (BtorNode.n2 iL (.n0 ip) false body vb).ref)
    (hsp : env.simplify (BtorNode.n0 ip).ref = (BtorNode.n0 ip).ref)
    (hkL : iL.kind = .lambda) (hLp : iL.parameterized = false) (hLn : iL.is_nested = false)
    (hLlb : iL.lambda_below = true) (hkp : ip.kind = .param)
    (hpar : par.BTOR_IS_APPLY_NODE = true)
    (hfirst : PtrHashTable.find s.cur_scope (BtorNode.n2 iL (.n0 ip) false body vb) = none)
    (harg : s.arg_stack = A :: rest)
    (hkA : A.node.BTOR_IS_ARGS_NODE = true)
    (hunb : s.btor.assigned_exp (.n0 ip) = [])
    (hus : s.unassign_stack = [])
    (hcache : s.btor.cache = some cache)
    (hhit : PtrHashTable.find cache ((BtorNode.n2 iL (.n0 ip) false body vb).ref, A) = some r) :
    beta_reduce_step env BETA_RED_FULL 0 s =
      some { s with
        btor := { s.btor with
          log := Event.visit (BtorNode.n2 iL (.n0 ip) false body vb) :: s.btor.log }
        work_stack := w
        arg_stack := r :: A :: rest } := by
  have hlam : (BtorNode.n2 iL (.n0 ip) false body vb).BTOR_IS_LAMBDA_NODE = true := by
    simp [BtorNode.BTOR_IS_LAMBDA_NODE, hkL]
  have hnapp : (BtorNode.n2 iL (.n0 ip) false body vb).BTOR_IS_APPLY_NODE = false := by
    simp [BtorNode.BTOR_IS_APPLY_NODE, hkL]
  have hnpar : (BtorNode.n2 iL (.n0 ip) false body vb).BTOR_IS_PARAM_NODE = false := by
    simp [BtorNode.BTOR_IS_PARAM_NODE, hkL]
  have hpL : BtorNode.n0 ip ≠ BtorNode.n2 iL (.n0 ip) false body vb := by
    intro h; cases h
  have hcL : simplify_cur env (BtorNode.n2 iL (.n0 ip) false body vb).ref
      = (BtorNode.n2 iL (.n0 ip) false body vb).ref := by
    rw [simplify_cur_of_not_apply env _ (by simpa using hnapp)]; exact hsL
  rw [step_unmarked_open env BETA_RED_FULL 0 s (BtorNode.n2 iL (.n0 ip) false body vb).ref
    (BtorNode.n2 iL (.n0 ip) false body vb).ref (some par) w hw hcL hfirst
    (by simp [opens_scope, hlam, BtorNode.parameterized, hLp,
      BtorNode.BTOR_IS_NESTED_LAMBDA_NODE, hLn])]
  unfold expand
  simp only [ref_node, hlam, Bool.or_true, Bool.not_true, Bool.false_eq_true, if_false,
    BETA_RED_FULL, BETA_RED_LAMBDA_CHAINS, BtorNode.lambda_below, info_n2, hLlb,
    BtorNode.parameterized, hLp, hnpar, Bool.false_and, Bool.and_false,
    gt_iff_lt, lt_self_iff_false, decide_False]
  have hsp2 : env.simplify ⟨BtorNode.n0 ip, false⟩ = ⟨BtorNode.n0 ip, false⟩ := hsp
  have hhit2 : PtrHashTable.find cache
      ((⟨BtorNode.n2 iL (.n0 ip) false body vb, false⟩ : Ref), A) = some r := hhit
  simp only [assign_lambda, hlam, LoopState.record, harg, BtorNode.e, List.map, hsp,
    btor_param_cur_assignment, hunb, hpar, hcache, cached_beta_result, hhit, hkA,
    BtorNode.BTOR_IS_PARAM_NODE, kind_n0, hkp,
    ref_node, ref_regular, ref_inv, Ref.regular, PtrHashTable.set, PtrHashTable.find]
  simp [hpL, BtorNode.ref, Ref.regular, BtorNode.BTOR_IS_LAMBDA_NODE, hkL, hsp2, hkp,
    hunb, hpar, hcache, hhit2, hkA, Ne.symm hpL, push_arg_stack, PtrHashTable.find,
    BtorNode.parameterized, hLp, BETA_REDUCE_CLOSE_SCOPE, unassign_params_label, hus,
    BtorNode.e, btor_param_cur_assignment, BtorNode.BTOR_IS_PARAM_NODE,
    push_arg_stack_without_close_scope, Ref.cond_invert]

/-- The run of the full reducer on `apply (L, A)` when the cache holds a
value for `(L, A)`: four visits (the apply, `A`, `L`, the apply), the cached
value is the result, nothing is bound and no constructor is called. -/
theorem full_cached_run (env : Ext) (btor : Btor) (iapp iL ip : NodeInfo)
    (body A : BtorNode) (vb : Bool) (cache : PtrHashTable (Ref × Ref) Ref) (r : Ref)
    (hkapp : iapp.kind = .apply) (hlbapp : iapp.lambda_below = true)
    (hkL : iL.kind = .lambda) (hLp : iL.parameterized = false) (hLn : iL.is_nested = false)
    (hLlb : iL.lambda_below = true) (hkp : ip.kind = .param)
    (hkA : A.kind = .args) (hAlb : A.lambda_below = false) (hAp : A.parameterized = false)
    (hs1 : simplify_cur env
      (BtorNode.n2 iapp (.n2 iL (.n0 ip) false body vb) false A false).ref
      = (BtorNode.n2 iapp (.n2 iL (.n0 ip) false body vb) false A false).ref)
    (hs2 : env.simplify (BtorNode.n2 iL (.n0 ip) false body vb).ref
      = (BtorNode.n2 iL (.n0 ip) false body vb).ref)
    (hs3 : env.simplify A.ref = A.ref)
    (hs4 : env.simplify (BtorNode.n0 ip).ref = (BtorNode.n0 ip).ref)
    (hbm : ∀ m, btor.beta_mark m = 0)
    (hunb : btor.assigned_exp (.n0 ip) = [])
    (hcache : btor.cache = some cache)
    (hhit : PtrHashTable.find cache ((BtorNode.n2 iL (.n0 ip) false body vb).ref, A.ref) = some r)
    (hrf : r.node.BTOR_IS_FUN_NODE = false) (hra : r.node.BTOR_IS_ARRAY_NODE = false) :
    ∃ s, run_steps env BETA_RED_FULL 0 4 (beta_reduce_init btor
        (BtorNode.n2 iapp (.n2 iL (.n0 ip) false body vb) false A false).ref) = some s ∧
      s.work_stack = [] ∧ s.arg_stack = [r] ∧
      s.cur_scope_lambda = none ∧ s.scopes = [] ∧ s.scope_results = [] ∧
      s.scope_lambdas = [] ∧ s.unassign_stack = [] ∧
      s.btor.cache = btor.cache ∧ s.btor.assigned_exp = btor.assigned_exp ∧
      s.btor.beta_mark = btor.beta_mark ∧
      s.btor.log =
        Event.visit (BtorNode.n2 iapp (.n2 iL (.n0 ip) false body vb) false A false)
          :: Event.visit (.n2 iL (.n0 ip) false body vb) :: Event.visit A
          :: Event.visit (BtorNode.n2 iapp (.n2 iL (.n0 ip) false body vb) false A false)
          :: btor.log := by
  generalize hLdef : BtorNode.n2 iL (.n0 ip) false body vb = L at *
  generalize happdef : BtorNode.n2 iapp L false A false = app at *
  have hLk : L.kind = .lambda := by rw [← hLdef]; simpa using hkL
  have happk : app.kind = .apply := by rw [← happdef]; simpa using hkapp
  have hLlam : L.BTOR_IS_LAMBDA_NODE = true := by simp [BtorNode.BTOR_IS_LAMBDA_NODE, hLk]
  have hLpar : L.parameterized = false := by rw [← hLdef]; simpa [BtorNode.parameterized] using hLp
  have hLA : L ≠ A := ne_of_kind (by rw [hLk, hkA]; decide)
  have hAapp : A ≠ app := ne_of_kind (by rw [hkA, happk]; decide)
  have hLapp : L ≠ app := ne_of_kind (by rw [hLk, happk]; decide)
  have hrun2 := run_apply_prefix env BETA_RED_FULL 0 btor iapp L A hkapp hlbapp (by decide)
    (by rw [happdef]; exact hAapp) (by simp [BtorNode.BTOR_IS_LAMBDA_NODE, hkA])
    (by simp [BtorNode.BTOR_IS_APPLY_NODE, hkA]) hAlb hAp
    (by rw [happdef]; exact hs1) hs2 hs3 hbm
  rw [happdef] at hrun2
  have hstep3 := step_lambda_cached env
    { beta_reduce_init btor app.ref with
      btor := { btor with log := Event.visit A :: Event.visit app :: btor.log }
      work_stack := [(L.ref, some app), (app.ref, none)]
      arg_stack := [A.ref]
      cur_scope := [(app, 1), (A, 2)] }
    iL ip body vb app [(app.ref, none)] A.ref r [] cache
    (by rw [hLdef]) (by rw [hLdef]; exact hs2) hs4 hkL hLp hLn hLlb hkp
    (by simp [BtorNode.BTOR_IS_APPLY_NODE, happk])
    (by rw [hLdef]; simp [PtrHashTable.find, Ne.symm hLapp, Ne.symm hLA])
    rfl (by simp [BtorNode.BTOR_IS_ARGS_NODE, hkA]) hunb rfl hcache
    (by rw [hLdef]; exact hhit)
  rw [hLdef] at hstep3
  simp only [beta_reduce_init] at hstep3
  have hstep4 := step_apply_collect env
    { btor := { btor with
        log := Event.visit L :: Event.visit A :: Event.visit app :: btor.log }
      work_stack := [(app.ref, none)]
      arg_stack := [r, A.ref]
      cur_scope := [(app, 1), (A, 2)]
      cur_scope_results := []
      cur_scope_lambda := none
      scopes := []
      scope_results := []
      scope_lambdas := []
      unassign_stack := [] }
    iapp L A [] r A.ref [] cache
    (by rw [happdef]) (by rw [happdef]; exact hs1) hs2 hs3 hkapp hLlam hLpar
    (by rw [happdef]; simp [PtrHashTable.find])
    (by simp [PtrHashTable.find]) (by simp) rfl hrf hra hcache
    (Or.inr hhit)
  rw [happdef] at hstep4
  simp only [hhit] at hstep4
  refine ⟨_, run_steps_add _ _ _ 2 2 _ _ _ hrun2
    (run_steps_add _ _ _ 1 1 _ _ _ (run_steps_one _ _ _ _ _ hstep3)
      (run_steps_one _ _ _ _ _ hstep4)), rfl, rfl, rfl, rfl, rfl, rfl, rfl, ?_, rfl, rfl, rfl⟩
  simp [hcache]

/-! ## The partial reducer: frame of the binding operations -/

theorem keeps_refl (b : Btor) : Keeps b b :=
  ⟨rfl, rfl, rfl, [], rfl, by simp⟩

theorem keeps_trans {b b1 b2 : Btor} (h1 : Keeps b b1) (h2 : Keeps b1 b2) : Keeps b b2 := by
  obtain ⟨a1, a2, a3, ev1, a4, a5⟩ := h1
  obtain ⟨c1, c2, c3, ev2, c4, c5⟩ := h2
  refine ⟨c1.trans a1, c2.trans a2, c3.trans a3, ev2 ++ ev1, ?_, ?_⟩
  · rw [c4, a4, List.append_assoc]
  · intro k lv hmem
    rcases List.mem_append.mp hmem with h | h
    · exact c5 k lv h
    · exact a5 k lv h

theorem assign_param_keeps (btor btor1 : Btor) (lambda arg : Ref)
    (h : btor_assign_param btor lambda arg = some btor1) : Keeps btor btor1 := by
  unfold btor_assign_param at h
  split at h
  · cases h
  · split at h
    · cases h
    · split at h
      · cases h
      · split at h
        · cases h
        · cases h
          exact ⟨rfl, rfl, rfl, [_], rfl, by simp⟩

theorem assign_args_loop_keeps (args : List Ref) :
    ∀ (btor btor1 : Btor) (cur : BtorNode),
      btor_assign_args_loop btor cur args = some btor1 → Keeps btor btor1 := by
  induction args with
  | nil =>
    intro btor btor1 cur h
    simp [btor_assign_args_loop] at h
    rw [h]
    exact keeps_refl _
  | cons a rest ih =>
    intro btor btor1 cur h
    unfold btor_assign_args_loop at h
    split at h
    · cases h
    · split at h
      · rename_i b1 body h1 h2
        exact keeps_trans (assign_param_keeps _ _ _ _ h1) (ih _ _ _ h)
      · cases h
      · cases h

theorem assign_args_keeps (btor btor1 : Btor) (func args : Ref)
    (h : btor_assign_args btor func args = some btor1) : Keeps btor btor1 := by
  unfold btor_assign_args at h
  split at h
  · cases h
  · exact assign_args_loop_keeps _ _ _ _ h

theorem unassign_params_keeps (btor btor1 : Btor) (lambda : Ref)
    (h : btor_unassign_params btor lambda = some btor1) : Keeps btor btor1 := by
  unfold btor_unassign_params at h
  split at h
  · cases h
  · split at h
    · cases h
    · split at h
      · cases h
      · split at h
        · cases h
        · cases h
          exact ⟨rfl, rfl, rfl, [], rfl, by simp⟩

/-! ## The partial reducer: frame of a step -/

theorem callsAt_refl (lv : Int) (b : Btor) : CallsAt lv b b := ⟨[], rfl, by simp⟩

theorem callsAt_trans {lv : Int} {b b1 b2 : Btor} (h1 : CallsAt lv b b1) (h2 : CallsAt lv b1 b2) :
    CallsAt lv b b2 := by
  obtain ⟨ev1, a1, a2⟩ := h1
  obtain ⟨ev2, c1, c2⟩ := h2
  refine ⟨ev2 ++ ev1, by rw [c1, a1, List.append_assoc], ?_⟩
  intro k l hmem
  rcases List.mem_append.mp hmem with h | h
  · exact c2 k l h
  · exact a2 k l h

theorem callsAt_of_keeps (lv : Int) {b b1 : Btor} (h : Keeps b b1) : CallsAt lv b b1 := by
  obtain ⟨-, -, -, evs, h1, h2⟩ := h
  exact ⟨evs, h1, fun k l hm => absurd hm (h2 k l)⟩

theorem tableKept_refl (t : Option (PtrHashTable BtorParamCacheTuple Ref)) : TableKept t t := by
  cases t with
  | none => trivial
  | some tb => intro key v h; exact h

theorem tableKept_trans {t t1 t2 : Option (PtrHashTable BtorParamCacheTuple Ref)}
    (h1 : TableKept t t1) (h2 : TableKept t1 t2) : TableKept t t2 := by
  cases t <;> cases t1 <;> cases t2 <;> simp_all [TableKept]

theorem collect_selector_kept (btor : Btor) (e0 : Ref)
    (sel : Option (PtrHashTable BtorParamCacheTuple Ref)) :
    TableKept sel (collect_selector btor e0 sel) := by
  cases sel with
  | none => simp [collect_selector, TableKept]
  | some t =>
    simp only [collect_selector]
    split
    · exact tableKept_refl _
    · rename_i habs
      intro key v hfind
      have hne : btor_new_param_cache_tuple btor e0.node ≠ key := by
        intro h
        rw [h, hfind] at habs
        simp at habs
      rw [PtrHashTable.find_set_other _ _ _ _ hne]
      exact hfind

theorem partialFrame_refl (s : PartialState) : PartialFrame s s :=
  ⟨rfl, callsAt_refl _ _, tableKept_refl _, tableKept_refl _⟩

theorem partialFrame_trans {s s1 s2 : PartialState} (h1 : PartialFrame s s1)
    (h2 : PartialFrame s1 s2) : PartialFrame s s2 := by
  obtain ⟨a1, a2, a3, a4⟩ := h1
  obtain ⟨c1, c2, c3, c4⟩ := h2
  rw [a1] at c2
  exact ⟨c1.trans a1, callsAt_trans a2 c2, tableKept_trans a3 c3, tableKept_trans a4 c4⟩

/-- A step that changes the solver state by binding operations only. -/
theorem partialFrame_of_keeps (s s1 : PartialState) (h : Keeps s.btor s1.btor)
    (h1 : s1.cond_sel1 = s.cond_sel1) (h2 : s1.cond_sel2 = s.cond_sel2) : PartialFrame s s1 :=
  ⟨h.2.1, callsAt_of_keeps _ h, by rw [h1]; exact tableKept_refl _,
    by rw [h2]; exact tableKept_refl _⟩

theorem partial_cond_frame (env : Ext) (cur : Ref) (s s1 : PartialState)
    (h : partial_cond env cur s = some (some s1)) : PartialFrame s s1 := by
  unfold partial_cond at h
  simp only at h
  split at h
  · split at h
    · cases h
    · split at h
      · cases h
      · split at h
        · cases h
          exact ⟨rfl, callsAt_refl _ _, collect_selector_kept _ _ _, tableKept_refl _⟩
        · split at h
          · cases h
            exact ⟨rfl, callsAt_refl _ _, tableKept_refl _, collect_selector_kept _ _ _⟩
          · cases h
  · cases h

theorem partial_assign_keeps (real_cur : BtorNode) (cur_parent : Option BtorNode)
    (s s1 : PartialState) (h : partial_assign real_cur cur_parent s = some s1) :
    Keeps s.btor s1.btor ∧ s1 = { s with btor := s1.btor } := by
  unfold partial_assign at h
  split at h
  · split at h
    · split at h
      · cases h
      · cases h; exact ⟨keeps_refl _, rfl⟩
      · split at h
        · cases h
        · split at h
          · cases h
          · rename_i b1 hb1
            cases h
            exact ⟨assign_args_keeps _ _ _ _ hb1, rfl⟩
    · cases h
  · cases h; exact ⟨keeps_refl _, rfl⟩

theorem partial_expand_frame (cur : Ref) (cur_parent : Option BtorNode) (s : PartialState) :
    PartialFrame s (partial_expand cur cur_parent s) :=
  ⟨rfl, callsAt_refl _ _, tableKept_refl _, tableKept_refl _⟩

theorem partial_start_frame (env : Ext) (cur : Ref) (cur_parent : Option BtorNode)
    (s s1 : PartialState) (h : partial_start env cur cur_parent s = some s1) :
    PartialFrame s s1 := by
  unfold partial_start at h
  simp only at h
  split at h
  · split at h
    · cases h
    · cases h; exact partialFrame_refl _
  · split at h
    · split at h
      · cases h; exact partialFrame_refl _
      · cases h
    · split at h
      · split at h
        · cases h
        · rename_i s2 hs2
          cases h
          exact partial_cond_frame env cur s _ hs2
        · cases h
          exact partial_expand_frame _ _ _
      · split at h
        · cases h
        · rename_i s2 hs2
          cases h
          obtain ⟨hk, heq⟩ := partial_assign_keeps _ _ _ _ hs2
          refine partialFrame_trans (partialFrame_of_keeps s s2 hk ?_ ?_)
            (partial_expand_frame _ _ _)
          · rw [heq]
          · rw [heq]

theorem partial_switch_state (env : Ext) (real_cur : BtorNode) (e : List Ref)
    (ps : List BtorNode) (s s2 : PartialState) (r : Ref) (o : BtorNode)
    (h : partial_switch env real_cur e ps s = some (r, o, s2)) :
    s2 = s ∨ ∃ k, s2 = s.record (.rewrite k s.btor.rewrite_level) := by
  unfold partial_switch at h
  split at h <;> try (simp only [partial_call] at h; cases h; exact Or.inr ⟨_, rfl⟩)
  · split at h
    · simp only [partial_call] at h; cases h; exact Or.inr ⟨_, rfl⟩
    · split at h
      · cases h; exact Or.inl rfl
      · cases h
  · split at h
    · cases h
    · split at h
      · cases h; exact Or.inl rfl
      · cases h
  · cases h

theorem partial_switch_frame (env : Ext) (real_cur : BtorNode) (e : List Ref)
    (ps : List BtorNode) (s s2 : PartialState) (r : Ref) (o : BtorNode)
    (h : partial_switch env real_cur e ps s = some (r, o, s2)) : PartialFrame s s2 := by
  rcases partial_switch_state env real_cur e ps s s2 r o h with h1 | ⟨k, h1⟩
  · rw [h1]; exact partialFrame_refl _
  · rw [h1]
    refine ⟨rfl, ⟨[Event.rewrite k s.btor.rewrite_level], rfl, ?_⟩, tableKept_refl _,
      tableKept_refl _⟩
    intro k2 l hmem
    simp only [List.mem_singleton, Event.rewrite.injEq] at hmem
    exact hmem.2

theorem partial_rebuild_frame (env : Ext) (cur : Ref) (s s1 : PartialState)
    (h : partial_rebuild env cur s = some s1) : PartialFrame s s1 := by
  unfold partial_rebuild at h
  simp only at h
  split at h
  · cases h
  · split at h
    · cases h
    · split at h
      · cases h
      · split at h
        · cases h
        · rename_i result origin s2 hsw
          have hf2 := partial_switch_frame _ _ _ _ _ _ _ _ hsw
          split at h
          · cases h
          · split at h
            · cases h
            · rename_i s4 hs4
              cases h
              have hf3 : PartialFrame s s2 := ⟨hf2.1, hf2.2.1, hf2.2.2.1, hf2.2.2.2⟩
              refine partialFrame_trans hf3 ?_
              split at hs4
              · split at hs4
                · cases hs4
                · rename_i b1 hb1
                  cases hs4
                  exact partialFrame_of_keeps _ _ (unassign_params_keeps _ _ _ hb1) rfl rfl
              · cases hs4
                exact partialFrame_refl _

theorem partial_revisit_tuple_keeps (real_cur : BtorNode) (s s1 : PartialState)
    (t0 : BtorParamCacheTuple) (h : partial_revisit_tuple real_cur s = some (t0, s1)) :
    Keeps s.btor s1.btor ∧ s1 = { s with btor := s1.btor } := by
  unfold partial_revisit_tuple at h
  split at h
  · split at h
    · cases h
    · split at h
      · cases h
      · split at h
        · cases h
        · split at h
          · cases h
          · rename_i b1 hb1 _ b2 hb2
            cases h
            exact ⟨keeps_trans (assign_args_keeps _ _ _ _ hb1) (unassign_params_keeps _ _ _ hb2),
              rfl⟩
  · cases h
    exact ⟨keeps_refl _, rfl⟩

theorem partial_revisit_frame (env : Ext) (cur : Ref) (cur_parent : Option BtorNode)
    (s s1 : PartialState) (h : partial_revisit env cur cur_parent s = some s1) :
    PartialFrame s s1 := by
  unfold partial_revisit at h
  simp only at h
  split at h
  · cases h
  · split at h
    · cases h
    · rename_i t0 s2 hs2
      obtain ⟨hk, heq⟩ := partial_revisit_tuple_keeps _ _ _ _ hs2
      have hf2 : PartialFrame s s2 :=
        partialFrame_of_keeps s s2 hk (by rw [heq]) (by rw [heq])
      split at h
      · have hf3 := partial_start_frame _ _ _ _ _ h
        exact partialFrame_trans hf2 (partialFrame_trans
          ⟨rfl, callsAt_refl _ _, tableKept_refl _, tableKept_refl _⟩ hf3)
      · split at h
        · cases h
        · cases h
          exact partialFrame_trans hf2 ⟨rfl, callsAt_refl _ _, tableKept_refl _, tableKept_refl _⟩

theorem partial_step_frame (env : Ext) (s s1 : PartialState)
    (h : partial_step env s = some s1) : PartialFrame s s1 := by
  unfold partial_step at h
  split at h
  · cases h; exact partialFrame_refl _
  · rename_i cur cur_parent rest hst
    simp only at h
    have h0 : PartialFrame s (({ s with stack := rest } : PartialState).record (.visit cur.node)) :=
      ⟨rfl, ⟨[Event.visit cur.node], rfl, by simp⟩, tableKept_refl _, tableKept_refl _⟩
    split at h
    · cases h
    · split at h
      · exact partialFrame_trans h0 (partial_start_frame _ _ _ _ _ h)
      · split at h
        · exact partialFrame_trans h0 (partial_rebuild_frame _ _ _ _ h)
        · split at h
          · exact partialFrame_trans h0 (partial_revisit_frame _ _ _ _ _ h)
          · cases h

theorem partial_loop_frame (env : Ext) (fuel : Nat) :
    ∀ (s s1 : PartialState), partial_loop env fuel s = .done s1 → PartialFrame s s1 := by
  induction fuel with
  | zero =>
    intro s s1 h
    unfold partial_loop at h
    split at h
    · cases h; exact partialFrame_refl _
    · cases h
  | succ f ih =>
    intro s s1 h
    unfold partial_loop at h
    split at h
    · cases h; exact partialFrame_refl _
    · split at h
      · cases h
      · rename_i s2 hs2
        exact partialFrame_trans (partial_step_frame _ _ _ hs2) (ih _ _ h)

/-! ## The partial reducer: the visit of a conditional -/

theorem collect_selector_spec (btor : Btor) (e0 : Ref) (t : PtrHashTable BtorParamCacheTuple Ref) :
    ∃ t1, collect_selector btor e0 (some t) = some t1 ∧
      PtrHashTable.find t1 (btor_new_param_cache_tuple btor e0.node)
        = some ((PtrHashTable.find t (btor_new_param_cache_tuple btor e0.node)).getD e0) ∧
      ∀ key v, PtrHashTable.find t key = some v → PtrHashTable.find t1 key = some v := by
  have hk := collect_selector_kept btor e0 (some t)
  simp only [collect_selector] at hk ⊢
  split
  · rename_i hpres
    refine ⟨t, rfl, ?_, fun key v h => h⟩
    cases hf : PtrHashTable.find t (btor_new_param_cache_tuple btor e0.node) with
    | none => rw [hf] at hpres; simp at hpres
    | some v => rfl
  · rename_i habs
    refine ⟨_, rfl, ?_, ?_⟩
    · rw [PtrHashTable.find_set_self]
      cases hf : PtrHashTable.find t (btor_new_param_cache_tuple btor e0.node) with
      | none => rfl
      | some v => rw [hf] at habs; simp at habs
    · intro key v hfind
      have hne : btor_new_param_cache_tuple btor e0.node ≠ key := by
        intro h
        rw [h, hfind] at habs
        simp at habs
      rw [PtrHashTable.find_set_other _ _ _ _ hne]
      exact hfind

/-- The first visit of a parameterized conditional whose condition evaluates
to a string that starts with the character 1: the selector is recorded in
the first table and the then-branch is pushed, with the inversion bit of the
reference to the conditional. -/
theorem partial_start_cond_one (env : Ext) (cur : Ref) (cur_parent : Option BtorNode)
    (s : PartialState) (i : NodeInfo) (c x y : BtorNode) (vc vx vy : Bool) (bits : List Char)
    (hcur : cur.node = .n3 i c vc x vx y vy) (hk : i.kind = .bcond)
    (hp : i.parameterized = true)
    (hpre : (c.info.tseitin || c.parameterized || c.BTOR_IS_BV_CONST_NODE) = true)
    (hev : env.eval_exp s.btor.assigned_exp ⟨c, vc⟩ = some ('1' :: bits)) :
    partial_start env cur cur_parent s =
      some { s with
        cond_sel1 := collect_selector s.btor ⟨c, vc⟩ s.cond_sel1
        stack := (cur.cond_invert ⟨x, vx⟩, some cur.node) :: s.stack } := by
  have hpre2 : (!(c.info.tseitin || c.info.parameterized || c.BTOR_IS_BV_CONST_NODE)) = false := by
    have := hpre
    simp only [BtorNode.parameterized] at this
    rw [this]; rfl
  unfold partial_start
  simp only [hcur, BtorNode.parameterized, info_n3, hp, BtorNode.BTOR_IS_PARAM_NODE,
    BtorNode.kind, hk, BtorNode.BTOR_IS_BV_COND_NODE, partial_cond, BtorNode.e, hev, hpre2]
  simp

theorem partial_start_cond_zero (env : Ext) (cur : Ref) (cur_parent : Option BtorNode)
    (s : PartialState) (i : NodeInfo) (c x y : BtorNode) (vc vx vy : Bool) (bits : List Char)
    (hcur : cur.node = .n3 i c vc x vx y vy) (hk : i.kind = .bcond)
    (hp : i.parameterized = true)
    (hpre : (c.info.tseitin || c.parameterized || c.BTOR_IS_BV_CONST_NODE) = true)
    (hev : env.eval_exp s.btor.assigned_exp ⟨c, vc⟩ = some ('0' :: bits)) :
    partial_start env cur cur_parent s =
      some { s with
        cond_sel2 := collect_selector s.btor ⟨c, vc⟩ s.cond_sel2
        stack := (cur.cond_invert ⟨y, vy⟩, some cur.node) :: s.stack } := by
  have hpre2 : (!(c.info.tseitin || c.info.parameterized || c.BTOR_IS_BV_CONST_NODE)) = false := by
    have := hpre
    simp only [BtorNode.parameterized] at this
    rw [this]; rfl
  unfold partial_start
  simp only [hcur, BtorNode.parameterized, info_n3, hp, BtorNode.BTOR_IS_PARAM_NODE,
    BtorNode.kind, hk, BtorNode.BTOR_IS_BV_COND_NODE, partial_cond, BtorNode.e, hev, hpre2]
  simp

theorem partial_start_cond_null (env : Ext) (cur : Ref) (cur_parent : Option BtorNode)
    (s : PartialState) (i : NodeInfo) (c x y : BtorNode) (vc vx vy : Bool)
    (hcur : cur.node = .n3 i c vc x vx y vy) (hk : i.kind = .bcond)
    (hp : i.parameterized = true)
    (hpre : (c.info.tseitin || c.parameterized || c.BTOR_IS_BV_CONST_NODE) = true)
    (hev : env.eval_exp s.btor.assigned_exp ⟨c, vc⟩ = none) :
    partial_start env cur cur_parent s = some (partial_expand cur cur_parent s) := by
  have hpre2 : (!(c.info.tseitin || c.info.parameterized || c.BTOR_IS_BV_CONST_NODE)) = false := by
    have := hpre
    simp only [BtorNode.parameterized] at this
    rw [this]; rfl
  unfold partial_start
  simp only [hcur, BtorNode.parameterized, info_n3, hp, BtorNode.BTOR_IS_PARAM_NODE,
    BtorNode.kind, hk, BtorNode.BTOR_IS_BV_COND_NODE, partial_cond, BtorNode.e, hev, hpre2]
  simp

/-! ## The partial reducer: the invariant of the marks -/

theorem marks_inv_visit (s s0 s1 : PartialState) (cur : Ref) (cur_parent : Option BtorNode)
    (rest : List (Ref × Option BtorNode))
    (hst : s.stack = (cur, cur_parent) :: rest) (hinv : MarksInv s)
    (h0s : s0.stack = rest) (h0c : s0.cache = s.cache)
    (h0m : s0.btor.beta_mark = s.btor.beta_mark)
    (heff : VisitEffect cur.node s0 s1) : MarksInv s1 := by
  obtain ⟨e1, e2, e3, e4⟩ := heff
  intro n
  by_cases hn : n = cur.node
  · subst hn
    rcases e4 with h | h | h | ⟨h, hne⟩
    · exact Or.inl h
    · exact Or.inr (Or.inl h)
    · exact Or.inr (Or.inr h)
    · rw [h0m] at h hne
      rcases hinv cur.node with h1 | ⟨h1, -⟩ | ⟨h1, b, hb, hbn⟩
      · exact Or.inl (h.trans h1)
      · exact absurd h1 hne
      · obtain ⟨b1, hb1, hbn1⟩ := e2 b (by rw [h0c]; exact hb)
        exact Or.inr (Or.inr ⟨h.trans h1, b1, hb1, hbn1.trans hbn⟩)
  · have hm := e3 n hn
    rw [h0m] at hm
    rcases hinv n with h1 | ⟨h1, en, hen, henn⟩ | ⟨h1, b, hb, hbn⟩
    · exact Or.inl (hm.trans h1)
    · refine Or.inr (Or.inl ⟨hm.trans h1, en, e1 en ?_, henn⟩)
      rw [h0s]
      rw [hst] at hen
      rcases List.mem_cons.mp hen with h | h
      · subst h
        exact absurd henn.symm hn
      · exact h
    · obtain ⟨b1, hb1, hbn1⟩ := e2 b (by rw [h0c]; exact hb)
      exact Or.inr (Or.inr ⟨hm.trans h1, b1, hb1, hbn1.trans hbn⟩)

theorem partial_cond_effect (env : Ext) (cur : Ref) (s s1 : PartialState)
    (h : partial_cond env cur s = some (some s1)) :
    (∀ en, en ∈ s.stack → en ∈ s1.stack) ∧ s1.cache = s.cache ∧
      s1.btor.beta_mark = s.btor.beta_mark := by
  unfold partial_cond at h
  simp only at h
  split at h
  · split at h
    · cases h
    · split at h
      · cases h
      · split at h
        · cases h
          exact ⟨fun en hen => List.mem_cons_of_mem _ hen, rfl, rfl⟩
        · split at h
          · cases h
            exact ⟨fun en hen => List.mem_cons_of_mem _ hen, rfl, rfl⟩
          · cases h
  · cases h

theorem partial_expand_effect (cur : Ref) (cur_parent : Option BtorNode) (s0 s : PartialState)
    (hs : s.stack = s0.stack) (hc : s.cache = s0.cache)
    (hm : s.btor.beta_mark = s0.btor.beta_mark) :
    VisitEffect cur.node s0 (partial_expand cur cur_parent s) := by
  refine ⟨?_, ?_, ?_, ?_⟩
  · intro en hen
    simp only [partial_expand, List.mem_append, List.mem_cons]
    exact Or.inr (Or.inr (by rw [hs]; exact hen))
  · intro b hb
    exact ⟨b, by simp only [partial_expand]; rw [hc]; exact hb, rfl⟩
  · intro n hn
    simp only [partial_expand]
    rw [Function.update_noteq hn, hm]
  · right; left
    refine ⟨by simp [partial_expand], (cur, cur_parent), ?_, rfl⟩
    simp [partial_expand]

theorem partial_start_effect (env : Ext) (cur : Ref) (cur_parent : Option BtorNode)
    (s s1 : PartialState) (hz : s.btor.beta_mark cur.node = 0)
    (h : partial_start env cur cur_parent s = some s1) : VisitEffect cur.node s s1 := by
  have hkeep : ∀ s2 : PartialState, s2.stack = s.stack → s2.cache = s.cache →
      s2.btor.beta_mark = s.btor.beta_mark → VisitEffect cur.node s s2 := by
    intro s2 a1 a2 a3
    refine ⟨fun en hen => by rw [a1]; exact hen, fun b hb => ⟨b, by rw [a2]; exact hb, rfl⟩,
      fun n _ => by rw [a3], Or.inl (by rw [a3]; exact hz)⟩
  unfold partial_start at h
  simp only at h
  split at h
  · split at h
    · cases h
    · cases h; exact hkeep _ rfl rfl rfl
  · split at h
    · split at h
      · cases h; exact hkeep _ rfl rfl rfl
      · cases h
    · split at h
      · split at h
        · cases h
        · rename_i s2 hs2
          cases h
          obtain ⟨a1, a2, a3⟩ := partial_cond_effect env cur s _ hs2
          exact ⟨a1, fun b hb => ⟨b, by rw [a2]; exact hb, rfl⟩, fun n _ => by rw [a3],
            Or.inl (by rw [a3]; exact hz)⟩
        · cases h
          exact partial_expand_effect _ _ _ _ rfl rfl rfl
      · split at h
        · cases h
        · rename_i s2 hs2
          cases h
          obtain ⟨hk, heq⟩ := partial_assign_keeps _ _ _ _ hs2
          exact partial_expand_effect _ _ _ _ (by rw [heq]) (by rw [heq]) hk.1

theorem PtrHashTable.set_keeps_keys {κ ν : Type} [DecidableEq κ] (t : PtrHashTable κ ν) (k : κ)
    (v : ν) : ∀ b, b ∈ t → ∃ b1, b1 ∈ PtrHashTable.set t k v ∧ b1.1 = b.1 := by
  induction t with
  | nil => intro b hb; simp at hb
  | cons a t ih =>
    intro b hb
    obtain ⟨ak, av⟩ := a
    simp only [PtrHashTable.set]
    rcases List.mem_cons.mp hb with h | h
    · subst h
      split
      · exact ⟨(ak, v), by simp, rfl⟩
      · exact ⟨(ak, av), by simp, rfl⟩
    · obtain ⟨b1, hb1, hk1⟩ := ih b h
      split
      · exact ⟨b, by simp [h], rfl⟩
      · exact ⟨b1, by simp [hb1], hk1⟩

theorem PtrHashTable.set_has_key {κ ν : Type} [DecidableEq κ] (t : PtrHashTable κ ν) (k : κ)
    (v : ν) : ∃ b, b ∈ PtrHashTable.set t k v ∧ b.1 = k := by
  induction t with
  | nil => exact ⟨(k, v), by simp [PtrHashTable.set], rfl⟩
  | cons a t ih =>
    obtain ⟨ak, av⟩ := a
    simp only [PtrHashTable.set]
    split
    · rename_i h
      exact ⟨(ak, v), by simp, h⟩
    · obtain ⟨b, hb, hk⟩ := ih
      exact ⟨b, by simp [hb], hk⟩

theorem partial_switch_same (env : Ext) (real_cur : BtorNode) (e : List Ref)
    (ps : List BtorNode) (s s2 : PartialState) (r : Ref) (o : BtorNode)
    (h : partial_switch env real_cur e ps s = some (r, o, s2)) :
    s2.stack = s.stack ∧ s2.cache = s.cache ∧ s2.btor.beta_mark = s.btor.beta_mark ∧
      s2.btor.assigned_exp = s.btor.assigned_exp ∧ s2.arg_stack = s.arg_stack ∧
      s2.param_stack = s.param_stack := by
  rcases partial_switch_state env real_cur e ps s s2 r o h with h1 | ⟨k, h1⟩ <;>
    rw [h1] <;> exact ⟨rfl, rfl, rfl, rfl, rfl, rfl⟩

theorem partial_rebuild_effect (env : Ext) (cur : Ref) (s s1 : PartialState)
    (h : partial_rebuild env cur s = some s1) : VisitEffect cur.node s s1 := by
  unfold partial_rebuild at h
  simp only at h
  split at h
  · cases h
  · split at h
    · cases h
    · split at h
      · cases h
      · split at h
        · cases h
        · rename_i result origin s2 hsw
          obtain ⟨a1, a2, a3, -, -, -⟩ := partial_switch_same _ _ _ _ _ _ _ _ hsw
          simp only at a1 a2 a3
          split at h
          · cases h
          · split at h
            · cases h
            · rename_i s4 hs4
              cases h
              have h4 : s4.stack = s2.stack ∧ s4.btor.beta_mark = s2.btor.beta_mark ∧
                  s4.cache = PtrHashTable.set s2.cache
                    (btor_new_param_cache_tuple s2.btor cur.node) (result, origin) := by
                split at hs4
                · split at hs4
                  · cases hs4
                  · rename_i b1 hb1
                    cases hs4
                    exact ⟨rfl, (unassign_params_keeps _ _ _ hb1).1, rfl⟩
                · cases hs4
                  exact ⟨rfl, rfl, rfl⟩
              obtain ⟨b1, b2, b3⟩ := h4
              refine ⟨?_, ?_, ?_, ?_⟩
              · intro en hen
                simp only [partial_push_result]
                rw [b1, a1]; exact hen
              · intro b hb
                simp only [partial_push_result]
                rw [b3, a2]
                obtain ⟨b1, hb1, hk1⟩ := PtrHashTable.set_keeps_keys s.cache
                  (btor_new_param_cache_tuple s2.btor cur.node) (result, origin) b hb
                exact ⟨b1, hb1, by rw [hk1]⟩
              · intro n hn
                simp only [partial_push_result]
                rw [b2, a3, Function.update_noteq hn]
              · right; right; left
                simp only [partial_push_result]
                refine ⟨by rw [b2, a3]; simp, ?_⟩
                obtain ⟨b, hb, hk⟩ := PtrHashTable.set_has_key s2.cache
                  (btor_new_param_cache_tuple s2.btor cur.node) (result, origin)
                exact ⟨b, by rw [b3]; exact hb, by rw [hk]; rfl⟩

theorem partial_revisit_effect (env : Ext) (cur : Ref) (cur_parent : Option BtorNode)
    (s s1 : PartialState) (h2 : s.btor.beta_mark cur.node = 2)
    (h : partial_revisit env cur cur_parent s = some s1) : VisitEffect cur.node s s1 := by
  unfold partial_revisit at h
  simp only at h
  split at h
  · cases h
  · split at h
    · cases h
    · rename_i t0 s2 hs2
      obtain ⟨hk, heq⟩ := partial_revisit_tuple_keeps _ _ _ _ hs2
      have c1 : s2.stack = s.stack := by rw [heq]
      have c2 : s2.cache = s.cache := by rw [heq]
      have c3 : s2.btor.beta_mark = s.btor.beta_mark := hk.1
      split at h
      · obtain ⟨e1, e2, e3, e4⟩ := partial_start_effect env cur cur_parent _ s1 (by simp) h
        simp only at e1 e2 e3 e4
        refine ⟨fun en hen => e1 en (by rw [c1]; exact hen),
          fun b hb => e2 b (by rw [c2]; exact hb), ?_, ?_⟩
        · intro n hn
          rw [e3 n hn, Function.update_noteq hn, c3]
        · rcases e4 with h | h | h | ⟨h, -⟩
          · exact Or.inl h
          · exact Or.inr (Or.inl h)
          · exact Or.inr (Or.inr (Or.inl h))
          · left
            rw [h]; simp
      · split at h
        · cases h
        · cases h
          refine ⟨fun en hen => by simp only [partial_push_result]; rw [c1]; exact hen,
            fun b hb => ⟨b, by simp only [partial_push_result]; rw [c2]; exact hb, rfl⟩,
            fun n _ => by simp only [partial_push_result]; rw [c3], ?_⟩
          right; right; right
          simp only [partial_push_result]
          rw [c3, h2]
          exact ⟨rfl, by decide⟩

theorem partial_step_marks (env : Ext) (s s1 : PartialState) (hinv : MarksInv s)
    (h : partial_step env s = some s1) : MarksInv s1 := by
  unfold partial_step at h
  split at h
  · cases h; exact hinv
  · rename_i cur cur_parent rest hst
    simp only at h
    split at h
    · cases h
    · split at h
      · rename_i hz
        exact marks_inv_visit s
          (({ s with stack := rest } : PartialState).record (.visit cur.node)) s1 cur cur_parent
          rest hst hinv rfl rfl rfl (partial_start_effect env cur cur_parent _ s1 hz h)
      · split at h
        · exact marks_inv_visit s
            (({ s with stack := rest } : PartialState).record (.visit cur.node)) s1 cur
            cur_parent rest hst hinv rfl rfl rfl (partial_rebuild_effect env cur _ s1 h)
        · split at h
          · rename_i h2
            exact marks_inv_visit s
              (({ s with stack := rest } : PartialState).record (.visit cur.node)) s1 cur
              cur_parent rest hst hinv rfl rfl rfl
              (partial_revisit_effect env cur cur_parent _ s1 h2 h)
          · cases h

theorem partial_loop_marks (env : Ext) (fuel : Nat) :
    ∀ (s s1 : PartialState), MarksInv s → partial_loop env fuel s = .done s1 →
      MarksInv s1 ∧ s1.stack = [] := by
  induction fuel with
  | zero =>
    intro s s1 hinv h
    unfold partial_loop at h
    split at h
    · rename_i he
      cases h
      exact ⟨hinv, by simpa using he⟩
    · cases h
  | succ f ih =>
    intro s s1 hinv h
    unfold partial_loop at h
    split at h
    · rename_i he
      cases h
      exact ⟨hinv, by simpa using he⟩
    · split at h
      · cases h
      · rename_i s2 hs2
        exact ih _ _ (partial_step_marks env s s2 hinv hs2) h

theorem reset_marks_spec (cache : PtrHashTable BtorParamCacheTuple (Ref × BtorNode)) :
    ∀ (marks : BtorNode → Nat) (n : BtorNode),
      reset_marks cache marks n = if ∃ b, b ∈ cache ∧ b.1.1 = n then 0 else marks n := by
  induction cache with
  | nil => intro marks n; simp [reset_marks]
  | cons a t ih =>
    intro marks n
    have hstep : reset_marks (a :: t) marks = reset_marks t (Function.update marks a.1.1 0) := rfl
    rw [hstep, ih]
    by_cases hin : ∃ b, b ∈ t ∧ b.1.1 = n
    · have : ∃ b, b ∈ a :: t ∧ b.1.1 = n := by
        obtain ⟨b, hb, hk⟩ := hin
        exact ⟨b, List.mem_cons_of_mem _ hb, hk⟩
      simp [hin, this]
    · by_cases ha : a.1.1 = n
      · have : ∃ b, b ∈ a :: t ∧ b.1.1 = n := ⟨a, by simp, ha⟩
        simp only [hin, this, if_false, if_true]
        rw [← ha]; simp
      · have : ¬ ∃ b, b ∈ a :: t ∧ b.1.1 = n := by
          rintro ⟨b, hb, hk⟩
          rcases List.mem_cons.mp hb with h | h
          · subst h; exact ha hk
          · exact hin ⟨b, h, hk⟩
        simp only [hin, this, if_false]
        rw [Function.update_noteq (Ne.symm ha)]

/-! ## The partial reducer: the parent of a node that is not a lambda is not read -/

theorem stackRel_refl (a : List (Ref × Option BtorNode)) : StackRel a a := by
  induction a with
  | nil => exact List.Forall₂.nil
  | cons x t ih => exact List.Forall₂.cons ⟨rfl, Or.inl rfl⟩ ih

theorem stackRel_append {a b c d : List (Ref × Option BtorNode)} (h1 : StackRel a b)
    (h2 : StackRel c d) : StackRel (a ++ c) (b ++ d) := by
  induction h1 with
  | nil => exact h2
  | cons hx _ ih => exact List.Forall₂.cons hx ih

theorem Pushed.none (s : PartialState) (st1 : List (Ref × Option BtorNode)) (t : PartialState)
    (h : t.stack = s.stack) : Pushed s st1 t { t with stack := st1 } :=
  ⟨[], [], by simp [h], List.Forall₂.nil, by simp⟩

theorem partial_cond_rel (env : Ext) (cur : Ref) (s : PartialState)
    (st1 : List (Ref × Option BtorNode)) :
    OptRel (OptRel (Pushed s st1)) (partial_cond env cur s)
      (partial_cond env cur { s with stack := st1 }) := by
  unfold partial_cond
  simp only
  split
  · split
    · trivial
    · split
      · trivial
      · split
        · exact ⟨[_], [_], rfl, stackRel_refl _, rfl⟩
        · split
          · exact ⟨[_], [_], rfl, stackRel_refl _, rfl⟩
          · trivial
  · trivial

theorem partial_assign_rel (real_cur : BtorNode) (cur_parent : Option BtorNode)
    (s : PartialState) (st1 : List (Ref × Option BtorNode)) :
    OptRel (fun t t1 => t.stack = s.stack ∧ t1 = { t with stack := st1 })
      (partial_assign real_cur cur_parent s)
      (partial_assign real_cur cur_parent { s with stack := st1 }) := by
  unfold partial_assign
  simp only
  split
  · split
    · split
      · trivial
      · exact ⟨rfl, rfl⟩
      · split
        · trivial
        · split
          · trivial
          · exact ⟨rfl, rfl⟩
    · trivial
  · exact ⟨rfl, rfl⟩

theorem partial_assign_parent (real_cur : BtorNode) (p1 p2 : Option BtorNode)
    (s : PartialState) (h : p1 = p2 ∨ real_cur.BTOR_IS_LAMBDA_NODE = false) :
    partial_assign real_cur p1 s = partial_assign real_cur p2 s := by
  rcases h with h | h
  · rw [h]
  · simp [partial_assign, h]

theorem partial_expand_pushed (cur : Ref) (p1 p2 : Option BtorNode) (s0 s : PartialState)
    (st1 : List (Ref × Option BtorNode)) (hs : s.stack = s0.stack)
    (h : p1 = p2 ∨ cur.node.BTOR_IS_LAMBDA_NODE = false) :
    Pushed s0 st1 (partial_expand cur p1 s) (partial_expand cur p2 { s with stack := st1 }) := by
  refine ⟨(cur.node.e.reverse.map fun c => (c, some cur.node)) ++ [(cur, p1)],
    (cur.node.e.reverse.map fun c => (c, some cur.node)) ++ [(cur, p2)], ?_, ?_, ?_⟩
  · simp [partial_expand, hs]
  · exact stackRel_append (stackRel_refl _) (List.Forall₂.cons ⟨rfl, h⟩ List.Forall₂.nil)
  · simp [partial_expand]

theorem partial_start_rel (env : Ext) (cur : Ref) (p1 p2 : Option BtorNode) (s : PartialState)
    (st1 : List (Ref × Option BtorNode))
    (h : p1 = p2 ∨ cur.node.BTOR_IS_LAMBDA_NODE = false) :
    OptRel (Pushed s st1) (partial_start env cur p1 s)
      (partial_start env cur p2 { s with stack := st1 }) := by
  unfold partial_start
  simp only
  split
  · split
    · trivial
    · exact Pushed.none _ _ _ rfl
  · split
    · split
      · exact Pushed.none _ _ _ rfl
      · trivial
    · split
      · have hc := partial_cond_rel env cur s st1
        generalize partial_cond env cur s = a at hc ⊢
        generalize partial_cond env cur { s with stack := st1 } = b at hc ⊢
        match a, b, hc with
        | none, none, _ => trivial
        | some none, some none, _ => exact partial_expand_pushed cur p1 p2 s s st1 rfl h
        | some (some t), some (some t1), hc => exact hc
      · rw [partial_assign_parent cur.node p1 p2 s h]
        have hc := partial_assign_rel cur.node p2 s st1
        generalize partial_assign cur.node p2 s = a at hc ⊢
        generalize partial_assign cur.node p2 { s with stack := st1 } = b at hc ⊢
        match a, b, hc with
        | none, none, _ => trivial
        | some t, some t1, hc =>
          obtain ⟨h1, h2⟩ := hc
          subst h2
          exact partial_expand_pushed cur p1 p2 s t st1 h1 h

theorem partial_switch_stack (env : Ext) (real_cur : BtorNode) (e : List Ref)
    (ps : List BtorNode) (s : PartialState) (st1 : List (Ref × Option BtorNode)) :
    partial_switch env real_cur e ps { s with stack := st1 } =
      (partial_switch env real_cur e ps s).map
        fun x => (x.1, x.2.1, { x.2.2 with stack := st1 }) := by
  unfold partial_switch
  split <;> try (simp only [partial_call, PartialState.record, Option.map_some']; done)
  · split
    · simp only [partial_call, PartialState.record, Option.map_some']
    · split <;> rfl
  · split
    · rfl
    · split <;> rfl
  · rfl

theorem partial_switch_keeps_stack (env : Ext) (real_cur : BtorNode) (e : List Ref)
    (ps : List BtorNode) (s s2 : PartialState) (r : Ref) (o : BtorNode)
    (h : partial_switch env real_cur e ps s = some (r, o, s2)) : s2.stack = s.stack := by
  rcases partial_switch_state env real_cur e ps s s2 r o h with h1 | ⟨k, h1⟩ <;> rw [h1] <;> rfl

theorem partial_rebuild_rel (env : Ext) (cur : Ref) (s : PartialState)
    (st1 : List (Ref × Option BtorNode)) :
    OptRel (Pushed s st1) (partial_rebuild env cur s)
      (partial_rebuild env cur { s with stack := st1 }) := by
  unfold partial_rebuild
  simp only
  split
  · trivial
  · split
    · trivial
    · split
      · trivial
      · have hsw2 := partial_switch_stack env cur.node (s.arg_stack.take cur.node.arity).reverse
          (s.param_stack.take cur.node.arity).reverse
          { s with
            btor := { s.btor with beta_mark := Function.update s.btor.beta_mark cur.node 2 }
            arg_stack := s.arg_stack.drop cur.node.arity
            param_stack := s.param_stack.drop cur.node.arity } st1
        simp only at hsw2
        rw [hsw2]
        generalize hsw : partial_switch env cur.node _ _ _ = a
        match a, hsw with
        | none, _ => trivial
        | some (r, o, s2), hsw =>
          have hst := partial_switch_keeps_stack _ _ _ _ _ _ _ _ hsw
          simp only [Option.map_some']
          split
          · trivial
          · by_cases hl : cur.node.BTOR_IS_LAMBDA_NODE = true
            · simp only [hl, if_true]
              generalize btor_unassign_params s2.btor cur.node.ref = u
              cases u with
              | none => trivial
              | some b =>
                exact ⟨[], [], by simpa [partial_push_result] using hst, List.Forall₂.nil, rfl⟩
            · simp only [hl, if_false]
              exact ⟨[], [], by simpa [partial_push_result] using hst, List.Forall₂.nil, rfl⟩

theorem Pushed.of_stack {s s0 : PartialState} {st1 : List (Ref × Option BtorNode)}
    {t t1 : PartialState} (hs : s.stack = s0.stack) (h : Pushed s st1 t t1) :
    Pushed s0 st1 t t1 := by
  obtain ⟨pre, pre1, h1, h2, h3⟩ := h
  exact ⟨pre, pre1, by rw [h1, hs], h2, h3⟩

theorem OptRel.mono {α : Type} {R R1 : α → α → Prop} (hR : ∀ x y, R x y → R1 x y) :
    ∀ (a b : Option α), OptRel R a b → OptRel R1 a b
  | none, none, _ => trivial
  | some x, some y, h => hR x y h
  | none, some _, h => h.elim
  | some _, none, h => h.elim

theorem partial_revisit_tuple_stack (real_cur : BtorNode) (s : PartialState)
    (st1 : List (Ref × Option BtorNode)) :
    partial_revisit_tuple real_cur { s with stack := st1 } =
      (partial_revisit_tuple real_cur s).map fun x => (x.1, { x.2 with stack := st1 }) := by
  unfold partial_revisit_tuple
  dsimp only
  split
  · split
    · rfl
    · split
      · rfl
      · split
        · rfl
        · split <;> rfl
  · rfl

theorem partial_revisit_tuple_keeps_stack (real_cur : BtorNode) (s s1 : PartialState)
    (t0 : BtorParamCacheTuple) (h : partial_revisit_tuple real_cur s = some (t0, s1)) :
    s1.stack = s.stack ∧ s1.cache = s.cache := by
  unfold partial_revisit_tuple at h
  split at h
  · split at h
    · cases h
    · split at h
      · cases h
      · split at h
        · cases h
        · split at h
          · cases h
          · cases h; exact ⟨rfl, rfl⟩
  · cases h; exact ⟨rfl, rfl⟩

theorem partial_revisit_rel (env : Ext) (cur : Ref) (p1 p2 : Option BtorNode)
    (s : PartialState) (st1 : List (Ref × Option BtorNode))
    (h : p1 = p2 ∨ cur.node.BTOR_IS_LAMBDA_NODE = false) :
    OptRel (Pushed s st1) (partial_revisit env cur p1 s)
      (partial_revisit env cur p2 { s with stack := st1 }) := by
  unfold partial_revisit
  simp only
  split
  · trivial
  · rw [partial_revisit_tuple_stack cur.node s st1]
    generalize htu : partial_revisit_tuple cur.node s = a
    match a, htu with
    | none, _ => trivial
    | some (t0, s1), htu =>
      obtain ⟨hst, _⟩ := partial_revisit_tuple_keeps_stack _ _ _ _ htu
      simp only [Option.map_some']
      generalize PtrHashTable.find s1.cache t0 = f
      match f with
      | none =>
        exact OptRel.mono (fun _ _ => Pushed.of_stack hst) _ _ (partial_start_rel env cur p1 p2
          { s1 with
            btor := { s1.btor with beta_mark := Function.update s1.btor.beta_mark cur.node 0 } }
          st1 h)
      | some (result, parameterized_result) =>
        simp only
        split
        · trivial
        · exact ⟨[], [], by simpa [partial_push_result] using hst, List.Forall₂.nil, rfl⟩

theorem partial_step_pushed (env : Ext) (s : PartialState) (cur : Ref)
    (p1 p2 : Option BtorNode) (rest rest1 : List (Ref × Option BtorNode))
    (hp : p1 = p2 ∨ cur.node.BTOR_IS_LAMBDA_NODE = false) :
    OptRel (Pushed { s with stack := rest } rest1)
      (partial_step env { s with stack := (cur, p1) :: rest })
      (partial_step env { s with stack := (cur, p2) :: rest1 }) := by
  unfold partial_step
  simp only [PartialState.record]
  split
  · trivial
  · split
    · exact OptRel.mono (fun _ _ => Pushed.of_stack rfl) _ _
        (partial_start_rel env cur p1 p2 _ rest1 hp)
    · split
      · exact OptRel.mono (fun _ _ => Pushed.of_stack rfl) _ _
          (partial_rebuild_rel env cur _ rest1)
      · split
        · exact OptRel.mono (fun _ _ => Pushed.of_stack rfl) _ _
            (partial_revisit_rel env cur p1 p2 _ rest1 hp)
        · trivial

theorem partial_step_rel (env : Ext) (s s1 : PartialState) (h : ParentSim s s1) :
    OptRel ParentSim (partial_step env s) (partial_step env s1) := by
  obtain ⟨h1, h2⟩ := h
  rw [h1]
  generalize s1.stack = st1 at h2
  clear h1
  obtain ⟨b, st, as, ps, c, c1, c2⟩ := s
  dsimp only at h2 ⊢
  cases h2 with
  | nil => unfold partial_step; exact ⟨rfl, List.Forall₂.nil⟩
  | @cons x y rest rest1 hxy hrest =>
    obtain ⟨cur, p1⟩ := x
    obtain ⟨cur1, p2⟩ := y
    obtain ⟨hc, hp⟩ := hxy
    simp only at hc hp
    subst hc
    refine OptRel.mono ?_ _ _ (partial_step_pushed env ⟨b, [], as, ps, c, c1, c2⟩ cur p1 p2
      rest rest1 hp)
    rintro t t1 ⟨pre, pre1, q1, q2, q3⟩
    refine ⟨by rw [q3], ?_⟩
    rw [q1, q3]
    exact stackRel_append q2 hrest

theorem ParentSim.empty {s s1 : PartialState} (h : ParentSim s s1) :
    s1.stack.isEmpty = s.stack.isEmpty ∧ (s.stack.isEmpty = true → s1 = s) := by
  obtain ⟨h1, h2⟩ := h
  rw [h1]
  generalize s1.stack = st1 at h2
  clear h1
  obtain ⟨b, st, as, ps, c, c1, c2⟩ := s
  dsimp only at h2 ⊢
  cases h2 with
  | nil => exact ⟨rfl, fun _ => rfl⟩
  | cons _ _ => exact ⟨rfl, fun h => by cases h⟩

theorem partial_loop_rel (env : Ext) (fuel : Nat) :
    ∀ (s s1 : PartialState), ParentSim s s1 →
      partial_loop env fuel s1 = partial_loop env fuel s := by
  induction fuel with
  | zero =>
    intro s s1 h
    obtain ⟨he, hs⟩ := h.empty
    unfold partial_loop
    rw [he]
    split
    · rename_i h0; rw [hs h0]
    · rfl
  | succ n ih =>
    intro s s1 h
    obtain ⟨he, hs⟩ := h.empty
    unfold partial_loop
    rw [he]
    split
    · rename_i h0; rw [hs h0]
    · have hr := partial_step_rel env s s1 h
      generalize partial_step env s = a at hr ⊢
      generalize partial_step env s1 = b at hr ⊢
      match a, b, hr with
      | none, none, _ => rfl
      | some t, some t1, hr => exact ih t t1 hr

/-! ## The partial reducer: the inversion bit of the root goes to the result -/

theorem Ref.cond_invert_invert (cur x : Ref) :
    cur.invert.cond_invert x = (cur.cond_invert x).invert := by
  obtain ⟨n, v⟩ := cur
  obtain ⟨m, w⟩ := x
  cases v <;> cases w <;> rfl

theorem Ref.invert_node (r : Ref) : r.invert.node = r.node := rfl

theorem partial_cond_inv (env : Ext) (cur : Ref) (s : PartialState) (hs : s.stack = []) :
    OptRel (OptRel InvSim) (partial_cond env cur s) (partial_cond env cur.invert s) := by
  unfold partial_cond
  simp only [Ref.invert_node]
  split
  · split
    · trivial
    · split
      · trivial
      · split
        · exact ⟨[], [], _, _, by simp only [hs, List.nil_append]; rfl, List.Forall₂.nil,
            by simp only [hs, List.nil_append, Ref.cond_invert_invert]⟩
        · split
          · exact ⟨[], [], _, _, by simp only [hs, List.nil_append]; rfl, List.Forall₂.nil,
              by simp only [hs, List.nil_append, Ref.cond_invert_invert]⟩
          · trivial
  · trivial

theorem partial_expand_inv (cur : Ref) (p : Option BtorNode) (s : PartialState)
    (hs : s.stack = []) :
    InvSim (partial_expand cur p s) (partial_expand cur.invert p s) :=
  ⟨cur.node.e.reverse.map fun c => (c, some cur.node), _, cur, p,
    by simp only [partial_expand, hs], stackRel_refl _,
    by simp only [partial_expand, hs, Ref.invert_node]⟩

theorem partial_start_inv (env : Ext) (cur : Ref) (p : Option BtorNode) (s : PartialState)
    (hs : s.stack = []) :
    OptRel (fun t t1 => InvSim t t1 ∨ InvDone t t1) (partial_start env cur p s)
      (partial_start env cur.invert p s) := by
  unfold partial_start
  simp only [Ref.invert_node]
  split
  · split
    · trivial
    · exact Or.inr ⟨hs, by simp, rfl⟩
  · split
    · split
      · exact Or.inr ⟨hs, by simp, by simp only [invert_top, Ref.cond_invert_invert]⟩
      · trivial
    · split
      · have hc := partial_cond_inv env cur s hs
        generalize partial_cond env cur s = a at hc ⊢
        generalize partial_cond env cur.invert s = b at hc ⊢
        match a, b, hc with
        | none, none, _ => trivial
        | some none, some none, _ => exact Or.inl (partial_expand_inv cur p s hs)
        | some (some t), some (some t1), hc => exact Or.inl hc
      · generalize hpa : partial_assign cur.node p s = a
        match a, hpa with
        | none, _ => trivial
        | some t, hpa =>
          have h1 := partial_assign_rel cur.node p s []
          rw [hpa] at h1
          generalize partial_assign cur.node p { s with stack := [] } = b at h1
          match b, h1 with
          | some t1, h1 => exact Or.inl (partial_expand_inv cur p t (by rw [h1.1, hs]))

theorem partial_rebuild_inv (env : Ext) (cur : Ref) (s : PartialState) (hs : s.stack = []) :
    OptRel (fun t t1 => InvSim t t1 ∨ InvDone t t1) (partial_rebuild env cur s)
      (partial_rebuild env cur.invert s) := by
  unfold partial_rebuild
  simp only [Ref.invert_node]
  split
  · trivial
  · split
    · trivial
    · split
      · trivial
      · generalize hsw : partial_switch env cur.node _ _ _ = a
        match a, hsw with
        | none, _ => trivial
        | some (r, o, s2), hsw =>
          have hst := partial_switch_keeps_stack _ _ _ _ _ _ _ _ hsw
          simp only
          split
          · trivial
          · by_cases hl : cur.node.BTOR_IS_LAMBDA_NODE = true
            · simp only [hl, if_true]
              generalize btor_unassign_params s2.btor cur.node.ref = u
              cases u with
              | none => trivial
              | some b =>
                exact Or.inr ⟨by simpa [partial_push_result, hs] using hst,
                  by simp [partial_push_result],
                  by simp only [invert_top, partial_push_result, Ref.cond_invert_invert]⟩
            · simp only [hl, if_false]
              exact Or.inr ⟨by simpa [partial_push_result, hs] using hst,
                by simp [partial_push_result],
                by simp only [invert_top, partial_push_result, Ref.cond_invert_invert]⟩

theorem partial_revisit_inv (env : Ext) (cur : Ref) (p : Option BtorNode)
    (s : PartialState) (hs : s.stack = []) :
    OptRel (fun t t1 => InvSim t t1 ∨ InvDone t t1) (partial_revisit env cur p s)
      (partial_revisit env cur.invert p s) := by
  unfold partial_revisit
  simp only [Ref.invert_node]
  split
  · trivial
  · generalize htu : partial_revisit_tuple cur.node s = a
    match a, htu with
    | none, _ => trivial
    | some (t0, s1), htu =>
      obtain ⟨hst, _⟩ := partial_revisit_tuple_keeps_stack _ _ _ _ htu
      simp only
      generalize PtrHashTable.find s1.cache t0 = f
      match f with
      | none =>
        exact partial_start_inv env cur p
          { s1 with
            btor := { s1.btor with beta_mark := Function.update s1.btor.beta_mark cur.node 0 } }
          (by rw [← hs, ← hst])
      | some (result, parameterized_result) =>
        simp only
        split
        · trivial
        · exact Or.inr ⟨by simpa [partial_push_result, hs] using hst,
            by simp [partial_push_result],
            by simp only [invert_top, partial_push_result, Ref.cond_invert_invert]⟩

theorem partial_step_inv_bottom (env : Ext) (s : PartialState) (r : Ref)
    (p : Option BtorNode) :
    OptRel (fun t t1 => InvSim t t1 ∨ InvDone t t1)
      (partial_step env { s with stack := [(r, p)] })
      (partial_step env { s with stack := [(r.invert, p)] }) := by
  unfold partial_step
  simp only [PartialState.record, Ref.invert_node]
  split
  · trivial
  · split
    · exact partial_start_inv env r p _ rfl
    · split
      · exact partial_rebuild_inv env r _ rfl
      · split
        · exact partial_revisit_inv env r p _ rfl
        · trivial

theorem partial_step_inv (env : Ext) (s s1 : PartialState) (h : InvSim s s1) :
    OptRel (fun t t1 => InvSim t t1 ∨ InvDone t t1) (partial_step env s)
      (partial_step env s1) := by
  obtain ⟨pre, pre1, r, p, h1, h2, h3⟩ := h
  subst h3
  obtain ⟨b, st, as, ps, c, c1, c2⟩ := s
  dsimp only at h1 ⊢
  subst h1
  cases h2 with
  | nil => exact partial_step_inv_bottom env ⟨b, [], as, ps, c, c1, c2⟩ r p
  | @cons x y rest rest1 hxy hrest =>
    obtain ⟨cur, p1⟩ := x
    obtain ⟨cur1, p2⟩ := y
    obtain ⟨hc, hp⟩ := hxy
    simp only at hc hp
    subst hc
    refine OptRel.mono ?_ _ _ (partial_step_pushed env ⟨b, [], as, ps, c, c1, c2⟩ cur p1 p2
      (rest ++ [(r, p)]) (rest1 ++ [(r.invert, p)]) hp)
    rintro t t1 ⟨q, q1, e1, e2, e3⟩
    exact Or.inl ⟨q ++ rest, q1 ++ rest1, r, p, by rw [e1, List.append_assoc],
      stackRel_append e2 hrest, by rw [e3, List.append_assoc]⟩

theorem InvSim.not_empty {s s1 : PartialState} (h : InvSim s s1) :
    s.stack.isEmpty = false ∧ s1.stack.isEmpty = false := by
  obtain ⟨pre, pre1, r, p, h1, h2, h3⟩ := h
  subst h3
  rw [h1]
  cases h2 with
  | nil => exact ⟨rfl, rfl⟩
  | cons _ _ => exact ⟨rfl, rfl⟩

theorem partial_loop_inv (env : Ext) (fuel : Nat) :
    ∀ (s s1 : PartialState), InvSim s s1 ∨ InvDone s s1 →
      partial_loop env fuel s1 = Outcome.map invert_top (partial_loop env fuel s) := by
  induction fuel with
  | zero =>
    intro s s1 h
    rcases h with h | ⟨h1, _, h3⟩
    · obtain ⟨e1, e2⟩ := h.not_empty
      unfold partial_loop
      rw [e1, e2]
      rfl
    · subst h3
      unfold partial_loop
      simp only [invert_top, h1, List.isEmpty_nil, if_true, Outcome.map]
  | succ n ih =>
    intro s s1 h
    rcases h with h | ⟨h1, _, h3⟩
    · obtain ⟨e1, e2⟩ := h.not_empty
      unfold partial_loop
      rw [e1, e2]
      simp only [Bool.false_eq_true, if_false]
      have hr := partial_step_inv env s s1 h
      generalize partial_step env s = a at hr ⊢
      generalize partial_step env s1 = b at hr ⊢
      match a, b, hr with
      | none, none, _ => rfl
      | some t, some t1, hr => exact ih t t1 hr
    · subst h3
      unfold partial_loop
      simp only [invert_top, h1, List.isEmpty_nil, if_true, Outcome.map]

/-- The reducer on an inverted reference returns the inverted result of the
reducer on the reference, when the node is not a lambda. -/
theorem partial_aux_invert (fuel : Nat) (env : Ext) (btor : Btor) (exp : Ref)
    (par : Option (Option BtorNode))
    (cs1 cs2 : Option (PtrHashTable BtorParamCacheTuple Ref))
    (hl : exp.node.BTOR_IS_LAMBDA_NODE = false) :
    btor_beta_reduce_partial_aux fuel env btor exp.invert par cs1 cs2 =
      Outcome.map (fun ret => { ret with result := ret.result.invert })
        (btor_beta_reduce_partial_aux fuel env btor exp par cs1 cs2) := by
  unfold btor_beta_reduce_partial_aux
  simp only [Ref.invert_node, hl, Bool.false_eq_true, if_false]
  split
  · rfl
  · split
    · rfl
    · split
      · rfl
      · have hr := partial_loop_inv env fuel
          (partial_init (if btor.rewrite_level > 0 then { btor with rewrite_level := 1 } else btor)
            exp cs1 cs2)
          (partial_init (if btor.rewrite_level > 0 then { btor with rewrite_level := 1 } else btor)
            exp.invert cs1 cs2)
          (Or.inl ⟨[], [], exp, none, rfl, List.Forall₂.nil, rfl⟩)
        rw [hr]
        generalize partial_loop env fuel _ = o
        match o with
        | .abort => rfl
        | .out_of_fuel => rfl
        | .done s =>
          simp only [Outcome.map, invert_top]
          match hA : s.arg_stack, hP : s.param_stack with
          | [], _ => simp only [Outcome.map]
          | [a], [] => simp only [Outcome.map]
          | [a], [q] => simp only [Outcome.map]
          | [a], _ :: _ :: _ => simp only [Outcome.map]
          | _ :: _ :: _, _ => simp only [Outcome.map]

/-! ## The partial reducer: the run on a conditional with a chosen branch -/

theorem collect_selector_congr (b1 b2 : Btor) (e0 : Ref)
    (sel : Option (PtrHashTable BtorParamCacheTuple Ref))
    (h : b1.assigned_exp = b2.assigned_exp) :
    collect_selector b1 e0 sel = collect_selector b2 e0 sel := by
  unfold collect_selector btor_new_param_cache_tuple
  rw [h]

theorem collect_selector_isSome (b : Btor) (e0 : Ref)
    (sel : Option (PtrHashTable BtorParamCacheTuple Ref)) :
    (collect_selector b e0 sel).isSome = sel.isSome := by
  unfold collect_selector
  cases sel with
  | none => rfl
  | some t =>
    simp only
    split <;> rfl

/-- The run on a node whose first visit pushes one reference `next` (and
nothing else) is the run on `next`, started after that visit. -/
theorem partial_aux_follow (fuel : Nat) (env : Ext) (btor : Btor) (cur next : Ref)
    (par : Option (Option BtorNode))
    (cs1 cs2 cs3 cs4 : Option (PtrHashTable BtorParamCacheTuple Ref))
    (hp : cur.node.parameterized = true) (hl : cur.node.BTOR_IS_LAMBDA_NODE = false)
    (hnp : next.node.parameterized = true) (hnl : next.node.BTOR_IS_LAMBDA_NODE = false)
    (h1 : cs3.isSome = cs1.isSome) (h2 : cs4.isSome = cs2.isSome)
    (hstep : ∀ b : Btor, b.assigned_exp = btor.assigned_exp → b.beta_mark = btor.beta_mark →
      partial_step env (partial_init b cur cs1 cs2) =
        some { partial_init { b with log := .visit cur.node :: b.log } next cs3 cs4 with
          stack := [(next, some cur.node)] }) :
    btor_beta_reduce_partial_aux (fuel + 1) env btor cur par cs1 cs2 =
      btor_beta_reduce_partial_aux fuel env { btor with log := .visit cur.node :: btor.log }
        next par cs3 cs4 := by
  unfold btor_beta_reduce_partial_aux
  simp only [h1, h2, hp, hl, hnp, hnl, Bool.not_true, Bool.false_and, Bool.false_eq_true,
    if_false]
  split
  · rfl
  · split
    · rfl
    · have hloop : ∀ b : Btor, b.assigned_exp = btor.assigned_exp →
          b.beta_mark = btor.beta_mark →
          partial_loop env (fuel + 1) (partial_init b cur cs1 cs2) =
            partial_loop env fuel
              (partial_init { b with log := .visit cur.node :: b.log } next cs3 cs4) := by
        intro b hb1 hb2
        have hs := hstep b hb1 hb2
        rw [partial_loop]
        simp only [partial_init, List.isEmpty_cons, Bool.false_eq_true, if_false]
        simp only [partial_init] at hs
        rw [hs]
        exact partial_loop_rel env fuel _ _
          ⟨rfl, List.Forall₂.cons ⟨rfl, Or.inr hnl⟩ List.Forall₂.nil⟩
      by_cases hr : btor.rewrite_level > 0
      · simp only [hr, if_true]
        rw [hloop { btor with rewrite_level := 1 } rfl rfl]
      · simp only [hr, if_false]
        rw [hloop btor rfl rfl]

/-- The run on a node whose first visit pushes one reference `next` (and
nothing else) to a node that is not parameterized and is a function, an args
node or encoded: the second iteration pushes `next` as it is and the call
returns it. -/
theorem partial_aux_emit (fuel : Nat) (env : Ext) (btor : Btor) (cur next : Ref)
    (par : Option (Option BtorNode))
    (cs1 cs2 cs3 cs4 : Option (PtrHashTable BtorParamCacheTuple Ref))
    (hp : cur.node.parameterized = true) (hl : cur.node.BTOR_IS_LAMBDA_NODE = false)
    (hnp : next.node.parameterized = false)
    (hok : (next.node.BTOR_IS_FUN_NODE || next.node.BTOR_IS_ARGS_NODE
      || next.node.info.tseitin) = true)
    (hm : btor.beta_mark next.node = 0)
    (hcs : cs1.isSome = cs2.isSome)
    (hstep : ∀ b : Btor, b.assigned_exp = btor.assigned_exp → b.beta_mark = btor.beta_mark →
      partial_step env (partial_init b cur cs1 cs2) =
        some { partial_init { b with log := .visit cur.node :: b.log } next cs3 cs4 with
          stack := [(next, some cur.node)] }) :
    btor_beta_reduce_partial_aux (fuel + 2) env btor cur par cs1 cs2 =
      .done { result := next
              btor := { btor with log := Event.visit next.node :: Event.visit cur.node :: btor.log }
              parameterized := par.map fun _ => none
              cond_sel1 := cs3
              cond_sel2 := cs4 } := by
  have hloop : ∀ b : Btor, b.assigned_exp = btor.assigned_exp →
      b.beta_mark = btor.beta_mark →
      partial_loop env (fuel + 2) (partial_init b cur cs1 cs2) =
        .done { partial_init { b with log := Event.visit next.node :: Event.visit cur.node :: b.log }
            next cs3 cs4 with
          stack := [], arg_stack := [next], param_stack := [next.node] } := by
    intro b hb1 hb2
    have hs := hstep b hb1 hb2
    simp only [partial_init] at hs
    have hs2 : partial_step env
        ({ btor := { b with log := Event.visit cur.node :: b.log }
           stack := [(next, some cur.node)]
           arg_stack := []
           param_stack := []
           cache := []
           cond_sel1 := cs3
           cond_sel2 := cs4 } : PartialState) =
        some ({ btor := { b with log := Event.visit next.node :: Event.visit cur.node :: b.log }
                stack := []
                arg_stack := [next]
                param_stack := [next.node]
                cache := []
                cond_sel1 := cs3
                cond_sel2 := cs4 } : PartialState) := by
      unfold partial_step
      simp only [PartialState.record, List.length_nil, ne_eq, not_true_eq_false, if_false,
        hb2, hm, if_true]
      unfold partial_start
      simp only [hnp, hok, Bool.not_false, Bool.not_true, if_true, Bool.false_eq_true, if_false]
    cases fuel with
    | zero =>
      simp only [partial_loop, partial_init, List.isEmpty_cons, Bool.false_eq_true, if_false,
        hs, hs2, List.isEmpty_nil, if_true]
    | succ f =>
      simp only [partial_loop, partial_init, List.isEmpty_cons, Bool.false_eq_true, if_false,
        hs, hs2, List.isEmpty_nil, if_true]
  have hcs2 : (cs1.isSome && !cs2.isSome) = false := by rw [hcs]; simp
  have hcs3 : (cs2.isSome && !cs1.isSome) = false := by rw [hcs]; simp
  unfold btor_beta_reduce_partial_aux
  simp only [hcs2, hcs3, hp, hl, Bool.not_true, Bool.false_and, Bool.false_eq_true, if_false]
  by_cases hr : btor.rewrite_level > 0
  · simp only [hr, if_true]
    rw [hloop { btor with rewrite_level := 1 } rfl rfl]
    simp [partial_init, reset_marks, hnp]
  · simp only [hr, if_false]
    rw [hloop btor rfl rfl]
    simp [partial_init, reset_marks, hnp]

/-! ## The full reducer leaves the marks of the partial reducer as they are -/

theorem assign_param_bmark (btor btor1 : Btor) (lambda arg : Ref)
    (h : btor_assign_param btor lambda arg = some btor1) : btor1.beta_mark = btor.beta_mark := by
  unfold btor_assign_param at h
  split at h
  · cases h
  · split at h
    · cases h
    · split at h
      · cases h
      · split at h
        · cases h
        · cases h; rfl

theorem assign_args_loop_bmark (args : List Ref) :
    ∀ (btor btor1 : Btor) (cur : BtorNode),
      btor_assign_args_loop btor cur args = some btor1 → btor1.beta_mark = btor.beta_mark := by
  induction args with
  | nil =>
    intro btor btor1 cur h
    simp [btor_assign_args_loop] at h
    rw [h]
  | cons a rest ih =>
    intro btor btor1 cur h
    unfold btor_assign_args_loop at h
    split at h
    · cases h
    · split at h
      · rename_i b1 body h1 h2
        rw [ih _ _ _ h, assign_param_bmark _ _ _ _ h1]
      · cases h
      · cases h

theorem assign_args_bmark (btor btor1 : Btor) (func args : Ref)
    (h : btor_assign_args btor func args = some btor1) : btor1.beta_mark = btor.beta_mark := by
  unfold btor_assign_args at h
  split at h
  · cases h
  · exact assign_args_loop_bmark _ _ _ _ h

theorem unassign_params_bmark (btor btor1 : Btor) (lambda : Ref)
    (h : btor_unassign_params btor lambda = some btor1) : btor1.beta_mark = btor.beta_mark := by
  unfold btor_unassign_params at h
  split at h
  · cases h
  · split at h
    · cases h
    · split at h
      · cases h
      · split at h
        · cases h
        · cases h; rfl

theorem unassign_label_bmark (n : BtorNode) (s s1 : LoopState)
    (h : unassign_params_label n s = some s1) : s1.btor.beta_mark = s.btor.beta_mark := by
  unfold unassign_params_label at h
  simp only at h
  generalize hs2 : (if s.unassign_stack.head? = some n then
    ({ s with unassign_stack := s.unassign_stack.tail } : LoopState) else s) = s2 at h
  have e2 : s2.btor = s.btor := by
    rw [← hs2]; split <;> rfl
  cases hp : n.e.head? with
  | none => simp [hp] at h
  | some p =>
    simp only [hp] at h
    cases ha : btor_param_cur_assignment s2.btor p with
    | none => simp [ha] at h
    | some o =>
      cases o with
      | none =>
        simp only [ha] at h
        cases h
        rw [e2]
      | some val =>
        simp only [ha] at h
        cases hu : btor_unassign_params s2.btor n.ref with
        | none => simp [hu] at h
        | some b1 =>
          simp only [hu] at h
          cases h
          simp only
          rw [unassign_params_bmark _ _ _ hu, e2]

theorem push_arg_stack_bmark (cur : Ref) (n : BtorNode) (result : Ref) (s s1 : LoopState)
    (h : push_arg_stack cur n result s = some s1) : s1.btor.beta_mark = s.btor.beta_mark := by
  unfold push_arg_stack at h
  split at h
  · cases h
  · simp only at h
    split at h
    · cases h
    · rename_i s2 hs2
      have e2 : s2.btor = s.btor := by
        split at hs2
        · split at hs2
          · cases hs2
          · cases hs2; rfl
        · cases hs2; rfl
      split at h
      · cases h
      · rename_i s4 hs4
        cases h
        simp only [push_arg_stack_without_close_scope]
        split at hs4
        · split at hs4
          · cases hs4
          · rename_i s3 hs3
            rw [unassign_label_bmark _ _ _ hs4, close_scope_btor _ _ hs3, e2]
        · split at hs4
          · rw [unassign_label_bmark _ _ _ hs4, e2]
          · cases hs4; rw [e2]

theorem record_bmark (s : LoopState) (ev : Event) : (s.record ev).btor.beta_mark = s.btor.beta_mark := rfl

theorem rebuild_binary_bmark (op : Ref → Ref → Ref) (k : BtorNodeKind) (e : List Ref)
    (s s1 : LoopState) (r : Ref) (h : rebuild_binary op k e s = some (r, s1)) :
    s1.btor.beta_mark = s.btor.beta_mark := by
  unfold rebuild_binary at h
  split at h
  · cases h; rfl
  · cases h

theorem rebuild_lambda_bmark (n : BtorNode) (e : List Ref) (s s1 : LoopState) (r : Ref)
    (h : rebuild_lambda n e s = some (r, s1)) : s1.btor.beta_mark = s.btor.beta_mark := by
  unfold rebuild_lambda at h
  split at h
  · split at h
    · split at h
      · cases h
      · cases h; rfl
    · split at h
      · cases h
      · split at h
        · cases h
        · cases h; rfl
  · cases h

theorem cache_beta_result_bmark (btor btor1 : Btor) (lambda exp result : Ref)
    (h : cache_beta_result btor lambda exp result = some btor1) :
    btor1.beta_mark = btor.beta_mark := by
  unfold cache_beta_result at h
  split at h
  · cases h
  · split at h
    · cases h
    · split at h
      · split at h
        · cases h; rfl
        · cases h
      · cases h; rfl

theorem rebuild_apply_bmark (env : Ext) (mode : Int) (n : BtorNode) (e : List Ref)
    (s s1 : LoopState) (r : Ref)
    (h : rebuild_apply env mode n e s = some (r, s1)) : s1.btor.beta_mark = s.btor.beta_mark := by
  unfold rebuild_apply at h
  split at h
  · simp only at h
    split at h
    · cases h
    · rename_i result s2 hb
      have e2 : s2.btor.beta_mark = s.btor.beta_mark := by
        split at hb
        · split at hb
          · cases hb
          · cases hb; rfl
        · split at hb
          · cases hb
          · cases hb; rfl
      split at h
      · split at h
        · cases h
        · rename_i b1 hb1
          cases h
          simp only
          rw [cache_beta_result_bmark _ _ _ _ _ hb1, e2]
      · cases h
        exact e2
  · cases h

theorem rebuild_bmark (env : Ext) (mode : Int) (n : BtorNode) (s s1 : LoopState) (r : Ref)
    (h : rebuild env mode n s = some (r, s1)) :
    s1.btor.beta_mark = s.btor.beta_mark := by
  unfold rebuild at h
  split at h
  · cases h
  · simp only at h
    split at h
    any_goals (first
      | exact (rebuild_binary_bmark _ _ _ _ _ _ h :)
      | exact (rebuild_apply_bmark _ _ _ _ _ _ _ h :)
      | exact (rebuild_lambda_bmark _ _ _ _ _ h :)
      | (split at h <;> first | (cases h; rfl) | cases h)
      | cases h)

theorem assign_lambda_bmark (n : BtorNode) (par : Option BtorNode) (se : List Ref)
    (s s1 : LoopState) (h : assign_lambda n par se s = some (.inr s1)) :
    s1.btor.beta_mark = s.btor.beta_mark := by
  unfold assign_lambda at h
  split at h
  · split at h
    · split at h
      · cases h
      · cases h; rfl
      · split at h
        · split at h
          · cases h
          · split at h
            · cases h
            · simp only at h
              split at h
              · cases h
              · cases h
              · split at h
                · cases h
                · rename_i b1 hb
                  cases h
                  exact assign_args_bmark _ _ _ _ hb
        · cases h; rfl
    · cases h
  · cases h; rfl

theorem expand_bmark (env : Ext) (mode bound : Int) (cur : Ref) (par : Option BtorNode)
    (s s1 : LoopState) (h : expand env mode bound cur par s = some s1) :
    s1.btor.beta_mark = s.btor.beta_mark := by
  unfold expand at h
  simp only at h
  split at h
  · cases h
  · split at h
    · split at h
      · cases h
      · exact (push_arg_stack_bmark _ _ _ _ _ h :)
    · split at h
      · exact (push_arg_stack_bmark _ _ _ _ _ h :)
      · split at h
        · exact (push_arg_stack_bmark _ _ _ _ _ h :)
        · split at h
          · split at h
            · cases h
            · exact (push_arg_stack_bmark _ _ _ _ _ h :)
          · split at h
            · cases h
            · exact (push_arg_stack_bmark _ _ _ _ _ h :)
            · rename_i s2 hs2
              cases h
              exact (assign_lambda_bmark _ _ _ _ _ hs2 :)

theorem collect_bmark (env : Ext) (mode bound : Int) (cur : Ref) (s s1 : LoopState)
    (h : collect env mode bound cur s = some s1) :
    s1.btor.beta_mark = s.btor.beta_mark := by
  unfold collect at h
  simp only at h
  split at h
  · exact push_arg_stack_bmark _ _ _ _ _ h
  · split at h
    · cases h
    · rename_i result s2 hr
      rw [push_arg_stack_bmark _ _ _ _ _ h, rebuild_bmark _ _ _ _ _ _ hr]

theorem revisit_bmark (cur : Ref) (s s1 : LoopState) (h : revisit cur s = some s1) :
    s1.btor.beta_mark = s.btor.beta_mark := by
  unfold revisit at h
  simp only at h
  split at h
  · cases h
  · split at h
    · cases h
    · cases h; rfl

theorem step_bmark (env : Ext) (mode bound : Int) (s s1 : LoopState)
    (h : beta_reduce_step env mode bound s = some s1) :
    s1.btor.beta_mark = s.btor.beta_mark := by
  unfold beta_reduce_step at h
  split at h
  · cases h; rfl
  · rename_i cur0 par work hw
    simp only at h
    generalize hs1 : (match PtrHashTable.find (({ s with work_stack := work } : LoopState).record
        (Event.visit (simplify_cur env cur0).node)).cur_scope (simplify_cur env cur0).node with
      | some _ => (({ s with work_stack := work } : LoopState).record
          (Event.visit (simplify_cur env cur0).node))
      | none => _) = s2 at h
    have e2 : s2.btor.beta_mark = s.btor.beta_mark := by
      rw [← hs1]
      split
      · rfl
      · simp only [BETA_REDUCE_OPEN_NEW_SCOPE]
        split <;> rfl
    split at h
    · rw [expand_bmark _ _ _ _ _ _ _ h, e2]
    · rw [collect_bmark _ _ _ _ _ _ h, e2]
    · rw [revisit_bmark _ _ _ h, e2]
    · cases h

theorem loop_bmark (env : Ext) (mode bound : Int) (fuel : Nat) :
    ∀ (s s1 : LoopState), beta_reduce_loop env mode bound fuel s = .done s1 →
      s1.btor.beta_mark = s.btor.beta_mark := by
  induction fuel with
  | zero =>
    intro s s1 h
    unfold beta_reduce_loop at h
    split at h
    · cases h; rfl
    · cases h
  | succ f ih =>
    intro s s1 h
    unfold beta_reduce_loop at h
    split at h
    · cases h; rfl
    · split at h
      · cases h
      · rename_i s2 hs2
        rw [ih _ _ h, step_bmark _ _ _ _ _ hs2]

/-! ## The bounded cut -/

theorem unassign_label_stacks (n : BtorNode) (s s1 : LoopState)
    (h : unassign_params_label n s = some s1) :
    s1.arg_stack = s.arg_stack ∧ s1.work_stack = s.work_stack := by
  unfold unassign_params_label at h
  simp only at h
  generalize hs2 : (if s.unassign_stack.head? = some n then
    ({ s with unassign_stack := s.unassign_stack.tail } : LoopState) else s) = s2 at h
  have e2 : s2.arg_stack = s.arg_stack ∧ s2.work_stack = s.work_stack := by
    rw [← hs2]; split <;> exact ⟨rfl, rfl⟩
  split at h
  · cases h
  · split at h
    · cases h
    · cases h; exact e2
    · split at h
      · cases h
      · cases h; exact e2

theorem close_scope_stacks (s s1 : LoopState) (h : BETA_REDUCE_CLOSE_SCOPE s = some s1) :
    s1.arg_stack = s.arg_stack ∧ s1.work_stack = s.work_stack := by
  unfold BETA_REDUCE_CLOSE_SCOPE at h
  split at h
  · cases h; exact ⟨rfl, rfl⟩
  · cases h

theorem push_arg_stack_stacks (cur : Ref) (n : BtorNode) (result : Ref) (s s1 : LoopState)
    (h : push_arg_stack cur n result s = some s1) :
    s1.arg_stack = cur.cond_invert result :: s.arg_stack ∧ s1.work_stack = s.work_stack := by
  unfold push_arg_stack at h
  split at h
  · cases h
  · simp only at h
    split at h
    · cases h
    · rename_i s2 hs2
      have e2 : s2.arg_stack = s.arg_stack ∧ s2.work_stack = s.work_stack := by
        split at hs2
        · split at hs2
          · cases hs2
          · cases hs2; exact ⟨rfl, rfl⟩
        · cases hs2; exact ⟨rfl, rfl⟩
      split at h
      · cases h
      · rename_i s4 hs4
        cases h
        simp only [push_arg_stack_without_close_scope]
        have e4 : s4.arg_stack = s.arg_stack ∧ s4.work_stack = s.work_stack := by
          split at hs4
          · split at hs4
            · cases hs4
            · rename_i s3 hs3
              obtain ⟨a1, a2⟩ := unassign_label_stacks _ _ _ hs4
              obtain ⟨b1, b2⟩ := close_scope_stacks _ _ hs3
              exact ⟨by rw [a1, b1, e2.1], by rw [a2, b2, e2.2]⟩
          · split at hs4
            · obtain ⟨a1, a2⟩ := unassign_label_stacks _ _ _ hs4
              exact ⟨by rw [a1, e2.1], by rw [a2, e2.2]⟩
            · cases hs4; exact e2
        exact ⟨by rw [e4.1], e4.2⟩

theorem cond_invert_self (cur : Ref) : cur.cond_invert cur.node.ref = cur := by
  obtain ⟨n, v⟩ := cur
  cases v <;> rfl

/-- The first visit of a lambda at a scope depth of at least the bound: the
cut. -/
theorem expand_cut (env : Ext) (mode bound : Int) (cur : Ref) (par : Option BtorNode)
    (s : LoopState) (hl : cur.node.BTOR_IS_LAMBDA_NODE = true) (hb : 1 ≤ bound)
    (hd : bound ≤ (s.scopes.length : Int)) :
    expand env mode bound cur par s =
      if s.cur_scope_lambda ≠ some cur.node then none
      else push_arg_stack cur cur.node cur.node.ref
        { s with cur_scope := PtrHashTable.set s.cur_scope cur.node 1 } := by
  unfold expand
  have h1 : decide (bound > 0) = true := by simp; omega
  have h2 : decide ((s.scopes.length : Int) ≥ bound) = true := by simp; omega
  simp only [hl, Bool.or_true, Bool.not_true, Bool.false_eq_true, if_false, h1, h2,
    Bool.and_self, if_true]

theorem collect_cut (env : Ext) (mode bound : Int) (cur : Ref) (s : LoopState)
    (hl : cur.node.BTOR_IS_LAMBDA_NODE = true) (hb : 1 ≤ bound)
    (hd : bound ≤ (s.scopes.length : Int)) :
    collect env mode bound cur s = push_arg_stack cur cur.node cur.node.ref s := by
  unfold collect
  have h1 : decide (bound > 0) = true := by simp; omega
  have h2 : decide ((s.scopes.length : Int) ≥ bound) = true := by simp; omega
  simp only [hl, h1, h2, Bool.and_self, Bool.or_true, if_true]
theorem step_marked (env : Ext) (mode bound : Int) (s : LoopState) (cur0 cur : Ref)
    (par : Option BtorNode) (w : List (Ref × Option BtorNode)) (k : Nat)
    (h : s.work_stack = (cur0, par) :: w) (hc : simplify_cur env cur0 = cur)
    (hf : PtrHashTable.find s.cur_scope cur.node = some k) :
    beta_reduce_step env mode bound s =
      if k = 0 then expand env mode bound cur par
          (({ s with work_stack := w } : LoopState).record (.visit cur.node))
      else if k = 1 then collect env mode bound cur
          (({ s with work_stack := w } : LoopState).record (.visit cur.node))
      else if k = 2 then
        revisit cur (({ s with work_stack := w } : LoopState).record (.visit cur.node))
      else none := by
  rcases k with _ | _ | _ | k
  · simp [beta_reduce_step, h, hc, LoopState.record, hf]
  · simp [beta_reduce_step, h, hc, LoopState.record, hf]
  · simp [beta_reduce_step, h, hc, LoopState.record, hf]
  · simp only [beta_reduce_step, h, hc, LoopState.record, hf]
    rfl


/-! ## The binding operations on a chain -/

theorem chain_wf_facts (i : NodeInfo) (c0 c1 : BtorNode) (v0 v1 : Bool)
    (h : chain_wf (.n2 i c0 v0 c1 v1) = true) :
    i.kind = .lambda ∧ v0 = false ∧ c0.BTOR_IS_PARAM_NODE = true ∧
      (c1.BTOR_IS_LAMBDA_NODE = true → chain_wf c1 = true) := by
  simp only [chain_wf, Bool.and_eq_true, beq_iff_eq, Bool.not_eq_true'] at h
  obtain ⟨⟨⟨hk, hv⟩, hp⟩, hn⟩ := h
  refine ⟨hk, hv, hp, fun hl => ?_⟩
  simpa [hl] using hn

theorem assign_args_loop_zip (L : BtorNode) :
    ∀ (as : List Ref) (btor : Btor), chain_wf L = true → (chain_params L).Nodup →
      as.length ≤ (chain_params L).length →
      (∀ i p a, (chain_params L).get? i = some p → as.get? i = some a → a.node.len = p.len) →
      ∃ btor1, btor_assign_args_loop btor L as = some btor1 ∧
        (∀ i p a, (chain_params L).get? i = some p → as.get? i = some a →
          btor1.assigned_exp p = a :: btor.assigned_exp p) ∧
        (∀ q, q ∉ (chain_params L).take as.length →
          btor1.assigned_exp q = btor.assigned_exp q) ∧
        btor1.cache = btor.cache ∧ btor1.beta_mark = btor.beta_mark ∧
        btor1.rewrite_level = btor.rewrite_level := by
  induction L with
  | n0 i => intro _ _ h; simp [chain_wf] at h
  | n1 i c0 v0 _ => intro _ _ h; simp [chain_wf] at h
  | n3 i c0 v0 c1 v1 c2 v2 _ _ _ => intro _ _ h; simp [chain_wf] at h
  | n2 i c0 v0 c1 v1 _ ih1 =>
    intro as btor hwf hnd hlen hw
    obtain ⟨hk, hv, hp, hnext⟩ := chain_wf_facts i c0 c1 v0 v1 hwf
    subst hv
    cases as with
    | nil =>
      exact ⟨btor, rfl, by intro i p a _ h; simp at h, fun _ _ => rfl, rfl, rfl, rfl⟩
    | cons a rest =>
      have hwa : a.node.len = c0.len := hw 0 c0 a (by simp [chain_params]) rfl
      have hwa2 : a.node.info.len = c0.info.len := hwa
      have hstep : btor_assign_param btor (BtorNode.n2 i c0 false c1 v1).ref a =
          some { btor with
            assigned_exp := Function.update btor.assigned_exp c0 (a :: btor.assigned_exp c0)
            log := Event.assign c0 a :: btor.log } := by
        simp [btor_assign_param, BtorNode.BTOR_IS_LAMBDA_NODE, hk, BtorNode.e, Ref.regular,
          BtorNode.ref, BtorNode.len, hwa2]
      simp only [chain_params, List.nodup_cons] at hnd
      obtain ⟨hc0, hnd1⟩ := hnd
      by_cases hl : c1.BTOR_IS_LAMBDA_NODE = true
      · simp only [hl, if_true] at hc0 hnd1
        obtain ⟨btor1, h1, h2, h3, h4, h5, h6⟩ := ih1 rest
          { btor with
            assigned_exp := Function.update btor.assigned_exp c0 (a :: btor.assigned_exp c0)
            log := Event.assign c0 a :: btor.log } (hnext hl) hnd1
          (by simpa [chain_params, hl] using hlen)
          (by
            intro j p b hp1 hb1
            exact hw (j + 1) p b (by simpa [chain_params, hl] using hp1) (by simpa using hb1))
        refine ⟨btor1, ?_, ?_, ?_, h4, h5, h6⟩
        · unfold btor_assign_args_loop
          simp only [BtorNode.BTOR_IS_LAMBDA_NODE, BtorNode.kind, info_n2, hk, beq_self_eq_true,
            Bool.not_true, Bool.false_eq_true, if_false, hstep, BtorNode.e]
          exact h1
        · intro j p b hp1 hb1
          cases j with
          | zero =>
            simp only [chain_params, hl, if_true, List.get?_cons_zero, Option.some.injEq] at hp1 hb1
            cases hp1
            cases hb1
            rw [h3 c0 (fun hmem => hc0 (List.mem_of_mem_take hmem))]
            simp
          | succ j =>
            simp only [chain_params, hl, if_true, List.get?_cons_succ] at hp1 hb1
            rw [h2 j p b hp1 hb1]
            have hne : p ≠ c0 := by
              intro h
              subst h
              exact hc0 (List.get?_mem hp1)
            simp [Function.update, hne]
        · intro q hq
          simp only [chain_params, hl, if_true, List.length_cons, List.take_succ_cons,
            List.mem_cons, not_or] at hq
          rw [h3 q hq.2]
          simp [Function.update, hq.1]
      · have hl2 : c1.BTOR_IS_LAMBDA_NODE = false := by simpa using hl
        have hrest : rest = [] := by
          have : rest.length = 0 := by simpa [chain_params, hl2] using hlen
          exact List.length_eq_zero.mp this
        subst hrest
        refine ⟨{ btor with
            assigned_exp := Function.update btor.assigned_exp c0 (a :: btor.assigned_exp c0)
            log := Event.assign c0 a :: btor.log }, ?_, ?_, ?_, rfl, rfl, rfl⟩
        · unfold btor_assign_args_loop
          simp only [BtorNode.BTOR_IS_LAMBDA_NODE, BtorNode.kind, info_n2, hk, beq_self_eq_true,
            Bool.not_true, Bool.false_eq_true, if_false, hstep, BtorNode.e]
          rfl
        · intro j p b hp1 hb1
          cases j with
          | zero =>
            simp only [chain_params, List.get?_cons_zero, Option.some.injEq] at hp1 hb1
            cases hp1
            cases hb1
            simp
          | succ j => simp at hb1
        · intro q hq
          simp only [chain_params, List.length_cons, List.length_nil, List.take_succ_cons,
            List.mem_cons, not_or] at hq
          simp [Function.update, hq.1]

theorem assign_args_loop_too_many (L : BtorNode) :
    ∀ (as : List Ref) (btor : Btor), chain_wf L = true →
      (chain_params L).length < as.length → btor_assign_args_loop btor L as = none := by
  induction L with
  | n0 i => intro _ _ h; simp [chain_wf] at h
  | n1 i c0 v0 _ => intro _ _ h; simp [chain_wf] at h
  | n3 i c0 v0 c1 v1 c2 v2 _ _ _ => intro _ _ h; simp [chain_wf] at h
  | n2 i c0 v0 c1 v1 _ ih1 =>
    intro as btor hwf hlen
    obtain ⟨hk, hv, hp, hnext⟩ := chain_wf_facts i c0 c1 v0 v1 hwf
    cases as with
    | nil => simp at hlen
    | cons a rest =>
      unfold btor_assign_args_loop
      simp only [BtorNode.BTOR_IS_LAMBDA_NODE, BtorNode.kind, info_n2, hk, beq_self_eq_true,
        Bool.not_true, Bool.false_eq_true, if_false, BtorNode.e]
      cases hs : btor_assign_param btor (BtorNode.n2 i c0 v0 c1 v1).ref a with
      | none => rfl
      | some btor1 =>
        simp only [List.get?_cons_succ, List.get?_cons_zero]
        by_cases hl : c1.BTOR_IS_LAMBDA_NODE = true
        · exact ih1 rest btor1 (hnext hl) (by simpa [chain_params, hl] using hlen)
        · have hl2 : c1.BTOR_IS_LAMBDA_NODE = false := by simpa using hl
          cases rest with
          | nil => simp [chain_params, hl2] at hlen
          | cons b rest2 => simp [btor_assign_args_loop, hl2]

theorem forall₂_take_get {α β : Type} (R : α → β → Prop) :
    ∀ (as : List α) (ps : List β), List.Forall₂ R as (ps.take as.length) →
      ∀ i p a, ps.get? i = some p → as.get? i = some a → R a p := by
  intro as
  induction as with
  | nil => intro ps _ i p a _ h; simp at h
  | cons x rest ih =>
    intro ps h i p a hp ha
    cases ps with
    | nil => simp at hp
    | cons q ps =>
      simp only [List.length_cons, List.take_succ_cons, List.forall₂_cons] at h
      cases i with
      | zero =>
        simp only [List.get?_cons_zero, Option.some.injEq] at hp ha
        subst hp ha
        exact h.1
      | succ i =>
        simp only [List.get?_cons_succ] at hp ha
        exact ih ps h.2 i p a hp ha

theorem takeWhile_congr {α : Type} (f g : α → Bool) :
    ∀ (l : List α), (∀ x, x ∈ l → f x = g x) → l.takeWhile f = l.takeWhile g := by
  intro l
  induction l with
  | nil => intro _; rfl
  | cons x rest ih =>
    intro h
    simp only [List.takeWhile_cons, h x (by simp)]
    rw [ih (fun y hy => h y (by simp [hy]))]

theorem mem_of_mem_takeWhile {α : Type} (f : α → Bool) (x : α) :
    ∀ (l : List α), x ∈ l.takeWhile f → x ∈ l := by
  intro l
  induction l with
  | nil => intro h; simp at h
  | cons y rest ih =>
    intro h
    simp only [List.takeWhile_cons] at h
    split at h
    · simp only [List.mem_cons] at h ⊢
      rcases h with h | h
      · exact Or.inl h
      · exact Or.inr (ih h)
    · simp at h

theorem unassign_loop_spec (L : BtorNode) :
    ∀ (assigned : BtorNode → List Ref), chain_wf L = true → (chain_params L).Nodup →
      btor_unassign_params_loop assigned L
        = some (pop_bindings assigned (bound_levels assigned L)) := by
  induction L with
  | n0 i => intro _ h; simp [chain_wf] at h
  | n1 i c0 v0 _ => intro _ h; simp [chain_wf] at h
  | n3 i c0 v0 c1 v1 c2 v2 _ _ _ => intro _ h; simp [chain_wf] at h
  | n2 i c0 v0 c1 v1 _ ih1 =>
    intro assigned hwf hnd
    obtain ⟨hk, hv, hp, hnext⟩ := chain_wf_facts i c0 c1 v0 v1 hwf
    simp only [chain_params, List.nodup_cons] at hnd
    obtain ⟨hc0, hnd1⟩ := hnd
    unfold btor_unassign_params_loop
    by_cases he : (assigned c0).isEmpty = true
    · simp only [he, if_true]
      congr 1
      funext q
      simp [pop_bindings, bound_levels, chain_params, List.takeWhile_cons, he]
    · have he2 : (assigned c0).isEmpty = false := by simpa using he
      simp only [he2, Bool.false_eq_true, if_false]
      by_cases hl : c1.BTOR_IS_LAMBDA_NODE = true
      · simp only [hl, if_true] at hc0 hnd1 ⊢
        rw [ih1 _ (hnext hl) hnd1]
        have hcongr : bound_levels (Function.update assigned c0 (assigned c0).tail) c1
            = bound_levels assigned c1 := by
          unfold bound_levels
          apply takeWhile_congr
          intro x hx
          have hne : x ≠ c0 := fun h => hc0 (h ▸ hx)
          simp [Function.update, hne]
        rw [hcongr]
        congr 1
        funext q
        simp only [pop_bindings, bound_levels, chain_params, hl, if_true, List.takeWhile_cons,
          he2, Bool.not_false, List.mem_cons]
        by_cases hq : q = c0
        · subst hq
          have hnot : q ∉ List.takeWhile (fun p => !(assigned p).isEmpty) (chain_params c1) :=
            fun h => hc0 (mem_of_mem_takeWhile _ _ _ h)
          simp [hnot]
        · simp [hq, Function.update]
      · have hl2 : c1.BTOR_IS_LAMBDA_NODE = false := by simpa using hl
        simp only [hl2, Bool.false_eq_true, if_false]
        congr 1
        funext q
        simp only [pop_bindings, bound_levels, chain_params, hl2, Bool.false_eq_true, if_false,
          List.takeWhile_cons, he2, Bool.not_false, List.takeWhile_nil, List.mem_singleton]
        by_cases hq : q = c0
        · subst hq; simp
        · simp [hq, Function.update]

theorem takeWhile_split {α : Type} (f : α → Bool) :
    ∀ (l : List α), ∃ rest, l = l.takeWhile f ++ rest ∧
      (∀ x, x ∈ l.takeWhile f → f x = true) ∧ ∀ x, rest.head? = some x → f x = false := by
  intro l
  induction l with
  | nil => exact ⟨[], rfl, by simp, by simp⟩
  | cons y tl ih =>
    obtain ⟨rest, h1, h2, h3⟩ := ih
    by_cases hy : f y = true
    · refine ⟨rest, ?_, ?_, h3⟩
      · simp only [List.takeWhile_cons, hy, if_true, List.cons_append]
        rw [← h1]
      · intro x hx
        simp only [List.takeWhile_cons, hy, if_true, List.mem_cons] at hx
        rcases hx with hx | hx
        · rw [hx]; exact hy
        · exact h2 x hx
    · have hy2 : f y = false := by simpa using hy
      refine ⟨y :: tl, ?_, ?_, ?_⟩
      · simp [List.takeWhile_cons, hy2]
      · intro x hx
        simp [List.takeWhile_cons, hy2] at hx
      · intro x hx
        simp only [List.head?_cons, Option.some.injEq] at hx
        rw [← hx]; exact hy2

/-! ## The rebuild switches and the positional order of the results -/

theorem partial_switch_construct (env : Ext) (n : BtorNode) (s : PartialState)
    (rs : List Ref) (ps : List BtorNode) (hshape : op_shape n = true)
    (hlen : rs.length = n.arity) :
    partial_switch env n rs.reverse ps s =
      some (construct env n rs, n, s.record (.rewrite n.kind s.btor.rewrite_level)) := by
  cases n with
  | n0 i => simp [op_shape] at hshape
  | n1 i c0 v0 =>
    obtain ⟨r0, rfl⟩ : ∃ r0, rs = [r0] := by
      match rs, hlen with
      | [r0], _ => exact ⟨r0, rfl⟩
    simp only [op_shape, Bool.or_eq_true, beq_iff_eq] at hshape
    rcases hshape with h | h <;>
      simp [partial_switch, partial_call, construct, BtorNode.kind, h]
  | n2 i c0 v0 c1 v1 =>
    obtain ⟨r0, r1, rfl⟩ : ∃ r0 r1, rs = [r0, r1] := by
      match rs, hlen with
      | [r0, r1], _ => exact ⟨r0, r1, rfl⟩
    simp only [op_shape, binary_kind, Bool.or_eq_true, beq_iff_eq] at hshape
    rcases hshape with ((((((((((h | h) | h) | h) | h) | h) | h) | h) | h) | h) | h) | h <;>
      simp [partial_switch, partial_call, construct, BtorNode.kind, h]
  | n3 i c0 v0 c1 v1 c2 v2 =>
    obtain ⟨r0, r1, r2, rfl⟩ : ∃ r0 r1 r2, rs = [r0, r1, r2] := by
      match rs, hlen with
      | [r0, r1, r2], _ => exact ⟨r0, r1, r2, rfl⟩
    simp only [op_shape, Bool.or_eq_true, beq_iff_eq] at hshape
    rcases hshape with h | h <;>
      simp [partial_switch, partial_call, construct, BtorNode.kind, h]

theorem op_shape_arity_pos (n : BtorNode) (h : op_shape n = true) : 1 ≤ n.arity := by
  cases n with
  | n0 i => simp [op_shape] at h
  | n1 i c0 v0 => simp [BtorNode.arity, BtorNode.e]
  | n2 i c0 v0 c1 v1 => simp [BtorNode.arity, BtorNode.e]
  | n3 i c0 v0 c1 v1 c2 v2 => simp [BtorNode.arity, BtorNode.e]

/-- The post-order visit of the partial reducer at an operation: the
constructor of the kind is called on the results in positional order. -/
theorem partial_rebuild_construct (env : Ext) (cur : Ref) (s : PartialState)
    (rs rest : List Ref) (os prest : List BtorNode)
    (hshape : op_shape cur.node = true) (hpar : cur.node.parameterized = true)
    (hlen : rs.length = cur.node.arity) (hlen2 : os.length = cur.node.arity)
    (hst : s.arg_stack = rs ++ rest) (hps : s.param_stack = os ++ prest)
    (hmemo : PtrHashTable.find s.cache (btor_new_param_cache_tuple s.btor cur.node) = none) :
    partial_rebuild env cur s =
      some { s with
        btor := { s.btor with
          beta_mark := Function.update s.btor.beta_mark cur.node 2
          log := .rewrite cur.node.kind s.btor.rewrite_level :: s.btor.log }
        arg_stack := cur.cond_invert (construct env cur.node rs) :: rest
        param_stack := cur.node :: prest
        cache := PtrHashTable.set s.cache (btor_new_param_cache_tuple s.btor cur.node)
          (construct env cur.node rs, cur.node) } := by
  obtain ⟨-, -, -, -, k5⟩ := op_shape_kind cur.node hshape
  have hpos := op_shape_arity_pos cur.node hshape
  have h1 : ¬ cur.node.arity < 1 := by omega
  have h2 : ¬ s.arg_stack.length < cur.node.arity := by
    rw [hst, List.length_append]; omega
  have ht : (s.arg_stack.take cur.node.arity) = rs := by
    rw [hst, ← hlen, List.take_left]
  have hd : (s.arg_stack.drop cur.node.arity) = rest := by
    rw [hst, ← hlen, List.drop_left]
  have hd2 : (s.param_stack.drop cur.node.arity) = prest := by
    rw [hps, ← hlen2, List.drop_left]
  unfold partial_rebuild
  simp only [hpar, Bool.not_true, Bool.false_eq_true, if_false, h1, h2, ht, hd, hd2]
  rw [partial_switch_construct env cur.node _ rs _ hshape hlen]
  simp only [PartialState.record]
  have hm2 : PtrHashTable.find s.cache
      (btor_new_param_cache_tuple
        { s.btor with
          beta_mark := Function.update s.btor.beta_mark cur.node 2
          log := .rewrite cur.node.kind s.btor.rewrite_level :: s.btor.log } cur.node)
      = none := hmemo
  simp only [hm2, Option.isSome_none, Bool.false_eq_true, if_false, k5, partial_push_result]
  rfl

/-- The rebuild of an apply whose function child was reduced to a function
node: `btor_apply_exp_node` on the result of the function child and the
result of the args child. -/
theorem rebuild_apply_order (env : Ext) (mode : Int) (n : BtorNode) (s : LoopState)
    (fn rf ra : Ref) (rest : List Ref)
    (hk : n.kind = .apply) (har : n.arity = 2) (hfn : n.e.head? = some fn)
    (hst : s.arg_stack = rf :: ra :: rest)
    (hrf : rf.node.BTOR_IS_FUN_NODE = true) (hra : ra.node.BTOR_IS_ARGS_NODE = true)
    (hc : s.btor.cache = none ∨ mode ≠ BETA_RED_FULL) :
    rebuild env mode n s =
      some (env.apply_exp_node rf ra,
        { s with
          arg_stack := rest
          btor := { s.btor with log := Event.construct .apply :: s.btor.log } }) := by
  have hcond : (s.btor.cache.isSome && (mode == BETA_RED_FULL)) = false := by
    rcases hc with h | h
    · simp [h]
    · have : (mode == BETA_RED_FULL) = false := by simpa using h
      simp [this]
  unfold rebuild
  simp only [hst, har, List.length_cons, hk, rebuild_apply, hfn]
  simp [hrf, hra, LoopState.record, hcond]

theorem partial_rebuild_apply_order (env : Ext) (cur : Ref) (s : PartialState)
    (rf ra : Ref) (rest : List Ref) (o0 o1 : BtorNode) (prest : List BtorNode)
    (hk : cur.node.kind = .apply) (har : cur.node.arity = 2)
    (hpar : cur.node.parameterized = true)
    (hst : s.arg_stack = rf :: ra :: rest) (hps : s.param_stack = o0 :: o1 :: prest)
    (hrf : rf.node.BTOR_IS_FUN_NODE = true)
    (hmemo : PtrHashTable.find s.cache (btor_new_param_cache_tuple s.btor cur.node) = none) :
    partial_rebuild env cur s =
      some { s with
        btor := { s.btor with
          beta_mark := Function.update s.btor.beta_mark cur.node 2
          log := .rewrite .apply s.btor.rewrite_level :: s.btor.log }
        arg_stack := cur.cond_invert (env.apply_exp_node rf ra) :: rest
        param_stack := cur.node :: prest
        cache := PtrHashTable.set s.cache (btor_new_param_cache_tuple s.btor cur.node)
          (env.apply_exp_node rf ra, cur.node) } := by
  have hl : cur.node.BTOR_IS_LAMBDA_NODE = false := by
    simp [BtorNode.BTOR_IS_LAMBDA_NODE, hk]
  unfold partial_rebuild
  simp only [hpar, Bool.not_true, Bool.false_eq_true, if_false, har, hst, hps,
    List.length_cons]
  simp only [partial_switch, hk, List.take, List.reverse_cons, List.reverse_nil,
    List.nil_append, List.cons_append, hrf, if_true, partial_call, PartialState.record]
  have hm2 : PtrHashTable.find s.cache
      (btor_new_param_cache_tuple
        { s.btor with
          beta_mark := Function.update s.btor.beta_mark cur.node 2
          log := .rewrite .apply s.btor.rewrite_level :: s.btor.log } cur.node)
      = none := hmemo
  simp only [hm2, Option.isSome_none, Bool.false_eq_true, if_false, hl, partial_push_result]
  rfl

/-! ## Effect of one iteration on the scope tables -/

theorem sameScopes_refl (s : LoopState) : SameScopes s s := ⟨rfl, rfl, rfl, rfl, rfl⟩

theorem sameScopes_trans {s s1 s2 : LoopState} (h1 : SameScopes s s1) (h2 : SameScopes s1 s2) :
    SameScopes s s2 := by
  obtain ⟨a1, a2, a3, a4, a5⟩ := h1
  obtain ⟨b1, b2, b3, b4, b5⟩ := h2
  exact ⟨b1.trans a1, b2.trans a2, b3.trans a3, b4.trans a4, b5.trans a5⟩

theorem marksForward_refl (t : PtrHashTable BtorNode Nat) : MarksForward t t :=
  fun _ k h => ⟨k, h, Nat.le_refl k⟩

theorem marksForward_trans {t t1 t2 : PtrHashTable BtorNode Nat} (h1 : MarksForward t t1)
    (h2 : MarksForward t1 t2) : MarksForward t t2 := by
  intro n k h
  obtain ⟨k1, e1, l1⟩ := h1 n k h
  obtain ⟨k2, e2, l2⟩ := h2 n k1 e1
  exact ⟨k2, e2, Nat.le_trans l1 l2⟩

theorem marksForward_set (t : PtrHashTable BtorNode Nat) (n : BtorNode) (v : Nat)
    (h : ∀ k, PtrHashTable.find t n = some k → k ≤ v) :
    MarksForward t (PtrHashTable.set t n v) := by
  intro m k hm
  by_cases e : m = n
  · subst e
    exact ⟨v, PtrHashTable.find_set_self t m v, h k hm⟩
  · exact ⟨k, by rw [PtrHashTable.find_set_other t n m v (Ne.symm e)]; exact hm, Nat.le_refl k⟩

theorem unassign_label_scopes (n : BtorNode) (s s1 : LoopState)
    (h : unassign_params_label n s = some s1) : SameScopes s s1 := by
  unfold unassign_params_label at h
  simp only at h
  generalize hs2 : (if s.unassign_stack.head? = some n then
    ({ s with unassign_stack := s.unassign_stack.tail } : LoopState) else s) = s2 at h
  have e2 : SameScopes s s2 := by
    rw [← hs2]; split <;> exact ⟨rfl, rfl, rfl, rfl, rfl⟩
  split at h
  · cases h
  · split at h
    · cases h
    · cases h; exact e2
    · split at h
      · cases h
      · cases h; exact e2

theorem rebuild_binary_scopes (op : Ref → Ref → Ref) (k : BtorNodeKind) (e : List Ref)
    (s s1 : LoopState) (r : Ref) (h : rebuild_binary op k e s = some (r, s1)) :
    SameScopes s s1 := by
  unfold rebuild_binary at h
  split at h
  · cases h; exact ⟨rfl, rfl, rfl, rfl, rfl⟩
  · cases h

theorem rebuild_lambda_scopes (n : BtorNode) (e : List Ref) (s s1 : LoopState) (r : Ref)
    (h : rebuild_lambda n e s = some (r, s1)) : SameScopes s s1 := by
  unfold rebuild_lambda at h
  split at h
  · split at h
    · split at h
      · cases h
      · cases h; exact sameScopes_refl _
    · split at h
      · cases h
      · split at h
        · cases h
        · cases h; exact sameScopes_refl _
  · cases h

theorem rebuild_apply_scopes (env : Ext) (mode : Int) (n : BtorNode) (e : List Ref)
    (s s1 : LoopState) (r : Ref)
    (h : rebuild_apply env mode n e s = some (r, s1)) : SameScopes s s1 := by
  unfold rebuild_apply at h
  split at h
  · simp only at h
    split at h
    · cases h
    · rename_i result s2 hb
      have e2 : SameScopes s s2 := by
        split at hb
        · split at hb
          · cases hb
          · cases hb; exact sameScopes_refl _
        · split at hb
          · cases hb
          · cases hb; exact ⟨rfl, rfl, rfl, rfl, rfl⟩
      split at h
      · split at h
        · cases h
        · cases h
          exact e2
      · cases h
        exact e2
  · cases h

theorem rebuild_scopes (env : Ext) (mode : Int) (n : BtorNode) (s s1 : LoopState) (r : Ref)
    (h : rebuild env mode n s = some (r, s1)) : SameScopes s s1 := by
  unfold rebuild at h
  split at h
  · cases h
  · simp only at h
    split at h
    any_goals (first
      | exact (rebuild_binary_scopes _ _ _ _ _ _ h :)
      | exact (rebuild_apply_scopes _ _ _ _ _ _ _ h :)
      | exact (rebuild_lambda_scopes _ _ _ _ _ h :)
      | (split at h <;> first | (cases h; exact ⟨rfl, rfl, rfl, rfl, rfl⟩) | cases h)
      | cases h)

theorem assign_lambda_scopes (n : BtorNode) (par : Option BtorNode) (se : List Ref)
    (s s1 : LoopState) (h : assign_lambda n par se s = some (.inr s1)) :
    SameScopes s s1 := by
  unfold assign_lambda at h
  split at h
  · split at h
    · split at h
      · cases h
      · cases h; exact sameScopes_refl _
      · split at h
        · split at h
          · cases h
          · split at h
            · cases h
            · simp only at h
              split at h
              · cases h
              · cases h
              · split at h
                · cases h
                · cases h
                  exact ⟨rfl, rfl, rfl, rfl, rfl⟩
        · cases h; exact sameScopes_refl _
    · cases h
  · cases h; exact sameScopes_refl _

theorem push_arg_stack_checked (cur : Ref) (n : BtorNode) (result : Ref) (s : LoopState) :
    push_arg_stack cur n result s =
      if PtrHashTable.find s.cur_scope n = some 2 then none
      else push_arg_stack_unchecked cur n result s := rfl

theorem push_arg_stack_unchecked_eq (cur : Ref) (n : BtorNode) (result : Ref) (s : LoopState)
    (h : PtrHashTable.find s.cur_scope n = some 1) :
    push_arg_stack cur n result s = push_arg_stack_unchecked cur n result s := by
  rw [push_arg_stack_checked]
  simp [h]

/-- The effect of the emit label on the scope tables: it writes the mark 2 in
the current table, and closes the scope when the node is the scope lambda. -/
theorem push_arg_stack_effect (cur : Ref) (n : BtorNode) (result : Ref) (s s1 : LoopState)
    (h : push_arg_stack cur n result s = some s1) :
    s1.work_stack = s.work_stack ∧ PtrHashTable.find s.cur_scope n ≠ some 2 ∧
    ((s.cur_scope_lambda ≠ some n ∧ s1.cur_scope = PtrHashTable.set s.cur_scope n 2 ∧
        s1.scopes = s.scopes ∧ s1.scope_lambdas = s.scope_lambdas ∧
        s1.cur_scope_lambda = s.cur_scope_lambda) ∨
     (s.cur_scope_lambda = some n ∧ s.scopes = s1.cur_scope :: s1.scopes ∧
        s.scope_lambdas = s1.cur_scope_lambda :: s1.scope_lambdas)) := by
  unfold push_arg_stack at h
  split at h
  · cases h
  · rename_i hm
    simp only at h
    split at h
    · cases h
    · rename_i s2 hs2
      have e2 : s2.cur_scope = PtrHashTable.set s.cur_scope n 2 ∧ s2.scopes = s.scopes ∧
          s2.scope_lambdas = s.scope_lambdas ∧ s2.cur_scope_lambda = s.cur_scope_lambda ∧
          s2.work_stack = s.work_stack := by
        split at hs2
        · split at hs2
          · cases hs2
          · cases hs2; exact ⟨rfl, rfl, rfl, rfl, rfl⟩
        · cases hs2; exact ⟨rfl, rfl, rfl, rfl, rfl⟩
      obtain ⟨c1, c2, c3, c4, c5⟩ := e2
      split at h
      · cases h
      · rename_i s4 hs4
        cases h
        simp only [push_arg_stack_without_close_scope]
        split at hs4
        · rename_i hcl
          split at hs4
          · cases hs4
          · rename_i s3 hs3
            obtain ⟨a1, a2, a3, a4, a5⟩ := unassign_label_scopes _ _ _ hs4
            unfold BETA_REDUCE_CLOSE_SCOPE at hs3
            split at hs3
            · rename_i l sc scs sr srs sl sls hl hsc hsr hsl
              cases hs3
              simp only at a1 a2 a3 a4 a5
              refine ⟨by rw [a5, c5], hm, Or.inr ⟨by rw [← c4]; exact hcl, ?_, ?_⟩⟩
              · rw [a1, a2, ← c2]; exact hsc
              · rw [a3, a4, ← c3]; exact hsl
            · cases hs3
        · rename_i hcl
          have hcl2 : s.cur_scope_lambda ≠ some n := by rw [← c4]; exact hcl
          split at hs4
          · obtain ⟨a1, a2, a3, a4, a5⟩ := unassign_label_scopes _ _ _ hs4
            exact ⟨by rw [a5, c5], hm, Or.inl ⟨hcl2, by rw [a1, c1], by rw [a2, c2],
              by rw [a3, c3], by rw [a4, c4]⟩⟩
          · cases hs4
            exact ⟨c5, hm, Or.inl ⟨hcl2, c1, c2, c3, c4⟩⟩

/-- The first visit either emits the node, from the state in which its mark is
1, or writes the mark 1 and pushes the node and its children on the work
stack. -/
theorem expand_effect (env : Ext) (mode bound : Int) (cur : Ref) (par : Option BtorNode)
    (s s1 : LoopState) (h : expand env mode bound cur par s = some s1) :
    (∃ r, push_arg_stack cur cur.node r
        { s with cur_scope := PtrHashTable.set s.cur_scope cur.node 1 } = some s1) ∨
    (s1.cur_scope = PtrHashTable.set s.cur_scope cur.node 1 ∧ s1.scopes = s.scopes ∧
      s1.scope_lambdas = s.scope_lambdas ∧ s1.cur_scope_lambda = s.cur_scope_lambda ∧
      s1.work_stack =
        ((cur.node.e.map env.simplify).reverse.map fun c => (c, some cur.node))
          ++ (cur, par) :: s.work_stack) := by
  unfold expand at h
  simp only at h
  split at h
  · cases h
  · split at h
    · split at h
      · cases h
      · exact Or.inl ⟨_, h⟩
    · split at h
      · exact Or.inl ⟨_, h⟩
      · split at h
        · exact Or.inl ⟨_, h⟩
        · split at h
          · split at h
            · cases h
            · exact Or.inl ⟨_, h⟩
          · split at h
            · cases h
            · exact Or.inl ⟨_, h⟩
            · rename_i s2 hs2
              cases h
              obtain ⟨a1, a2, a3, a4, a5⟩ := assign_lambda_scopes _ _ _ _ _ hs2
              simp only at a1 a2 a3 a4 a5
              exact Or.inr ⟨a1, a2, a3, a4, by simp only [a5]⟩

theorem collect_effect (env : Ext) (mode bound : Int) (cur : Ref) (s s1 : LoopState)
    (h : collect env mode bound cur s = some s1) :
    ∃ r s2, SameScopes s s2 ∧ push_arg_stack cur cur.node r s2 = some s1 := by
  unfold collect at h
  simp only at h
  split at h
  · exact ⟨_, s, sameScopes_refl s, h⟩
  · split at h
    · cases h
    · rename_i result s2 hr
      exact ⟨result, s2, rebuild_scopes _ _ _ _ _ _ hr, h⟩

theorem revisit_effect (cur : Ref) (s s1 : LoopState) (h : revisit cur s = some s1) :
    SameScopes s s1 ∧ s1.cur_scope_results = s.cur_scope_results ∧
      s1.scope_results = s.scope_results ∧ s1.btor = s.btor ∧
      s1.unassign_stack = s.unassign_stack := by
  unfold revisit at h
  simp only at h
  split at h
  · cases h
  · split at h
    · cases h
    · cases h; exact ⟨⟨rfl, rfl, rfl, rfl, rfl⟩, rfl, rfl, rfl, rfl⟩

theorem expand_unchecked_eq (env : Ext) (mode bound : Int) (cur : Ref) (par : Option BtorNode)
    (s : LoopState) :
    expand_unchecked env mode bound cur par s = expand env mode bound cur par s := by
  have h : ∀ r, push_arg_stack cur cur.node r
      { s with cur_scope := PtrHashTable.set s.cur_scope cur.node 1 } =
      push_arg_stack_unchecked cur cur.node r
        { s with cur_scope := PtrHashTable.set s.cur_scope cur.node 1 } :=
    fun r => push_arg_stack_unchecked_eq cur cur.node r _ (PtrHashTable.find_set_self _ _ _)
  unfold expand expand_unchecked
  simp only [h]

theorem collect_unchecked_eq (env : Ext) (mode bound : Int) (cur : Ref) (s : LoopState)
    (hm : PtrHashTable.find s.cur_scope cur.node = some 1) :
    collect_unchecked env mode bound cur s = collect env mode bound cur s := by
  unfold collect collect_unchecked
  simp only
  split
  · exact (push_arg_stack_unchecked_eq cur cur.node _ s hm).symm
  · cases hr : rebuild env mode cur.node s with
    | none => rfl
    | some p =>
      obtain ⟨result, s2⟩ := p
      simp only
      have e := (rebuild_scopes _ _ _ _ _ _ hr).1
      exact (push_arg_stack_unchecked_eq cur cur.node _ s2 (by rw [e]; exact hm)).symm

theorem step_unchecked_eq (env : Ext) (mode bound : Int) (s : LoopState) :
    beta_reduce_step_unchecked env mode bound s = beta_reduce_step env mode bound s := by
  unfold beta_reduce_step beta_reduce_step_unchecked
  split
  · rfl
  · simp only
    split
    · exact expand_unchecked_eq _ _ _ _ _ _
    · rename_i hf
      exact collect_unchecked_eq _ _ _ _ _ hf
    · rfl
    · rfl

/-- The effect of one iteration on the scope tables: the stack of saved tables
is kept and the current table is kept or gets one mark 1 or 2 that is not
smaller than the one it had; or the current table is saved and a new table
with the mark 1 of the scope lambda is opened; or the current table is deleted
and the table saved last is the current one again. -/
theorem step_scope_effect (env : Ext) (mode bound : Int) (s s1 : LoopState)
    (h : beta_reduce_step env mode bound s = some s1) :
    (s1.scopes = s.scopes ∧ s1.scope_lambdas = s.scope_lambdas ∧
      s1.cur_scope_lambda = s.cur_scope_lambda ∧
      (s1.cur_scope = s.cur_scope ∨
        ∃ n v, (v = 1 ∨ v = 2) ∧ (∀ k, PtrHashTable.find s.cur_scope n = some k → k ≤ v) ∧
          s1.cur_scope = PtrHashTable.set s.cur_scope n v)) ∨
    (s1.scopes = s.cur_scope :: s.scopes ∧ s1.scope_lambdas = s.cur_scope_lambda :: s.scope_lambdas
      ∧ ∃ n, s1.cur_scope = [(n, 1)] ∧ s1.cur_scope_lambda = some n) ∨
    (s.scopes = s1.cur_scope :: s1.scopes ∧
      s.scope_lambdas = s1.cur_scope_lambda :: s1.scope_lambdas) := by
  cases hw : s.work_stack with
  | nil =>
    rw [step_of_empty env mode bound s hw] at h
    cases h
    exact Or.inl ⟨rfl, rfl, rfl, Or.inl rfl⟩
  | cons a w =>
    obtain ⟨cur0, par⟩ := a
    generalize hc : simplify_cur env cur0 = cur at *
    cases hf : PtrHashTable.find s.cur_scope cur.node with
    | none =>
      by_cases ho : opens_scope cur.node = true
      · rw [step_unmarked_open env mode bound s cur0 cur par w hw hc hf ho] at h
        rcases expand_effect _ _ _ _ _ _ _ h with ⟨r, hp⟩ | ⟨a1, a2, a3, a4, a5⟩
        · obtain ⟨-, -, hcase⟩ := push_arg_stack_effect _ _ _ _ _ hp
          rcases hcase with ⟨hne, -⟩ | ⟨-, b2, b3⟩
          · exact absurd rfl hne
          · simp only [LoopState.record] at b2 b3
            injection b2 with b2a b2b
            injection b3 with b3a b3b
            exact Or.inl ⟨b2b.symm, b3b.symm, b3a.symm, Or.inl b2a.symm⟩
        · simp only [LoopState.record] at a1 a2 a3 a4
          refine Or.inr (Or.inl ⟨a2, a3, cur.node, ?_, a4⟩)
          rw [a1]
          simp [PtrHashTable.set]
      · have ho2 : opens_scope cur.node = false := by simpa using ho
        rw [step_unmarked env mode bound s cur0 cur par w hw hc hf ho2] at h
        have hle : ∀ (v k : Nat), PtrHashTable.find s.cur_scope cur.node = some k → k ≤ v := by
          intro v k hk; rw [hf] at hk; cases hk
        rcases expand_effect _ _ _ _ _ _ _ h with ⟨r, hp⟩ | ⟨a1, a2, a3, a4, a5⟩
        · obtain ⟨-, -, hcase⟩ := push_arg_stack_effect _ _ _ _ _ hp
          rcases hcase with ⟨-, b1, b2, b3, b4⟩ | ⟨-, b2, b3⟩
          · simp only [LoopState.record, PtrHashTable.set_set] at b1 b2 b3 b4
            exact Or.inl ⟨b2, b3, b4, Or.inr ⟨cur.node, 2, Or.inr rfl, hle 2, b1⟩⟩
          · exact Or.inr (Or.inr ⟨b2, b3⟩)
        · simp only [LoopState.record, PtrHashTable.set_set] at a1 a2 a3 a4
          exact Or.inl ⟨a2, a3, a4, Or.inr ⟨cur.node, 1, Or.inl rfl, hle 1, a1⟩⟩
    | some k =>
      rw [step_marked env mode bound s cur0 cur par w k hw hc hf] at h
      split at h
      · rename_i hk
        subst hk
        have hle : ∀ (v k : Nat), PtrHashTable.find s.cur_scope cur.node = some k → k ≤ v := by
          intro v k hk; rw [hf] at hk; cases hk; exact Nat.zero_le v
        rcases expand_effect _ _ _ _ _ _ _ h with ⟨r, hp⟩ | ⟨a1, a2, a3, a4, a5⟩
        · obtain ⟨-, -, hcase⟩ := push_arg_stack_effect _ _ _ _ _ hp
          rcases hcase with ⟨-, b1, b2, b3, b4⟩ | ⟨-, b2, b3⟩
          · simp only [LoopState.record, PtrHashTable.set_set] at b1 b2 b3 b4
            exact Or.inl ⟨b2, b3, b4, Or.inr ⟨cur.node, 2, Or.inr rfl, hle 2, b1⟩⟩
          · exact Or.inr (Or.inr ⟨b2, b3⟩)
        · simp only [LoopState.record] at a1 a2 a3 a4
          exact Or.inl ⟨a2, a3, a4, Or.inr ⟨cur.node, 1, Or.inl rfl, hle 1, a1⟩⟩
      · split at h
        · rename_i hk
          subst hk
          obtain ⟨r, s2, ⟨c1, c2, c3, c4, c5⟩, hp⟩ := collect_effect _ _ _ _ _ _ h
          simp only [LoopState.record] at c1 c2 c3 c4
          obtain ⟨-, -, hcase⟩ := push_arg_stack_effect _ _ _ _ _ hp
          rcases hcase with ⟨-, b1, b2, b3, b4⟩ | ⟨-, b2, b3⟩
          · rw [c1] at b1
            rw [c2] at b2
            rw [c3] at b3
            rw [c4] at b4
            refine Or.inl ⟨b2, b3, b4, Or.inr ⟨cur.node, 2, Or.inr rfl, ?_, b1⟩⟩
            intro k hk; rw [hf] at hk; cases hk; exact Nat.le_succ 1
          · rw [c2] at b2
            rw [c3] at b3
            exact Or.inr (Or.inr ⟨b2, b3⟩)
        · split at h
          · obtain ⟨⟨c1, c2, c3, c4, c5⟩, -⟩ := revisit_effect _ _ _ h
            simp only [LoopState.record] at c1 c2 c3 c4
            exact Or.inl ⟨c2, c3, c4, Or.inl c1⟩
          · cases h

theorem marksSettled_set (t : PtrHashTable BtorNode Nat) (n : BtorNode) (v : Nat)
    (hv : v = 1 ∨ v = 2) (h : MarksSettled t) : MarksSettled (PtrHashTable.set t n v) := by
  intro m k hm
  rw [PtrHashTable.find_set] at hm
  split at hm
  · cases hm; exact hv
  · exact h m k hm

theorem step_settled (env : Ext) (mode bound : Int) (s s1 : LoopState)
    (h : beta_reduce_step env mode bound s = some s1)
    (hs : ∀ t, t ∈ s.cur_scope :: s.scopes → MarksSettled t) :
    ∀ t, t ∈ s1.cur_scope :: s1.scopes → MarksSettled t := by
  intro t ht
  rcases step_scope_effect env mode bound s s1 h with
    ⟨a1, -, -, a4⟩ | ⟨a1, -, n, a3, -⟩ | ⟨a1, -⟩
  · rw [a1] at ht
    rcases List.mem_cons.mp ht with e | e
    · rcases a4 with a | ⟨n, v, hv, -, a⟩
      · exact hs t (by rw [e, a]; exact List.mem_cons_self _ _)
      · rw [e, a]
        exact marksSettled_set _ n v hv (hs _ (List.mem_cons_self _ _))
    · exact hs t (List.mem_cons_of_mem _ e)
  · rw [a1, a3] at ht
    rcases List.mem_cons.mp ht with e | e
    · subst e
      intro m k hm
      simp only [PtrHashTable.find] at hm
      split at hm
      · cases hm; exact Or.inl rfl
      · cases hm
    · exact hs t e
  · exact hs t (by rw [a1]; exact List.mem_cons_of_mem _ ht)

theorem run_steps_settled (env : Ext) (mode bound : Int) (k : Nat) :
    ∀ (s s1 : LoopState), run_steps env mode bound k s = some s1 →
      (∀ t, t ∈ s.cur_scope :: s.scopes → MarksSettled t) →
      ∀ t, t ∈ s1.cur_scope :: s1.scopes → MarksSettled t := by
  induction k with
  | zero =>
    intro s s1 h hs
    simp [run_steps] at h
    subst h
    exact hs
  | succ k ih =>
    intro s s1 h hs
    unfold run_steps at h
    cases hst : beta_reduce_step env mode bound s with
    | none => simp [hst] at h
    | some s2 =>
      simp only [hst] at h
      exact ih s2 s1 h (step_settled env mode bound s s2 hst hs)

/-! ## Termination of the worklist loop -/

theorem run_steps_bind (env : Ext) (mode bound : Int) (a b : Nat) :
    ∀ s : LoopState, run_steps env mode bound (a + b) s =
      (run_steps env mode bound a s).bind (run_steps env mode bound b) := by
  induction a with
  | zero => intro s; simp [run_steps]
  | succ a ih =>
    intro s
    rw [Nat.add_right_comm]
    cases hs : beta_reduce_step env mode bound s with
    | none => simp [run_steps, hs]
    | some s1 =>
      simp only [run_steps, hs]
      exact ih s1

theorem run_steps_empty (env : Ext) (mode bound : Int) (k : Nat) :
    ∀ s : LoopState, s.work_stack = [] → run_steps env mode bound k s = some s := by
  induction k with
  | zero => intro s _; rfl
  | succ k ih =>
    intro s h
    unfold run_steps
    rw [step_of_empty env mode bound s h]
    exact ih s h

theorem loop_abort_of_run_steps (env : Ext) (mode bound : Int) (k : Nat) :
    ∀ s : LoopState, run_steps env mode bound k s = none →
      ∀ fuel, k ≤ fuel → beta_reduce_loop env mode bound fuel s = .abort := by
  induction k with
  | zero => intro s h; simp [run_steps] at h
  | succ k ih =>
    intro s h fuel hf
    obtain ⟨f, rfl⟩ : ∃ f, fuel = f + 1 := ⟨fuel - 1, by omega⟩
    by_cases he : s.work_stack = []
    · rw [run_steps_empty env mode bound (k + 1) s he] at h
      cases h
    · unfold run_steps at h
      cases hs : beta_reduce_step env mode bound s with
      | none =>
        have hne : s.work_stack.isEmpty = false := by
          cases hw : s.work_stack with
          | nil => exact absurd hw he
          | cons a t => rfl
        simp [beta_reduce_loop, hne, hs]
      | some s1 =>
        simp only [hs] at h
        rw [loop_step env mode bound f s s1 he hs]
        exact ih s1 h f (by omega)

theorem settled_child (env : Ext) (n : BtorNode) (c : Ref) (hs : settled env n = true)
    (hc : c ∈ n.e) : stable env c = true ∧ settled env c.node = true := by
  unfold settled at hs ⊢
  rw [List.all_eq_true] at hs
  constructor
  · have := hs n (self_mem_subterms n)
    rw [List.all_eq_true] at this
    exact this c hc
  · rw [List.all_eq_true]
    intro m hm
    exact hs m ((mem_subterms_iff n m).mpr (Or.inr ⟨c, hc, hm⟩))

theorem children_size (n : BtorNode) : (n.e.map fun c => c.node.size).sum + 1 = n.size := by
  cases n <;> simp [BtorNode.e, BtorNode.size] <;> omega

/-- The visit of a node with the mark 1 or 2 that is not the scope lambda
pops the entry and opens or closes no scope. -/
theorem visit_marked_ends (env : Ext) (mode bound : Int) (s : LoopState) (cur : Ref)
    (par : Option BtorNode) (w : List (Ref × Option BtorNode)) (k : Nat)
    (hw : s.work_stack = (cur, par) :: w) (hc : simplify_cur env cur = cur)
    (hf : PtrHashTable.find s.cur_scope cur.node = some (k + 1))
    (hl : s.cur_scope_lambda ≠ some cur.node) :
    RunEnds env mode bound s (fun m => m = cur.node) w 1 := by
  unfold RunEnds
  cases hst : beta_reduce_step env mode bound s with
  | none => exact Or.inl (by simp [run_steps, hst])
  | some s1 =>
    refine Or.inr ⟨s1, by simp [run_steps, hst], ?_⟩
    rw [step_marked env mode bound s cur cur par w (k + 1) hw hc hf] at hst
    simp only [Nat.succ_ne_zero, if_false] at hst
    split at hst
    · obtain ⟨r, s2, ⟨c1, c2, c3, c4, c5⟩, hp⟩ := collect_effect _ _ _ _ _ _ hst
      simp only [LoopState.record] at c1 c2 c3 c4 c5
      obtain ⟨b0, -, hcase⟩ := push_arg_stack_effect _ _ _ _ _ hp
      rcases hcase with ⟨-, b1, b2, b3, b4⟩ | ⟨b1, -⟩
      · refine ⟨by rw [b0, c5], by rw [b2, c2], by rw [b3, c3], by rw [b4, c4], ?_⟩
        intro m hm
        rw [b1, c1, PtrHashTable.find_set_other _ _ _ _ (fun e => hm e.symm)]
      · rw [c4] at b1
        exact absurd b1 hl
    · split at hst
      · obtain ⟨⟨c1, c2, c3, c4, c5⟩, -⟩ := revisit_effect _ _ _ hst
        simp only [LoopState.record] at c1 c2 c3 c4 c5
        exact ⟨c5, c2, c3, c4, fun m _ => by rw [c1]⟩
      · cases hst

/-- The post-order visit of the scope lambda pops the entry and closes the
scope. -/
theorem visit_close_ends (env : Ext) (mode bound : Int) (s : LoopState) (cur : Ref)
    (par : Option BtorNode) (w : List (Ref × Option BtorNode))
    (hw : s.work_stack = (cur, par) :: w) (hc : simplify_cur env cur = cur)
    (hf : PtrHashTable.find s.cur_scope cur.node = some 1)
    (hl : s.cur_scope_lambda = some cur.node) :
    beta_reduce_step env mode bound s = none ∨
    ∃ s1, beta_reduce_step env mode bound s = some s1 ∧ s1.work_stack = w ∧
      s.scopes = s1.cur_scope :: s1.scopes ∧
      s.scope_lambdas = s1.cur_scope_lambda :: s1.scope_lambdas := by
  cases hst : beta_reduce_step env mode bound s with
  | none => exact Or.inl rfl
  | some s1 =>
    refine Or.inr ⟨s1, rfl, ?_⟩
    rw [step_expanded env mode bound s cur cur par w hw hc hf] at hst
    obtain ⟨r, s2, ⟨c1, c2, c3, c4, c5⟩, hp⟩ := collect_effect _ _ _ _ _ _ hst
    simp only [LoopState.record] at c1 c2 c3 c4 c5
    obtain ⟨b0, -, hcase⟩ := push_arg_stack_effect _ _ _ _ _ hp
    rcases hcase with ⟨b1, -⟩ | ⟨-, b2, b3⟩
    · rw [c4] at b1
      exact absurd hl b1
    · rw [c2] at b2
      rw [c3] at b3
      exact ⟨by rw [b0, c5], b2, b3⟩

/-- The first visit of a node that is not the scope lambda: the node is
emitted and the entry popped, with the scopes as before; or the node and its
children are pushed, the mark of the node is 1, and either the scopes are as
before or the node has opened a scope. -/
theorem visit_first (env : Ext) (mode bound : Int) (s : LoopState) (cur : Ref)
    (par : Option BtorNode) (w : List (Ref × Option BtorNode))
    (hw : s.work_stack = (cur, par) :: w) (hc : simplify_cur env cur = cur)
    (hf : PtrHashTable.find s.cur_scope cur.node = none
      ∨ PtrHashTable.find s.cur_scope cur.node = some 0)
    (hl : s.cur_scope_lambda ≠ some cur.node) :
    beta_reduce_step env mode bound s = none ∨
    ∃ s1, beta_reduce_step env mode bound s = some s1 ∧
      ((s1.work_stack = w ∧ s1.scopes = s.scopes ∧ s1.scope_lambdas = s.scope_lambdas ∧
          s1.cur_scope_lambda = s.cur_scope_lambda ∧
          ∀ m, m ≠ cur.node →
            PtrHashTable.find s1.cur_scope m = PtrHashTable.find s.cur_scope m) ∨
       (s1.work_stack =
            ((cur.node.e.map env.simplify).reverse.map fun c => (c, some cur.node))
              ++ (cur, par) :: w ∧
          PtrHashTable.find s1.cur_scope cur.node = some 1 ∧
          ((s1.scopes = s.scopes ∧ s1.scope_lambdas = s.scope_lambdas ∧
              s1.cur_scope_lambda = s.cur_scope_lambda ∧
              ∀ m, m ≠ cur.node →
                PtrHashTable.find s1.cur_scope m = PtrHashTable.find s.cur_scope m) ∨
           (s1.scopes = s.cur_scope :: s.scopes ∧
              s1.scope_lambdas = s.cur_scope_lambda :: s.scope_lambdas ∧
              s1.cur_scope_lambda = some cur.node)))) := by
  cases hst : beta_reduce_step env mode bound s with
  | none => exact Or.inl rfl
  | some s1 =>
    refine Or.inr ⟨s1, rfl, ?_⟩
    have hother : ∀ (t : PtrHashTable BtorNode Nat) (v : Nat) (m : BtorNode), m ≠ cur.node →
        PtrHashTable.find (PtrHashTable.set t cur.node v) m = PtrHashTable.find t m :=
      fun t v m hm => PtrHashTable.find_set_other t cur.node m v (Ne.symm hm)
    rcases hf with hf | hf
    · by_cases ho : opens_scope cur.node = true
      · rw [step_unmarked_open env mode bound s cur cur par w hw hc hf ho] at hst
        rcases expand_effect _ _ _ _ _ _ _ hst with ⟨r, hp⟩ | ⟨a1, a2, a3, a4, a5⟩
        · obtain ⟨b0, -, hcase⟩ := push_arg_stack_effect _ _ _ _ _ hp
          rcases hcase with ⟨hne, -⟩ | ⟨-, b2, b3⟩
          · exact absurd rfl hne
          · simp only [LoopState.record] at b0 b2 b3
            injection b2 with b2a b2b
            injection b3 with b3a b3b
            exact Or.inl ⟨b0, b2b.symm, b3b.symm, b3a.symm, fun m _ => by rw [← b2a]⟩
        · simp only [LoopState.record] at a1 a2 a3 a4 a5
          refine Or.inr ⟨a5, ?_, Or.inr ⟨a2, a3, a4⟩⟩
          rw [a1]
          exact PtrHashTable.find_set_self _ _ _
      · have ho2 : opens_scope cur.node = false := by simpa using ho
        rw [step_unmarked env mode bound s cur cur par w hw hc hf ho2] at hst
        rcases expand_effect _ _ _ _ _ _ _ hst with ⟨r, hp⟩ | ⟨a1, a2, a3, a4, a5⟩
        · obtain ⟨b0, -, hcase⟩ := push_arg_stack_effect _ _ _ _ _ hp
          rcases hcase with ⟨-, b1, b2, b3, b4⟩ | ⟨b1, -⟩
          · simp only [LoopState.record] at b0 b1 b2 b3 b4
            refine Or.inl ⟨b0, b2, b3, b4, ?_⟩
            intro m hm
            rw [b1, hother _ _ m hm, hother _ _ m hm, hother _ _ m hm]
          · exact absurd b1 hl
        · simp only [LoopState.record] at a1 a2 a3 a4 a5
          refine Or.inr ⟨a5, ?_, Or.inl ⟨a2, a3, a4, ?_⟩⟩
          · rw [a1]; exact PtrHashTable.find_set_self _ _ _
          · intro m hm
            rw [a1, hother _ _ m hm, hother _ _ m hm]
    · rw [step_marked env mode bound s cur cur par w 0 hw hc hf] at hst
      simp only [if_true] at hst
      rcases expand_effect _ _ _ _ _ _ _ hst with ⟨r, hp⟩ | ⟨a1, a2, a3, a4, a5⟩
      · obtain ⟨b0, -, hcase⟩ := push_arg_stack_effect _ _ _ _ _ hp
        rcases hcase with ⟨-, b1, b2, b3, b4⟩ | ⟨b1, -⟩
        · simp only [LoopState.record] at b0 b1 b2 b3 b4
          refine Or.inl ⟨b0, b2, b3, b4, ?_⟩
          intro m hm
          rw [b1, hother _ _ m hm, hother _ _ m hm]
        · exact absurd b1 hl
      · simp only [LoopState.record] at a1 a2 a3 a4 a5
        refine Or.inr ⟨a5, ?_, Or.inl ⟨a2, a3, a4, ?_⟩⟩
        · rw [a1]; exact PtrHashTable.find_set_self _ _ _
        · intro m hm
          rw [a1, hother _ _ m hm]

theorem run_steps_none_add (env : Ext) (mode bound : Int) (a b : Nat) (s : LoopState)
    (h : run_steps env mode bound a s = none) : run_steps env mode bound (a + b) s = none := by
  rw [run_steps_bind, h]; rfl

theorem run_steps_some_none (env : Ext) (mode bound : Int) (a b : Nat) (s s1 : LoopState)
    (h1 : run_steps env mode bound a s = some s1) (h2 : run_steps env mode bound b s1 = none) :
    run_steps env mode bound (a + b) s = none := by
  rw [run_steps_bind, h1]; exact h2

theorem run_steps_one_none (env : Ext) (mode bound : Int) (s : LoopState)
    (h : beta_reduce_step env mode bound s = none) : run_steps env mode bound 1 s = none := by
  simp [run_steps, h]

/-- The visits of the entries `ds` on top of the work stack end, when the
visit of each of them ends. -/
theorem children_end (env : Ext) (mode bound : Int) (parent : BtorNode) :
    ∀ (ds : List Ref),
      (∀ c, c ∈ ds → ∀ (par : Option BtorNode) (w : List (Ref × Option BtorNode))
        (s : LoopState), s.work_stack = (c, par) :: w →
        (∀ l, s.cur_scope_lambda = some l → l ∉ subterms c.node) →
        ∃ k, k ≤ 2 * c.node.size ∧
          RunEnds env mode bound s (fun m => m ∈ subterms c.node) w k) →
      ∀ (s : LoopState) (w : List (Ref × Option BtorNode)),
        s.work_stack = ds.map (fun c => (c, some parent)) ++ w →
        (∀ l, s.cur_scope_lambda = some l → ∀ c, c ∈ ds → l ∉ subterms c.node) →
        ∃ k, k ≤ 2 * (ds.map fun c => c.node.size).sum ∧
          RunEnds env mode bound s (fun m => ∃ c, c ∈ ds ∧ m ∈ subterms c.node) w k := by
  intro ds
  induction ds with
  | nil =>
    intro _ s w hw _
    exact ⟨0, Nat.zero_le _, Or.inr ⟨s, rfl, by simpa using hw, rfl, rfl, rfl, fun _ _ => rfl⟩⟩
  | cons d ds ih =>
    intro hall s w hw hl
    obtain ⟨k1, hk1, h1⟩ := hall d (List.mem_cons_self _ _) (some parent)
      (ds.map (fun c => (c, some parent)) ++ w) s (by simpa using hw)
      (fun l hl1 => hl l hl1 d (List.mem_cons_self _ _))
    rcases h1 with h1 | ⟨s1, hr1, hw1, a2, a3, a4, a5⟩
    · refine ⟨k1 + 0, ?_, Or.inl (run_steps_none_add env mode bound k1 0 s h1)⟩
      simp only [List.map_cons, List.sum_cons]
      omega
    · obtain ⟨k2, hk2, h2⟩ := ih (fun c hc => hall c (List.mem_cons_of_mem _ hc)) s1 w hw1
        (fun l hl1 c hc => hl l (by rw [← a4]; exact hl1) c (List.mem_cons_of_mem _ hc))
      refine ⟨k1 + k2, ?_, ?_⟩
      · simp only [List.map_cons, List.sum_cons]
        omega
      · rcases h2 with h2 | ⟨s2, hr2, hw2, b2, b3, b4, b5⟩
        · exact Or.inl (run_steps_some_none env mode bound k1 k2 s s1 hr1 h2)
        · refine Or.inr ⟨s2, run_steps_add env mode bound k1 k2 s s1 s2 hr1 hr2, hw2,
            b2.trans a2, b3.trans a3, b4.trans a4, ?_⟩
          intro m hm
          rw [b5 m (fun ⟨c, hc, hmc⟩ => hm ⟨c, List.mem_cons_of_mem _ hc, hmc⟩),
            a5 m (fun hmd => hm ⟨d, List.mem_cons_self _ _, hmd⟩)]

/-- The visit of an entry of the work stack ends: after at most twice as many
iterations as the term has nodes, an assertion has failed or the entry and all
entries pushed for it are popped, with the scopes as before. -/
theorem visit_ends (env : Ext) (mode bound : Int) :
    ∀ (N : Nat) (n : BtorNode), n.size ≤ N → settled env n = true →
      ∀ (v : Bool) (par : Option BtorNode) (w : List (Ref × Option BtorNode)) (s : LoopState),
        s.work_stack = (⟨n, v⟩, par) :: w → simplify_cur env ⟨n, v⟩ = ⟨n, v⟩ →
        (∀ l, s.cur_scope_lambda = some l → l ∉ subterms n) →
        ∃ k, k ≤ 2 * n.size ∧ RunEnds env mode bound s (fun m => m ∈ subterms n) w k := by
  intro N
  induction N with
  | zero =>
    intro n hn
    have := size_pos n
    omega
  | succ N ih =>
    intro n hn hset v par w s hw hc hH
    have hpos := size_pos n
    have hl : s.cur_scope_lambda ≠ some n := fun e => hH n e (self_mem_subterms n)
    have hself : ∀ m, m ∉ subterms n → m ≠ n := fun m hm e => hm (e ▸ self_mem_subterms n)
    have hfirst : PtrHashTable.find s.cur_scope n = none
        ∨ PtrHashTable.find s.cur_scope n = some 0
        ∨ ∃ k, PtrHashTable.find s.cur_scope n = some (k + 1) := by
      cases hf : PtrHashTable.find s.cur_scope n with
      | none => exact Or.inl rfl
      | some k =>
        cases k with
        | zero => exact Or.inr (Or.inl rfl)
        | succ k => exact Or.inr (Or.inr ⟨k, rfl⟩)
    have hmarked : ∀ (s2 : LoopState) (k : Nat), s2.work_stack = (⟨n, v⟩, par) :: w →
        PtrHashTable.find s2.cur_scope n = some (k + 1) → s2.cur_scope_lambda ≠ some n →
        RunEnds env mode bound s2 (fun m => m ∈ subterms n) w 1 := by
      intro s2 k hw2 hf2 hl2
      rcases visit_marked_ends env mode bound s2 ⟨n, v⟩ par w k hw2 hc hf2 hl2 with
        h | ⟨s3, h, c1, c2, c3, c4, c5⟩
      · exact Or.inl h
      · exact Or.inr ⟨s3, h, c1, c2, c3, c4, fun m hm => c5 m (hself m hm)⟩
    rcases hfirst with hf | hf | ⟨k, hf⟩
    rotate_left 2
    · exact ⟨1, by omega, hmarked s k hw hf hl⟩
    all_goals
      rcases visit_first env mode bound s ⟨n, v⟩ par w hw hc (by first | exact Or.inl hf | exact Or.inr hf) hl with
        h | ⟨s1, hst, hcase⟩
      · exact ⟨1, by omega, Or.inl (run_steps_one_none env mode bound s h)⟩
      · rcases hcase with ⟨c1, c2, c3, c4, c5⟩ | ⟨hw1, hf1, hscope⟩
        · exact ⟨1, by omega, Or.inr ⟨s1, run_steps_one env mode bound s s1 hst, c1, c2, c3, c4,
            fun m hm => c5 m (hself m hm)⟩⟩
        · have hse : n.e.map env.simplify = n.e := by
            conv => rhs; rw [← List.map_id n.e]
            apply List.map_congr_left
            intro c hc1
            have := (settled_child env n c hset hc1).1
            simp only [stable, Bool.and_eq_true, decide_eq_true_eq] at this
            exact this.1
          simp only [hse] at hw1
          have hH1 : ∀ l, s1.cur_scope_lambda = some l →
              ∀ c, c ∈ n.e.reverse → l ∉ subterms c.node := by
            intro l hl1 c hc1 hmem
            have hc2 : c ∈ n.e := List.mem_reverse.mp hc1
            rcases hscope with ⟨-, -, d4, -⟩ | ⟨-, -, d4⟩
            · rw [d4] at hl1
              exact hH l hl1 ((mem_subterms_iff n l).mpr (Or.inr ⟨c, hc2, hmem⟩))
            · rw [d4] at hl1
              cases hl1
              exact not_mem_subterms_child n c hc2 hmem
          obtain ⟨kc, hkc, hch⟩ := children_end env mode bound n n.e.reverse
            (by
              intro c hc1 par1 w1 s2 hw2 hH2
              have hc2 : c ∈ n.e := List.mem_reverse.mp hc1
              obtain ⟨hstab, hsetc⟩ := settled_child env n c hset hc2
              simp only [stable, Bool.and_eq_true, decide_eq_true_eq] at hstab
              have hsz := child_size n c hc2
              exact ih c.node (by omega) hsetc c.inv par1 w1 s2 hw2 hstab.2 hH2)
            s1 ((⟨n, v⟩, par) :: w) hw1 hH1
          have hsum : (n.e.reverse.map fun c => c.node.size).sum + 1 = n.size := by
            rw [List.map_reverse, List.sum_reverse]
            exact children_size n
          refine ⟨1 + kc + 1, by omega, ?_⟩
          have hr1 := run_steps_one env mode bound s s1 hst
          rcases hch with hnone | ⟨s2, hr2, hw2, e2, e3, e4, e5⟩
          · exact Or.inl (run_steps_none_add env mode bound (1 + kc) 1 s
              (run_steps_some_none env mode bound 1 kc s s1 hr1 hnone))
          · have hr12 := run_steps_add env mode bound 1 kc s s1 s2 hr1 hr2
            have hnc : ¬ ∃ c, c ∈ n.e.reverse ∧ n ∈ subterms c.node := by
              rintro ⟨c, hc1, hmem⟩
              exact not_mem_subterms_child n c (List.mem_reverse.mp hc1) hmem
            have hf2 : PtrHashTable.find s2.cur_scope n = some 1 := by
              rw [e5 n hnc]; exact hf1
            rcases hscope with ⟨d2, d3, d4, d5⟩ | ⟨d2, d3, d4⟩
            · have hl2 : s2.cur_scope_lambda ≠ some n := by rw [e4, d4]; exact hl
              rcases hmarked s2 0 hw2 hf2 hl2 with h3 | ⟨s3, hr3, g1, g2, g3, g4, g5⟩
              · exact Or.inl (run_steps_some_none env mode bound (1 + kc) 1 s s2 hr12 h3)
              · refine Or.inr ⟨s3, run_steps_add env mode bound (1 + kc) 1 s s2 s3 hr12 hr3, g1,
                  by rw [g2, e2, d2], by rw [g3, e3, d3], by rw [g4, e4, d4], ?_⟩
                intro m hm
                have hm2 : ¬ ∃ c, c ∈ n.e.reverse ∧ m ∈ subterms c.node := by
                  rintro ⟨c, hc1, hmem⟩
                  exact hm ((mem_subterms_iff n m).mpr
                    (Or.inr ⟨c, List.mem_reverse.mp hc1, hmem⟩))
                rw [g5 m hm, e5 m hm2, d5 m (hself m hm)]
            · have hl2 : s2.cur_scope_lambda = some n := by rw [e4, d4]
              rcases visit_close_ends env mode bound s2 ⟨n, v⟩ par w hw2 hc hf2 hl2 with
                h3 | ⟨s3, hst3, g1, g2, g3⟩
              · exact Or.inl (run_steps_some_none env mode bound (1 + kc) 1 s s2 hr12
                  (run_steps_one_none env mode bound s2 h3))
              · rw [e2, d2] at g2
                rw [e3, d3] at g3
                injection g2 with g2a g2b
                injection g3 with g3a g3b
                exact Or.inr ⟨s3, run_steps_add env mode bound (1 + kc) 1 s s2 s3 hr12
                  (run_steps_one env mode bound s2 s3 hst3), g1, g2b.symm, g3b.symm, g3a.symm,
                  fun m _ => by rw [← g2a]⟩

/-- The loop ends from the initial state of a call. -/
theorem loop_ends (env : Ext) (mode bound : Int) (btor : Btor) (e : Ref)
    (hs : settled env e.node = true) (he : simplify_cur env e = e) (fuel : Nat)
    (hf : 2 * e.node.size ≤ fuel) :
    beta_reduce_loop env mode bound fuel (beta_reduce_init btor e) = .abort ∨
    ∃ s, beta_reduce_loop env mode bound fuel (beta_reduce_init btor e) = .done s ∧
      s.work_stack = [] ∧ s.scopes = [] ∧ s.scope_lambdas = [] ∧ s.cur_scope_lambda = none := by
  obtain ⟨n, v⟩ := e
  obtain ⟨k, hk, h⟩ := visit_ends env mode bound n.size n (Nat.le_refl _) hs v none []
    (beta_reduce_init btor ⟨n, v⟩) rfl he (by intro l hl; cases hl)
  rcases h with h | ⟨s1, hr, c1, c2, c3, c4, -⟩
  · exact Or.inl (loop_abort_of_run_steps env mode bound k _ h fuel (by simp only at hf; omega))
  · refine Or.inr ⟨s1, ?_, c1, c2, c3, c4⟩
    exact loop_mono env mode bound k _ s1 (loop_of_run_steps env mode bound k _ s1 hr c1) fuel
      (by simp only at hf; omega)

/-! ## The ledger of references -/

theorem copy_apply (rc : RefCount) (r : Ref) (n : BtorNode) :
    rc.copy r n = rc n + (if n = r.node then 1 else 0) := by
  unfold RefCount.copy
  split <;> simp

theorem release_apply (rc : RefCount) (r : Ref) (n : BtorNode) :
    rc.release r n = rc n - (if n = r.node then 1 else 0) := by
  unfold RefCount.release
  split <;> simp

theorem refs_in_nil (n : BtorNode) : refs_in [] n = 0 := rfl

theorem refs_in_cons (r : Ref) (l : List Ref) (n : BtorNode) :
    refs_in (r :: l) n = (if n = r.node then 1 else 0) + refs_in l n := by
  simp [refs_in]

theorem refs_in_append (l1 l2 : List Ref) (n : BtorNode) :
    refs_in (l1 ++ l2) n = refs_in l1 n + refs_in l2 n := by
  simp [refs_in]

theorem refs_in_reverse (l : List Ref) (n : BtorNode) : refs_in l.reverse n = refs_in l n := by
  induction l with
  | nil => rfl
  | cons r l ih => rw [List.reverse_cons, refs_in_append, ih, refs_in_cons, refs_in_cons,
      refs_in_nil]; omega

theorem release_all_apply (l : List Ref) : ∀ (rc : RefCount) (n : BtorNode),
    rc.release_all l n = rc n - refs_in l n := by
  induction l with
  | nil => intro rc n; simp [RefCount.release_all, refs_in]
  | cons r l ih =>
    intro rc n
    rw [RefCount.release_all, ih, release_apply, refs_in_cons]
    omega

theorem refs_in_set_fresh (t : PtrHashTable BtorNode Ref) (k : BtorNode) (v : Ref)
    (n : BtorNode) (h : PtrHashTable.find t k = none) :
    refs_in ((PtrHashTable.set t k v).map Prod.snd) n
      = refs_in (t.map Prod.snd) n + (if n = v.node then 1 else 0) := by
  induction t with
  | nil => simp [PtrHashTable.set, refs_in]
  | cons hd tl ih =>
    obtain ⟨k1, w⟩ := hd
    by_cases e : k1 = k
    · simp [PtrHashTable.find, e] at h
    · simp only [PtrHashTable.find, e, if_false] at h
      simp only [PtrHashTable.set, e, if_false, List.map_cons, refs_in_cons, ih h]
      omega

theorem table_entries_set_fresh (t : PtrHashTable (Ref × Ref) Ref) (k : Ref × Ref) (v : Ref)
    (n : BtorNode) (h : PtrHashTable.find t k = none) :
    refs_in (table_entries (PtrHashTable.set t k v)) n
      = refs_in (table_entries t) n + (if n = k.1.node then 1 else 0)
        + (if n = k.2.node then 1 else 0) + (if n = v.node then 1 else 0) := by
  induction t with
  | nil =>
    obtain ⟨l, a⟩ := k
    simp only [PtrHashTable.set, table_entries, refs_in_cons, refs_in_nil]
    omega
  | cons hd tl ih =>
    obtain ⟨⟨l1, a1⟩, w⟩ := hd
    by_cases e : (l1, a1) = k
    · simp [PtrHashTable.find, e] at h
    · simp only [PtrHashTable.find, e, if_false] at h
      simp only [PtrHashTable.set, e, if_false, table_entries, refs_in_cons, ih h]
      omega

theorem cached_beta_result_refs_eq (lambda exp : Ref) (rc : RefCount) :
    cached_beta_result_refs lambda exp rc = rc := by
  funext n
  simp only [cached_beta_result_refs, release_apply, copy_apply]
  omega

theorem assign_lambda_refs_eq (real_cur : BtorNode) (par : Option BtorNode) (se : List Ref)
    (s : LoopState) (rc : RefCount) : assign_lambda_refs real_cur par se s rc = rc := by
  unfold assign_lambda_refs
  split
  · split
    · split
      · split
        · exact cached_beta_result_refs_eq _ _ _
        · rfl
      · rfl
    · rfl
  · rfl

theorem unassign_label_held (n : BtorNode) (s s1 : LoopState)
    (h : unassign_params_label n s = some s1) :
    s1.arg_stack = s.arg_stack ∧ s1.cur_scope_results = s.cur_scope_results ∧
      s1.scope_results = s.scope_results ∧ s1.btor.cache = s.btor.cache := by
  refine ⟨(unassign_label_stacks n s s1 h).1, ?_, ?_, unassign_label_cache n s s1 h⟩
  all_goals
    unfold unassign_params_label at h
    simp only at h
    generalize hs2 : (if s.unassign_stack.head? = some n then
      ({ s with unassign_stack := s.unassign_stack.tail } : LoopState) else s) = s2 at h
    have e2 : s2.cur_scope_results = s.cur_scope_results ∧ s2.scope_results = s.scope_results := by
      rw [← hs2]; split <;> exact ⟨rfl, rfl⟩
    split at h
    · cases h
    · split at h
      · cases h
      · cases h; first | exact e2.1 | exact e2.2
      · split at h
        · cases h
        · cases h; first | exact e2.1 | exact e2.2

/-- The result tables after the emit label. -/
theorem push_arg_stack_results (cur : Ref) (n : BtorNode) (result : Ref) (s s1 : LoopState)
    (h : push_arg_stack cur n result s = some s1) :
    s1.arg_stack = cur.cond_invert result :: s.arg_stack ∧ s1.btor.cache = s.btor.cache ∧
    (n.parameterized = true → PtrHashTable.find s.cur_scope_results n = none) ∧
    ((s.cur_scope_lambda ≠ some n ∧
        s1.cur_scope_results =
          (if n.parameterized then PtrHashTable.set s.cur_scope_results n result
            else s.cur_scope_results) ∧
        s1.scope_results = s.scope_results) ∨
     (s.cur_scope_lambda = some n ∧
        s.scope_results = s1.cur_scope_results :: s1.scope_results)) := by
  refine ⟨(push_arg_stack_stacks cur n result s s1 h).1, push_arg_stack_cache cur n result s s1 h,
    ?_, ?_⟩
  · intro hp
    unfold push_arg_stack at h
    split at h
    · cases h
    · simp only [hp, if_true] at h
      cases hf : PtrHashTable.find s.cur_scope_results n with
      | none => rfl
      | some r => simp [hf] at h
  · unfold push_arg_stack at h
    split at h
    · cases h
    · simp only at h
      split at h
      · cases h
      · rename_i s2 hs2
        have e2 : s2.cur_scope_results =
            (if n.parameterized then PtrHashTable.set s.cur_scope_results n result
              else s.cur_scope_results) ∧ s2.scope_results = s.scope_results ∧
            s2.cur_scope_lambda = s.cur_scope_lambda := by
          split at hs2
          · rename_i hp
            split at hs2
            · cases hs2
            · cases hs2; exact ⟨by simp [hp], rfl, rfl⟩
          · rename_i hp
            cases hs2; exact ⟨by simp [hp], rfl, rfl⟩
        obtain ⟨c1, c2, c3⟩ := e2
        split at h
        · cases h
        · rename_i s4 hs4
          cases h
          simp only [push_arg_stack_without_close_scope]
          split at hs4
          · rename_i hcl
            split at hs4
            · cases hs4
            · rename_i s3 hs3
              obtain ⟨-, a2, a3, -⟩ := unassign_label_held _ _ _ hs4
              unfold BETA_REDUCE_CLOSE_SCOPE at hs3
              split at hs3
              · rename_i l sc scs sr srs sl sls hl hsc hsr hsl
                cases hs3
                simp only at a2 a3
                refine Or.inr ⟨by rw [← c3]; exact hcl, ?_⟩
                rw [a2, a3, ← c2]; exact hsr
              · cases hs3
          · rename_i hcl
            have hcl2 : s.cur_scope_lambda ≠ some n := by rw [← c3]; exact hcl
            split at hs4
            · obtain ⟨-, a2, a3, -⟩ := unassign_label_held _ _ _ hs4
              exact Or.inl ⟨hcl2, by rw [a2, c1], by rw [a3, c2]⟩
            · cases hs4
              exact Or.inl ⟨hcl2, c1, c2⟩

/-- The emit label takes the reference `result` that it is entered with: the
difference between the counts and the references held goes down by one at the
node of `result`. -/
theorem push_arg_stack_ledger (cur : Ref) (real_cur : BtorNode) (result : Ref)
    (s s1 : LoopState) (rc : RefCount) (h : push_arg_stack cur real_cur result s = some s1)
    (n : BtorNode) :
    push_arg_stack_refs real_cur result s rc n - held s1 n
      = rc n - (if n = result.node then 1 else 0) - held s n := by
  obtain ⟨h1, h2, h3, h4⟩ := push_arg_stack_results cur real_cur result s s1 h
  have hnode : (cur.cond_invert result).node = result.node := cond_invert_node cur result
  unfold push_arg_stack_refs held
  rw [h1, h2, refs_in_cons, hnode]
  rcases h4 with ⟨hcl, a1, a2⟩ | ⟨hcl, a1⟩
  · rw [a1, a2]
    simp only [hcl, if_false]
    by_cases hp : real_cur.parameterized = true
    · simp only [hp, if_true, refs_in_set_fresh _ _ _ _ (h3 hp), copy_apply]
      omega
    · simp only [hp, Bool.false_eq_true, if_false]
      omega
  · rw [a1]
    simp only [hcl, if_true, release_all_apply, List.map_cons, List.sum_cons]
    by_cases hp : real_cur.parameterized = true
    · simp only [hp, if_true, refs_in_set_fresh _ _ _ _ (h3 hp), copy_apply]
      omega
    · simp only [hp, Bool.false_eq_true, if_false]
      omega

theorem take_two_shape (l : List Ref) (h : 2 ≤ l.length) :
    ∃ a b, l.take 2 = [a, b] ∧ (l.take 2).reverse = [b, a] := by
  match l, h with
  | a :: b :: t, _ => exact ⟨a, b, rfl, rfl⟩

theorem take_one_shape (l : List Ref) (h : 1 ≤ l.length) :
    ∃ a, l.take 1 = [a] ∧ (l.take 1).reverse = [a] := by
  match l, h with
  | a :: t, _ => exact ⟨a, rfl, rfl⟩

theorem take_three_shape (l : List Ref) (h : 3 ≤ l.length) :
    ∃ a b c, l.take 3 = [a, b, c] ∧ (l.take 3).reverse = [c, b, a] := by
  match l, h with
  | a :: b :: c :: t, _ => exact ⟨a, b, c, rfl, rfl⟩

theorem refs_in_take_drop (l : List Ref) (k : Nat) (n : BtorNode) :
    refs_in (l.take k) n + refs_in (l.drop k) n = refs_in l n := by
  rw [← refs_in_append, List.take_append_drop]


theorem cache_beta_result_ledger (btor btor1 : Btor) (lambda exp result : Ref) (rc : RefCount)
    (h : cache_beta_result btor lambda exp result = some btor1) (n : BtorNode) :
    cache_beta_result_refs btor lambda exp result rc n - cache_held btor1.cache n
      = rc n - cache_held btor.cache n := by
  unfold cache_beta_result at h
  split at h
  · cases h
  · split at h
    · cases h
    · rename_i cache hc
      split at h
      · rename_i data hf
        split at h
        · cases h
          simp only [cache_beta_result_refs, hc, hf, release_apply, copy_apply]
          omega
        · cases h
      · rename_i hf
        cases h
        simp only [cache_beta_result_refs, hc, hf, copy_apply, cache_held,
          table_entries_set_fresh _ _ _ _ hf]
        omega

/-- The rebuild switch gives the reference `result` to the loop: the
difference between the counts and the references held goes up by one at the
node of `result`. -/
theorem rebuild_ledger (env : Ext) (mode : Int) (real_cur : BtorNode) (s s1 : LoopState)
    (result : Ref) (rc : RefCount) (h : rebuild env mode real_cur s = some (result, s1))
    (hk : kind_arity_ok real_cur = true) (n : BtorNode) :
    rebuild_refs env mode real_cur s rc n - held s1 n
      = rc n + (if n = result.node then 1 else 0) - held s n := by
  have h0 := h
  unfold rebuild at h
  split at h
  · cases h
  · rename_i hlen
    have hd := refs_in_take_drop s.arg_stack real_cur.arity n
    cases hkind : real_cur.kind
    case slice =>
      simp only [kind_arity_ok, hkind, beq_iff_eq] at hk
      rw [hk] at hlen h hd
      obtain ⟨a, ht, hr⟩ := take_one_shape s.arg_stack (by omega)
      simp only [hkind, hr, LoopState.record, Option.some.injEq, Prod.mk.injEq] at h
      obtain ⟨h1, h2⟩ := h
      rw [ht] at hd
      simp only [refs_in_cons, refs_in_nil] at hd
      simp only [rebuild_refs, h0, hkind, hk, hr, release_apply, copy_apply, held, ← h2]
      omega
    case bcond =>
      simp only [kind_arity_ok, hkind, beq_iff_eq] at hk
      rw [hk] at hlen h hd
      obtain ⟨a, b, c, ht, hr⟩ := take_three_shape s.arg_stack (by omega)
      simp only [hkind, hr, LoopState.record, Option.some.injEq, Prod.mk.injEq] at h
      obtain ⟨h1, h2⟩ := h
      rw [ht] at hd
      simp only [refs_in_cons, refs_in_nil] at hd
      simp only [rebuild_refs, h0, hkind, hk, hr, release_apply, copy_apply, held, ← h2]
      omega
    case args =>
      simp only [hkind] at h
      have hs1 : s1 = ({ s with arg_stack := s.arg_stack.drop real_cur.arity } :
          LoopState).record (.construct .args) := by
        split at h
        all_goals first
          | (simp only [Option.some.injEq, Prod.mk.injEq] at h; exact h.2.symm)
          | cases h
      simp only [rebuild_refs, h0, hkind, release_all_apply, refs_in_reverse, copy_apply, held,
        hs1, LoopState.record]
      omega
    case lambda =>
      simp only [kind_arity_ok, hkind, beq_iff_eq] at hk
      rw [hk] at hlen h hd
      obtain ⟨a, b, ht, hr⟩ := take_two_shape s.arg_stack (by omega)
      simp only [hkind, hr] at h
      have hs1 : s1 = { s with arg_stack := s.arg_stack.drop 2 } := by
        unfold rebuild_lambda at h
        split at h
        · split at h
          · split at h
            · cases h
            · simp only [Option.some.injEq, Prod.mk.injEq] at h; exact h.2.symm
          · split at h
            · cases h
            · split at h
              · cases h
              · simp only [Option.some.injEq, Prod.mk.injEq] at h; exact h.2.symm
        · cases h
      rw [ht] at hd
      simp only [refs_in_cons, refs_in_nil] at hd
      simp only [rebuild_refs, h0, hkind, hk, hr, release_apply, copy_apply, held, hs1]
      omega
    case apply =>
      simp only [kind_arity_ok, hkind, beq_iff_eq] at hk
      rw [hk] at hlen h hd
      obtain ⟨a, b, ht, hr⟩ := take_two_shape s.arg_stack (by omega)
      simp only [hkind, hr] at h
      rw [ht] at hd
      simp only [refs_in_cons, refs_in_nil] at hd
      unfold rebuild_apply at h
      cases hfn : real_cur.e.head? with
      | none => simp [hfn] at h
      | some fn =>
        simp only [hfn] at h
        split at h
        · cases h
        · rename_i r2 s2 hb
          have hs2 : s2.arg_stack = s.arg_stack.drop 2 ∧
              s2.cur_scope_results = s.cur_scope_results ∧
              s2.scope_results = s.scope_results ∧ s2.btor.cache = s.btor.cache := by
            split at hb
            · split at hb
              · cases hb
              · cases hb; exact ⟨rfl, rfl, rfl, rfl⟩
            · split at hb
              · cases hb
              · cases hb; exact ⟨rfl, rfl, rfl, rfl⟩
          obtain ⟨g1, g2, g3, g4⟩ := hs2
          split at h
          · rename_i hcond
            split at h
            · cases h
            · rename_i btor1 hcb
              simp only [Option.some.injEq, Prod.mk.injEq] at h
              obtain ⟨h1, h2⟩ := h
              subst h1
              have hcond2 : (s.btor.cache.isSome && mode == BETA_RED_FULL
                  && fn.node.BTOR_IS_LAMBDA_NODE && !fn.node.parameterized) = true := by
                rw [← g4]; exact hcond
              have hl := cache_beta_result_ledger s2.btor btor1 (env.simplify fn)
                (env.simplify b) r2 (rc.copy r2) hcb n
              have hrefs : cache_beta_result_refs s.btor (env.simplify fn) (env.simplify b) r2
                  (rc.copy r2) = cache_beta_result_refs s2.btor (env.simplify fn)
                    (env.simplify b) r2 (rc.copy r2) := by
                simp only [cache_beta_result_refs, g4]
              simp only [rebuild_refs, h0, hkind, hk, hr, hfn, hcond2, if_true, release_apply,
                held, ← h2, g1, g2, g3, hrefs]
              simp only [copy_apply] at hl
              rw [g4] at hl
              omega
          · rename_i hcond
            simp only [Option.some.injEq, Prod.mk.injEq] at h
            obtain ⟨h1, h2⟩ := h
            subst h1
            have hcond2 : ¬ (s.btor.cache.isSome && mode == BETA_RED_FULL
                && fn.node.BTOR_IS_LAMBDA_NODE && !fn.node.parameterized) = true := by
              rw [← g4]; exact hcond
            simp only [rebuild_refs, h0, hkind, hk, hr, hfn, hcond2, Bool.false_eq_true,
              if_false, release_apply, copy_apply, held, ← h2, g1, g2, g3, g4]
            omega
    case bv_const | bv_var | array_var | param | acond =>
      simp [hkind] at h
    all_goals
      simp only [kind_arity_ok, hkind, beq_iff_eq] at hk
      rw [hk] at hlen h hd
      obtain ⟨a, b, ht, hr⟩ := take_two_shape s.arg_stack (by omega)
      simp only [hkind, hr, rebuild_binary, LoopState.record, Option.some.injEq,
        Prod.mk.injEq] at h
      obtain ⟨h1, h2⟩ := h
      rw [ht] at hd
      simp only [refs_in_cons, refs_in_nil] at hd
      simp only [rebuild_refs, h0, hkind, hk, hr, release_apply, copy_apply, held, ← h2]
      omega

theorem assign_lambda_held (n : BtorNode) (par : Option BtorNode) (se : List Ref)
    (s s1 : LoopState) (h : assign_lambda n par se s = some (.inr s1)) :
    s1.arg_stack = s.arg_stack ∧ s1.cur_scope_results = s.cur_scope_results ∧
      s1.scope_results = s.scope_results ∧ s1.btor.cache = s.btor.cache := by
  refine ⟨?_, ?_, ?_, assign_lambda_cache n par se s s1 h⟩
  all_goals
    unfold assign_lambda at h
    split at h
    · split at h
      · split at h
        · cases h
        · cases h; rfl
        · split at h
          · split at h
            · cases h
            · split at h
              · cases h
              · simp only at h
                split at h
                · cases h
                · cases h
                · split at h
                  · cases h
                  · cases h
                    rfl
          · cases h; rfl
      · cases h
    · cases h; rfl

theorem expand_ledger (env : Ext) (mode bound : Int) (cur : Ref) (par : Option BtorNode)
    (s s1 : LoopState) (rc : RefCount) (h : expand env mode bound cur par s = some s1)
    (n : BtorNode) :
    expand_refs env mode bound cur par s rc n - held s1 n = rc n - held s n := by
  have hpush : ∀ (result : Ref),
      push_arg_stack cur cur.node result
        { s with cur_scope := PtrHashTable.set s.cur_scope cur.node 1 } = some s1 →
      push_arg_stack_refs cur.node result
        { s with cur_scope := PtrHashTable.set s.cur_scope cur.node 1 } (rc.copy result) n
          - held s1 n = rc n - held s n := by
    intro result hp
    rw [push_arg_stack_ledger cur cur.node result _ s1 (rc.copy result) hp n, copy_apply]
    simp only [held]
    omega
  unfold expand at h
  unfold expand_refs
  simp only at h ⊢
  split at h
  · cases h
  · split at h
    · split at h
      · cases h
      · rename_i hc _
        simp only [hc, if_true]
        exact hpush _ h
    · rename_i hc1
      simp only [hc1, Bool.false_eq_true, if_false]
      split at h
      · rename_i hc
        simp only [hc, if_true]
        exact hpush _ h
      · rename_i hc2
        simp only [hc2, Bool.false_eq_true, if_false]
        split at h
        · rename_i hc
          simp only [hc, if_true]
          exact hpush _ h
        · rename_i hc3
          simp only [hc3, Bool.false_eq_true, if_false]
          split at h
          · rename_i hc
            simp only [hc, if_true]
            split at h
            · cases h
            · rename_i next hnext
              simp only [hnext]
              exact hpush _ h
          · rename_i hc4
            simp only [hc4, Bool.false_eq_true, if_false]
            split at h
            · cases h
            · rename_i result hres
              simp only [hres, assign_lambda_refs_eq]
              exact hpush _ h
            · rename_i s2 hs2
              cases h
              obtain ⟨a1, a2, a3, a4⟩ := assign_lambda_held _ _ _ _ _ hs2
              simp only [hs2, assign_lambda_refs_eq, held, a1, a2, a3, a4]

theorem collect_ledger (env : Ext) (mode bound : Int) (cur : Ref) (s s1 : LoopState)
    (rc : RefCount) (h : collect env mode bound cur s = some s1)
    (hk : kind_arity_ok cur.node = true) (n : BtorNode) :
    collect_refs env mode bound cur s rc n - held s1 n = rc n - held s n := by
  unfold collect at h
  unfold collect_refs
  simp only at h ⊢
  split at h
  · rename_i hc
    simp only [hc, if_true]
    rw [push_arg_stack_ledger cur cur.node _ s s1 _ h n, copy_apply]
    omega
  · rename_i hc
    simp only [hc, Bool.false_eq_true, if_false]
    split at h
    · cases h
    · rename_i result s2 hr
      simp only [hr]
      rw [push_arg_stack_ledger cur cur.node result s2 s1 _ h n]
      have := rebuild_ledger env mode cur.node s s2 result rc hr hk n
      omega

theorem revisit_ledger (cur : Ref) (s s1 : LoopState) (rc : RefCount)
    (h : revisit cur s = some s1) (n : BtorNode) :
    revisit_refs cur s rc n - held s1 n = rc n - held s n := by
  unfold revisit at h
  unfold revisit_refs
  simp only at h ⊢
  split at h
  · cases h
  · rename_i result hf
    simp only [hf]
    split at h
    · cases h
    · cases h
      simp only [push_arg_stack_without_close_scope, held, refs_in_cons, copy_apply,
        cond_invert_node]
      omega

/-- One iteration keeps the difference between the counts and the references
that the loop state holds. -/
theorem step_ledger (env : Ext) (mode bound : Int) (s s1 : LoopState) (rc : RefCount)
    (h : beta_reduce_step env mode bound s = some s1)
    (hk : ∀ cur0 par w, s.work_stack = (cur0, par) :: w →
      kind_arity_ok (simplify_cur env cur0).node = true) (n : BtorNode) :
    beta_reduce_step_refs env mode bound s rc n - held s1 n = rc n - held s n := by
  unfold beta_reduce_step at h
  unfold beta_reduce_step_refs
  split at h
  · rename_i hw
    cases h
    simp only [hw]
  · rename_i cur0 par work hw
    have hk1 := hk cur0 par work hw
    simp only [hw] at h ⊢
    generalize hs1 : (match PtrHashTable.find (({ s with work_stack := work } : LoopState).record
        (Event.visit (simplify_cur env cur0).node)).cur_scope (simplify_cur env cur0).node with
      | some _ => (({ s with work_stack := work } : LoopState).record
          (Event.visit (simplify_cur env cur0).node))
      | none => _) = s2 at h ⊢
    have e2 : held s2 n = held s n := by
      rw [← hs1]
      split
      · rfl
      · simp only [BETA_REDUCE_OPEN_NEW_SCOPE]
        split
        · simp only [held, LoopState.record, List.map_nil, refs_in_nil, List.map_cons,
            List.sum_cons]
          omega
        · rfl
    split at h
    · rename_i hm
      simp only [hm]
      rw [expand_ledger env mode bound _ par s2 s1 rc h n, e2]
    · rename_i hm
      simp only [hm]
      rw [collect_ledger env mode bound _ s2 s1 rc h hk1 n, e2]
    · rename_i hm
      simp only [hm]
      rw [revisit_ledger _ s2 s1 rc h n, e2]
    · cases h

theorem subterms_trans : ∀ (N : Nat) (n m x : BtorNode), n.size ≤ N → m ∈ subterms n →
    x ∈ subterms m → x ∈ subterms n := by
  intro N
  induction N with
  | zero => intro n _ _ hn; have := size_pos n; omega
  | succ N ih =>
    intro n m x hn hm hx
    rcases (mem_subterms_iff n m).mp hm with e | ⟨c, hc, hmc⟩
    · subst e; exact hx
    · have hsz := child_size n c hc
      exact (mem_subterms_iff n x).mpr (Or.inr ⟨c, hc, ih c.node m x (by omega) hmc hx⟩)

theorem subterms_child (n m : BtorNode) (c : Ref) (hm : m ∈ subterms n) (hc : c ∈ m.e) :
    c.node ∈ subterms n :=
  subterms_trans n.size n m c.node (Nat.le_refl _) hm
    ((mem_subterms_iff m c.node).mpr (Or.inr ⟨c, hc, self_mem_subterms c.node⟩))

theorem settled_mem (env : Ext) (n m : BtorNode) (c : Ref) (hs : settled env n = true)
    (hm : m ∈ subterms n) (hc : c ∈ m.e) : env.simplify c = c ∧ simplify_cur env c = c := by
  unfold settled at hs
  rw [List.all_eq_true] at hs
  have := hs m hm
  rw [List.all_eq_true] at this
  have h2 := this c hc
  simpa [stable] using h2

/-- The work stack after one iteration: the entry is popped, or the node is
pushed again below its children. -/
theorem step_work_stack (env : Ext) (mode bound : Int) (s s1 : LoopState) (cur0 : Ref)
    (par : Option BtorNode) (w : List (Ref × Option BtorNode))
    (hw : s.work_stack = (cur0, par) :: w) (h : beta_reduce_step env mode bound s = some s1) :
    s1.work_stack = w ∨
    s1.work_stack =
      (((simplify_cur env cur0).node.e.map env.simplify).reverse.map fun c =>
          (c, some (simplify_cur env cur0).node))
        ++ (simplify_cur env cur0, par) :: w := by
  generalize hc : simplify_cur env cur0 = cur at *
  have hexp : ∀ (s2 : LoopState), s2.work_stack = w →
      expand env mode bound cur par s2 = some s1 →
      s1.work_stack = w ∨
      s1.work_stack =
        ((cur.node.e.map env.simplify).reverse.map fun c => (c, some cur.node))
          ++ (cur, par) :: w := by
    intro s2 hw2 he
    rcases expand_effect _ _ _ _ _ _ _ he with ⟨r, hp⟩ | ⟨-, -, -, -, a5⟩
    · exact Or.inl ((push_arg_stack_effect _ _ _ _ _ hp).1.trans hw2)
    · exact Or.inr (by rw [a5, hw2])
  cases hf : PtrHashTable.find s.cur_scope cur.node with
  | none =>
    by_cases ho : opens_scope cur.node = true
    · rw [step_unmarked_open env mode bound s cur0 cur par w hw hc hf ho] at h
      exact hexp _ rfl h
    · have ho2 : opens_scope cur.node = false := by simpa using ho
      rw [step_unmarked env mode bound s cur0 cur par w hw hc hf ho2] at h
      exact hexp _ rfl h
  | some k =>
    rw [step_marked env mode bound s cur0 cur par w k hw hc hf] at h
    split at h
    · exact hexp _ rfl h
    · split at h
      · obtain ⟨r, s2, ⟨-, -, -, -, c5⟩, hp⟩ := collect_effect _ _ _ _ _ _ h
        exact Or.inl ((push_arg_stack_effect _ _ _ _ _ hp).1.trans c5)
      · split at h
        · obtain ⟨⟨-, -, -, -, c5⟩, -⟩ := revisit_effect _ _ _ h
          exact Or.inl c5
        · cases h

/-- Every entry of the work stack is a node of the graph below `root`, and no
simplification is pending on it. -/
theorem step_entries (env : Ext) (mode bound : Int) (root : BtorNode) (s s1 : LoopState)
    (hs : settled env root = true)
    (hinv : ∀ c par, (c, par) ∈ s.work_stack → c.node ∈ subterms root ∧ simplify_cur env c = c)
    (h : beta_reduce_step env mode bound s = some s1) :
    ∀ c par, (c, par) ∈ s1.work_stack → c.node ∈ subterms root ∧ simplify_cur env c = c := by
  cases hw : s.work_stack with
  | nil =>
    rw [step_of_empty env mode bound s hw] at h
    cases h
    exact hinv
  | cons a w =>
    obtain ⟨cur0, par0⟩ := a
    obtain ⟨hm0, hc0⟩ := hinv cur0 par0 (by rw [hw]; exact List.mem_cons_self _ _)
    have hrest : ∀ c par, (c, par) ∈ w → c.node ∈ subterms root ∧ simplify_cur env c = c :=
      fun c par hmem => hinv c par (by rw [hw]; exact List.mem_cons_of_mem _ hmem)
    intro c par hmem
    rcases step_work_stack env mode bound s s1 cur0 par0 w hw h with e | e
    · rw [e] at hmem
      exact hrest c par hmem
    · rw [e, hc0] at hmem
      rcases List.mem_append.mp hmem with h1 | h1
      · simp only [List.mem_map, List.mem_reverse, Prod.mk.injEq] at h1
        obtain ⟨c1, ⟨c2, hc2, e2⟩, e1, -⟩ := h1
        obtain ⟨g1, g2⟩ := settled_mem env root cur0.node c2 hs hm0 hc2
        rw [← e1, ← e2, g1]
        exact ⟨subterms_child root cur0.node c2 hm0 hc2, g2⟩
      · rcases List.mem_cons.mp h1 with h2 | h2
        · simp only [Prod.mk.injEq] at h2
          rw [h2.1]
          exact ⟨hm0, hc0⟩
        · exact hrest c par h2

/-- The loop keeps the difference between the counts and the references that
the loop state holds. -/
theorem loop_ledger (env : Ext) (mode bound : Int) (root : BtorNode)
    (hs : settled env root = true) (hk : kinds_ok root = true) (fuel : Nat) :
    ∀ (s s1 : LoopState) (rc : RefCount),
      (∀ c par, (c, par) ∈ s.work_stack → c.node ∈ subterms root ∧ simplify_cur env c = c) →
      beta_reduce_loop env mode bound fuel s = .done s1 →
      ∀ n, beta_reduce_loop_refs env mode bound fuel s rc n - held s1 n = rc n - held s n := by
  induction fuel with
  | zero =>
    intro s s1 rc _ h n
    unfold beta_reduce_loop at h
    split at h
    · cases h; rfl
    · cases h
  | succ fuel ih =>
    intro s s1 rc hinv h n
    unfold beta_reduce_loop at h
    unfold beta_reduce_loop_refs
    split at h
    · rename_i he
      cases h
      simp only [he, if_true]
    · rename_i he
      simp only [he, Bool.false_eq_true, if_false]
      split at h
      · cases h
      · rename_i s2 hst
        simp only [hst]
        rw [ih s2 s1 _ (step_entries env mode bound root s s2 hs hinv hst) h n]
        refine step_ledger env mode bound s s2 rc hst ?_ n
        intro cur0 par w hw
        obtain ⟨hm, hc⟩ := hinv cur0 par (by rw [hw]; exact List.mem_cons_self _ _)
        rw [hc]
        unfold kinds_ok at hk
        rw [List.all_eq_true] at hk
        exact hk cur0.node hm

/-- The reference counts after a call of `btor_beta_reduce` that returns: one
more reference to the returned node, and the references of the entries that
the call has added to the cross-call cache. -/
theorem reduce_ledger (fuel : Nat) (env : Ext) (btor btor1 : Btor) (e result : Ref)
    (mode bound : Int) (rc : RefCount) (hs : settled env e.node = true)
    (he : simplify_cur env e = e) (hk : kinds_ok e.node = true)
    (h : btor_beta_reduce fuel env btor e mode bound = .done (result, btor1)) (n : BtorNode) :
    btor_beta_reduce_refs fuel env btor e mode bound rc n
      = rc n + (if n = result.node then 1 else 0)
        + (cache_held btor1.cache n - cache_held btor.cache n) := by
  unfold btor_beta_reduce at h
  split at h
  · cases h
  · split at h
    · cases h
    · split at h
      · cases h
      · split at h
        · cases h
        · cases h
        · rename_i s hloop
          split at h
          · cases h
          · rename_i hfin
            split at h
            · rename_i r hargs
              cases h
              have hl := loop_ledger env mode bound e.node hs hk fuel
                (beta_reduce_init btor e) s rc (by
                  intro c par hmem
                  simp only [beta_reduce_init, List.mem_singleton, Prod.mk.injEq] at hmem
                  rw [hmem.1]
                  exact ⟨self_mem_subterms _, he⟩) hloop n
              have hsr : s.scope_results = [] := by
                simp only [Bool.or_eq_true, Bool.not_eq_true', not_or, Bool.not_eq_true,
                  Bool.not_eq_false'] at hfin
                simpa using hfin.1.1.2
              simp only [btor_beta_reduce_refs, hloop, release_all_apply]
              have hinit : held (beta_reduce_init btor e) n = cache_held btor.cache n := by
                simp [held, beta_reduce_init, refs_in]
              rw [hinit] at hl
              simp only [held, hargs, hsr, refs_in_cons, refs_in_nil, List.map_nil,
                List.sum_nil] at hl
              omega
            · cases h

theorem apply_and_reduce_assign_cache : ∀ (args : List Ref) (btor btor1 : Btor) (cur : Ref)
    (un un1 : List BtorNode),
    apply_and_reduce_assign btor cur un args = some (btor1, un1) →
    btor1.cache = btor.cache := by
  intro args
  induction args with
  | nil =>
    intro btor btor1 cur un un1 h
    simp only [apply_and_reduce_assign, Option.some.injEq, Prod.mk.injEq] at h
    rw [h.1]
  | cons a rest ih =>
    intro btor btor1 cur un un1 h
    unfold apply_and_reduce_assign at h
    split at h
    · cases h
    · split at h
      · rename_i b2 body hb _
        rw [ih _ _ _ _ _ h, assign_param_cache _ _ _ _ hb]
      · cases h

theorem apply_and_reduce_unassign_cache : ∀ (un : List BtorNode) (btor btor1 : Btor),
    apply_and_reduce_unassign btor un = some btor1 → btor1.cache = btor.cache := by
  intro un
  induction un with
  | nil =>
    intro btor btor1 h
    simp only [apply_and_reduce_unassign, Option.some.injEq] at h
    rw [h]
  | cons a rest ih =>
    intro btor btor1 h
    unfold apply_and_reduce_unassign at h
    split at h
    · cases h
    · rename_i b2 hb
      rw [ih _ _ h, unassign_params_cache _ _ _ hb]

theorem reduce_cache (fuel : Nat) (env : Ext) (btor btor1 : Btor) (e result : Ref)
    (mode bound : Int) (hmode : mode ≠ BETA_RED_FULL)
    (h : btor_beta_reduce fuel env btor e mode bound = .done (result, btor1)) :
    btor1.cache = btor.cache := by
  unfold btor_beta_reduce at h
  split at h
  · cases h
  · split at h
    · cases h
    · split at h
      · cases h
      · split at h
        · cases h
        · cases h
        · rename_i s hloop
          split at h
          · cases h
          · split at h
            · cases h
              exact loop_cache env mode bound hmode fuel _ s hloop
            · cases h

theorem apply_and_reduce_ledger (fuel : Nat) (env : Ext) (btor btor1 : Btor) (args : List Ref)
    (lambda result : Ref) (rc : RefCount) (hs : settled env lambda.node = true)
    (he : simplify_cur env lambda = lambda) (hk : kinds_ok lambda.node = true)
    (h : btor_apply_and_reduce fuel env btor args lambda = .done (result, btor1))
    (n : BtorNode) :
    btor_apply_and_reduce_refs fuel env btor args lambda rc n
      = rc n + (if n = result.node then 1 else 0)
        + (cache_held btor1.cache n - cache_held btor.cache n) := by
  unfold btor_apply_and_reduce at h
  unfold btor_apply_and_reduce_refs
  split at h
  · cases h
  · rename_i b1 un hassign
    simp only [hassign]
    split at h
    · cases h
    · cases h
    · rename_i r2 b2 hfull
      split at h
      · cases h
      · rename_i b3 hun
        cases h
        rw [reduce_ledger fuel env b1 b2 lambda result BETA_RED_FULL 0 rc hs he hk hfull n,
          apply_and_reduce_assign_cache _ _ _ _ _ _ hassign,
          apply_and_reduce_unassign_cache _ _ _ hun]

/-! ## Assign followed by unassign -/

theorem mem_take_get {α : Type} : ∀ (l : List α) (k : Nat) (x : α), x ∈ l.take k →
    ∃ i, i < k ∧ l.get? i = some x := by
  intro l
  induction l with
  | nil => intro k x h; simp at h
  | cons y rest ih =>
    intro k x h
    cases k with
    | zero => simp at h
    | succ k =>
      simp only [List.take_succ_cons, List.mem_cons] at h
      rcases h with h | h
      · exact ⟨0, by omega, by simp [h]⟩
      · obtain ⟨i, hi, hg⟩ := ih k x h
        exact ⟨i + 1, by omega, by simpa using hg⟩

theorem takeWhile_append_all {α : Type} (f : α → Bool) :
    ∀ (l1 l2 : List α), (∀ x, x ∈ l1 → f x = true) →
      (l1 ++ l2).takeWhile f = l1 ++ l2.takeWhile f := by
  intro l1
  induction l1 with
  | nil => intro l2 _; rfl
  | cons x rest ih =>
    intro l2 h
    simp only [List.cons_append, List.takeWhile_cons, h x (by simp), if_true]
    rw [ih l2 (fun y hy => h y (by simp [hy]))]

/-- The bindings after `btor_assign_args` followed by `btor_unassign_params`
on the same chain: the bindings pushed are popped, and so is the top binding
of every level after the last argument up to the first level without
binding. -/
theorem assign_unassign_loop (L : BtorNode) (as : List Ref) (btor btor1 : Btor)
    (hwf : chain_wf L = true) (hnd : (chain_params L).Nodup)
    (_hlen : as.length ≤ (chain_params L).length)
    (h1 : ∀ i p a, (chain_params L).get? i = some p → as.get? i = some a →
      btor1.assigned_exp p = a :: btor.assigned_exp p)
    (h2 : ∀ q, q ∉ (chain_params L).take as.length →
      btor1.assigned_exp q = btor.assigned_exp q) :
    btor_unassign_params_loop btor1.assigned_exp L =
      some (pop_bindings btor.assigned_exp
        (((chain_params L).drop as.length).takeWhile
          fun p => !(btor.assigned_exp p).isEmpty)) := by
  rw [unassign_loop_spec L btor1.assigned_exp hwf hnd]
  have hsplit : chain_params L
      = (chain_params L).take as.length ++ (chain_params L).drop as.length :=
    (List.take_append_drop _ _).symm
  have hdisj : ∀ x, x ∈ (chain_params L).take as.length →
      x ∉ (chain_params L).drop as.length := by
    intro x hx hx2
    rw [hsplit] at hnd
    exact (List.nodup_append.mp hnd).2.2 hx hx2
  have hpushed : ∀ x, x ∈ (chain_params L).take as.length →
      ∃ a, btor1.assigned_exp x = a :: btor.assigned_exp x := by
    intro x hx
    obtain ⟨i, hi, hg⟩ := mem_take_get _ _ x hx
    have hlt : i < as.length := hi
    exact ⟨as.get ⟨i, hlt⟩, h1 i x _ hg (List.get?_eq_get hlt)⟩
  have hlevels : bound_levels btor1.assigned_exp L
      = (chain_params L).take as.length
        ++ ((chain_params L).drop as.length).takeWhile
            fun p => !(btor.assigned_exp p).isEmpty := by
    unfold bound_levels
    conv => lhs; rw [hsplit]
    rw [takeWhile_append_all _ _ _ (by
      intro x hx
      obtain ⟨a, ha⟩ := hpushed x hx
      simp [ha])]
    congr 1
    apply takeWhile_congr
    intro x hx
    rw [h2 x (fun hmem => hdisj x hmem hx)]
  rw [hlevels]
  congr 1
  funext q
  simp only [pop_bindings, List.mem_append]
  by_cases hq1 : q ∈ (chain_params L).take as.length
  · obtain ⟨a, ha⟩ := hpushed q hq1
    have hq2 : q ∉ ((chain_params L).drop as.length).takeWhile
        fun p => !(btor.assigned_exp p).isEmpty :=
      fun hmem => hdisj q hq1 (mem_of_mem_takeWhile _ q _ hmem)
    simp [hq1, hq2, ha]
  · simp only [hq1, false_or, h2 q hq1]

/-! ## Keys stored into the cross-call cache -/

theorem keys_from_eq (env : Ext) (c0 c1 : Option (PtrHashTable (Ref × Ref) Ref))
    (h : c1 = c0) : KeysFrom env c0 c1 := by
  subst h
  intro key hk
  exact Or.inl hk

theorem keys_from_trans (env : Ext) (c0 c1 c2 : Option (PtrHashTable (Ref × Ref) Ref))
    (h1 : KeysFrom env c0 c1) (h2 : KeysFrom env c1 c2) : KeysFrom env c0 c2 := by
  intro key hk
  rcases h2 key hk with h | h
  · exact h1 key h
  · exact Or.inr h

theorem set_keys {κ ν : Type} [DecidableEq κ] (t : PtrHashTable κ ν) (x : κ) (v : ν) :
    ∀ k ∈ (PtrHashTable.set t x v).map Prod.fst, k = x ∨ k ∈ t.map Prod.fst := by
  induction t with
  | nil =>
    intro k hk
    simp [PtrHashTable.set] at hk
    exact Or.inl hk
  | cons b t ih =>
    obtain ⟨k0, w⟩ := b
    intro k hk
    unfold PtrHashTable.set at hk
    split at hk
    · exact Or.inr (by simpa using hk)
    · simp only [List.map_cons, List.mem_cons] at hk
      rcases hk with hk | hk
      · exact Or.inr (by simp [hk])
      · rcases ih k hk with h | h
        · exact Or.inl h
        · exact Or.inr (by simp [h])

theorem cache_beta_result_keys (btor btor1 : Btor) (l a r : Ref)
    (h : cache_beta_result btor l a r = some btor1) :
    l.regular = true ∧ l.node.BTOR_IS_LAMBDA_NODE = true ∧
    ∀ key ∈ cache_keys btor1.cache, key ∈ cache_keys btor.cache ∨ key = (l, a) := by
  unfold cache_beta_result at h
  split at h
  · cases h
  · rename_i hl
    have hl2 : l.regular = true ∧ l.node.BTOR_IS_LAMBDA_NODE = true := by simpa using hl
    refine ⟨hl2.1, hl2.2, ?_⟩
    split at h
    · cases h
    · rename_i cache hc
      split at h
      · split at h
        · cases h
          intro key hk
          exact Or.inl hk
        · cases h
      · cases h
        intro key hk
        simp only [cache_keys] at hk
        rcases set_keys cache (l, a) r key hk with e | e
        · exact Or.inr e
        · exact Or.inl (by simpa [cache_keys, hc] using e)

theorem rebuild_apply_keys (env : Ext) (mode : Int) (n : BtorNode) (e : List Ref)
    (s s1 : LoopState) (r : Ref)
    (h : rebuild_apply env mode n e s = some (r, s1)) :
    KeysFrom env s.btor.cache s1.btor.cache := by
  unfold rebuild_apply at h
  split at h
  · rename_i e0 e1 rest fn hfn
    simp only at h
    split at h
    · cases h
    · rename_i result s2 hb
      have e2 : s2.btor.cache = s.btor.cache := by
        split at hb
        · split at hb
          · cases hb
          · cases hb; rfl
        · split at hb
          · cases hb
          · cases hb; rfl
      split at h
      · rename_i hcond
        split at h
        · cases h
        · rename_i btor1 hcb
          cases h
          obtain ⟨hreg, hlam, hkeys⟩ := cache_beta_result_keys _ _ _ _ _ hcb
          simp only [Bool.and_eq_true, Bool.not_eq_true', beq_iff_eq] at hcond
          intro key hk
          rcases hkeys key hk with hk1 | hk1
          · rw [e2] at hk1
            exact Or.inl hk1
          · subst hk1
            exact Or.inr ⟨hreg, hlam, fn, hcond.1.2, hcond.2, rfl⟩
      · cases h
        exact keys_from_eq env _ _ e2
  · cases h

theorem rebuild_keys (env : Ext) (mode : Int) (n : BtorNode) (s s1 : LoopState) (r : Ref)
    (h : rebuild env mode n s = some (r, s1)) : KeysFrom env s.btor.cache s1.btor.cache := by
  unfold rebuild at h
  split at h
  · cases h
  · simp only at h
    split at h
    any_goals (first
      | exact keys_from_eq env _ _ (rebuild_binary_cache _ _ _ _ _ _ h :)
      | exact (rebuild_apply_keys _ _ _ _ _ _ _ h :)
      | exact keys_from_eq env _ _ (rebuild_lambda_cache _ _ _ _ _ h :)
      | (split at h <;> first | (cases h; exact keys_from_eq env _ _ rfl) | cases h)
      | cases h)

theorem collect_keys (env : Ext) (mode bound : Int) (cur : Ref) (s s1 : LoopState)
    (h : collect env mode bound cur s = some s1) :
    KeysFrom env s.btor.cache s1.btor.cache := by
  unfold collect at h
  simp only at h
  split at h
  · exact keys_from_eq env _ _ (push_arg_stack_cache _ _ _ _ _ h)
  · split at h
    · cases h
    · rename_i result s2 hr
      exact keys_from_trans env _ _ _ (rebuild_keys _ _ _ _ _ _ hr)
        (keys_from_eq env _ _ (push_arg_stack_cache _ _ _ _ _ h))

theorem step_keys (env : Ext) (mode bound : Int) (s s1 : LoopState)
    (h : beta_reduce_step env mode bound s = some s1) :
    KeysFrom env s.btor.cache s1.btor.cache := by
  unfold beta_reduce_step at h
  split at h
  · cases h; exact keys_from_eq env _ _ rfl
  · rename_i cur0 par work hw
    simp only at h
    generalize hs1 : (match PtrHashTable.find (({ s with work_stack := work } : LoopState).record
        (Event.visit (simplify_cur env cur0).node)).cur_scope (simplify_cur env cur0).node with
      | some _ => (({ s with work_stack := work } : LoopState).record
          (Event.visit (simplify_cur env cur0).node))
      | none => _) = s2 at h
    have e2 : s2.btor.cache = s.btor.cache := by
      rw [← hs1]
      split
      · rfl
      · simp only [BETA_REDUCE_OPEN_NEW_SCOPE]
        split <;> rfl
    rw [← e2]
    split at h
    · exact keys_from_eq env _ _ (expand_cache _ _ _ _ _ _ _ h)
    · exact collect_keys _ _ _ _ _ _ h
    · exact keys_from_eq env _ _ (revisit_cache _ _ _ h)
    · cases h

theorem loop_keys (env : Ext) (mode bound : Int) (fuel : Nat) :
    ∀ (s s1 : LoopState), beta_reduce_loop env mode bound fuel s = .done s1 →
      KeysFrom env s.btor.cache s1.btor.cache := by
  induction fuel with
  | zero =>
    intro s s1 h
    unfold beta_reduce_loop at h
    split at h
    · cases h; exact keys_from_eq env _ _ rfl
    · cases h
  | succ f ih =>
    intro s s1 h
    unfold beta_reduce_loop at h
    split at h
    · cases h; exact keys_from_eq env _ _ rfl
    · split at h
      · cases h
      · rename_i s2 hs2
        exact keys_from_trans env _ _ _ (step_keys _ _ _ _ _ hs2) (ih _ _ h)

theorem reduce_keys (fuel : Nat) (env : Ext) (btor btor1 : Btor) (e result : Ref)
    (mode bound : Int)
    (h : btor_beta_reduce fuel env btor e mode bound = .done (result, btor1)) :
    KeysFrom env btor.cache btor1.cache := by
  unfold btor_beta_reduce at h
  split at h
  · cases h
  · split at h
    · cases h
    · split at h
      · cases h
      · split at h
        · cases h
        · cases h
        · rename_i s hloop
          split at h
          · cases h
          · split at h
            · cases h
              exact loop_keys env mode bound fuel _ s hloop
            · cases h

/-! ## Visits: the argument stack -/

theorem rebuild_binary_args (op : Ref → Ref → Ref) (k : BtorNodeKind) (e : List Ref)
    (s s1 : LoopState) (r : Ref) (h : rebuild_binary op k e s = some (r, s1)) :
    s1.arg_stack = s.arg_stack := by
  unfold rebuild_binary at h
  split at h
  · cases h; rfl
  · cases h

theorem rebuild_lambda_args (n : BtorNode) (e : List Ref) (s s1 : LoopState) (r : Ref)
    (h : rebuild_lambda n e s = some (r, s1)) : s1.arg_stack = s.arg_stack := by
  unfold rebuild_lambda at h
  split at h
  · split at h
    · split at h
      · cases h
      · cases h; rfl
    · split at h
      · cases h
      · split at h
        · cases h
        · cases h; rfl
  · cases h

theorem cache_beta_result_btor (btor btor1 : Btor) (l a r : Ref)
    (h : cache_beta_result btor l a r = some btor1) :
    btor1.assigned_exp = btor.assigned_exp ∧ btor1.beta_mark = btor.beta_mark ∧
    btor1.rewrite_level = btor.rewrite_level ∧ btor1.log = btor.log := by
  unfold cache_beta_result at h
  split at h
  · cases h
  · split at h
    · cases h
    · split at h
      · split at h
        · cases h; exact ⟨rfl, rfl, rfl, rfl⟩
        · cases h
      · cases h; exact ⟨rfl, rfl, rfl, rfl⟩

theorem rebuild_apply_args (env : Ext) (mode : Int) (n : BtorNode) (e : List Ref)
    (s s1 : LoopState) (r : Ref)
    (h : rebuild_apply env mode n e s = some (r, s1)) : s1.arg_stack = s.arg_stack := by
  unfold rebuild_apply at h
  split at h
  · simp only at h
    split at h
    · cases h
    · rename_i result s2 hb
      have e2 : s2.arg_stack = s.arg_stack := by
        split at hb
        · split at hb
          · cases hb
          · cases hb; rfl
        · split at hb
          · cases hb
          · cases hb; rfl
      split at h
      · split at h
        · cases h
        · cases h
          exact e2
      · cases h
        exact e2
  · cases h

/-- The rebuild pops as many results as the node has children. -/
theorem rebuild_args (env : Ext) (mode : Int) (n : BtorNode) (s s1 : LoopState) (r : Ref)
    (h : rebuild env mode n s = some (r, s1)) :
    n.arity ≤ s.arg_stack.length ∧ s1.arg_stack = s.arg_stack.drop n.arity := by
  unfold rebuild at h
  split at h
  · cases h
  · rename_i hlen
    refine ⟨by omega, ?_⟩
    simp only at h
    split at h
    any_goals (first
      | exact (rebuild_binary_args _ _ _ _ _ _ h :)
      | exact (rebuild_apply_args _ _ _ _ _ _ _ h :)
      | exact (rebuild_lambda_args _ _ _ _ _ h :)
      | (split at h <;> first | (cases h; rfl) | cases h)
      | cases h)

theorem assign_lambda_args (n : BtorNode) (par : Option BtorNode) (se : List Ref)
    (s s1 : LoopState) (h : assign_lambda n par se s = some (.inr s1)) :
    s1.arg_stack = s.arg_stack := by
  unfold assign_lambda at h
  split at h
  · split at h
    · split at h
      · cases h
      · cases h; rfl
      · split at h
        · split at h
          · cases h
          · split at h
            · cases h
            · simp only at h
              split at h
              · cases h
              · cases h
              · split at h
                · cases h
                · cases h
                  rfl
        · cases h; rfl
    · cases h
  · cases h; rfl

/-- The first visit either emits the node, or pushes the node and its
children and leaves the argument stack as it is; in that case the node is not
cut by the bound. -/
theorem expand_args (env : Ext) (mode bound : Int) (cur : Ref) (par : Option BtorNode)
    (s s1 : LoopState) (h : expand env mode bound cur par s = some s1) :
    (∃ r, push_arg_stack cur cur.node r
        { s with cur_scope := PtrHashTable.set s.cur_scope cur.node 1 } = some s1) ∨
    (s1.cur_scope = PtrHashTable.set s.cur_scope cur.node 1 ∧ s1.scopes = s.scopes ∧
      s1.scope_lambdas = s.scope_lambdas ∧ s1.cur_scope_lambda = s.cur_scope_lambda ∧
      s1.work_stack =
        ((cur.node.e.map env.simplify).reverse.map fun c => (c, some cur.node))
          ++ (cur, par) :: s.work_stack ∧
      s1.arg_stack = s.arg_stack ∧
      (decide (bound > 0) && cur.node.BTOR_IS_LAMBDA_NODE
        && decide ((s.scopes.length : Int) ≥ bound)) = false) := by
  unfold expand at h
  simp only at h
  split at h
  · cases h
  · split at h
    · split at h
      · cases h
      · exact Or.inl ⟨_, h⟩
    · rename_i hcut
      split at h
      · exact Or.inl ⟨_, h⟩
      · split at h
        · exact Or.inl ⟨_, h⟩
        · split at h
          · split at h
            · cases h
            · exact Or.inl ⟨_, h⟩
          · split at h
            · cases h
            · exact Or.inl ⟨_, h⟩
            · rename_i s2 hs2
              cases h
              obtain ⟨a1, a2, a3, a4, a5⟩ := assign_lambda_scopes _ _ _ _ _ hs2
              have a6 := assign_lambda_args _ _ _ _ _ hs2
              simp only at a1 a2 a3 a4 a5 a6
              exact Or.inr ⟨a1, a2, a3, a4, by simp only [a5], a6, by simpa using hcut⟩

/-- The post-order visit pops the results of the children and pushes one
result; a leaf and a lambda at the bound push one result and pop none. -/
theorem collect_args (env : Ext) (mode bound : Int) (cur : Ref) (s s1 : LoopState)
    (h : collect env mode bound cur s = some s1) :
    ∃ r, (s1.arg_stack = r :: s.arg_stack ∧
        (cur.node.BTOR_IS_BV_CONST_NODE || cur.node.BTOR_IS_BV_VAR_NODE
          || cur.node.BTOR_IS_ARRAY_VAR_NODE || cur.node.BTOR_IS_PARAM_NODE
          || (decide (bound > 0) && cur.node.BTOR_IS_LAMBDA_NODE
            && decide ((s.scopes.length : Int) ≥ bound))) = true) ∨
      (s1.arg_stack = r :: s.arg_stack.drop cur.node.arity ∧
        cur.node.arity ≤ s.arg_stack.length) := by
  unfold collect at h
  simp only at h
  split at h
  · rename_i hc
    exact ⟨_, Or.inl ⟨(push_arg_stack_stacks _ _ _ _ _ h).1, hc⟩⟩
  · split at h
    · cases h
    · rename_i result s2 hr
      obtain ⟨b1, b2⟩ := rebuild_args _ _ _ _ _ _ hr
      refine ⟨cur.cond_invert result, Or.inr ⟨?_, b1⟩⟩
      rw [(push_arg_stack_stacks _ _ _ _ _ h).1, b2]

theorem revisit_args (cur : Ref) (s s1 : LoopState) (h : revisit cur s = some s1) :
    ∃ r, s1.arg_stack = r :: s.arg_stack := by
  unfold revisit at h
  simp only at h
  split at h
  · cases h
  · split at h
    · cases h
    · cases h; exact ⟨_, rfl⟩

theorem stepInv_mono (env : Ext) (mode bound : Int) (ms ms1 : BtorNode → Prop)
    (I : LoopState → Prop) (h : ∀ x, ms1 x → ms x) (hI : StepInv env mode bound ms I) :
    StepInv env mode bound ms1 I :=
  fun s s1 cur par w hw hm hst hi => hI s s1 cur par w hw (h _ hm) hst hi

/-- The revisit of a done node pushes one result. -/
theorem visit_done_frame (env : Ext) (mode bound : Int) (s : LoopState) (cur : Ref)
    (par : Option BtorNode) (w : List (Ref × Option BtorNode)) (k : Nat)
    (hw : s.work_stack = (cur, par) :: w) (hc : simplify_cur env cur = cur)
    (hf : PtrHashTable.find s.cur_scope cur.node = some (k + 2))
    (hl : s.cur_scope_lambda ≠ some cur.node) :
    VisitEnds env mode bound s (fun m => m = cur.node) w 1 1 := by
  rcases visit_marked_ends env mode bound s cur par w (k + 1) hw hc hf hl with
    h | ⟨s1, hr, c1, c2, c3, c4, c5⟩
  · exact Or.inl h
  · refine Or.inr ⟨s1, hr, c1, c2, c3, c4, ?_, c5, ?_, ?_⟩
    all_goals
      have hst : beta_reduce_step env mode bound s = some s1 := by
        cases hs : beta_reduce_step env mode bound s with
        | none => simp [run_steps, hs] at hr
        | some s2 => simpa [run_steps, hs] using hr
    · have hst2 := hst
      rw [step_marked env mode bound s cur cur par w (k + 2) hw hc hf] at hst2
      simp only [Nat.succ_ne_zero, if_false, Nat.add_eq_zero, OfNat.ofNat_ne_zero, and_false,
        Nat.reduceEqDiff] at hst2
      split at hst2
      · obtain ⟨r, hr2⟩ := revisit_args _ _ _ hst2
        exact ⟨[r], rfl, by simpa [LoopState.record] using hr2⟩
      · cases hst2
    · intro x hx
      by_cases hxc : x = cur.node
      · have hst2 := hst
        rw [step_marked env mode bound s cur cur par w (k + 2) hw hc hf] at hst2
        simp only [Nat.succ_ne_zero, if_false, Nat.add_eq_zero, OfNat.ofNat_ne_zero, and_false,
          Nat.reduceEqDiff] at hst2
        split at hst2
        · obtain ⟨⟨d1, -⟩, -⟩ := revisit_effect _ _ _ hst2
          simp only [LoopState.record] at d1
          rw [d1, hxc, hf] at hx
          cases hx
        · cases hst2
      · rw [c5 x hxc] at hx
        exact hx
    · intro I hI hi
      exact hI s s1 cur par w hw (by rw [hc]) hst hi

/-- The post-order visit of a node that is not the scope lambda: the results
of its children are popped and one result is pushed. -/
theorem visit_collect_frame (env : Ext) (mode bound : Int) (s : LoopState) (cur : Ref)
    (par : Option BtorNode) (w : List (Ref × Option BtorNode)) (rs old : List Ref)
    (hw : s.work_stack = (cur, par) :: w) (hc : simplify_cur env cur = cur)
    (hf : PtrHashTable.find s.cur_scope cur.node = some 1)
    (hl : s.cur_scope_lambda ≠ some cur.node)
    (hargs : s.arg_stack = rs ++ old) (hlen : rs.length = cur.node.arity)
    (hleaf : leaf_arity_ok cur.node = true)
    (hcut : (decide (bound > 0) && cur.node.BTOR_IS_LAMBDA_NODE
      && decide ((s.scopes.length : Int) ≥ bound)) = false) :
    beta_reduce_step env mode bound s = none ∨
    ∃ s1, beta_reduce_step env mode bound s = some s1 ∧ s1.work_stack = w ∧
      s1.scopes = s.scopes ∧ s1.scope_lambdas = s.scope_lambdas ∧
      s1.cur_scope_lambda = s.cur_scope_lambda ∧ (∃ r, s1.arg_stack = r :: old) ∧
      (∀ x, x ≠ cur.node →
        PtrHashTable.find s1.cur_scope x = PtrHashTable.find s.cur_scope x) ∧
      PtrHashTable.find s1.cur_scope cur.node = some 2 := by
  cases hst : beta_reduce_step env mode bound s with
  | none => exact Or.inl rfl
  | some s1 =>
    refine Or.inr ⟨s1, rfl, ?_⟩
    rw [step_expanded env mode bound s cur cur par w hw hc hf] at hst
    obtain ⟨r0, s2, ⟨c1, c2, c3, c4, c5⟩, hp⟩ := collect_effect _ _ _ _ _ _ hst
    simp only [LoopState.record] at c1 c2 c3 c4 c5
    obtain ⟨b0, -, hcase⟩ := push_arg_stack_effect _ _ _ _ _ hp
    have harg : ∃ r, s1.arg_stack = r :: old := by
      obtain ⟨r, hr | hr⟩ := collect_args _ _ _ _ _ _ hst
      · obtain ⟨hr1, hr2⟩ := hr
        simp only [LoopState.record] at hr1 hr2
        rw [hcut, Bool.or_false] at hr2
        have hnil : cur.node.e = [] := by
          unfold leaf_arity_ok at hleaf
          rw [hr2] at hleaf
          simpa using hleaf
        have hrs : rs = [] := by
          apply List.eq_nil_of_length_eq_zero
          rw [hlen, BtorNode.arity, hnil]
          rfl
        exact ⟨r, by rw [hr1, hargs, hrs]; rfl⟩
      · obtain ⟨hr1, -⟩ := hr
        simp only [LoopState.record] at hr1
        refine ⟨r, ?_⟩
        rw [hr1, hargs, ← hlen, List.drop_left]
    rcases hcase with ⟨-, b1, b2, b3, b4⟩ | ⟨b1, -⟩
    · refine ⟨by rw [b0, c5], by rw [b2, c2], by rw [b3, c3], by rw [b4, c4], harg, ?_, ?_⟩
      · intro x hx
        rw [b1, c1, PtrHashTable.find_set_other _ _ _ _ (fun e => hx e.symm)]
      · rw [b1]
        exact PtrHashTable.find_set_self _ _ _
    · rw [c4] at b1
      exact absurd b1 hl

/-- The post-order visit of the scope lambda: the results of its children are
popped, one result is pushed and the scope is closed. -/
theorem visit_close_frame (env : Ext) (mode bound : Int) (s : LoopState) (cur : Ref)
    (par : Option BtorNode) (w : List (Ref × Option BtorNode)) (rs old : List Ref)
    (hw : s.work_stack = (cur, par) :: w) (hc : simplify_cur env cur = cur)
    (hf : PtrHashTable.find s.cur_scope cur.node = some 1)
    (hl : s.cur_scope_lambda = some cur.node)
    (hargs : s.arg_stack = rs ++ old) (hlen : rs.length = cur.node.arity)
    (hleaf : leaf_arity_ok cur.node = true)
    (hcut : (decide (bound > 0) && cur.node.BTOR_IS_LAMBDA_NODE
      && decide ((s.scopes.length : Int) ≥ bound)) = false) :
    beta_reduce_step env mode bound s = none ∨
    ∃ s1, beta_reduce_step env mode bound s = some s1 ∧ s1.work_stack = w ∧
      s.scopes = s1.cur_scope :: s1.scopes ∧
      s.scope_lambdas = s1.cur_scope_lambda :: s1.scope_lambdas ∧
      ∃ r, s1.arg_stack = r :: old := by
  rcases visit_close_ends env mode bound s cur par w hw hc hf hl with h | ⟨s1, hst, g1, g2, g3⟩
  · exact Or.inl h
  · refine Or.inr ⟨s1, hst, g1, g2, g3, ?_⟩
    rw [step_expanded env mode bound s cur cur par w hw hc hf] at hst
    obtain ⟨r, hr | hr⟩ := collect_args _ _ _ _ _ _ hst
    · obtain ⟨hr1, hr2⟩ := hr
      simp only [LoopState.record] at hr1 hr2
      rw [hcut, Bool.or_false] at hr2
      have hnil : cur.node.e = [] := by
        unfold leaf_arity_ok at hleaf
        rw [hr2] at hleaf
        simpa using hleaf
      have hrs : rs = [] := by
        apply List.eq_nil_of_length_eq_zero
        rw [hlen, BtorNode.arity, hnil]
        rfl
      exact ⟨r, by rw [hr1, hargs, hrs]; rfl⟩
    · obtain ⟨hr1, -⟩ := hr
      simp only [LoopState.record] at hr1
      refine ⟨r, ?_⟩
      rw [hr1, hargs, ← hlen, List.drop_left]

/-- The first visit of a node that is not the scope lambda: the node is
emitted, the entry popped and one result pushed, with the scopes as before; or
the node and its children are pushed, the mark of the node is 1, the argument
stack is as before, the node is not cut by the bound, and either the scopes
are as before or the node has opened a scope. -/
theorem visit_first_frame (env : Ext) (mode bound : Int) (s : LoopState) (cur : Ref)
    (par : Option BtorNode) (w : List (Ref × Option BtorNode))
    (hw : s.work_stack = (cur, par) :: w) (hc : simplify_cur env cur = cur)
    (hf : PtrHashTable.find s.cur_scope cur.node = none
      ∨ PtrHashTable.find s.cur_scope cur.node = some 0)
    (hl : s.cur_scope_lambda ≠ some cur.node) :
    beta_reduce_step env mode bound s = none ∨
    ∃ s1, beta_reduce_step env mode bound s = some s1 ∧
      ((s1.work_stack = w ∧ s1.scopes = s.scopes ∧ s1.scope_lambdas = s.scope_lambdas ∧
          s1.cur_scope_lambda = s.cur_scope_lambda ∧
          (∃ r, s1.arg_stack = r :: s.arg_stack) ∧
          (∀ m, m ≠ cur.node →
            PtrHashTable.find s1.cur_scope m = PtrHashTable.find s.cur_scope m) ∧
          PtrHashTable.find s1.cur_scope cur.node ≠ some 1) ∨
       (s1.work_stack =
            ((cur.node.e.map env.simplify).reverse.map fun c => (c, some cur.node))
              ++ (cur, par) :: w ∧
          PtrHashTable.find s1.cur_scope cur.node = some 1 ∧
          s1.arg_stack = s.arg_stack ∧
          (decide (bound > 0) && cur.node.BTOR_IS_LAMBDA_NODE
            && decide ((s1.scopes.length : Int) ≥ bound)) = false ∧
          ((s1.scopes = s.scopes ∧ s1.scope_lambdas = s.scope_lambdas ∧
              s1.cur_scope_lambda = s.cur_scope_lambda ∧
              ∀ m, m ≠ cur.node →
                PtrHashTable.find s1.cur_scope m = PtrHashTable.find s.cur_scope m) ∨
           (s1.scopes = s.cur_scope :: s.scopes ∧
              s1.scope_lambdas = s.cur_scope_lambda :: s.scope_lambdas ∧
              s1.cur_scope_lambda = some cur.node ∧
              ∀ m, m ≠ cur.node → PtrHashTable.find s1.cur_scope m = none)))) := by
  cases hst : beta_reduce_step env mode bound s with
  | none => exact Or.inl rfl
  | some s1 =>
    refine Or.inr ⟨s1, rfl, ?_⟩
    have hother : ∀ (t : PtrHashTable BtorNode Nat) (v : Nat) (m : BtorNode), m ≠ cur.node →
        PtrHashTable.find (PtrHashTable.set t cur.node v) m = PtrHashTable.find t m :=
      fun t v m hm => PtrHashTable.find_set_other t cur.node m v (Ne.symm hm)
    rcases hf with hf | hf
    · by_cases ho : opens_scope cur.node = true
      · rw [step_unmarked_open env mode bound s cur cur par w hw hc hf ho] at hst
        rcases expand_args _ _ _ _ _ _ _ hst with ⟨r, hp⟩ | ⟨a1, a2, a3, a4, a5, a6, a7⟩
        · obtain ⟨b0, -, hcase⟩ := push_arg_stack_effect _ _ _ _ _ hp
          have harg := (push_arg_stack_stacks _ _ _ _ _ hp).1
          rcases hcase with ⟨hne, -⟩ | ⟨-, b2, b3⟩
          · exact absurd rfl hne
          · simp only [LoopState.record] at b0 b2 b3 harg
            injection b2 with b2a b2b
            injection b3 with b3a b3b
            refine Or.inl ⟨b0, b2b.symm, b3b.symm, b3a.symm, ⟨_, harg⟩,
              fun m _ => by rw [← b2a], ?_⟩
            rw [← b2a, hf]
            simp
        · simp only [LoopState.record] at a1 a2 a3 a4 a5 a6 a7
          refine Or.inr ⟨a5, ?_, a6, ?_, Or.inr ⟨a2, a3, a4, ?_⟩⟩
          · rw [a1]
            exact PtrHashTable.find_set_self _ _ _
          · rw [a2]; exact a7
          · intro m hm
            rw [a1, hother _ _ m hm]
            simp [PtrHashTable.find, Ne.symm hm]
      · have ho2 : opens_scope cur.node = false := by simpa using ho
        rw [step_unmarked env mode bound s cur cur par w hw hc hf ho2] at hst
        rcases expand_args _ _ _ _ _ _ _ hst with ⟨r, hp⟩ | ⟨a1, a2, a3, a4, a5, a6, a7⟩
        · obtain ⟨b0, -, hcase⟩ := push_arg_stack_effect _ _ _ _ _ hp
          have harg := (push_arg_stack_stacks _ _ _ _ _ hp).1
          rcases hcase with ⟨-, b1, b2, b3, b4⟩ | ⟨b1, -⟩
          · simp only [LoopState.record] at b0 b1 b2 b3 b4 harg
            refine Or.inl ⟨b0, b2, b3, b4, ⟨_, harg⟩, ?_, ?_⟩
            · intro m hm
              rw [b1, hother _ _ m hm, hother _ _ m hm, hother _ _ m hm]
            · rw [b1, PtrHashTable.find_set_self]
              simp
          · exact absurd b1 hl
        · simp only [LoopState.record] at a1 a2 a3 a4 a5 a6 a7
          refine Or.inr ⟨a5, ?_, a6, ?_, Or.inl ⟨a2, a3, a4, ?_⟩⟩
          · rw [a1]; exact PtrHashTable.find_set_self _ _ _
          · rw [a2]; exact a7
          · intro m hm
            rw [a1, hother _ _ m hm, hother _ _ m hm]
    · rw [step_marked env mode bound s cur cur par w 0 hw hc hf] at hst
      simp only [if_true] at hst
      rcases expand_args _ _ _ _ _ _ _ hst with ⟨r, hp⟩ | ⟨a1, a2, a3, a4, a5, a6, a7⟩
      · obtain ⟨b0, -, hcase⟩ := push_arg_stack_effect _ _ _ _ _ hp
        have harg := (push_arg_stack_stacks _ _ _ _ _ hp).1
        rcases hcase with ⟨-, b1, b2, b3, b4⟩ | ⟨b1, -⟩
        · simp only [LoopState.record] at b0 b1 b2 b3 b4 harg
          refine Or.inl ⟨b0, b2, b3, b4, ⟨_, harg⟩, ?_, ?_⟩
          · intro m hm
            rw [b1, hother _ _ m hm, hother _ _ m hm]
          · rw [b1, PtrHashTable.find_set_self]
            simp
        · exact absurd b1 hl
      · simp only [LoopState.record] at a1 a2 a3 a4 a5 a6 a7
        refine Or.inr ⟨a5, ?_, a6, ?_, Or.inl ⟨a2, a3, a4, ?_⟩⟩
        · rw [a1]; exact PtrHashTable.find_set_self _ _ _
        · rw [a2]; exact a7
        · intro m hm
          rw [a1, hother _ _ m hm]

theorem visitEnds_mono (env : Ext) (mode bound : Int) (s : LoopState)
    (ms ms1 : BtorNode → Prop) (w : List (Ref × Option BtorNode)) (k m : Nat)
    (hsub : ∀ x, ms x → ms1 x) (h : VisitEnds env mode bound s ms w k m) :
    VisitEnds env mode bound s ms1 w k m := by
  rcases h with h | ⟨s1, hr, c1, c2, c3, c4, c5, c6, c7, c8⟩
  · exact Or.inl h
  · exact Or.inr ⟨s1, hr, c1, c2, c3, c4, c5, fun x hx => c6 x (fun hm => hx (hsub x hm)), c7,
      fun I hI hi => c8 I (stepInv_mono env mode bound ms1 ms I hsub hI) hi⟩

/-- The visits of the entries `ds` on top of the work stack end with one
result pushed for each, when the visit of each of them does. -/
theorem children_frame (env : Ext) (mode bound : Int) (parent : BtorNode) :
    ∀ (ds : List Ref),
      (∀ c, c ∈ ds → ∀ (par : Option BtorNode) (w : List (Ref × Option BtorNode))
        (s : LoopState), s.work_stack = (c, par) :: w →
        (∀ l, s.cur_scope_lambda = some l → l ∉ subterms c.node) →
        (∀ m, m ∈ subterms c.node → PtrHashTable.find s.cur_scope m ≠ some 1) →
        ∃ k, k ≤ 2 * c.node.size ∧
          VisitEnds env mode bound s (fun m => m ∈ subterms c.node) w k 1) →
      ∀ (s : LoopState) (w : List (Ref × Option BtorNode)),
        s.work_stack = ds.map (fun c => (c, some parent)) ++ w →
        (∀ l, s.cur_scope_lambda = some l → ∀ c, c ∈ ds → l ∉ subterms c.node) →
        (∀ c, c ∈ ds → ∀ m, m ∈ subterms c.node → PtrHashTable.find s.cur_scope m ≠ some 1) →
        ∃ k, k ≤ 2 * (ds.map fun c => c.node.size).sum ∧
          VisitEnds env mode bound s (fun m => ∃ c, c ∈ ds ∧ m ∈ subterms c.node) w k
            ds.length := by
  intro ds
  induction ds with
  | nil =>
    intro _ s w hw _ _
    exact ⟨0, Nat.zero_le _, Or.inr ⟨s, rfl, by simpa using hw, rfl, rfl, rfl, ⟨[], rfl, rfl⟩,
      fun _ _ => rfl, fun _ h => h, fun _ _ hi => hi⟩⟩
  | cons d ds ih =>
    intro hall s w hw hl hno
    obtain ⟨k1, hk1, h1⟩ := hall d (List.mem_cons_self _ _) (some parent)
      (ds.map (fun c => (c, some parent)) ++ w) s (by simpa using hw)
      (fun l hl1 => hl l hl1 d (List.mem_cons_self _ _))
      (fun m hm => hno d (List.mem_cons_self _ _) m hm)
    rcases h1 with h1 | ⟨s1, hr1, hw1, a2, a3, a4, ⟨rs1, al, a5⟩, a6, a7, a8⟩
    · refine ⟨k1 + 0, ?_, Or.inl (run_steps_none_add env mode bound k1 0 s h1)⟩
      simp only [List.map_cons, List.sum_cons]
      omega
    · obtain ⟨k2, hk2, h2⟩ := ih (fun c hc => hall c (List.mem_cons_of_mem _ hc)) s1 w hw1
        (fun l hl1 c hc => hl l (by rw [← a4]; exact hl1) c (List.mem_cons_of_mem _ hc))
        (fun c hc m hm h1m => hno c (List.mem_cons_of_mem _ hc) m hm (a7 m h1m))
      refine ⟨k1 + k2, ?_, ?_⟩
      · simp only [List.map_cons, List.sum_cons]
        omega
      · rcases h2 with h2 | ⟨s2, hr2, hw2, b2, b3, b4, ⟨rs2, bl, b5⟩, b6, b7, b8⟩
        · exact Or.inl (run_steps_some_none env mode bound k1 k2 s s1 hr1 h2)
        · refine Or.inr ⟨s2, run_steps_add env mode bound k1 k2 s s1 s2 hr1 hr2, hw2,
            b2.trans a2, b3.trans a3, b4.trans a4, ⟨rs2 ++ rs1, ?_, ?_⟩, ?_, ?_, ?_⟩
          · simp only [List.length_append, List.length_cons, al, bl]
          · rw [b5, a5, List.append_assoc]
          · intro m hm
            rw [b6 m (fun ⟨c, hc, hmc⟩ => hm ⟨c, List.mem_cons_of_mem _ hc, hmc⟩),
              a6 m (fun hmd => hm ⟨d, List.mem_cons_self _ _, hmd⟩)]
          · intro x hx
            exact a7 x (b7 x hx)
          · intro I hI hi
            refine b8 I (stepInv_mono env mode bound _ _ I ?_ hI)
              (a8 I (stepInv_mono env mode bound _ _ I ?_ hI) hi)
            · rintro x ⟨c, hc, hmc⟩
              exact ⟨c, List.mem_cons_of_mem _ hc, hmc⟩
            · intro x hx
              exact ⟨d, List.mem_cons_self _ _, hx⟩

theorem leaves_ok_child (n : BtorNode) (c : Ref) (h : leaves_ok n = true) (hc : c ∈ n.e) :
    leaves_ok c.node = true := by
  unfold leaves_ok at h ⊢
  rw [List.all_eq_true] at h ⊢
  intro m hm
  exact h m ((mem_subterms_iff n m).mpr (Or.inr ⟨c, hc, hm⟩))

theorem leaves_ok_self (n : BtorNode) (h : leaves_ok n = true) : leaf_arity_ok n = true := by
  unfold leaves_ok at h
  rw [List.all_eq_true] at h
  exact h n (self_mem_subterms n)

/-- The visit of an entry of the work stack: after at most twice as many
iterations as the term has nodes, an assertion has failed or the entry and all
entries pushed for it are popped, one result is pushed, and the scopes are as
before. -/
theorem visit_frame (env : Ext) (mode bound : Int) :
    ∀ (N : Nat) (n : BtorNode), n.size ≤ N → settled env n = true → leaves_ok n = true →
      ∀ (v : Bool) (par : Option BtorNode) (w : List (Ref × Option BtorNode)) (s : LoopState),
        s.work_stack = (⟨n, v⟩, par) :: w → simplify_cur env ⟨n, v⟩ = ⟨n, v⟩ →
        (∀ l, s.cur_scope_lambda = some l → l ∉ subterms n) →
        (∀ m, m ∈ subterms n → PtrHashTable.find s.cur_scope m ≠ some 1) →
        ∃ k, k ≤ 2 * n.size ∧
          VisitEnds env mode bound s (fun m => m ∈ subterms n) w k 1 := by
  intro N
  induction N with
  | zero =>
    intro n hn
    have := size_pos n
    omega
  | succ N ih =>
    intro n hn hset hlv v par w s hw hc hH hno
    have hpos := size_pos n
    have hl : s.cur_scope_lambda ≠ some n := fun e => hH n e (self_mem_subterms n)
    have hself : ∀ m, m ∉ subterms n → m ≠ n := fun m hm e => hm (e ▸ self_mem_subterms n)
    have hfirst : PtrHashTable.find s.cur_scope n = none
        ∨ PtrHashTable.find s.cur_scope n = some 0
        ∨ ∃ k, PtrHashTable.find s.cur_scope n = some (k + 2) := by
      cases hf : PtrHashTable.find s.cur_scope n with
      | none => exact Or.inl rfl
      | some k =>
        rcases k with _ | _ | k
        · exact Or.inr (Or.inl rfl)
        · exact absurd hf (hno n (self_mem_subterms n))
        · exact Or.inr (Or.inr ⟨k, rfl⟩)
    have hone : ∀ s1, beta_reduce_step env mode bound s = some s1 →
        ∀ I : LoopState → Prop, StepInv env mode bound (fun m => m ∈ subterms n) I →
          I s → I s1 :=
      fun s1 hst I hI hi =>
        hI s s1 ⟨n, v⟩ par w hw (by rw [hc]; exact self_mem_subterms n) hst hi
    rcases hfirst with hf | hf | ⟨k, hf⟩
    rotate_left 2
    · exact ⟨1, by omega, visitEnds_mono env mode bound s _ _ w 1 1
        (fun x hx => by rw [hx]; exact self_mem_subterms n)
        (visit_done_frame env mode bound s ⟨n, v⟩ par w k hw hc hf hl)⟩
    all_goals
      rcases visit_first_frame env mode bound s ⟨n, v⟩ par w hw hc
          (by first | exact Or.inl hf | exact Or.inr hf) hl with
        h | ⟨s1, hst, hcase⟩
      · exact ⟨1, by omega, Or.inl (run_steps_one_none env mode bound s h)⟩
      · rcases hcase with ⟨c1, c2, c3, c4, ⟨r, c5⟩, c6, c7⟩ | ⟨hw1, hf1, ha1, hcut1, hscope⟩
        · refine ⟨1, by omega, Or.inr ⟨s1, run_steps_one env mode bound s s1 hst, c1, c2, c3, c4,
            ⟨[r], rfl, c5⟩, fun m hm => c6 m (hself m hm), ?_, hone s1 hst⟩⟩
          intro x hx
          by_cases hxn : x = n
          · rw [hxn] at hx
            exact absurd hx c7
          · rw [c6 x hxn] at hx
            exact hx
        · have hse : n.e.map env.simplify = n.e := by
            conv => rhs; rw [← List.map_id n.e]
            apply List.map_congr_left
            intro c hc1
            have := (settled_child env n c hset hc1).1
            simp only [stable, Bool.and_eq_true, decide_eq_true_eq] at this
            exact this.1
          simp only [hse] at hw1
          have hH1 : ∀ l, s1.cur_scope_lambda = some l →
              ∀ c, c ∈ n.e.reverse → l ∉ subterms c.node := by
            intro l hl1 c hc1 hmem
            have hc2 : c ∈ n.e := List.mem_reverse.mp hc1
            rcases hscope with ⟨-, -, d4, -⟩ | ⟨-, -, d4, -⟩
            · rw [d4] at hl1
              exact hH l hl1 ((mem_subterms_iff n l).mpr (Or.inr ⟨c, hc2, hmem⟩))
            · rw [d4] at hl1
              cases hl1
              exact not_mem_subterms_child n c hc2 hmem
          have hno1 : ∀ c, c ∈ n.e.reverse → ∀ m, m ∈ subterms c.node →
              PtrHashTable.find s1.cur_scope m ≠ some 1 := by
            intro c hc1 m hm
            have hc2 : c ∈ n.e := List.mem_reverse.mp hc1
            have hmn : m ≠ n := fun e => not_mem_subterms_child n c hc2 (e ▸ hm)
            rcases hscope with ⟨-, -, -, d5⟩ | ⟨-, -, -, d5⟩
            · rw [d5 m hmn]
              exact hno m ((mem_subterms_iff n m).mpr (Or.inr ⟨c, hc2, hm⟩))
            · rw [d5 m hmn]
              simp
          obtain ⟨kc, hkc, hch⟩ := children_frame env mode bound n n.e.reverse
            (by
              intro c hc1 par1 w1 s2 hw2 hH2 hno2
              have hc2 : c ∈ n.e := List.mem_reverse.mp hc1
              obtain ⟨hstab, hsetc⟩ := settled_child env n c hset hc2
              simp only [stable, Bool.and_eq_true, decide_eq_true_eq] at hstab
              have hsz := child_size n c hc2
              exact ih c.node (by omega) hsetc (leaves_ok_child n c hlv hc2) c.inv par1 w1 s2 hw2
                hstab.2 hH2 hno2)
            s1 ((⟨n, v⟩, par) :: w) hw1 hH1 hno1
          have hsum : (n.e.reverse.map fun c => c.node.size).sum + 1 = n.size := by
            rw [List.map_reverse, List.sum_reverse]
            exact children_size n
          refine ⟨1 + kc + 1, by omega, ?_⟩
          have hr1 := run_steps_one env mode bound s s1 hst
          rcases hch with hnone | ⟨s2, hr2, hw2, e2, e3, e4, ⟨rs, el, e5⟩, e6, e7, e8⟩
          · exact Or.inl (run_steps_none_add env mode bound (1 + kc) 1 s
              (run_steps_some_none env mode bound 1 kc s s1 hr1 hnone))
          · have hr12 := run_steps_add env mode bound 1 kc s s1 s2 hr1 hr2
            have hnc : ¬ ∃ c, c ∈ n.e.reverse ∧ n ∈ subterms c.node := by
              rintro ⟨c, hc1, hmem⟩
              exact not_mem_subterms_child n c (List.mem_reverse.mp hc1) hmem
            have hf2 : PtrHashTable.find s2.cur_scope n = some 1 := by
              rw [e6 n hnc]; exact hf1
            have hargs2 : s2.arg_stack = rs ++ s.arg_stack := by rw [e5, ha1]
            have hlen2 : rs.length = (⟨n, v⟩ : Ref).node.arity := by
              rw [el, List.length_reverse]; rfl
            have hcut2 : (decide (bound > 0) && (⟨n, v⟩ : Ref).node.BTOR_IS_LAMBDA_NODE
                && decide ((s2.scopes.length : Int) ≥ bound)) = false := by
              rw [e2]; exact hcut1
            have hsub : ∀ x, (∃ c, c ∈ n.e.reverse ∧ x ∈ subterms c.node) → x ∈ subterms n := by
              rintro x ⟨c, hc1, hmem⟩
              exact (mem_subterms_iff n x).mpr (Or.inr ⟨c, List.mem_reverse.mp hc1, hmem⟩)
            have hinv2 : ∀ I : LoopState → Prop,
                StepInv env mode bound (fun m => m ∈ subterms n) I → I s → I s2 :=
              fun I hI hi => e8 I (stepInv_mono env mode bound _ _ I hsub hI) (hone s1 hst I hI hi)
            have hstep3 : ∀ s3, beta_reduce_step env mode bound s2 = some s3 →
                ∀ I : LoopState → Prop, StepInv env mode bound (fun m => m ∈ subterms n) I →
                  I s → I s3 :=
              fun s3 hst3 I hI hi =>
                hI s2 s3 ⟨n, v⟩ par w hw2 (by rw [hc]; exact self_mem_subterms n) hst3
                  (hinv2 I hI hi)
            rcases hscope with ⟨d2, d3, d4, d5⟩ | ⟨d2, d3, d4, d5⟩
            · have hl2 : s2.cur_scope_lambda ≠ some n := by rw [e4, d4]; exact hl
              rcases visit_collect_frame env mode bound s2 ⟨n, v⟩ par w rs s.arg_stack hw2 hc hf2
                  hl2 hargs2 hlen2 (leaves_ok_self n hlv) hcut2 with
                h3 | ⟨s3, hst3, g1, g2, g3, g4, ⟨r, g5⟩, g6, g7⟩
              · exact Or.inl (run_steps_some_none env mode bound (1 + kc) 1 s s2 hr12
                  (run_steps_one_none env mode bound s2 h3))
              · refine Or.inr ⟨s3, run_steps_add env mode bound (1 + kc) 1 s s2 s3 hr12
                    (run_steps_one env mode bound s2 s3 hst3), g1,
                  by rw [g2, e2, d2], by rw [g3, e3, d3], by rw [g4, e4, d4], ⟨[r], rfl, g5⟩,
                  ?_, ?_, hstep3 s3 hst3⟩
                · intro m hm
                  have hm2 : ¬ ∃ c, c ∈ n.e.reverse ∧ m ∈ subterms c.node :=
                    fun hx => hm (hsub m hx)
                  rw [g6 m (hself m hm), e6 m hm2, d5 m (hself m hm)]
                · intro x hx
                  by_cases hxn : x = n
                  · rw [hxn, g7] at hx
                    cases hx
                  · rw [g6 x hxn] at hx
                    have := e7 x hx
                    rw [d5 x hxn] at this
                    exact this
            · have hl2 : s2.cur_scope_lambda = some n := by rw [e4, d4]
              rcases visit_close_frame env mode bound s2 ⟨n, v⟩ par w rs s.arg_stack hw2 hc hf2
                  hl2 hargs2 hlen2 (leaves_ok_self n hlv) hcut2 with
                h3 | ⟨s3, hst3, g1, g2, g3, ⟨r, g5⟩⟩
              · exact Or.inl (run_steps_some_none env mode bound (1 + kc) 1 s s2 hr12
                  (run_steps_one_none env mode bound s2 h3))
              · rw [e2, d2] at g2
                rw [e3, d3] at g3
                injection g2 with g2a g2b
                injection g3 with g3a g3b
                exact Or.inr ⟨s3, run_steps_add env mode bound (1 + kc) 1 s s2 s3 hr12
                  (run_steps_one env mode bound s2 s3 hst3), g1, g2b.symm, g3b.symm, g3a.symm,
                  ⟨[r], rfl, g5⟩, fun m _ => by rw [← g2a], fun x hx => by rw [g2a]; exact hx,
                  hstep3 s3 hst3⟩

/-! ## The binding of the parameter of an applied lambda -/

theorem not_bound_below_child (x n : BtorNode) (c : Ref) (h : not_bound_below x n)
    (hc : c ∈ n.e) : not_bound_below x c.node :=
  fun M hM => h M ((mem_subterms_iff n M).mpr (Or.inr ⟨c, hc, hM⟩))

theorem not_bound_below_mem (x n m : BtorNode) (h : not_bound_below x n)
    (hm : m ∈ subterms n) : not_bound_below x m :=
  fun M hM => h M (subterms_trans n.size n m M (Nat.le_refl _) hm hM)

theorem assign_param_frame (btor btor1 : Btor) (lambda arg : Ref) (x : BtorNode)
    (h : btor_assign_param btor lambda arg = some btor1)
    (hx : ∀ c, lambda.node.e.head? = some c → c.node ≠ x) :
    btor1.assigned_exp x = btor.assigned_exp x := by
  unfold btor_assign_param at h
  split at h
  · cases h
  · split at h
    · cases h
    · rename_i param hp
      split at h
      · cases h
      · split at h
        · cases h
        · cases h
          simp only
          exact Function.update_noteq (Ne.symm (hx param hp)) _ _

theorem assign_param_push (btor btor1 : Btor) (lambda arg c : Ref)
    (h : btor_assign_param btor lambda arg = some btor1) (hc : lambda.node.e.head? = some c) :
    btor1.assigned_exp c.node = arg :: btor.assigned_exp c.node := by
  unfold btor_assign_param at h
  split at h
  · cases h
  · split at h
    · cases h
    · rename_i param hp
      rw [hc] at hp
      cases hp
      split at h
      · cases h
      · split at h
        · cases h
        · cases h
          simp

theorem assign_args_loop_frame (x : BtorNode) (args : List Ref) :
    ∀ (btor btor1 : Btor) (cur : BtorNode),
      btor_assign_args_loop btor cur args = some btor1 → not_bound_below x cur →
      btor1.assigned_exp x = btor.assigned_exp x := by
  induction args with
  | nil =>
    intro btor btor1 cur h _
    simp [btor_assign_args_loop] at h
    rw [h]
  | cons a rest ih =>
    intro btor btor1 cur h hnb
    unfold btor_assign_args_loop at h
    split at h
    · cases h
    · rename_i hlam
      split at h
      · rename_i b1 body h1 h2
        have hl : cur.BTOR_IS_LAMBDA_NODE = true := by simpa using hlam
        have hbody : body ∈ cur.e := List.get?_mem h2
        rw [ih _ _ _ h (not_bound_below_child x cur body hnb hbody),
          assign_param_frame _ _ _ _ x h1 (hnb cur (self_mem_subterms cur) hl)]
      · cases h
      · cases h

theorem assign_args_loop_head (iL : NodeInfo) (x body : BtorNode) (vb : Bool) (args : List Ref)
    (btor btor1 : Btor)
    (h : btor_assign_args_loop btor (.n2 iL x false body vb) args = some btor1)
    (hnb : not_bound_below x body) (hunb : btor.assigned_exp x = []) :
    (btor1.assigned_exp x).length ≤ 1 := by
  cases args with
  | nil =>
    simp [btor_assign_args_loop] at h
    rw [← h, hunb]
    simp
  | cons a rest =>
    unfold btor_assign_args_loop at h
    split at h
    · cases h
    · split at h
      · rename_i b1 bd h1 h2
        have hb : bd = ⟨body, vb⟩ := by
          simp [BtorNode.e] at h2
          exact h2.symm
        subst hb
        have hp := assign_param_push _ _ _ _ ⟨x, false⟩ h1 (by simp [BtorNode.e, BtorNode.ref])
        simp only at hp
        rw [assign_args_loop_frame x rest _ _ _ h hnb, hp, hunb]
        simp
      · cases h
      · cases h

theorem unassign_loop_frame (x : BtorNode) (n : BtorNode) :
    ∀ (assigned a1 : BtorNode → List Ref),
      btor_unassign_params_loop assigned n = some a1 → n.BTOR_IS_LAMBDA_NODE = true →
      not_bound_below x n → a1 x = assigned x := by
  induction n with
  | n0 i => intro _ _ h; simp [btor_unassign_params_loop] at h
  | n1 i c0 v0 _ => intro _ _ h; simp [btor_unassign_params_loop] at h
  | n2 i c0 v0 c1 v1 _ ih1 =>
    intro assigned a1 h hl hnb
    have hx : c0 ≠ x := hnb _ (self_mem_subterms _) hl ⟨c0, v0⟩ (by simp [BtorNode.e])
    simp only [btor_unassign_params_loop] at h
    split at h
    · cases h; rfl
    · split at h
      · rename_i hc1
        rw [ih1 _ _ h hc1 (not_bound_below_child x _ ⟨c1, v1⟩ hnb (by simp [BtorNode.e])),
          Function.update_noteq (Ne.symm hx)]
      · cases h
        exact Function.update_noteq (Ne.symm hx) _ _
  | n3 i c0 v0 c1 v1 c2 v2 _ ih1 _ =>
    intro assigned a1 h hl hnb
    have hx : c0 ≠ x := hnb _ (self_mem_subterms _) hl ⟨c0, v0⟩ (by simp [BtorNode.e])
    simp only [btor_unassign_params_loop] at h
    split at h
    · cases h; rfl
    · split at h
      · rename_i hc1
        rw [ih1 _ _ h hc1 (not_bound_below_child x _ ⟨c1, v1⟩ hnb (by simp [BtorNode.e])),
          Function.update_noteq (Ne.symm hx)]
      · cases h
        exact Function.update_noteq (Ne.symm hx) _ _

theorem update_tail_length (assigned : BtorNode → List Ref) (c q : BtorNode) :
    (Function.update assigned c (assigned c).tail q).length ≤ (assigned q).length := by
  by_cases hq : q = c
  · subst hq
    simp
  · rw [Function.update_noteq hq]

theorem unassign_loop_le (q : BtorNode) (n : BtorNode) :
    ∀ (assigned a1 : BtorNode → List Ref),
      btor_unassign_params_loop assigned n = some a1 →
      (a1 q).length ≤ (assigned q).length := by
  induction n with
  | n0 i => intro _ _ h; simp [btor_unassign_params_loop] at h
  | n1 i c0 v0 _ => intro _ _ h; simp [btor_unassign_params_loop] at h
  | n2 i c0 v0 c1 v1 _ ih1 =>
    intro assigned a1 h
    simp only [btor_unassign_params_loop] at h
    split at h
    · cases h; exact Nat.le_refl _
    · split at h
      · exact Nat.le_trans (ih1 _ _ h) (update_tail_length assigned c0 q)
      · cases h
        exact update_tail_length assigned c0 q
  | n3 i c0 v0 c1 v1 c2 v2 _ ih1 _ =>
    intro assigned a1 h
    simp only [btor_unassign_params_loop] at h
    split at h
    · cases h; exact Nat.le_refl _
    · split at h
      · exact Nat.le_trans (ih1 _ _ h) (update_tail_length assigned c0 q)
      · cases h
        exact update_tail_length assigned c0 q

theorem unassign_loop_head (i : NodeInfo) (c0 c1 : BtorNode) (v0 v1 : Bool)
    (assigned a1 : BtorNode → List Ref)
    (h : btor_unassign_params_loop assigned (.n2 i c0 v0 c1 v1) = some a1) :
    (a1 c0).length ≤ (assigned c0).length - 1 := by
  simp only [btor_unassign_params_loop] at h
  split at h
  · rename_i he
    cases h
    have : assigned c0 = [] := by simpa using he
    rw [this]
    simp
  · have ht : (Function.update assigned c0 (assigned c0).tail c0).length
        = (assigned c0).length - 1 := by simp
    split at h
    · exact Nat.le_trans (unassign_loop_le c0 c1 _ _ h) (Nat.le_of_eq ht)
    · cases h
      exact Nat.le_of_eq ht

theorem unassign_params_frame (x : BtorNode) (btor btor1 : Btor) (lambda : Ref)
    (h : btor_unassign_params btor lambda = some btor1)
    (hnb : not_bound_below x lambda.node) :
    btor1.assigned_exp x = btor.assigned_exp x := by
  unfold btor_unassign_params at h
  split at h
  · cases h
  · rename_i hl
    split at h
    · cases h
    · split at h
      · cases h
      · split at h
        · cases h
        · rename_i a1 ha
          cases h
          simp only
          have hl2 : lambda.node.BTOR_IS_LAMBDA_NODE = true := by
            simp at hl
            exact hl.2
          exact unassign_loop_frame x lambda.node _ _ ha hl2 hnb

theorem unassign_params_head (btor btor1 : Btor) (iL : NodeInfo) (x body : BtorNode)
    (vb v : Bool)
    (h : btor_unassign_params btor ⟨.n2 iL x false body vb, v⟩ = some btor1) :
    (btor1.assigned_exp x).length ≤ (btor.assigned_exp x).length - 1 := by
  unfold btor_unassign_params at h
  split at h
  · cases h
  · split at h
    · cases h
    · split at h
      · cases h
      · split at h
        · cases h
        · rename_i a1 ha
          cases h
          exact unassign_loop_head _ _ _ _ _ _ _ ha

theorem bindInv_frame (L x : BtorNode) (s s1 : LoopState)
    (h1 : s1.btor.assigned_exp = s.btor.assigned_exp)
    (h2 : s1.unassign_stack = s.unassign_stack)
    (h3 : s.btor.cache.isSome = true → s1.btor.cache.isSome = true)
    (hi : BindInv L x s) : BindInv L x s1 := by
  obtain ⟨a, b, c⟩ := hi
  refine ⟨h3 a, by rw [h1]; exact b, ?_⟩
  rw [h1, h2]
  exact c

theorem mem_pop_head (L n : BtorNode) (l : List BtorNode) (hne : n ≠ L) (h : L ∈ l) :
    L ∈ (if l.head? = some n then l.tail else l) := by
  split
  · rename_i hh
    cases l with
    | nil => cases h
    | cons a t =>
      simp only [List.head?_cons, Option.some.injEq] at hh
      subst hh
      rcases List.mem_cons.mp h with e | e
      · exact absurd e.symm hne
      · exact e
  · exact h

theorem unassign_label_inv (iL : NodeInfo) (x body : BtorNode) (vb : Bool) (n : BtorNode)
    (s s1 : LoopState)
    (h : unassign_params_label n s = some s1)
    (hn : n = BtorNode.n2 iL x false body vb
      ∨ (n ≠ BtorNode.n2 iL x false body vb ∧ not_bound_below x n))
    (hi : BindInv (BtorNode.n2 iL x false body vb) x s) :
    BindInv (BtorNode.n2 iL x false body vb) x s1 := by
  unfold unassign_params_label at h
  simp only at h
  generalize hs2 : (if s.unassign_stack.head? = some n then
    ({ s with unassign_stack := s.unassign_stack.tail } : LoopState) else s) = s2 at h
  have e2 : s2.btor = s.btor := by
    rw [← hs2]; split <;> rfl
  have e3 : s2.unassign_stack
      = if s.unassign_stack.head? = some n then s.unassign_stack.tail else s.unassign_stack := by
    rw [← hs2]; split <;> rfl
  obtain ⟨i1, i2, i3⟩ := hi
  cases hp : n.e.head? with
  | none => simp [hp] at h
  | some p =>
    simp only [hp] at h
    cases ha : btor_param_cur_assignment s2.btor p with
    | none => simp [ha] at h
    | some o =>
      cases o with
      | none =>
        simp only [ha] at h
        cases h
        refine ⟨by rw [e2]; exact i1, by rw [e2]; exact i2, ?_⟩
        intro hne
        rw [e2] at hne
        rcases hn with e | ⟨e, -⟩
        · subst e
          simp only [BtorNode.e, List.head?_cons, Option.some.injEq] at hp
          subst hp
          unfold btor_param_cur_assignment at ha
          split at ha
          · cases ha
          · rw [e2] at ha
            simp only [Option.some.injEq] at ha
            cases hx : s.btor.assigned_exp x with
            | nil => exact absurd hx hne
            | cons a t => rw [hx] at ha; simp at ha
        · rw [e3]
          exact mem_pop_head _ n _ e (i3 hne)
      | some val =>
        simp only [ha] at h
        cases hu : btor_unassign_params s2.btor n.ref with
        | none => simp [hu] at h
        | some b1 =>
          simp only [hu] at h
          cases h
          rcases hn with e | ⟨e, hnb⟩
          · subst e
            have hle := unassign_params_head _ _ _ _ _ _ _ hu
            rw [e2] at hle
            have hz : b1.assigned_exp x = [] := by
              apply List.eq_nil_of_length_eq_zero
              omega
            refine ⟨by rw [unassign_params_cache _ _ _ hu, e2]; exact i1, by rw [hz]; simp, ?_⟩
            intro hne
            exact absurd hz hne
          · have hf := unassign_params_frame x _ _ _ hu hnb
            rw [e2] at hf
            refine ⟨by rw [unassign_params_cache _ _ _ hu, e2]; exact i1, by rw [hf]; exact i2, ?_⟩
            intro hne
            rw [hf] at hne
            rw [e3]
            exact mem_pop_head _ n _ e (i3 hne)

theorem close_scope_unassign (s s1 : LoopState) (h : BETA_REDUCE_CLOSE_SCOPE s = some s1) :
    s1.unassign_stack = s.unassign_stack := by
  unfold BETA_REDUCE_CLOSE_SCOPE at h
  split at h
  · cases h; rfl
  · cases h

theorem push_arg_stack_inv (iL : NodeInfo) (x body : BtorNode) (vb : Bool) (cur : Ref)
    (n : BtorNode) (result : Ref) (s s1 : LoopState)
    (h : push_arg_stack cur n result s = some s1)
    (hn : n = BtorNode.n2 iL x false body vb
      ∨ (n ≠ BtorNode.n2 iL x false body vb ∧ not_bound_below x n))
    (hi : BindInv (BtorNode.n2 iL x false body vb) x s) :
    BindInv (BtorNode.n2 iL x false body vb) x s1 := by
  unfold push_arg_stack at h
  split at h
  · cases h
  · simp only at h
    split at h
    · cases h
    · rename_i s2 hs2
      have e2 : s2.btor = s.btor ∧ s2.unassign_stack = s.unassign_stack := by
        split at hs2
        · split at hs2
          · cases hs2
          · cases hs2; exact ⟨rfl, rfl⟩
        · cases hs2; exact ⟨rfl, rfl⟩
      have hi2 : BindInv (BtorNode.n2 iL x false body vb) x s2 :=
        bindInv_frame _ x s s2 (by rw [e2.1]) e2.2 (by rw [e2.1]; exact id) hi
      split at h
      · cases h
      · rename_i s4 hs4
        cases h
        have hi4 : BindInv (BtorNode.n2 iL x false body vb) x s4 := by
          split at hs4
          · split at hs4
            · cases hs4
            · rename_i s3 hs3
              have hi3 : BindInv (BtorNode.n2 iL x false body vb) x s3 :=
                bindInv_frame _ x s2 s3 (by rw [close_scope_btor _ _ hs3])
                  (close_scope_unassign _ _ hs3) (by rw [close_scope_btor _ _ hs3]; exact id) hi2
              exact unassign_label_inv iL x body vb n s3 s4 hs4 hn hi3
          · split at hs4
            · exact unassign_label_inv iL x body vb n s2 s4 hs4 hn hi2
            · cases hs4; exact hi2
        exact bindInv_frame _ x s4 _ rfl rfl id hi4

theorem cache_beta_result_some (btor btor1 : Btor) (l a r : Ref)
    (h : cache_beta_result btor l a r = some btor1) :
    ∃ c1, btor1.cache = some c1 ∧ PtrHashTable.find c1 (l, a) = some r := by
  unfold cache_beta_result at h
  split at h
  · cases h
  · split at h
    · cases h
    · rename_i cache hc
      split at h
      · rename_i data hd
        split at h
        · rename_i he
          cases h
          exact ⟨cache, hc, by rw [hd, he]⟩
        · cases h
      · cases h
        exact ⟨_, rfl, PtrHashTable.find_set_self _ _ _⟩

theorem rebuild_binary_frame (op : Ref → Ref → Ref) (k : BtorNodeKind) (e : List Ref)
    (s s1 : LoopState) (r : Ref) (h : rebuild_binary op k e s = some (r, s1)) :
    s1.btor.assigned_exp = s.btor.assigned_exp ∧ s1.unassign_stack = s.unassign_stack ∧
    (s.btor.cache.isSome = true → s1.btor.cache.isSome = true) := by
  unfold rebuild_binary at h
  split at h
  · cases h; exact ⟨rfl, rfl, id⟩
  · cases h

theorem rebuild_lambda_frame (n : BtorNode) (e : List Ref) (s s1 : LoopState) (r : Ref)
    (h : rebuild_lambda n e s = some (r, s1)) :
    s1.btor.assigned_exp = s.btor.assigned_exp ∧ s1.unassign_stack = s.unassign_stack ∧
    (s.btor.cache.isSome = true → s1.btor.cache.isSome = true) := by
  unfold rebuild_lambda at h
  split at h
  · split at h
    · split at h
      · cases h
      · cases h; exact ⟨rfl, rfl, id⟩
    · split at h
      · cases h
      · split at h
        · cases h
        · cases h; exact ⟨rfl, rfl, id⟩
  · cases h

theorem rebuild_apply_frame (env : Ext) (mode : Int) (n : BtorNode) (e : List Ref)
    (s s1 : LoopState) (r : Ref)
    (h : rebuild_apply env mode n e s = some (r, s1)) :
    s1.btor.assigned_exp = s.btor.assigned_exp ∧ s1.unassign_stack = s.unassign_stack ∧
    (s.btor.cache.isSome = true → s1.btor.cache.isSome = true) := by
  unfold rebuild_apply at h
  split at h
  · simp only at h
    split at h
    · cases h
    · rename_i result s2 hb
      have e2 : s2.btor.assigned_exp = s.btor.assigned_exp ∧ s2.unassign_stack = s.unassign_stack
          ∧ s2.btor.cache = s.btor.cache := by
        split at hb
        · split at hb
          · cases hb
          · cases hb; exact ⟨rfl, rfl, rfl⟩
        · split at hb
          · cases hb
          · cases hb; exact ⟨rfl, rfl, rfl⟩
      split at h
      · split at h
        · cases h
        · rename_i b1 hb1
          cases h
          simp only
          obtain ⟨c1, hc1, -⟩ := cache_beta_result_some _ _ _ _ _ hb1
          exact ⟨by rw [(cache_beta_result_btor _ _ _ _ _ hb1).1, e2.1], e2.2.1,
            fun _ => by rw [hc1]; rfl⟩
      · cases h
        exact ⟨e2.1, e2.2.1, by rw [e2.2.2]; exact id⟩
  · cases h

theorem rebuild_frame (env : Ext) (mode : Int) (n : BtorNode) (s s1 : LoopState) (r : Ref)
    (h : rebuild env mode n s = some (r, s1)) :
    s1.btor.assigned_exp = s.btor.assigned_exp ∧ s1.unassign_stack = s.unassign_stack ∧
    (s.btor.cache.isSome = true → s1.btor.cache.isSome = true) := by
  unfold rebuild at h
  split at h
  · cases h
  · simp only at h
    split at h
    any_goals (first
      | exact (rebuild_binary_frame _ _ _ _ _ _ h :)
      | exact (rebuild_apply_frame _ _ _ _ _ _ _ h :)
      | exact (rebuild_lambda_frame _ _ _ _ _ h :)
      | (split at h <;> first | (cases h; exact ⟨rfl, rfl, id⟩) | cases h)
      | cases h)

theorem assign_lambda_inv (iL : NodeInfo) (x body : BtorNode) (vb : Bool) (n : BtorNode)
    (par : Option BtorNode) (se : List Ref) (s s1 : LoopState)
    (h : assign_lambda n par se s = some (.inr s1))
    (hn : n = BtorNode.n2 iL x false body vb
      ∨ (n ≠ BtorNode.n2 iL x false body vb ∧ not_bound_below x n))
    (hse : n = BtorNode.n2 iL x false body vb → se.head? = some ⟨x, false⟩)
    (hnb : not_bound_below x body)
    (hi : BindInv (BtorNode.n2 iL x false body vb) x s) :
    BindInv (BtorNode.n2 iL x false body vb) x s1 := by
  unfold assign_lambda at h
  split at h
  · cases hs0 : se.head? with
    | none => simp [hs0] at h
    | some se0 =>
      cases ha0 : s.arg_stack.head? with
      | none => simp [hs0, ha0] at h
      | some args =>
        simp only [hs0, ha0] at h
        cases hpc : btor_param_cur_assignment s.btor se0 with
        | none => simp [hpc] at h
        | some o =>
          cases o with
          | some val =>
            simp only [hpc] at h
            cases h
            exact hi
          | none =>
            simp only [hpc] at h
            split at h
            · split at h
              · cases h
              · split at h
                · cases h
                · split at h
                  · cases h
                  · cases h
                  · split at h
                    · cases h
                    · rename_i b1 hb
                      cases h
                      obtain ⟨i1, i2, i3⟩ := hi
                      have hcache := assign_args_cache _ _ _ _ hb
                      unfold btor_assign_args at hb
                      split at hb
                      · cases hb
                      · rcases hn with e | ⟨e, hnb2⟩
                        · subst e
                          have h0 := hse rfl
                          rw [hs0] at h0
                          cases h0
                          have hunb : s.btor.assigned_exp x = [] := by
                            unfold btor_param_cur_assignment at hpc
                            split at hpc
                            · cases hpc
                            · simp only [Option.some.injEq] at hpc
                              cases hx : s.btor.assigned_exp x with
                              | nil => rfl
                              | cons a t => rw [hx] at hpc; simp at hpc
                          have hlen := assign_args_loop_head iL x body vb _ _ _ hb hnb hunb
                          exact ⟨(by simp only; rw [hcache]; exact i1), hlen,
                            fun _ => List.mem_cons_self _ _⟩
                        · have hf := assign_args_loop_frame x _ _ _ _ hb hnb2
                          refine ⟨(by simp only; rw [hcache]; exact i1),
                            (by simp only; rw [hf]; exact i2), ?_⟩
                          intro hne
                          simp only at hne
                          rw [hf] at hne
                          exact List.mem_cons_of_mem _ (i3 hne)
            · cases h
              exact hi
  · cases h
    exact hi

theorem expand_inv (env : Ext) (mode bound : Int) (iL : NodeInfo) (x body : BtorNode)
    (vb : Bool) (cur : Ref) (par : Option BtorNode) (s s1 : LoopState)
    (h : expand env mode bound cur par s = some s1)
    (hn : cur.node = BtorNode.n2 iL x false body vb
      ∨ (cur.node ≠ BtorNode.n2 iL x false body vb ∧ not_bound_below x cur.node))
    (hsx : env.simplify ⟨x, false⟩ = ⟨x, false⟩)
    (hnb : not_bound_below x body)
    (hi : BindInv (BtorNode.n2 iL x false body vb) x s) :
    BindInv (BtorNode.n2 iL x false body vb) x s1 := by
  unfold expand at h
  simp only at h
  split at h
  · cases h
  · split at h
    · split at h
      · cases h
      · exact push_arg_stack_inv iL x body vb _ _ _ _ _ h hn hi
    · split at h
      · exact push_arg_stack_inv iL x body vb _ _ _ _ _ h hn hi
      · split at h
        · exact push_arg_stack_inv iL x body vb _ _ _ _ _ h hn hi
        · split at h
          · split at h
            · cases h
            · exact push_arg_stack_inv iL x body vb _ _ _ _ _ h hn hi
          · split at h
            · cases h
            · exact push_arg_stack_inv iL x body vb _ _ _ _ _ h hn hi
            · rename_i s2 hs2
              cases h
              have hi2 := assign_lambda_inv iL x body vb _ _ _ _ _ hs2 hn
                (fun e => by rw [e]; simp [BtorNode.e, hsx]) hnb hi
              exact bindInv_frame _ x s2 _ rfl rfl id hi2

theorem collect_inv (env : Ext) (mode bound : Int) (iL : NodeInfo) (x body : BtorNode)
    (vb : Bool) (cur : Ref) (s s1 : LoopState)
    (h : collect env mode bound cur s = some s1)
    (hn : cur.node = BtorNode.n2 iL x false body vb
      ∨ (cur.node ≠ BtorNode.n2 iL x false body vb ∧ not_bound_below x cur.node))
    (hi : BindInv (BtorNode.n2 iL x false body vb) x s) :
    BindInv (BtorNode.n2 iL x false body vb) x s1 := by
  unfold collect at h
  simp only at h
  split at h
  · exact push_arg_stack_inv iL x body vb _ _ _ _ _ h hn hi
  · split at h
    · cases h
    · rename_i result s2 hr
      obtain ⟨f1, f2, f3⟩ := rebuild_frame _ _ _ _ _ _ hr
      exact push_arg_stack_inv iL x body vb _ _ _ _ _ h hn
        (bindInv_frame _ x s s2 f1 f2 f3 hi)

theorem revisit_inv (L x : BtorNode) (cur : Ref) (s s1 : LoopState)
    (h : revisit cur s = some s1) (hi : BindInv L x s) : BindInv L x s1 := by
  unfold revisit at h
  simp only at h
  split at h
  · cases h
  · split at h
    · cases h
    · cases h
      exact bindInv_frame L x s _ rfl rfl id hi

theorem step_inv (env : Ext) (mode bound : Int) (iL : NodeInfo) (x body : BtorNode)
    (vb : Bool) (s s1 : LoopState)
    (h : beta_reduce_step env mode bound s = some s1)
    (hn : ∀ cur0 par0 w, s.work_stack = (cur0, par0) :: w →
      ((simplify_cur env cur0).node = BtorNode.n2 iL x false body vb
      ∨ ((simplify_cur env cur0).node ≠ BtorNode.n2 iL x false body vb
        ∧ not_bound_below x (simplify_cur env cur0).node)))
    (hsx : env.simplify ⟨x, false⟩ = ⟨x, false⟩)
    (hnb : not_bound_below x body)
    (hi : BindInv (BtorNode.n2 iL x false body vb) x s) :
    BindInv (BtorNode.n2 iL x false body vb) x s1 := by
  unfold beta_reduce_step at h
  split at h
  · cases h; exact hi
  · rename_i cur0 par work hw
    have hn2 := hn cur0 par work hw
    simp only at h
    generalize hs1 : (match PtrHashTable.find (({ s with work_stack := work } : LoopState).record
        (Event.visit (simplify_cur env cur0).node)).cur_scope (simplify_cur env cur0).node with
      | some _ => (({ s with work_stack := work } : LoopState).record
          (Event.visit (simplify_cur env cur0).node))
      | none => _) = s2 at h
    have e2 : s2.btor.assigned_exp = s.btor.assigned_exp ∧ s2.unassign_stack = s.unassign_stack
        ∧ s2.btor.cache = s.btor.cache := by
      rw [← hs1]
      split
      · exact ⟨rfl, rfl, rfl⟩
      · simp only [BETA_REDUCE_OPEN_NEW_SCOPE]
        split <;> exact ⟨rfl, rfl, rfl⟩
    have hi2 : BindInv (BtorNode.n2 iL x false body vb) x s2 :=
      bindInv_frame _ x s s2 e2.1 e2.2.1 (by rw [e2.2.2]; exact id) hi
    split at h
    · exact expand_inv env mode bound iL x body vb _ _ _ _ h hn2 hsx hnb hi2
    · exact collect_inv env mode bound iL x body vb _ _ _ h hn2 hi2
    · exact revisit_inv _ x _ _ _ h hi2
    · cases h

theorem not_bound_below_of_test (x n : BtorNode) (h : not_bound_below_test x n = true) :
    not_bound_below x n := by
  intro M hM hl c hc
  unfold not_bound_below_test at h
  rw [List.all_eq_true] at h
  have := h M hM
  simp only [hl, Bool.not_true, Bool.false_or, hc, decide_eq_true_eq] at this
  exact this

/-! ## The post-order visit of an apply stores its result in the cache -/

theorem push_arg_stack_nolambda (cur : Ref) (n : BtorNode) (result : Ref) (s s1 : LoopState)
    (h : push_arg_stack cur n result s = some s1)
    (hl : s.cur_scope_lambda ≠ some n) (hn : n.BTOR_IS_LAMBDA_NODE = false) :
    s1.btor = s.btor ∧ s1.unassign_stack = s.unassign_stack := by
  unfold push_arg_stack at h
  split at h
  · cases h
  · simp only at h
    split at h
    · cases h
    · rename_i s2 hs2
      have e2 : s2.btor = s.btor ∧ s2.unassign_stack = s.unassign_stack
          ∧ s2.cur_scope_lambda = s.cur_scope_lambda := by
        split at hs2
        · split at hs2
          · cases hs2
          · cases hs2; exact ⟨rfl, rfl, rfl⟩
        · cases hs2; exact ⟨rfl, rfl, rfl⟩
      split at h
      · cases h
      · rename_i s4 hs4
        cases h
        simp only [push_arg_stack_without_close_scope]
        split at hs4
        · rename_i hc
          rw [e2.2.2] at hc
          exact absurd hc hl
        · split at hs4
          · rename_i hc
            simp [hn] at hc
          · cases hs4
            exact ⟨e2.1, e2.2.1⟩

theorem rebuild_apply_stores (env : Ext) (n : BtorNode) (e0 e1 : Ref) (tl : List Ref) (fn : Ref)
    (s s1 : LoopState) (r : Ref)
    (h : rebuild_apply env BETA_RED_FULL n (e0 :: e1 :: tl) s = some (r, s1))
    (hfn : n.e.head? = some fn) (hl : fn.node.BTOR_IS_LAMBDA_NODE = true)
    (hp : fn.node.parameterized = false) (hc : s.btor.cache.isSome = true) :
    ∃ c1, s1.btor.cache = some c1 ∧
      PtrHashTable.find c1 (env.simplify fn, env.simplify e0) = some r := by
  unfold rebuild_apply at h
  simp only [hfn] at h
  split at h
  · cases h
  · rename_i result s2 hb
    have e2 : s2.btor.cache = s.btor.cache := by
      split at hb
      · split at hb
        · cases hb
        · cases hb; rfl
      · split at hb
        · cases hb
        · cases hb; rfl
    split at h
    · split at h
      · cases h
      · rename_i b1 hb1
        cases h
        exact cache_beta_result_some _ _ _ _ _ hb1
    · rename_i hcond
      rw [e2] at hcond
      simp [hc, BETA_RED_FULL, hl, hp] at hcond

theorem step_apply_stores (env : Ext) (s s1 : LoopState) (info : NodeInfo) (L A : BtorNode)
    (w : List (Ref × Option BtorNode)) (rL : Ref) (rest : List Ref)
    (hw : s.work_stack = ((BtorNode.n2 info L false A false).ref, none) :: w)
    (hs1 : simplify_cur env (BtorNode.n2 info L false A false).ref
      = (BtorNode.n2 info L false A false).ref)
    (hsL : env.simplify L.ref = L.ref) (hsA : env.simplify A.ref = A.ref)
    (hk : info.kind = .apply)
    (hLl : L.BTOR_IS_LAMBDA_NODE = true) (hLp : L.parameterized = false)
    (hmark : PtrHashTable.find s.cur_scope (BtorNode.n2 info L false A false) = some 1)
    (hcl : s.cur_scope_lambda ≠ some (BtorNode.n2 info L false A false))
    (harg : s.arg_stack = rL :: A.ref :: rest)
    (hcache : s.btor.cache.isSome = true)
    (hst : beta_reduce_step env BETA_RED_FULL 0 s = some s1) :
    ∃ r c1, s1.arg_stack = r :: rest ∧ s1.work_stack = w ∧ s1.btor.cache = some c1 ∧
      PtrHashTable.find c1 (L.ref, A.ref) = some r ∧
      s1.btor.assigned_exp = s.btor.assigned_exp ∧ s1.unassign_stack = s.unassign_stack := by
  have happ_lam : (BtorNode.n2 info L false A false).BTOR_IS_LAMBDA_NODE = false := by
    simp [BtorNode.BTOR_IS_LAMBDA_NODE, hk]
  rw [step_expanded env BETA_RED_FULL 0 s _ _ none w hw hs1 (by simpa using hmark)] at hst
  unfold collect at hst
  simp only [ref_node, BtorNode.BTOR_IS_BV_CONST_NODE, BtorNode.BTOR_IS_BV_VAR_NODE,
    BtorNode.BTOR_IS_ARRAY_VAR_NODE, BtorNode.BTOR_IS_PARAM_NODE, kind_n2, hk, happ_lam] at hst
  simp only [gt_iff_lt, lt_self_iff_false, decide_False, Bool.false_and, Bool.or_false,
    Bool.false_eq_true, if_false] at hst
  cases hrb : rebuild env BETA_RED_FULL (BtorNode.n2 info L false A false)
      (({ s with work_stack := w } : LoopState).record
        (Event.visit (BtorNode.n2 info L false A false))) with
  | none => simp [hrb] at hst
  | some pr =>
    obtain ⟨result, s2⟩ := pr
    simp only [hrb] at hst
    obtain ⟨f1, f2, -⟩ := rebuild_frame _ _ _ _ _ _ hrb
    obtain ⟨-, g2⟩ := rebuild_args _ _ _ _ _ _ hrb
    obtain ⟨-, -, -, g4, g5⟩ := rebuild_scopes _ _ _ _ _ _ hrb
    obtain ⟨p1, p2⟩ := push_arg_stack_stacks _ _ _ _ _ hst
    obtain ⟨q1, q2⟩ := push_arg_stack_nolambda _ _ _ _ _ hst (by rw [g4]; exact hcl) happ_lam
    have hst2 : ∃ c1, s2.btor.cache = some c1 ∧
        PtrHashTable.find c1 (env.simplify L.ref, env.simplify A.ref) = some result := by
      unfold rebuild at hrb
      simp only [BtorNode.arity, BtorNode.e, LoopState.record, harg, kind_n2, hk,
        List.length_cons, List.length_nil] at hrb
      split at hrb
      · cases hrb
      · simp only [List.take, List.drop, List.reverse_cons, List.reverse_nil, List.nil_append,
          List.cons_append] at hrb
        exact rebuild_apply_stores env _ _ _ _ L.ref _ _ _ hrb (by simp [BtorNode.e, BtorNode.ref])
          (by simpa using hLl) (by simpa using hLp) hcache
    obtain ⟨c1, hc1, hfind⟩ := hst2
    rw [hsL, hsA] at hfind
    refine ⟨result, c1, ?_, ?_, ?_, ?_, ?_, ?_⟩
    · rw [p1, g2]
      simp [harg, LoopState.record, BtorNode.arity, BtorNode.e, Ref.cond_invert, BtorNode.ref]
    · rw [p2, g5]
      rfl
    · rw [q1, hc1]
    · exact hfind
    · rw [q1, f1]
      rfl
    · rw [q2, f2]
      rfl

/-! ## A run that returns, and the runs of a given number of iterations -/

theorem done_not_abort (env : Ext) (mode bound : Int) (fuel k : Nat) (s sF : LoopState)
    (h : beta_reduce_loop env mode bound fuel s = .done sF)
    (hk : run_steps env mode bound k s = none) : False := by
  have h1 := loop_mono env mode bound fuel s sF h (max fuel k) (Nat.le_max_left _ _)
  have h2 := loop_abort_of_run_steps env mode bound k s hk (max fuel k) (Nat.le_max_right _ _)
  rw [h1] at h2
  cases h2

theorem done_unique (env : Ext) (mode bound : Int) (fuel k : Nat) (s sF s1 : LoopState)
    (h : beta_reduce_loop env mode bound fuel s = .done sF)
    (hk : run_steps env mode bound k s = some s1) (hw : s1.work_stack = []) : s1 = sF := by
  have h1 := loop_mono env mode bound fuel s sF h (max fuel k) (Nat.le_max_left _ _)
  have h2 := loop_mono env mode bound k s s1 (loop_of_run_steps env mode bound k s s1 hk hw)
    (max fuel k) (Nat.le_max_right _ _)
  rw [h1] at h2
  cases h2
  rfl

theorem reduce_done_state (fuel : Nat) (env : Ext) (btor btor1 : Btor) (e result : Ref)
    (mode bound : Int)
    (h : btor_beta_reduce fuel env btor e mode bound = .done (result, btor1)) :
    ∃ s, beta_reduce_loop env mode bound fuel (beta_reduce_init btor e) = .done s ∧
      s.unassign_stack = [] ∧ s.arg_stack = [result] ∧ s.btor = btor1 := by
  unfold btor_beta_reduce at h
  split at h
  · cases h
  · split at h
    · cases h
    · split at h
      · cases h
      · split at h
        · cases h
        · cases h
        · rename_i s hloop
          split at h
          · cases h
          · rename_i hcond
            split at h
            · rename_i res harg
              cases h
              refine ⟨s, hloop, ?_, harg, rfl⟩
              simp only [Bool.or_eq_true, Bool.not_eq_true', not_or, Bool.not_eq_true,
                Bool.not_eq_false] at hcond
              simpa using hcond.2
            · cases h

/-! ## The visit of a lambda whose application is in the cache -/

theorem step_lambda_cached_gen (env : Ext) (s : LoopState) (iL ip : NodeInfo)
    (body : BtorNode) (vb : Bool) (par : BtorNode) (w : List (Ref × Option BtorNode))
    (A r : Ref) (rest : List Ref) (cache : PtrHashTable (Ref × Ref) Ref)
    (hw : s.work_stack = ((BtorNode.n2 iL (.n0 ip) false body vb).ref, some par) :: w)
    (hsL : env.simplify (BtorNode.n2 iL (.n0 ip) false body vb).ref
      = (BtorNode.n2 iL (.n0 ip) false body vb).ref)
    (hsp : env.simplify (BtorNode.n0 ip).ref = (BtorNode.n0 ip).ref)
    (hkL : iL.kind = .lambda) (hLp : iL.parameterized = false)
    (hLlb : iL.lambda_below = true) (hkp : ip.kind = .param)
    (hpar : par.BTOR_IS_APPLY_NODE = true)
    (hfirst : PtrHashTable.find s.cur_scope (BtorNode.n2 iL (.n0 ip) false body vb) = none)
    (hcl : s.cur_scope_lambda ≠ some (BtorNode.n2 iL (.n0 ip) false body vb))
    (hpm : PtrHashTable.find s.cur_scope (.n0 ip) = none)
    (harg : s.arg_stack = A :: rest)
    (hkA : A.node.BTOR_IS_ARGS_NODE = true)
    (hunb : s.btor.assigned_exp (.n0 ip) = [])
    (hus : s.unassign_stack = [])
    (hcache : s.btor.cache = some cache)
    (hhit : PtrHashTable.find cache ((BtorNode.n2 iL (.n0 ip) false body vb).ref, A) = some r) :
    ∃ s1, beta_reduce_step env BETA_RED_FULL 0 s = some s1 ∧
      s1.btor = { s.btor with
        log := Event.visit (BtorNode.n2 iL (.n0 ip) false body vb) :: s.btor.log } ∧
      s1.work_stack = w ∧ s1.arg_stack = r :: A :: rest ∧
      (∀ m, m ≠ BtorNode.n2 iL (.n0 ip) false body vb →
        PtrHashTable.find s1.cur_scope m = PtrHashTable.find s.cur_scope m) ∧
      s1.cur_scope_results = s.cur_scope_results ∧ s1.cur_scope_lambda = s.cur_scope_lambda ∧
      s1.scopes = s.scopes ∧ s1.scope_results = s.scope_results ∧
      s1.scope_lambdas = s.scope_lambdas ∧ s1.unassign_stack = s.unassign_stack := by
  have hlam : (BtorNode.n2 iL (.n0 ip) false body vb).BTOR_IS_LAMBDA_NODE = true := by
    simp [BtorNode.BTOR_IS_LAMBDA_NODE, hkL]
  have hnapp : (BtorNode.n2 iL (.n0 ip) false body vb).BTOR_IS_APPLY_NODE = false := by
    simp [BtorNode.BTOR_IS_APPLY_NODE, hkL]
  have hnpar : (BtorNode.n2 iL (.n0 ip) false body vb).BTOR_IS_PARAM_NODE = false := by
    simp [BtorNode.BTOR_IS_PARAM_NODE, hkL]
  have hpL : BtorNode.n0 ip ≠ BtorNode.n2 iL (.n0 ip) false body vb := by
    intro h; cases h
  have hcL : simplify_cur env (BtorNode.n2 iL (.n0 ip) false body vb).ref
      = (BtorNode.n2 iL (.n0 ip) false body vb).ref := by
    rw [simplify_cur_of_not_apply env _ (by simpa using hnapp)]; exact hsL
  have hsp2 : env.simplify ⟨BtorNode.n0 ip, false⟩ = ⟨BtorNode.n0 ip, false⟩ := hsp
  have hhit2 : PtrHashTable.find cache
      ((⟨BtorNode.n2 iL (.n0 ip) false body vb, false⟩ : Ref), A) = some r := hhit
  by_cases ho : opens_scope (BtorNode.n2 iL (.n0 ip) false body vb) = true
  · refine ⟨{ s with
        btor := { s.btor with
          log := Event.visit (BtorNode.n2 iL (.n0 ip) false body vb) :: s.btor.log }
        work_stack := w
        arg_stack := r :: A :: rest }, ?_, rfl, rfl, rfl, fun _ _ => rfl, rfl, rfl, rfl, rfl, rfl,
      rfl⟩
    rw [step_unmarked_open env BETA_RED_FULL 0 s (BtorNode.n2 iL (.n0 ip) false body vb).ref
      (BtorNode.n2 iL (.n0 ip) false body vb).ref (some par) w hw hcL hfirst ho]
    unfold expand
    simp only [ref_node, hlam, Bool.or_true, Bool.not_true, Bool.false_eq_true, if_false,
      BETA_RED_FULL, BETA_RED_LAMBDA_CHAINS, BtorNode.lambda_below, info_n2, hLlb,
      BtorNode.parameterized, hLp, hnpar, Bool.false_and, Bool.and_false,
      gt_iff_lt, lt_self_iff_false, decide_False]
    simp only [assign_lambda, hlam, LoopState.record, harg, BtorNode.e, List.map, hsp,
      btor_param_cur_assignment, hunb, hpar, hcache, cached_beta_result, hhit, hkA,
      BtorNode.BTOR_IS_PARAM_NODE, kind_n0, hkp,
      ref_node, ref_regular, ref_inv, Ref.regular, PtrHashTable.set, PtrHashTable.find]
    simp [hpL, BtorNode.ref, Ref.regular, BtorNode.BTOR_IS_LAMBDA_NODE, hkL, hsp2, hkp,
      hunb, hpar, hcache, hhit2, hkA, Ne.symm hpL, push_arg_stack, PtrHashTable.find,
      BtorNode.parameterized, hLp, BETA_REDUCE_CLOSE_SCOPE, unassign_params_label, hus,
      BtorNode.e, btor_param_cur_assignment, BtorNode.BTOR_IS_PARAM_NODE,
      push_arg_stack_without_close_scope, Ref.cond_invert]
  · have ho2 : opens_scope (BtorNode.n2 iL (.n0 ip) false body vb) = false := by
      simpa using ho
    have hcl2 : ¬ s.cur_scope_lambda = some (BtorNode.n2 iL (.n0 ip) false body vb) := hcl
    have hcl3 : ¬ s.cur_scope_lambda
        = some ((⟨BtorNode.n2 iL (.n0 ip) false body vb, false⟩ : Ref).node) := hcl
    refine ⟨{ s with
        btor := { s.btor with
          log := Event.visit (BtorNode.n2 iL (.n0 ip) false body vb) :: s.btor.log }
        work_stack := w
        arg_stack := r :: A :: rest
        cur_scope := PtrHashTable.set (PtrHashTable.set (PtrHashTable.set s.cur_scope
          (BtorNode.n2 iL (.n0 ip) false body vb) 0)
          (BtorNode.n2 iL (.n0 ip) false body vb) 1)
          (BtorNode.n2 iL (.n0 ip) false body vb) 2 }, ?_, rfl, rfl, rfl, ?_, rfl, rfl, rfl, rfl,
      rfl, rfl⟩
    · rw [step_unmarked env BETA_RED_FULL 0 s (BtorNode.n2 iL (.n0 ip) false body vb).ref
        (BtorNode.n2 iL (.n0 ip) false body vb).ref (some par) w hw hcL hfirst ho2]
      unfold expand
      simp only [ref_node, hlam, Bool.or_true, Bool.not_true, Bool.false_eq_true, if_false,
        BETA_RED_FULL, BETA_RED_LAMBDA_CHAINS, BtorNode.lambda_below, info_n2, hLlb,
        BtorNode.parameterized, hLp, hnpar, Bool.false_and, Bool.and_false,
        gt_iff_lt, lt_self_iff_false, decide_False]
      simp only [assign_lambda, hlam, LoopState.record, harg, BtorNode.e, List.map, hsp,
        btor_param_cur_assignment, hunb, hpar, hcache, cached_beta_result, hhit, hkA,
        BtorNode.BTOR_IS_PARAM_NODE, kind_n0, hkp,
        ref_node, ref_regular, ref_inv, Ref.regular]
      simp [hpL, BtorNode.ref, Ref.regular, BtorNode.BTOR_IS_LAMBDA_NODE, hkL, hsp2, hkp,
        hunb, hpar, hcache, hhit2, hkA, Ne.symm hpL, push_arg_stack,
        BtorNode.parameterized, hLp, hcl2, hcl3, hpm, PtrHashTable.find_set_self,
        PtrHashTable.find_set_other,
        BtorNode.e, btor_param_cur_assignment, BtorNode.BTOR_IS_PARAM_NODE,
        push_arg_stack_without_close_scope, Ref.cond_invert]
    · intro m hm
      simp only
      rw [PtrHashTable.find_set_other _ _ _ _ (Ne.symm hm),
        PtrHashTable.find_set_other _ _ _ _ (Ne.symm hm),
        PtrHashTable.find_set_other _ _ _ _ (Ne.symm hm)]

/-- The run of the full reducer on `apply (L, A)` when the cache holds a
value for `(L, A)`, for any body of `L`: four visits (the apply, `A`, `L`,
the apply), the cached value is the result, nothing is bound and no
constructor is called. -/
theorem full_cached_run_gen (env : Ext) (btor : Btor) (iapp iL ip : NodeInfo)
    (body A : BtorNode) (vb : Bool) (cache : PtrHashTable (Ref × Ref) Ref) (r : Ref)
    (hkapp : iapp.kind = .apply) (hlbapp : iapp.lambda_below = true)
    (hkL : iL.kind = .lambda) (hLp : iL.parameterized = false)
    (hLlb : iL.lambda_below = true) (hkp : ip.kind = .param)
    (hkA : A.kind = .args) (hAlb : A.lambda_below = false) (hAp : A.parameterized = false)
    (hs1 : simplify_cur env
      (BtorNode.n2 iapp (.n2 iL (.n0 ip) false body vb) false A false).ref
      = (BtorNode.n2 iapp (.n2 iL (.n0 ip) false body vb) false A false).ref)
    (hs2 : env.simplify (BtorNode.n2 iL (.n0 ip) false body vb).ref
      = (BtorNode.n2 iL (.n0 ip) false body vb).ref)
    (hs3 : env.simplify A.ref = A.ref)
    (hs4 : env.simplify (BtorNode.n0 ip).ref = (BtorNode.n0 ip).ref)
    (hbm : ∀ m, btor.beta_mark m = 0)
    (hunb : btor.assigned_exp (.n0 ip) = [])
    (hcache : btor.cache = some cache)
    (hhit : PtrHashTable.find cache ((BtorNode.n2 iL (.n0 ip) false body vb).ref, A.ref) = some r)
    (hrf : r.node.BTOR_IS_FUN_NODE = false) (hra : r.node.BTOR_IS_ARRAY_NODE = false) :
    ∃ s, run_steps env BETA_RED_FULL 0 4 (beta_reduce_init btor
        (BtorNode.n2 iapp (.n2 iL (.n0 ip) false body vb) false A false).ref) = some s ∧
      s.work_stack = [] ∧ s.arg_stack = [r] ∧
      s.cur_scope_lambda = none ∧ s.scopes = [] ∧ s.scope_results = [] ∧
      s.scope_lambdas = [] ∧ s.unassign_stack = [] ∧
      s.btor.cache = btor.cache ∧ s.btor.assigned_exp = btor.assigned_exp ∧
      s.btor.log =
        Event.visit (BtorNode.n2 iapp (.n2 iL (.n0 ip) false body vb) false A false)
          :: Event.visit (.n2 iL (.n0 ip) false body vb) :: Event.visit A
          :: Event.visit (BtorNode.n2 iapp (.n2 iL (.n0 ip) false body vb) false A false)
          :: btor.log := by
  have hpk : (BtorNode.n0 ip).kind = .param := by simpa using hkp
  have hpA : BtorNode.n0 ip ≠ A := ne_of_kind (by rw [hpk, hkA]; decide)
  have hpapp0 : BtorNode.n0 ip ≠ BtorNode.n2 iapp (.n2 iL (.n0 ip) false body vb) false A false := by
    intro h; cases h
  generalize hLdef : BtorNode.n2 iL (.n0 ip) false body vb = L at *
  generalize happdef : BtorNode.n2 iapp L false A false = app at *
  have hLk : L.kind = .lambda := by rw [← hLdef]; simpa using hkL
  have happk : app.kind = .apply := by rw [← happdef]; simpa using hkapp
  have hLlam : L.BTOR_IS_LAMBDA_NODE = true := by simp [BtorNode.BTOR_IS_LAMBDA_NODE, hLk]
  have hLpar : L.parameterized = false := by rw [← hLdef]; simpa [BtorNode.parameterized] using hLp
  have hLA : L ≠ A := ne_of_kind (by rw [hLk, hkA]; decide)
  have hAapp : A ≠ app := ne_of_kind (by rw [hkA, happk]; decide)
  have hLapp : L ≠ app := ne_of_kind (by rw [hLk, happk]; decide)
  have hrun2 := run_apply_prefix env BETA_RED_FULL 0 btor iapp L A hkapp hlbapp (by decide)
    (by rw [happdef]; exact hAapp) (by simp [BtorNode.BTOR_IS_LAMBDA_NODE, hkA])
    (by simp [BtorNode.BTOR_IS_APPLY_NODE, hkA]) hAlb hAp
    (by rw [happdef]; exact hs1) hs2 hs3 hbm
  rw [happdef] at hrun2
  obtain ⟨s3, hstep3, b3, w3, a3, m3, r3, l3, c3, d3, e3, u3⟩ := step_lambda_cached_gen env
    { beta_reduce_init btor app.ref with
      btor := { btor with log := Event.visit A :: Event.visit app :: btor.log }
      work_stack := [(L.ref, some app), (app.ref, none)]
      arg_stack := [A.ref]
      cur_scope := [(app, 1), (A, 2)] }
    iL ip body vb app [(app.ref, none)] A.ref r [] cache
    (by rw [hLdef]) (by rw [hLdef]; exact hs2) hs4 hkL hLp hLlb hkp
    (by simp [BtorNode.BTOR_IS_APPLY_NODE, happk])
    (by rw [hLdef]; simp [PtrHashTable.find, Ne.symm hLapp, Ne.symm hLA])
    (by simp [beta_reduce_init])
    (by simp [PtrHashTable.find, Ne.symm hpapp0, Ne.symm hpA])
    rfl (by simp [BtorNode.BTOR_IS_ARGS_NODE, hkA]) hunb rfl hcache
    (by rw [hLdef]; exact hhit)
  rw [hLdef] at b3 m3
  simp only [beta_reduce_init] at hstep3 b3 m3 r3 l3 c3 d3 e3 u3
  have hstep4 := step_apply_collect env s3 iapp L A [] r A.ref [] cache
    (by rw [happdef]; exact w3) (by rw [happdef]; exact hs1) hs2 hs3 hkapp hLlam hLpar
    (by rw [happdef, m3 app (Ne.symm hLapp)]; simp [PtrHashTable.find])
    (by rw [happdef, r3]; simp [PtrHashTable.find]) (by rw [l3]; simp) a3 hrf hra
    (by rw [b3]; exact hcache)
    (Or.inr hhit)
  rw [happdef] at hstep4
  simp only [hhit] at hstep4
  refine ⟨_, run_steps_add _ _ _ 2 2 _ _ _ hrun2
    (run_steps_add _ _ _ 1 1 _ _ _ (run_steps_one _ _ _ _ _ hstep3)
      (run_steps_one _ _ _ _ _ hstep4)), rfl, rfl, l3, c3, d3, e3, u3, ?_, ?_, ?_⟩
  · simp [hcache]
  · simp only [b3]
  · simp only [b3]

theorem bindInv_stepInv (env : Ext) (mode bound : Int) (iL ip : NodeInfo) (body : BtorNode)
    (vb : Bool) (hkp : ip.kind = .param)
    (hsx : env.simplify ⟨.n0 ip, false⟩ = ⟨.n0 ip, false⟩)
    (hnb : not_bound_below (.n0 ip) body) :
    StepInv env mode bound (fun m => m ∈ subterms (BtorNode.n2 iL (.n0 ip) false body vb))
      (BindInv (BtorNode.n2 iL (.n0 ip) false body vb) (.n0 ip)) := by
  intro s s1 cur par w hw hm hst hi
  refine step_inv env mode bound iL (.n0 ip) body vb s s1 hst ?_ hsx hnb hi
  intro cur0 par0 w0 hw0
  rw [hw] at hw0
  cases hw0
  by_cases e : (simplify_cur env cur).node = BtorNode.n2 iL (.n0 ip) false body vb
  · exact Or.inl e
  · refine Or.inr ⟨e, ?_⟩
    simp only [subterms, List.mem_cons, List.mem_append, List.mem_singleton,
      List.not_mem_nil, or_false] at hm
    rcases hm with h | h | h
    · exact absurd h e
    · rw [h]
      intro M hM hl
      simp only [subterms, List.mem_singleton] at hM
      subst hM
      simp [BtorNode.BTOR_IS_LAMBDA_NODE, hkp] at hl
    · exact not_bound_below_mem _ body _ hnb h

/-- The first full reduction of `apply (L, A)` that returns `r` leaves `r` in
the cache under `(L, A)` and the parameter of `L` unbound; the second full
reduction takes `r` from the cache. -/
theorem cache_fill_and_reuse (env : Ext) (btor btor1 : Btor) (iapp iL ip : NodeInfo)
    (body A : BtorNode) (vb : Bool) (r : Ref) (fuel : Nat)
    (hkapp : iapp.kind = .apply) (hlbapp : iapp.lambda_below = true)
    (hkL : iL.kind = .lambda) (hLp : iL.parameterized = false)
    (hLlb : iL.lambda_below = true) (hkp : ip.kind = .param)
    (hkA : A.kind = .args) (hAp : A.parameterized = false) (hAlb : A.lambda_below = false)
    (hset : settled env
      (BtorNode.n2 iapp (.n2 iL (.n0 ip) false body vb) false A false) = true)
    (hleaf : leaves_ok
      (BtorNode.n2 iapp (.n2 iL (.n0 ip) false body vb) false A false) = true)
    (hs1 : simplify_cur env
      (BtorNode.n2 iapp (.n2 iL (.n0 ip) false body vb) false A false).ref
      = (BtorNode.n2 iapp (.n2 iL (.n0 ip) false body vb) false A false).ref)
    (hown : not_bound_below (.n0 ip) body)
    (hbm : ∀ m, btor.beta_mark m = 0)
    (hunb : btor.assigned_exp (.n0 ip) = [])
    (hcache : btor.cache.isSome = true)
    (hrun : btor_beta_reduce_full fuel env btor
      (BtorNode.n2 iapp (.n2 iL (.n0 ip) false body vb) false A false).ref = .done (r, btor1))
    (hrf : r.node.BTOR_IS_FUN_NODE = false) (hra : r.node.BTOR_IS_ARRAY_NODE = false) :
    (∃ cache1, btor1.cache = some cache1 ∧
      PtrHashTable.find cache1 ((BtorNode.n2 iL (.n0 ip) false body vb).ref, A.ref) = some r) ∧
    btor1.assigned_exp (.n0 ip) = [] ∧
    ∀ fuel2, 4 ≤ fuel2 → ∃ btor2,
      btor_beta_reduce_full fuel2 env btor1
        (BtorNode.n2 iapp (.n2 iL (.n0 ip) false body vb) false A false).ref = .done (r, btor2) ∧
      btor2.cache = btor1.cache ∧ btor2.assigned_exp = btor1.assigned_exp ∧
      btor2.log =
        Event.visit (BtorNode.n2 iapp (.n2 iL (.n0 ip) false body vb) false A false)
          :: Event.visit (.n2 iL (.n0 ip) false body vb) :: Event.visit A
          :: Event.visit (BtorNode.n2 iapp (.n2 iL (.n0 ip) false body vb) false A false)
          :: btor1.log := by
  obtain ⟨hstL, hsetL⟩ := settled_child env _ ⟨.n2 iL (.n0 ip) false body vb, false⟩ hset
    (by simp [BtorNode.e])
  obtain ⟨hstA, -⟩ := settled_child env _ ⟨A, false⟩ hset (by simp [BtorNode.e])
  obtain ⟨hstp, -⟩ := settled_child env _ ⟨.n0 ip, false⟩ hsetL (by simp [BtorNode.e])
  simp only [stable, Bool.and_eq_true, decide_eq_true_eq] at hstL hstA hstp
  have hleafL := leaves_ok_child _ ⟨.n2 iL (.n0 ip) false body vb, false⟩ hleaf
    (by simp [BtorNode.e])
  simp only at hleafL hsetL
  have hLlam : (BtorNode.n2 iL (.n0 ip) false body vb).BTOR_IS_LAMBDA_NODE = true := by
    simp [BtorNode.BTOR_IS_LAMBDA_NODE, hkL]
  have hLpar : (BtorNode.n2 iL (.n0 ip) false body vb).parameterized = false := by
    simpa [BtorNode.parameterized] using hLp
  have hLA : BtorNode.n2 iL (.n0 ip) false body vb ≠ A :=
    ne_of_kind (by rw [kind_n2, hkL, hkA]; decide)
  generalize happ : BtorNode.n2 iapp (.n2 iL (.n0 ip) false body vb) false A false = app at *
  have happk : app.kind = .apply := by rw [← happ]; simpa using hkapp
  have hAapp : A ≠ app := ne_of_kind (by rw [hkA, happk]; decide)
  have hLapp : BtorNode.n2 iL (.n0 ip) false body vb ≠ app :=
    ne_of_kind (by rw [kind_n2, hkL, happk]; decide)
  have hsz : app ∉ subterms (BtorNode.n2 iL (.n0 ip) false body vb) := by
    intro hm
    have := subterms_size _ _ hm
    rw [← happ] at this
    simp only [BtorNode.size] at this
    omega
  unfold btor_beta_reduce_full at hrun
  obtain ⟨sF, hloop, huF, haF, hbF⟩ := reduce_done_state fuel env btor btor1 _ r _ _ hrun
  have hrun2 := run_apply_prefix env BETA_RED_FULL 0 btor iapp _ A hkapp hlbapp (by decide)
    (by rw [happ]; exact hAapp) (by simp [BtorNode.BTOR_IS_LAMBDA_NODE, hkA])
    (by simp [BtorNode.BTOR_IS_APPLY_NODE, hkA]) hAlb hAp
    (by rw [happ]; exact hs1) hstL.1 hstA.1 hbm
  rw [happ] at hrun2
  obtain ⟨s2, hr2, w2, a2, m2, l2, c2, b2, u2⟩ : ∃ s2 : LoopState,
      run_steps env BETA_RED_FULL 0 2 (beta_reduce_init btor app.ref) = some s2 ∧
      s2.work_stack = [(⟨BtorNode.n2 iL (.n0 ip) false body vb, false⟩, some app),
        (app.ref, none)] ∧
      s2.arg_stack = [A.ref] ∧ s2.cur_scope = [(app, 1), (A, 2)] ∧
      s2.cur_scope_lambda = none ∧ s2.btor.cache = btor.cache ∧
      s2.btor.assigned_exp = btor.assigned_exp ∧ s2.unassign_stack = [] :=
    ⟨_, hrun2, rfl, rfl, rfl, rfl, rfl, rfl, rfl⟩
  obtain ⟨k, -, hv⟩ := visit_frame env BETA_RED_FULL 0 _ (BtorNode.n2 iL (.n0 ip) false body vb)
    (Nat.le_refl _) hsetL hleafL false (some app) [(app.ref, none)] s2 w2 hstL.2
    (by intro l hl; rw [l2] at hl; cases hl)
    (by
      intro m hm hf
      rw [m2] at hf
      simp only [PtrHashTable.find] at hf
      split at hf
      · rename_i e
        rw [← e] at hm
        exact hsz hm
      · split at hf <;> simp at hf)
  rcases hv with hnone | ⟨s5, hr5, w5, -, -, l5, ⟨rs, hlen, a5⟩, mk5, -, inv5⟩
  · exact (done_not_abort env _ _ fuel (2 + k) _ sF hloop
      (run_steps_some_none env _ _ 2 k _ s2 hr2 hnone)).elim
  have hb2 : BindInv (BtorNode.n2 iL (.n0 ip) false body vb) (.n0 ip) s2 := by
    refine ⟨?_, ?_, ?_⟩
    · rw [c2]
      exact hcache
    · rw [b2, hunb]
      simp
    · intro h
      rw [b2, hunb] at h
      exact absurd rfl h
  have hb5 : BindInv (BtorNode.n2 iL (.n0 ip) false body vb) (.n0 ip) s5 :=
    inv5 _ (bindInv_stepInv env _ _ iL ip body vb hkp hstp.1 hown) hb2
  obtain ⟨rL, hrs⟩ : ∃ rL, rs = [rL] := List.length_eq_one.mp hlen
  subst hrs
  have hr25 := run_steps_add env _ _ 2 k _ s2 s5 hr2 hr5
  cases hst6 : beta_reduce_step env BETA_RED_FULL 0 s5 with
  | none =>
    exact (done_not_abort env _ _ fuel (2 + k + 1) _ sF hloop
      (run_steps_some_none env _ _ (2 + k) 1 _ s5 hr25
        (run_steps_one_none env _ _ s5 hst6))).elim
  | some s6 =>
    subst happ
    obtain ⟨r6, c1, a6, w6, hc6, hf6, as6, us6⟩ := step_apply_stores env s5 s6 iapp
      (BtorNode.n2 iL (.n0 ip) false body vb) A [] rL [] w5 hs1 hstL.1 hstA.1 hkapp hLlam hLpar
      (by rw [mk5 _ hsz, m2]; simp [PtrHashTable.find])
      (by rw [l5, l2]; simp)
      (by rw [a5, a2]; rfl) hb5.1 hst6
    have h6 := done_unique env _ _ fuel (2 + k + 1) _ sF s6 hloop
      (run_steps_add env _ _ (2 + k) 1 _ s5 s6 hr25 (run_steps_one env _ _ s5 s6 hst6)) w6
    subst h6
    rw [haF] at a6
    cases a6
    have hx5 : s5.btor.assigned_exp (.n0 ip) = [] := by
      by_contra hne
      have := hb5.2.2 hne
      rw [← us6, huF] at this
      cases this
    have hx6 : btor1.assigned_exp (.n0 ip) = [] := by
      rw [← hbF, as6]
      exact hx5
    have hbm1 : ∀ m, btor1.beta_mark m = 0 := by
      intro m
      rw [← hbF, loop_bmark env _ _ fuel _ _ hloop]
      exact hbm m
    have hc1 : btor1.cache = some c1 := by rw [← hbF]; exact hc6
    refine ⟨⟨c1, hc1, hf6⟩, hx6, ?_⟩
    intro fuel2 hf2
    obtain ⟨t, trun, tw, ta, t1, t2, t3, t4, t5, t6, t7, t9⟩ :=
      full_cached_run_gen env btor1 iapp iL ip body A vb c1 r hkapp hlbapp hkL hLp hLlb hkp
        hkA hAlb hAp hs1 hstL.1 hstA.1 hstp.1 hbm1 hx6 hc1 hf6 hrf hra
    refine ⟨t.btor, ?_, t6, t7, t9⟩
    have hloop2 := loop_mono env _ _ 4 _ _ (loop_of_run_steps env _ _ 4 _ _ trun tw) fuel2 hf2
    unfold btor_beta_reduce_full btor_beta_reduce
    rw [hloop2]
    simp [t1, t2, t3, t4, t5, ta, BETA_RED_FULL]

/-! ## The ledger of references of the partial reducer -/

theorem copy_all_apply (l : List Ref) : ∀ (rc : RefCount) (n : BtorNode),
    rc.copy_all l n = rc n + refs_in l n := by
  induction l with
  | nil => intro rc n; simp [RefCount.copy_all, refs_in]
  | cons r l ih =>
    intro rc n
    rw [RefCount.copy_all, ih, copy_apply, refs_in_cons]
    omega

theorem memo_entries_set_fresh (tr : TupleRefs)
    (t : PtrHashTable BtorParamCacheTuple (Ref × BtorNode)) (k : BtorParamCacheTuple)
    (e0 : Ref) (e1 : BtorNode) (n : BtorNode) (h : PtrHashTable.find t k = none) :
    refs_in (memo_entries tr (PtrHashTable.set t k (e0, e1))) n
      = refs_in (memo_entries tr t) n + refs_in (tr k) n + (if n = e0.node then 1 else 0)
        + (if n = e1 then 1 else 0) := by
  induction t with
  | nil =>
    simp only [PtrHashTable.set, memo_entries, refs_in_append, refs_in_cons, refs_in_nil,
      ref_node]
    omega
  | cons hd tl ih =>
    obtain ⟨k1, w0, w1⟩ := hd
    by_cases e : k1 = k
    · simp [PtrHashTable.find, e] at h
    · simp only [PtrHashTable.find, e, if_false] at h
      simp only [PtrHashTable.set, e, if_false, memo_entries, refs_in_append, refs_in_cons,
        ih h]
      omega

theorem sel_entries_set_fresh (tr : TupleRefs) (t : PtrHashTable BtorParamCacheTuple Ref)
    (k : BtorParamCacheTuple) (v : Ref) (n : BtorNode) (h : PtrHashTable.find t k = none) :
    refs_in (sel_entries tr (PtrHashTable.set t k v)) n
      = refs_in (sel_entries tr t) n + refs_in (tr k) n := by
  induction t with
  | nil =>
    simp only [PtrHashTable.set, sel_entries, refs_in_append, refs_in_nil]
    omega
  | cons hd tl ih =>
    obtain ⟨k1, w⟩ := hd
    by_cases e : k1 = k
    · simp [PtrHashTable.find, e] at h
    · simp only [PtrHashTable.find, e, if_false] at h
      simp only [PtrHashTable.set, e, if_false, sel_entries, refs_in_append, ih h]
      omega

theorem partial_cleanup_apply (tr : TupleRefs) :
    ∀ (cache : PtrHashTable BtorParamCacheTuple (Ref × BtorNode)) (rc : RefCount)
      (n : BtorNode),
      partial_cleanup_refs tr cache rc n = rc n - refs_in (memo_entries tr cache) n := by
  intro cache
  induction cache with
  | nil => intro rc n; simp [partial_cleanup_refs, memo_entries, refs_in]
  | cons hd tl ih =>
    intro rc n
    obtain ⟨k1, w0, w1⟩ := hd
    simp only [partial_cleanup_refs, ih, delete_node_tuple_refs, release_apply,
      release_all_apply, memo_entries, refs_in_append, refs_in_cons, ref_node]
    omega

theorem collect_selector_ledger (tr : TupleRefs) (btor : Btor) (e0 : Ref)
    (sel : Option (PtrHashTable BtorParamCacheTuple Ref)) (rc : RefCount) (n : BtorNode) :
    collect_selector_refs tr btor e0 sel rc n - sel_held tr (collect_selector btor e0 sel) n
      = rc n - sel_held tr sel n := by
  cases sel with
  | none => simp [collect_selector_refs, collect_selector, sel_held]
  | some t =>
    simp only [collect_selector_refs, collect_selector]
    cases hf : PtrHashTable.find t (btor_new_param_cache_tuple btor e0.node) with
    | some v =>
      simp only [Option.isSome_some, if_true, release_all_apply, copy_all_apply, sel_held]
      omega
    | none =>
      simp only [Option.isSome_none, Bool.false_eq_true, if_false, copy_all_apply, sel_held,
        sel_entries_set_fresh tr t _ e0 n hf]
      omega

theorem partial_cond_ledger (tr : TupleRefs) (env : Ext) (cur : Ref) (s s1 : PartialState)
    (rc : RefCount) (h : partial_cond env cur s = some (some s1)) (n : BtorNode) :
    partial_cond_refs tr env cur s rc n - partial_held tr s1 n
      = rc n - partial_held tr s n := by
  unfold partial_cond at h
  simp only at h
  split at h
  · rename_i e0 e1 e2 tl he
    split at h
    · cases h
    · rename_i hc
      split at h
      · cases h
      · rename_i eval_res hev
        split at h
        · rename_i h1
          simp only [Option.some.injEq] at h
          subst h
          simp only [partial_cond_refs, he, if_neg hc, hev, if_pos h1, partial_held]
          have := collect_selector_ledger tr s.btor e0 s.cond_sel1 rc n
          omega
        · rename_i h1
          split at h
          · rename_i h0
            simp only [Option.some.injEq] at h
            subst h
            simp only [partial_cond_refs, he, if_neg hc, hev, if_neg h1, if_pos h0, partial_held]
            have := collect_selector_ledger tr s.btor e0 s.cond_sel2 rc n
            omega
          · cases h
  · cases h

theorem partial_cond_null (tr : TupleRefs) (env : Ext) (cur : Ref) (s : PartialState)
    (rc : RefCount) (h : partial_cond env cur s = some none) :
    partial_cond_refs tr env cur s rc = rc := by
  unfold partial_cond at h
  simp only at h
  split at h
  · rename_i e0 e1 e2 tl he
    split at h
    · cases h
    · rename_i hc
      split at h
      · rename_i hev
        simp only [partial_cond_refs, he, if_neg hc, hev]
      · split at h
        · cases h
        · split at h
          · cases h
          · cases h
  · cases h

theorem partial_held_btor (tr : TupleRefs) (s : PartialState) (b : Btor)
    (st : List (Ref × Option BtorNode)) (n : BtorNode) :
    partial_held tr { s with btor := b, stack := st } n = partial_held tr s n := rfl

theorem partial_start_ledger (tr : TupleRefs) (env : Ext) (cur : Ref)
    (cur_parent : Option BtorNode) (s s1 : PartialState) (rc : RefCount)
    (h : partial_start env cur cur_parent s = some s1) (n : BtorNode) :
    partial_start_refs tr env cur s rc n - partial_held tr s1 n
      = rc n - partial_held tr s n := by
  unfold partial_start at h
  simp only at h
  split at h
  · rename_i hp
    split at h
    · cases h
    · rename_i ha
      cases h
      simp only [partial_start_refs, if_pos hp, if_neg ha, copy_apply, partial_held,
        refs_in_cons]
      omega
  · rename_i hp
    split at h
    · rename_i hpar
      split at h
      · rename_i next hn
        cases h
        simp only [partial_start_refs, if_neg hp, if_pos hpar, hn, copy_apply, partial_held,
          refs_in_cons]
        omega
      · cases h
    · rename_i hpar
      split at h
      · rename_i hc
        have hrefs : partial_start_refs tr env cur s rc = partial_cond_refs tr env cur s rc := by
          simp only [partial_start_refs, if_neg hp, if_neg hpar, if_pos hc]
        rw [hrefs]
        split at h
        · cases h
        · rename_i s2 hs2
          cases h
          exact partial_cond_ledger tr env cur s s1 rc hs2 n
        · rename_i hs2
          cases h
          rw [partial_cond_null tr env cur s rc hs2]
          rfl
      · rename_i hc
        have hrefs : partial_start_refs tr env cur s rc = rc := by
          simp only [partial_start_refs, if_neg hp, if_neg hpar, if_neg hc]
        rw [hrefs]
        split at h
        · cases h
        · rename_i s2 hs2
          cases h
          obtain ⟨-, he⟩ := partial_assign_keeps _ _ _ _ hs2
          rw [he]
          rfl

theorem partial_switch_ledger (env : Ext) (real_cur : BtorNode) (stk : List Ref)
    (ps : List BtorNode) (s s2 : PartialState) (result : Ref) (origin : BtorNode)
    (rc : RefCount)
    (h : partial_switch env real_cur (stk.take real_cur.arity).reverse ps s
      = some (result, origin, s2))
    (hk : kind_arity_ok real_cur = true) (hlen : ¬ stk.length < real_cur.arity)
    (n : BtorNode) :
    partial_switch_refs env real_cur (stk.take real_cur.arity).reverse ps s rc n
      = rc n + (if n = result.node then 1 else 0) - refs_in (stk.take real_cur.arity) n := by
  have h0 := h
  unfold partial_switch at h
  cases hkind : real_cur.kind
  case slice =>
    simp only [kind_arity_ok, hkind, beq_iff_eq] at hk
    rw [hk] at hlen h h0 ⊢
    obtain ⟨a, ht, hr⟩ := take_one_shape stk (by omega)
    rw [ht] at h0 ⊢
    simp only [List.reverse_cons, List.reverse_nil, List.nil_append, List.cons_append] at h0 ⊢
    simp only [partial_switch_refs, h0, hkind, release_apply, copy_apply, refs_in_cons,
      refs_in_nil]
    omega
  case bcond =>
    simp only [kind_arity_ok, hkind, beq_iff_eq] at hk
    rw [hk] at hlen h h0 ⊢
    obtain ⟨a, b, c, ht, hr⟩ := take_three_shape stk (by omega)
    rw [ht] at h0 ⊢
    simp only [List.reverse_cons, List.reverse_nil, List.nil_append, List.cons_append] at h0 ⊢
    simp only [partial_switch_refs, h0, hkind, release_apply, copy_apply, refs_in_cons,
      refs_in_nil]
    omega
  case args =>
    simp only [partial_switch_refs, h0, hkind, release_all_apply, refs_in_reverse, copy_apply]
  case lambda =>
    simp only [kind_arity_ok, hkind, beq_iff_eq] at hk
    rw [hk] at hlen h h0 ⊢
    obtain ⟨a, b, ht, hr⟩ := take_two_shape stk (by omega)
    rw [ht] at h h0 ⊢
    simp only [List.reverse_cons, List.reverse_nil, List.nil_append, List.cons_append] at h h0 ⊢
    simp only [hkind] at h
    split at h
    · cases h
    · split at h
      · simp only [Option.some.injEq, Prod.mk.injEq] at h
        obtain ⟨h1, -, -⟩ := h
        subst h1
        simp only [partial_switch_refs, h0, hkind, release_apply, refs_in_cons, refs_in_nil]
        omega
      · cases h
  case apply =>
    simp only [kind_arity_ok, hkind, beq_iff_eq] at hk
    rw [hk] at hlen h h0 ⊢
    obtain ⟨a, b, ht, hr⟩ := take_two_shape stk (by omega)
    rw [ht] at h h0 ⊢
    simp only [List.reverse_cons, List.reverse_nil, List.nil_append, List.cons_append] at h h0 ⊢
    simp only [hkind] at h
    split at h
    · rename_i hf
      simp only [partial_switch_refs, h0, hkind, if_pos hf, release_apply, copy_apply,
        refs_in_cons, refs_in_nil]
      omega
    · rename_i hf
      split at h
      · simp only [Option.some.injEq, Prod.mk.injEq] at h
        obtain ⟨h1, -, -⟩ := h
        subst h1
        simp only [partial_switch_refs, h0, hkind, if_neg hf, release_apply, refs_in_cons,
          refs_in_nil]
        omega
      · cases h
  case bv_const | bv_var | array_var | param | acond =>
    simp [hkind] at h
  all_goals
    simp only [kind_arity_ok, hkind, beq_iff_eq] at hk
    rw [hk] at hlen h h0 ⊢
    obtain ⟨a, b, ht, hr⟩ := take_two_shape stk (by omega)
    rw [ht] at h0 ⊢
    simp only [List.reverse_cons, List.reverse_nil, List.nil_append, List.cons_append] at h0 ⊢
    simp only [partial_switch_refs, h0, hkind, release_apply, copy_apply, refs_in_cons,
      refs_in_nil]
    omega

theorem partial_switch_fields (env : Ext) (real_cur : BtorNode) (e : List Ref)
    (ps : List BtorNode) (s s2 : PartialState) (r : Ref) (o : BtorNode)
    (h : partial_switch env real_cur e ps s = some (r, o, s2)) :
    s2.arg_stack = s.arg_stack ∧ s2.cache = s.cache ∧ s2.cond_sel1 = s.cond_sel1
      ∧ s2.cond_sel2 = s.cond_sel2 := by
  rcases partial_switch_state env real_cur e ps s s2 r o h with h1 | ⟨k, h1⟩ <;> rw [h1] <;>
    exact ⟨rfl, rfl, rfl, rfl⟩

theorem partial_rebuild_ledger (tr : TupleRefs) (env : Ext) (cur : Ref) (s s1 : PartialState)
    (rc : RefCount) (h : partial_rebuild env cur s = some s1)
    (hk : kind_arity_ok cur.node = true) (n : BtorNode) :
    partial_rebuild_refs tr env cur s rc n - partial_held tr s1 n
      = rc n - partial_held tr s n := by
  unfold partial_rebuild at h
  simp only at h
  split at h
  · cases h
  · rename_i hp
    split at h
    · cases h
    · rename_i ha
      split at h
      · cases h
      · rename_i hlen
        split at h
        · cases h
        · rename_i result origin s2 hsw
          obtain ⟨f1, f2, f3, f4⟩ := partial_switch_fields _ _ _ _ _ _ _ _ hsw
          have hl := partial_switch_ledger env cur.node s.arg_stack _ _ s2 result origin rc hsw hk
            hlen n
          have hd := refs_in_take_drop s.arg_stack cur.node.arity n
          split at h
          · cases h
          · rename_i hfresh
            have hfresh2 : PtrHashTable.find s2.cache
                (btor_new_param_cache_tuple s2.btor cur.node) = none := by
              cases hf : PtrHashTable.find s2.cache (btor_new_param_cache_tuple s2.btor cur.node) with
              | none => rfl
              | some v => simp [hf] at hfresh
            have hrefs : partial_rebuild_refs tr env cur s rc n
                = partial_switch_refs env cur.node (s.arg_stack.take cur.node.arity).reverse
                    (s.param_stack.take cur.node.arity).reverse
                    { s with
                      btor := { s.btor with
                        beta_mark := Function.update s.btor.beta_mark cur.node 2 }
                      arg_stack := s.arg_stack.drop cur.node.arity
                      param_stack := s.param_stack.drop cur.node.arity } rc n
                  + refs_in (tr (btor_new_param_cache_tuple s2.btor cur.node)) n
                  + (if n = result.node then 1 else 0) + (if n = origin then 1 else 0) := by
              simp only [partial_rebuild_refs, if_neg hp, if_neg ha, if_neg hlen, hsw,
                new_node_tuple_refs, copy_apply, copy_all_apply, ref_node]
            rw [hrefs, hl]
            have hnode : (cur.cond_invert result).node = result.node :=
              cond_invert_node cur result
            have hs1 : partial_held tr s1 n
                = (if n = result.node then 1 else 0) + refs_in (s.arg_stack.drop cur.node.arity) n
                  + (refs_in (memo_entries tr s.cache) n
                    + refs_in (tr (btor_new_param_cache_tuple s2.btor cur.node)) n
                    + (if n = result.node then 1 else 0) + (if n = origin then 1 else 0))
                  + sel_held tr s.cond_sel1 n + sel_held tr s.cond_sel2 n := by
              split at h
              · cases h
              · rename_i s4 hs4
                cases h
                have h4 : s4.arg_stack = s2.arg_stack ∧
                    s4.cache = PtrHashTable.set s2.cache
                      (btor_new_param_cache_tuple s2.btor cur.node) (result, origin) ∧
                    s4.cond_sel1 = s2.cond_sel1 ∧ s4.cond_sel2 = s2.cond_sel2 := by
                  split at hs4
                  · split at hs4
                    · cases hs4
                    · cases hs4; exact ⟨rfl, rfl, rfl, rfl⟩
                  · cases hs4; exact ⟨rfl, rfl, rfl, rfl⟩
                obtain ⟨g1, g2, g3, g4⟩ := h4
                simp only [partial_held, partial_push_result, refs_in_cons, hnode, g1, g2, g3,
                  g4, memo_entries_set_fresh tr _ _ _ _ n hfresh2]
                simp only [f1, f2, f3, f4]
            rw [hs1]
            simp only [partial_held]
            omega

theorem copy_release_all (l : List Ref) (rc : RefCount) :
    (rc.copy_all l).release_all l = rc := by
  funext n
  rw [release_all_apply, copy_all_apply]
  omega

theorem partial_revisit_ledger (tr : TupleRefs) (env : Ext) (cur : Ref)
    (cur_parent : Option BtorNode) (s s1 : PartialState) (rc : RefCount)
    (h : partial_revisit env cur cur_parent s = some s1) (n : BtorNode) :
    partial_revisit_refs tr env cur s rc n - partial_held tr s1 n
      = rc n - partial_held tr s n := by
  unfold partial_revisit at h
  simp only at h
  split at h
  · cases h
  · rename_i hp
    split at h
    · cases h
    · rename_i t0 s2 ht
      obtain ⟨-, he⟩ := partial_revisit_tuple_keeps _ _ _ _ ht
      have hh : partial_held tr s2 n = partial_held tr s n := by rw [he]; rfl
      split at h
      · rename_i hf
        have hrefs : partial_revisit_refs tr env cur s rc
            = partial_start_refs tr env cur
                { s2 with
                  btor := { s2.btor with
                    beta_mark := Function.update s2.btor.beta_mark cur.node 0 } } rc := by
          simp only [partial_revisit_refs, if_neg hp, ht, hf, copy_release_all]
        rw [hrefs, partial_start_ledger tr env cur cur_parent _ s1 rc h n, ← hh]
        rfl
      · rename_i result origin hf
        split at h
        · cases h
        · cases h
          have hnode : (cur.cond_invert result).node = result.node :=
            cond_invert_node cur result
          simp only [partial_revisit_refs, if_neg hp, ht, hf, copy_release_all, copy_apply,
            ← hh]
          simp only [partial_held, partial_push_result, refs_in_cons, hnode]
          omega

theorem partial_step_ledger (tr : TupleRefs) (env : Ext) (s s1 : PartialState) (rc : RefCount)
    (h : partial_step env s = some s1)
    (hk : ∀ cur par rest, s.stack = (cur, par) :: rest → kind_arity_ok cur.node = true)
    (n : BtorNode) :
    partial_step_refs tr env s rc n - partial_held tr s1 n = rc n - partial_held tr s n := by
  unfold partial_step at h
  split at h
  · rename_i hs
    cases h
    simp only [partial_step_refs, hs]
  · rename_i cur par rest hs
    simp only at h
    have hh : partial_held tr (({ s with stack := rest } : PartialState).record
        (.visit cur.node)) n = partial_held tr s n := rfl
    split at h
    · cases h
    · rename_i hlen
      split at h
      · rename_i h0
        have hrefs : partial_step_refs tr env s rc = partial_start_refs tr env cur
            (({ s with stack := rest } : PartialState).record (.visit cur.node)) rc := by
          simp only [partial_step_refs, hs, if_neg hlen, if_pos h0]
        rw [hrefs, partial_start_ledger tr env cur par _ s1 rc h n, hh]
      · rename_i h0
        split at h
        · rename_i h1
          have hrefs : partial_step_refs tr env s rc = partial_rebuild_refs tr env cur
              (({ s with stack := rest } : PartialState).record (.visit cur.node)) rc := by
            simp only [partial_step_refs, hs, if_neg hlen, if_neg h0, if_pos h1]
          rw [hrefs, partial_rebuild_ledger tr env cur _ s1 rc h (hk cur par rest hs) n, hh]
        · rename_i h1
          split at h
          · rename_i h2
            have hrefs : partial_step_refs tr env s rc = partial_revisit_refs tr env cur
                (({ s with stack := rest } : PartialState).record (.visit cur.node)) rc := by
              simp only [partial_step_refs, hs, if_neg hlen, if_neg h0, if_neg h1, if_pos h2]
            rw [hrefs, partial_revisit_ledger tr env cur par _ s1 rc h n, hh]
          · cases h

/-! ### The entries of the work stack of the partial reducer -/

theorem partial_expand_stack (cur : Ref) (par : Option BtorNode) (s : PartialState) :
    ∀ en, en ∈ (partial_expand cur par s).stack →
      en ∈ s.stack ∨ en.1.node = cur.node ∨ ∃ c, c ∈ cur.node.e ∧ en.1.node = c.node := by
  intro en hen
  simp only [partial_expand, List.mem_append, List.mem_map, List.mem_reverse,
    List.mem_cons] at hen
  rcases hen with ⟨c, hc, rfl⟩ | rfl | hen
  · exact Or.inr (Or.inr ⟨c, hc, rfl⟩)
  · exact Or.inr (Or.inl rfl)
  · exact Or.inl hen

theorem partial_start_stack (env : Ext) (cur : Ref) (par : Option BtorNode)
    (s s1 : PartialState) (h : partial_start env cur par s = some s1) :
    ∀ en, en ∈ s1.stack →
      en ∈ s.stack ∨ en.1.node = cur.node ∨ ∃ c, c ∈ cur.node.e ∧ en.1.node = c.node := by
  unfold partial_start at h
  simp only at h
  split at h
  · split at h
    · cases h
    · cases h
      intro en hen
      exact Or.inl hen
  · split at h
    · split at h
      · cases h
        intro en hen
        exact Or.inl hen
      · cases h
    · split at h
      · split at h
        · cases h
        · rename_i s2 hs2
          cases h
          unfold partial_cond at hs2
          simp only at hs2
          split at hs2
          · rename_i e0 e1 e2 tl he
            split at hs2
            · cases hs2
            · split at hs2
              · cases hs2
              · split at hs2
                · simp only [Option.some.injEq] at hs2
                  subst hs2
                  intro en hen
                  simp only [List.mem_cons] at hen
                  rcases hen with rfl | hen
                  · exact Or.inr (Or.inr ⟨e1, by rw [he]; simp, cond_invert_node cur e1⟩)
                  · exact Or.inl hen
                · split at hs2
                  · simp only [Option.some.injEq] at hs2
                    subst hs2
                    intro en hen
                    simp only [List.mem_cons] at hen
                    rcases hen with rfl | hen
                    · exact Or.inr (Or.inr ⟨e2, by rw [he]; simp, cond_invert_node cur e2⟩)
                    · exact Or.inl hen
                  · cases hs2
          · cases hs2
        · cases h
          exact partial_expand_stack cur par s
      · split at h
        · cases h
        · rename_i s2 hs2
          cases h
          obtain ⟨-, he⟩ := partial_assign_keeps _ _ _ _ hs2
          intro en hen
          have := partial_expand_stack cur par s2 en hen
          rw [he] at this
          exact this

theorem partial_rebuild_stack (env : Ext) (cur : Ref) (s s1 : PartialState)
    (h : partial_rebuild env cur s = some s1) : s1.stack = s.stack := by
  unfold partial_rebuild at h
  simp only at h
  split at h
  · cases h
  · split at h
    · cases h
    · split at h
      · cases h
      · split at h
        · cases h
        · rename_i result origin s2 hsw
          have hst := partial_switch_keeps_stack _ _ _ _ _ _ _ _ hsw
          split at h
          · cases h
          · split at h
            · cases h
            · rename_i s4 hs4
              cases h
              have h4 : s4.stack = s2.stack := by
                split at hs4
                · split at hs4
                  · cases hs4
                  · cases hs4; rfl
                · cases hs4; rfl
              simp only [partial_push_result, h4, hst]

theorem partial_revisit_stack (env : Ext) (cur : Ref) (par : Option BtorNode)
    (s s1 : PartialState) (h : partial_revisit env cur par s = some s1) :
    ∀ en, en ∈ s1.stack →
      en ∈ s.stack ∨ en.1.node = cur.node ∨ ∃ c, c ∈ cur.node.e ∧ en.1.node = c.node := by
  unfold partial_revisit at h
  simp only at h
  split at h
  · cases h
  · split at h
    · cases h
    · rename_i t0 s2 ht
      obtain ⟨hst, -⟩ := partial_revisit_tuple_keeps_stack _ _ _ _ ht
      split at h
      · intro en hen
        have := partial_start_stack env cur par _ s1 h en hen
        simp only [hst] at this
        exact this
      · split at h
        · cases h
        · cases h
          intro en hen
          simp only [partial_push_result, hst] at hen
          exact Or.inl hen

theorem partial_step_entries (env : Ext) (root : BtorNode) (s s1 : PartialState)
    (h : partial_step env s = some s1)
    (hin : ∀ en, en ∈ s.stack → en.1.node ∈ subterms root) :
    ∀ en, en ∈ s1.stack → en.1.node ∈ subterms root := by
  unfold partial_step at h
  split at h
  · cases h
    exact hin
  · rename_i cur par rest hs
    simp only at h
    have hcur : cur.node ∈ subterms root := hin (cur, par) (by rw [hs]; simp)
    have hrest : ∀ en, en ∈ rest → en.1.node ∈ subterms root :=
      fun en hen => hin en (by rw [hs]; exact List.mem_cons_of_mem _ hen)
    have hcase : ∀ en : Ref × Option BtorNode,
        (en ∈ rest ∨ en.1.node = cur.node ∨ ∃ c, c ∈ cur.node.e ∧ en.1.node = c.node) →
        en.1.node ∈ subterms root := by
      intro en hen
      rcases hen with hen | hen | ⟨c, hc, hen⟩
      · exact hrest en hen
      · rw [hen]; exact hcur
      · rw [hen]; exact subterms_child root cur.node c hcur hc
    split at h
    · cases h
    · split at h
      · intro en hen
        exact hcase en (partial_start_stack env cur par _ s1 h en hen)
      · split at h
        · intro en hen
          rw [partial_rebuild_stack env cur _ s1 h] at hen
          exact hrest en hen
        · split at h
          · intro en hen
            exact hcase en (partial_revisit_stack env cur par _ s1 h en hen)
          · cases h

/-! ### The ledger of the loop and of the call -/

theorem partial_loop_ledger (tr : TupleRefs) (env : Ext) (root : BtorNode)
    (hk : kinds_ok root = true) (fuel : Nat) :
    ∀ (s sF : PartialState) (rc : RefCount),
      partial_loop env fuel s = .done sF →
      (∀ en, en ∈ s.stack → en.1.node ∈ subterms root) →
      ∀ n, partial_loop_refs tr env fuel s rc n - partial_held tr sF n
        = rc n - partial_held tr s n := by
  induction fuel with
  | zero =>
    intro s sF rc h _ n
    unfold partial_loop at h
    split at h
    · cases h
      rfl
    · cases h
  | succ f ih =>
    intro s sF rc h hin n
    unfold partial_loop at h
    split at h
    · rename_i he
      cases h
      simp only [partial_loop_refs, he, if_true]
    · rename_i he
      split at h
      · cases h
      · rename_i s2 hs2
        have hstep := partial_step_ledger tr env s s2 rc hs2
          (by
            intro cur par rest hs
            have hm := hin (cur, par) (by rw [hs]; simp)
            unfold kinds_ok at hk
            rw [List.all_eq_true] at hk
            exact hk _ hm) n
        have hrest := ih s2 sF (partial_step_refs tr env s rc) h
          (partial_step_entries env root s s2 hs2 hin) n
        simp only [partial_loop_refs, he, hs2, Bool.false_eq_true, if_false]
        omega

theorem lambda_get_body_mem : ∀ (n : BtorNode), (BTOR_LAMBDA_GET_BODY n).node ∈ subterms n := by
  intro n
  induction n with
  | n0 i => simp [BTOR_LAMBDA_GET_BODY, subterms]
  | n1 i c0 v0 _ => simp [BTOR_LAMBDA_GET_BODY, subterms]
  | n2 i c0 v0 c1 v1 _ ih1 =>
    simp only [BTOR_LAMBDA_GET_BODY]
    split
    · exact (mem_subterms_iff _ _).mpr (Or.inr ⟨⟨c1, v1⟩, by simp [BtorNode.e], ih1⟩)
    · exact (mem_subterms_iff _ _).mpr
        (Or.inr ⟨⟨c1, v1⟩, by simp [BtorNode.e], self_mem_subterms c1⟩)
  | n3 i c0 v0 c1 v1 c2 v2 _ _ _ => simp [BTOR_LAMBDA_GET_BODY, subterms]

/-- The references after a call of the partial reducer that returns: one more
on the returned node, and the references of the tuples that the call has
inserted into the two collection tables. -/
theorem partial_aux_ledger (tr : TupleRefs) (fuel : Nat) (env : Ext) (btor : Btor) (e : Ref)
    (par : Option (Option BtorNode))
    (cs1 cs2 : Option (PtrHashTable BtorParamCacheTuple Ref)) (ret : PartialReturn)
    (rc : RefCount) (hk : kinds_ok e.node = true)
    (h : btor_beta_reduce_partial_aux fuel env btor e par cs1 cs2 = .done ret) (n : BtorNode) :
    btor_beta_reduce_partial_aux_refs tr fuel env btor e cs1 cs2 rc n
      = rc n + (if n = ret.result.node then 1 else 0)
        + (sel_held tr ret.cond_sel1 n - sel_held tr cs1 n)
        + (sel_held tr ret.cond_sel2 n - sel_held tr cs2 n) := by
  unfold btor_beta_reduce_partial_aux at h
  split at h
  · cases h
  · rename_i h1
    split at h
    · cases h
    · rename_i h2
      split at h
      · rename_i h3
        cases h
        simp only [btor_beta_reduce_partial_aux_refs, if_neg h1, if_neg h2, if_pos h3, copy_apply]
        omega
      · rename_i h3
        simp only at h
        split at h
        · cases h
        · cases h
        · rename_i sF hloop
          split at h
          · rename_i result real_cur harg hpar
            cases h
            have hin : ∀ en, en ∈ (partial_init
                (if btor.rewrite_level > 0 then { btor with rewrite_level := 1 } else btor)
                (if e.node.BTOR_IS_LAMBDA_NODE then BTOR_LAMBDA_GET_BODY e.node else e)
                cs1 cs2).stack → en.1.node ∈ subterms e.node := by
              intro en hen
              simp only [partial_init, List.mem_singleton] at hen
              subst hen
              simp only
              split
              · exact lambda_get_body_mem e.node
              · exact self_mem_subterms e.node
            have hl := partial_loop_ledger tr env e.node hk fuel _ sF rc hloop hin n
            have hc := partial_cleanup_apply tr sF.cache
              (partial_loop_refs tr env fuel (partial_init
                (if btor.rewrite_level > 0 then { btor with rewrite_level := 1 } else btor)
                (if e.node.BTOR_IS_LAMBDA_NODE then BTOR_LAMBDA_GET_BODY e.node else e)
                cs1 cs2) rc) n
            simp only [btor_beta_reduce_partial_aux_refs, if_neg h1, if_neg h2, if_neg h3, hloop,
              hc]
            have hinit : ∀ (b : Btor) (x : Ref),
                partial_held tr (partial_init b x cs1 cs2) n
                  = sel_held tr cs1 n + sel_held tr cs2 n := by
              intro b x
              simp [partial_held, partial_init, refs_in, memo_entries]
            have hfin : partial_held tr sF n
                = (if n = result.node then 1 else 0) + refs_in (memo_entries tr sF.cache) n
                  + sel_held tr sF.cond_sel1 n + sel_held tr sF.cond_sel2 n := by
              simp only [partial_held, harg, refs_in_cons, refs_in_nil]
              omega
            rw [hinit, hfin] at hl
            omega
          · cases h

theorem tableKept_null (t : Option (PtrHashTable BtorParamCacheTuple Ref))
    (h : TableKept none t) : t = none := by
  cases t with
  | none => rfl
  | some tb => exact absurd h (by simp [TableKept])

theorem partial_aux_sel_null (fuel : Nat) (env : Ext) (btor : Btor) (e : Ref)
    (par : Option (Option BtorNode)) (ret : PartialReturn)
    (h : btor_beta_reduce_partial_aux fuel env btor e par none none = .done ret) :
    ret.cond_sel1 = none ∧ ret.cond_sel2 = none := by
  unfold btor_beta_reduce_partial_aux at h
  simp only [Option.isSome_none, Bool.false_and, Bool.false_eq_true, if_false] at h
  split at h
  · cases h
    exact ⟨rfl, rfl⟩
  · split at h
    · cases h
    · cases h
    · rename_i sF hloop
      obtain ⟨-, -, k1, k2⟩ := partial_loop_frame env fuel _ sF hloop
      split at h
      · cases h
        exact ⟨tableKept_null _ k1, tableKept_null _ k2⟩
      · cases h

/-- The references after a call of `btor_beta_reduce_partial` that returns:
one more on the returned node, every other count as at entry. -/
theorem partial_ledger (tr : TupleRefs) (fuel : Nat) (env : Ext) (btor : Btor) (e : Ref)
    (par : Option (Option BtorNode)) (ret : PartialReturn) (rc : RefCount)
    (hk : kinds_ok e.node = true)
    (h : btor_beta_reduce_partial fuel env btor e par = .done ret) (n : BtorNode) :
    btor_beta_reduce_partial_refs tr fuel env btor e rc n
      = rc n + (if n = ret.result.node then 1 else 0) := by
  unfold btor_beta_reduce_partial at h
  obtain ⟨k1, k2⟩ := partial_aux_sel_null fuel env btor e par ret h
  have := partial_aux_ledger tr fuel env btor e par none none ret rc hk h n
  rw [k1, k2] at this
  unfold btor_beta_reduce_partial_refs
  rw [this]
  simp [sel_held]

/-- The references after a call of `btor_beta_reduce_partial_collect` that
returns: one more on the returned node, and the references of the tuples that
the call has inserted into the two collection tables. -/
theorem partial_collect_ledger (tr : TupleRefs) (fuel : Nat) (env : Ext) (btor : Btor) (e : Ref)
    (cs1 cs2 : Option (PtrHashTable BtorParamCacheTuple Ref)) (ret : PartialReturn)
    (rc : RefCount) (hk : kinds_ok e.node = true)
    (h : btor_beta_reduce_partial_collect fuel env btor e cs1 cs2 = .done ret) (n : BtorNode) :
    btor_beta_reduce_partial_collect_refs tr fuel env btor e cs1 cs2 rc n
      = rc n + (if n = ret.result.node then 1 else 0)
        + (sel_held tr ret.cond_sel1 n - sel_held tr cs1 n)
        + (sel_held tr ret.cond_sel2 n - sel_held tr cs2 n) := by
  unfold btor_beta_reduce_partial_collect at h
  exact partial_aux_ledger tr fuel env btor e none cs1 cs2 ret rc hk h n

theorem sel_held_nil (sel : Option (PtrHashTable BtorParamCacheTuple Ref)) (n : BtorNode) :
    sel_held (fun _ => []) sel n = 0 := by
  cases sel with
  | none => rfl
  | some t =>
    simp only [sel_held]
    induction t with
    | nil => rfl
    | cons hd tl ih =>
      obtain ⟨k, v⟩ := hd
      simpa [sel_entries, refs_in_append, refs_in_nil] using ih
/-- C1. Full reduction performs substitution. Let `L = λp. body` be a lambda
that is not parameterized and not nested, with the lambda_below flag, whose
body is a term without lambda and apply (`simple`: flags as the data model
defines them, no simplification pending); let `a` be an argument of the width
of `p` that is not parameterized and is not a function node, `A = args (a)`
and `app = apply (L, A)` with the flags of the data model. With `p` unbound,
no partial reduction in progress (all `beta_mark` are 0) and no entry for
`(L, A)` in the cache (in particular with an empty cache), and when the
constructors of the library return bit-vector values for the body
(`results_not_fun`, no array node), `full (app)` returns, for every amount of
fuel beyond some bound, the body rebuilt bottom-up through the constructors
with every occurrence of `p` replaced by `a`, and the bindings are as before.
In particular the result is `a` when the body is `p`, and the body itself
when the body mentions no parameter. -/
theorem full_reduction_substitutes (env : Ext) (btor : Btor) (iapp iL ip iA : NodeInfo)
    (body a : BtorNode) (vb av : Bool) (cache : PtrHashTable (Ref × Ref) Ref)
    (hkapp : iapp.kind = .apply) (hlbapp : iapp.lambda_below = true)
    (hkL : iL.kind = .lambda) (hLp : iL.parameterized = false) (hLn : iL.is_nested = false)
    (hLlb : iL.lambda_below = true)
    (hp : simple env (.n0 ip) = true) (hkp : ip.kind = .param)
    (hbody : simple env body = true)
    (hkA : iA.kind = .args) (hAp : iA.parameterized = false) (hAlb : iA.lambda_below = false)
    (hapar : a.parameterized = false) (hafun : a.BTOR_IS_FUN_NODE = false)
    (halen : a.len = ip.len)
    (hs1 : simplify_cur env
      (BtorNode.n2 iapp (.n2 iL (.n0 ip) false body vb) false (.n1 iA a av) false).ref
      = (BtorNode.n2 iapp (.n2 iL (.n0 ip) false body vb) false (.n1 iA a av) false).ref)
    (hs2 : env.simplify (BtorNode.n2 iL (.n0 ip) false body vb).ref
      = (BtorNode.n2 iL (.n0 ip) false body vb).ref)
    (hs3 : env.simplify (BtorNode.n1 iA a av).ref = (BtorNode.n1 iA a av).ref)
    (hs4 : stable env (BtorNode.n0 ip).ref = true)
    (hs5 : stable env ⟨body, vb⟩ = true)
    (hbm : ∀ m, btor.beta_mark m = 0)
    (hunb : btor.assigned_exp (.n0 ip) = [])
    (hcache : btor.cache = some cache)
    (hmiss : PtrHashTable.find cache
      ((BtorNode.n2 iL (.n0 ip) false body vb).ref, (BtorNode.n1 iA a av).ref) = none)
    (hnf : results_not_fun env (Function.update btor.assigned_exp (.n0 ip) [⟨a, av⟩]) body
      = true)
    (hval : (substitute env (Function.update btor.assigned_exp (.n0 ip) [⟨a, av⟩])
      body).node.BTOR_IS_ARRAY_NODE = false) :
    (∃ k, ∀ fuel, k ≤ fuel → ∃ btor1,
      btor_beta_reduce_full fuel env btor
          (BtorNode.n2 iapp (.n2 iL (.n0 ip) false body vb) false (.n1 iA a av) false).ref
        = .done (Ref.cond_invert ⟨body, vb⟩
            (substitute env (Function.update btor.assigned_exp (.n0 ip) [⟨a, av⟩]) body),
          btor1) ∧
      btor1.assigned_exp = btor.assigned_exp) ∧
    (body = .n0 ip →
      Ref.cond_invert ⟨body, vb⟩
        (substitute env (Function.update btor.assigned_exp (.n0 ip) [⟨a, av⟩]) body)
        = ⟨a, xor vb av⟩) ∧
    (has_param body = false →
      Ref.cond_invert ⟨body, vb⟩
        (substitute env (Function.update btor.assigned_exp (.n0 ip) [⟨a, av⟩]) body)
        = ⟨body, vb⟩) := by
  refine ⟨?_, ?_, ?_⟩
  · obtain ⟨k, s, hrun, hw, ha, h1, h2, h3, h4, h5, -, h7, -⟩ :=
      full_apply_run env btor iapp iL ip iA body a vb av cache hkapp hlbapp hkL hLp hLn hLlb hp
        hkp hbody hkA hAp hAlb hapar hafun halen hs1 hs2 hs3 hs4 hs5 hbm hunb hcache hmiss hnf
        hval
    refine ⟨k, fun fuel hfuel => ⟨s.btor, ?_, h7⟩⟩
    have hloop := loop_mono env _ _ k _ _ (loop_of_run_steps env _ _ k _ _ hrun hw) fuel hfuel
    unfold btor_beta_reduce_full btor_beta_reduce
    rw [hloop]
    simp [h1, h2, h3, h4, h5, ha, BETA_RED_FULL]
  · intro hb
    subst hb
    simp [substitute, hkp, cond_invert_xor]
  · intro hb
    rw [substitute_of_no_param env _ body hb]
    exact cond_invert_ref ⟨body, vb⟩

/-- C1 (witness). Scenario 1 of the specification: `(λp. p) (5)` on 8 bits. -/
theorem full_reduction_substitutes_witness :
    (∃ k, ∀ fuel, k ≤ fuel → ∃ btor1,
      btor_beta_reduce_full fuel freeExt btor0 ex_id_apply.ref
        = .done (Ref.cond_invert ⟨ex_p8, false⟩
            (substitute freeExt (Function.update btor0.assigned_exp ex_p8 [⟨ex_c5, false⟩])
              ex_p8),
          btor1) ∧
      btor1.assigned_exp = btor0.assigned_exp) ∧
    (ex_p8 = ex_p8 →
      Ref.cond_invert ⟨ex_p8, false⟩
        (substitute freeExt (Function.update btor0.assigned_exp ex_p8 [⟨ex_c5, false⟩]) ex_p8)
        = ⟨ex_c5, xor false false⟩) ∧
    (has_param ex_p8 = false →
      Ref.cond_invert ⟨ex_p8, false⟩
        (substitute freeExt (Function.update btor0.assigned_exp ex_p8 [⟨ex_c5, false⟩]) ex_p8)
        = ⟨ex_p8, false⟩) :=
  full_reduction_substitutes freeExt btor0 _ _ _ _ ex_p8 ex_c5 false false []
    (by decide) (by decide) (by decide) (by decide) (by decide) (by decide) (by decide)
    (by decide) (by decide) (by decide) (by decide) (by decide) (by decide) (by decide)
    (by decide) (by decide) (by decide) (by decide) (by decide) (by decide)
    (fun _ => rfl) rfl rfl (by decide) (by decide) (by decide)

/-- C2. The function `btor_apply_and_reduce` binds explicit arguments to a
chain. Let `L = λp1. ... λpk. body` be the head of a chain as the data model
defines it (`chain_ok`: every level a lambda with the lambda_below flag over a
parameter leaf, the levels below the head nested and not first, the body a
term without lambda and apply, no simplification pending), not parameterized,
with pairwise distinct parameters, and let `a1..ak` be arguments of the widths
of the parameters, none of them a function node or one of the parameters of
the chain. With every binding stack empty at entry, no partial reduction in
progress, and constructors that return no function node for the body, the
call returns, for every amount of fuel beyond some bound, the body rebuilt
through the constructors with each `p_i` replaced by `a_i` (with the inversion
bit of the reference to the body), and every binding stack is empty again. In
particular for a chain `λp. λq. add (p, q)` and the arguments `[c1, c2]` the
result is `add_exp c1 c2`, with `c1` first. -/
theorem apply_and_reduce_binds_chain (env : Ext) (btor : Btor) (L : BtorNode) (args : List Ref)
    (hok : chain_ok env L = true) (hst : stable env L.ref = true)
    (hLp : L.parameterized = false)
    (hhead : L.info.is_nested = false ∨ L.info.is_first_nested = true)
    (hnd : (chain_params L).Nodup)
    (hlen : List.Forall₂ (fun a p => a.node.len = p.len) args (chain_params L))
    (hargs : ∀ a, a ∈ args →
      a.node.BTOR_IS_FUN_NODE = false ∧ ∀ p, p ∈ chain_params L → a ≠ p.ref)
    (hunb : ∀ m, btor.assigned_exp m = [])
    (hbm : ∀ m, btor.beta_mark m = 0)
    (hnf : results_not_fun env (bind_args (chain_params L) args) (chain_body L).node = true) :
    (∃ k, ∀ fuel, k ≤ fuel → ∃ btor1,
      btor_apply_and_reduce fuel env btor args L.ref
        = .done ((chain_body L).cond_invert
            (substitute env (bind_args (chain_params L) args) (chain_body L).node), btor1) ∧
      btor1.assigned_exp = btor.assigned_exp) ∧
    (∀ (iadd ip iq : NodeInfo) (c1 c2 : Ref),
      chain_params L = [.n0 ip, .n0 iq] →
      chain_body L = (BtorNode.n2 iadd (.n0 ip) false (.n0 iq) false).ref →
      iadd.kind = .add → args = [c1, c2] →
      (chain_body L).cond_invert
        (substitute env (bind_args (chain_params L) args) (chain_body L).node)
        = env.add_exp c1 c2) := by
  refine ⟨?_, ?_⟩
  · have hopen : opens_scope L = true := by
      have hlam : L.BTOR_IS_LAMBDA_NODE = true := by
        obtain ⟨i, ip, next, v1, rfl⟩ := chain_ok_shape env L hok
        obtain ⟨hk, -⟩ := chain_ok_facts env i ip false next v1 hok
        simp [BtorNode.BTOR_IS_LAMBDA_NODE, hk]
      rcases hhead with h | h
      · simp [opens_scope, hlam, hLp, BtorNode.BTOR_IS_NESTED_LAMBDA_NODE, h]
      · simp [opens_scope, hlam, hLp, BtorNode.BTOR_IS_FIRST_NESTED_LAMBDA, h]
    obtain ⟨btor1, un1, hA, -, hm, hσ, hun⟩ :=
      assign_chain env L args btor [] hok hlen hnd (fun p _ => hunb p)
    have hσ2 : btor1.assigned_exp = bind_args (chain_params L) args := by
      funext q
      rw [hσ q]
      split
      · rfl
      · rename_i hq
        rw [hunb, bind_args_not_mem _ _ _ hq]
    have hleneq : (chain_params L).length = args.length := (List.Forall₂.length_eq hlen).symm
    have hone : ∀ p, p ∈ chain_params L → ∃ a, a ∈ args ∧ btor1.assigned_exp p = [a] := by
      intro p hp
      rw [hσ2]
      exact bind_args_mem _ _ _ hleneq hp
    obtain ⟨k, s, hrun, hw, ha, h1, h2, h3, h4, h5, -, h7, -⟩ :=
      chain_head_run env btor1 L hok hst hopen hLp (by intro m; rw [hm]; exact hbm m)
        (by rw [hσ2]; exact hnf)
        (by
          intro p hp
          obtain ⟨a, ha1, ha2⟩ := hone p hp
          exact ⟨a, [], ha2, (hargs a ha1).2 p hp, (hargs a ha1).1⟩)
    have hfinal : ∀ q, s.btor.assigned_exp q = [] := by
      intro q
      rw [h7, unassign_chain env L _ hok hnd
        (fun p hp => by obtain ⟨a, -, e⟩ := hone p hp; exact ⟨a, e⟩) q]
      split
      · rfl
      · rename_i hq
        rw [hσ2, bind_args_not_mem _ _ _ hq]
    refine ⟨k, fun fuel hfuel => ⟨s.btor, ?_, ?_⟩⟩
    · have hloop := loop_mono env _ _ k _ _ (loop_of_run_steps env _ _ k _ _ hrun hw) fuel hfuel
      have hred : btor_beta_reduce_full fuel env btor1 L.ref
          = .done (chain_result env btor1.assigned_exp L, s.btor) := by
        unfold btor_beta_reduce_full btor_beta_reduce
        rw [hloop]
        simp [h1, h2, h3, h4, h5, ha, BETA_RED_FULL]
      unfold btor_apply_and_reduce
      rw [hA]
      simp only [hred]
      rw [unassign_noop env L hok un1 s.btor
        (fun l hl => by
          rcases hun l hl with h | h
          · simp at h
          · exact h)
        (fun p _ => hfinal p)]
      simp only [chain_result, hσ2]
    · funext q
      rw [hfinal q, hunb q]
  · intro iadd ip iq c1 c2 hps hbody hk hargs2
    have hshape := chain_ok_shape env L hok
    have hpq : (BtorNode.n0 ip) ≠ .n0 iq := by
      rw [hps] at hnd
      simp only [List.nodup_cons, List.mem_singleton, List.not_mem_nil, not_false_eq_true,
        List.nodup_nil, and_true] at hnd
      exact hnd
    have hkinds : ip.kind = .param ∧ iq.kind = .param := by
      have h1 := chain_lambdas_shape env L hok
      have hpb : ∀ p, p ∈ chain_params L → p.kind = .param := by
        clear hps hbody hnd hlen hargs hnf hshape h1 hLp hhead hst
        induction L with
        | n0 i => simp [chain_ok] at hok
        | n1 i c0 v0 _ => simp [chain_ok] at hok
        | n3 i c0 v0 c1 v1 c2 v2 _ _ _ => simp [chain_ok] at hok
        | n2 i c0 v0 next v1 _ ih1 =>
          obtain ⟨i2, ip2, next2, v12, hshape⟩ := chain_ok_shape env _ hok
          cases hshape
          obtain ⟨-, -, -, hkp, -, -, -, hnl, -⟩ := chain_ok_facts env i ip2 false next v1 hok
          intro p hp
          simp only [chain_params, List.mem_cons] at hp
          rcases hp with hp | hp
          · subst hp; simpa using hkp
          · by_cases hl : next.BTOR_IS_LAMBDA_NODE = true
            · simp only [hl, if_true] at hp
              exact ih1 (hnl hl).2.2.2 p hp
            · simp [hl] at hp
      exact ⟨by simpa using hpb (.n0 ip) (by simp [hps]),
        by simpa using hpb (.n0 iq) (by simp [hps])⟩
    rw [hbody, hps, hargs2]
    simp [substitute, has_param, hkinds.1, hkinds.2, construct, hk, bind_args, Ref.cond_invert,
      BtorNode.ref, hpq.symm]

/-- C2 (witness). The chain `λp. λq. add (p, q)` on 3 bits applied to the
constants `c1` and `c2`. -/
theorem apply_and_reduce_binds_chain_witness :
    (∃ k, ∀ fuel, k ≤ fuel → ∃ btor1,
      btor_apply_and_reduce fuel freeExt btor0 [ex_c1.ref, ex_c2.ref] ex_chain_head.ref
        = .done ((chain_body ex_chain_head).cond_invert
            (substitute freeExt (bind_args (chain_params ex_chain_head) [ex_c1.ref, ex_c2.ref])
              (chain_body ex_chain_head).node), btor1) ∧
      btor1.assigned_exp = btor0.assigned_exp) ∧
    (chain_body ex_chain_head).cond_invert
        (substitute freeExt (bind_args (chain_params ex_chain_head) [ex_c1.ref, ex_c2.ref])
          (chain_body ex_chain_head).node)
      = freeExt.add_exp ex_c1.ref ex_c2.ref :=
  have h := apply_and_reduce_binds_chain freeExt btor0 ex_chain_head [ex_c1.ref, ex_c2.ref]
    (by decide) (by decide) (by decide) (by decide) (by decide)
    (List.Forall₂.cons (by decide) (List.Forall₂.cons (by decide) List.Forall₂.nil))
    (by decide) (fun _ => rfl) (fun _ => rfl) (by decide)
  ⟨h.1, h.2 _ _ _ _ _ rfl rfl rfl rfl⟩
/-- C3. The inversion bit composes by XOR through parameter substitution, in
every mode of the reducer. Let `p` be a parameter node whose current binding
is `b`. The first visit of a reference to `p` with inversion bit `v` pushes
`b` with inversion bit `v XOR b.inv` (so `p` gives `b`, `¬p` gives `¬b`, and
`¬p` under the binding `¬c` gives `c`) and memoizes `b` for `p` in the current
scope. Every later visit of `p`, in any state in which the current scope
still holds that memo, through a reference with inversion bit `v2`, pushes
`b` with inversion bit `v2 XOR b.inv`: the result does not depend on which
reference was visited first. -/
theorem inversion_composes_by_xor (env : Ext) (mode bound : Int) (s : LoopState) (p : BtorNode)
    (v : Bool) (par : Option BtorNode) (w : List (Ref × Option BtorNode)) (b : Ref)
    (rest : List Ref)
    (hw : s.work_stack = (⟨p, v⟩, par) :: w)
    (hc : simplify_cur env ⟨p, v⟩ = ⟨p, v⟩)
    (hk : p.kind = .param) (hp : p.parameterized = true)
    (hbm : s.btor.beta_mark p = 0)
    (hb : s.btor.assigned_exp p = b :: rest)
    (hbl : b.node.BTOR_IS_LAMBDA_NODE = false)
    (hfirst : PtrHashTable.find s.cur_scope p = none)
    (hres : PtrHashTable.find s.cur_scope_results p = none)
    (hl : s.cur_scope_lambda ≠ some p) :
    ∃ s1, beta_reduce_step env mode bound s = some s1 ∧ s1.work_stack = w ∧
      s1.arg_stack = ⟨b.node, xor v b.inv⟩ :: s.arg_stack ∧
      PtrHashTable.find s1.cur_scope p = some 2 ∧
      PtrHashTable.find s1.cur_scope_results p = some b ∧
      ∀ (s2 : LoopState) (v2 : Bool) (par2 : Option BtorNode)
        (w2 : List (Ref × Option BtorNode)),
        s2.work_stack = (⟨p, v2⟩, par2) :: w2 →
        simplify_cur env ⟨p, v2⟩ = ⟨p, v2⟩ →
        PtrHashTable.find s2.cur_scope p = some 2 →
        PtrHashTable.find s2.cur_scope_results p = some b →
        ∃ s3, beta_reduce_step env mode bound s2 = some s3 ∧ s3.work_stack = w2 ∧
          s3.arg_stack = ⟨b.node, xor v2 b.inv⟩ :: s2.arg_stack := by
  have h1 := step_param_first env mode bound s ⟨p, v⟩ ⟨p, v⟩ par w hw hc hk hp hbm hfirst hres hl
  simp only [hb, List.head?_cons, Option.getD_some, cond_invert_xor] at h1
  refine ⟨_, h1, rfl, rfl, ?_, ?_, ?_⟩
  · simp [PtrHashTable.find_set_self]
  · simp [PtrHashTable.find_set_self]
  · intro s2 v2 par2 w2 hw2 hc2 hd2 hr2
    have h2 := step_revisit env mode bound s2 ⟨p, v2⟩ ⟨p, v2⟩ par2 w2 b hw2 hc2 hd2
      (by simp [hp, hr2]) hbl
    simp only [cond_invert_xor] at h2
    exact ⟨_, h2, rfl, rfl⟩

/-- C3 (witness). Scenario 6 of the specification: the inverted reference to
the parameter of `λp. ¬p`, bound to a constant, in full mode. -/
theorem inversion_composes_by_xor_witness :
    ∃ s1, beta_reduce_step freeExt BETA_RED_FULL 0
        { beta_reduce_init { btor0 with assigned_exp := fun _ => [ex_c5.ref] } ⟨ex_p8, true⟩ with
          cur_scope_lambda := some ex_id_lambda } = some s1 ∧
      s1.work_stack = [] ∧
      s1.arg_stack = ⟨ex_c5, xor true false⟩ :: [] ∧
      PtrHashTable.find s1.cur_scope ex_p8 = some 2 ∧
      PtrHashTable.find s1.cur_scope_results ex_p8 = some ex_c5.ref ∧
      ∀ (s2 : LoopState) (v2 : Bool) (par2 : Option BtorNode)
        (w2 : List (Ref × Option BtorNode)),
        s2.work_stack = (⟨ex_p8, v2⟩, par2) :: w2 →
        simplify_cur freeExt ⟨ex_p8, v2⟩ = ⟨ex_p8, v2⟩ →
        PtrHashTable.find s2.cur_scope ex_p8 = some 2 →
        PtrHashTable.find s2.cur_scope_results ex_p8 = some ex_c5.ref →
        ∃ s3, beta_reduce_step freeExt BETA_RED_FULL 0 s2 = some s3 ∧ s3.work_stack = w2 ∧
          s3.arg_stack = ⟨ex_c5, xor v2 false⟩ :: s2.arg_stack :=
  inversion_composes_by_xor freeExt BETA_RED_FULL 0 _ ex_p8 true none [] ex_c5.ref []
    rfl (by decide) (by decide) (by decide) (by decide) rfl (by decide) (by decide) (by decide)
    (by decide)
/-- C4. Nodes that cannot change are returned as they are. For each of full,
chains and bounded with a bound of at least 1, and every root `e`: when the
simplified root (the result of the simplification at the head of the loop,
`simplify_cur`: `btor_simplify_exp`, and for an apply marked constraint the
pointer chase that the code uses in its place) has neither the lambda_below
nor the parameterized flag, the reducer returns exactly that reference (same
node, same inversion bit); the only event is the visit of the root: no
constructor is called, no binding is pushed, no child is visited, and the
cache is as before. -/
theorem unchanged_root_returned (env : Ext) (mode bound : Int) (btor : Btor) (e : Ref)
    (fuel : Nat)
    (hmode : (mode = BETA_RED_FULL ∧ bound = 0) ∨ (mode = BETA_RED_LAMBDA_CHAINS ∧ bound = 0)
      ∨ (mode = BETA_RED_BOUNDED ∧ 1 ≤ bound))
    (hlb : (simplify_cur env e).node.lambda_below = false)
    (hp : (simplify_cur env e).node.parameterized = false)
    (hbm : btor.beta_mark (simplify_cur env e).node = 0)
    (hwf : (simplify_cur env e).node.BTOR_IS_LAMBDA_NODE = true →
      chain_wf (simplify_cur env e).node = true)
    (hfuel : 1 ≤ fuel) :
    ∃ btor1, btor_beta_reduce fuel env btor e mode bound = .done (simplify_cur env e, btor1) ∧
      btor1.cache = btor.cache ∧ btor1.beta_mark = btor.beta_mark ∧
      btor1.log = Event.visit (simplify_cur env e).node :: btor.log ∧
      ((simplify_cur env e).node.BTOR_IS_LAMBDA_NODE = false →
        btor1.assigned_exp = btor.assigned_exp) := by
  obtain ⟨s1, hstep, hw, ha, hl, hs, hsr, hsl, hu, hc, hm, hlog, hasg⟩ :=
    unchanged_root_state env mode bound btor e hlb hp hbm hwf
  obtain ⟨f, rfl⟩ : ∃ f, fuel = f + 1 := ⟨fuel - 1, by omega⟩
  have hloop : beta_reduce_loop env mode bound (f + 1) (beta_reduce_init btor e) = .done s1 := by
    rw [loop_step env mode bound f _ s1 (by simp [beta_reduce_init]) hstep]
    exact loop_done env mode bound f s1 hw
  refine ⟨s1.btor, ?_, hc, hm, hlog, hasg⟩
  unfold btor_beta_reduce
  rw [hloop]
  rcases hmode with ⟨h1, h2⟩ | ⟨h1, h2⟩ | ⟨h1, h2⟩
  · subst h1 h2
    simp [hl, hs, hsr, hsl, hu, ha, BETA_RED_FULL]
  · subst h1 h2
    simp [hl, hs, hsr, hsl, hu, ha, BETA_RED_LAMBDA_CHAINS]
  · subst h1
    have : ¬ (bound < 0) := by omega
    simp [hl, hs, hsr, hsl, hu, ha, BETA_RED_BOUNDED, BETA_RED_FULL, BETA_RED_LAMBDA_CHAINS]
    omega
/-- C4 (witness). Bounded reduction with bound 3 of an apply of an array
variable that is marked constraint. -/
theorem unchanged_root_returned_witness :
    ∃ btor1, btor_beta_reduce 1 rewritingExt btor0 ex_constraint_apply.ref BETA_RED_BOUNDED 3
        = .done (simplify_cur rewritingExt ex_constraint_apply.ref, btor1) ∧
      btor1.cache = btor0.cache ∧ btor1.beta_mark = btor0.beta_mark ∧
      btor1.log = Event.visit (simplify_cur rewritingExt ex_constraint_apply.ref).node :: btor0.log ∧
      ((simplify_cur rewritingExt ex_constraint_apply.ref).node.BTOR_IS_LAMBDA_NODE = false →
        btor1.assigned_exp = btor0.assigned_exp) :=
  unchanged_root_returned rewritingExt BETA_RED_BOUNDED 3 btor0 ex_constraint_apply.ref 1
    (Or.inr (Or.inr ⟨rfl, by decide⟩)) (by decide) (by decide) (by decide) (by decide) (by decide)
/-- C5. Bounded reduction cuts at the bound. For an apply node `app` with
function child `L` and argument child `A`, where `L` is a non-parameterized
head lambda (its first visit opens a scope) and `A` is an args node with no
lambda below and no parameter, the apply carries the lambda_below flag as the
data model defines it, no simplification is pending on the three nodes and no
partial reduction is in progress: for every fuel of at least 4,
`bounded (app, 1)` returns `mk_apply (L, A)` with `L` itself as the
function. The only nodes visited are `app`, `A` and `L` (the body of `L` is
not traversed), the only constructor call is the apply, no binding is pushed
and the cache is not changed. -/
theorem bounded_cut_at_bound_one (env : Ext) (btor : Btor) (info : NodeInfo) (L A : BtorNode)
    (fuel : Nat)
    (hk : info.kind = .apply) (hlb : info.lambda_below = true)
    (hL : opens_scope L = true) (hLwf : chain_wf L = true)
    (hA : A.BTOR_IS_ARGS_NODE = true) (hAlb : A.lambda_below = false)
    (hAp : A.parameterized = false)
    (hs1 : simplify_cur env (BtorNode.n2 info L false A false).ref
      = (BtorNode.n2 info L false A false).ref)
    (hs2 : env.simplify L.ref = L.ref) (hs3 : env.simplify A.ref = A.ref)
    (hbm1 : btor.beta_mark (BtorNode.n2 info L false A false) = 0)
    (hbm2 : btor.beta_mark A = 0) (hfuel : 4 ≤ fuel) :
    ∃ btor1, btor_beta_reduce_bounded fuel env btor (BtorNode.n2 info L false A false).ref 1
        = .done (env.apply_exp_node L.ref A.ref, btor1) ∧
      btor1.cache = btor.cache ∧
      btor1.log = [Event.construct .apply, Event.visit (BtorNode.n2 info L false A false),
        Event.visit L, Event.visit A, Event.visit (BtorNode.n2 info L false A false)]
        ++ btor.log := by
  obtain ⟨s4, hrun, h1, h2, h3, h4, h5, h6, h7, -, -, h10⟩ :=
    bounded_cut_run env btor info L A hk hlb hL hLwf hA hAlb hAp hs1 hs2 hs3 hbm1 hbm2
  have hloop := loop_mono env _ _ 4 _ _ hrun fuel hfuel
  refine ⟨s4.btor, ?_, h7, h10⟩
  unfold btor_beta_reduce_bounded btor_beta_reduce
  rw [hloop]
  simp [h1, h2, h3, h4, h5, h6, BETA_RED_BOUNDED, BETA_RED_FULL, BETA_RED_LAMBDA_CHAINS]

/-- C5 (witness). Scenario 4 of the specification: the chain
`λp. λq. add (p, q)` applied to one constant, bound 1. -/
theorem bounded_cut_at_bound_one_witness :
    ∃ btor1, btor_beta_reduce_bounded 4 freeExt btor0 ex_chain_apply.ref 1
        = .done (freeExt.apply_exp_node ex_chain_head.ref ex_args_c1.ref, btor1) ∧
      btor1.cache = btor0.cache ∧
      btor1.log = [Event.construct .apply, Event.visit ex_chain_apply,
        Event.visit ex_chain_head, Event.visit ex_args_c1, Event.visit ex_chain_apply]
        ++ btor0.log :=
  bounded_cut_at_bound_one freeExt btor0 _ ex_chain_head ex_args_c1 4 (by decide) (by decide)
    (by decide) (by decide) (by decide) (by decide) (by decide) (by decide) (by decide)
    (by decide) (by decide) (by decide) (by decide)

/-- The first visit of a node in chain mode. The first visit of a node that is
a lambda without the chain flag, or a non-lambda that is not parameterized
(even with a lambda below), or a node that is not parameterized and has no
lambda below, emits the node unchanged (same node, same inversion bit) and
pushes none of its children on the work stack: the only event is the visit of
the node itself, so nothing below it is touched. When that node is the root,
`chains` returns the simplified root (the result of the simplification at the
head of the loop, `simplify_cur`). -/
theorem chain_preservation (env : Ext) (s : LoopState) (cur0 : Ref) (par : Option BtorNode)
    (w : List (Ref × Option BtorNode))
    (hw : s.work_stack = (cur0, par) :: w)
    (hfirst : PtrHashTable.find s.cur_scope (simplify_cur env cur0).node = none)
    (hres : PtrHashTable.find s.cur_scope_results (simplify_cur env cur0).node = none)
    (hshape : chain_preserved (simplify_cur env cur0).node = true)
    (hbm : s.btor.beta_mark (simplify_cur env cur0).node = 0
      ∨ (simplify_cur env cur0).node.BTOR_IS_LAMBDA_NODE = true)
    (hwf : (simplify_cur env cur0).node.BTOR_IS_LAMBDA_NODE = true →
      chain_wf (simplify_cur env cur0).node = true)
    (hl : s.cur_scope_lambda ≠ some (simplify_cur env cur0).node) :
    (∃ s1, beta_reduce_step env BETA_RED_LAMBDA_CHAINS 0 s = some s1 ∧ s1.work_stack = w ∧
      s1.arg_stack = simplify_cur env cur0 :: s.arg_stack ∧
      s1.btor.log = Event.visit (simplify_cur env cur0).node :: s.btor.log ∧
      s1.btor.cache = s.btor.cache) ∧
    (∀ btor fuel, s = beta_reduce_init btor cur0 → 1 ≤ fuel →
      ∃ btor1, btor_beta_reduce_chains fuel env btor cur0
          = .done (simplify_cur env cur0, btor1) ∧
        btor1.log = Event.visit (simplify_cur env cur0).node :: btor.log ∧
        btor1.cache = btor.cache) := by
  obtain ⟨s1, h1, h2, h3, h4, h5, h6, h7, h8, h9, h10, h11⟩ :=
    chain_step env s cur0 par w hw hfirst hres hshape hbm hwf hl
  refine ⟨⟨s1, h1, h2, h3, h4, h5⟩, ?_⟩
  intro btor fuel hs hfuel
  subst hs
  obtain ⟨f, rfl⟩ : ∃ f, fuel = f + 1 := ⟨fuel - 1, by omega⟩
  have hw2 : w = [] := by
    simp [beta_reduce_init] at hw
    exact hw.2
  subst hw2
  have hloop : beta_reduce_loop env BETA_RED_LAMBDA_CHAINS 0 (f + 1) (beta_reduce_init btor cur0)
      = .done s1 := by
    rw [loop_step env _ _ f _ s1 (by simp [beta_reduce_init]) h1]
    exact loop_done env _ _ f s1 h2
  refine ⟨s1.btor, ?_, by simpa [beta_reduce_init] using h4, by simpa [beta_reduce_init] using h5⟩
  unfold btor_beta_reduce_chains btor_beta_reduce
  rw [hloop]
  have g1 : s1.unassign_stack = [] := h7 rfl
  have g2 : s1.scopes = [] := by simpa [beta_reduce_init] using h8
  have g3 : s1.scope_results = [] := by simpa [beta_reduce_init] using h9
  have g4 : s1.scope_lambdas = [] := by simpa [beta_reduce_init] using h10
  have g5 : s1.cur_scope_lambda = none := by simpa [beta_reduce_init] using h11
  have g6 : s1.arg_stack = [simplify_cur env cur0] := by simpa [beta_reduce_init] using h3
  simp [g1, g2, g3, g4, g5, g6, BETA_RED_LAMBDA_CHAINS, BETA_RED_FULL]

/-- An instance of the first visit in chain mode: the root is the apply of a
lambda without the chain flag. -/
theorem chain_preservation_witness :
    (∃ s1, beta_reduce_step freeExt BETA_RED_LAMBDA_CHAINS 0
        (beta_reduce_init btor0 ex_id_apply.ref) = some s1 ∧ s1.work_stack = [] ∧
      s1.arg_stack = simplify_cur freeExt ex_id_apply.ref :: [] ∧
      s1.btor.log = Event.visit (simplify_cur freeExt ex_id_apply.ref).node :: [] ∧
      s1.btor.cache = some []) ∧
    (∀ btor fuel, beta_reduce_init btor0 ex_id_apply.ref = beta_reduce_init btor ex_id_apply.ref →
      1 ≤ fuel →
      ∃ btor1, btor_beta_reduce_chains fuel freeExt btor ex_id_apply.ref
          = .done (simplify_cur freeExt ex_id_apply.ref, btor1) ∧
        btor1.log = Event.visit (simplify_cur freeExt ex_id_apply.ref).node :: btor.log ∧
        btor1.cache = btor.cache) :=
  chain_preservation freeExt (beta_reduce_init btor0 ex_id_apply.ref) ex_id_apply.ref none []
    rfl (by decide) (by decide) (by decide) (Or.inl (by decide)) (by decide) (by decide)

/-- C6. In chain mode the second visit of a lambda without the chain flag
fails an assertion. `chains` of
`λp. and ((λq. add (p, q)) (5), (λq. add (p, q)) (9))`, where the outer
lambda has the chain flag and `λq. add (p, q)` is parameterized and has not:
the body is traversed, and the first visit of `λq. add (p, q)`, under the
apply to 9, emits it unchanged and visits none of its children; being
parameterized, the lambda is stored as its own result in the results of the
scope, with mark 2. After eight iterations it is on top of the work stack
again, under the apply to 5: the revisit branch takes the stored result,
which is a lambda, and the assertion that the result of a revisit is not a
lambda fails. The call aborts for every amount of fuel from 9 on. -/
theorem chain_revisit_of_lambda_aborts :
    ex_chain_twice.info.chain = true ∧
    ex_shared_lambda.BTOR_IS_LAMBDA_NODE = true ∧ ex_shared_lambda.info.chain = false ∧
    ex_shared_lambda.parameterized = true ∧
    (∃ s4 s5, run_steps freeExt BETA_RED_LAMBDA_CHAINS 0 4
        (beta_reduce_init btor0 ex_chain_twice.ref) = some s4 ∧
      beta_reduce_step freeExt BETA_RED_LAMBDA_CHAINS 0 s4 = some s5 ∧
      s4.work_stack.head? = some (ex_shared_lambda.ref, some ex_apply_second) ∧
      PtrHashTable.find s4.cur_scope ex_shared_lambda = none ∧
      s5.arg_stack = ex_shared_lambda.ref :: s4.arg_stack ∧
      s5.work_stack = s4.work_stack.tail ∧
      PtrHashTable.find s5.cur_scope ex_shared_lambda = some 2 ∧
      PtrHashTable.find s5.cur_scope_results ex_shared_lambda = some ex_shared_lambda.ref) ∧
    (∃ s8, run_steps freeExt BETA_RED_LAMBDA_CHAINS 0 8
        (beta_reduce_init btor0 ex_chain_twice.ref) = some s8 ∧
      s8.work_stack.head? = some (ex_shared_lambda.ref, some ex_apply_first) ∧
      PtrHashTable.find s8.cur_scope ex_shared_lambda = some 2 ∧
      PtrHashTable.find s8.cur_scope_results ex_shared_lambda = some ex_shared_lambda.ref ∧
      beta_reduce_step freeExt BETA_RED_LAMBDA_CHAINS 0 s8 = none) ∧
    (∀ fuel, 9 ≤ fuel →
      btor_beta_reduce_chains fuel freeExt btor0 ex_chain_twice.ref = .abort) := by
  refine ⟨rfl, rfl, rfl, rfl, ⟨_, _, rfl, rfl, rfl, rfl, rfl, rfl, rfl, rfl⟩,
    ⟨_, rfl, rfl, rfl, rfl, rfl⟩, ?_⟩
  intro fuel hfuel
  have h : run_steps freeExt BETA_RED_LAMBDA_CHAINS 0 9
      (beta_reduce_init btor0 ex_chain_twice.ref) = none := rfl
  have hl := loop_abort_of_run_steps freeExt BETA_RED_LAMBDA_CHAINS 0 9 _ h fuel hfuel
  unfold btor_beta_reduce_chains btor_beta_reduce
  simp only [hl]
  simp [BETA_RED_FULL, BETA_RED_LAMBDA_CHAINS, BETA_RED_BOUNDED]

/-- C7 (counterexample). Reuse of the cache does not spare the constructors
when the args node has a lambda below it. For `app = (λq. q) ((λp. p) (5))`, with the lambda `λq. q`
not parameterized and an empty cache at entry, the first full reduction
returns the constant 5, and the second full reduction of the same apply
returns the same constant but traverses the args node again and calls the
constructor of args nodes. -/
theorem cache_reuse_counterexample :
    ex_inner_id.BTOR_IS_LAMBDA_NODE = true ∧ ex_inner_id.parameterized = false ∧
    ex_args_app.BTOR_IS_ARGS_NODE = true ∧ btor0.cache = some [] ∧
    ∃ btor1 btor2,
      btor_beta_reduce_full 100 freeExt btor0 ex_nested_arg_apply.ref
        = .done (ex_c5.ref, btor1) ∧
      btor_beta_reduce_full 100 freeExt btor1 ex_nested_arg_apply.ref
        = .done (ex_c5.ref, btor2) ∧
      btor2.log =
        [Event.visit ex_nested_arg_apply, Event.visit ex_inner_id, Event.construct .args,
          Event.visit ex_args_app, Event.visit ex_id_apply, Event.visit ex_id_lambda,
          Event.visit ex_args_c5, Event.visit ex_id_apply, Event.visit ex_args_app,
          Event.visit ex_nested_arg_apply] ++ btor1.log :=
  ⟨rfl, rfl, rfl, rfl, _, _, rfl, rfl, rfl⟩

/-- C7 (amended). Full reduction populates and then reuses the cross-call
cache when the args node needs no reduction. Let `L = λp. body` be a lambda
that is not parameterized, with any body, and `A` an args node that is not
parameterized and has no lambda below (so the reduced `A` is `A`); the apply
and `L` carry the lambda_below flag, as the data model defines it. Assume that
no simplification is pending in the graph of the apply nor on the root
reference, that constants, variables and parameters have no children, that no
lambda of the body has `p` as its parameter, and that at entry no node has a
beta mark, `p` is unbound and the cache exists. If `full (apply (L, A))`
returns `r`, and `r` is neither a function nor an array node, then on return
the cache maps the key `(L, A)` to `r` and `p` is unbound, and a second `full`
on the same apply, with any fuel from 4 on, returns the same `r`, leaves the
cache and the bindings as they are, and adds four visits to the log (the
apply, `A`, `L`, the apply) and nothing else: no parameter is bound, no node
of the body of `L` is visited, no constructor is called. -/
theorem cache_populated_then_reused (env : Ext) (btor btor1 : Btor) (iapp iL ip : NodeInfo)
    (body A : BtorNode) (vb : Bool) (r : Ref) (fuel : Nat)
    (hkapp : iapp.kind = .apply) (hlbapp : iapp.lambda_below = true)
    (hkL : iL.kind = .lambda) (hLp : iL.parameterized = false)
    (hLlb : iL.lambda_below = true) (hkp : ip.kind = .param)
    (hkA : A.kind = .args) (hAp : A.parameterized = false) (hAlb : A.lambda_below = false)
    (hset : settled env
      (BtorNode.n2 iapp (.n2 iL (.n0 ip) false body vb) false A false) = true)
    (hleaf : leaves_ok
      (BtorNode.n2 iapp (.n2 iL (.n0 ip) false body vb) false A false) = true)
    (hs1 : simplify_cur env
      (BtorNode.n2 iapp (.n2 iL (.n0 ip) false body vb) false A false).ref
      = (BtorNode.n2 iapp (.n2 iL (.n0 ip) false body vb) false A false).ref)
    (hown : not_bound_below (.n0 ip) body)
    (hbm : ∀ m, btor.beta_mark m = 0)
    (hunb : btor.assigned_exp (.n0 ip) = [])
    (hcache : btor.cache.isSome = true)
    (hrun : btor_beta_reduce_full fuel env btor
      (BtorNode.n2 iapp (.n2 iL (.n0 ip) false body vb) false A false).ref = .done (r, btor1))
    (hrf : r.node.BTOR_IS_FUN_NODE = false) (hra : r.node.BTOR_IS_ARRAY_NODE = false) :
    (∃ cache1, btor1.cache = some cache1 ∧
      PtrHashTable.find cache1 ((BtorNode.n2 iL (.n0 ip) false body vb).ref, A.ref) = some r) ∧
    btor1.assigned_exp (.n0 ip) = [] ∧
    ∀ fuel2, 4 ≤ fuel2 → ∃ btor2,
      btor_beta_reduce_full fuel2 env btor1
        (BtorNode.n2 iapp (.n2 iL (.n0 ip) false body vb) false A false).ref = .done (r, btor2) ∧
      btor2.cache = btor1.cache ∧ btor2.assigned_exp = btor1.assigned_exp ∧
      btor2.log =
        Event.visit (BtorNode.n2 iapp (.n2 iL (.n0 ip) false body vb) false A false)
          :: Event.visit (.n2 iL (.n0 ip) false body vb) :: Event.visit A
          :: Event.visit (BtorNode.n2 iapp (.n2 iL (.n0 ip) false body vb) false A false)
          :: btor1.log :=
  cache_fill_and_reuse env btor btor1 iapp iL ip body A vb r fuel hkapp hlbapp hkL hLp hLlb hkp
    hkA hAp hAlb hset hleaf hs1 hown hbm hunb hcache hrun hrf hra

/-- C7 (witness). Two instances with an empty cache at entry: scenario 1 of
the specification, `(λp. p) (5)` on 8 bits, and `(λp. (λq. q) (p)) (5)`, whose
body holds a lambda and an apply; both first reductions return the constant 5. -/
theorem cache_populated_then_reused_witness :
    (∃ btor1, btor_beta_reduce_full 100 freeExt btor0 ex_id_apply.ref
        = .done (ex_c5.ref, btor1) ∧
      (∃ cache1, btor1.cache = some cache1 ∧
        PtrHashTable.find cache1 (ex_id_lambda.ref, ex_args_c5.ref) = some ex_c5.ref) ∧
      btor1.assigned_exp ex_p8 = [] ∧
      ∀ fuel2, 4 ≤ fuel2 → ∃ btor2,
        btor_beta_reduce_full fuel2 freeExt btor1 ex_id_apply.ref = .done (ex_c5.ref, btor2) ∧
        btor2.cache = btor1.cache ∧ btor2.assigned_exp = btor1.assigned_exp ∧
        btor2.log =
          Event.visit ex_id_apply :: Event.visit ex_id_lambda :: Event.visit ex_args_c5
            :: Event.visit ex_id_apply :: btor1.log) ∧
    (∃ btor1, btor_beta_reduce_full 100 freeExt btor0 ex_outer_apply.ref
        = .done (ex_c5.ref, btor1) ∧
      (∃ cache1, btor1.cache = some cache1 ∧
        PtrHashTable.find cache1 (ex_outer_lambda.ref, ex_args_c5.ref) = some ex_c5.ref) ∧
      btor1.assigned_exp ex_p8 = [] ∧
      ∀ fuel2, 4 ≤ fuel2 → ∃ btor2,
        btor_beta_reduce_full fuel2 freeExt btor1 ex_outer_apply.ref
          = .done (ex_c5.ref, btor2) ∧
        btor2.cache = btor1.cache ∧ btor2.assigned_exp = btor1.assigned_exp ∧
        btor2.log =
          Event.visit ex_outer_apply :: Event.visit ex_outer_lambda :: Event.visit ex_args_c5
            :: Event.visit ex_outer_apply :: btor1.log) :=
  ⟨⟨_, rfl, cache_populated_then_reused freeExt btor0 _ _ _ _ ex_p8 ex_args_c5 false ex_c5.ref
      100 (by decide) (by decide) (by decide) (by decide) (by decide) (by decide) (by decide)
      (by decide) (by decide) (by decide) (by decide) (by decide)
      (not_bound_below_of_test _ _ (by decide)) (fun _ => rfl) rfl rfl rfl
      (by decide) (by decide)⟩,
    ⟨_, rfl, cache_populated_then_reused freeExt btor0 _ _ _ _ ex_inner_apply ex_args_c5 false
      ex_c5.ref 100 (by decide) (by decide) (by decide) (by decide) (by decide) (by decide)
      (by decide) (by decide) (by decide) (by decide) (by decide) (by decide)
      (not_bound_below_of_test _ _ (by decide)) (fun _ => rfl) rfl rfl rfl
      (by decide) (by decide)⟩⟩
/-- C8. The cross-call cache is populated only in full mode. For every
expression `e`, `chains (e)` (mode `BETA_RED_LAMBDA_CHAINS`, bound 0) and
`bounded (e, b)` with `b ≥ 1` (mode `BETA_RED_BOUNDED`) return with the cache
exactly as it was at entry: no key added, no value changed. -/
theorem cache_written_only_in_full_mode (fuel : Nat) (env : Ext) (btor btor1 : Btor)
    (e r : Ref) (mode bound : Int)
    (hmode : (mode = BETA_RED_LAMBDA_CHAINS ∧ bound = 0) ∨ (mode = BETA_RED_BOUNDED ∧ 1 ≤ bound))
    (h : btor_beta_reduce fuel env btor e mode bound = .done (r, btor1)) :
    btor1.cache = btor.cache := by
  have hm : mode ≠ BETA_RED_FULL := by
    rcases hmode with ⟨h1, _⟩ | ⟨h1, _⟩ <;> rw [h1] <;> decide
  unfold btor_beta_reduce at h
  split at h
  · cases h
  · split at h
    · cases h
    · split at h
      · cases h
      · split at h
        · cases h
        · cases h
        · rename_i s hs
          split at h
          · cases h
          · split at h
            · cases h
              exact loop_cache env mode bound hm fuel _ _ hs
            · cases h

/-- C8 (witness). Bounded reduction with bound 2 of the identity lambda
applied to a constant reduces the apply to the constant and stores nothing. -/
theorem cache_written_only_in_full_mode_witness :
    ∃ btor1, btor_beta_reduce 7 freeExt btor0 ex_id_apply.ref BETA_RED_BOUNDED 2
        = .done (ex_c5.ref, btor1) ∧ btor1.cache = btor0.cache :=
  ⟨_, rfl, cache_written_only_in_full_mode 7 freeExt btor0 _ ex_id_apply.ref ex_c5.ref
    BETA_RED_BOUNDED 2 (Or.inr ⟨rfl, by decide⟩) rfl⟩
/-- C9 (the code at the failing input). On `(λp. (λq. q) (p)) (5)`, bounded
reduction with bound 2 and an empty cache cuts at the inner lambda and
returns the rebuilt apply of the inner lambda. After a full reduction of the
same term has filled the cache, the same bounded reduction finds the entry of
the outer lambda and returns the fully reduced constant: the lookup of the
cache is not restricted to full mode, and the result of a bounded reduction
depends on what the cache holds. -/
theorem bounded_result_depends_on_cache :
    ∃ b1 r2 b2 b3,
      btor_beta_reduce_full 18 freeExt btor0 ex_outer_apply.ref = .done (ex_c5.ref, b1) ∧
      b1.cache = some [((ex_inner_id.ref, freeExt.args_exp [ex_c5.ref]), ex_c5.ref),
        ((ex_outer_lambda.ref, ex_args_c5.ref), ex_c5.ref)] ∧
      btor_beta_reduce_bounded 15 freeExt btor0 ex_outer_apply.ref 2 = .done (r2, b2) ∧
      r2 = freeExt.apply_exp_node ex_inner_id.ref (freeExt.args_exp [ex_c5.ref]) ∧
      btor_beta_reduce_bounded 15 freeExt { btor0 with cache := b1.cache } ex_outer_apply.ref 2
        = .done (ex_c5.ref, b3) ∧
      r2 ≠ ex_c5.ref :=
  ⟨_, _, _, _, rfl, rfl, rfl, rfl, rfl, by decide⟩
/-- C10. Cache helpers round trip: on a cache without the key, storing and
then looking up returns the stored result and the entry of every other key is
unchanged; looking up a key that is absent returns null; storing under a key
that is present with the same value leaves the solver state unchanged. The
lookup is a function of the state and returns no state: it cannot change the
cache. -/
theorem cache_helpers_round_trip (btor : Btor) (cache : PtrHashTable (Ref × Ref) Ref)
    (lambda exp result : Ref) (hcache : btor.cache = some cache)
    (hreg : lambda.regular = true) (hlam : lambda.node.BTOR_IS_LAMBDA_NODE = true) :
    (PtrHashTable.find cache (lambda, exp) = none →
      cached_beta_result btor lambda exp = some none ∧
      ∃ btor1 cache1, cache_beta_result btor lambda exp result = some btor1 ∧
        btor1.cache = some cache1 ∧
        cached_beta_result btor1 lambda exp = some (some result) ∧
        (∀ key, key ≠ (lambda, exp) →
          PtrHashTable.find cache1 key = PtrHashTable.find cache key) ∧
        btor1.assigned_exp = btor.assigned_exp ∧ btor1.beta_mark = btor.beta_mark) ∧
    (PtrHashTable.find cache (lambda, exp) = some result →
      cache_beta_result btor lambda exp result = some btor ∧
      cached_beta_result btor lambda exp = some (some result)) := by
  refine ⟨fun h => ⟨?_, ?_⟩, fun h => ⟨?_, ?_⟩⟩
  · simp [cached_beta_result, hreg, hlam, hcache, h]
  · refine ⟨{ btor with cache := some (PtrHashTable.set cache (lambda, exp) result) },
      PtrHashTable.set cache (lambda, exp) result, ?_, rfl, ?_, ?_, rfl, rfl⟩
    · simp [cache_beta_result, hreg, hlam, hcache, h]
    · simp [cached_beta_result, hreg, hlam, PtrHashTable.find_set_self]
    · intro key hk
      exact PtrHashTable.find_set_other _ _ _ _ (Ne.symm hk)
  · simp [cache_beta_result, hreg, hlam, hcache, h]
  · simp [cached_beta_result, hreg, hlam, hcache, h]


/-- C10 (witness). Storing into the empty cache and looking the key up. -/
theorem cache_helpers_round_trip_witness :
    cached_beta_result btor0 ex_id_lambda.ref ex_args_c5.ref = some none ∧
      ∃ btor1 cache1,
        cache_beta_result btor0 ex_id_lambda.ref ex_args_c5.ref ex_c5.ref = some btor1 ∧
        btor1.cache = some cache1 ∧
        cached_beta_result btor1 ex_id_lambda.ref ex_args_c5.ref = some (some ex_c5.ref) ∧
        (∀ key, key ≠ (ex_id_lambda.ref, ex_args_c5.ref) →
          PtrHashTable.find cache1 key = PtrHashTable.find [] key) ∧
        btor1.assigned_exp = btor0.assigned_exp ∧ btor1.beta_mark = btor0.beta_mark :=
  (cache_helpers_round_trip btor0 [] ex_id_lambda.ref ex_args_c5.ref ex_c5.ref rfl
    (by decide) (by decide)).1 (by decide)

/-- C11. Full reduction is not idempotent on a closed term with a shared
redex. The term `add (a, a)` with `a = (λp. p) (5)` is not parameterized and
no parameter is bound. `full` returns `add ((λp. p) (5), 5)`: the second
visit of `a` pushes the node unreduced. `full` of that result, in the state
that the first call left (and also in the state before the first call),
returns `add (5, 5)`, another node. -/
theorem full_not_idempotent_on_shared_redex :
    ex_add_apps.parameterized = false ∧ btor0.assigned_exp ex_p8 = [] ∧
    (∃ b1 b2, btor_beta_reduce_full 10 freeExt btor0 ex_add_apps.ref
        = .done (freeExt.add_exp ex_id_apply.ref ex_c5.ref, b1) ∧
      b1.assigned_exp ex_p8 = [] ∧
      btor_beta_reduce_full 10 freeExt b1 (freeExt.add_exp ex_id_apply.ref ex_c5.ref)
        = .done (freeExt.add_exp ex_c5.ref ex_c5.ref, b2)) ∧
    (∃ b2, btor_beta_reduce_full 10 freeExt btor0 (freeExt.add_exp ex_id_apply.ref ex_c5.ref)
        = .done (freeExt.add_exp ex_c5.ref ex_c5.ref, b2)) ∧
    (freeExt.add_exp ex_id_apply.ref ex_c5.ref).node.parameterized = false ∧
    freeExt.add_exp ex_c5.ref ex_c5.ref ≠ freeExt.add_exp ex_id_apply.ref ex_c5.ref :=
  ⟨rfl, rfl, ⟨_, _, rfl, rfl, rfl⟩, ⟨_, rfl⟩, rfl, by decide⟩

/-- C12. Bounded monotonicity fails at a closed redex that occurs twice:
`e = and (a, ¬a)` with `a = (λp. (λq. q) (p)) (5)`, one hash-consed apply
node that is both children of the conjunction, under a constructor of `and`
that rewrites `x ∧ ¬x` to false. Under bound 1 the outer lambda is cut, the
first visit of `a` rebuilds `a` itself, the revisit pushes `a`, and the
conjunction of `a` and `¬a` is rewritten: the result is the constant false,
which retains no lambda. Under bound 2 the first visit of `a` expands the outer
lambda and pushes `¬(λq. q) (5)`; after 13 iterations `a` is on top of the work
stack again with mark 2, and the revisit branch pushes the apply node `a`
itself, not the result of its first visit; the result is
`and (a, ¬(λq. q) (5))`, which retains the outer lambda `λp. (λq. q) (p)` and
the inner lambda `λq. q`. The lambdas retained under bound 1 are not a
superset of the lambdas retained under bound 2. With the result of the first
visit in both places the conjunction under bound 2 would be rewritten to false
as well. -/
theorem bounded_retained_lambdas_not_monotone :
    ex_and_not.e = [ex_hc_apply.ref, ⟨ex_hc_apply, true⟩] ∧
    ex_hc_apply.parameterized = false ∧ ex_hc_apply.lambda_below = true ∧
    contradictionExt.apply_exp_node ex_outer_lambda.ref ex_args_c5.ref = ex_hc_apply.ref ∧
    (∃ b, btor_beta_reduce_bounded 20 contradictionExt btor0 ex_and_not.ref 1
      = .done (ex_false8.ref, b)) ∧
    (∃ b, btor_beta_reduce_bounded 20 contradictionExt btor0 ex_and_not.ref 2
      = .done (freeExt.and_exp ex_hc_apply.ref ⟨ex_cut_inner, true⟩, b)) ∧
    (∃ b, btor_beta_reduce_bounded 20 contradictionExt btor0 ex_hc_apply.ref 2
      = .done (ex_cut_inner.ref, b)) ∧
    (∃ s13 s14,
      run_steps contradictionExt BETA_RED_BOUNDED 2 13 (beta_reduce_init btor0 ex_and_not.ref)
        = some s13 ∧
      beta_reduce_step contradictionExt BETA_RED_BOUNDED 2 s13 = some s14 ∧
      s13.work_stack = [(ex_hc_apply.ref, some ex_and_not), (ex_and_not.ref, none)] ∧
      s13.arg_stack = [⟨ex_cut_inner, true⟩] ∧ s13.scopes = [] ∧
      PtrHashTable.find s13.cur_scope ex_hc_apply = some 2 ∧
      PtrHashTable.find s13.cur_scope_results ex_hc_apply = none ∧
      s14.arg_stack = [ex_hc_apply.ref, ⟨ex_cut_inner, true⟩]) ∧
    contradictionExt.and_exp ex_cut_inner.ref ⟨ex_cut_inner, true⟩ = ex_false8.ref ∧
    retained_lambdas ex_false8 = [] ∧
    ex_outer_lambda ∈ retained_lambdas (freeExt.and_exp ex_hc_apply.ref ⟨ex_cut_inner, true⟩).node ∧
    ex_inner_id ∈ retained_lambdas (freeExt.and_exp ex_hc_apply.ref ⟨ex_cut_inner, true⟩).node ∧
    ¬ bounded_monotone_at 20 contradictionExt btor0 ex_and_not.ref 1 2 :=
  ⟨rfl, rfl, rfl, rfl, ⟨_, rfl⟩, ⟨_, rfl⟩, ⟨_, rfl⟩, ⟨_, _, rfl, rfl, rfl, rfl, rfl, rfl, rfl, rfl⟩,
    rfl, rfl, by decide, by decide,
    fun h => absurd (h _ _ _ _ rfl rfl ex_outer_lambda (by decide)) (by decide)⟩

/-- C13. The full/bounded/chain reducer does not restore a binding that was
present at entry. In a state where the parameter `p` is bound to the constant
5 (one binding on its stack), each of `full`, `chains` and `bounded` with
bound 1 on the closed lambda `λp. p` returns (the constant 5 for `full`,
the lambda itself for the other two) and leaves the binding stack of `p`
empty: the binding of the caller has been popped when the scope of the
lambda was closed. -/
theorem reducer_pops_entry_binding :
    btor_p5.assigned_exp ex_p8 = [ex_c5.ref] ∧
    (∃ b, btor_beta_reduce_full 4 freeExt btor_p5 ex_id_lambda.ref = .done (ex_c5.ref, b) ∧
      b.assigned_exp ex_p8 = []) ∧
    (∃ b, btor_beta_reduce_chains 4 freeExt btor_p5 ex_id_lambda.ref
        = .done (ex_id_lambda.ref, b) ∧ b.assigned_exp ex_p8 = []) ∧
    (∃ b, btor_beta_reduce_bounded 4 freeExt btor_p5 ex_id_lambda.ref 1
        = .done (ex_id_lambda.ref, b) ∧ b.assigned_exp ex_p8 = []) :=
  ⟨rfl, ⟨_, rfl, rfl⟩, ⟨_, rfl, rfl⟩, ⟨_, rfl, rfl⟩⟩

/-- C14. The function `btor_apply_and_reduce` does not restore a binding that
a parameter of the chain carries at entry. In a state where `p` is bound to
the constant 5, `btor_apply_and_reduce` with the one argument 7 on the lambda
`λp. p` returns the argument 7 and leaves the binding stack of `p` empty:
the reducer pops the binding of the argument when it closes the scope of the
lambda, and the final loop of `btor_apply_and_reduce` then pops the binding
that was there at entry. -/
theorem apply_and_reduce_pops_entry_binding :
    btor_p5.assigned_exp ex_p8 = [ex_c5.ref] ∧
    ∃ b, btor_apply_and_reduce 4 freeExt btor_p5 [ex_t7.ref] ex_id_lambda.ref
        = .done (ex_t7.ref, b) ∧ b.assigned_exp ex_p8 = [] :=
  ⟨rfl, _, rfl, rfl⟩

/-- C15. Partial reduction resets its marks. If every node has `beta_mark = 0`
at entry, then on return from `btor_beta_reduce_partial_aux` (so from
`partial` and from `partial_collect`) every node again has `beta_mark = 0`.
At the end of the loop every node whose mark is not 0 has mark 2 and is the
node of a key of the memo table, so the cleanup loop over the memo resets
it. -/
theorem partial_resets_marks (fuel : Nat) (env : Ext) (btor : Btor) (exp : Ref)
    (parameterized : Option (Option BtorNode))
    (cond_sel1 cond_sel2 : Option (PtrHashTable BtorParamCacheTuple Ref)) (ret : PartialReturn)
    (hz : ∀ n, btor.beta_mark n = 0)
    (h : btor_beta_reduce_partial_aux fuel env btor exp parameterized cond_sel1 cond_sel2
      = .done ret) :
    (∀ n, ret.btor.beta_mark n = 0) ∧
    (∀ (b0 : Btor) (e0 : Ref) (s : PartialState), (∀ n, b0.beta_mark n = 0) →
      partial_loop env fuel (partial_init b0 e0 cond_sel1 cond_sel2) = .done s →
      ∀ n, s.btor.beta_mark n ≠ 0 →
        s.btor.beta_mark n = 2 ∧ ∃ b, b ∈ s.cache ∧ b.1.1 = n) := by
  have hloop : ∀ (b0 : Btor) (e0 : Ref) (s : PartialState), (∀ n, b0.beta_mark n = 0) →
      partial_loop env fuel (partial_init b0 e0 cond_sel1 cond_sel2) = .done s →
      ∀ n, s.btor.beta_mark n ≠ 0 →
        s.btor.beta_mark n = 2 ∧ ∃ b, b ∈ s.cache ∧ b.1.1 = n := by
    intro b0 e0 s hb0 hs n hn
    obtain ⟨hinv, hst⟩ := partial_loop_marks env fuel _ s
      (fun n => Or.inl (by simpa [partial_init] using hb0 n)) hs
    rcases hinv n with h1 | ⟨-, en, hen, -⟩ | h1
    · exact absurd h1 hn
    · rw [hst] at hen; simp at hen
    · exact h1
  refine ⟨?_, hloop⟩
  unfold btor_beta_reduce_partial_aux at h
  split at h
  · cases h
  · split at h
    · cases h
    · split at h
      · cases h
        exact hz
      · simp only at h
        split at h
        · cases h
        · cases h
        · rename_i s hs
          split at h
          · cases h
            intro n
            simp only
            rw [reset_marks_spec]
            split
            · rfl
            · rename_i hnot
              by_contra hne
              obtain ⟨-, hkey⟩ := hloop _ _ s (by
                intro m
                split <;> exact hz m) hs n hne
              exact hnot hkey
          · cases h

/-- C15 (witness). The conditional of scenario 5 with an evaluation that
returns null: all three children are reduced, four nodes are marked during the
call, and every mark is 0 on return. -/
theorem partial_resets_marks_witness :
    ∃ ret, btor_beta_reduce_partial_aux 20 freeExt btor_p5 ex_ite.ref none none none
        = .done ret ∧ ∀ n, ret.btor.beta_mark n = 0 :=
  ⟨_, rfl, (partial_resets_marks 20 freeExt btor_p5 ex_ite.ref none none none _
    (fun _ => rfl) rfl).1⟩

/-- C16 (as stated, fails). The chosen branch of a conditional is not always
reduced as it would be alone. The conditional
`ite (ult (p, 7), 5, mul (p, 7))` is parameterized, its condition evaluates to
1 under `p = 5`, and its then-branch is the constant 5, which is not
parameterized and has not been encoded. `partial` of the conditional pushes
the branch and, at its visit, fails the assertion that a node that is not
parameterized is a function, an args node or encoded: the call aborts.
`partial` of the branch alone returns the constant by the early return. -/
theorem partial_aborts_on_plain_branch :
    ex_ite_plain.parameterized = true ∧
    ex_ite_plain.e = [ex_cond.ref, ex_c5.ref, ex_mul_p7.ref] ∧
    (evalExt ex_cond ['1']).eval_exp btor_p5.assigned_exp ex_cond.ref = some ['1'] ∧
    ex_c5.parameterized = false ∧ ex_c5.info.tseitin = false ∧
    ex_c5.BTOR_IS_FUN_NODE = false ∧ ex_c5.BTOR_IS_ARGS_NODE = false ∧
    btor_beta_reduce_partial 11 (evalExt ex_cond ['1']) btor_p5 ex_ite_plain.ref (some none)
      = .abort ∧
    btor_beta_reduce_partial_aux 11 (evalExt ex_cond ['1']) btor_p5 ex_ite_plain.ref (some none)
      (some []) (some []) = .abort ∧
    (∃ ret, btor_beta_reduce_partial 11 (evalExt ex_cond ['1']) btor_p5 ex_c5.ref (some none)
      = .done ret ∧ ret.result = ex_c5.ref) :=
  ⟨rfl, rfl, rfl, rfl, rfl, rfl, rfl, rfl, rfl, _, rfl, rfl⟩

/-- C16 (amended). Partial reduction follows only the chosen branch of a
conditional, for a branch that is parameterized or is not parameterized and
is a function, an args node or encoded. Let `cur` be a reference to a
parameterized conditional `ite (c, x, y)` with mark 0 whose condition is
encoded, parameterized or a constant. If the evaluation of the condition
returns a string that starts with the character 1 and the branch `x` is
parameterized and not a lambda, then `partial (cur)` with one more unit of
fuel is `partial (x)` started after the visit of the conditional (the log
holds that visit, the first table holds the selector), with the inversion bit
of `cur` toggled onto the result: same outcome, same result up to that bit,
same solver state on return, same tables, same out-parameter; so the run
visits the conditional and then exactly what the run on `x` visits, and `y`
is reached only if the run on `x` reaches it. If the branch `x` is not
parameterized, has mark 0 and is a function, an args node or encoded, then
`partial (cur)` returns after two iterations, which visit the conditional and
`x`: the result is `x` with the inversion bit of `cur` toggled, the node that
`partial (x)` returns by its early return, the selector is in the first
table, and the out-parameter holds null. Symmetrically for the character 0
with `y` and the second table. When the evaluation returns null, the first
visit sets the mark to 1 and pushes the conditional again under its three
children, and the post-order visit, with the results `r0 r1 r2` of the three
children on the argument stack and no memo entry for the conditional, calls
the constructor `btor_cond_exp` on them, memoizes the result and pushes it
with the inversion bit of `cur`. -/
theorem partial_follows_chosen_branch (fuel : Nat) (env : Ext) (btor : Btor) (cur : Ref)
    (i : NodeInfo) (c x y : BtorNode) (vc vx vy : Bool)
    (par : Option (Option BtorNode))
    (cs1 cs2 : Option (PtrHashTable BtorParamCacheTuple Ref))
    (hcur : cur.node = .n3 i c vc x vx y vy) (hk : i.kind = .bcond)
    (hp : i.parameterized = true) (hm : btor.beta_mark cur.node = 0)
    (hpre : (c.info.tseitin || c.parameterized || c.BTOR_IS_BV_CONST_NODE) = true) :
    (∀ bits, env.eval_exp btor.assigned_exp ⟨c, vc⟩ = some ('1' :: bits) →
      x.parameterized = true → x.BTOR_IS_LAMBDA_NODE = false →
      btor_beta_reduce_partial_aux (fuel + 1) env btor cur par cs1 cs2 =
        Outcome.map (fun ret => { ret with result := cur.cond_invert ret.result })
          (btor_beta_reduce_partial_aux fuel env
            { btor with log := .visit cur.node :: btor.log } ⟨x, vx⟩ par
            (collect_selector btor ⟨c, vc⟩ cs1) cs2)) ∧
    (∀ bits, env.eval_exp btor.assigned_exp ⟨c, vc⟩ = some ('0' :: bits) →
      y.parameterized = true → y.BTOR_IS_LAMBDA_NODE = false →
      btor_beta_reduce_partial_aux (fuel + 1) env btor cur par cs1 cs2 =
        Outcome.map (fun ret => { ret with result := cur.cond_invert ret.result })
          (btor_beta_reduce_partial_aux fuel env
            { btor with log := .visit cur.node :: btor.log } ⟨y, vy⟩ par
            cs1 (collect_selector btor ⟨c, vc⟩ cs2))) ∧
    (∀ bits, env.eval_exp btor.assigned_exp ⟨c, vc⟩ = some ('1' :: bits) →
      x.parameterized = false →
      (x.BTOR_IS_FUN_NODE || x.BTOR_IS_ARGS_NODE || x.info.tseitin) = true →
      btor.beta_mark x = 0 → cs1.isSome = cs2.isSome →
      btor_beta_reduce_partial_aux (fuel + 2) env btor cur par cs1 cs2 =
        .done { result := cur.cond_invert ⟨x, vx⟩
                btor := { btor with log := Event.visit x :: Event.visit cur.node :: btor.log }
                parameterized := par.map fun _ => none
                cond_sel1 := collect_selector btor ⟨c, vc⟩ cs1
                cond_sel2 := cs2 } ∧
      (x.BTOR_IS_LAMBDA_NODE = false →
        btor_beta_reduce_partial_aux fuel env btor ⟨x, vx⟩ par cs1 cs2 =
          .done { result := ⟨x, vx⟩, btor := btor, parameterized := par,
                  cond_sel1 := cs1, cond_sel2 := cs2 })) ∧
    (∀ bits, env.eval_exp btor.assigned_exp ⟨c, vc⟩ = some ('0' :: bits) →
      y.parameterized = false →
      (y.BTOR_IS_FUN_NODE || y.BTOR_IS_ARGS_NODE || y.info.tseitin) = true →
      btor.beta_mark y = 0 → cs1.isSome = cs2.isSome →
      btor_beta_reduce_partial_aux (fuel + 2) env btor cur par cs1 cs2 =
        .done { result := cur.cond_invert ⟨y, vy⟩
                btor := { btor with log := Event.visit y :: Event.visit cur.node :: btor.log }
                parameterized := par.map fun _ => none
                cond_sel1 := cs1
                cond_sel2 := collect_selector btor ⟨c, vc⟩ cs2 } ∧
      (y.BTOR_IS_LAMBDA_NODE = false →
        btor_beta_reduce_partial_aux fuel env btor ⟨y, vy⟩ par cs1 cs2 =
          .done { result := ⟨y, vy⟩, btor := btor, parameterized := par,
                  cond_sel1 := cs1, cond_sel2 := cs2 })) ∧
    (∀ (s : PartialState) (cur_parent : Option BtorNode),
      env.eval_exp s.btor.assigned_exp ⟨c, vc⟩ = none →
      partial_start env cur cur_parent s =
        some { s with
          btor := { s.btor with beta_mark := Function.update s.btor.beta_mark cur.node 1 }
          stack := (⟨y, vy⟩, some cur.node) :: (⟨x, vx⟩, some cur.node) ::
            (⟨c, vc⟩, some cur.node) :: (cur, cur_parent) :: s.stack }) ∧
    (∀ (s : PartialState) (r0 r1 r2 : Ref) (o0 o1 o2 : BtorNode) (rest : List Ref)
        (prest : List BtorNode),
      s.arg_stack = r0 :: r1 :: r2 :: rest → s.param_stack = o0 :: o1 :: o2 :: prest →
      PtrHashTable.find s.cache (btor_new_param_cache_tuple s.btor cur.node) = none →
      partial_rebuild env cur s =
        some { s with
          btor := { s.btor with
            beta_mark := Function.update s.btor.beta_mark cur.node 2
            log := .rewrite .bcond s.btor.rewrite_level :: s.btor.log }
          arg_stack := cur.cond_invert (env.cond_exp r0 r1 r2) :: rest
          param_stack := cur.node :: prest
          cache := PtrHashTable.set s.cache (btor_new_param_cache_tuple s.btor cur.node)
            (env.cond_exp r0 r1 r2, cur.node) }) := by
  have hpc : cur.node.parameterized = true := by rw [hcur]; exact hp
  have hlc : cur.node.BTOR_IS_LAMBDA_NODE = false := by
    rw [hcur]; simp [BtorNode.BTOR_IS_LAMBDA_NODE, BtorNode.kind, hk]
  have hmap : ∀ (next : Ref) (a b : Option (PtrHashTable BtorParamCacheTuple Ref)),
      next.node.BTOR_IS_LAMBDA_NODE = false →
      btor_beta_reduce_partial_aux fuel env { btor with log := .visit cur.node :: btor.log }
          (cur.cond_invert next) par a b =
        Outcome.map (fun ret => { ret with result := cur.cond_invert ret.result })
          (btor_beta_reduce_partial_aux fuel env
            { btor with log := .visit cur.node :: btor.log } next par a b) := by
    intro next a b hnl
    cases hv : cur.inv with
    | false =>
      simp only [Ref.cond_invert, hv, Bool.false_eq_true, if_false]
      generalize btor_beta_reduce_partial_aux fuel env _ next par a b = o
      cases o <;> rfl
    | true =>
      simp only [Ref.cond_invert, hv, if_true]
      exact partial_aux_invert fuel env _ next par a b hnl
  have hearly : ∀ (z : Ref), z.node.parameterized = false → z.node.BTOR_IS_LAMBDA_NODE = false →
      cs1.isSome = cs2.isSome →
      btor_beta_reduce_partial_aux fuel env btor z par cs1 cs2 =
        .done { result := z, btor := btor, parameterized := par,
                cond_sel1 := cs1, cond_sel2 := cs2 } := by
    intro z hz1 hz2 hcs
    have hcs2 : (cs1.isSome && !cs2.isSome) = false := by rw [hcs]; simp
    have hcs3 : (cs2.isSome && !cs1.isSome) = false := by rw [hcs]; simp
    unfold btor_beta_reduce_partial_aux
    simp only [hcs2, hcs3, hz1, hz2, Bool.not_false, Bool.and_self, Bool.false_eq_true,
      if_false, if_true]
  refine ⟨?_, ?_, ?_, ?_, ?_, ?_⟩
  · intro bits hev hxp hxl
    rw [← hmap ⟨x, vx⟩ _ _ hxl]
    refine partial_aux_follow fuel env btor cur (cur.cond_invert ⟨x, vx⟩) par cs1 cs2 _ cs2
      hpc hlc (by rw [cond_invert_node]; exact hxp) (by rw [cond_invert_node]; exact hxl)
      (collect_selector_isSome _ _ _) rfl ?_
    intro b hb1 hb2
    unfold partial_step
    simp only [partial_init, PartialState.record, List.length_nil, ne_eq, not_true_eq_false,
      if_false, hb2, hm, if_true]
    rw [partial_start_cond_one env cur none _ i c x y vc vx vy bits hcur hk hp hpre
      (by simpa only [hb1] using hev)]
    exact congrArg some (by
      rw [collect_selector_congr
        { b with beta_mark := btor.beta_mark, log := .visit cur.node :: b.log } btor ⟨c, vc⟩ cs1 hb1])
  · intro bits hev hyp hyl
    rw [← hmap ⟨y, vy⟩ _ _ hyl]
    refine partial_aux_follow fuel env btor cur (cur.cond_invert ⟨y, vy⟩) par cs1 cs2 cs1 _
      hpc hlc (by rw [cond_invert_node]; exact hyp) (by rw [cond_invert_node]; exact hyl)
      rfl (collect_selector_isSome _ _ _) ?_
    intro b hb1 hb2
    unfold partial_step
    simp only [partial_init, PartialState.record, List.length_nil, ne_eq, not_true_eq_false,
      if_false, hb2, hm, if_true]
    rw [partial_start_cond_zero env cur none _ i c x y vc vx vy bits hcur hk hp hpre
      (by simpa only [hb1] using hev)]
    exact congrArg some (by
      rw [collect_selector_congr
        { b with beta_mark := btor.beta_mark, log := .visit cur.node :: b.log } btor ⟨c, vc⟩ cs2 hb1])
  · intro bits hev hxp hok hmx hcs
    refine ⟨?_, fun hxl => hearly ⟨x, vx⟩ hxp hxl hcs⟩
    have h := partial_aux_emit fuel env btor cur (cur.cond_invert ⟨x, vx⟩) par cs1 cs2
      (collect_selector btor ⟨c, vc⟩ cs1) cs2 hpc hlc
      (by rw [cond_invert_node]; exact hxp) (by rw [cond_invert_node]; exact hok)
      (by rw [cond_invert_node]; exact hmx) hcs ?_
    · rw [cond_invert_node] at h
      exact h
    · intro b hb1 hb2
      unfold partial_step
      simp only [partial_init, PartialState.record, List.length_nil, ne_eq, not_true_eq_false,
        if_false, hb2, hm, if_true]
      rw [partial_start_cond_one env cur none _ i c x y vc vx vy bits hcur hk hp hpre
        (by simpa only [hb1] using hev)]
      exact congrArg some (by
        rw [collect_selector_congr
          { b with beta_mark := btor.beta_mark, log := .visit cur.node :: b.log } btor ⟨c, vc⟩
          cs1 hb1])
  · intro bits hev hyp hok hmy hcs
    refine ⟨?_, fun hyl => hearly ⟨y, vy⟩ hyp hyl hcs⟩
    have h := partial_aux_emit fuel env btor cur (cur.cond_invert ⟨y, vy⟩) par cs1 cs2
      cs1 (collect_selector btor ⟨c, vc⟩ cs2) hpc hlc
      (by rw [cond_invert_node]; exact hyp) (by rw [cond_invert_node]; exact hok)
      (by rw [cond_invert_node]; exact hmy) hcs ?_
    · rw [cond_invert_node] at h
      exact h
    · intro b hb1 hb2
      unfold partial_step
      simp only [partial_init, PartialState.record, List.length_nil, ne_eq, not_true_eq_false,
        if_false, hb2, hm, if_true]
      rw [partial_start_cond_zero env cur none _ i c x y vc vx vy bits hcur hk hp hpre
        (by simpa only [hb1] using hev)]
      exact congrArg some (by
        rw [collect_selector_congr
          { b with beta_mark := btor.beta_mark, log := .visit cur.node :: b.log } btor ⟨c, vc⟩
          cs2 hb1])
  · intro s cur_parent hev
    rw [partial_start_cond_null env cur cur_parent s i c x y vc vx vy hcur hk hp hpre hev]
    simp only [partial_expand, hcur, BtorNode.e, List.reverse_cons, List.reverse_nil,
      List.nil_append, List.cons_append, List.map_cons, List.map_nil]
  · intro s r0 r1 r2 o0 o1 o2 rest prest ha hps hfind
    have har : cur.node.arity = 3 := by rw [hcur]; rfl
    unfold partial_rebuild
    simp only [hpc, har, ha, hps, Bool.not_true, Bool.false_eq_true, if_false]
    simp [partial_switch, partial_call, PartialState.record, hcur, BtorNode.kind, hk,
      partial_push_result, BtorNode.BTOR_IS_LAMBDA_NODE]
    rw [hcur] at hfind
    exact ⟨hfind, rfl⟩

/-- C16 (witness). Scenario 5 of the specification through an inverted
reference: the condition `ult (p, 7)` evaluates to 1 under `p = 5`, so the
run on the inverted conditional is the run on the branch `add (p, 5)` with
the result inverted; it returns the inverted sum of the binding and the
constant, visits the chosen branch and never visits `mul (p, 7)`. With the
encoded constant 5 as then-branch the call returns that constant after two
iterations. -/
theorem partial_follows_chosen_branch_witness :
    (btor_beta_reduce_partial_aux 11 (evalExt ex_cond ['1']) btor_p5 ⟨ex_ite, true⟩ (some none)
        (some []) (some []) =
      Outcome.map (fun ret => { ret with result := Ref.cond_invert ⟨ex_ite, true⟩ ret.result })
        (btor_beta_reduce_partial_aux 10 (evalExt ex_cond ['1'])
          { btor_p5 with log := .visit ex_ite :: btor_p5.log } ⟨ex_add_p5, false⟩ (some none)
          (collect_selector btor_p5 ⟨ex_cond, false⟩ (some [])) (some []))) ∧
    (∃ ret, btor_beta_reduce_partial_aux 11 (evalExt ex_cond ['1']) btor_p5 ⟨ex_ite, true⟩
        (some none) (some []) (some []) = .done ret ∧
      ret.result = (freeExt.add_exp ex_c5.ref ex_t5.ref).invert ∧
      Event.visit ex_add_p5 ∈ ret.btor.log ∧ Event.visit ex_mul_p7 ∉ ret.btor.log) ∧
    btor_beta_reduce_partial_aux 2 (evalExt ex_cond ['1']) btor_p5 ex_ite_enc.ref (some none)
        (some []) (some []) =
      .done { result := ex_t5.ref
              btor := { btor_p5 with
                log := Event.visit ex_t5 :: Event.visit ex_ite_enc :: btor_p5.log }
              parameterized := some none
              cond_sel1 := collect_selector btor_p5 ex_cond.ref (some [])
              cond_sel2 := some [] } :=
  ⟨(partial_follows_chosen_branch 10 (evalExt ex_cond ['1']) btor_p5 ⟨ex_ite, true⟩ _
      ex_cond ex_add_p5 ex_mul_p7 false false false (some none) (some []) (some [])
      rfl rfl rfl rfl (by decide)).1 [] rfl rfl rfl,
    ⟨_, rfl, rfl, by decide, by decide⟩,
    ((partial_follows_chosen_branch 0 (evalExt ex_cond ['1']) btor_p5 ex_ite_enc.ref _
      ex_cond ex_t5 ex_mul_p7 false false false (some none) (some []) (some [])
      rfl rfl rfl rfl (by decide)).2.2.1 [] rfl rfl rfl rfl rfl).1⟩

/-- C17. The function `partial_collect` records selectors in the right table
and never overwrites. Let the node of `cur` be a parameterized conditional
`ite (c, x, y)` that the partial reducer starts (mark 0, label
`BETA_REDUCE_PARTIAL_START`), with a condition that is encoded, parameterized
or a constant. If the evaluation of the condition returns a string that
starts with the character 1, then after the visit the table `cond_sel1`
contains the parameter-cache key of the condition, mapped to the reference
to the condition if the key was absent and to its previous value if it was
present, every other entry of `cond_sel1` is as before, and `cond_sel2` is
unchanged; symmetrically for the character 0 and `cond_sel2`; when the
evaluation returns null neither table is changed; a null table stays null.
For every call of `btor_beta_reduce_partial_aux` that returns, every entry of
either table at entry is in the table on return with the same value: no entry
is removed or overwritten. -/
theorem collect_records_selectors (env : Ext) (cur : Ref) (cur_parent : Option BtorNode)
    (s : PartialState) (i : NodeInfo) (c x y : BtorNode) (vc vx vy : Bool)
    (hcur : cur.node = .n3 i c vc x vx y vy) (hk : i.kind = .bcond)
    (hp : i.parameterized = true)
    (hpre : (c.info.tseitin || c.parameterized || c.BTOR_IS_BV_CONST_NODE) = true) :
    (∀ bits, env.eval_exp s.btor.assigned_exp ⟨c, vc⟩ = some ('1' :: bits) →
      ∃ s1, partial_start env cur cur_parent s = some s1 ∧ s1.cond_sel2 = s.cond_sel2 ∧
        (s.cond_sel1 = none → s1.cond_sel1 = none) ∧
        ∀ t, s.cond_sel1 = some t → ∃ t1, s1.cond_sel1 = some t1 ∧
          PtrHashTable.find t1 (btor_new_param_cache_tuple s.btor c)
            = some ((PtrHashTable.find t (btor_new_param_cache_tuple s.btor c)).getD ⟨c, vc⟩) ∧
          ∀ key v, PtrHashTable.find t key = some v → PtrHashTable.find t1 key = some v) ∧
    (∀ bits, env.eval_exp s.btor.assigned_exp ⟨c, vc⟩ = some ('0' :: bits) →
      ∃ s1, partial_start env cur cur_parent s = some s1 ∧ s1.cond_sel1 = s.cond_sel1 ∧
        (s.cond_sel2 = none → s1.cond_sel2 = none) ∧
        ∀ t, s.cond_sel2 = some t → ∃ t1, s1.cond_sel2 = some t1 ∧
          PtrHashTable.find t1 (btor_new_param_cache_tuple s.btor c)
            = some ((PtrHashTable.find t (btor_new_param_cache_tuple s.btor c)).getD ⟨c, vc⟩) ∧
          ∀ key v, PtrHashTable.find t key = some v → PtrHashTable.find t1 key = some v) ∧
    (env.eval_exp s.btor.assigned_exp ⟨c, vc⟩ = none →
      ∃ s1, partial_start env cur cur_parent s = some s1 ∧ s1.cond_sel1 = s.cond_sel1 ∧
        s1.cond_sel2 = s.cond_sel2) ∧
    (∀ fuel btor exp parameterized cond_sel1 cond_sel2 ret,
      btor_beta_reduce_partial_aux fuel env btor exp parameterized cond_sel1 cond_sel2
        = .done ret →
      TableKept cond_sel1 ret.cond_sel1 ∧ TableKept cond_sel2 ret.cond_sel2) := by
  refine ⟨?_, ?_, ?_, ?_⟩
  · intro bits hev
    refine ⟨_, partial_start_cond_one env cur cur_parent s i c x y vc vx vy bits hcur hk hp hpre
      hev, rfl, ?_, ?_⟩
    · intro h; simp [h, collect_selector]
    · intro t ht
      simp only [ht]
      exact collect_selector_spec s.btor ⟨c, vc⟩ t
  · intro bits hev
    refine ⟨_, partial_start_cond_zero env cur cur_parent s i c x y vc vx vy bits hcur hk hp hpre
      hev, rfl, ?_, ?_⟩
    · intro h; simp [h, collect_selector]
    · intro t ht
      simp only [ht]
      exact collect_selector_spec s.btor ⟨c, vc⟩ t
  · intro hev
    exact ⟨_, partial_start_cond_null env cur cur_parent s i c x y vc vx vy hcur hk hp hpre hev,
      rfl, rfl⟩
  · intro fuel btor exp parameterized cond_sel1 cond_sel2 ret h
    unfold btor_beta_reduce_partial_aux at h
    split at h
    · cases h
    · split at h
      · cases h
      · split at h
        · cases h
          exact ⟨tableKept_refl _, tableKept_refl _⟩
        · simp only at h
          split at h
          · cases h
          · cases h
          · rename_i s2 hs2
            obtain ⟨-, -, h1, h2⟩ := partial_loop_frame env fuel _ _ hs2
            split at h
            · cases h
              exact ⟨h1, h2⟩
            · cases h

/-- C17 (witness). Scenario 5 of the specification: the condition of the
conditional evaluates to 1 and both tables are empty at entry; the first
table gets one entry, whose value is the condition, and the second table is
unchanged. -/
theorem collect_records_selectors_witness :
    ∃ s1, partial_start (evalExt ex_cond ['1']) ex_ite.ref none
        (partial_init btor_p5 ex_ite.ref (some []) (some [])) = some s1 ∧
      s1.cond_sel2 = some [] ∧
      ((some [] : Option (PtrHashTable BtorParamCacheTuple Ref)) = none → s1.cond_sel1 = none) ∧
      ∀ t, some [] = some t → ∃ t1, s1.cond_sel1 = some t1 ∧
        PtrHashTable.find t1 (btor_new_param_cache_tuple btor_p5 ex_cond)
          = some ((PtrHashTable.find t (btor_new_param_cache_tuple btor_p5 ex_cond)).getD
              ⟨ex_cond, false⟩) ∧
        ∀ key v, PtrHashTable.find t key = some v → PtrHashTable.find t1 key = some v :=
  (collect_records_selectors (evalExt ex_cond ['1']) ex_ite.ref none
    (partial_init btor_p5 ex_ite.ref (some []) (some [])) _ ex_cond ex_add_p5 ex_mul_p7
    false false false rfl rfl rfl (by decide)).1 [] rfl

/-- C18 (counterexample). A lambda that is not parameterized is not returned
unchanged: the partial reducer replaces a root lambda by its body. For the
identity lambda `λp. p`, which is not parameterized, with `p` bound to the
constant 5, `partial` returns the constant 5 and not the lambda. -/
theorem partial_root_lambda_counterexample :
    ex_id_lambda.parameterized = false ∧
    ∃ ret, btor_beta_reduce_partial 2 freeExt btor_p5 ex_id_lambda.ref none = .done ret ∧
      ret.result = ex_c5.ref ∧ ret.result ≠ ex_id_lambda.ref :=
  ⟨rfl, _, rfl, rfl, by decide⟩

/-- C18 (amended). Partial reduction returns expressions that are neither
parameterized nor a lambda unchanged: for every expression `exp` whose node is
not parameterized and is not a lambda, and for every fuel, `partial (exp)` and
`partial_collect (exp, S1, S2)` (both tables given, or both null) return `exp`
itself, same node and same inversion bit; the solver state on return is the
state at entry (marks, binding stacks, rewrite level, log), the tables are the
tables passed, and the cell of the out-parameter is as it was. -/
theorem partial_returns_closed_unchanged (fuel : Nat) (env : Ext) (btor : Btor) (exp : Ref)
    (parameterized : Option (Option BtorNode))
    (cond_sel1 cond_sel2 : Option (PtrHashTable BtorParamCacheTuple Ref))
    (hp : exp.node.parameterized = false) (hl : exp.node.BTOR_IS_LAMBDA_NODE = false)
    (hsel : cond_sel1.isSome = cond_sel2.isSome) :
    btor_beta_reduce_partial fuel env btor exp parameterized
      = .done { result := exp, btor := btor, parameterized := parameterized,
                cond_sel1 := none, cond_sel2 := none } ∧
    btor_beta_reduce_partial_collect fuel env btor exp cond_sel1 cond_sel2
      = .done { result := exp, btor := btor, parameterized := none,
                cond_sel1 := cond_sel1, cond_sel2 := cond_sel2 } := by
  constructor
  · simp [ btor_beta_reduce_partial, btor_beta_reduce_partial_aux, hp, hl]
  · cases cond_sel1 <;> cases cond_sel2 <;>
      simp_all [btor_beta_reduce_partial_collect, btor_beta_reduce_partial_aux]

/-- C18 (witness). The closed apply `(λp. p) (5)` is returned as it is. -/
theorem partial_returns_closed_unchanged_witness :
    btor_beta_reduce_partial 0 freeExt btor_p5 ex_id_apply.ref none
      = .done { result := ex_id_apply.ref, btor := btor_p5, parameterized := none,
                cond_sel1 := none, cond_sel2 := none } ∧
    btor_beta_reduce_partial_collect 0 freeExt btor_p5 ex_id_apply.ref (some []) (some [])
      = .done { result := ex_id_apply.ref, btor := btor_p5, parameterized := none,
                cond_sel1 := some [], cond_sel2 := some [] } :=
  partial_returns_closed_unchanged 0 freeExt btor_p5 ex_id_apply.ref none (some []) (some [])
    (by decide) (by decide) rfl

/-- C19 (the code at the failing input). With the out-parameter requested and
a cell that holds the node `p` at entry: for the constant 5, which is not
parameterized, `partial` takes the early return and the cell still holds `p`
on return, it has not been written; for `add (p, 5)` the cell is written with
the parameterized origin of the result, the addition; and for the root lambda
`λp. (5)`, whose result has an origin that is not parameterized, the cell is
written with null. -/
theorem partial_origin_not_written_on_early_return :
    ex_c5.parameterized = false ∧
    btor_beta_reduce_partial 4 freeExt btor_p5 ex_c5.ref (some (some ex_p8))
      = .done { result := ex_c5.ref, btor := btor_p5, parameterized := some (some ex_p8),
                cond_sel1 := none, cond_sel2 := none } ∧
    (∃ ret, btor_beta_reduce_partial 4 freeExt btor_p5 ex_add_p5.ref (some (some ex_p8))
        = .done ret ∧ ret.parameterized = some (some ex_add_p5)) ∧
    (∃ ret, btor_beta_reduce_partial 4 freeExt btor_p5 ex_const_lambda.ref
        (some (some ex_p8)) = .done ret ∧ ret.result = ex_t5.ref ∧
      ret.parameterized = some none) :=
  ⟨rfl, rfl, ⟨_, rfl, rfl⟩, ⟨_, rfl, rfl, rfl⟩⟩

/-- C20 (counterexample). With rewrite level 0 at entry the level is not
pinned to 1: the partial reduction of `add (p, 5)` under `p = 5` calls the
constructor of the addition with rewrite level 0. -/
theorem partial_rewrite_level_counterexample :
    ∃ ret, btor_beta_reduce_partial 4 freeExt { btor_p5 with rewrite_level := 0 }
        ex_add_p5.ref none = .done ret ∧
      ret.btor.log = [Event.rewrite .add 0, Event.visit ex_add_p5, Event.visit ex_p8,
        Event.visit ex_t5, Event.visit ex_add_p5] ∧
      ret.btor.rewrite_level = 0 :=
  ⟨_, rfl, rfl, rfl⟩

/-- C20 (amended). Partial reduction pins a positive rewrite level
temporarily. For every rewrite level at entry and every call of
`btor_beta_reduce_partial_aux` (so of `partial` and of `partial_collect`) that
returns: every constructor call made during the call runs with rewrite level 1
when the level at entry is positive, and with the level at entry when that is
0 (or negative); on return the rewrite level equals its value at entry. The
log on return is the log at entry with the events of the call in front. -/
theorem partial_pins_rewrite_level (fuel : Nat) (env : Ext) (btor : Btor) (exp : Ref)
    (parameterized : Option (Option BtorNode))
    (cond_sel1 cond_sel2 : Option (PtrHashTable BtorParamCacheTuple Ref)) (ret : PartialReturn)
    (h : btor_beta_reduce_partial_aux fuel env btor exp parameterized cond_sel1 cond_sel2
      = .done ret) :
    ret.btor.rewrite_level = btor.rewrite_level ∧
    ∃ evs, ret.btor.log = evs ++ btor.log ∧
      ∀ k l, Event.rewrite k l ∈ evs →
        l = if btor.rewrite_level > 0 then 1 else btor.rewrite_level := by
  unfold btor_beta_reduce_partial_aux at h
  split at h
  · cases h
  · split at h
    · cases h
    · split at h
      · cases h
        exact ⟨rfl, [], rfl, by simp⟩
      · simp only at h
        split at h
        · cases h
        · cases h
        · rename_i s hs
          obtain ⟨-, ⟨evs, he1, he2⟩, -, -⟩ := partial_loop_frame env fuel _ _ hs
          split at h
          · cases h
            refine ⟨rfl, evs, ?_, ?_⟩
            · simp only [he1, partial_init]
              split <;> rfl
            · intro k l hmem
              have := he2 k l hmem
              simp only [partial_init] at this
              rw [this]
              split <;> rfl
          · cases h

/-- C20 (witness). Rewrite level 3 at entry: the addition is rebuilt with
level 1 and the level is 3 again on return. -/
theorem partial_pins_rewrite_level_witness :
    ∃ ret, btor_beta_reduce_partial_aux 4 freeExt btor_p5 ex_add_p5.ref none none none
        = .done ret ∧
      ret.btor.log = [Event.rewrite .add 1, Event.visit ex_add_p5, Event.visit ex_p8,
        Event.visit ex_t5, Event.visit ex_add_p5] ∧
      ret.btor.rewrite_level = btor_p5.rewrite_level ∧
      ∃ evs, ret.btor.log = evs ++ btor_p5.log ∧
        ∀ k l, Event.rewrite k l ∈ evs →
          l = if btor_p5.rewrite_level > 0 then 1 else btor_p5.rewrite_level :=
  ⟨_, rfl, rfl,
    partial_pins_rewrite_level 4 freeExt btor_p5 ex_add_p5.ref none none none _ rfl⟩

/-- C21 (counterexample). The bound 0 is not rejected: `bounded` with bound 0
on `(λp. p) (5)` passes the precondition checks (`bound >= 0`, and
`bound == 0 || mode == BETA_RED_BOUNDED`), runs the loop and returns the
constant 5. -/
theorem bounded_accepts_bound_zero :
    ∃ b, btor_beta_reduce_bounded 10 freeExt btor0 ex_id_apply.ref 0 = .done (ex_c5.ref, b) :=
  ⟨_, rfl⟩

/-- C21 (amended). A negative bound is a contract violation, the bound 0 is
not: for every expression, every solver state and every fuel, `bounded` with
a bound below 0 aborts on the precondition check `bound >= 0` before the loop
is entered and returns no node; with a bound of at least 0 the precondition
checks pass and the loop is entered (with no fuel the outcome is that the
fuel ran out, not an abort). -/
theorem bounded_rejects_negative_bound (fuel : Nat) (env : Ext) (btor : Btor) (e : Ref)
    (bound : Int) :
    (bound < 0 → btor_beta_reduce_bounded fuel env btor e bound = .abort) ∧
    (0 ≤ bound → btor_beta_reduce_bounded 0 env btor e bound = .out_of_fuel) := by
  constructor
  · intro h
    have hb : (decide (bound ≥ 0)) = false := by simp; omega
    simp [btor_beta_reduce_bounded, btor_beta_reduce, BETA_RED_BOUNDED, BETA_RED_FULL,
      BETA_RED_LAMBDA_CHAINS, hb]
  · intro h
    have hb : (decide (bound ≥ 0)) = true := by simp; omega
    simp [btor_beta_reduce_bounded, btor_beta_reduce, BETA_RED_BOUNDED, BETA_RED_FULL,
      BETA_RED_LAMBDA_CHAINS, hb, beta_reduce_loop, beta_reduce_init]

/-- C21 (witness). The bound -1 aborts, also with fuel; the bound 0 does
not abort on the precondition checks. -/
theorem bounded_rejects_negative_bound_witness :
    btor_beta_reduce_bounded 10 freeExt btor0 ex_id_apply.ref (-1) = .abort ∧
    btor_beta_reduce_bounded 0 freeExt btor0 ex_id_apply.ref 0 = .out_of_fuel :=
  ⟨(bounded_rejects_negative_bound 10 freeExt btor0 ex_id_apply.ref (-1)).1 (by decide),
    (bounded_rejects_negative_bound 0 freeExt btor0 ex_id_apply.ref 0).2 (by decide)⟩

/-- C22. The function `btor_assign_param` pushes one binding. Let `lambda` be
a regular reference to a lambda whose first child `param` is a regular
reference. If the width of the argument equals the width of the parameter,
`btor_assign_param` returns, the current binding of the parameter is the
argument, the binding stack of the parameter is the old stack with the
argument on top, the binding stack of every other node is unchanged, and
cache, marks and rewrite level are as before. If the widths differ, the call
aborts on its precondition. -/
theorem assign_pushes_one_binding (btor : Btor) (lambda arg param : Ref)
    (hreg : lambda.regular = true) (hlam : lambda.node.BTOR_IS_LAMBDA_NODE = true)
    (hpar : lambda.node.e.head? = some param) (hpreg : param.regular = true) :
    (arg.node.len = param.node.len →
      ∃ btor1, btor_assign_param btor lambda arg = some btor1 ∧
        btor1.assigned_exp param.node = arg :: btor.assigned_exp param.node ∧
        (param.node.BTOR_IS_PARAM_NODE = true →
          btor_param_cur_assignment btor1 param = some (some arg)) ∧
        (∀ q, q ≠ param.node → btor1.assigned_exp q = btor.assigned_exp q) ∧
        btor1.cache = btor.cache ∧ btor1.beta_mark = btor.beta_mark ∧
        btor1.rewrite_level = btor.rewrite_level) ∧
    (arg.node.len ≠ param.node.len → btor_assign_param btor lambda arg = none) := by
  constructor
  · intro hlen
    refine ⟨{ btor with
        assigned_exp :=
          Function.update btor.assigned_exp param.node (arg :: btor.assigned_exp param.node)
        log := Event.assign param.node arg :: btor.log },
      by simp [btor_assign_param, hreg, hlam, hpar, hpreg, hlen], ?_, ?_, ?_, rfl, rfl, rfl⟩
    · simp
    · intro hp
      simp [btor_param_cur_assignment, hpreg, hp]
    · intro q hq
      simp [Function.update, hq]
  · intro hlen
    simp [btor_assign_param, hreg, hlam, hpar, hpreg, hlen]

/-- C22 (witness). The constant 5 is pushed on the binding stack of `p`,
which holds one binding already; the constant of width 3 is rejected. -/
theorem assign_pushes_one_binding_witness :
    (∃ btor1, btor_assign_param btor_p5 ex_id_lambda.ref ex_t7.ref = some btor1 ∧
        btor1.assigned_exp ex_p8.ref.node = ex_t7.ref :: btor_p5.assigned_exp ex_p8.ref.node ∧
        (ex_p8.ref.node.BTOR_IS_PARAM_NODE = true →
          btor_param_cur_assignment btor1 ex_p8.ref = some (some ex_t7.ref)) ∧
        (∀ q, q ≠ ex_p8.ref.node → btor1.assigned_exp q = btor_p5.assigned_exp q) ∧
        btor1.cache = btor_p5.cache ∧ btor1.beta_mark = btor_p5.beta_mark ∧
        btor1.rewrite_level = btor_p5.rewrite_level) ∧
    btor_assign_param btor_p5 ex_id_lambda.ref ex_c1.ref = none :=
  ⟨(assign_pushes_one_binding btor_p5 ex_id_lambda.ref ex_t7.ref ex_p8.ref rfl rfl rfl rfl).1
      (by decide),
    (assign_pushes_one_binding btor_p5 ex_id_lambda.ref ex_c1.ref ex_p8.ref rfl rfl rfl rfl).2
      (by decide)⟩

/-- C23. The function `btor_assign_args` zips the chain with the arguments in
forward positional order. Let `L` be the head of a well-formed chain with the
pairwise distinct parameters `p1 … pn` (outermost first) and `args` a
regular reference to an args node that holds `a1 … ak`. If `k ≤ n` and the
width of every `a_i` is the width of `p_i`, then `btor_assign_args` returns,
the binding stack of `p_i` is its old stack with `a_i` on top for every
`i ≤ k` (so the current binding of `p_i` is `a_i` and exactly one binding was
pushed), and the binding stack of every other node, the parameters
`p_{k+1} … pn` included, is unchanged, as are cache, marks and rewrite level.
If `k > n` the call aborts on its precondition. -/
theorem assign_args_zips_chain (btor : Btor) (L : BtorNode) (args : Ref)
    (hreg : args.regular = true) (hargs : args.node.BTOR_IS_ARGS_NODE = true)
    (hwf : chain_wf L = true) (hnd : (chain_params L).Nodup) :
    (args.node.e.length ≤ (chain_params L).length →
      List.Forall₂ (fun a p => a.node.len = p.len) args.node.e
        ((chain_params L).take args.node.e.length) →
      ∃ btor1, btor_assign_args btor L.ref args = some btor1 ∧
        (∀ i p a, (chain_params L).get? i = some p → args.node.e.get? i = some a →
          btor1.assigned_exp p = a :: btor.assigned_exp p) ∧
        (∀ q, q ∉ (chain_params L).take args.node.e.length →
          btor1.assigned_exp q = btor.assigned_exp q) ∧
        btor1.cache = btor.cache ∧ btor1.beta_mark = btor.beta_mark ∧
        btor1.rewrite_level = btor.rewrite_level) ∧
    ((chain_params L).length < args.node.e.length →
      btor_assign_args btor L.ref args = none) := by
  have hlam : L.BTOR_IS_LAMBDA_NODE = true := by
    obtain ⟨i, p, body, v1, rfl, hk, -⟩ := chain_wf_shape L hwf
    simp [BtorNode.BTOR_IS_LAMBDA_NODE, hk]
  have hunf : ∀ b, btor_assign_args b L.ref args = btor_assign_args_loop b L args.node.e := by
    intro b
    have hinv : args.inv = false := by simpa [Ref.regular] using hreg
    simp [btor_assign_args, hargs, hlam, BtorNode.ref, Ref.regular, hinv]
  constructor
  · intro hlen hw
    rw [hunf]
    exact assign_args_loop_zip L args.node.e btor hwf hnd hlen
      (forall₂_take_get _ _ _ hw)
  · intro hlen
    rw [hunf]
    exact assign_args_loop_too_many L args.node.e btor hwf hlen

/-- C23 (witness). The chain `λp. λq. add (p, q)` on 3 bits: with the args
node `args (c1, c2)` both parameters are bound in order, with `args (c1)` only
`p` is bound, and `args (c1, c2, c1)` is rejected. -/
theorem assign_args_zips_chain_witness :
    (∃ btor1, btor_assign_args btor0 ex_chain_head.ref ex_args_c1c2.ref = some btor1 ∧
      btor1.assigned_exp ex_p3 = [ex_c1.ref] ∧ btor1.assigned_exp ex_q3 = [ex_c2.ref]) ∧
    (∃ btor1, btor_assign_args btor0 ex_chain_head.ref ex_args_c1.ref = some btor1 ∧
      btor1.assigned_exp ex_p3 = [ex_c1.ref] ∧ btor1.assigned_exp ex_q3 = []) ∧
    btor_assign_args btor0 ex_chain_head.ref ex_args_c1c2c1.ref = none :=
  have h2 := (assign_args_zips_chain btor0 ex_chain_head ex_args_c1c2.ref rfl rfl (by decide)
    (by decide)).1 (by decide)
    (List.Forall₂.cons (by decide) (List.Forall₂.cons (by decide) List.Forall₂.nil))
  have h1 := (assign_args_zips_chain btor0 ex_chain_head ex_args_c1.ref rfl rfl (by decide)
    (by decide)).1 (by decide) (List.Forall₂.cons (by decide) List.Forall₂.nil)
  ⟨⟨h2.choose, h2.choose_spec.1, h2.choose_spec.2.1 0 ex_p3 ex_c1.ref rfl rfl,
      h2.choose_spec.2.1 1 ex_q3 ex_c2.ref rfl rfl⟩,
    ⟨h1.choose, h1.choose_spec.1, h1.choose_spec.2.1 0 ex_p3 ex_c1.ref rfl rfl,
      h1.choose_spec.2.2.1 ex_q3 (by decide)⟩,
    (assign_args_zips_chain btor0 ex_chain_head ex_args_c1c2c1.ref rfl rfl (by decide)
      (by decide)).2 (by decide)⟩

/-- C24. The function `btor_unassign_params` pops one binding per level and
stops at the first empty level. Let `L` be the head of a well-formed chain
with pairwise distinct parameters, and let the bound prefix be the leading
levels whose parameter has a non-empty binding stack: the parameters of the
chain split into the bound prefix and a rest that is empty or starts with a
parameter whose stack is empty. Then `btor_unassign_params` returns, the top
binding of every parameter of the bound prefix has been removed (its stack
was not empty and is now its tail), the binding stack of every other node,
the levels after the prefix included, is unchanged, and cache, marks, rewrite
level and log are as before. -/
theorem unassign_pops_bound_levels (btor : Btor) (L : BtorNode)
    (hwf : chain_wf L = true) (hnd : (chain_params L).Nodup) :
    ∃ btor1, btor_unassign_params btor L.ref = some btor1 ∧
      (∃ rest, chain_params L = bound_levels btor.assigned_exp L ++ rest ∧
        ∀ p, rest.head? = some p → btor.assigned_exp p = []) ∧
      (∀ q, q ∈ bound_levels btor.assigned_exp L →
        btor.assigned_exp q ≠ [] ∧ btor1.assigned_exp q = (btor.assigned_exp q).tail) ∧
      (∀ q, q ∉ bound_levels btor.assigned_exp L →
        btor1.assigned_exp q = btor.assigned_exp q) ∧
      btor1.cache = btor.cache ∧ btor1.beta_mark = btor.beta_mark ∧
      btor1.rewrite_level = btor.rewrite_level ∧ btor1.log = btor.log := by
  obtain ⟨i, p, body, v1, rfl, hk, hp⟩ := chain_wf_shape L hwf
  have hloop := unassign_loop_spec _ btor.assigned_exp hwf hnd
  obtain ⟨rest, h1, h2, h3⟩ :=
    takeWhile_split (fun p => !(btor.assigned_exp p).isEmpty) (chain_params (.n2 i p false body v1))
  refine ⟨{ btor with
      assigned_exp := pop_bindings btor.assigned_exp
        (bound_levels btor.assigned_exp (.n2 i p false body v1)) }, ?_, ⟨rest, h1, ?_⟩, ?_, ?_,
    rfl, rfl, rfl, rfl⟩
  · simp only [btor_unassign_params, BtorNode.ref, Ref.regular, BtorNode.BTOR_IS_LAMBDA_NODE,
      BtorNode.kind, info_n2, hk, BtorNode.e, List.head?_cons, hp, hloop]
    simp
  · intro q hq
    have := h3 q hq
    simpa using this
  · intro q hq
    have hne := h2 q hq
    refine ⟨?_, by simp only [pop_bindings, hq, if_true]⟩
    intro h
    simp [h] at hne
  · intro q hq
    simp only [pop_bindings, hq, if_false]

/-- C24 (witness). The chain `λp. λq. add (p, q)`: with `p` bound twice and
`q` once, one binding is popped from each; with only `q` bound nothing is
popped, since the first level is empty. -/
theorem unassign_pops_bound_levels_witness :
    (∃ btor1, btor_unassign_params btor_pq ex_chain_head.ref = some btor1 ∧
      btor1.assigned_exp ex_p3 = [ex_c2.ref] ∧ btor1.assigned_exp ex_q3 = []) ∧
    (∃ btor1, btor_unassign_params btor_q ex_chain_head.ref = some btor1 ∧
      btor1.assigned_exp ex_p3 = [] ∧ btor1.assigned_exp ex_q3 = [ex_c2.ref]) :=
  have h1 := unassign_pops_bound_levels btor_pq ex_chain_head (by decide) (by decide)
  have h2 := unassign_pops_bound_levels btor_q ex_chain_head (by decide) (by decide)
  ⟨⟨h1.choose, h1.choose_spec.1, (h1.choose_spec.2.2.1 ex_p3 (by decide)).2,
      (h1.choose_spec.2.2.1 ex_q3 (by decide)).2⟩,
    ⟨h2.choose, h2.choose_spec.1, h2.choose_spec.2.2.2.1 ex_p3 (by decide),
      h2.choose_spec.2.2.2.1 ex_q3 (by decide)⟩⟩

/-- C25 (counterexample). The first full reduction of `(λp. p) (5)` with an
empty cross-call cache returns the constant 5 and stores the entry
`(λp. p, args (5)) → 5`: after the call the constant has two more references
than at entry (the returned one and the one of the cache), and the lambda and
the args node, which are not returned, have one more each. -/
theorem first_full_reduction_keeps_cache_references :
    (∃ b, btor_beta_reduce_full 10 freeExt btor0 ex_id_apply.ref = .done (ex_c5.ref, b) ∧
      b.cache = some [((ex_id_lambda.ref, ex_args_c5.ref), ex_c5.ref)]) ∧
    btor_beta_reduce_refs 10 freeExt btor0 ex_id_apply.ref BETA_RED_FULL 0 (fun _ => 0) ex_c5
      = 2 ∧
    btor_beta_reduce_refs 10 freeExt btor0 ex_id_apply.ref BETA_RED_FULL 0 (fun _ => 0)
      ex_id_lambda = 1 ∧
    btor_beta_reduce_refs 10 freeExt btor0 ex_id_apply.ref BETA_RED_FULL 0 (fun _ => 0)
      ex_args_c5 = 1 :=
  ⟨⟨_, rfl, rfl⟩, by decide, by decide, by decide⟩

/-- C25 (amended). Reference counts are followed on a table beside the state
of the reducer: every `btor_copy_exp` and every reference returned by a
constructor adds one, every `btor_release_exp` takes one; references that
constructors take for the children of new nodes are not counted, and the
references that a parameter-cache tuple holds are a parameter `tr` of the
counts of the partial reducer. Let every node of the expression `e` have the
arity of its kind. A call of `btor_beta_reduce` (full, chains or bounded) or of
`btor_apply_and_reduce` on `e` that returns, with no simplification pending
in `e` or on the reference `e`, leaves every count as it was at entry, plus
one for the returned node, plus the references of the entries that the call
has added to the cross-call cache (one for the lambda, one for the args node
and one for the result of each entry); when the cache after the call is the
cache at entry, as it is in the chain and bounded modes, the count of the
returned node is one higher and every other count is as at entry. A call of
`btor_beta_reduce_partial` that returns leaves the count of the returned node
one higher and every other count as at entry. A call of
`btor_beta_reduce_partial_collect` that returns leaves every count as at
entry, plus one for the returned node, plus the references of the tuples that
the call has inserted as keys into the two collection tables; when the tuples
hold no reference, the count of the returned node is one higher and every
other count is as at entry. -/
theorem refs_balanced_up_to_cache (fuel : Nat) (env : Ext) (btor : Btor) (e : Ref)
    (rc : RefCount) (hk : kinds_ok e.node = true) :
    (settled env e.node = true → simplify_cur env e = e →
      ∀ (mode bound : Int) (result : Ref) (btor1 : Btor),
        btor_beta_reduce fuel env btor e mode bound = .done (result, btor1) →
        (∀ n, btor_beta_reduce_refs fuel env btor e mode bound rc n
          = rc n + (if n = result.node then 1 else 0)
            + (cache_held btor1.cache n - cache_held btor.cache n)) ∧
        (btor1.cache = btor.cache →
          ∀ n, btor_beta_reduce_refs fuel env btor e mode bound rc n
            = rc n + (if n = result.node then 1 else 0)) ∧
        (mode ≠ BETA_RED_FULL → btor1.cache = btor.cache)) ∧
    (settled env e.node = true → simplify_cur env e = e →
      ∀ (args : List Ref) (resultA : Ref) (btorA : Btor),
        btor_apply_and_reduce fuel env btor args e = .done (resultA, btorA) →
        ∀ n, btor_apply_and_reduce_refs fuel env btor args e rc n
          = rc n + (if n = resultA.node then 1 else 0)
            + (cache_held btorA.cache n - cache_held btor.cache n)) ∧
    (∀ (tr : TupleRefs) (par : Option (Option BtorNode)) (ret : PartialReturn),
      btor_beta_reduce_partial fuel env btor e par = .done ret →
      ∀ n, btor_beta_reduce_partial_refs tr fuel env btor e rc n
        = rc n + (if n = ret.result.node then 1 else 0)) ∧
    (∀ (tr : TupleRefs) (cs1 cs2 : Option (PtrHashTable BtorParamCacheTuple Ref))
      (ret : PartialReturn),
      btor_beta_reduce_partial_collect fuel env btor e cs1 cs2 = .done ret →
      ∀ n, btor_beta_reduce_partial_collect_refs tr fuel env btor e cs1 cs2 rc n
        = rc n + (if n = ret.result.node then 1 else 0)
          + (sel_held tr ret.cond_sel1 n - sel_held tr cs1 n)
          + (sel_held tr ret.cond_sel2 n - sel_held tr cs2 n)) ∧
    (∀ (cs1 cs2 : Option (PtrHashTable BtorParamCacheTuple Ref)) (ret : PartialReturn),
      btor_beta_reduce_partial_collect fuel env btor e cs1 cs2 = .done ret →
      ∀ n, btor_beta_reduce_partial_collect_refs (fun _ => []) fuel env btor e cs1 cs2 rc n
        = rc n + (if n = ret.result.node then 1 else 0)) := by
  refine ⟨?_, ?_, ?_, ?_, ?_⟩
  · intro hs he mode bound result btor1 h
    refine ⟨fun n => reduce_ledger fuel env btor btor1 e result mode bound rc hs he hk h n, ?_,
      fun hmode => reduce_cache fuel env btor btor1 e result mode bound hmode h⟩
    intro hc n
    rw [reduce_ledger fuel env btor btor1 e result mode bound rc hs he hk h n, hc]
    omega
  · intro hs he args resultA btorA hA n
    exact apply_and_reduce_ledger fuel env btor btorA args e resultA rc hs he hk hA n
  · intro tr par ret h n
    exact partial_ledger tr fuel env btor e par ret rc hk h n
  · intro tr cs1 cs2 ret h n
    exact partial_collect_ledger tr fuel env btor e cs1 cs2 ret rc hk h n
  · intro cs1 cs2 ret h n
    rw [partial_collect_ledger (fun _ => []) fuel env btor e cs1 cs2 ret rc hk h n,
      sel_held_nil, sel_held_nil, sel_held_nil, sel_held_nil]
    omega

/-- C25 (witness). Bounded reduction with bound 2 of `(λp. p) (5)` returns
the constant 5 and leaves the cache as it is: the count of the constant is one
higher and the counts of the lambda, the args node and the apply are as at
entry. Partial reduction of `ite (ult (p, 7), add (p, 5), mul (p, 7))` under
`p = 5`, with the condition evaluated to 1, returns the rebuilt then-branch
with one more reference and every other count as at entry, also when the
selector is collected into tables whose tuples hold no reference. -/
theorem refs_balanced_up_to_cache_witness :
    (settled freeExt ex_id_apply = true ∧ kinds_ok ex_id_apply = true ∧
      (∃ b, btor_beta_reduce 10 freeExt btor0 ex_id_apply.ref BETA_RED_BOUNDED 2
          = .done (ex_c5.ref, b) ∧ b.cache = btor0.cache) ∧
      ∀ n, btor_beta_reduce_refs 10 freeExt btor0 ex_id_apply.ref BETA_RED_BOUNDED 2
        (fun _ => 0) n = 0 + (if n = ex_c5 then 1 else 0)) ∧
    (kinds_ok ex_ite = true ∧
      (∃ ret, btor_beta_reduce_partial 20 (evalExt ex_cond ['1']) btor_p5 ex_ite.ref none
          = .done ret ∧
        ∀ (tr : TupleRefs) (n : BtorNode),
          btor_beta_reduce_partial_refs tr 20 (evalExt ex_cond ['1']) btor_p5 ex_ite.ref
            (fun _ => 0) n = 0 + (if n = ret.result.node then 1 else 0)) ∧
      (∃ ret, btor_beta_reduce_partial_collect 20 (evalExt ex_cond ['1']) btor_p5 ex_ite.ref
          (some []) (some []) = .done ret ∧
        ∀ n : BtorNode,
          btor_beta_reduce_partial_collect_refs (fun _ => []) 20 (evalExt ex_cond ['1'])
            btor_p5 ex_ite.ref (some []) (some []) (fun _ => 0) n
            = 0 + (if n = ret.result.node then 1 else 0))) :=
  ⟨⟨by decide, by decide, ⟨_, rfl, rfl⟩,
      (refs_balanced_up_to_cache 10 freeExt btor0 ex_id_apply.ref (fun _ => 0)
        (by decide)).1 (by decide) rfl BETA_RED_BOUNDED 2 ex_c5.ref _ rfl |>.2.1 rfl⟩,
    ⟨by decide,
      ⟨_, rfl, fun tr n =>
        (refs_balanced_up_to_cache 20 (evalExt ex_cond ['1']) btor_p5 ex_ite.ref (fun _ => 0)
          (by decide)).2.2.1 tr none _ rfl n⟩,
      ⟨_, rfl, fun n =>
        (refs_balanced_up_to_cache 20 (evalExt ex_cond ['1']) btor_p5 ex_ite.ref (fun _ => 0)
          (by decide)).2.2.2.2 (some []) (some []) _ rfl n⟩⟩⟩

/-- C26. The branch of the lambda rebuild that is guarded by `assert (0)` is
entered. Full reduction of the root lambda `λp. (λq. q) (p)`, with no binding
for `p`: after eleven iterations the lambda is on top of the work stack with
mark 1 and the results of its body and of its parameter are on the argument
stack, both the parameter `p`; the parameter came back unchanged, the body
`(λq. q) (p)` was reduced to `p`, which is parameterized and differs from the
original body, so the rebuild takes the second branch, `assert (0)`, and the
call aborts. -/
theorem rebuild_lambda_dead_branch_entered :
    (∃ s, run_steps freeExt BETA_RED_FULL 0 11 (beta_reduce_init btor0 ex_outer_lambda.ref)
        = some s ∧
      s.work_stack = [(ex_outer_lambda.ref, none)] ∧
      PtrHashTable.find s.cur_scope ex_outer_lambda = some 1 ∧
      s.arg_stack = [ex_p8.ref, ex_p8.ref] ∧
      s.btor.beta_mark ex_outer_lambda = 0 ∧
      rebuild_lambda ex_outer_lambda [ex_p8.ref, ex_p8.ref] { s with arg_stack := [] } = none ∧
      beta_reduce_step freeExt BETA_RED_FULL 0 s = none) ∧
    ex_outer_lambda.e = [ex_p8.ref, ex_inner_apply.ref] ∧
    ex_p8.ref ≠ ex_inner_apply.ref ∧ ex_p8.parameterized = true ∧
    btor_beta_reduce_full 20 freeExt btor0 ex_outer_lambda.ref = .abort :=
  ⟨⟨_, rfl, rfl, rfl, rfl, rfl, rfl, rfl⟩, rfl, by decide, rfl, rfl⟩

/-- C27. Rebuild keeps child order. The argument stack is listed from its
top. Both reducers push the children of a node on the work stack after the
node itself, child 0 first, so the last child is visited first and child 0
last, and the result of child 0 ends on top of the argument stack: at the
post-order visit the top `arity` entries are `R (c0), R (c1), …`.
For an operation (slice, binary operation, conditional, args node of arity
1, 2 or 3) with the results `rs` on top of the argument stack, the rebuild
of `btor_beta_reduce` and of the partial reducer calls the constructor of the
kind on `rs` in this order (`construct` is the table `mk_op (r0, r1)`,
`mk_ite (r0, r1, r2)`, `mk_args (r0, …)`). For an apply with the result `rf`
of the function child on top of the result `ra` of the args child, `rf` a
function node, both call `btor_apply_exp_node (rf, ra)`; the args child is
the last child, so it is visited before the function child. For the
full/bounded/chain reducer the run of a term without lambda and apply that
mentions a parameter pushes `construct` of the results that the runs of its
children push, in the order of the children. -/
theorem rebuild_keeps_child_order (env : Ext) (mode bound : Int) (cur : Ref) :
    (∀ (par : Option BtorNode) (s : LoopState), s.btor.beta_mark cur.node = 0 →
      cur.node.BTOR_IS_LAMBDA_NODE = false → cur.node.BTOR_IS_PARAM_NODE = false →
      (cur.node.parameterized = true
        ∨ (cur.node.lambda_below = true ∧ mode ≠ BETA_RED_LAMBDA_CHAINS)) →
      expand env mode bound cur par s =
        some { s with
          cur_scope := PtrHashTable.set s.cur_scope cur.node 1
          work_stack :=
            ((cur.node.e.map env.simplify).reverse.map fun c => (c, some cur.node))
              ++ (cur, par) :: s.work_stack }) ∧
    (∀ (par : Option BtorNode) (s : PartialState),
      (partial_expand cur par s).stack =
        (cur.node.e.reverse.map fun c => (c, some cur.node)) ++ (cur, par) :: s.stack) ∧
    (op_shape cur.node = true → ∀ (rs rest : List Ref), rs.length = cur.node.arity →
      (∀ s : LoopState, s.arg_stack = rs ++ rest →
        rebuild env mode cur.node s =
          some (construct env cur.node rs,
            { s with
              arg_stack := rest
              btor := { s.btor with log := Event.construct cur.node.kind :: s.btor.log } })) ∧
      (∀ (s : PartialState) (os prest : List BtorNode), cur.node.parameterized = true →
        os.length = cur.node.arity → s.arg_stack = rs ++ rest → s.param_stack = os ++ prest →
        PtrHashTable.find s.cache (btor_new_param_cache_tuple s.btor cur.node) = none →
        partial_rebuild env cur s =
          some { s with
            btor := { s.btor with
              beta_mark := Function.update s.btor.beta_mark cur.node 2
              log := .rewrite cur.node.kind s.btor.rewrite_level :: s.btor.log }
            arg_stack := cur.cond_invert (construct env cur.node rs) :: rest
            param_stack := cur.node :: prest
            cache := PtrHashTable.set s.cache (btor_new_param_cache_tuple s.btor cur.node)
              (construct env cur.node rs, cur.node) })) ∧
    (cur.node.kind = .apply → cur.node.arity = 2 → ∀ (rf ra : Ref) (rest : List Ref),
      rf.node.BTOR_IS_FUN_NODE = true →
      (∀ (s : LoopState) (fn : Ref), cur.node.e.head? = some fn →
        s.arg_stack = rf :: ra :: rest → ra.node.BTOR_IS_ARGS_NODE = true →
        (s.btor.cache = none ∨ mode ≠ BETA_RED_FULL) →
        rebuild env mode cur.node s =
          some (env.apply_exp_node rf ra,
            { s with
              arg_stack := rest
              btor := { s.btor with log := Event.construct .apply :: s.btor.log } })) ∧
      (∀ (s : PartialState) (o0 o1 : BtorNode) (prest : List BtorNode),
        cur.node.parameterized = true → s.arg_stack = rf :: ra :: rest →
        s.param_stack = o0 :: o1 :: prest →
        PtrHashTable.find s.cache (btor_new_param_cache_tuple s.btor cur.node) = none →
        partial_rebuild env cur s =
          some { s with
            btor := { s.btor with
              beta_mark := Function.update s.btor.beta_mark cur.node 2
              log := .rewrite .apply s.btor.rewrite_level :: s.btor.log }
            arg_stack := cur.cond_invert (env.apply_exp_node rf ra) :: rest
            param_stack := cur.node :: prest
            cache := PtrHashTable.set s.cache (btor_new_param_cache_tuple s.btor cur.node)
              (env.apply_exp_node rf ra, cur.node) })) ∧
    (simple env cur.node = true → has_param cur.node = true → (∀ i, cur.node ≠ .n0 i) →
      Reduces env mode bound cur.node ∧
      (∀ c, c ∈ cur.node.e → Reduces env mode bound c.node) ∧
      ∀ σ, substitute env σ cur.node =
        construct env cur.node
          (cur.node.e.map fun c => c.cond_invert (substitute env σ c.node))) := by
  refine ⟨?_, ?_, ?_, ?_, ?_⟩
  · intro par s hbm hl hp hflag
    exact expand_push env mode bound cur par s hbm hl hp hflag
  · intro par s
    rfl
  · intro hshape rs rest hlen
    refine ⟨fun s hst => rebuild_construct env mode cur.node s rs rest hshape hlen hst, ?_⟩
    intro s os prest hpar hlen2 hst hps hmemo
    exact partial_rebuild_construct env cur s rs rest os prest hshape hpar hlen hlen2 hst hps
      hmemo
  · intro hk har rf ra rest hrf
    refine ⟨fun s fn hfn hst hra hc =>
      rebuild_apply_order env mode cur.node s fn rf ra rest hk har hfn hst hrf hra hc, ?_⟩
    intro s o0 o1 prest hpar hst hps hmemo
    exact partial_rebuild_apply_order env cur s rf ra rest o0 o1 prest hk har hpar hst hps hrf
      hmemo
  · intro hs hp hn0
    obtain ⟨hshape, hch⟩ := simple_children env cur.node hs hp hn0
    refine ⟨reduces_simple env mode bound cur.node hs, ?_, ?_⟩
    · intro c hc
      exact reduces_simple env mode bound c.node (hch c hc).2
    · intro σ
      exact substitute_op env σ cur.node hp hshape

/-- C27 (witness). The node `add (p, 5)` with `p` bound to 5: the first visit
pushes the constant child above the parameter child, so the parameter child is
visited last; with the results `5` (of child 0) and `5` (of child 1) on top of
the argument stack the rebuild calls `add_exp` on them in this order, and the
run pushes `add_exp (5, 5)`. -/
theorem rebuild_keeps_child_order_witness :
    op_shape ex_add_p5 = true ∧ simple freeExt ex_add_p5 = true ∧
    has_param ex_add_p5 = true ∧
    expand freeExt BETA_RED_FULL 0 ex_add_p5.ref none (beta_reduce_init btor_p5 ex_add_p5.ref) =
      some { beta_reduce_init btor_p5 ex_add_p5.ref with
        cur_scope := [(ex_add_p5, 1)]
        work_stack := [(ex_t5.ref, some ex_add_p5), (ex_p8.ref, some ex_add_p5),
          (ex_add_p5.ref, none), (ex_add_p5.ref, none)] } ∧
    rebuild freeExt BETA_RED_FULL ex_add_p5
        { beta_reduce_init btor_p5 ex_add_p5.ref with arg_stack := [ex_c5.ref, ex_t5.ref] } =
      some (freeExt.add_exp ex_c5.ref ex_t5.ref,
        { beta_reduce_init btor_p5 ex_add_p5.ref with
          arg_stack := []
          btor := { btor_p5 with log := [Event.construct .add] } }) ∧
    substitute freeExt btor_p5.assigned_exp ex_add_p5 =
      freeExt.add_exp ex_c5.ref ex_t5.ref :=
  ⟨rfl, rfl, rfl,
    (rebuild_keeps_child_order freeExt BETA_RED_FULL 0 ex_add_p5.ref).1 none
      (beta_reduce_init btor_p5 ex_add_p5.ref) rfl rfl rfl (Or.inl rfl),
    ((rebuild_keeps_child_order freeExt BETA_RED_FULL 0 ex_add_p5.ref).2.2.1 rfl
      [ex_c5.ref, ex_t5.ref] [] rfl).1
      { beta_reduce_init btor_p5 ex_add_p5.ref with arg_stack := [ex_c5.ref, ex_t5.ref] } rfl,
    ((rebuild_keeps_child_order freeExt BETA_RED_FULL 0 ex_add_p5.ref).2.2.2.2 rfl rfl
      (fun i h => by cases h)).2.2 btor_p5.assigned_exp⟩

/-- C28. A result of the scope-local memo is reused under other bindings.
Full reduction of `(λp. and ((λq. add (p, q)) (5), (λq. add (p, q)) (9))) (3)`,
where the lambda `λq. add (p, q)` is parameterized and so opens no scope.
After twelve iterations `q` is bound to 9 and the lambda has no memo entry;
the next iteration stores `add (3, 9)` for it and unbinds `q`. After sixteen
iterations, in the same scope, the lambda is on top of the work stack again,
as the function of the apply to 5, with `args (5)` on top of the argument
stack and no binding for `q`; the iteration takes `add (3, 9)` from the memo
and pushes it. The call returns `and (add (3, 9), add (3, 9))`: the first
operand is not `add (3, 5)`. -/
theorem scope_memo_reused_under_other_binding :
    (∃ s12 s13, run_steps freeExt BETA_RED_FULL 0 12
          (beta_reduce_init btor0 ex_twice_apply.ref) = some s12 ∧
      beta_reduce_step freeExt BETA_RED_FULL 0 s12 = some s13 ∧
      s12.work_stack.head? = some (ex_shared_lambda.ref, some ex_apply_second) ∧
      s12.btor.assigned_exp ex_q8 = [ex_c9.ref] ∧
      PtrHashTable.find s12.cur_scope_results ex_shared_lambda = none ∧
      PtrHashTable.find s13.cur_scope_results ex_shared_lambda
        = some (freeExt.add_exp ex_c3v.ref ex_c9.ref) ∧
      s13.btor.assigned_exp ex_q8 = []) ∧
    (∃ s16 s17, run_steps freeExt BETA_RED_FULL 0 16
          (beta_reduce_init btor0 ex_twice_apply.ref) = some s16 ∧
      beta_reduce_step freeExt BETA_RED_FULL 0 s16 = some s17 ∧
      s16.work_stack.head? = some (ex_shared_lambda.ref, some ex_apply_first) ∧
      s16.arg_stack.head? = some ex_args_c5.ref ∧
      s16.scopes.length = 1 ∧ s16.cur_scope_lambda = some ex_twice_lambda ∧
      s16.btor.assigned_exp ex_q8 = [] ∧
      PtrHashTable.find s16.cur_scope ex_shared_lambda = some 2 ∧
      s17.arg_stack.head? = some (freeExt.add_exp ex_c3v.ref ex_c9.ref) ∧
      s17.btor.assigned_exp ex_q8 = []) ∧
    (∃ b, btor_beta_reduce_full 22 freeExt btor0 ex_twice_apply.ref
        = .done (freeExt.and_exp (freeExt.add_exp ex_c3v.ref ex_c9.ref)
            (freeExt.add_exp ex_c3v.ref ex_c9.ref), b)) ∧
    freeExt.add_exp ex_c3v.ref ex_c9.ref ≠ freeExt.add_exp ex_c3v.ref ex_c5.ref :=
  ⟨⟨_, _, rfl, rfl, rfl, rfl, rfl, rfl, rfl⟩,
    ⟨_, _, rfl, rfl, rfl, rfl, rfl, rfl, rfl, rfl, rfl, rfl⟩, ⟨_, rfl⟩, by decide⟩

/-- C29. Marks only move forward. One iteration of the worklist loop of
`btor_beta_reduce`, from any loop state `s`, has one of three effects on the
scope tables of marks: (a) the stack of saved tables is kept and every mark of
the current table is still present with a value that is not smaller; (b) the
current table is saved unchanged on the stack and a new table that holds the
mark 1 of the scope lambda only becomes the current one; (c) the current table
is deleted and the table saved last becomes the current one again, unchanged.
When the marks of all tables are 1 or 2 at the head of the loop they are 1 or
2 after any number of iterations, and this holds for every state reached from
the initial state of a call. The emit label `BETA_REDUCE_PUSH_ARG_STACK` is
reached with the mark 1 only: the iteration with the assertion
`mbucket->data.asInt != 2` removed (`beta_reduce_step_unchecked`) is the
iteration of the code, on every state. The visit of a node whose mark is 2 is
the revisit, which emits nothing and changes no table. -/
theorem marks_move_forward (env : Ext) (mode bound : Int) (s : LoopState) :
    (∀ s1, beta_reduce_step env mode bound s = some s1 →
      (s1.scopes = s.scopes ∧ MarksForward s.cur_scope s1.cur_scope) ∨
      (s1.scopes = s.cur_scope :: s.scopes ∧
        ∃ n, s1.cur_scope = [(n, 1)] ∧ s1.cur_scope_lambda = some n) ∨
      s.scopes = s1.cur_scope :: s1.scopes) ∧
    ((∀ t, t ∈ s.cur_scope :: s.scopes → MarksSettled t) →
      ∀ k s1, run_steps env mode bound k s = some s1 →
        ∀ t, t ∈ s1.cur_scope :: s1.scopes → MarksSettled t) ∧
    (∀ btor e k s1, run_steps env mode bound k (beta_reduce_init btor e) = some s1 →
      ∀ t, t ∈ s1.cur_scope :: s1.scopes → MarksSettled t) ∧
    beta_reduce_step_unchecked env mode bound s = beta_reduce_step env mode bound s ∧
    (∀ cur0 par w, s.work_stack = (cur0, par) :: w →
      PtrHashTable.find s.cur_scope (simplify_cur env cur0).node = some 2 →
      beta_reduce_step env mode bound s =
          revisit (simplify_cur env cur0)
            (({ s with work_stack := w } : LoopState).record
              (.visit (simplify_cur env cur0).node)) ∧
        ∀ s1, beta_reduce_step env mode bound s = some s1 →
          s1.cur_scope = s.cur_scope ∧ s1.scopes = s.scopes ∧
          s1.cur_scope_results = s.cur_scope_results ∧
          s1.scope_results = s.scope_results) := by
  refine ⟨?_, ?_, ?_, step_unchecked_eq env mode bound s, ?_⟩
  · intro s1 h
    rcases step_scope_effect env mode bound s s1 h with
      ⟨a1, -, -, a4⟩ | ⟨a1, -, n, a3, a4⟩ | ⟨a1, -⟩
    · refine Or.inl ⟨a1, ?_⟩
      rcases a4 with a | ⟨n, v, -, hle, a⟩
      · rw [a]; exact marksForward_refl _
      · rw [a]; exact marksForward_set _ n v hle
    · exact Or.inr (Or.inl ⟨a1, n, a3, a4⟩)
    · exact Or.inr (Or.inr a1)
  · intro hs k s1 h
    exact run_steps_settled env mode bound k s s1 h hs
  · intro btor e k s1 h
    refine run_steps_settled env mode bound k _ s1 h ?_
    intro t ht
    simp only [beta_reduce_init, List.mem_singleton] at ht
    subst ht
    intro m k hm
    simp [PtrHashTable.find] at hm
  · intro cur0 par w hw hf
    have hst := step_done env mode bound s cur0 _ par w hw rfl hf
    refine ⟨hst, ?_⟩
    intro s1 h
    rw [hst] at h
    obtain ⟨⟨c1, c2, -, -, -⟩, c6, c7, -, -⟩ := revisit_effect _ _ _ h
    exact ⟨c1, c2, c6, c7⟩

/-- C29 (witness). Full reduction of `(λp. p) (5)`: after two iterations the
lambda is on top of the work stack and its visit opens a scope, which saves
the table of the outer scope; after three iterations all marks are 1 or 2.
Full reduction of `add (p, p)` with `p` bound: after two iterations the second
occurrence of `p` is on top with the mark 2, and its visit changes no table. -/
theorem marks_move_forward_witness :
    ∃ s s1 s2 s3,
      run_steps freeExt BETA_RED_FULL 0 2 (beta_reduce_init btor0 ex_id_apply.ref) = some s ∧
      beta_reduce_step freeExt BETA_RED_FULL 0 s = some s1 ∧
      ((s1.scopes = s.scopes ∧ MarksForward s.cur_scope s1.cur_scope) ∨
        (s1.scopes = s.cur_scope :: s.scopes ∧
          ∃ n, s1.cur_scope = [(n, 1)] ∧ s1.cur_scope_lambda = some n) ∨
        s.scopes = s1.cur_scope :: s1.scopes) ∧
      s1.scopes = [s.cur_scope] ∧ MarksSettled s1.cur_scope ∧
      run_steps freeExt BETA_RED_FULL 0 2 (beta_reduce_init btor_p5 ex_add_pp.ref) = some s2 ∧
      s2.work_stack = [(ex_p8.ref, some ex_add_pp), (ex_add_pp.ref, none)] ∧
      PtrHashTable.find s2.cur_scope ex_p8 = some 2 ∧
      beta_reduce_step freeExt BETA_RED_FULL 0 s2 = some s3 ∧
      s3.cur_scope = s2.cur_scope ∧ s3.scopes = s2.scopes ∧
      s3.cur_scope_results = s2.cur_scope_results ∧ s3.scope_results = s2.scope_results := by
  refine ⟨_, _, ex_revisit_state, _, rfl, rfl, ?_, rfl, ?_, rfl, rfl, rfl, rfl, ?_⟩
  · exact (marks_move_forward freeExt BETA_RED_FULL 0 _).1 _ rfl
  · exact (marks_move_forward freeExt BETA_RED_FULL 0
      (beta_reduce_init btor0 ex_id_apply.ref)).2.2.1 btor0 ex_id_apply.ref 3 _ rfl _
      (List.mem_cons_self _ _)
  · exact ((marks_move_forward freeExt BETA_RED_FULL 0 ex_revisit_state).2.2.2.2 ex_p8.ref
      (some ex_add_pp) [(ex_add_pp.ref, none)] rfl rfl).2 _ rfl

/-- The loop of the reducer ends. For every expression `e` (a finite tree of
nodes) on which no simplification is pending (`settled`: every child
reference is its own simplification, and so is the root), every solver state,
every mode and every bound, the worklist loop of `btor_beta_reduce` is over
after at most `2 * size e` iterations: with that much fuel or more the loop
does not run out of fuel; it has stopped at a failed assertion, or it has
emptied its work stack, with the stack of scopes empty and no scope lambda.
A head lambda that is reached several times opens a scope at each
occurrence; each occurrence is a subtree of its own in the bound. -/
theorem reducer_terminates (env : Ext) (btor : Btor) (e : Ref) (mode bound : Int)
    (hs : settled env e.node = true) (he : simplify_cur env e = e) (fuel : Nat)
    (hf : 2 * e.node.size ≤ fuel) :
    (beta_reduce_loop env mode bound fuel (beta_reduce_init btor e) = .abort ∨
      ∃ s, beta_reduce_loop env mode bound fuel (beta_reduce_init btor e) = .done s ∧
        s.work_stack = [] ∧ s.scopes = [] ∧ s.scope_lambdas = [] ∧
        s.cur_scope_lambda = none) ∧
    btor_beta_reduce fuel env btor e mode bound ≠ .out_of_fuel := by
  have h := loop_ends env mode bound btor e hs he fuel hf
  refine ⟨h, ?_⟩
  unfold btor_beta_reduce
  split
  · intro hc; cases hc
  · split
    · intro hc; cases hc
    · split
      · intro hc; cases hc
      · rcases h with h | ⟨s, h, -⟩
        · rw [h]; intro hc; cases hc
        · rw [h]
          simp only
          split
          · intro hc; cases hc
          · split <;> intro hc <;> cases hc

/-- An instance of the bound on the iterations: full reduction of `and ((λp. p) (5), (λp. p) (9))`, which
reaches the head lambda `λp. p` twice: the term has 13 nodes counted as a
tree, and with fuel 26 the loop ends and the call returns `and (5, 9)`. The
scope of the lambda is open after 4 iterations, closed after 7, and open
again after 11. -/
theorem reducer_terminates_witness :
    settled freeExt ex_and_ids = true ∧ 2 * ex_and_ids.size = 26 ∧
    btor_beta_reduce 26 freeExt btor0 ex_and_ids.ref BETA_RED_FULL 0 ≠ .out_of_fuel ∧
    (∃ btor1, btor_beta_reduce 26 freeExt btor0 ex_and_ids.ref BETA_RED_FULL 0
      = .done (freeExt.and_exp ex_c5.ref ex_c9.ref, btor1)) ∧
    ∃ s4 s7 s11,
      run_steps freeExt BETA_RED_FULL 0 4 (beta_reduce_init btor0 ex_and_ids.ref) = some s4 ∧
      s4.cur_scope_lambda = some ex_id_lambda ∧
      run_steps freeExt BETA_RED_FULL 0 7 (beta_reduce_init btor0 ex_and_ids.ref) = some s7 ∧
      s7.cur_scope_lambda = none ∧
      run_steps freeExt BETA_RED_FULL 0 11 (beta_reduce_init btor0 ex_and_ids.ref) = some s11 ∧
      s11.cur_scope_lambda = some ex_id_lambda :=
  ⟨by decide, rfl,
    (reducer_terminates freeExt btor0 ex_and_ids.ref BETA_RED_FULL 0 (by decide) rfl 26
      (by decide)).2,
    ⟨_, rfl⟩, ⟨_, _, _, rfl, rfl, rfl, rfl, rfl, rfl⟩⟩

/-- C30. The loop of the reducer does not empty its work stack on every
input. Full reduction of the root lambda `λp. (λq. q) (p)`, with no binding
for `p`: the first eleven iterations run, the work stack then holds the root
lambda, and the twelfth iteration, the rebuild of the lambda, reaches
`assert (0)`. The loop stops there with the work stack not empty: for every
amount of fuel from 12 on the loop aborts, and for no amount of fuel does it
end with the work stack emptied. The term has no pending simplification. -/
theorem loop_stops_at_assertion_with_work_left :
    settled freeExt ex_outer_lambda = true ∧
    (∃ s, run_steps freeExt BETA_RED_FULL 0 11 (beta_reduce_init btor0 ex_outer_lambda.ref)
        = some s ∧
      s.work_stack = [(ex_outer_lambda.ref, none)] ∧
      beta_reduce_step freeExt BETA_RED_FULL 0 s = none) ∧
    (∀ fuel, 12 ≤ fuel →
      beta_reduce_loop freeExt BETA_RED_FULL 0 fuel (beta_reduce_init btor0 ex_outer_lambda.ref)
        = .abort) ∧
    (∀ fuel s, beta_reduce_loop freeExt BETA_RED_FULL 0 fuel
      (beta_reduce_init btor0 ex_outer_lambda.ref) ≠ .done s) := by
  have h12 : run_steps freeExt BETA_RED_FULL 0 12 (beta_reduce_init btor0 ex_outer_lambda.ref)
      = none := rfl
  have habort : ∀ fuel, 12 ≤ fuel →
      beta_reduce_loop freeExt BETA_RED_FULL 0 fuel (beta_reduce_init btor0 ex_outer_lambda.ref)
        = .abort :=
    fun fuel hf => loop_abort_of_run_steps freeExt BETA_RED_FULL 0 12 _ h12 fuel hf
  refine ⟨by decide, ⟨_, rfl, rfl, rfl⟩, habort, ?_⟩
  intro fuel s hd
  have h := loop_mono freeExt BETA_RED_FULL 0 fuel _ s hd (fuel + 12) (by omega)
  rw [habort (fuel + 12) (by omega)] at h
  cases h

/-- C31. The end-of-traversal assertions do not hold for every input. Full
reduction of `(λr. r) (5)`, where `λr. r` is the closed inner lambda of the
chain `λs. λr. r` (nested, not the first of its chain, not parameterized):
no scope is opened for it; its first visit binds `r` to 5 and records the
lambda on the stack of lambdas to unassign, and its emit does not unassign,
since it is neither the current scope lambda nor a parameterized lambda that
is not nested. After seven iterations the work stack is empty, the stack of
suspended scopes is empty, no scope lambda is current and the argument stack
holds the one node 5, but the stack of lambdas to unassign still holds the
lambda and `r` is still bound: the final assertion on that stack fails and
the call returns nothing. The apply of an ordinary closed lambda,
`(λp. p) (5)`, returns 5. -/
theorem closed_nested_lambda_leaves_binding :
    ex_closed_head.e = [ex_s8.ref, ex_closed_inner.ref] ∧
    ex_closed_inner.BTOR_IS_NESTED_LAMBDA_NODE = true ∧
    ex_closed_inner.BTOR_IS_FIRST_NESTED_LAMBDA = false ∧
    ex_closed_inner.parameterized = false ∧
    btor0.assigned_exp ex_r8 = [] ∧
    (∃ s, beta_reduce_loop freeExt BETA_RED_FULL 0 7
        (beta_reduce_init btor0 ex_apply_closed_inner.ref) = .done s ∧
      s.work_stack = [] ∧ s.scopes = [] ∧ s.scope_results = [] ∧ s.scope_lambdas = [] ∧
      s.cur_scope_lambda = none ∧ s.arg_stack = [ex_c5.ref] ∧
      s.unassign_stack = [ex_closed_inner] ∧
      s.btor.assigned_exp ex_r8 = [ex_c5.ref]) ∧
    (∀ fuel, 7 ≤ fuel →
      btor_beta_reduce_full fuel freeExt btor0 ex_apply_closed_inner.ref = .abort) ∧
    (∃ b, btor_beta_reduce_full 7 freeExt btor0 ex_id_apply.ref = .done (ex_c5.ref, b)) := by
  refine ⟨rfl, rfl, rfl, rfl, rfl, ⟨_, rfl, rfl, rfl, rfl, rfl, rfl, rfl, rfl, rfl⟩, ?_,
    ⟨_, rfl⟩⟩
  intro fuel hfuel
  have h : ∃ s, beta_reduce_loop freeExt BETA_RED_FULL 0 7
      (beta_reduce_init btor0 ex_apply_closed_inner.ref) = .done s ∧
      s.unassign_stack = [ex_closed_inner] := ⟨_, rfl, rfl⟩
  obtain ⟨s, hs, hu⟩ := h
  have hm := loop_mono freeExt BETA_RED_FULL 0 7 _ s hs fuel hfuel
  unfold btor_beta_reduce_full btor_beta_reduce
  simp only [hm, hu]
  simp [BETA_RED_FULL, BETA_RED_LAMBDA_CHAINS, BETA_RED_BOUNDED]

/-- C32 (as stated, fails). The args part of a stored key can have a free
parameter. Full reduction of `λp. (λq. 5) (p)` with `p` not bound: the
apply in the body has the function `λq. 5`, which is not parameterized, so
its result 5 is stored; the key is `(λq. 5, args (p))`, the args node rebuilt
from the reduced argument `p`, and it is parameterized. -/
theorem cache_key_args_parameterized :
    ∃ b, btor_beta_reduce_full 30 freeExt btor0 ex_five_outer.ref = .done (ex_c5.ref, b) ∧
      b.cache = some [((ex_five_lambda.ref, freeExt.args_exp [ex_p8.ref]), ex_c5.ref)] ∧
      cache_keys btor0.cache = [] ∧
      ex_five_lambda.parameterized = false ∧
      (freeExt.args_exp [ex_p8.ref]).node.parameterized = true ∧
      btor0.assigned_exp ex_p8 = [] ∧
      ex_five_outer.e = [ex_p8.ref, ex_apply_five.ref] ∧
      ex_apply_five.e = [ex_five_lambda.ref, ex_args_p.ref] :=
  ⟨_, rfl, rfl, rfl, rfl, rfl, rfl, rfl, rfl⟩

/-- C32 (amended). The lambda part of every stored key is closed: when a call
of the full/bounded/chain reducer returns, every key (L, A) of the cross-call
cache that was not a key before the call has a lambda part L that is a lambda
node, not inverted, and the simplification of a lambda that is not
parameterized; where simplification leaves lambdas unchanged, L is not
parameterized. Outside full mode no key is added. Nothing is promised
about the args part A. -/
theorem cache_keys_lambda_closed (fuel : Nat) (env : Ext) (btor btor1 : Btor) (e result : Ref)
    (mode bound : Int)
    (h : btor_beta_reduce fuel env btor e mode bound = .done (result, btor1)) :
    (∀ key ∈ cache_keys btor1.cache, key ∈ cache_keys btor.cache ∨ LambdaClosed env key) ∧
    ((∀ r : Ref, r.node.BTOR_IS_LAMBDA_NODE = true → env.simplify r = r) →
      ∀ key ∈ cache_keys btor1.cache, key ∉ cache_keys btor.cache →
        key.1.node.BTOR_IS_LAMBDA_NODE = true ∧ key.1.regular = true ∧
        key.1.node.parameterized = false) ∧
    (mode ≠ BETA_RED_FULL → btor1.cache = btor.cache) := by
  have hk := reduce_keys fuel env btor btor1 e result mode bound h
  refine ⟨hk, ?_, fun hmode => reduce_cache fuel env btor btor1 e result mode bound hmode h⟩
  intro hsimp key hkey hnew
  rcases hk key hkey with h1 | ⟨hreg, hlam, fn, hfn, hpar, hkf⟩
  · exact absurd h1 hnew
  · rw [hsimp fn hfn] at hkf
    exact ⟨hlam, hreg, by rw [hkf]; exact hpar⟩

/-- C32 witness: the full reduction of `λp. (λq. 5) (p)` returns 5, and the key
it stores has the closed lambda part `λq. 5`. -/
theorem cache_keys_lambda_closed_witness :
    ∃ b, btor_beta_reduce 30 freeExt btor0 ex_five_outer.ref BETA_RED_FULL 0
        = .done (ex_c5.ref, b) ∧
      (∀ key ∈ cache_keys b.cache, key ∈ cache_keys btor0.cache ∨ LambdaClosed freeExt key) ∧
      ((∀ r : Ref, r.node.BTOR_IS_LAMBDA_NODE = true → freeExt.simplify r = r) →
        ∀ key ∈ cache_keys b.cache, key ∉ cache_keys btor0.cache →
          key.1.node.BTOR_IS_LAMBDA_NODE = true ∧ key.1.regular = true ∧
          key.1.node.parameterized = false) ∧
      (BETA_RED_FULL ≠ BETA_RED_FULL → b.cache = btor0.cache) := by
  refine ⟨_, rfl, ?_⟩
  exact cache_keys_lambda_closed 30 freeExt btor0 _ ex_five_outer.ref ex_c5.ref BETA_RED_FULL 0 rfl

/-- C33. The revisit of a done node that is not parameterized does not agree
with its first visit. Full reduction of `add ((λp. p) (5), (λp. p) (5))`, in
which one apply node is both children of the add: the apply is not
parameterized and has a lambda below. The second child is visited first and
is reduced to 5; after eight iterations the apply is on top of the work stack
again, as the first child, with mark 2 in the same scope and no entry in the
results table (only parameterized nodes are stored); the revisit branch
pushes a copy of the apply node itself. The call returns
`add ((λp. p) (5), 5)`, not `add (5, 5)`, while `full` of the apply alone
returns 5; the same happens without a cross-call cache. -/
theorem revisit_pushes_unreduced_node :
    (∃ s8 s9, run_steps freeExt BETA_RED_FULL 0 8 (beta_reduce_init btor0 ex_add_apps.ref)
        = some s8 ∧
      beta_reduce_step freeExt BETA_RED_FULL 0 s8 = some s9 ∧
      s8.work_stack = [(ex_id_apply.ref, some ex_add_apps), (ex_add_apps.ref, none)] ∧
      s8.arg_stack = [ex_c5.ref] ∧ s8.scopes = [] ∧
      PtrHashTable.find s8.cur_scope ex_id_apply = some 2 ∧
      PtrHashTable.find s8.cur_scope_results ex_id_apply = none ∧
      s9.arg_stack = [ex_id_apply.ref, ex_c5.ref]) ∧
    ex_add_apps.e = [ex_id_apply.ref, ex_id_apply.ref] ∧
    ex_id_apply.parameterized = false ∧ ex_id_apply.lambda_below = true ∧
    (∃ b, btor_beta_reduce_full 10 freeExt btor0 ex_add_apps.ref
      = .done (freeExt.add_exp ex_id_apply.ref ex_c5.ref, b)) ∧
    (∃ b, btor_beta_reduce_full 10 freeExt { btor0 with cache := none } ex_add_apps.ref
      = .done (freeExt.add_exp ex_id_apply.ref ex_c5.ref, b)) ∧
    (∃ b, btor_beta_reduce_full 10 freeExt btor0 ex_id_apply.ref = .done (ex_c5.ref, b)) ∧
    freeExt.add_exp ex_id_apply.ref ex_c5.ref ≠ freeExt.add_exp ex_c5.ref ex_c5.ref :=
  ⟨⟨_, _, rfl, rfl, rfl, rfl, rfl, rfl, rfl, rfl⟩, rfl, rfl, rfl, ⟨_, rfl⟩, ⟨_, rfl⟩, ⟨_, rfl⟩,
    by decide⟩

/-- C34. The equation fails where the args nodes share a closed redex. Full
reduction of `and ((λq. q) ((λp. p) (5)), (λq. q) (¬ (λp. p) (5)))`: the two
applies have the same closed lambda `λq. q` and the distinct args nodes
`args ((λp. p) (5))` and `args (¬ (λp. p) (5))`. Alone, the first apply
reduces to 5 and the second to `¬ 5`. In the conjunction the second apply is
visited first and reduces the redex `(λp. p) (5)` to 5; when the args node of
the first apply is visited, after 18 iterations, the redex is on top of the
work stack with mark 2 and the revisit pushes the redex itself, so the call
returns `and ((λp. p) (5), ¬ 5)`, not `and (5, ¬ 5)`. The lambda `λq. q` is
not recorded in the enclosing table: after 20 iterations, before its second
visit, it has no mark there. -/
theorem shared_redex_in_args_left_unreduced :
    ex_and_AB.e = [ex_apply_A.ref, ex_apply_B.ref] ∧
    ex_apply_A.e = [ex_inner_id.ref, ex_args_app.ref] ∧
    ex_apply_B.e = [ex_inner_id.ref, ex_args_napp.ref] ∧
    ex_args_app ≠ ex_args_napp ∧
    ex_inner_id.parameterized = false ∧
    ex_inner_id.BTOR_IS_NESTED_LAMBDA_NODE = false ∧
    (∃ b, btor_beta_reduce_full 30 freeExt btor0 ex_apply_A.ref = .done (ex_c5.ref, b)) ∧
    (∃ b, btor_beta_reduce_full 30 freeExt btor0 ex_apply_B.ref = .done (⟨ex_c5, true⟩, b)) ∧
    (∃ b, btor_beta_reduce_full 30 freeExt btor0 ex_and_AB.ref
      = .done (freeExt.and_exp ex_id_apply.ref ⟨ex_c5, true⟩, b)) ∧
    (∃ b, btor_beta_reduce_full 30 freeExt { btor0 with cache := none } ex_and_AB.ref
      = .done (freeExt.and_exp ex_id_apply.ref ⟨ex_c5, true⟩, b)) ∧
    freeExt.and_exp ex_id_apply.ref ⟨ex_c5, true⟩ ≠ freeExt.and_exp ex_c5.ref ⟨ex_c5, true⟩ ∧
    (∃ s18 s19 s20, run_steps freeExt BETA_RED_FULL 0 18 (beta_reduce_init btor0 ex_and_AB.ref)
        = some s18 ∧
      beta_reduce_step freeExt BETA_RED_FULL 0 s18 = some s19 ∧
      beta_reduce_step freeExt BETA_RED_FULL 0 s19 = some s20 ∧
      s18.work_stack.head? = some (ex_id_apply.ref, some ex_args_app) ∧
      PtrHashTable.find s18.cur_scope ex_id_apply = some 2 ∧
      s19.arg_stack = ex_id_apply.ref :: s18.arg_stack ∧
      s20.work_stack.head? = some (ex_inner_id.ref, some ex_apply_A) ∧
      PtrHashTable.find s20.cur_scope ex_inner_id = none) :=
  ⟨rfl, rfl, rfl, by decide, rfl, rfl, ⟨_, rfl⟩, ⟨_, rfl⟩, ⟨_, rfl⟩, ⟨_, rfl⟩, by decide,
    ⟨_, _, _, rfl, rfl, rfl, rfl, rfl, rfl, rfl, rfl⟩⟩

/-- C35 (counterexample). The chain `λp. λq. add (p, q)` with the args node
`args (c1)`, in a state where `q`, the parameter of the deeper level, is bound
to `c2` and `p` has no binding: `btor_assign_args` binds `p` to `c1`, and
`btor_unassign_params` pops the binding of `p` and goes on to the level of
`q`, whose stack is not empty, and pops the binding that was there at entry:
after the two calls the binding stack of `q` is empty. -/
theorem assign_unassign_pops_deeper_binding :
    ∃ b1 b2, btor_assign_args btor_q ex_chain_head.ref ex_args_c1.ref = some b1 ∧
      btor_unassign_params b1 ex_chain_head.ref = some b2 ∧
      btor_q.assigned_exp ex_p3 = [] ∧ btor_q.assigned_exp ex_q3 = [ex_c2.ref] ∧
      b1.assigned_exp ex_p3 = [ex_c1.ref] ∧ b1.assigned_exp ex_q3 = [ex_c2.ref] ∧
      b2.assigned_exp ex_p3 = [] ∧ b2.assigned_exp ex_q3 = [] :=
  ⟨_, _, rfl, rfl, rfl, rfl, rfl, rfl, rfl, rfl⟩

/-- C35 (amended). Let `L` be the head of a well-formed chain with the
pairwise distinct parameters `p1 … pn` and `args` a regular reference to an
args node with `k ≤ n` arguments of the widths of `p1 … pk`. Then
`btor_assign_args (L, args)` followed by `btor_unassign_params (L)` returns,
and the binding stacks after the two calls are the stacks at entry with the
top binding removed from every level after the `k`-th up to the first level
whose stack was empty at entry. The two calls are a round trip, the binding
stack of every parameter being exactly as before, when `k = n` or the level
`k + 1` has no binding at entry. Cache, marks and rewrite level are as
before. -/
theorem assign_unassign_round_trip (btor : Btor) (L : BtorNode) (args : Ref)
    (hreg : args.regular = true) (hargs : args.node.BTOR_IS_ARGS_NODE = true)
    (hwf : chain_wf L = true) (hnd : (chain_params L).Nodup)
    (hlen : args.node.e.length ≤ (chain_params L).length)
    (hwidth : List.Forall₂ (fun a p => a.node.len = p.len) args.node.e
      ((chain_params L).take args.node.e.length)) :
    ∃ btor1 btor2, btor_assign_args btor L.ref args = some btor1 ∧
      btor_unassign_params btor1 L.ref = some btor2 ∧
      btor2.assigned_exp = pop_bindings btor.assigned_exp
        (((chain_params L).drop args.node.e.length).takeWhile
          fun p => !(btor.assigned_exp p).isEmpty) ∧
      ((∀ p, (chain_params L).get? args.node.e.length = some p → btor.assigned_exp p = []) →
        btor2.assigned_exp = btor.assigned_exp) ∧
      btor2.cache = btor.cache ∧ btor2.beta_mark = btor.beta_mark ∧
      btor2.rewrite_level = btor.rewrite_level := by
  obtain ⟨i, p, body, v1, rfl, hk, hp⟩ := chain_wf_shape L hwf
  have hlam : (BtorNode.n2 i p false body v1).BTOR_IS_LAMBDA_NODE = true := by
    simp [BtorNode.BTOR_IS_LAMBDA_NODE, hk]
  have hinv : args.inv = false := by simpa [Ref.regular] using hreg
  obtain ⟨btor1, ha, h1, h2, h3, h4, h5⟩ :=
    assign_args_loop_zip (.n2 i p false body v1) args.node.e btor hwf hnd hlen
      (forall₂_take_get _ _ _ hwidth)
  have hloop := assign_unassign_loop (.n2 i p false body v1) args.node.e btor btor1 hwf hnd hlen
    h1 h2
  refine ⟨btor1, { btor1 with
      assigned_exp := pop_bindings btor.assigned_exp
        (((chain_params (.n2 i p false body v1)).drop args.node.e.length).takeWhile
          fun p => !(btor.assigned_exp p).isEmpty) }, ?_, ?_, rfl, ?_, h3, h4, h5⟩
  · simpa [btor_assign_args, hargs, hlam, BtorNode.ref, Ref.regular, hinv] using ha
  · simp only [btor_unassign_params, BtorNode.ref, Ref.regular, BtorNode.BTOR_IS_LAMBDA_NODE,
      BtorNode.kind, info_n2, hk, BtorNode.e, List.head?_cons, hp, hloop]
    simp
  · intro hstop
    show pop_bindings btor.assigned_exp _ = btor.assigned_exp
    have hnil : ((chain_params (.n2 i p false body v1)).drop args.node.e.length).takeWhile
        (fun p => !(btor.assigned_exp p).isEmpty) = [] := by
      cases hd : (chain_params (.n2 i p false body v1)).drop args.node.e.length with
      | nil => rfl
      | cons x rest =>
        have hx : (chain_params (.n2 i p false body v1)).get? args.node.e.length = some x := by
          have := List.head?_drop (chain_params (.n2 i p false body v1)) args.node.e.length
          rw [hd] at this
          simpa using this.symm
        simp [List.takeWhile_cons, hstop x hx]
    rw [hnil]
    funext q
    simp [pop_bindings]

/-- C35 (witness). The chain `λp. λq. add (p, q)`: with `args (c1, c2)`, in a
state where `p` is bound twice and `q` once, and with `args (c1)` in a state
without bindings, the two calls leave every binding stack as it was. -/
theorem assign_unassign_round_trip_witness :
    (∃ b1 b2, btor_assign_args btor_pq ex_chain_head.ref ex_args_c1c2.ref = some b1 ∧
      btor_unassign_params b1 ex_chain_head.ref = some b2 ∧
      b2.assigned_exp = btor_pq.assigned_exp) ∧
    (∃ b1 b2, btor_assign_args btor0 ex_chain_head.ref ex_args_c1.ref = some b1 ∧
      btor_unassign_params b1 ex_chain_head.ref = some b2 ∧
      b2.assigned_exp = btor0.assigned_exp) :=
  have h1 := assign_unassign_round_trip btor_pq ex_chain_head ex_args_c1c2.ref rfl rfl
    (by decide) (by decide) (by decide)
    (List.Forall₂.cons (by decide) (List.Forall₂.cons (by decide) List.Forall₂.nil))
  have h2 := assign_unassign_round_trip btor0 ex_chain_head ex_args_c1.ref rfl rfl
    (by decide) (by decide) (by decide) (List.Forall₂.cons (by decide) List.Forall₂.nil)
  ⟨⟨h1.choose, h1.choose_spec.choose, h1.choose_spec.choose_spec.1,
      h1.choose_spec.choose_spec.2.1,
      h1.choose_spec.choose_spec.2.2.2.1 (by intro p hp; cases hp)⟩,
    ⟨h2.choose, h2.choose_spec.choose, h2.choose_spec.choose_spec.1,
      h2.choose_spec.choose_spec.2.1,
      h2.choose_spec.choose_spec.2.2.2.1 (by
        intro p hp
        have : p = ex_q3 := by
          have h3 : (chain_params ex_chain_head).get? ex_args_c1.ref.node.e.length
              = some ex_q3 := by decide
          rw [h3] at hp
          exact (Option.some.inj hp).symm
        subst this
        rfl)⟩⟩

/-- C36. The reading loop of the Sudoku example does not reject bad input.
The test `cur != 'x' && cur <= '0' && cur > '9'` is false for every character
(no code is at most 48 and above 57), so the inner loop reports "Input error"
exactly when the input ends: `skip_whitespace` is `none` if and only if every
character left is whitespace. An input that begins with the character `a`, or
with `0`, or with `a` after a blank and a newline, is not reported: the
character ends the inner loop and the assertion
`cur == 'x' || (cur > '0' && cur <= '9')` fails. The empty input and an input
of whitespace only are reported as "Input error"; 81 times `x` is read. -/
theorem sudoku_accepts_bad_characters :
    (∀ input, skip_whitespace input = none ↔ input.all isspace = true) ∧
    read_sudoku [97] = .assertion_failed ∧
    read_sudoku [48] = .assertion_failed ∧
    read_sudoku [32, 10, 97, 120] = .assertion_failed ∧
    skip_whitespace [97, 120] = some (97, [120]) ∧
    97 - 48 = 49 ∧
    read_sudoku [] = .input_error ∧
    read_sudoku [32, 10] = .input_error ∧
    read_sudoku (List.replicate 81 120) = .cells (List.replicate 81 none) := by
  refine ⟨?_, by decide, by decide, by decide, by decide, by decide, by decide, by decide,
    by decide⟩
  intro input
  induction input with
  | nil => simp [skip_whitespace]
  | cons c rest ih =>
    unfold skip_whitespace
    split
    · rename_i hc
      exfalso
      simp only [Bool.and_eq_true, decide_eq_true_eq] at hc
      omega
    · by_cases hs : isspace c = true
      · simp only [List.all_cons, hs, Bool.true_and, if_true]
        exact ih
      · simp only [List.all_cons, hs, Bool.false_and, Bool.false_eq_true, iff_false, if_false]
        intro h
        cases h
end Beta
